import Mathlib

/-! HDF5 core: free-space list, object-header attributes, contiguous sieve I/O.

A shallow embedding of three parts of the library:

* `H5HFflist.c`  : the fractal-heap free-space list (`namespace H5HF`),
* `H5Oattribute.c`: compact/dense attribute storage of an object header
  (`namespace H5O`),
* `H5Fcontig.c`  : contiguous dataset I/O through the data sieve buffer
  (`namespace H5F`).

Pointers to caller-owned objects are modelled by natural-number handles, keys
read through pointers by the value they point to, and a failed `HDassert`
(the debug build aborts there) or behaviour C leaves undefined by the result
`none`.  Addresses and sizes of `H5Fcontig.c` are unsigned 64-bit integers,
kept as natural numbers with the arithmetic taken modulo `2^64`.
-/

set_option autoImplicit false

namespace H5HF

/-! ## Return codes -/

/-- The `herr_t` results used by the free list. -/
inductive herr_t where
  | SUCCEED
  | FAIL
  deriving DecidableEq, Repr

/-- The `htri_t` results used by the free list. -/
inductive htri_t where
  | TRUE
  | FALSE
  | FAIL
  deriving DecidableEq, Repr

/-! ## Ordered index (skip list) -/

/-- Modelled from the spec: the Ordered Index collaborator (`H5SL_t`, whose
implementation is not part of the sources at hand), an ordered map from keys
to items, kept here as a list of entries in increasing key order. -/
abbrev H5SL (β : Type) := List (Nat × β)

/-- Modelled from the spec: `H5SL_insert`, the insert operation of the Ordered
Index; an entry whose key is already present is refused (`none`). -/
def H5SL_insert {β : Type} : H5SL β → β → Nat → Option (H5SL β)
  | [], item, key => some [(key, item)]
  | (k, v) :: rest, item, key =>
    if key < k then some ((key, item) :: (k, v) :: rest)
    else if key = k then none
    else match H5SL_insert rest item key with
      | none => none
      | some rest2 => some ((k, v) :: rest2)

/-- Modelled from the spec: `H5SL_search`, the exact search of the Ordered
Index. -/
def H5SL_search {β : Type} : H5SL β → Nat → Option β
  | [], _ => none
  | (k, v) :: rest, key => if k = key then some v else H5SL_search rest key

/-- Modelled from the spec: `H5SL_greater`, the find-greater-or-equal search
of the Ordered Index: the first entry, in key order, whose key is at least the
given key. -/
def H5SL_greater {β : Type} : H5SL β → Nat → Option β
  | [], _ => none
  | (k, v) :: rest, key => if key ≤ k then some v else H5SL_greater rest key

/-- Modelled from the spec: `H5SL_remove_first`, which removes and returns the
first item (lowest key) of the Ordered Index. -/
def H5SL_remove_first {β : Type} : H5SL β → Option (β × H5SL β)
  | [] => none
  | (_, v) :: rest => some (v, rest)

/-- Modelled from the spec: `H5SL_remove`, which removes and returns the item
stored under a key. -/
def H5SL_remove {β : Type} : H5SL β → Nat → Option (β × H5SL β)
  | [], _ => none
  | (k, v) :: rest, key =>
    if k = key then some (v, rest)
    else match H5SL_remove rest key with
      | none => none
      | some (w, rest2) => some (w, (k, v) :: rest2)

/-- Modelled from the spec: `H5SL_count`, the number of items of the Ordered
Index. -/
def H5SL_count {β : Type} (sl : H5SL β) : Nat := sl.length

/-- The item stored under `key` is replaced by `f item`.  The C code reaches
an item through the pointer the index hands out and mutates it in place; the
list model has to write the changed item back. -/
def H5SL_modify {β : Type} : H5SL β → Nat → (β → β) → H5SL β
  | [], _, _ => []
  | (k, v) :: rest, key, f =>
    if k = key then (k, f v) :: rest else (k, v) :: H5SL_modify rest key f

/-! ## Integer logarithm -/

/-- One halving step of the integer logarithm, with `fuel` bounding the
number of halvings. -/
def log2_loop : Nat → Nat → Nat
  | 0, _ => 0
  | fuel + 1, n => if 2 ≤ n then log2_loop fuel (n / 2) + 1 else 0

/-- Modelled from the spec: `H5V_log2_gen` of `H5Vprivate.h` (not part of the
sources at hand), the floor of the base-2 logarithm, `0` for `0`. -/
def H5V_log2_gen (n : Nat) : Nat := log2_loop n n

/-! ## Data model -/

/-- Structure for storing the single free list section (`H5HF_flist_single_t`).
A key pointer is `none` when it is `NULL`, otherwise the value it points to. -/
structure H5HF_flist_single_t where
  node : Option Nat
  size_key : Option Nat
  addr_key : Option Nat
  deriving DecidableEq, Repr

/-- Free list node for free list sections of the same size
(`H5HF_flist_node_t`): `sec_list` maps the address key to the section. -/
structure H5HF_flist_node_t where
  sec_size : Nat
  sec_list : H5SL Nat
  deriving DecidableEq, Repr

/-- Main free list info (`struct H5HF_freelist_t`).  `bins` is `none` while the
array is not allocated; a bin is `none` while it has no skip list. -/
structure H5HF_freelist_t where
  tot_space : Nat
  sec_count : Nat
  single : H5HF_flist_single_t
  nbins : Nat
  bins : Option (List (Option (H5SL H5HF_flist_node_t)))
  using_bins : Bool
  deriving DecidableEq, Repr

/-- Set the modifiable free list parameters (`H5HF_flist_init`). -/
def H5HF_flist_init (flist : H5HF_freelist_t) : H5HF_freelist_t :=
  { flist with
    tot_space := 0
    sec_count := 0
    single := { node := none, size_key := none, addr_key := none }
    bins := none
    using_bins := false }

/-- Allocate and set up a free list (`H5HF_flist_create`); the allocation is
taken to succeed. -/
def H5HF_flist_create (max_index_bits : Nat) : H5HF_freelist_t :=
  H5HF_flist_init
    { tot_space := 0, sec_count := 0,
      single := { node := none, size_key := none, addr_key := none },
      nbins := max_index_bits, bins := none, using_bins := false }

/-- Store a skip list into `bins[bin]`. -/
def set_bin (bins : List (Option (H5SL H5HF_flist_node_t))) (bin : Nat)
    (sl : H5SL H5HF_flist_node_t) : List (Option (H5SL H5HF_flist_node_t)) :=
  bins.set bin (some sl)

/-- Add a section to the free list bins (`H5HF_flist_add_bin_node`).  Memory
allocation (`H5SL_create`, `H5FL_MALLOC`) is taken to succeed. -/
def H5HF_flist_add_bin_node (flist : H5HF_freelist_t) (node size_key addr_key : Nat) :
    Option (H5HF_freelist_t × herr_t) :=
  let bin := H5V_log2_gen size_key
  -- HDassert(bin < flist->nbins)
  if bin < flist.nbins then
    match flist.bins with
    | none => none
    | some bins =>
      match bins[bin]? with
      | none => none
      | some slot =>
        -- bins[bin] == NULL: create the skip list; otherwise search it
        let binlist : H5SL H5HF_flist_node_t := slot.getD []
        let found : Option H5HF_flist_node_t :=
          match slot with
          | none => none
          | some sl => H5SL_search sl size_key
        match found with
        | none =>
          -- new size node with an empty section list, inserted into the bin
          let flist_node : H5HF_flist_node_t := { sec_size := size_key, sec_list := [] }
          match H5SL_insert binlist flist_node flist_node.sec_size with
          | none => some ({ flist with bins := some (set_bin bins bin binlist) }, herr_t.FAIL)
          | some binlist2 =>
            match H5SL_insert flist_node.sec_list node addr_key with
            | none => some ({ flist with bins := some (set_bin bins bin binlist2) }, herr_t.FAIL)
            | some sec2 =>
              some ({ flist with
                      bins := some (set_bin bins bin
                        (H5SL_modify binlist2 size_key (fun fn => { fn with sec_list := sec2 }))) },
                    herr_t.SUCCEED)
        | some flist_node =>
          match H5SL_insert flist_node.sec_list node addr_key with
          | none => some (flist, herr_t.FAIL)
          | some sec2 =>
            some ({ flist with
                    bins := some (set_bin bins bin
                      (H5SL_modify binlist flist_node.sec_size
                        (fun fn => { fn with sec_list := sec2 }))) },
                  herr_t.SUCCEED)
  else none

/-- Allocate the array of `nbins` empty bins (`H5FL_SEQ_CALLOC`). -/
def alloc_bins (nbins : Nat) : List (Option (H5SL H5HF_flist_node_t)) :=
  List.replicate nbins none

/-- The check `if(flist->bins == NULL)` of `H5HF_flist_add`, which allocates the
bins for free space sizes when they are absent. -/
def ensure_bins (flist : H5HF_freelist_t) : H5HF_freelist_t :=
  match flist.bins with
  | none => { flist with bins := some (alloc_bins flist.nbins) }
  | some _ => flist

/-- The block of `H5HF_flist_add` entered with a single section and no bins
in use: allocate the bins if they are absent, insert the single section into
the bins, clear the single slot and switch to the bins. -/
def move_single_to_bins (flist : H5HF_freelist_t) : Option (H5HF_freelist_t × herr_t) :=
  -- HDassert(flist->single.node)
  match flist.single.node, flist.single.size_key, flist.single.addr_key with
  | some snode, some ssize, some saddr =>
    match H5HF_flist_add_bin_node (ensure_bins flist) snode ssize saddr with
    | none => none
    | some (flist2, herr_t.FAIL) => some (flist2, herr_t.FAIL)
    | some (flist2, herr_t.SUCCEED) =>
      some ({ flist2 with
              single := { flist2.single with node := none },
              using_bins := true }, herr_t.SUCCEED)
  | _, _, _ => none

/-- Add a section of free space to the free list (`H5HF_flist_add`). -/
def H5HF_flist_add (flist : H5HF_freelist_t) (node size_key addr_key : Nat) :
    Option (H5HF_freelist_t × herr_t) :=
  if flist.sec_count = 0 then
    -- HDassert(flist->single.node == NULL)
    if flist.single.node = none then
      some ({ flist with
              single := { node := some node, size_key := some size_key,
                          addr_key := some addr_key },
              sec_count := flist.sec_count + 1 }, herr_t.SUCCEED)
    else none
  else
    let migrated : Option (H5HF_freelist_t × herr_t) :=
      if flist.sec_count = 1 ∧ flist.using_bins = false then move_single_to_bins flist
      else some (flist, herr_t.SUCCEED)
    match migrated with
    | none => none
    | some (flist3, herr_t.FAIL) => some (flist3, herr_t.FAIL)
    | some (flist3, herr_t.SUCCEED) =>
      -- HDassert(flist->single.node == NULL)
      if flist3.single.node = none then
        match H5HF_flist_add_bin_node flist3 node size_key addr_key with
        | none => none
        | some (flist4, herr_t.FAIL) => some (flist4, herr_t.FAIL)
        | some (flist4, herr_t.SUCCEED) =>
          some ({ flist4 with sec_count := flist4.sec_count + 1 }, herr_t.SUCCEED)
      else none

/-- The loop `while(bin < flist->nbins && flist->bins[bin] == NULL) bin++`. -/
def skip_null_bins (bins : List (Option (H5SL H5HF_flist_node_t))) (nbins : Nat) :
    Nat → Nat → Nat
  | 0, bin => bin
  | fuel + 1, bin =>
    if bin < nbins ∧ bins[bin]? = some none then skip_null_bins bins nbins fuel (bin + 1)
    else bin

/-- The body of `if((flist_node = H5SL_greater(flist->bins[bin], &request)))` in
`H5HF_flist_find_bin_node`: take the first section off the size node found in
`bins[bin]` (whose skip list is `sl`) and drop the size node when it has become
empty. -/
def take_first_section (bins : List (Option (H5SL H5HF_flist_node_t))) (bin : Nat)
    (sl : H5SL H5HF_flist_node_t) (flist_node : H5HF_flist_node_t) :
    List (Option (H5SL H5HF_flist_node_t)) × htri_t × Option Nat :=
  -- take the first section off the list (the one with the lowest address)
  match H5SL_remove_first flist_node.sec_list with
  | none => (bins, htri_t.FAIL, none)
  | some (node, sec2) =>
    let flist_node2 : H5HF_flist_node_t := { flist_node with sec_list := sec2 }
    let sl2 := H5SL_modify sl flist_node.sec_size (fun _ => flist_node2)
    if H5SL_count sec2 = 0 then
      match H5SL_remove sl2 flist_node2.sec_size with
      | none => (set_bin bins bin sl2, htri_t.FAIL, some node)
      | some (tmp_flist_node, sl3) =>
        if tmp_flist_node ≠ flist_node2 then (set_bin bins bin sl3, htri_t.FAIL, some node)
        else (set_bin bins bin sl3, htri_t.TRUE, some node)
    else (set_bin bins bin sl2, htri_t.TRUE, some node)

/-- The loop `do ... while(bin < flist->nbins)` of `H5HF_flist_find_bin_node`:
the result is the new bin array, the return code and the section found. -/
def find_bin_loop (nbins request : Nat) :
    Nat → List (Option (H5SL H5HF_flist_node_t)) → Nat →
      Option (List (Option (H5SL H5HF_flist_node_t)) × htri_t × Option Nat)
  | 0, bins, _ => some (bins, htri_t.FALSE, none)
  | fuel + 1, bins, bin =>
    match bins[bin]? with
    | none => none
    | some none =>
      if bin + 1 < nbins then find_bin_loop nbins request fuel bins (bin + 1)
      else some (bins, htri_t.FALSE, none)
    | some (some sl) =>
      match H5SL_greater sl request with
      | some flist_node => some (take_first_section bins bin sl flist_node)
      | none =>
        if bin + 1 < nbins then find_bin_loop nbins request fuel bins (bin + 1)
        else some (bins, htri_t.FALSE, none)

/-- Locate a section in the bins that is large enough to fulfill the request
(`H5HF_flist_find_bin_node`). -/
def H5HF_flist_find_bin_node (flist : H5HF_freelist_t) (request : Nat) :
    Option (H5HF_freelist_t × htri_t × Option Nat) :=
  -- HDassert(request > 0)
  if 0 < request then
    let bin0 := H5V_log2_gen request
    -- HDassert(bin < flist->nbins)
    if bin0 < flist.nbins then
      match flist.bins with
      | none => none
      | some bins =>
        let bin := skip_null_bins bins flist.nbins (flist.nbins - bin0) bin0
        if bin < flist.nbins then
          match find_bin_loop flist.nbins request (flist.nbins - bin) bins bin with
          | none => none
          | some (bins2, r, node) => some ({ flist with bins := some bins2 }, r, node)
        else some (flist, htri_t.FALSE, none)
    else none
  else none

/-- Locate a section of free space that is large enough to fulfill the request
(`H5HF_flist_find`); the third component is what was stored through `node`. -/
def H5HF_flist_find (flist : H5HF_freelist_t) (request : Nat) :
    Option (H5HF_freelist_t × htri_t × Option Nat) :=
  -- HDassert(request > 0)
  if 0 < request then
    if 0 < flist.sec_count then
      let searched : Option (H5HF_freelist_t × htri_t × Option Nat) :=
        if flist.sec_count = 1 ∧ flist.using_bins = false then
          -- HDassert(flist->single.node)
          match flist.single.node, flist.single.size_key with
          | some snode, some ssize =>
            if request ≤ ssize then
              some ({ flist with single := { flist.single with node := none } },
                    htri_t.TRUE, some snode)
            else some (flist, htri_t.FALSE, none)
          | _, _ => none
        else
          -- HDassert(flist->single.node == NULL)
          if flist.single.node = none then H5HF_flist_find_bin_node flist request
          else none
      match searched with
      | none => none
      | some (flist2, htri_t.TRUE, node) =>
        let flist3 := { flist2 with sec_count := flist2.sec_count - 1 }
        if flist3.sec_count = 0 then
          some ({ flist3 with using_bins := false }, htri_t.TRUE, node)
        else some (flist3, htri_t.TRUE, node)
      | some (flist2, r, node) => some (flist2, r, node)
    else some (flist, htri_t.FALSE, none)
  else none

/-- The callback `H5HF_flist_node_free_cb`, run by `H5SL_destroy` on a size node
of a bin: the skip list of the sections of that size is destroyed with the
free operator of the free list, which is thereby called on every section of
the node, in address order, with the address key.  The result lists these
calls. -/
def H5HF_flist_node_free_cb (flist_node : H5HF_flist_node_t) : List (Nat × Option Nat) :=
  flist_node.sec_list.map (fun e => (e.2, some e.1))

/-- Modelled from the spec: `H5SL_destroy` on a bin, the full-traversal
destruction of the Ordered Index, which calls the per-item callback (here
`H5HF_flist_node_free_cb`) on every item in key order. -/
def destroy_bin : Option (H5SL H5HF_flist_node_t) → List (Nat × Option Nat)
  | none => []
  | some sl => (sl.map (fun e => H5HF_flist_node_free_cb e.2)).flatten

/-- Reset the free list by freeing all existing sections and restoring the free
list info to initial conditions (`H5HF_flist_reset`).  The second component
lists the calls of `node_free_op`, in the order they are made: the section and
the address key passed.  The bins `u < nbins` are cleared in turn. -/
def H5HF_flist_reset (flist : H5HF_freelist_t) :
    Option (H5HF_freelist_t × List (Nat × Option Nat)) :=
  let single_step : Option (H5HF_freelist_t × List (Nat × Option Nat)) :=
    if flist.sec_count = 1 ∧ flist.using_bins = false then
      -- HDassert(flist->single.node != NULL)
      match flist.single.node with
      | none => none
      | some snode =>
        some ({ flist with single := { flist.single with node := none } },
              [(snode, flist.single.addr_key)])
    else some (flist, [])
  match single_step with
  | none => none
  | some (flist1, freed1) =>
    -- HDassert(flist->single.node == NULL)
    if flist1.single.node = none then
      let freed2 : List (Nat × Option Nat) :=
        match flist1.bins with
        | none => []
        | some bins => ((bins.take flist1.nbins).map destroy_bin).flatten
      some (H5HF_flist_init flist1, freed1 ++ freed2)
    else none

/-- Destroy and deallocate the free list structure (`H5HF_flist_free`): the
list is reset and then released; the result lists the calls of
`node_free_op`. -/
def H5HF_flist_free (flist : H5HF_freelist_t) : Option (List (Nat × Option Nat)) :=
  match H5HF_flist_reset flist with
  | none => none
  | some (_, freed) => some freed

/-! ## Tracked sections and call sequences -/

/-- A tracked section: the section handle, its size key and its address key. -/
structure Section where
  node : Nat
  size : Nat
  addr : Nat
  deriving DecidableEq, Repr

/-- The sections held by one size node. -/
def node_sections (fn : H5HF_flist_node_t) : List Section :=
  fn.sec_list.map (fun e => { node := e.2, size := fn.sec_size, addr := e.1 })

/-- The sections held by one bin. -/
def bin_sections : Option (H5SL H5HF_flist_node_t) → List Section
  | none => []
  | some sl => (sl.map (fun e => node_sections e.2)).flatten

/-- The sections held by the bin array. -/
def bins_sections : Option (List (Option (H5SL H5HF_flist_node_t))) → List Section
  | none => []
  | some bins => (bins.map bin_sections).flatten

/-- The section held by the single slot, if any. -/
def single_sections (s : H5HF_flist_single_t) : List Section :=
  match s.node, s.size_key, s.addr_key with
  | some n, some sz, some a => [{ node := n, size := sz, addr := a }]
  | _, _, _ => []

/-- All sections the free list tracks. -/
def tracked (flist : H5HF_freelist_t) : List Section :=
  single_sections flist.single ++ bins_sections flist.bins

/-- A call on the free list. -/
inductive Call where
  | add (node size_key addr_key : Nat)
  | find (request : Nat)
  deriving DecidableEq, Repr

/-- What a call returned. -/
inductive Ret where
  | added (r : herr_t)
  | found (r : htri_t) (node : Option Nat)
  deriving DecidableEq, Repr

/-- Perform one call. -/
def call (flist : H5HF_freelist_t) : Call → Option (H5HF_freelist_t × Ret)
  | Call.add n s a =>
    match H5HF_flist_add flist n s a with
    | none => none
    | some (fl, r) => some (fl, Ret.added r)
  | Call.find req =>
    match H5HF_flist_find flist req with
    | none => none
    | some (fl, r, nd) => some (fl, Ret.found r nd)

/-- Perform a sequence of calls, collecting what each returned. -/
def calls : H5HF_freelist_t → List Call → Option (H5HF_freelist_t × List Ret)
  | flist, [] => some (flist, [])
  | flist, c :: cs =>
    match call flist c with
    | none => none
    | some (fl, r) =>
      match calls fl cs with
      | none => none
      | some (fl2, rs) => some (fl2, r :: rs)

/-- Number of add calls that succeeded. -/
def adds_ok (rs : List Ret) : Nat :=
  (rs.filter (fun r => decide (r = Ret.added herr_t.SUCCEED))).length

/-- Number of find calls that returned TRUE. -/
def finds_ok : List Ret → Nat
  | [] => 0
  | Ret.found htri_t.TRUE _ :: rs => finds_ok rs + 1
  | _ :: rs => finds_ok rs

/-- Build a free list by add calls only; `none` unless every one succeeds. -/
def build : H5HF_freelist_t → List Section → Option H5HF_freelist_t
  | flist, [] => some flist
  | flist, s :: ss =>
    match H5HF_flist_add flist s.node s.size s.addr with
    | some (fl, herr_t.SUCCEED) => build fl ss
    | _ => none

/-! ## Well-formedness of a free list -/

/-- Keys of an ordered index are strictly increasing. -/
def Sorted {β : Type} (sl : H5SL β) : Prop := sl.Pairwise (fun a b => a.1 < b.1)

/-- A size node stored in bin `b`: keyed by its size, of the size class of the
bin, holding at least one section, its sections ordered by address. -/
def NodeOK (b : Nat) (e : Nat × H5HF_flist_node_t) : Prop :=
  e.1 = e.2.sec_size ∧ H5V_log2_gen e.2.sec_size = b ∧ e.2.sec_list ≠ [] ∧ Sorted e.2.sec_list

/-- A bin is absent or an ordered index of good size nodes. -/
def BinOK (b : Nat) : Option (H5SL H5HF_flist_node_t) → Prop
  | none => True
  | some sl => Sorted sl ∧ ∀ e ∈ sl, NodeOK b e

/-- The bin array has `nbins` good bins. -/
def BinsOK (nbins : Nat) (bins : List (Option (H5SL H5HF_flist_node_t))) : Prop :=
  bins.length = nbins ∧
    ∀ (b : Nat) (slot : Option (H5SL H5HF_flist_node_t)), bins[b]? = some slot → BinOK b slot

/-- The invariant of the free list. -/
structure WF (flist : H5HF_freelist_t) : Prop where
  bins_ok : ∀ bins, flist.bins = some bins → BinsOK flist.nbins bins
  count : flist.sec_count = (tracked flist).length
  single_mode : flist.using_bins = false → bins_sections flist.bins = []
  bins_mode : flist.using_bins = true →
    flist.single.node = none ∧ flist.bins ≠ none ∧ 0 < flist.sec_count
  single_keys : flist.single.node ≠ none →
    flist.single.size_key ≠ none ∧ flist.single.addr_key ≠ none

/-- What the scan of the bins from `bin` upwards returns: nothing, when every
section from there on is too small, or the first section of the smallest
adequate size node of the first bin that has one. -/
def ScanResult (nbins req bin : Nat) (bins bins2 : List (Option (H5SL H5HF_flist_node_t)))
    (r : htri_t) (node : Option Nat) : Prop :=
  (r = htri_t.FALSE ∧ bins2 = bins ∧ node = none ∧
    ∀ (b2 : Nat) (sl : H5SL H5HF_flist_node_t), bin ≤ b2 → bins[b2]? = some (some sl) →
      ∀ t ∈ bin_sections (some sl), t.size < req) ∨
  (r = htri_t.TRUE ∧ ∃ (s : Section) (b1 : Nat) (sl1 : H5SL H5HF_flist_node_t),
    node = some s.node ∧ req ≤ s.size ∧ bin ≤ b1 ∧ H5V_log2_gen s.size = b1 ∧
    bins[b1]? = some (some sl1) ∧ BinsOK nbins bins2 ∧
    List.Perm (s :: bins_sections (some bins2)) (bins_sections (some bins)) ∧
    (∀ t ∈ bin_sections (some sl1),
      (req ≤ t.size → s.size ≤ t.size) ∧ (t.size = s.size → s.addr ≤ t.addr)) ∧
    ∀ (b2 : Nat) (sl : H5SL H5HF_flist_node_t), bin ≤ b2 → b2 < b1 →
      bins[b2]? = some (some sl) → ∀ t ∈ bin_sections (some sl), t.size < req)

/-- What `H5HF_flist_find` returns on a well-formed free list. -/
def FindResult (fl fl2 : H5HF_freelist_t) (req : Nat) (r : htri_t) (node : Option Nat) : Prop :=
  (r = htri_t.FALSE ∧ fl2 = fl ∧ node = none ∧ ∀ t ∈ tracked fl, t.size < req) ∨
  (r = htri_t.TRUE ∧ ∃ s : Section, node = some s.node ∧ req ≤ s.size ∧
    List.Perm (s :: tracked fl2) (tracked fl) ∧ fl2.sec_count + 1 = fl.sec_count ∧
    ∀ t ∈ tracked fl,
      (req ≤ t.size → s.size ≤ t.size) ∧ (t.size = s.size → s.addr ≤ t.addr))

/-- The free lists reachable from `H5HF_flist_create` by add, find and reset
calls. -/
inductive Reachable (nbins : Nat) : H5HF_freelist_t → Prop where
  | create : Reachable nbins (H5HF_flist_create nbins)
  | step (flist flist2 : H5HF_freelist_t) (c : Call) (r : Ret) :
      Reachable nbins flist → call flist c = some (flist2, r) → Reachable nbins flist2
  | reset (flist flist2 : H5HF_freelist_t) (freed : List (Nat × Option Nat)) :
      Reachable nbins flist → H5HF_flist_reset flist = some (flist2, freed) →
      Reachable nbins flist2

/-! ## Example free lists -/

/-- A free list used in the examples: four sections, two of them of size 10. -/
def demo_sections : List Section :=
  [{ node := 1, size := 10, addr := 100 }, { node := 2, size := 20, addr := 50 },
   { node := 3, size := 10, addr := 40 }, { node := 4, size := 17, addr := 5 }]

/-- The free list built from `demo_sections` with 8 bins. -/
def demo_flist : H5HF_freelist_t :=
  { tot_space := 0, sec_count := 4,
    single := { node := none, size_key := some 10, addr_key := some 100 },
    nbins := 8,
    bins := some [none, none, none,
      some [(10, { sec_size := 10, sec_list := [(40, 3), (100, 1)] })],
      some [(17, { sec_size := 17, sec_list := [(5, 4)] }),
            (20, { sec_size := 20, sec_list := [(50, 2)] })],
      none, none, none],
    using_bins := true }

/-- The free list `demo_flist` after the request 11 has been served. -/
def demo_flist_after : H5HF_freelist_t :=
  { demo_flist with
    sec_count := 3
    bins := some [none, none, none,
      some [(10, { sec_size := 10, sec_list := [(40, 3), (100, 1)] })],
      some [(20, { sec_size := 20, sec_list := [(50, 2)] })],
      none, none, none] }

/-- The calls of the C5 example: a duplicate add fails, a find on the one
section succeeds, finds on the empty list fail. -/
def demo_calls : List Call :=
  [Call.add 1 10 100, Call.add 1 10 100, Call.find 3, Call.find 3,
   Call.add 5 200 2, Call.add 6 5 1, Call.find 100]

/-- The results of `demo_calls`. -/
def demo_rets : List Ret :=
  [Ret.added herr_t.SUCCEED, Ret.added herr_t.FAIL, Ret.found htri_t.TRUE (some 1),
   Ret.found htri_t.FALSE none, Ret.added herr_t.SUCCEED, Ret.added herr_t.SUCCEED,
   Ret.found htri_t.TRUE (some 5)]

/-- The free list after `demo_calls`. -/
def demo_calls_flist : H5HF_freelist_t :=
  { tot_space := 0, sec_count := 1,
    single := { node := none, size_key := some 200, addr_key := some 2 },
    nbins := 8,
    bins := some [none, none, some [(5, { sec_size := 5, sec_list := [(1, 6)] })],
      some [], none, none, none, some []],
    using_bins := true }



/-- The call of `node_free_op` that frees a tracked section: the section and
its address key. -/
def free_call (s : Section) : Nat × Option Nat := (s.node, some s.addr)

/-- The free list after an add and a second add of the same section, which
fails: the first section has been moved to its bin. -/
def c24_flist : H5HF_freelist_t :=
  { tot_space := 0, sec_count := 1,
    single := { node := none, size_key := some 10, addr_key := some 100 },
    nbins := 8,
    bins := some [none, none, none,
      some [(10, { sec_size := 10, sec_list := [(100, 1)] })], none, none, none, none],
    using_bins := true }

/-- The free list after one add on a new list: the section sits in the single
slot. -/
def c23_single : H5HF_freelist_t :=
  { tot_space := 0, sec_count := 1,
    single := { node := some 1, size_key := some 10, addr_key := some 100 },
    nbins := 8, bins := none, using_bins := false }

/-- The free list `c23_single` after a second add: both sections sit in the
bins. -/
def c23_two : H5HF_freelist_t :=
  { tot_space := 0, sec_count := 2,
    single := { node := none, size_key := some 10, addr_key := some 100 },
    nbins := 8,
    bins := some [none, none, none,
      some [(10, { sec_size := 10, sec_list := [(100, 1)] })],
      some [(20, { sec_size := 20, sec_list := [(50, 2)] })], none, none, none],
    using_bins := true }

/-- The add calls that build `demo_flist`. -/
def c25_calls : List Call :=
  [Call.add 1 10 100, Call.add 2 20 50, Call.add 3 10 40, Call.add 4 17 5]

end H5HF

/-! # Object-header attributes: the embedding of `H5Oattribute.c` -/

namespace H5O

/-! ## Attributes, messages and the object header -/

/-- The minor error codes the attribute routines report with `HGOTO_ERROR`. -/
inductive H5E where
  | CANTLOAD | CANTGET | CANTDELETE | WRITEERROR | CANTINIT | CANTCONVERT | CANTINSERT
  | CANTUPDATE | CANTOPENOBJ | NOTFOUND | EXISTS | BADVALUE | BADITER | BADMESG
  | CANTFREE | LINKCOUNT | PROTECT | CANTNEXT | CANTCOPY
  deriving DecidableEq, Repr

/-- The values an iteration callback returns (`H5_ITER_CONT`, `H5_ITER_STOP`,
`H5_ITER_ERROR`). -/
inductive H5_iter where
  | CONT
  | STOP
  | ERROR
  deriving DecidableEq, Repr

/-- The `strcmp` of two names, names being strings of character codes. -/
def HDstrcmp : List Nat → List Nat → Ordering
  | [], [] => Ordering.eq
  | [], _ :: _ => Ordering.lt
  | _ :: _, [] => Ordering.gt
  | a :: as, b :: bs =>
    if a < b then Ordering.lt else if b < a then Ordering.gt else HDstrcmp as bs

/-- An attribute (`H5A_t`), as far as the routines of `H5Oattribute.c` look at
it: its name, its value (`data` is `none` for a `NULL` pointer), the size of
the value in bytes, and its location in the shared message storage once it
has been shared. -/
structure H5A_t where
  name : List Nat
  data : Option (List Nat)
  data_size : Nat
  sh_loc : Option Nat
  deriving DecidableEq, Repr

/-- The type of a header message, as far as it matters here. -/
inductive H5O_msg_class_t where
  | H5O_MSG_ATTR
  | H5O_MSG_NULL
  | H5O_MSG_OTHER
  deriving DecidableEq, Repr

/-- The native form of a message: an attribute, the `H5O_shared_t` reference of
a shared message, or nothing (`NULL`). -/
inductive Native where
  | attr (a : H5A_t)
  | shared (sh : Nat)
  | null
  deriving DecidableEq, Repr

/-- A header message (`H5O_mesg_t`): `shared` is the flag `H5O_MSG_FLAG_SHARED`. -/
structure H5O_mesg_t where
  type : H5O_msg_class_t
  shared : Bool
  native : Native
  dirty : Bool
  deriving DecidableEq, Repr

/-- The object header (`H5O_t`): an address is `none` when it is `HADDR_UNDEF`;
`nmesgs` is the length of `mesg`. -/
structure H5O_t where
  version : Nat
  nattrs : Nat
  max_compact : Nat
  min_dense : Nat
  attr_fheap_addr : Option Nat
  name_bt2_addr : Option Nat
  mesg : List H5O_mesg_t
  deriving DecidableEq, Repr

/-- A record of the dense attribute storage: the message flags it was inserted
with and the attribute. -/
structure DenseRec where
  shared : Bool
  attr : H5A_t
  deriving DecidableEq, Repr

/-- Calls to collaborators that leave a trace: the metadata cache
(`H5AC_protect` with write intent or not, `H5AC_unprotect` with or without
`H5AC__DIRTIED_FLAG`), the link counts of the shared components of an
attribute (`H5O_attr_link`, `H5O_attr_delete`), and the shared message storage
(`H5SM_try_delete`). -/
inductive Event where
  | protect (write : Bool)
  | unprotect (dirtied : Bool)
  | attr_link (name : List Nat)
  | attr_delete (name : List Nat)
  | sm_try_delete (sh : Nat)
  deriving DecidableEq, Repr

/-- The file as the attribute routines of one object see it: the object header
at `loc->addr`, the dense attribute storage of the object (fractal heap and
name index), the shared message storage (attribute and reference count, a
reference being a position in it) and the trace of collaborator calls. -/
structure H5F_t where
  oh : H5O_t
  dense : List DenseRec
  sohm : List (H5A_t × Nat)
  log : List Event
  deriving DecidableEq, Repr

/-- What the library is configured with and what the sources at hand do not
define: `H5O_VERSION_1`, `H5O_MESG_MAX_SIZE`, the size `H5O_msg_mesg_size`
computes for an attribute message, whether the shared message storage takes
an attribute (`H5SM_try_share` returns a positive value for it), the addresses
`H5A_dense_create` allocates, and whether `H5O_touch_oh` marks the header
dirty. -/
structure Config where
  H5O_VERSION_1 : Nat
  H5O_MESG_MAX_SIZE : Nat
  mesg_size : H5A_t → Nat
  sharable : H5A_t → Bool
  fheap_addr : Nat
  bt2_addr : Nat
  touch_dirties : Bool

/-- The list with `g` applied to its element at position `n`: an update in
place through a pointer to that element. -/
def modify_nth {α : Type} (g : α → α) : List α → Nat → List α
  | [], _ => []
  | x :: xs, 0 => g x :: xs
  | x :: xs, n + 1 => x :: modify_nth g xs n

/-- The tombstone `H5O_release_mesg` leaves: a null message. -/
def null_mesg : H5O_mesg_t :=
  { type := H5O_msg_class_t.H5O_MSG_NULL, shared := false, native := Native.null, dirty := true }

/-! ## Collaborators -/

/-- Modelled from the spec: `H5F_addr_defined`, whether an address is not
`HADDR_UNDEF`. -/
def H5F_addr_defined (a : Option Nat) : Bool := a.isSome

/-- Modelled from the spec: `H5O_shared_read`, which looks the real message of
a shared message up in the shared message storage; `none` when it cannot be
read. -/
def H5O_shared_read (f : H5F_t) : Native → Option H5A_t
  | Native.shared sh =>
    match f.sohm[sh]? with
    | some (a, rc) => if 0 < rc then some a else none
    | none => none
  | _ => none

/-- The attribute a message of type attribute stands for: the shared attribute
read in, or the native attribute. -/
def mesg_attr (f : H5F_t) (mesg : H5O_mesg_t) : Option H5A_t :=
  if mesg.shared then H5O_shared_read f mesg.native
  else match mesg.native with
    | Native.attr a => some a
    | _ => none

/-- Position of an attribute with the same name, value and size in the shared
message storage. -/
def sohm_find (a : H5A_t) : List (H5A_t × Nat) → Nat → Option Nat
  | [], _ => none
  | (b, rc) :: rest, i =>
    if 0 < rc ∧ b.name = a.name ∧ b.data = a.data ∧ b.data_size = a.data_size then some i
    else sohm_find a rest (i + 1)

/-- Modelled from the spec: `H5SM_try_share` (tryShare of the shared-message
collaborator): an attribute the storage does not take is left alone (result
`false`, not shared); otherwise it is registered, which adds a reference to
the entry that is already there or makes a new entry with one reference, and
the attribute learns its location. -/
def H5SM_try_share (cfg : Config) (f : H5F_t) (attr : H5A_t) : H5F_t × H5A_t × Bool :=
  if cfg.sharable attr then
    match sohm_find attr f.sohm 0 with
    | some i =>
      ({ f with sohm := modify_nth (fun e => (e.1, e.2 + 1)) f.sohm i },
       { attr with sh_loc := some i }, true)
    | none =>
      ({ f with sohm := f.sohm ++ [({ attr with sh_loc := none }, 1)] },
       { attr with sh_loc := some f.sohm.length }, true)
  else (f, attr, false)

/-- Modelled from the spec: `H5SM_get_refcount` (getRefcount of the
shared-message collaborator). -/
def H5SM_get_refcount (f : H5F_t) (sh_loc : Option Nat) : Option Nat :=
  match sh_loc with
  | none => none
  | some i =>
    match f.sohm[i]? with
    | some (_, rc) => some rc
    | none => none

/-- Modelled from the spec: `H5SM_try_delete` (tryDelete of the shared-message
collaborator): one reference to the entry is dropped. -/
def H5SM_try_delete (f : H5F_t) (sh : Native) : Option H5F_t :=
  match sh with
  | Native.shared i =>
    match f.sohm[i]? with
    | some (_, rc) =>
      if 0 < rc then
        some { f with sohm := modify_nth (fun e => (e.1, e.2 - 1)) f.sohm i,
                      log := f.log ++ [Event.sm_try_delete i] }
      else none
    | none => none
  | _ => none

/-- Modelled from the spec: `H5O_attr_get_share`, the shared message info of
an attribute that has been shared. -/
def H5O_attr_get_share (attr : H5A_t) : Option Native :=
  match attr.sh_loc with
  | some i => some (Native.shared i)
  | none => none

/-- Modelled from the spec: `H5O_attr_link`, which increments the link count
of the shared components of an attribute; only the call is recorded. -/
def H5O_attr_link (f : H5F_t) (attr : H5A_t) : H5F_t :=
  { f with log := f.log ++ [Event.attr_link attr.name] }

/-- Modelled from the spec: `H5O_attr_delete`, which decrements the link count
of the shared components of an attribute; only the call is recorded. -/
def H5O_attr_delete (f : H5F_t) (attr : H5A_t) : H5F_t :=
  { f with log := f.log ++ [Event.attr_delete attr.name] }

/-- Modelled from the spec: `H5O_release_mesg`, which converts a message into
a null message (the tombstone of the spec) without reclaiming its slot. -/
def H5O_release_mesg (f : H5F_t) (idx : Nat) : H5F_t :=
  { f with oh := { f.oh with mesg := modify_nth (fun _ => null_mesg) f.oh.mesg idx } }

/-- The attribute message `H5O_msg_append_real` makes: a message flagged shared
holds the reference to the shared attribute, any other the attribute. -/
def new_attr_mesg (mesg_flags_shared : Bool) (attr : H5A_t) : H5O_mesg_t :=
  let native : Native :=
    if mesg_flags_shared then
      match attr.sh_loc with
      | some i => Native.shared i
      | none => Native.attr attr
    else Native.attr attr
  { type := H5O_msg_class_t.H5O_MSG_ATTR, shared := mesg_flags_shared, native := native,
    dirty := true }

/-- Modelled from the spec: `H5O_msg_append_real`, which appends a new
attribute message to the object header.  The second component is the flag
`H5AC__DIRTIED_FLAG` it sets in `oh_flags`. -/
def H5O_msg_append_real (f : H5F_t) (mesg_flags_shared : Bool) (attr : H5A_t) : H5F_t × Bool :=
  ({ f with oh := { f.oh with mesg := f.oh.mesg ++ [new_attr_mesg mesg_flags_shared attr] } },
   true)

/-- Modelled from the spec: `H5O_touch_oh`, which updates the modification
time of the object; what is kept is whether it sets `H5AC__DIRTIED_FLAG`. -/
def H5O_touch_oh (cfg : Config) (oh_flags : Bool) : Bool :=
  oh_flags || cfg.touch_dirties

/-- Modelled from the spec: `H5AC_protect` of the metadata cache collaborator;
the call is recorded and taken to succeed. -/
def H5AC_protect (f : H5F_t) (write : Bool) : H5F_t :=
  { f with log := f.log ++ [Event.protect write] }

/-- Modelled from the spec: `H5AC_unprotect` of the metadata cache
collaborator, given the flags; the call is recorded and taken to succeed. -/
def H5AC_unprotect (f : H5F_t) (oh_flags : Bool) : H5F_t :=
  { f with log := f.log ++ [Event.unprotect oh_flags] }

/-! ### Dense attribute storage -/

/-- Modelled from the spec: `H5A_dense_create`, which creates the dense storage
(fractal heap and name index) and defines its addresses in the header. -/
def H5A_dense_create (cfg : Config) (f : H5F_t) : H5F_t :=
  { f with
    oh := { f.oh with attr_fheap_addr := some cfg.fheap_addr,
                      name_bt2_addr := some cfg.bt2_addr },
    dense := [] }

/-- Modelled from the spec: `H5A_dense_exists`, the lookup by name in the
name index. -/
def H5A_dense_exists (f : H5F_t) (name : List Nat) : Bool :=
  f.dense.any (fun r => decide (r.attr.name = name))

/-- Modelled from the spec: `H5A_dense_insert`, which adds an attribute to the
dense storage; the name index refuses a name it holds already. -/
def H5A_dense_insert (f : H5F_t) (mesg_flags_shared : Bool) (attr : H5A_t) : Option H5F_t :=
  if H5A_dense_exists f attr.name then none
  else some { f with dense := f.dense ++ [{ shared := mesg_flags_shared, attr := attr }] }

/-- Modelled from the spec: `H5A_dense_open`, the attribute of that name. -/
def H5A_dense_open (f : H5F_t) (name : List Nat) : Option H5A_t :=
  match f.dense.find? (fun r => decide (r.attr.name = name)) with
  | some r => some r.attr
  | none => none

/-- Modelled from the spec: `H5A_dense_write`, which overwrites the value of
the attribute of that name in place. -/
def H5A_dense_write (f : H5F_t) (attr : H5A_t) : Option H5F_t :=
  if H5A_dense_exists f attr.name then
    some { f with dense := f.dense.map (fun r =>
      if r.attr.name = attr.name then
        { r with attr := { r.attr with data := attr.data, data_size := attr.data_size } }
      else r) }
  else none

/-- Modelled from the spec: `H5A_dense_rename`, which renames in the dense
storage; it fails when the old name is missing or the new one in use. -/
def H5A_dense_rename (f : H5F_t) (old_name new_name : List Nat) : Option H5F_t :=
  if H5A_dense_exists f old_name ∧ ¬ H5A_dense_exists f new_name then
    some { f with dense := f.dense.map (fun r =>
      if r.attr.name = old_name then { r with attr := { r.attr with name := new_name } }
      else r) }
  else none

/-- Modelled from the spec: `H5A_dense_remove`, which deletes the attribute of
that name from the dense storage and fails when there is none. -/
def H5A_dense_remove (f : H5F_t) (name : List Nat) : Option H5F_t :=
  if H5A_dense_exists f name then
    some { f with dense := f.dense.filter (fun r => decide (r.attr.name ≠ name)) }
  else none

/-- Modelled from the spec: `H5A_dense_delete`, which deletes the dense storage
and makes its addresses undefined. -/
def H5A_dense_delete (f : H5F_t) : H5F_t :=
  { f with
    oh := { f.oh with attr_fheap_addr := none, name_bt2_addr := none },
    dense := [] }

/-- Name order of the attribute tables. -/
def name_le (a b : H5A_t) : Prop := HDstrcmp a.name b.name ≠ Ordering.gt

instance : DecidableRel name_le := fun a b =>
  inferInstanceAs (Decidable (HDstrcmp a.name b.name ≠ Ordering.gt))

/-- Modelled from the spec: `H5A_dense_build_table`, the table of the
attributes in dense storage (in the order of the storage for
`H5_ITER_NATIVE`). -/
def H5A_dense_build_table (f : H5F_t) : List H5A_t :=
  f.dense.map (fun r => r.attr)

/-- The attributes of the attribute messages of the header, shared ones read
in; `none` when a shared attribute cannot be read. -/
def compact_attrs (f : H5F_t) : List H5O_mesg_t → Option (List H5A_t)
  | [] => some []
  | m :: rest =>
    if m.type = H5O_msg_class_t.H5O_MSG_ATTR then
      match mesg_attr f m, compact_attrs f rest with
      | some a, some as => some (a :: as)
      | _, _ => none
    else compact_attrs f rest

/-- Modelled from the spec: `H5A_compact_build_table`, the snapshot table of
all attributes in compact storage, by name in increasing order. -/
def H5A_compact_build_table (f : H5F_t) : Option (List H5A_t) :=
  match compact_attrs f f.oh.mesg with
  | some as => some (as.insertionSort name_le)
  | none => none

/-- Modelled from the spec: `H5A_attr_iterate_table`, which calls the operator
on the attributes of the table from position `skip` on until it returns
something else than continue; the result is the last value returned and the
attributes visited. -/
def H5A_attr_iterate_table (op : H5A_t → H5_iter) : List H5A_t → H5_iter × List H5A_t
  | [] => (H5_iter.CONT, [])
  | a :: rest =>
    match op a with
    | H5_iter.CONT =>
      let r := H5A_attr_iterate_table op rest
      (r.1, a :: r.2)
    | r => (r, [a])

/-- Modelled from the spec: `H5A_dense_iterate`, the iteration over the
attributes in dense storage in increasing name order from position `skip` on;
a `skip` beyond the number of attributes is refused. -/
def H5A_dense_iterate (f : H5F_t) (skip : Nat) (op : H5A_t → H5_iter) :
    Option (H5_iter × List H5A_t) :=
  let table := (H5A_dense_build_table f).insertionSort name_le
  if 0 < skip ∧ table.length ≤ skip then none
  else some (H5A_attr_iterate_table op (table.drop skip))

/-! ## Iteration over the header messages -/

/-- Modelled from the spec: `H5O_msg_iterate_real` for messages of type
attribute (the callback-based header-message iteration): the messages are
walked by index while the index is below `nmesgs`, the callback is run on each
message of type attribute with the object header flags, and the walk ends as
soon as the callback returns something else than continue.  `fuel` bounds the
number of messages looked at. -/
def H5O_msg_iterate_real {U : Type}
    (op : H5F_t → Nat → H5O_mesg_t → Bool → U → H5F_t × Bool × U × H5_iter) :
    Nat → Nat → H5F_t → Bool → U → H5F_t × Bool × U × H5_iter
  | 0, _, f, oh_flags, udata => (f, oh_flags, udata, H5_iter.CONT)
  | fuel + 1, idx, f, oh_flags, udata =>
    match f.oh.mesg[idx]? with
    | none => (f, oh_flags, udata, H5_iter.CONT)
    | some mesg =>
      if mesg.type = H5O_msg_class_t.H5O_MSG_ATTR then
        match op f idx mesg oh_flags udata with
        | (f2, oh_flags2, udata2, H5_iter.CONT) =>
          H5O_msg_iterate_real op fuel (idx + 1) f2 oh_flags2 udata2
        | r => r
      else H5O_msg_iterate_real op fuel (idx + 1) f oh_flags udata

/-- Change the message at `idx` of the object header in place. -/
def set_mesg (f : H5F_t) (idx : Nat) (g : H5O_mesg_t → H5O_mesg_t) : H5F_t :=
  { f with oh := { f.oh with mesg := modify_nth g f.oh.mesg idx } }

/-! ## The routines of `H5Oattribute.c` -/

/-- Object header iterator callback routine to convert compact attributes to
dense attributes (`H5O_attr_to_dense_cb`). -/
def H5O_attr_to_dense_cb (f : H5F_t) (idx : Nat) (mesg : H5O_mesg_t) (oh_flags : Bool)
    (udata : Unit) : H5F_t × Bool × Unit × H5_iter :=
  -- the shared attribute read in, or the native attribute
  match mesg_attr f mesg with
  | none => (f, oh_flags, udata, H5_iter.ERROR)
  | some attr =>
    -- insert attribute into dense storage
    match H5A_dense_insert f mesg.shared attr with
    | none => (f, oh_flags, udata, H5_iter.ERROR)
    | some f2 =>
      -- convert message into a null message in the header
      (H5O_release_mesg f2 idx, true, udata, H5_iter.CONT)

/-- The first block of `H5O_attr_create` ("should this message be written as a
SOHM?"): the attribute is offered to the shared message storage; when it is
taken and is not the first copy there, the reference count of its shared
components is decremented.  The result is the file, the attribute with its
shared location, the message flag `H5O_MSG_FLAG_SHARED` and the error. -/
def create_share (cfg : Config) (f : H5F_t) (attr : H5A_t) :
    H5F_t × H5A_t × Bool × Option H5E :=
  match H5SM_try_share cfg f attr with
  | (f1, attr1, true) =>
    -- retrieve ref count for shared attribute
    match H5SM_get_refcount f1 attr1.sh_loc with
    | none => (f1, attr1, true, some H5E.CANTGET)
    | some attr_rc =>
      if 1 < attr_rc then (H5O_attr_delete f1 attr1, attr1, true, none)
      else (f1, attr1, true, none)
  | (f1, attr1, false) => (f1, attr1, false, none)

/-- The block of `H5O_attr_create` that checks for switching to "dense"
attribute storage: when the header is of a later version, holds exactly
`max_compact` attributes and has no dense storage, the dense storage is created
and the attribute messages are moved into it.  The result is the file, the
object header flags and the error. -/
def create_convert (cfg : Config) (f : H5F_t) : H5F_t × Bool × Option H5E :=
  if cfg.H5O_VERSION_1 < f.oh.version ∧ f.oh.nattrs = f.oh.max_compact ∧
      f.oh.attr_fheap_addr = none then
    -- create dense storage for attributes
    let f1 := H5A_dense_create cfg f
    -- iterate over existing attributes, moving them to dense storage
    match H5O_msg_iterate_real H5O_attr_to_dense_cb f1.oh.mesg.length 0 f1 false () with
    | (f2, oh_flags, _, H5_iter.ERROR) => (f2, oh_flags, some H5E.CANTCONVERT)
    | (f2, oh_flags, _, _) => (f2, oh_flags, none)
  else (f, false, none)

/-- The block of `H5O_attr_create` that increments the attribute count and
stores the attribute: into the dense storage when it is defined, as a new
header message otherwise. -/
def create_store (f : H5F_t) (mesg_flags : Bool) (attr : H5A_t) (oh_flags : Bool) :
    H5F_t × Bool × Option H5E :=
  -- increment attribute count
  let f1 : H5F_t := { f with oh := { f.oh with nattrs := f.oh.nattrs + 1 } }
  -- check for storing attribute with dense storage
  match f1.oh.attr_fheap_addr with
  | some _ =>
    match H5A_dense_insert f1 mesg_flags attr with
    | none => (f1, oh_flags, some H5E.CANTINSERT)
    | some f2 => (f2, oh_flags, none)
  | none =>
    match H5O_msg_append_real f1 mesg_flags attr with
    | (f2, dirtied) => (f2, oh_flags || dirtied, none)

/-- Create a new attribute in the object header (`H5O_attr_create`). -/
def H5O_attr_create (cfg : Config) (f : H5F_t) (attr : H5A_t) : H5F_t × Option H5E :=
  match create_share cfg f attr with
  | (f1, _, _, some e) => (f1, some e)
  | (f1, attr1, mesg_flags, none) =>
    -- protect the object header
    match create_convert cfg (H5AC_protect f1 true) with
    | (f2, oh_flags, some e) => (H5AC_unprotect f2 oh_flags, some e)
    | (f2, oh_flags, none) =>
      match create_store f2 mesg_flags attr1 oh_flags with
      | (f3, oh_flags3, some e) => (H5AC_unprotect f3 oh_flags3, some e)
      | (f3, oh_flags3, none) =>
        -- update the modification time, if any
        (H5AC_unprotect f3 (H5O_touch_oh cfg oh_flags3), none)

/-- Object header iterator callback routine to open an attribute stored
compactly (`H5O_attr_open_cb`); the user data is the attribute found. -/
def H5O_attr_open_cb (name : List Nat) (f : H5F_t) (_idx : Nat) (mesg : H5O_mesg_t)
    (oh_flags : Bool) (udata : Option H5A_t) : H5F_t × Bool × Option H5A_t × H5_iter :=
  match mesg_attr f mesg with
  | none => (f, oh_flags, udata, H5_iter.ERROR)
  | some a =>
    if a.name = name then (f, oh_flags, some a, H5_iter.STOP)
    else (f, oh_flags, udata, H5_iter.CONT)

/-- Open an existing attribute in an object header (`H5O_attr_open_by_name`). -/
def H5O_attr_open_by_name (f : H5F_t) (name : List Nat) : H5F_t × Except H5E H5A_t :=
  let f1 := H5AC_protect f false
  if H5F_addr_defined f1.oh.attr_fheap_addr then
    match H5A_dense_open f1 name with
    | none => (H5AC_unprotect f1 false, Except.error H5E.CANTOPENOBJ)
    | some a => (H5AC_unprotect f1 false, Except.ok a)
  else
    match H5O_msg_iterate_real (H5O_attr_open_cb name) f1.oh.mesg.length 0 f1 false none with
    | (f2, oh_flags, _, H5_iter.ERROR) =>
      (H5AC_unprotect f2 oh_flags, Except.error H5E.CANTOPENOBJ)
    | (f2, oh_flags, none, _) => (H5AC_unprotect f2 oh_flags, Except.error H5E.NOTFOUND)
    | (f2, oh_flags, some a, _) => (H5AC_unprotect f2 oh_flags, Except.ok a)

/-- Update a shared attribute (`H5O_attr_update_shared`): the new version is
stored as a SOHM, its components are linked when it is the first copy, and the
old attribute is removed from the SOHM storage. -/
def H5O_attr_update_shared (cfg : Config) (f : H5F_t) (attr : H5A_t) (sh_mesg : Native) :
    H5F_t × H5A_t × Option H5E :=
  let (f1, attr1, shared_mesg) := H5SM_try_share cfg f attr
  if shared_mesg = false then (f1, attr1, some H5E.BADMESG)
  else
    match H5SM_get_refcount f1 attr1.sh_loc with
    | none => (f1, attr1, some H5E.CANTGET)
    | some attr_rc =>
      let f2 := if attr_rc = 1 then H5O_attr_link f1 attr1 else f1
      match H5SM_try_delete f2 sh_mesg with
      | none => (f2, attr1, some H5E.CANTFREE)
      | some f3 => (f3, attr1, none)

/-- The bytes `HDmemcpy(dst, src, n)` leaves in `dst`. -/
def HDmemcpy (dst src : List Nat) (n : Nat) : List Nat :=
  src.take n ++ dst.drop n

/-- Object header iterator callback routine to update an attribute stored
compactly (`H5O_attr_write_cb`); the user data is the attribute written (its
shared location may change) and whether the attribute was found. -/
def H5O_attr_write_cb (cfg : Config) (f : H5F_t) (idx : Nat) (mesg : H5O_mesg_t)
    (oh_flags : Bool) (udata : H5A_t × Bool) : H5F_t × Bool × (H5A_t × Bool) × H5_iter :=
  if mesg.shared then
    match H5O_shared_read f mesg.native with
    | none => (f, oh_flags, udata, H5_iter.ERROR)
    | some shared_attr =>
      if shared_attr.name = udata.1.name then
        match H5O_attr_update_shared cfg f udata.1 mesg.native with
        | (f2, attr2, some _) => (f2, oh_flags, (attr2, udata.2), H5_iter.ERROR)
        | (f2, attr2, none) =>
          match H5O_attr_get_share attr2 with
          | none => (f2, oh_flags, (attr2, udata.2), H5_iter.ERROR)
          | some sh =>
            (set_mesg f2 idx (fun m => { m with native := sh, dirty := true }), true,
              (attr2, true), H5_iter.STOP)
      else (f, oh_flags, udata, H5_iter.CONT)
  else
    match mesg.native with
    | Native.attr a =>
      if a.name = udata.1.name then
        let room : List Nat := a.data.getD (List.replicate udata.1.data_size 0)
        let a2 : H5A_t :=
          { a with data := some (HDmemcpy room (udata.1.data.getD []) udata.1.data_size) }
        (set_mesg f idx (fun m => { m with native := Native.attr a2, dirty := true }), true,
          (udata.1, true), H5_iter.STOP)
      else (f, oh_flags, udata, H5_iter.CONT)
    | _ => (f, oh_flags, udata, H5_iter.ERROR)

/-- Write a new value to an attribute (`H5O_attr_write`). -/
def H5O_attr_write (cfg : Config) (f : H5F_t) (attr : H5A_t) : H5F_t × Option H5E :=
  let f1 := H5AC_protect f true
  let written : H5F_t × Bool × Option H5E :=
    if H5F_addr_defined f1.oh.attr_fheap_addr then
      match H5A_dense_write f1 attr with
      | none => (f1, false, some H5E.CANTUPDATE)
      | some f2 => (f2, false, none)
    else
      match H5O_msg_iterate_real (H5O_attr_write_cb cfg) f1.oh.mesg.length 0 f1 false
          (attr, false) with
      | (f2, oh_flags, _, H5_iter.ERROR) => (f2, oh_flags, some H5E.CANTUPDATE)
      | (f2, oh_flags, (_, false), _) => (f2, oh_flags, some H5E.NOTFOUND)
      | (f2, oh_flags, (_, true), _) => (f2, oh_flags, none)
  match written with
  | (f2, oh_flags, some e) => (H5AC_unprotect f2 oh_flags, some e)
  | (f2, oh_flags, none) => (H5AC_unprotect f2 (H5O_touch_oh cfg oh_flags), none)

/-- Object header iterator callback routine to check for duplicate name during
rename (`H5O_attr_rename_chk_cb`); the user data is whether an attribute with
the new name was found. -/
def H5O_attr_rename_chk_cb (new_name : List Nat) (f : H5F_t) (_idx : Nat)
    (mesg : H5O_mesg_t) (oh_flags : Bool) (found : Bool) : H5F_t × Bool × Bool × H5_iter :=
  match mesg_attr f mesg with
  | none => (f, oh_flags, found, H5_iter.ERROR)
  | some a =>
    if a.name = new_name then (f, oh_flags, true, H5_iter.STOP)
    else (f, oh_flags, found, H5_iter.CONT)

/-- Object header iterator callback routine to change name of attribute during
rename (`H5O_attr_rename_mod_cb`); the user data is whether the attribute with
the old name was found. -/
def H5O_attr_rename_mod_cb (cfg : Config) (old_name new_name : List Nat) (f : H5F_t)
    (idx : Nat) (mesg : H5O_mesg_t) (oh_flags : Bool) (found : Bool) :
    H5F_t × Bool × Bool × H5_iter :=
  if mesg.shared then
    match H5O_shared_read f mesg.native with
    | none => (f, oh_flags, found, H5_iter.ERROR)
    | some shared_attr =>
      if shared_attr.name = old_name then
        -- change the name for the attribute, mark message as dirty
        let shared_attr2 : H5A_t := { shared_attr with name := new_name }
        let f1 := set_mesg f idx (fun m => { m with dirty := true })
        match H5O_attr_update_shared cfg f1 shared_attr2 mesg.native with
        | (f2, _, some _) => (f2, oh_flags, found, H5_iter.ERROR)
        | (f2, attr2, none) =>
          match H5O_attr_get_share attr2 with
          | none => (f2, oh_flags, found, H5_iter.ERROR)
          | some sh =>
            (set_mesg f2 idx (fun m => { m with native := sh }), true, true, H5_iter.STOP)
      else (f, oh_flags, found, H5_iter.CONT)
  else
    match mesg.native with
    | Native.attr a =>
      if a.name = old_name then
        -- change the name for the attribute, mark message as dirty
        let attr : H5A_t := { a with name := new_name }
        let f1 := set_mesg f idx (fun m => { m with native := Native.attr attr, dirty := true })
        -- check for attribute message changing size
        if new_name.length ≠ old_name.length then
          -- take ownership of the native info; decrement, release, increment, append
          let f2 := set_mesg f1 idx (fun m => { m with native := Native.null })
          let f3 : H5F_t :=
            if cfg.H5O_VERSION_1 < f2.oh.version then
              { f2 with oh := { f2.oh with nattrs := f2.oh.nattrs - 1 } }
            else f2
          let f4 := H5O_release_mesg f3 idx
          let f5 : H5F_t :=
            if cfg.H5O_VERSION_1 < f4.oh.version then
              { f4 with oh := { f4.oh with nattrs := f4.oh.nattrs + 1 } }
            else f4
          let (f6, dirtied) := H5O_msg_append_real f5 false attr
          let f7 := H5O_attr_delete f6 attr
          (f7, oh_flags || dirtied || true, true, H5_iter.STOP)
        else (f1, true, true, H5_iter.STOP)
      else (f, oh_flags, found, H5_iter.CONT)
    | _ => (f, oh_flags, found, H5_iter.ERROR)

/-- Rename an attribute (`H5O_attr_rename`). -/
def H5O_attr_rename (cfg : Config) (f : H5F_t) (old_name new_name : List Nat) :
    H5F_t × Option H5E :=
  let f1 := H5AC_protect f true
  let renamed : H5F_t × Bool × Option H5E :=
    if H5F_addr_defined f1.oh.attr_fheap_addr then
      match H5A_dense_rename f1 old_name new_name with
      | none => (f1, false, some H5E.CANTUPDATE)
      | some f2 => (f2, false, none)
    else
      -- iterate over attributes, to check if "new name" exists already
      match H5O_msg_iterate_real (H5O_attr_rename_chk_cb new_name) f1.oh.mesg.length 0 f1
          false false with
      | (f2, oh_flags, _, H5_iter.ERROR) => (f2, oh_flags, some H5E.CANTUPDATE)
      | (f2, oh_flags, true, _) => (f2, oh_flags, some H5E.EXISTS)
      | (f2, oh_flags, false, _) =>
        -- iterate over attributes again, to actually rename attribute with old name
        match H5O_msg_iterate_real (H5O_attr_rename_mod_cb cfg old_name new_name)
            f2.oh.mesg.length 0 f2 oh_flags false with
        | (f3, oh_flags3, _, H5_iter.ERROR) => (f3, oh_flags3, some H5E.CANTUPDATE)
        | (f3, oh_flags3, _, _) => (f3, oh_flags3, none)
  match renamed with
  | (f2, oh_flags, some e) => (H5AC_unprotect f2 oh_flags, some e)
  | (f2, oh_flags, none) => (H5AC_unprotect f2 (H5O_touch_oh cfg oh_flags), none)

/-- Iterate over attributes for an object (`H5O_attr_iterate`): the result is
the value the iteration ended with and the attributes the operator was called
on, in order. -/
def H5O_attr_iterate (cfg : Config) (f : H5F_t) (skip : Nat) (op : H5A_t → H5_iter) :
    H5F_t × Except H5E (H5_iter × List H5A_t) :=
  let f1 := H5AC_protect f false
  if cfg.H5O_VERSION_1 < f1.oh.version ∧ H5F_addr_defined f1.oh.attr_fheap_addr then
    -- release the object header, then iterate over attributes in dense storage
    let f2 := H5AC_unprotect f1 false
    match H5A_dense_iterate f2 skip op with
    | none => (f2, Except.error H5E.BADITER)
    | some (H5_iter.ERROR, _) => (f2, Except.error H5E.BADITER)
    | some r => (f2, Except.ok r)
  else
    -- build table of attributes for compact storage
    match H5A_compact_build_table f1 with
    | none => (H5AC_unprotect f1 false, Except.error H5E.CANTINIT)
    | some atable =>
      let f2 := H5AC_unprotect f1 false
      -- check for skipping too many attributes
      if 0 < skip ∧ atable.length ≤ skip then (f2, Except.error H5E.BADVALUE)
      else
        match H5A_attr_iterate_table op (atable.drop skip) with
        | (H5_iter.ERROR, _) => (f2, Except.error H5E.CANTNEXT)
        | r => (f2, Except.ok r)

/-- Object header iterator callback routine to remove an attribute stored
compactly (`H5O_attr_remove_cb`); the user data is whether the attribute was
found. -/
def H5O_attr_remove_cb (cfg : Config) (name : List Nat) (f : H5F_t) (idx : Nat)
    (mesg : H5O_mesg_t) (oh_flags : Bool) (found : Bool) : H5F_t × Bool × Bool × H5_iter :=
  match mesg_attr f mesg with
  | none => (f, oh_flags, found, H5_iter.ERROR)
  | some a =>
    if a.name = name then
      -- if the later version of the object header format, decrement attribute
      let f1 : H5F_t :=
        if cfg.H5O_VERSION_1 < f.oh.version then
          { f with oh := { f.oh with nattrs := f.oh.nattrs - 1 } }
        else f
      -- convert message into a null message (i.e. delete it)
      (H5O_release_mesg f1 idx, true, true, H5_iter.STOP)
    else (f, oh_flags, found, H5_iter.CONT)

/-- The loop of `H5O_attr_remove` that puts the attributes of the table into
the header as attribute messages. -/
def append_table (cfg : Config) : List H5A_t → H5F_t → Bool → H5F_t × Bool
  | [], f, oh_flags => (f, oh_flags)
  | a :: rest, f, oh_flags =>
    -- should this message be written as a SOHM?
    let (f1, a1, shared_mesg) := H5SM_try_share cfg f a
    -- insert attribute message into object header
    let (f2, dirtied) := H5O_msg_append_real f1 shared_mesg a1
    append_table cfg rest f2 (oh_flags || dirtied)

/-- The first block of `H5O_attr_remove`: the attribute is deleted from the
dense storage and the attribute count decremented, or the attribute messages
are walked to locate and delete it. -/
def remove_lookup (cfg : Config) (f : H5F_t) (name : List Nat) : H5F_t × Bool × Option H5E :=
  match f.oh.attr_fheap_addr with
  | some _ =>
    -- delete attribute from dense storage, decrement # of attributes on object
    match H5A_dense_remove f name with
    | none => (f, false, some H5E.CANTDELETE)
    | some f2 => ({ f2 with oh := { f2.oh with nattrs := f2.oh.nattrs - 1 } }, false, none)
  | none =>
    match H5O_msg_iterate_real (H5O_attr_remove_cb cfg name) f.oh.mesg.length 0 f false
        false with
    | (f2, oh_flags, _, H5_iter.ERROR) => (f2, oh_flags, some H5E.CANTDELETE)
    | (f2, oh_flags, false, _) => (f2, oh_flags, some H5E.NOTFOUND)
    | (f2, oh_flags, true, _) => (f2, oh_flags, none)

/-- The block of `H5O_attr_remove` that checks for shifting from dense storage
back to compact storage. -/
def remove_shift (cfg : Config) (f : H5F_t) (oh_flags : Bool) : H5F_t × Bool :=
  match f.oh.attr_fheap_addr with
  | some _ =>
    if f.oh.nattrs = 0 ∨ f.oh.nattrs < f.oh.min_dense then
      if f.oh.nattrs = 0 then
        -- delete the dense storage
        (H5A_dense_delete f, oh_flags)
      else
        -- build the table of attributes for this object
        let atable := (H5A_dense_build_table f).take f.oh.nattrs
        -- inspect attributes in table for ones that can't be converted back
        let can_convert : Bool :=
          atable.all (fun a => decide (cfg.mesg_size a < cfg.H5O_MESG_MAX_SIZE))
        if can_convert then
          -- insert attributes as object header messages, remove the dense storage
          match append_table cfg atable f oh_flags with
          | (f2, oh_flags2) => (H5A_dense_delete f2, oh_flags2)
        else (f, oh_flags)
    else (f, oh_flags)
  | none => (f, oh_flags)

/-- Delete an attribute on an object (`H5O_attr_remove`). -/
def H5O_attr_remove (cfg : Config) (f : H5F_t) (name : List Nat) : H5F_t × Option H5E :=
  match remove_lookup cfg (H5AC_protect f true) name with
  | (f2, oh_flags, some e) => (H5AC_unprotect f2 oh_flags, some e)
  | (f2, oh_flags, none) =>
    match remove_shift cfg f2 oh_flags with
    | (f3, oh_flags3) => (H5AC_unprotect f3 oh_flags3, none)

/-- Determine the # of attributes on an object (`H5O_attr_count`). -/
def H5O_attr_count (cfg : Config) (f : H5F_t) : H5F_t × Nat :=
  let f1 := H5AC_protect f false
  let ret_value : Nat :=
    if cfg.H5O_VERSION_1 < f1.oh.version then f1.oh.nattrs
    else (f1.oh.mesg.filter
      (fun m => decide (m.type = H5O_msg_class_t.H5O_MSG_ATTR))).length
  (H5AC_unprotect f1 false, ret_value)

/-- Object header iterator callback routine to check for an attribute stored
compactly, by name (`H5O_attr_exists_cb`); the user data is whether it was
found. -/
def H5O_attr_exists_cb (name : List Nat) (f : H5F_t) (_idx : Nat) (mesg : H5O_mesg_t)
    (oh_flags : Bool) (found : Bool) : H5F_t × Bool × Bool × H5_iter :=
  match mesg_attr f mesg with
  | none => (f, oh_flags, found, H5_iter.ERROR)
  | some a =>
    if a.name = name then (f, oh_flags, true, H5_iter.STOP)
    else (f, oh_flags, found, H5_iter.CONT)

/-- Determine if an attribute with a particular name exists on an object
(`H5O_attr_exists`). -/
def H5O_attr_exists (f : H5F_t) (name : List Nat) : H5F_t × Except H5E Bool :=
  let f1 := H5AC_protect f false
  if H5F_addr_defined f1.oh.attr_fheap_addr then
    (H5AC_unprotect f1 false, Except.ok (H5A_dense_exists f1 name))
  else
    match H5O_msg_iterate_real (H5O_attr_exists_cb name) f1.oh.mesg.length 0 f1 false false with
    | (f2, _, _, H5_iter.ERROR) => (H5AC_unprotect f2 false, Except.error H5E.BADITER)
    | (f2, _, found, _) => (H5AC_unprotect f2 false, Except.ok found)

/-! ## Notions used by the theorems -/

/-- A message after the conversion to dense storage. -/
def tomb (m : H5O_mesg_t) : H5O_mesg_t :=
  if m.type = H5O_msg_class_t.H5O_MSG_ATTR then null_mesg else m

/-- The attributes of the attribute messages in a list of messages, with the
message flag. -/
def attr_recs (f : H5F_t) : List H5O_mesg_t → List DenseRec
  | [] => []
  | m :: rest =>
    if m.type = H5O_msg_class_t.H5O_MSG_ATTR then
      match mesg_attr f m with
      | some a => { shared := m.shared, attr := a } :: attr_recs f rest
      | none => attr_recs f rest
    else attr_recs f rest

/-- Number of header messages of type attribute. -/
def attr_count (f : H5F_t) : Nat :=
  (f.oh.mesg.filter (fun m => decide (m.type = H5O_msg_class_t.H5O_MSG_ATTR))).length

/-- Successive `H5O_attr_create` calls; `none` unless every one succeeds. -/
def create_all (cfg : Config) : H5F_t → List H5A_t → Option H5F_t
  | f, [] => some f
  | f, a :: rest =>
    match H5O_attr_create cfg f a with
    | (f2, none) => create_all cfg f2 rest
    | (_, some _) => none

/-- Where the attributes are after `k` creates on a header that started empty
with version `ver` and threshold `mc`: in `k` attribute messages while
`k ≤ mc` (or the version has no dense storage), in `k` dense records and no
attribute message once `k > mc`. -/
def StorageAfter (cfg : Config) (ver mc : Nat) (f : H5F_t) (k : Nat) : Prop :=
  f.oh.version = ver ∧ f.oh.max_compact = mc ∧ f.oh.nattrs = k ∧
  (cfg.H5O_VERSION_1 < ver →
    (k ≤ mc → f.oh.attr_fheap_addr = none ∧ attr_count f = k) ∧
    (mc < k → f.oh.attr_fheap_addr = some cfg.fheap_addr ∧ attr_count f = 0 ∧
      f.dense.length = k)) ∧
  (ver ≤ cfg.H5O_VERSION_1 → f.oh.attr_fheap_addr = none ∧ attr_count f = k)

/-- The configuration of the examples: version 1 headers have no dense storage,
no attribute is taken by the shared message storage. -/
def demo_cfg : Config :=
  { H5O_VERSION_1 := 1, H5O_MESG_MAX_SIZE := 65536,
    mesg_size := fun a => 24 + a.name.length + a.data_size,
    sharable := fun _ => false, fheap_addr := 4096, bt2_addr := 8192, touch_dirties := true }

/-- An empty version-2 header with `max_compact = 8` and `min_dense = 6`. -/
def demo_file : H5F_t :=
  { oh := { version := 2, nattrs := 0, max_compact := 8, min_dense := 6,
            attr_fheap_addr := none, name_bt2_addr := none, mesg := [] },
    dense := [], sohm := [], log := [] }

/-- The attribute named "attr" followed by the digit `i`, with a four-byte value. -/
def demo_attr (i : Nat) : H5A_t :=
  { name := [97, 116, 116, 114, 48 + i], data := some [i, 0, 0, 0], data_size := 4,
    sh_loc := none }

/-- The attributes "attr0" .. "attr9". -/
def demo_attrs : List H5A_t := (List.range 10).map demo_attr

/-- The file after the first 8 creates. -/
def demo_file8 : H5F_t := (create_all demo_cfg demo_file (demo_attrs.take 8)).getD demo_file

/-- The file after the first 9 creates. -/
def demo_file9 : H5F_t := (create_all demo_cfg demo_file (demo_attrs.take 9)).getD demo_file

/-- The walk over the attribute messages that looks for a name: stop at the
first attribute of that name, error at an attribute that cannot be read,
continue to the end otherwise. -/
def name_scan (f : H5F_t) (name : List Nat) : List H5O_mesg_t → H5_iter
  | [] => H5_iter.CONT
  | m :: rest =>
    if m.type = H5O_msg_class_t.H5O_MSG_ATTR then
      match mesg_attr f m with
      | none => H5_iter.ERROR
      | some a => if a.name = name then H5_iter.STOP else name_scan f name rest
    else name_scan f name rest

/-- The file of the C4 example: three attributes in compact storage. -/
def demo_file3 : H5F_t := (create_all demo_cfg demo_file (demo_attrs.take 3)).getD demo_file

/-- The attributes held by the unshared attribute messages of the header. -/
def header_attrs : List H5O_mesg_t → List H5A_t
  | [] => []
  | m :: rest =>
    if m.type = H5O_msg_class_t.H5O_MSG_ATTR then
      match m.native with
      | Native.attr a => a :: header_attrs rest
      | _ => header_attrs rest
    else header_attrs rest

/-- The concrete state `f` stands for the abstract set of attributes `M`:
the header has a later version and counts them, their names differ, none is
shared, and they are held either by the attribute messages of the header (no
dense storage, nothing in it) or by the dense storage (no attribute message
left), never by both. -/
structure Refines (cfg : Config) (f : H5F_t) (M : List H5A_t) : Prop where
  version : cfg.H5O_VERSION_1 < f.oh.version
  nattrs : f.oh.nattrs = M.length
  nodup : (M.map (fun a => a.name)).Nodup
  unshared : ∀ a ∈ M, cfg.sharable a = false
  plain : ∀ m ∈ f.oh.mesg, m.type = H5O_msg_class_t.H5O_MSG_ATTR →
    m.shared = false ∧ ∃ a, m.native = Native.attr a
  compact : f.oh.attr_fheap_addr = none →
    f.dense = [] ∧ List.Perm (header_attrs f.oh.mesg) M
  dense : f.oh.attr_fheap_addr ≠ none →
    header_attrs f.oh.mesg = [] ∧ List.Perm (f.dense.map (fun r => r.attr)) M

/-- All attribute messages of a list are unshared and hold an attribute. -/
def Plain (ms : List H5O_mesg_t) : Prop :=
  ∀ m ∈ ms, m.type = H5O_msg_class_t.H5O_MSG_ATTR →
    m.shared = false ∧ ∃ a, m.native = Native.attr a

/-- The messages after the walk of `H5O_attr_remove_cb`: the first unshared
attribute message of that name has become a null message. -/
def tomb_first (name : List Nat) : List H5O_mesg_t → List H5O_mesg_t
  | [] => []
  | m :: rest =>
    if m.type = H5O_msg_class_t.H5O_MSG_ATTR then
      match m.native with
      | Native.attr a =>
        if a.name = name then null_mesg :: rest else m :: tomb_first name rest
      | _ => m :: tomb_first name rest
    else m :: tomb_first name rest

/-- A call of the attribute interface that changes the set of attributes. -/
inductive AttrCall where
  | create (attr : H5A_t)
  | remove (name : List Nat)
  deriving DecidableEq, Repr

/-- Successive `H5O_attr_create` and `H5O_attr_remove` calls; `none` unless
every one succeeds. -/
def attr_calls (cfg : Config) : H5F_t → List AttrCall → Option H5F_t
  | f, [] => some f
  | f, AttrCall.create a :: rest =>
    match H5O_attr_create cfg f a with
    | (f2, none) => attr_calls cfg f2 rest
    | (_, some _) => none
  | f, AttrCall.remove name :: rest =>
    match H5O_attr_remove cfg f name with
    | (f2, none) => attr_calls cfg f2 rest
    | (_, some _) => none

/-- The abstract name-to-value map, kept as the list of the attributes created
and not yet removed, after the calls. -/
def abstract_calls : List H5A_t → List AttrCall → List H5A_t
  | M, [] => M
  | M, AttrCall.create a :: rest => abstract_calls (M ++ [a]) rest
  | M, AttrCall.remove name :: rest =>
    abstract_calls (M.filter (fun a => decide (a.name ≠ name))) rest

/-- The calls the refinement is about: every create is of an attribute the
shared message storage does not take, under a name no attribute created and
not yet removed has. -/
def distinct_unshared (cfg : Config) : List H5A_t → List AttrCall → Bool
  | _, [] => true
  | M, AttrCall.create a :: rest =>
    M.all (fun b => decide (b.name ≠ a.name)) && !cfg.sharable a &&
      distinct_unshared cfg (M ++ [a]) rest
  | M, AttrCall.remove name :: rest =>
    distinct_unshared cfg (M.filter (fun a => decide (a.name ≠ name))) rest

/-- Ten creates ("attr0" .. "attr9", which moves the attributes to dense
storage) and then five removes (which moves them back into the header). -/
def demo_attr_calls : List AttrCall :=
  demo_attrs.map AttrCall.create ++
    ((List.range 5).map (fun i => AttrCall.remove (demo_attr i).name))

/-- The file after ten creates and five removes. -/
def demo_file_10_5 : H5F_t := (attr_calls demo_cfg demo_file demo_attr_calls).getD demo_file

/-- Header message `m` holds the attribute `a`: it is an attribute message
that resolves (a shared one through the shared message storage of `f`) to an
attribute with the name, the value and the size of `a`. -/
def mesg_holds (f : H5F_t) (m : H5O_mesg_t) (a : H5A_t) : Prop :=
  m.type = H5O_msg_class_t.H5O_MSG_ATTR ∧
    ∃ b, mesg_attr f m = some b ∧ b.name = a.name ∧ b.data = a.data ∧ b.data_size = a.data_size

/-- The entries of the shared message storage `s` that are in use are still
there in `t`, in use. -/
def SohmExt (s t : List (H5A_t × Nat)) : Prop :=
  ∀ (i : Nat) (b : H5A_t) (rc : Nat), s[i]? = some (b, rc) → 0 < rc →
    ∃ rc2, t[i]? = some (b, rc2) ∧ 0 < rc2

/-- The attributes left in the dense storage once the attribute `name` is
deleted from it, in the order of the storage. -/
def dense_left (f : H5F_t) (name : List Nat) : List H5A_t :=
  (f.dense.filter (fun r => decide (r.attr.name ≠ name))).map (fun r => r.attr)

/-- The file after ten creates and four removes: six attributes in dense
storage. -/
def demo_file_10_4 : H5F_t :=
  (attr_calls demo_cfg demo_file (demo_attr_calls.take 14)).getD demo_file

/-- An attribute message as the header holds it once it has been flushed: not
shared, not dirty. -/
def clean_mesg (a : H5A_t) : H5O_mesg_t :=
  { type := H5O_msg_class_t.H5O_MSG_ATTR, shared := false, native := Native.attr a, dirty := false }

/-- A header with the attributes "attr0", "attr1", "attr2" in compact storage,
none of the messages dirty. -/
def c18_file : H5F_t :=
  { demo_file with oh := { demo_file.oh with nattrs := 3, mesg := [clean_mesg (demo_attr 0), clean_mesg (demo_attr 1), clean_mesg (demo_attr 2)] } }

/-- The attribute "attr1" with the new value `[7, 8, 9, 10]`. -/
def c18_attr : H5A_t := { demo_attr 1 with data := some [7, 8, 9, 10] }

/-- A header with the attributes "attr2", "attr0", "attr1" in compact storage,
in this order of the messages. -/
def c19_file : H5F_t :=
  { demo_file with oh := { demo_file.oh with nattrs := 3, mesg := [clean_mesg (demo_attr 2), clean_mesg (demo_attr 0), clean_mesg (demo_attr 1)] } }

/-- An operator that stops at the attribute "attr1". -/
def c19_op (a : H5A_t) : H5_iter :=
  if a.name = (demo_attr 1).name then H5_iter.STOP else H5_iter.CONT

/-- Number of live attributes of the object: the records of the dense storage
when the header has one, the attribute messages of the header otherwise. -/
def live_count (f : H5F_t) : Nat :=
  if H5F_addr_defined f.oh.attr_fheap_addr then f.dense.length else attr_count f

/-- A header of a later version that counts its attributes: `nattrs` is the
number of live attributes, and once the dense storage exists the header holds
no attribute message and the names in the dense storage differ. -/
structure Counted (cfg : Config) (f : H5F_t) : Prop where
  version : cfg.H5O_VERSION_1 < f.oh.version
  nattrs : f.oh.nattrs = live_count f
  dense_only : f.oh.attr_fheap_addr ≠ none → attr_count f = 0
  nodup : f.oh.attr_fheap_addr ≠ none → (f.dense.map (fun r => r.attr.name)).Nodup

/-- The files `f` and `g` agree on what the attribute count is about: the
version, `nattrs`, the address of the dense storage, the number of attribute
messages and the names in the dense storage. -/
def SameCount (f g : H5F_t) : Prop :=
  g.oh.version = f.oh.version ∧ g.oh.nattrs = f.oh.nattrs ∧
  g.oh.attr_fheap_addr = f.oh.attr_fheap_addr ∧ attr_count g = attr_count f ∧
  g.dense.map (fun r => r.attr.name) = f.dense.map (fun r => r.attr.name)

/-- The header `c18_file` after the rename of "attr1" to "a", a name of
another length. -/
def c27_renamed : H5F_t := (H5O_attr_rename demo_cfg c18_file (demo_attr 1).name [97]).1

/-- Whether a recorded call is a call of the metadata cache. -/
def is_cache : Event → Bool
  | Event.protect _ => true
  | Event.unprotect _ => true
  | _ => false

/-- The calls of the metadata cache among the recorded calls, in order. -/
def cache_calls (log : List Event) : List Event := log.filter is_cache

/-- The file `g` has the trace of `f` followed by calls that are not calls of
the metadata cache. -/
def QuietExt (f g : H5F_t) : Prop := ∃ ext, g.log = f.log ++ ext ∧ cache_calls ext = []

/-- The attribute operations of `H5Oattribute.c` that protect the object
header. -/
inductive AttrOp where
  | create (attr : H5A_t)
  | open_by_name (name : List Nat)
  | write (attr : H5A_t)
  | rename (old_name new_name : List Nat)
  | iterate (skip : Nat) (op : H5A_t → H5_iter)
  | remove (name : List Nat)
  | count
  | attr_exists (name : List Nat)

/-- The file an attribute operation leaves, given whether `H5AC_protect` hands
the object header out (`loads`).  Each routine starts with `oh = NULL` and
protects by
`if(NULL == (oh = H5AC_protect(...))) HGOTO_ERROR(H5E_ATTR, H5E_CANTLOAD, ...)`;
when the protect returns `NULL` the routine is at `done:` with `oh == NULL`,
where `if(oh && H5AC_unprotect(...) < 0)` makes no call.  `H5O_attr_create` has
offered the attribute to the shared message storage before it protects, and
does not protect when that failed. -/
def run_op (cfg : Config) (loads : Bool) (f : H5F_t) : AttrOp → H5F_t
  | AttrOp.create attr =>
    if loads then (H5O_attr_create cfg f attr).1
    else
      match create_share cfg f attr with
      | (f1, _, _, some _) => f1
      | (f1, _, _, none) => H5AC_protect f1 true
  | AttrOp.open_by_name name =>
    if loads then (H5O_attr_open_by_name f name).1 else H5AC_protect f false
  | AttrOp.write attr =>
    if loads then (H5O_attr_write cfg f attr).1 else H5AC_protect f true
  | AttrOp.rename old_name new_name =>
    if loads then (H5O_attr_rename cfg f old_name new_name).1 else H5AC_protect f true
  | AttrOp.iterate skip op =>
    if loads then (H5O_attr_iterate cfg f skip op).1 else H5AC_protect f false
  | AttrOp.remove name =>
    if loads then (H5O_attr_remove cfg f name).1 else H5AC_protect f true
  | AttrOp.count =>
    if loads then (H5O_attr_count cfg f).1 else H5AC_protect f false
  | AttrOp.attr_exists name =>
    if loads then (H5O_attr_exists f name).1 else H5AC_protect f false

/-- The file `g` has the trace of `f` followed by one protect, calls that are
not calls of the metadata cache, and one unprotect, which is the last call. -/
def Bracketed (f g : H5F_t) : Prop :=
  ∃ w mid fl, g.log = f.log ++ [Event.protect w] ++ mid ++ [Event.unprotect fl] ∧
    cache_calls mid = []

/-- The file after ten creates: the attributes "attr0" .. "attr9" in dense
storage. -/
def c28_file : H5F_t := (create_all demo_cfg demo_file demo_attrs).getD demo_file

/-- A call `H5O_attr_update_shared` makes to one of its collaborators. -/
inductive SharedCall where
  | try_share (attr : H5A_t)
  | get_refcount (sh_loc : Option Nat)
  | attr_link (attr : H5A_t)
  | try_delete (sh_mesg : Native)
  deriving DecidableEq, Repr

/-- The collaborators of `H5O_attr_update_shared` over a state `σ` of the
file, with whatever behaviour: `H5SM_try_share` returns the attribute with its
shared location and an `htri_t` (negative, zero or positive),
`H5SM_get_refcount` the reference count or nothing (a negative result),
`H5O_attr_link` and `H5SM_try_delete` whether they succeeded. -/
structure SharedOps (σ : Type) where
  H5SM_try_share : σ → H5A_t → σ × H5A_t × Int
  H5SM_get_refcount : σ → Option Nat → Option Nat
  H5O_attr_link : σ → H5A_t → σ × Bool
  H5SM_try_delete : σ → Native → σ × Bool

/-- The step "if(attr_rc == 1) H5O_attr_link" of `H5O_attr_update_shared`: the
state, whether the step succeeded and the call made. -/
def link_step {σ : Type} (ops : SharedOps σ) (s : σ) (attr : H5A_t) (attr_rc : Nat) :
    σ × Bool × List SharedCall :=
  if attr_rc = 1 then
    -- increment reference count on attribute components
    ((ops.H5O_attr_link s attr).1, (ops.H5O_attr_link s attr).2, [SharedCall.attr_link attr])
  else (s, true, [])

/-- The control flow of `H5O_attr_update_shared` over any collaborators: the
result is the state, the attribute, the error and the calls made to the
collaborators, in order. -/
def update_shared_calls {σ : Type} (ops : SharedOps σ) (s : σ) (attr : H5A_t)
    (sh_mesg : Native) : σ × H5A_t × Option H5E × List SharedCall :=
  -- store new version of message as a SOHM
  match ops.H5SM_try_share s attr with
  | (s1, attr1, shared_mesg) =>
    if shared_mesg = 0 then (s1, attr1, some H5E.BADMESG, [SharedCall.try_share attr])
    else if shared_mesg < 0 then (s1, attr1, some H5E.BADMESG, [SharedCall.try_share attr])
    else
      -- retrieve shared message storage ref count for new shared attribute
      match ops.H5SM_get_refcount s1 attr1.sh_loc with
      | none =>
        (s1, attr1, some H5E.CANTGET,
          [SharedCall.try_share attr, SharedCall.get_refcount attr1.sh_loc])
      | some attr_rc =>
        match link_step ops s1 attr1 attr_rc with
        | (s2, false, linked) =>
          (s2, attr1, some H5E.LINKCOUNT,
            [SharedCall.try_share attr, SharedCall.get_refcount attr1.sh_loc] ++ linked)
        | (s2, true, linked) =>
          -- remove the old attribute from the SOHM storage
          match ops.H5SM_try_delete s2 sh_mesg with
          | (s3, ok) =>
            (s3, attr1, (if ok then none else some H5E.CANTFREE),
              [SharedCall.try_share attr, SharedCall.get_refcount attr1.sh_loc] ++ linked ++
                [SharedCall.try_delete sh_mesg])

/-- The collaborators as the embedding of `H5Oattribute.c` models them. -/
def modelled_ops (cfg : Config) : SharedOps H5F_t where
  H5SM_try_share := fun f a =>
    ((H5SM_try_share cfg f a).1, (H5SM_try_share cfg f a).2.1,
      if (H5SM_try_share cfg f a).2.2 then 1 else 0)
  H5SM_get_refcount := H5SM_get_refcount
  H5O_attr_link := fun f a => (H5O_attr_link f a, true)
  H5SM_try_delete := fun f sh =>
    match H5SM_try_delete f sh with
    | some g => (g, true)
    | none => (f, false)

/-- A configuration whose shared message storage takes every attribute. -/
def c30_cfg : Config := { demo_cfg with sharable := fun _ => true }

/-- A file whose shared message storage holds "attr1" once. -/
def c30_file : H5F_t := { demo_file with sohm := [(demo_attr 1, 1)] }

/-- The new version of the shared attribute: "attr1" with another value. -/
def c30_attr : H5A_t := { demo_attr 1 with data := some [7, 8, 9, 10] }

/-- The bounds the storage of the attributes keeps (C38): `min_dense` is at
most `max_compact`; in compact storage `nattrs` is at most `max_compact`; and
once the dense storage is defined `nattrs` is at least 1 and either at least
`min_dense` or the dense storage holds an attribute too large for a header
message (its message size is `H5O_MESG_MAX_SIZE` or more). -/
structure StorageBounds (cfg : Config) (f : H5F_t) : Prop where
  order : f.oh.min_dense ≤ f.oh.max_compact
  compact : f.oh.attr_fheap_addr = none → f.oh.nattrs ≤ f.oh.max_compact
  dense : f.oh.attr_fheap_addr ≠ none → 1 ≤ f.oh.nattrs ∧
    (f.oh.min_dense ≤ f.oh.nattrs ∨
      ∃ r ∈ f.dense, cfg.H5O_MESG_MAX_SIZE ≤ cfg.mesg_size r.attr)

end H5O

/-! # Data sieving of contiguous datasets: the embedding of `H5Fcontig.c` -/

namespace H5F

/-- Return status of the routines. -/
inductive herr_t where
  | SUCCEED
  | FAIL
  deriving DecidableEq, Repr

/-- Number of values of `haddr_t`, `hsize_t` and `size_t`, taken as unsigned
64-bit integers: `2^64`. -/
def HADDR_MOD : Nat := 18446744073709551616

/-- The undefined address `HADDR_UNDEF` (all bits set). -/
def HADDR_UNDEF : Nat := 18446744073709551615

/-- Unsigned 64-bit addition. -/
def add64 (a b : Nat) : Nat := (a + b) % HADDR_MOD

/-- Unsigned 64-bit subtraction. -/
def sub64 (a b : Nat) : Nat := (a + (HADDR_MOD - b % HADDR_MOD)) % HADDR_MOD

/-- Calls of the block I/O collaborator, in the order they are issued, with
their outcome. -/
inductive Event where
  | block_read (addr size : Nat) (ok : Bool)
  | block_write (addr size : Nat) (data : List Nat) (ok : Bool)
  deriving DecidableEq, Repr

/-- The low-level file `f->shared->lf`: whether the driver sets
`H5FD_FEAT_DATA_SIEVE`, the absolute end of allocation it reports, and the
bytes of the file by file-relative address. -/
structure H5FD_t where
  data_sieve : Bool
  eoa : Nat
  data : List Nat
  deriving DecidableEq, Repr

/-- The file `f` with the fields of `f->shared` the routines use: `sieve_buf`
is `none` for `NULL`, and the block it points to otherwise; `log` is the trace
of block I/O calls. -/
structure H5F_t where
  lf : H5FD_t
  base_addr : Nat
  sieve_buf : Option (List Nat)
  sieve_loc : Nat
  sieve_size : Nat
  sieve_dirty : Bool
  sieve_buf_size : Nat
  log : List Event
  deriving DecidableEq, Repr

/-- The local copies `sieve_start`, `sieve_size`, `sieve_end` the loops keep of
the window. -/
structure Locals where
  sieve_start : Nat
  sieve_size : Nat
  sieve_end : Nat
  deriving DecidableEq, Repr

/-! ## Collaborators and memory -/

/-- Append a call to the trace. -/
def log_event (f : H5F_t) (e : Event) : H5F_t := { f with log := f.log ++ [e] }

/-- The file with `bytes` stored at the file-relative address `addr`. -/
def put_data (f : H5F_t) (addr : Nat) (bytes : List Nat) : H5F_t :=
  { f with lf := { f.lf with data := f.lf.data.take addr ++ bytes ++ f.lf.data.drop (addr + bytes.length) } }

/-- Modelled from the spec: `H5F_block_read` of the block I/O collaborator,
which reads `size` bytes at the file-relative address `addr` and fails on an
out-of-range address (short read). -/
def H5F_block_read (f : H5F_t) (addr size : Nat) : H5F_t × Option (List Nat) :=
  if addr + size ≤ f.lf.data.length then
    (log_event f (Event.block_read addr size true), some ((f.lf.data.drop addr).take size))
  else (log_event f (Event.block_read addr size false), none)

/-- Modelled from the spec: `H5F_block_write` of the block I/O collaborator,
which writes the first `size` bytes of `buf` at the file-relative address
`addr` and fails on an out-of-range address (short write). -/
def H5F_block_write (f : H5F_t) (addr size : Nat) (buf : List Nat) : H5F_t × herr_t :=
  if addr + size ≤ f.lf.data.length then
    (put_data (log_event f (Event.block_write addr size (buf.take size) true)) addr (buf.take size),
      herr_t.SUCCEED)
  else (log_event f (Event.block_write addr size (buf.take size) false), herr_t.FAIL)

/-- Modelled from the spec: `H5FD_get_eoa`, the end-of-allocation query;
`HADDR_UNDEF` is its failure. -/
def H5FD_get_eoa (lf : H5FD_t) : Nat := lf.eoa

/-- Modelled from the spec: `H5FL_BLK_ALLOC(sieve_buf, size, 0)`, a block of
`size` bytes that is not cleared (its bytes are taken as 0); the allocation is
taken to succeed. -/
def H5FL_BLK_ALLOC (size : Nat) : List Nat := List.replicate size 0

/-- `HDmemcpy(blk + off, src, src.length)`; `none` when it writes outside the
block, which C leaves undefined. -/
def mem_write (blk : List Nat) (off : Nat) (src : List Nat) : Option (List Nat) :=
  if off + src.length ≤ blk.length then some (blk.take off ++ src ++ blk.drop (off + src.length))
  else none

/-- The `n` bytes at `blk + off`; `none` when they are not all inside the
block. -/
def mem_read (blk : List Nat) (off n : Nat) : Option (List Nat) :=
  if off + n ≤ blk.length then some ((blk.drop off).take n) else none

/-! ## The search for the run of sequences inside the window -/

/-- End address `temp_addr+offset_arr[i]+size_arr[i]` of sequence `i`, with
`temp_addr=_addr-1`. -/
def temp_end (_addr : Nat) (size_arr offset_arr : List Nat) (i : Nat) : Nat :=
  add64 (add64 (sub64 _addr 1) (offset_arr.getD i 0)) (size_arr.getD i 0)

/-- The loop "search for the first byte with a bit set":
`while((max_search & mask)==0) { mask>>=8; bit_loc-=8; }`; the result is
`(mask, bit_loc)`. -/
def probe_byte (max_search : Nat) : Nat → Nat → Nat → Nat × Nat
  | 0, mask, bit_loc => (mask, bit_loc)
  | fuel + 1, mask, bit_loc =>
    if max_search &&& mask = 0 then probe_byte max_search fuel (mask >>> 8) (bit_loc - 8)
    else (mask, bit_loc)

/-- The loop "switch to searching for a bit":
`while((max_search & mask)==0) { mask>>=1; bit_loc--; }`. -/
def probe_bit (max_search : Nat) : Nat → Nat → Nat → Nat × Nat
  | 0, mask, bit_loc => (mask, bit_loc)
  | fuel + 1, mask, bit_loc =>
    if max_search &&& mask = 0 then probe_bit max_search fuel (mask >>> 1) (bit_loc - 1)
    else (mask, bit_loc)

/-- The shift `1<<bit_loc` of the log2 probe as C defines it: the constant `1`
is an `int` (32 bits), so the result is defined only when it is representable,
that is for `bit_loc < 31`; `none` is undefined behaviour. -/
def int_shl_one (bit_loc : Nat) : Option Nat :=
  if bit_loc < 31 then some (1 <<< bit_loc) else none

/-- "Find log2(n) where n is the number of elements to search": the location
of the leftmost bit of `max_search`, plus 1.  The byte loop starts from the
mask `0xff<<56` at bit 63, the bit loop from `mask=1<<bit_loc`, an `int`
shift: `none` when that shift is undefined. -/
def log2_probe_int (max_search : Nat) : Option Nat :=
  let bit_loc := (probe_byte max_search 8 (255 <<< 56) 63).2
  match int_shl_one bit_loc with
  | none => none
  | some mask => some ((probe_bit max_search 8 mask bit_loc).2 + 1)

/-- The loop of the linear search, "search for the first sequence ending
greater than the sieve buffer end":
`while(temp_end<sieve_end) { if(++max_seq>=nseq) break; temp_end=...; }`;
the result is `max_seq` at the exit. -/
def linear_search (_addr sieve_end nseq : Nat) (size_arr offset_arr : List Nat) : Nat → Nat → Nat
  | 0, max_seq => max_seq
  | fuel + 1, max_seq =>
    if temp_end _addr size_arr offset_arr max_seq < sieve_end then
      if max_seq + 1 ≥ nseq then max_seq + 1
      else linear_search _addr sieve_end nseq size_arr offset_arr fuel (max_seq + 1)
    else max_seq

/-- The variables `lo`, `hi`, `max_seq` of the binary search. -/
structure Bounds where
  lo : Nat
  hi : Nat
  max_seq : Nat
  deriving DecidableEq, Repr

/-- The loop `while(!found)` of the binary search, "find the value 'u' which
will be beyond the end of the sieve buffer". -/
def binary_search (_addr sieve_end : Nat) (size_arr offset_arr : List Nat) : Nat → Bounds → Bounds
  | 0, b => b
  | fuel + 1, b =>
    if temp_end _addr size_arr offset_arr b.max_seq ≥ sieve_end then
      -- current high bound is too large
      if b.lo + 1 < b.hi then
        binary_search _addr sieve_end size_arr offset_arr fuel
          { lo := b.lo, hi := b.max_seq, max_seq := (b.lo + b.max_seq) / 2 }
      else b
    else
      -- current low bound is too small
      if b.lo + 1 < b.hi then
        binary_search _addr sieve_end size_arr offset_arr fuel
          { lo := b.max_seq, hi := b.hi, max_seq := (b.max_seq + b.hi + 1) / 2 }
      else b

/-- The search of the hit path (`#else` of `SLOW_WAY`): the index `max_seq` of
the last sequence of the run that is copied, found after the log2 probe by
the linear or the binary search; `none` when the shift of the log2 probe is
undefined. -/
def hit_run (_addr sieve_end nseq : Nat) (size_arr offset_arr : List Nat) (u : Nat) :
    Option Nat :=
  let max_search := ((nseq - 1) - u) + 1
  -- find log2(n) where n is the number of elements to search
  match log2_probe_int max_search with
  | none => none
  | some log2 =>
    -- don't walk off the array
    let max_seq := min (u + log2) (nseq - 1)
    some (
      if temp_end _addr size_arr offset_arr max_seq ≥ sieve_end then
        -- linear search is faster; adjust back one element
        linear_search _addr sieve_end nseq size_arr offset_arr nseq u - 1
      else
        -- binary search is faster
        let b := binary_search _addr sieve_end size_arr offset_arr nseq
          { lo := u, hi := nseq - 1, max_seq := (u + (nseq - 1)) / 2 }
        -- check for non-exact match
        if b.lo ≠ b.hi then
          if temp_end _addr size_arr offset_arr b.hi < sieve_end then b.hi else b.lo
        else b.max_seq)

/-- The copy loop of the hit path of `H5F_contig_readv` (Duff's device unrolls
the loop `while(u<=max_seq)` of `NO_DUFFS_DEVICE`): `count` sequences from `u`
on are copied out of the sieve buffer, each from
`base_sieve_buf+offset_arr[u]` with `base_sieve_buf=sieve_buf+(_addr-sieve_start)`. -/
def readv_copy (sb : List Nat) (_addr sieve_start : Nat) (size_arr offset_arr : List Nat) :
    Nat → Nat → List Nat → Option (List Nat)
  | 0, _, out => some out
  | count + 1, u, out =>
    match mem_read sb (add64 (sub64 _addr sieve_start) (offset_arr.getD u 0))
        (size_arr.getD u 0) with
    | none => none
    | some bytes => readv_copy sb _addr sieve_start size_arr offset_arr count (u + 1) (out ++ bytes)

/-- The copy loop of the hit path of `H5F_contig_writev`: `count` sequences
from `u` on are copied from the user's buffer into the sieve buffer; the
result is the sieve buffer and the rest of the user's buffer. -/
def writev_copy (_addr sieve_start : Nat) (size_arr offset_arr : List Nat) :
    Nat → Nat → List Nat → List Nat → Option (List Nat × List Nat)
  | 0, _, sb, buf => some (sb, buf)
  | count + 1, u, sb, buf =>
    match mem_read buf 0 (size_arr.getD u 0) with
    | none => none
    | some bytes =>
      match mem_write sb (add64 (sub64 _addr sieve_start) (offset_arr.getD u 0)) bytes with
      | none => none
      | some sb2 =>
        writev_copy _addr sieve_start size_arr offset_arr count (u + 1) sb2
          (buf.drop (size_arr.getD u 0))

/-! ## The steps of `H5F_contig_readv` and `H5F_contig_writev` -/

/-- "Stash local copies of these value". -/
def stash (f : H5F_t) : Locals :=
  { sieve_start := f.sieve_loc, sieve_size := f.sieve_size,
    sieve_end := add64 f.sieve_loc f.sieve_size }

/-- The test "entire read (write) is within the sieve buffer". -/
def within_sieve (l : Locals) (addr contig_end : Nat) : Bool :=
  decide (addr ≥ l.sieve_start) && decide (contig_end < l.sieve_end)

/-- The test "check for any overlap with the current sieve buffer". -/
def overlap_check (l : Locals) (addr contig_end : Nat) : Bool :=
  (decide (l.sieve_start ≥ addr) && decide (l.sieve_start < add64 contig_end 1)) ||
    (decide (sub64 l.sieve_end 1 ≥ addr) && decide (sub64 l.sieve_end 1 < add64 contig_end 1))

/-- "Flush the sieve buffer if it's dirty": the block write of `sieve_size`
bytes of the sieve buffer at `sieve_start` (the local copies), and the reset
of the dirty flag once it has succeeded. -/
def sieve_flush (f : H5F_t) (l : Locals) : Option (H5F_t × herr_t) :=
  if f.sieve_dirty then
    match f.sieve_buf with
    | none => none
    | some sb =>
      if sb.length < l.sieve_size then none
      else
        match H5F_block_write f l.sieve_start l.sieve_size sb with
        | (f1, herr_t.FAIL) => some (f1, herr_t.FAIL)
        | (f1, herr_t.SUCCEED) => some ({ f1 with sieve_dirty := false }, herr_t.SUCCEED)
  else some (f, herr_t.SUCCEED)

/-- "Compute the size of the sieve buffer":
`MIN(rel_eoa-sieve_loc, MIN(max_data, sieve_buf_size))` with
`rel_eoa=abs_eoa-base_addr` and `max_data=_max_data-offset_arr[u]`. -/
def window_size (f : H5F_t) (_max_data offset : Nat) : Nat :=
  min (sub64 (sub64 (H5FD_get_eoa f.lf) f.base_addr) f.sieve_loc)
    (min (sub64 _max_data offset) f.sieve_buf_size)

/-- "Read the new sieve buffer": the block read of the window into the sieve
buffer. -/
def sieve_fill (f : H5F_t) : Option (H5F_t × herr_t) :=
  match H5F_block_read f f.sieve_loc f.sieve_size with
  | (f1, none) => some (f1, herr_t.FAIL)
  | (f1, some data) =>
    match f1.sieve_buf with
    | none => none
    | some sb =>
      match mem_write sb 0 data with
      | none => none
      | some sb1 => some ({ f1 with sieve_buf := some sb1 }, herr_t.SUCCEED)

/-- The block of `H5F_contig_readv` that sets the window up at the address of
the current sequence (after the flush, or after the allocation): "determine
the new sieve buffer size & location", read the new sieve buffer, reset the
dirty flag and grab the data out of the buffer.  The result is the file and
the bytes read, `none` for them on failure. -/
def readv_window (f : H5F_t) (_max_data offset addr size : Nat) :
    Option (H5F_t × Option (List Nat)) :=
  let f1 : H5F_t := { f with sieve_loc := addr }
  -- make certain we don't read off the end of the file
  if H5FD_get_eoa f1.lf = HADDR_UNDEF then some (f1, none)
  else
    let f2 : H5F_t := { f1 with sieve_size := window_size f1 _max_data offset }
    match sieve_fill f2 with
    | none => none
    | some (f3, herr_t.FAIL) => some (f3, none)
    | some (f3, herr_t.SUCCEED) =>
      let f4 : H5F_t := { f3 with sieve_dirty := false }
      match f4.sieve_buf with
      | none => none
      | some sb =>
        match mem_read sb 0 size with
        | none => none
        | some bytes => some (f4, some bytes)

/-- The branch of `H5F_contig_readv` for a sequence larger than the sieve
buffer when a buffer exists: the window is flushed if it overlaps and is
dirty, and the sequence is read directly into the user's buffer. -/
def readv_direct (f : H5F_t) (l : Locals) (addr size contig_end : Nat) :
    Option (H5F_t × Option (List Nat)) :=
  match (if overlap_check l addr contig_end then sieve_flush f l
         else some (f, herr_t.SUCCEED)) with
  | none => none
  | some (f1, herr_t.FAIL) => some (f1, none)
  | some (f1, herr_t.SUCCEED) => some (H5F_block_read f1 addr size)

/-- The branch of `H5F_contig_readv` for a sequence that fits the sieve buffer
but is not within the window: flush, then the new window. -/
def readv_replace (f : H5F_t) (l : Locals) (_max_data offset addr size : Nat) :
    Option (H5F_t × Option (List Nat)) :=
  match sieve_flush f l with
  | none => none
  | some (f1, herr_t.FAIL) => some (f1, none)
  | some (f1, herr_t.SUCCEED) => readv_window f1 _max_data offset addr size

/-- The branch "entire request is not within this data sieve buffer" of
`H5F_contig_readv`, for the current sequence.  The result is the file, the
local copies and the bytes read (`none` on failure). -/
def readv_miss (f : H5F_t) (l : Locals) (_max_data offset addr size contig_end : Nat) :
    Option (H5F_t × Locals × Option (List Nat)) :=
  if size > f.sieve_buf_size then
    match readv_direct f l addr size contig_end with
    | none => none
    | some (f1, r) => some (f1, l, r)
  else
    match readv_replace f l _max_data offset addr size with
    | none => none
    | some (f1, r) => some (f1, stash f1, r)

/-- The branch "no data sieve buffer yet, go allocate one" of
`H5F_contig_readv`, for the current sequence. -/
def readv_nobuf (f : H5F_t) (_max_data offset addr size : Nat) :
    Option (H5F_t × Option (List Nat)) :=
  if size > f.sieve_buf_size then some (H5F_block_read f addr size)
  else
    -- allocate room for the data sieve buffer
    let f1 : H5F_t := { f with sieve_buf := some (H5FL_BLK_ALLOC f.sieve_buf_size) }
    readv_window f1 _max_data offset addr size

/-- The hit path of `H5F_contig_readv`: the run of sequences from `u` to
`max_seq` is copied out of the sieve buffer.  The result is the bytes read so
far and the next sequence; `none` when the search or the copy is undefined. -/
def readv_hit (f : H5F_t) (l : Locals) (_addr nseq : Nat) (size_arr offset_arr : List Nat)
    (u : Nat) (out : List Nat) : Option (List Nat × Nat) :=
  match f.sieve_buf with
  | none => none
  | some sb =>
    match hit_run _addr l.sieve_end nseq size_arr offset_arr u with
    | none => none
    | some max_seq =>
      match readv_copy sb _addr l.sieve_start size_arr offset_arr ((max_seq - u) + 1) u out with
      | none => none
      | some out2 => some (out2, max_seq + 1)

/-- The loop of `H5F_contig_readv` that "works through sequences as fast as
possible" once a sieve buffer exists; it ends only when all sequences are done
or a call fails.  `fuel` bounds the iterations; the result is the file, the
status and the bytes read. -/
def readv_inner (_max_data _addr nseq : Nat) (size_arr offset_arr : List Nat) :
    Nat → H5F_t → Locals → Nat → List Nat → Option (H5F_t × herr_t × List Nat)
  | 0, f, _, u, out => if u < nseq then none else some (f, herr_t.SUCCEED, out)
  | fuel + 1, f, l, u, out =>
    if u < nseq then
      let size := size_arr.getD u 0
      let addr := add64 _addr (offset_arr.getD u 0)
      -- compute end of sequence to retrieve
      let contig_end := sub64 (add64 addr size) 1
      if within_sieve l addr contig_end then
        match readv_hit f l _addr nseq size_arr offset_arr u out with
        | none => none
        | some (out2, u2) => readv_inner _max_data _addr nseq size_arr offset_arr fuel f l u2 out2
      else
        match readv_miss f l _max_data (offset_arr.getD u 0) addr size contig_end with
        | none => none
        | some (f2, _, none) => some (f2, herr_t.FAIL, out)
        | some (f2, l2, some bytes) =>
          readv_inner _max_data _addr nseq size_arr offset_arr fuel f2 l2 (u + 1) (out ++ bytes)
    else some (f, herr_t.SUCCEED, out)

/-- The outer loop of `H5F_contig_readv`, which "guarantees working through
all the sequences". -/
def readv_outer (_max_data _addr nseq : Nat) (size_arr offset_arr : List Nat) :
    Nat → H5F_t → Nat → List Nat → Option (H5F_t × herr_t × List Nat)
  | 0, f, u, out => if u < nseq then none else some (f, herr_t.SUCCEED, out)
  | fuel + 1, f, u, out =>
    if u < nseq then
      match f.sieve_buf with
      | some _ =>
        -- try reading from the data sieve buffer
        readv_inner _max_data _addr nseq size_arr offset_arr (nseq - u) f (stash f) u out
      | none =>
        match readv_nobuf f _max_data (offset_arr.getD u 0) (add64 _addr (offset_arr.getD u 0))
            (size_arr.getD u 0) with
        | none => none
        | some (f2, none) => some (f2, herr_t.FAIL, out)
        | some (f2, some bytes) =>
          readv_outer _max_data _addr nseq size_arr offset_arr fuel f2 (u + 1) (out ++ bytes)
    else some (f, herr_t.SUCCEED, out)

/-- The loop of `H5F_contig_readv` for a driver without data sieving: one
block read per sequence. -/
def readv_nosieve (_addr : Nat) : List Nat → List Nat → H5F_t → List Nat →
    H5F_t × herr_t × List Nat
  | size :: sizes, offset :: offsets, f, out =>
    match H5F_block_read f (add64 _addr offset) size with
    | (f1, none) => (f1, herr_t.FAIL, out)
    | (f1, some bytes) => readv_nosieve _addr sizes offsets f1 (out ++ bytes)
  | _, _, f, out => (f, herr_t.SUCCEED, out)

/-- Reads some data vectors from a dataset into a buffer (`H5F_contig_readv`).
The result is the file, the status and the bytes put into the user's buffer;
`none` stands for behaviour C leaves undefined (arrays shorter than `nseq`, a
copy outside the sieve buffer, the shift of the log2 probe when `2^24` or more
sequences are left). -/
def H5F_contig_readv (f : H5F_t) (_max_data _addr nseq : Nat) (size_arr offset_arr : List Nat) :
    Option (H5F_t × herr_t × List Nat) :=
  if nseq ≤ size_arr.length ∧ nseq ≤ offset_arr.length then
    -- check if data sieving is enabled
    if f.lf.data_sieve then readv_outer _max_data _addr nseq size_arr offset_arr nseq f 0 []
    else some (readv_nosieve _addr (size_arr.take nseq) (offset_arr.take nseq) f [])
  else none

/-- The block of `H5F_contig_writev` that sets the window up at the address of
the current sequence (after the flush, or after the allocation): "determine
the new sieve buffer size & location", read the new sieve buffer if there is
any point in it, copy the data in and set the dirty flag. -/
def writev_window (f : H5F_t) (_max_data offset addr size : Nat) (bytes : List Nat) :
    Option (H5F_t × herr_t) :=
  let f1 : H5F_t := { f with sieve_loc := addr }
  -- make certain we don't read off the end of the file
  if H5FD_get_eoa f1.lf = HADDR_UNDEF then some (f1, herr_t.FAIL)
  else
    let f2 : H5F_t := { f1 with sieve_size := window_size f1 _max_data offset }
    -- check if there is any point in reading the data from the file
    match (if f2.sieve_size > size then sieve_fill f2 else some (f2, herr_t.SUCCEED)) with
    | none => none
    | some (f3, herr_t.FAIL) => some (f3, herr_t.FAIL)
    | some (f3, herr_t.SUCCEED) =>
      match f3.sieve_buf with
      | none => none
      | some sb =>
        match mem_write sb 0 bytes with
        | none => none
        | some sb1 => some ({ f3 with sieve_buf := some sb1, sieve_dirty := true }, herr_t.SUCCEED)

/-- The branch of `H5F_contig_writev` for a sequence larger than the sieve
buffer when a buffer exists: if the window overlaps it is flushed when dirty
and then forced "to be re-read the next time"; the sequence is written
directly from the user's buffer.  The local copies are left as they are. -/
def writev_direct (f : H5F_t) (l : Locals) (addr size contig_end : Nat) (bytes : List Nat) :
    Option (H5F_t × herr_t) :=
  if overlap_check l addr contig_end then
    match sieve_flush f l with
    | none => none
    | some (f1, herr_t.FAIL) => some (f1, herr_t.FAIL)
    | some (f1, herr_t.SUCCEED) =>
      -- force the sieve buffer to be re-read the next time
      some (H5F_block_write { f1 with sieve_loc := HADDR_UNDEF, sieve_size := 0 } addr size bytes)
  else some (H5F_block_write f addr size bytes)

/-- The test "check if it is possible to (exactly) prepend or append to
existing (dirty) sieve buffer". -/
def can_extend (f : H5F_t) (l : Locals) (addr size : Nat) : Bool :=
  (decide (add64 addr size = l.sieve_start) || decide (addr = l.sieve_end)) &&
    decide (add64 size l.sieve_size ≤ f.sieve_buf_size) && f.sieve_dirty

/-- The prepend / append branch of `H5F_contig_writev`: the window grows in
place by the sequence. -/
def writev_extend (f : H5F_t) (l : Locals) (addr size : Nat) (bytes : List Nat) :
    Option H5F_t :=
  match f.sieve_buf with
  | none => none
  | some sb =>
    if add64 addr size = l.sieve_start then
      -- prepend: move existing sieve information to correct location
      match mem_read sb 0 l.sieve_size with
      | none => none
      | some old =>
        match mem_write sb size old with
        | none => none
        | some sb1 =>
          -- copy in new information (must be first in sieve buffer)
          match mem_write sb1 0 bytes with
          | none => none
          | some sb2 =>
            some { f with sieve_buf := some sb2, sieve_loc := addr, sieve_size := add64 f.sieve_size size }
    else
      -- append: copy in new information
      match mem_write sb l.sieve_size bytes with
      | none => none
      | some sb1 => some { f with sieve_buf := some sb1, sieve_size := add64 f.sieve_size size }

/-- The branch "can't add the new data onto the existing sieve buffer" of
`H5F_contig_writev`: flush, then the new window. -/
def writev_replace (f : H5F_t) (l : Locals) (_max_data offset addr size : Nat)
    (bytes : List Nat) : Option (H5F_t × herr_t) :=
  match sieve_flush f l with
  | none => none
  | some (f1, herr_t.FAIL) => some (f1, herr_t.FAIL)
  | some (f1, herr_t.SUCCEED) => writev_window f1 _max_data offset addr size bytes

/-- The branch "entire request is not within this data sieve buffer" of
`H5F_contig_writev`, for the current sequence with its `bytes` in the user's
buffer.  The result is the file, the local copies and the status. -/
def writev_miss (f : H5F_t) (l : Locals) (_max_data offset addr size contig_end : Nat)
    (bytes : List Nat) : Option (H5F_t × Locals × herr_t) :=
  if size > f.sieve_buf_size then
    match writev_direct f l addr size contig_end bytes with
    | none => none
    | some (f1, r) => some (f1, l, r)
  else if can_extend f l addr size then
    match writev_extend f l addr size bytes with
    | none => none
    | some f1 => some (f1, stash f1, herr_t.SUCCEED)
  else
    match writev_replace f l _max_data offset addr size bytes with
    | none => none
    | some (f1, r) => some (f1, stash f1, r)

/-- The branch "no data sieve buffer yet, go allocate one" of
`H5F_contig_writev`, for the current sequence. -/
def writev_nobuf (f : H5F_t) (_max_data offset addr size : Nat) (bytes : List Nat) :
    Option (H5F_t × herr_t) :=
  if size > f.sieve_buf_size then some (H5F_block_write f addr size bytes)
  else
    -- allocate room for the data sieve buffer
    let f1 : H5F_t := { f with sieve_buf := some (H5FL_BLK_ALLOC f.sieve_buf_size) }
    writev_window f1 _max_data offset addr size bytes

/-- The hit path of `H5F_contig_writev`: the run of sequences from `u` to
`max_seq` is copied into the sieve buffer, which becomes dirty.  The result is
the file, the rest of the user's buffer and the next sequence; `none` when the
search or the copy is undefined. -/
def writev_hit (f : H5F_t) (l : Locals) (_addr nseq : Nat) (size_arr offset_arr : List Nat)
    (u : Nat) (buf : List Nat) : Option (H5F_t × List Nat × Nat) :=
  match f.sieve_buf with
  | none => none
  | some sb =>
    match hit_run _addr l.sieve_end nseq size_arr offset_arr u with
    | none => none
    | some max_seq =>
      match writev_copy _addr l.sieve_start size_arr offset_arr ((max_seq - u) + 1) u sb buf with
      | none => none
      | some (sb2, buf2) =>
        -- set sieve buffer dirty flag
        some ({ f with sieve_buf := some sb2, sieve_dirty := true }, buf2, max_seq + 1)

/-- The loop of `H5F_contig_writev` that "works through sequences as fast as
possible" once a sieve buffer exists.  `buf` is the user's buffer from the
current position on. -/
def writev_inner (_max_data _addr nseq : Nat) (size_arr offset_arr : List Nat) :
    Nat → H5F_t → Locals → Nat → List Nat → Option (H5F_t × herr_t)
  | 0, f, _, u, _ => if u < nseq then none else some (f, herr_t.SUCCEED)
  | fuel + 1, f, l, u, buf =>
    if u < nseq then
      let size := size_arr.getD u 0
      let addr := add64 _addr (offset_arr.getD u 0)
      -- compute end of sequence to retrieve
      let contig_end := sub64 (add64 addr size) 1
      if within_sieve l addr contig_end then
        match writev_hit f l _addr nseq size_arr offset_arr u buf with
        | none => none
        | some (f2, buf2, u2) =>
          writev_inner _max_data _addr nseq size_arr offset_arr fuel f2 l u2 buf2
      else
        match mem_read buf 0 size with
        | none => none
        | some bytes =>
          match writev_miss f l _max_data (offset_arr.getD u 0) addr size contig_end bytes with
          | none => none
          | some (f2, _, herr_t.FAIL) => some (f2, herr_t.FAIL)
          | some (f2, l2, herr_t.SUCCEED) =>
            writev_inner _max_data _addr nseq size_arr offset_arr fuel f2 l2 (u + 1) (buf.drop size)
    else some (f, herr_t.SUCCEED)

/-- The outer loop of `H5F_contig_writev`. -/
def writev_outer (_max_data _addr nseq : Nat) (size_arr offset_arr : List Nat) :
    Nat → H5F_t → Nat → List Nat → Option (H5F_t × herr_t)
  | 0, f, u, _ => if u < nseq then none else some (f, herr_t.SUCCEED)
  | fuel + 1, f, u, buf =>
    if u < nseq then
      match f.sieve_buf with
      | some _ =>
        -- try writing into the data sieve buffer
        writev_inner _max_data _addr nseq size_arr offset_arr (nseq - u) f (stash f) u buf
      | none =>
        match mem_read buf 0 (size_arr.getD u 0) with
        | none => none
        | some bytes =>
          match writev_nobuf f _max_data (offset_arr.getD u 0)
              (add64 _addr (offset_arr.getD u 0)) (size_arr.getD u 0) bytes with
          | none => none
          | some (f2, herr_t.FAIL) => some (f2, herr_t.FAIL)
          | some (f2, herr_t.SUCCEED) =>
            writev_outer _max_data _addr nseq size_arr offset_arr fuel f2 (u + 1)
              (buf.drop (size_arr.getD u 0))
    else some (f, herr_t.SUCCEED)

/-- The loop of `H5F_contig_writev` for a driver without data sieving: one
block write per sequence. -/
def writev_nosieve (_addr : Nat) : List Nat → List Nat → H5F_t → List Nat →
    Option (H5F_t × herr_t)
  | size :: sizes, offset :: offsets, f, buf =>
    match mem_read buf 0 size with
    | none => none
    | some bytes =>
      match H5F_block_write f (add64 _addr offset) size bytes with
      | (f1, herr_t.FAIL) => some (f1, herr_t.FAIL)
      | (f1, herr_t.SUCCEED) => writev_nosieve _addr sizes offsets f1 (buf.drop size)
  | _, _, f, _ => some (f, herr_t.SUCCEED)

/-- Writes some data vectors into a dataset from a buffer
(`H5F_contig_writev`).  The result is the file and the status; `none` stands
for behaviour C leaves undefined (arrays shorter than `nseq`, a user's buffer
shorter than the sequences, a copy outside the sieve buffer, the shift of the
log2 probe when `2^24` or more sequences are left). -/
def H5F_contig_writev (f : H5F_t) (_max_data _addr nseq : Nat) (size_arr offset_arr : List Nat)
    (buf : List Nat) : Option (H5F_t × herr_t) :=
  if nseq ≤ size_arr.length ∧ nseq ≤ offset_arr.length then
    -- check if data sieving is enabled
    if f.lf.data_sieve then writev_outer _max_data _addr nseq size_arr offset_arr nseq f 0 buf
    else writev_nosieve _addr (size_arr.take nseq) (offset_arr.take nseq) f buf
  else none

/-- Reads some data from a dataset into a buffer (`H5F_contig_read`): the
vector call with one sequence at offset 0. -/
def H5F_contig_read (f : H5F_t) (max_data addr size : Nat) : Option (H5F_t × herr_t × List Nat) :=
  H5F_contig_readv f max_data addr 1 [size] [0]

/-- Writes some data from a buffer into a dataset (`H5F_contig_write`): the
vector call with one sequence at offset 0. -/
def H5F_contig_write (f : H5F_t) (max_data addr size : Nat) (buf : List Nat) :
    Option (H5F_t × herr_t) :=
  H5F_contig_writev f max_data addr 1 [size] [0] buf

/-- A freshly opened file of `n` bytes, byte `i` being `100 + i`, whose driver
does data sieving, with a sieve buffer size of `bufsz` and no sieve buffer
yet. -/
def demo_sieve_file (n bufsz : Nat) : H5F_t :=
  { lf := { data_sieve := true, eoa := n, data := (List.range n).map (fun i => 100 + i) },
    base_addr := 0, sieve_buf := none, sieve_loc := HADDR_UNDEF, sieve_size := 0,
    sieve_dirty := false, sieve_buf_size := bufsz, log := [] }

/-- The file a write call leaves, `f` itself when the call is undefined. -/
def file_after (f : H5F_t) (r : Option (H5F_t × herr_t)) : H5F_t :=
  match r with
  | some (f1, _) => f1
  | none => f

/-- The file contents the round trip promises: the bytes of a list of writes
`(addr, bytes)`, applied in order over the initial contents. -/
def written (data : List Nat) : List (Nat × List Nat) → List Nat
  | [] => data
  | (addr, bytes) :: rest =>
    written (data.take addr ++ bytes ++ data.drop (addr + bytes.length)) rest

/-- The file of the C1 example after the first write: 20 bytes, sieve buffer of
4 bytes, the byte `1` written at address 10, which makes `[10, 14)` the dirty
window. -/
def c1_file1 : H5F_t :=
  file_after (demo_sieve_file 20 4) (H5F_contig_writev (demo_sieve_file 20 4) 20 0 1 [1] [10] [1])

/-- The file of the C1 example after the second write, one call with the
sequences `[2, 3, 4, 5, 6]` at address 6 and `[7]` at address 12. -/
def c1_file2 : H5F_t :=
  file_after c1_file1 (H5F_contig_writev c1_file1 20 0 2 [5, 1] [6, 12] [2, 3, 4, 5, 6, 7])

/-- The file of the C7 example: 20 bytes, sieve buffer of 8 bytes, `[1, 2]`
written at address 10 of a dataset of 12 bytes, which makes `[10, 12)` the
dirty window. -/
def c7_file1 : H5F_t :=
  file_after (demo_sieve_file 20 8) (H5F_contig_writev (demo_sieve_file 20 8) 12 0 1 [2] [10] [1, 2])

/-- The file of the C7 example after `[3, 4]` has been written at address 8. -/
def c7_file2 : H5F_t :=
  file_after c7_file1 (H5F_contig_writev c7_file1 12 0 1 [2] [8] [3, 4])

/-- The file of the C8 example: 20 bytes, sieve buffer of 8 bytes, the byte `9`
written at address 0, which makes `[0, 8)` the dirty window. -/
def c8_file1 : H5F_t :=
  file_after (demo_sieve_file 20 8) (H5F_contig_writev (demo_sieve_file 20 8) 20 0 1 [1] [0] [9])

/-- Whether a call of the block I/O collaborator succeeded. -/
def event_ok : Event → Bool
  | Event.block_read _ _ ok => ok
  | Event.block_write _ _ _ ok => ok

/-- The block I/O issued between the files `f` and `f2` by a step or a call of
status `ok`: the end of allocation is the same, and the trace has grown by
successful calls only, followed when the status is failure by the one failed
call, or by nothing when the end-of-allocation query is what failed. -/
def Trace (f f2 : H5F_t) (ok : Bool) : Prop :=
  H5FD_get_eoa f2.lf = H5FD_get_eoa f.lf ∧
  ∃ pre, (∀ e ∈ pre, event_ok e = true) ∧
    ((ok = true ∧ f2.log = f.log ++ pre) ∨
     (ok = false ∧ ∃ e, event_ok e = false ∧ f2.log = f.log ++ pre ++ [e]) ∨
     (ok = false ∧ H5FD_get_eoa f.lf = HADDR_UNDEF ∧ f2.log = f.log ++ pre))

/-- The result of reading the sequences `(0, 2)`, `(16, 6)`, `(4, 2)` of a
file of 20 bytes with a sieve buffer size of 4: the second sequence is read
directly and runs past the end of the file. -/
def c17_read : H5F_t × herr_t × List Nat :=
  (H5F_contig_readv (demo_sieve_file 20 4) 20 0 3 [2, 6, 2] [0, 16, 4]).getD
    (demo_sieve_file 20 4, herr_t.SUCCEED, [])

/-- The result of writing `[1, 2]`, `[3, 4, 5, 6, 7, 8]`, `[9, 10]` as the
sequences `(0, 2)`, `(16, 6)`, `(4, 2)` of the same file. -/
def c17_write : H5F_t × herr_t :=
  (H5F_contig_writev (demo_sieve_file 20 4) 20 0 3 [2, 6, 2] [0, 16, 4]
    [1, 2, 3, 4, 5, 6, 7, 8, 9, 10]).getD (demo_sieve_file 20 4, herr_t.SUCCEED)

/-- A file of 20 bytes whose driver fails the end-of-allocation query. -/
def c17_no_eoa : H5F_t :=
  { demo_sieve_file 20 4 with lf := { data_sieve := true, eoa := HADDR_UNDEF, data := (demo_sieve_file 20 4).lf.data } }

/-- A file of 20 bytes whose driver does not do data sieving. -/
def c20_file : H5F_t :=
  { demo_sieve_file 20 8 with lf := { data_sieve := false, eoa := 20, data := (demo_sieve_file 20 8).lf.data } }

/-- The linear strategy of the hit path: the search "for the first sequence
ending greater than the sieve buffer end" from `u` on, adjusted back one
element. -/
def linear_run (_addr sieve_end nseq : Nat) (size_arr offset_arr : List Nat) (u : Nat) : Nat :=
  linear_search _addr sieve_end nseq size_arr offset_arr nseq u - 1

/-- The binary strategy of the hit path: the binary search between `u` and
`nseq-1`, followed by the check for a non-exact match. -/
def binary_run (_addr sieve_end nseq : Nat) (size_arr offset_arr : List Nat) (u : Nat) : Nat :=
  let b := binary_search _addr sieve_end size_arr offset_arr nseq
    { lo := u, hi := nseq - 1, max_seq := (u + (nseq - 1)) / 2 }
  -- check for non-exact match
  if b.lo ≠ b.hi then
    if temp_end _addr size_arr offset_arr b.hi < sieve_end then b.hi else b.lo
  else b.max_seq

/-- The sequence the log2 probe looks at to "determine if a linear search is
faster than a binary search", `log2` being the result of the probe. -/
def probe_seq (nseq u log2 : Nat) : Nat :=
  min (u + log2) (nseq - 1)

/-- Sequence `i` lies inside the window `[sieve_start, sieve_start+sieve_size)`:
its first byte is at or after the start of the window and its last byte before
the end of the window (addresses taken as unbounded numbers). -/
def seq_inside (l : Locals) (_addr : Nat) (size_arr offset_arr : List Nat) (i : Nat) : Prop :=
  l.sieve_start ≤ _addr + offset_arr.getD i 0 ∧
    _addr + offset_arr.getD i 0 + size_arr.getD i 0 ≤ l.sieve_start + l.sieve_size

instance seq_inside_decidable (l : Locals) (_addr : Nat) (size_arr offset_arr : List Nat)
    (i : Nat) : Decidable (seq_inside l _addr size_arr offset_arr i) := by
  unfold seq_inside
  infer_instance

/-- The window `[4, 12)` of the example for the run of sequences. -/
def c22_window : Locals := { sieve_start := 4, sieve_size := 8, sieve_end := 12 }

/-- The sieve buffer of the example for the run of sequences. -/
def c22_buf : List Nat := [10, 11, 12, 13, 14, 15, 16, 17]

/-- The valid length of the window is within the allocated capacity, and the
local copy of the length is the shared one unless the window has been
invalidated (length 0) behind the back of the loop. -/
def SizeInv (f : H5F_t) (l : Locals) : Prop :=
  f.sieve_size ≤ f.sieve_buf_size ∧ (l.sieve_size = f.sieve_size ∨ f.sieve_size = 0)

/-! ## Writing fill values: the embedding of `H5F_contig_fill` -/

/-- The file drivers `H5F_contig_fill` tells apart: `IS_H5FD_MPIO(f)`,
`IS_H5FD_MPIPOSIX(f)`, and any other. -/
inductive Driver where
  | other
  | mpio
  | mpiposix
  deriving DecidableEq, Repr

/-- Fill value information (`H5O_fill_t`): `buf` is `none` for `NULL`, the
library default. -/
structure H5O_fill_t where
  size : Nat
  buf : Option (List Nat)
  deriving DecidableEq, Repr

/-- Calls `H5F_contig_fill` makes that leave a trace, in the order they are
issued, with their outcome: `H5F_seq_write(f, dxpl_id, layout, dc_plist,
space, elmt_size, seq_len, file_offset, buf)` and `MPI_Barrier(mpi_comm)`. -/
inductive FillEvent where
  | seq_write (elmt_size seq_len file_offset : Nat) (buf : List Nat) (ok : Bool)
  | barrier (ok : Bool)
  deriving DecidableEq, Repr

/-- Modelled from the spec: what the collaborators of `H5F_contig_fill` answer.
`fill` and `efl_nused` are what `H5P_get` gives for the fill value and for the
external file list (`none` when it fails); `driver` is the kind of the file
driver; `comm_null` is whether the communicator of the driver is
`MPI_COMM_NULL`; `mpi_rank` and `mpi_size` are the `int` values the driver
reports; `npoints` is `H5S_get_simple_extent_npoints(space)`; `alloc_ok` is
whether `H5FL_BLK_ALLOC` gives a buffer; `seq_write_ok` is whether
`H5F_seq_write` at a file offset succeeds; `barrier_ok` is whether
`MPI_Barrier` returns `MPI_SUCCESS`. -/
structure FillEnv where
  fill : Option H5O_fill_t
  efl_nused : Option Nat
  driver : Driver
  comm_null : Bool
  mpi_rank : Int
  mpi_size : Int
  npoints : Nat
  alloc_ok : Bool
  seq_write_ok : Nat → Bool
  barrier_ok : Bool

/-- "Retrieve up MPI parameters": `none` is the error return; otherwise the
flag `using_mpi` with `mpi_rank` and `mpi_size`, which keep their initial
value `-1` for a driver that is not MPI-capable. -/
def mpi_params (env : FillEnv) : Option (Bool × Int × Int) :=
  match env.driver with
  | Driver.other => some (false, -1, -1)
  | _ =>
    -- get the MPI communicator
    if env.comm_null then none
    -- get the MPI rank & size
    else if env.mpi_rank < 0 then none
    else if env.mpi_size < 0 then none
    -- set the MPI-capable file driver flag
    else some (true, env.mpi_rank, env.mpi_size)

/-- Modelled from the spec: `H5V_array_fill(buf, fill.buf, fill.size, count)`,
which fills the buffer with `count` copies of the fill value. -/
def H5V_array_fill (src : List Nat) (size count : Nat) : List Nat :=
  (List.replicate count (src.take size)).flatten

/-- The loop `while (npoints>0)` of `H5F_contig_fill`, "loop through writing
the fill value to the dataset".  The state is `npoints`, `addr`, `mpi_round`,
`blocks_written` and the trace; the result is the status, `blocks_written`
and the trace.  `size` is a `size_t` and `addr` an `hsize_t`, both taken as
unsigned 64-bit; `mpi_round=(++mpi_round)%mpi_size` is taken as the remainder
of `mpi_round+1` (C's `%` on `int`, undefined for `mpi_size = 0`, which is
`none`).  `fuel` bounds the iterations; `none` is also running out of it. -/
def fill_loop (env : FillEnv) (fill_size ptsperbuf : Nat) (buf : List Nat) ( using_mpi : Bool)
    (mpi_rank mpi_size : Int) :
    Nat → Nat → Nat → Int → Bool → List FillEvent → Option (herr_t × Bool × List FillEvent)
  | 0, npoints, _, _, blocks_written, log =>
    if npoints > 0 then none else some (herr_t.SUCCEED, blocks_written, log)
  | fuel + 1, npoints, addr, mpi_round, blocks_written, log =>
    if npoints > 0 then
      let size := (min ptsperbuf npoints * fill_size) % HADDR_MOD
      -- check if this file is accessed with an MPI-capable file driver
      if using_mpi then
        -- round-robin write the chunks out from only one process
        if mpi_round = mpi_rank ∧ env.seq_write_ok addr = false then
          some (herr_t.FAIL, blocks_written,
            log ++ [FillEvent.seq_write fill_size size addr buf false])
        else if mpi_size = 0 then none
        else
          fill_loop env fill_size ptsperbuf buf using_mpi mpi_rank mpi_size fuel
            (npoints - min ptsperbuf npoints) (add64 addr size)
            (Int.tmod (mpi_round + 1) mpi_size) true
            (if mpi_round = mpi_rank then
              log ++ [FillEvent.seq_write fill_size size addr buf true]
             else log)
      else
        if env.seq_write_ok addr then
          fill_loop env fill_size ptsperbuf buf using_mpi mpi_rank mpi_size fuel
            (npoints - min ptsperbuf npoints) (add64 addr size) mpi_round blocks_written
            (log ++ [FillEvent.seq_write fill_size size addr buf true])
        else
          some (herr_t.FAIL, blocks_written,
            log ++ [FillEvent.seq_write fill_size size addr buf false])
    else some (herr_t.SUCCEED, blocks_written, log)

/-- Write fill values to a contiguously stored dataset (`H5F_contig_fill`).
The result is the status and the trace of the calls; `none` stands for a
failed assertion (`elmt_size>0`) and for behaviour C leaves undefined (the
division `bufsize/fill.size` by zero, the remainder by `mpi_size = 0`). -/
def H5F_contig_fill (env : FillEnv) (elmt_size : Nat) : Option (herr_t × List FillEvent) :=
  if elmt_size = 0 then none
  else
    -- get necessary properties from dataset creation property list
    match env.fill with
    | none => some (herr_t.FAIL, [])
    | some fill =>
      match env.efl_nused with
      | none => some (herr_t.FAIL, [])
      | some nused =>
        -- retrieve up MPI parameters
        match mpi_params env with
        | none => some (herr_t.FAIL, [])
        | some (using_mpi, mpi_rank, mpi_size) =>
          -- don't write default fill-values to external files
          if nused > 0 ∧ fill.buf = none then some (herr_t.SUCCEED, [])
          else
            -- if fill value is library default, use the element size
            let fill_size := if fill.buf = none then elmt_size else fill.size
            if fill_size = 0 then none
            else
              let ptsperbuf := max 1 (65536 / fill_size)
              let bufsize := (ptsperbuf * fill_size) % HADDR_MOD
              -- allocate temporary buffer
              if env.alloc_ok = false then some (herr_t.FAIL, [])
              else
                -- fill the buffer with the user's or the default fill value
                let buf : List Nat :=
                  match fill.buf with
                  | some fb => H5V_array_fill fb fill_size ptsperbuf
                  | none => List.replicate bufsize 0
                -- start at the beginning of the dataset
                match fill_loop env fill_size ptsperbuf buf using_mpi mpi_rank mpi_size
                    env.npoints env.npoints 0 0 false [] with
                | none => none
                | some (herr_t.FAIL, _, log) => some (herr_t.FAIL, log)
                | some (herr_t.SUCCEED, blocks_written, log) =>
                  -- only need to block at the barrier if we actually wrote fill values
                  if using_mpi && blocks_written then
                    if env.barrier_ok then some (herr_t.SUCCEED, log ++ [FillEvent.barrier true])
                    else some (herr_t.FAIL, log ++ [FillEvent.barrier false])
                  else some (herr_t.SUCCEED, log)

/-- The chunks the loop of `H5F_contig_fill` goes through, as pairs of `addr`
and `size`, whoever writes them. -/
def fill_chunks (fill_size ptsperbuf : Nat) : Nat → Nat → Nat → List (Nat × Nat)
  | 0, _, _ => []
  | fuel + 1, npoints, addr =>
    if npoints > 0 then
      (addr, (min ptsperbuf npoints * fill_size) % HADDR_MOD) ::
        fill_chunks fill_size ptsperbuf fuel (npoints - min ptsperbuf npoints)
          (add64 addr ((min ptsperbuf npoints * fill_size) % HADDR_MOD))
    else []

/-- The chunks the spec describes for `npoints` elements of `fill_size` bytes
written `ptsperbuf` at a time: chunk `j` is at the offset
`j * ptsperbuf * fill_size` (as an `hsize_t`) and holds
`min(ptsperbuf, remaining)` elements, `remaining` being what the chunks before
it have left of `npoints`. -/
def fill_layout (fill_size ptsperbuf npoints : Nat) : List (Nat × Nat) :=
  (List.range ((npoints + ptsperbuf - 1) / ptsperbuf)).map
    (fun j => ((j * ptsperbuf * fill_size) % HADDR_MOD,
      min ptsperbuf (npoints - j * ptsperbuf) * fill_size))

/-- The `H5F_seq_write` call for a chunk. -/
def chunk_write (fill_size : Nat) (buf : List Nat) (c : Nat × Nat) : FillEvent :=
  FillEvent.seq_write fill_size c.2 c.1 buf true

/-- The file offsets and lengths of the `H5F_seq_write` calls of a trace, a
barrier being `none`. -/
def fill_calls (log : List FillEvent) : List (Option (Nat × Nat)) :=
  log.map (fun e => match e with
    | FillEvent.seq_write _ seq_len file_offset _ _ => some (file_offset, seq_len)
    | FillEvent.barrier _ => none)

/-- The buffer `H5F_contig_fill` writes from: `ptsperbuf` copies of the user's
fill value, or zeros. -/
def fill_buffer (fill : H5O_fill_t) (fill_size : Nat) : List Nat :=
  match fill.buf with
  | some fb => H5V_array_fill fb fill_size (max 1 (65536 / fill_size))
  | none => List.replicate ((max 1 (65536 / fill_size) * fill_size) % HADDR_MOD) 0

/-- A dataset of five elements of 30000 bytes with the library default fill
value, on an MPI driver with three processes, seen from process `rank`. -/
def c31_env (rank : Int) : FillEnv :=
  { fill := some { size := 0, buf := none }, efl_nused := some 0, driver := Driver.mpio,
    comm_null := false, mpi_rank := rank, mpi_size := 3, npoints := 5, alloc_ok := true,
    seq_write_ok := fun _ => true, barrier_ok := true }

/-- The same dataset on a driver that is not MPI-capable. -/
def c31_serial : FillEnv := { c31_env 0 with driver := Driver.other }

/-- The bytes `data` with `bytes` laid over them from the address `addr` on. -/
def overlay (data : List Nat) (addr : Nat) (bytes : List Nat) : List Nat :=
  data.take addr ++ bytes ++ data.drop (addr + bytes.length)

/-- The logical contents of the file: the disk, overlaid with the cached
window (the first `sieve_size` bytes of the sieve buffer, at `sieve_loc`) when
it is dirty. -/
def logical (f : H5F_t) : List Nat :=
  match f.sieve_buf with
  | some sb =>
    if f.sieve_dirty then overlay f.lf.data f.sieve_loc (sb.take f.sieve_size) else f.lf.data
  | none => f.lf.data

/-- The file `c1_file1` after the single-range write of `[2, 3, 4, 5, 6]` at
address 6 (14 bytes of the dataset are left from there). -/
def c35_file1 : H5F_t := file_after c1_file1 (H5F_contig_write c1_file1 14 6 5 [2, 3, 4, 5, 6])

/-- The file `c35_file1` after the single-range write of `[7]` at address 12. -/
def c35_file2 : H5F_t := file_after c35_file1 (H5F_contig_write c35_file1 8 12 1 [7])

/-- A clean window holds what the disk holds: when a sieve buffer exists and
is not dirty, its first `sieve_size` bytes are the bytes of the disk at
`[sieve_loc, sieve_loc + sieve_size)`. -/
def window_loaded (f : H5F_t) : Bool :=
  match f.sieve_buf with
  | none => true
  | some sb =>
    f.sieve_dirty ||
      decide (sb.take f.sieve_size = (f.lf.data.drop f.sieve_loc).take f.sieve_size)

/-- A file of 20 bytes on disk (byte `i` is `100 + i`) whose driver reports
the end of allocation 30, with a sieve buffer size of 4. -/
def c37_file : H5F_t :=
  { demo_sieve_file 20 4 with lf := { data_sieve := true, eoa := 30, data := (demo_sieve_file 20 4).lf.data } }

/-- The file `c37_file` after the read of 2 bytes at address 0, which loads
the window `[0, 4)`. -/
def c37_loaded : H5F_t :=
  ((H5F_contig_readv c37_file 30 0 1 [2] [0]).getD (c37_file, herr_t.FAIL, [])).1

/-- The file `c37_loaded` after the read of 2 bytes at address 18, whose
window refill runs past the 20 bytes of the disk and fails. -/
def c37_failed : H5F_t :=
  ((H5F_contig_readv c37_loaded 30 0 1 [2] [18]).getD (c37_file, herr_t.FAIL, [])).1

/-- The file `c37_loaded` on a driver whose end-of-allocation query now
fails. -/
def c37_lost_eoa : H5F_t :=
  { c37_loaded with lf := { data_sieve := true, eoa := HADDR_UNDEF, data := c37_loaded.lf.data } }

/-- The file `c37_lost_eoa` after the read of 2 bytes at address 10, which
fails at the end-of-allocation query. -/
def c37_eoa_failed : H5F_t :=
  ((H5F_contig_readv c37_lost_eoa 30 0 1 [2] [10]).getD (c37_file, herr_t.FAIL, [])).1

/-- The end of allocation relative to the base address,
`rel_eoa=abs_eoa-f->shared->base_addr`. -/
def rel_eoa (f : H5F_t) : Nat := sub64 (H5FD_get_eoa f.lf) f.base_addr

/-- What a step of the sieve code leaves of the file `f` in `g`: the driver
with its end of allocation, the base address, the sieve buffer size and the
length of the disk. -/
def Frame (f g : H5F_t) : Prop :=
  g.lf.eoa = f.lf.eoa ∧ g.lf.data_sieve = f.lf.data_sieve ∧ g.base_addr = f.base_addr ∧
  g.sieve_buf_size = f.sieve_buf_size ∧ g.lf.data.length = f.lf.data.length

/-- A sieve state the single-range calls keep: the driver does data sieving,
reports an end of allocation, and the disk holds every byte below it; a sieve
buffer has room for `sieve_buf_size` bytes; the window is no longer than that,
lies below the end of allocation unless it is empty, is not empty when dirty,
and when clean holds what the disk holds. -/
structure Coherent (f : H5F_t) : Prop where
  sieve : f.lf.data_sieve = true
  eoa_def : H5FD_get_eoa f.lf ≠ HADDR_UNDEF
  eoa_disk : rel_eoa f ≤ f.lf.data.length
  loc_lt : f.sieve_loc < HADDR_MOD
  cap : ∀ sb, f.sieve_buf = some sb → f.sieve_buf_size ≤ sb.length
  size_le : f.sieve_size ≤ f.sieve_buf_size
  inside : 0 < f.sieve_size → f.sieve_loc + f.sieve_size ≤ rel_eoa f
  dirty_pos : f.sieve_dirty = true → 0 < f.sieve_size
  clean : ∀ sb, f.sieve_buf = some sb → f.sieve_dirty = false →
    ∀ i, i < f.sieve_size → sb[i]? = f.lf.data[f.sieve_loc + i]?

/-- A single-range call: `H5F_contig_write` of the whole of `buf` or
`H5F_contig_read` of `size` bytes, at `addr`, with `max_data` bytes of the
dataset left from there. -/
inductive SieveCall where
  | write (max_data addr : Nat) (buf : List Nat)
  | read (max_data addr size : Nat)
  deriving DecidableEq, Repr

/-- Successive single-range calls on the file: the file they leave and what
the reads have returned; `none` unless every call succeeds. -/
def sieve_calls : H5F_t → List SieveCall → Option (H5F_t × List (List Nat))
  | f, [] => some (f, [])
  | f, SieveCall.write max_data addr buf :: rest =>
    match H5F_contig_write f max_data addr buf.length buf with
    | some (f2, herr_t.SUCCEED) => sieve_calls f2 rest
    | _ => none
  | f, SieveCall.read max_data addr size :: rest =>
    match H5F_contig_read f max_data addr size with
    | some (f2, herr_t.SUCCEED, out) => (sieve_calls f2 rest).map (fun r => (r.1, out :: r.2))
    | _ => none

/-- What the calls are to do to the contents `data` of a file without a
cache: a write lays its bytes over the contents, a read returns the bytes at
its range, that is for every address the byte most recently written there, or
the initial byte.  The result is the final contents and what the reads
return. -/
def plain_calls : List Nat → List SieveCall → List Nat × List (List Nat)
  | data, [] => (data, [])
  | data, SieveCall.write _ addr buf :: rest => plain_calls (overlay data addr buf) rest
  | data, SieveCall.read _ addr size :: rest =>
    ((plain_calls data rest).1, (data.drop addr).take size :: (plain_calls data rest).2)

/-- The range of the call is not empty, lies inside the `max_data` bytes of
the dataset extent (an `hsize_t`) and below the relative end of allocation
`rel_eoa`. -/
def call_in_range (rel_eoa : Nat) : SieveCall → Prop
  | SieveCall.write max_data addr buf =>
    0 < buf.length ∧ buf.length ≤ max_data ∧ max_data < HADDR_MOD ∧ addr + buf.length ≤ rel_eoa
  | SieveCall.read max_data addr size =>
    0 < size ∧ size ≤ max_data ∧ max_data < HADDR_MOD ∧ addr + size ≤ rel_eoa

instance call_in_range_decidable (rel_eoa : Nat) (c : SieveCall) :
    Decidable (call_in_range rel_eoa c) := by
  cases c <;> (unfold call_in_range; infer_instance)

/-- The calls of the round-trip example on the file of 20 bytes with a sieve
buffer of 4 bytes: a write that opens a window, a write larger than the sieve
buffer that overlaps it, a write into a new window, a read across it, an
append to the window, and reads inside and outside of it. -/
def c34_calls : List SieveCall :=
  [SieveCall.write 10 10 [1], SieveCall.write 14 6 [2, 3, 4, 5, 6], SieveCall.write 8 12 [7],
   SieveCall.read 10 10 6, SieveCall.write 4 16 [8, 9], SieveCall.read 7 13 2,
   SieveCall.read 20 0 3]

end H5F

/-! # Free-space list: lemmas and theorems -/

namespace H5HF

/-! ## Integer logarithm -/

theorem log2_loop_spec : ∀ (fuel n : Nat), 1 ≤ n → n < 2 ^ fuel →
    2 ^ log2_loop fuel n ≤ n ∧ n < 2 ^ (log2_loop fuel n + 1) := by
  intro fuel
  induction fuel with
  | zero => intro n h1 h2; simp at h2; omega
  | succ f ih =>
    intro n h1 h2
    unfold log2_loop
    by_cases h : 2 ≤ n
    · simp only [h, if_true]
      have h3 : n / 2 < 2 ^ f := by
        rw [pow_succ] at h2; omega
      have := ih (n / 2) (by omega) h3
      obtain ⟨a, b⟩ := this
      constructor
      · rw [pow_succ]; omega
      · rw [pow_succ]; omega
    · simp only [h, if_false]
      simp; omega

theorem log2_gen_spec (n : Nat) (h : 1 ≤ n) :
    2 ^ H5V_log2_gen n ≤ n ∧ n < 2 ^ (H5V_log2_gen n + 1) :=
  log2_loop_spec n n h (Nat.lt_two_pow n)

theorem log2_gen_mono (m n : Nat) (hm : 1 ≤ m) (h : m ≤ n) :
    H5V_log2_gen m ≤ H5V_log2_gen n := by
  have a := log2_gen_spec m hm
  have b := log2_gen_spec n (by omega)
  by_contra hc
  have : H5V_log2_gen n + 1 ≤ H5V_log2_gen m := by omega
  have := Nat.pow_le_pow_right (by decide : 0 < 2) this
  omega

theorem log2_gen_lt (m n : Nat) (h : H5V_log2_gen m < H5V_log2_gen n) :
    m < n := by
  by_contra hc
  have hn : 1 ≤ n ∨ n = 0 := by omega
  rcases hn with hn | hn
  · have := log2_gen_mono n m hn (by omega); omega
  · subst hn; simp [H5V_log2_gen, log2_loop] at h



/-! ### ordered index lemmas -/

theorem Sorted_nil {β : Type} : Sorted ([] : H5SL β) := List.Pairwise.nil

theorem Sorted_cons {β : Type} (e : Nat × β) (sl : H5SL β) :
    Sorted (e :: sl) ↔ (∀ x ∈ sl, e.1 < x.1) ∧ Sorted sl := by
  unfold Sorted; exact List.pairwise_cons

theorem insert_mem {β : Type} : ∀ (sl sl2 : H5SL β) (v : β) (k : Nat),
    H5SL_insert sl v k = some sl2 → ∀ x, x ∈ sl2 ↔ x = (k, v) ∨ x ∈ sl := by
  intro sl
  induction sl with
  | nil => intro sl2 v k h x; simp [H5SL_insert] at h; subst h; simp
  | cons e rest ih =>
    intro sl2 v k h x
    obtain ⟨k0, v0⟩ := e
    simp only [H5SL_insert] at h
    split_ifs at h with h1 h2
    · simp at h; subst h; simp
    · cases hr : H5SL_insert rest v k with
      | none => simp [hr] at h
      | some r2 =>
        simp [hr] at h; subst h
        have := ih r2 v k hr x
        simp [this]; tauto

theorem insert_sorted {β : Type} : ∀ (sl sl2 : H5SL β) (v : β) (k : Nat),
    Sorted sl → H5SL_insert sl v k = some sl2 → Sorted sl2 := by
  intro sl
  induction sl with
  | nil => intro sl2 v k _ h; simp [H5SL_insert] at h; subst h; simp [Sorted]
  | cons e rest ih =>
    intro sl2 v k hs h
    obtain ⟨k0, v0⟩ := e
    simp only [H5SL_insert] at h
    rw [Sorted_cons] at hs
    split_ifs at h with h1 h2
    · simp at h; subst h
      rw [Sorted_cons]
      refine ⟨?_, (Sorted_cons _ _).2 hs⟩
      intro x hx
      simp at hx
      rcases hx with hx | hx
      · subst hx; exact h1
      · have := hs.1 x hx; simp at this; simp; omega
    · cases hr : H5SL_insert rest v k with
      | none => simp [hr] at h
      | some r2 =>
        simp [hr] at h; subst h
        rw [Sorted_cons]
        refine ⟨?_, ih r2 v k hs.2 hr⟩
        intro x hx
        rw [insert_mem rest r2 v k hr] at hx
        rcases hx with hx | hx
        · subst hx; simp; omega
        · exact hs.1 x hx

theorem insert_length {β : Type} : ∀ (sl sl2 : H5SL β) (v : β) (k : Nat),
    H5SL_insert sl v k = some sl2 → sl2.length = sl.length + 1 := by
  intro sl
  induction sl with
  | nil => intro sl2 v k h; simp [H5SL_insert] at h; subst h; simp
  | cons e rest ih =>
    intro sl2 v k h
    obtain ⟨k0, v0⟩ := e
    simp only [H5SL_insert] at h
    split_ifs at h with h1 h2
    · simp at h; subst h; simp
    · cases hr : H5SL_insert rest v k with
      | none => simp [hr] at h
      | some r2 =>
        simp [hr] at h; subst h
        simp [ih r2 v k hr]

theorem search_none {β : Type} : ∀ (sl : H5SL β) (k : Nat),
    H5SL_search sl k = none → ∀ x ∈ sl, x.1 ≠ k := by
  intro sl
  induction sl with
  | nil => intro k _ x hx; simp at hx
  | cons e rest ih =>
    intro k h x hx
    obtain ⟨k0, v0⟩ := e
    simp only [H5SL_search] at h
    split_ifs at h with h1
    simp at hx
    rcases hx with hx | hx
    · subst hx; exact h1
    · exact ih k h x hx

theorem search_some {β : Type} : ∀ (sl : H5SL β) (k : Nat) (v : β),
    H5SL_search sl k = some v → (k, v) ∈ sl := by
  intro sl
  induction sl with
  | nil => intro k v h; simp [H5SL_search] at h
  | cons e rest ih =>
    intro k v h
    obtain ⟨k0, v0⟩ := e
    simp only [H5SL_search] at h
    split_ifs at h with h1
    · simp at h; subst h; subst h1; simp
    · simp [ih k v h]

theorem insert_of_absent {β : Type} : ∀ (sl : H5SL β) (v : β) (k : Nat),
    (∀ x ∈ sl, x.1 ≠ k) → ∃ sl2, H5SL_insert sl v k = some sl2 := by
  intro sl
  induction sl with
  | nil => intro v k _; exact ⟨_, rfl⟩
  | cons e rest ih =>
    intro v k h
    obtain ⟨k0, v0⟩ := e
    simp only [H5SL_insert]
    have hk : k0 ≠ k := h (k0, v0) (by simp)
    split_ifs with h1 h2
    · exact ⟨_, rfl⟩
    · exact absurd h2.symm hk
    · obtain ⟨r2, hr⟩ := ih v k (fun x hx => h x (by simp [hx]))
      simp [hr]

theorem modify_mem {β : Type} : ∀ (sl : H5SL β) (k : Nat) (f : β → β) (x : Nat × β),
    x ∈ H5SL_modify sl k f → x ∈ sl ∨ ∃ v, (k, v) ∈ sl ∧ x = (k, f v) := by
  intro sl
  induction sl with
  | nil => intro k f x hx; simp [H5SL_modify] at hx
  | cons e rest ih =>
    intro k f x hx
    obtain ⟨k0, v0⟩ := e
    simp only [H5SL_modify] at hx
    split_ifs at hx with h1
    · simp at hx
      rcases hx with hx | hx
      · right; subst h1; exact ⟨v0, by simp, hx⟩
      · left; simp [hx]
    · simp at hx
      rcases hx with hx | hx
      · left; simp [hx]
      · rcases ih k f x hx with h | ⟨v, hv, hx2⟩
        · left; simp [h]
        · right; exact ⟨v, by simp [hv], hx2⟩

theorem modify_keys {β : Type} : ∀ (sl : H5SL β) (k : Nat) (f : β → β),
    (H5SL_modify sl k f).map Prod.fst = sl.map Prod.fst := by
  intro sl
  induction sl with
  | nil => intro k f; rfl
  | cons e rest ih =>
    intro k f
    obtain ⟨k0, v0⟩ := e
    simp only [H5SL_modify]
    split_ifs with h1
    · simp
    · simp [ih k f]

theorem Sorted_iff_keys {β : Type} (sl : H5SL β) :
    Sorted sl ↔ (sl.map Prod.fst).Pairwise (fun a b => a < b) := by
  unfold Sorted; rw [List.pairwise_map]

theorem modify_sorted {β : Type} (sl : H5SL β) (k : Nat) (f : β → β) (h : Sorted sl) :
    Sorted (H5SL_modify sl k f) := by
  rw [Sorted_iff_keys] at *; rw [modify_keys]; exact h

theorem greater_none {β : Type} : ∀ (sl : H5SL β) (req : Nat),
    H5SL_greater sl req = none → ∀ x ∈ sl, x.1 < req := by
  intro sl
  induction sl with
  | nil => intro req _ x hx; simp at hx
  | cons e rest ih =>
    intro req h x hx
    obtain ⟨k0, v0⟩ := e
    simp only [H5SL_greater] at h
    split_ifs at h with h1
    simp at hx
    rcases hx with hx | hx
    · subst hx; simp; omega
    · exact ih req h x hx

theorem greater_some {β : Type} : ∀ (sl : H5SL β) (req : Nat) (v : β),
    Sorted sl → H5SL_greater sl req = some v →
    ∃ k, (k, v) ∈ sl ∧ req ≤ k ∧ ∀ x ∈ sl, req ≤ x.1 → k ≤ x.1 := by
  intro sl
  induction sl with
  | nil => intro req v _ h; simp [H5SL_greater] at h
  | cons e rest ih =>
    intro req v hs h
    obtain ⟨k0, v0⟩ := e
    rw [Sorted_cons] at hs
    simp only [H5SL_greater] at h
    split_ifs at h with h1
    · simp at h; subst h
      refine ⟨k0, by simp, h1, ?_⟩
      intro x hx _
      simp at hx
      rcases hx with hx | hx
      · subst hx; simp
      · have := hs.1 x hx; simp at this; omega
    · obtain ⟨k, hk, hr, hmin⟩ := ih req v hs.2 h
      refine ⟨k, by simp [hk], hr, ?_⟩
      intro x hx hxr
      simp at hx
      rcases hx with hx | hx
      · subst hx; simp at hxr; omega
      · exact hmin x hx hxr

theorem remove_spec {β : Type} : ∀ (sl sl2 : H5SL β) (k : Nat) (v : β),
    H5SL_remove sl k = some (v, sl2) →
    (k, v) ∈ sl ∧ List.Perm sl ((k, v) :: sl2) := by
  intro sl
  induction sl with
  | nil => intro sl2 k v h; simp [H5SL_remove] at h
  | cons e rest ih =>
    intro sl2 k v h
    obtain ⟨k0, v0⟩ := e
    simp only [H5SL_remove] at h
    split_ifs at h with h1
    · simp at h; obtain ⟨a, b⟩ := h; subst a; subst b; subst h1
      exact ⟨by simp, List.Perm.refl _⟩
    · cases hr : H5SL_remove rest k with
      | none => simp [hr] at h
      | some p =>
        obtain ⟨w, r2⟩ := p
        simp [hr] at h
        obtain ⟨a, b⟩ := h; subst a; subst b
        obtain ⟨hm, hp⟩ := ih r2 k w hr
        refine ⟨by simp [hm], ?_⟩
        exact (List.Perm.cons _ hp).trans (List.Perm.swap _ _ _)

theorem remove_sorted {β : Type} : ∀ (sl sl2 : H5SL β) (k : Nat) (v : β),
    Sorted sl → H5SL_remove sl k = some (v, sl2) → Sorted sl2 := by
  intro sl
  induction sl with
  | nil => intro sl2 k v _ h; simp [H5SL_remove] at h
  | cons e rest ih =>
    intro sl2 k v hs h
    obtain ⟨k0, v0⟩ := e
    rw [Sorted_cons] at hs
    simp only [H5SL_remove] at h
    split_ifs at h with h1
    · simp at h; obtain ⟨a, b⟩ := h; subst b; exact hs.2
    · cases hr : H5SL_remove rest k with
      | none => simp [hr] at h
      | some p =>
        obtain ⟨w, r2⟩ := p
        simp [hr] at h
        obtain ⟨a, b⟩ := h; subst a; subst b
        rw [Sorted_cons]
        refine ⟨?_, ih r2 k w hs.2 hr⟩
        intro x hx
        have hp := (remove_spec rest r2 k w hr).2
        exact hs.1 x (hp.symm.subset (by simp [hx]))

theorem remove_of_mem {β : Type} : ∀ (sl : H5SL β) (k : Nat) (v : β),
    Sorted sl → (k, v) ∈ sl → ∃ sl2, H5SL_remove sl k = some (v, sl2) := by
  intro sl
  induction sl with
  | nil => intro k v _ h; simp at h
  | cons e rest ih =>
    intro k v hs h
    obtain ⟨k0, v0⟩ := e
    rw [Sorted_cons] at hs
    simp only [H5SL_remove]
    simp at h
    rcases h with h | h
    · obtain ⟨a, b⟩ := h; subst a; subst b; simp
    · have := hs.1 _ h
      simp at this
      have hne : k0 ≠ k := by omega
      obtain ⟨r2, hr⟩ := ih k v hs.2 h
      simp [hne, hr]

theorem bin_sections_cons (e : Nat × H5HF_flist_node_t) (sl : H5SL H5HF_flist_node_t) :
    bin_sections (some (e :: sl)) = node_sections e.2 ++ bin_sections (some sl) := by
  simp [bin_sections]

theorem bin_sections_nil : bin_sections (some []) = [] := by
  simp [bin_sections]

theorem bin_sections_perm (sl sl2 : H5SL H5HF_flist_node_t) (h : List.Perm sl sl2) :
    List.Perm (bin_sections (some sl)) (bin_sections (some sl2)) := by
  induction h with
  | nil => exact List.Perm.refl _
  | cons x _ ih => rw [bin_sections_cons, bin_sections_cons]; exact List.Perm.append_left _ ih
  | swap x y l =>
    simp only [bin_sections_cons]
    rw [← List.append_assoc, ← List.append_assoc]
    exact List.Perm.append_right _ List.perm_append_comm
  | trans _ _ ih1 ih2 => exact ih1.trans ih2

theorem mem_bin_sections (sl : H5SL H5HF_flist_node_t) (s : Section) :
    s ∈ bin_sections (some sl) ↔ ∃ e ∈ sl, s ∈ node_sections e.2 := by
  simp only [bin_sections, List.mem_flatten, List.mem_map]
  constructor
  · rintro ⟨l, ⟨e, he, rfl⟩, hs⟩; exact ⟨e, he, hs⟩
  · rintro ⟨e, he, hs⟩; exact ⟨_, ⟨e, he, rfl⟩, hs⟩

theorem mem_node_sections (fn : H5HF_flist_node_t) (s : Section) :
    s ∈ node_sections fn ↔ s.size = fn.sec_size ∧ (s.addr, s.node) ∈ fn.sec_list := by
  simp only [node_sections, List.mem_map]
  constructor
  · rintro ⟨e, he, rfl⟩; exact ⟨rfl, he⟩
  · rintro ⟨h1, h2⟩
    refine ⟨(s.addr, s.node), h2, ?_⟩
    cases s; simp at h1; simp [h1]

theorem bin_sections_modify : ∀ (sl : H5SL H5HF_flist_node_t) (k : Nat)
    (f : H5HF_flist_node_t → H5HF_flist_node_t) (v : H5HF_flist_node_t),
    Sorted sl → (k, v) ∈ sl →
    List.Perm (bin_sections (some (H5SL_modify sl k f)) ++ node_sections v)
      (bin_sections (some sl) ++ node_sections (f v)) := by
  intro sl
  induction sl with
  | nil => intro k f v _ h; simp at h
  | cons e rest ih =>
    intro k f v hs h
    obtain ⟨k0, v0⟩ := e
    unfold Sorted at hs
    rw [List.pairwise_cons] at hs
    simp only [H5SL_modify]
    simp at h
    rcases h with h | h
    · obtain ⟨a, b⟩ := h; subst a; subst b
      simp only [if_true, bin_sections_cons]
      refine List.perm_iff_count.2 (fun a => ?_)
      simp only [List.count_append]; omega
    · have hlt := hs.1 _ h
      simp at hlt
      have hne : k0 ≠ k := by omega
      simp only [hne, if_false, bin_sections_cons]
      have := ih k f v hs.2 h
      have hc := fun a => List.perm_iff_count.1 this a
      refine List.perm_iff_count.2 (fun a => ?_)
      have := hc a
      simp only [List.count_append] at this ⊢; omega

theorem bins_sections_cons (slot : Option (H5SL H5HF_flist_node_t))
    (bins : List (Option (H5SL H5HF_flist_node_t))) :
    bins_sections (some (slot :: bins)) = bin_sections slot ++ bins_sections (some bins) := by
  simp [bins_sections]

theorem bins_sections_set : ∀ (bins : List (Option (H5SL H5HF_flist_node_t))) (b : Nat)
    (slot : Option (H5SL H5HF_flist_node_t)) (sl : H5SL H5HF_flist_node_t),
    bins[b]? = some slot →
    List.Perm (bins_sections (some (set_bin bins b sl)) ++ bin_sections slot)
      (bins_sections (some bins) ++ bin_sections (some sl)) := by
  intro bins
  induction bins with
  | nil => intro b slot sl h; simp at h
  | cons x rest ih =>
    intro b slot sl h
    cases b with
    | zero =>
      simp at h; subst h
      simp only [set_bin, List.set_cons_zero, bins_sections_cons]
      refine List.perm_iff_count.2 (fun a => ?_)
      simp only [List.count_append]; omega
    | succ b =>
      simp at h
      have := ih b slot sl (by simpa using h)
      have hc := fun a => List.perm_iff_count.1 this a
      simp only [set_bin, List.set_cons_succ, bins_sections_cons] at *
      refine List.perm_iff_count.2 (fun a => ?_)
      have := hc a
      simp only [List.count_append] at this ⊢; omega

theorem mem_bins_sections (bins : List (Option (H5SL H5HF_flist_node_t))) (s : Section) :
    s ∈ bins_sections (some bins) ↔ ∃ (b : Nat) (slot : Option (H5SL H5HF_flist_node_t)),
      bins[b]? = some slot ∧ s ∈ bin_sections slot := by
  induction bins with
  | nil => simp [bins_sections]
  | cons x rest ih =>
    rw [bins_sections_cons, List.mem_append, ih]
    constructor
    · rintro (h | ⟨b, slot, h1, h2⟩)
      · exact ⟨0, x, by simp, h⟩
      · exact ⟨b + 1, slot, by simpa using h1, h2⟩
    · rintro ⟨b, slot, h1, h2⟩
      cases b with
      | zero => simp at h1; subst h1; exact Or.inl h2
      | succ b => exact Or.inr ⟨b, slot, by simpa using h1, h2⟩

theorem BinsOK_set (nbins : Nat) (bins : List (Option (H5SL H5HF_flist_node_t))) (b : Nat)
    (sl : H5SL H5HF_flist_node_t) (h : BinsOK nbins bins) (hsl : BinOK b (some sl)) :
    BinsOK nbins (set_bin bins b sl) := by
  obtain ⟨hl, hb⟩ := h
  refine ⟨by simp [set_bin, hl], ?_⟩
  intro b2 slot hg
  simp only [set_bin, List.getElem?_set] at hg
  split_ifs at hg with h1 h2
  · simp at hg; subst hg; subst h1; exact hsl
  · exact hb b2 slot (by simpa using hg)

theorem insert_perm {β : Type} : ∀ (sl sl2 : H5SL β) (v : β) (k : Nat),
    H5SL_insert sl v k = some sl2 → List.Perm sl2 ((k, v) :: sl) := by
  intro sl
  induction sl with
  | nil => intro sl2 v k h; simp [H5SL_insert] at h; subst h; exact List.Perm.refl _
  | cons e rest ih =>
    intro sl2 v k h
    obtain ⟨k0, v0⟩ := e
    simp only [H5SL_insert] at h
    split_ifs at h with h1 h2
    · simp at h; subst h; exact List.Perm.refl _
    · cases hr : H5SL_insert rest v k with
      | none => simp [hr] at h
      | some r2 =>
        simp [hr] at h; subst h
        exact (List.Perm.cons _ (ih r2 v k hr)).trans (List.Perm.swap _ _ _)

theorem modify_mem_sorted {β : Type} : ∀ (sl : H5SL β) (k : Nat) (f : β → β) (x : Nat × β),
    Sorted sl → x ∈ H5SL_modify sl k f →
    (x ∈ sl ∧ x.1 ≠ k) ∨ ∃ v, (k, v) ∈ sl ∧ x = (k, f v) := by
  intro sl
  induction sl with
  | nil => intro k f x _ hx; simp [H5SL_modify] at hx
  | cons e rest ih =>
    intro k f x hs hx
    obtain ⟨k0, v0⟩ := e
    rw [Sorted_cons] at hs
    simp only [H5SL_modify] at hx
    split_ifs at hx with h1
    · simp at hx
      rcases hx with hx | hx
      · right; subst h1; exact ⟨v0, by simp, hx⟩
      · left
        have := hs.1 x hx
        simp at this
        exact ⟨by simp [hx], by omega⟩
    · simp at hx
      rcases hx with hx | hx
      · left; subst hx; exact ⟨by simp, h1⟩
      · rcases ih k f x hs.2 hx with h | ⟨v, hv, hx2⟩
        · left; exact ⟨by simp [h.1], h.2⟩
        · right; exact ⟨v, by simp [hv], hx2⟩

theorem node_sections_insert (fn : H5HF_flist_node_t) (n a : Nat) (sec2 : H5SL Nat)
    (h : H5SL_insert fn.sec_list n a = some sec2) :
    List.Perm (node_sections { fn with sec_list := sec2 })
      ({ node := n, size := fn.sec_size, addr := a } :: node_sections fn) := by
  have := insert_perm _ _ _ _ h
  simpa [node_sections] using this.map (fun e => ({ node := e.2, size := fn.sec_size, addr := e.1 } : Section))

theorem freelist_bins_eta (fl : H5HF_freelist_t)
    (bins : List (Option (H5SL H5HF_flist_node_t))) (hb : fl.bins = some bins) :
    fl = { fl with bins := some bins } := by
  cases fl; simp at hb; subst hb; rfl

theorem add_bin_node_spec (fl fl2 : H5HF_freelist_t) (n s a : Nat) (r : herr_t)
    (bins : List (Option (H5SL H5HF_flist_node_t)))
    (hb : fl.bins = some bins) (hok : BinsOK fl.nbins bins)
    (h : H5HF_flist_add_bin_node fl n s a = some (fl2, r)) :
    ∃ bins2, fl2 = { fl with bins := some bins2 } ∧ BinsOK fl.nbins bins2 ∧
      (r = herr_t.SUCCEED →
        List.Perm (bins_sections (some bins2))
          ({ node := n, size := s, addr := a } :: bins_sections (some bins))) ∧
      (r = herr_t.FAIL →
        List.Perm (bins_sections (some bins2)) (bins_sections (some bins))) := by
  unfold H5HF_flist_add_bin_node at h
  simp only [hb] at h
  split_ifs at h with hbin
  cases hslot : bins[H5V_log2_gen s]? with
  | none => simp [hslot] at h
  | some slot =>
    simp only [hslot] at h
    have hbinok := hok.2 _ _ hslot
    cases slot with
    | none =>
      simp [H5SL_insert, H5SL_modify] at h
      obtain ⟨h1, h2⟩ := h
      subst h1; subst h2
      refine ⟨_, rfl, BinsOK_set _ _ _ _ hok ?_, ?_, by simp⟩
      · refine ⟨by simp [Sorted], ?_⟩
        intro e he
        simp at he; subst he
        exact ⟨rfl, rfl, by simp, by simp [Sorted]⟩
      · intro _
        have := bins_sections_set bins _ _ [(s, { sec_size := s, sec_list := [(a, n)] })] hslot
        simp [bin_sections, node_sections] at this
        exact this.trans List.perm_append_comm
    | some sl =>
      simp only [Option.getD_some] at h
      obtain ⟨hsorted, hnodes⟩ := hbinok
      cases hf : H5SL_search sl s with
      | none =>
        simp only [hf] at h
        obtain ⟨bl2, hins⟩ := insert_of_absent sl ({ sec_size := s, sec_list := [] } : H5HF_flist_node_t) s
          (search_none sl s hf)
        simp [hins, H5SL_insert] at h
        obtain ⟨h1, h2⟩ := h
        subst h1; subst h2
        have hs2 := insert_sorted _ _ _ _ hsorted hins
        have hmem := insert_mem _ _ _ _ hins
        have hperm := bin_sections_perm _ _ (insert_perm _ _ _ _ hins)
        have hin : (s, ({ sec_size := s, sec_list := [] } : H5HF_flist_node_t)) ∈ bl2 :=
          (hmem _).2 (Or.inl rfl)
        refine ⟨_, rfl, BinsOK_set _ _ _ _ hok ?_, ?_, by simp⟩
        · refine ⟨modify_sorted _ _ _ hs2, ?_⟩
          intro e he
          rcases modify_mem_sorted _ _ _ _ hs2 he with ⟨he1, he2⟩ | ⟨v, hv, rfl⟩
          · rcases (hmem e).1 he1 with he3 | he3
            · subst he3; simp at he2
            · exact hnodes e he3
          · rcases (hmem _).1 hv with hv2 | hv2
            · simp at hv2; subst hv2
              exact ⟨rfl, rfl, by simp, by simp [Sorted]⟩
            · exact absurd rfl (search_none sl s hf _ hv2)
        · intro _
          have h1 := bin_sections_modify bl2 s
            (fun fn => { sec_size := fn.sec_size, sec_list := [(a, n)] }) _ hs2 hin
          have h2 := bins_sections_set bins _ _
            (H5SL_modify bl2 s (fun fn => { sec_size := fn.sec_size, sec_list := [(a, n)] })) hslot
          rw [bin_sections_cons] at hperm
          simp [node_sections] at h1 hperm
          have c1 := fun x => List.perm_iff_count.1 h1 x
          have c2 := fun x => List.perm_iff_count.1 h2 x
          have c3 := fun x => List.perm_iff_count.1 hperm x
          refine List.perm_iff_count.2 (fun x => ?_)
          have := c1 x; have := c2 x; have := c3 x
          simp only [List.count_append, List.count_cons, List.count_nil] at *
          omega
      | some fnode =>
        simp only [hf] at h
        have hin := search_some _ _ _ hf
        have hnode := hnodes _ hin
        have hkey : s = fnode.sec_size := hnode.1
        cases hi : H5SL_insert fnode.sec_list n a with
        | none =>
          simp [hi] at h
          obtain ⟨h1, h2⟩ := h
          subst h1; subst h2
          exact ⟨bins, freelist_bins_eta _ _ hb, hok, by simp, fun _ => List.Perm.refl _⟩
        | some sec2 =>
          simp [hi] at h
          obtain ⟨h1, h2⟩ := h
          subst h1; subst h2
          refine ⟨_, rfl, BinsOK_set _ _ _ _ hok ?_, ?_, by simp⟩
          · refine ⟨modify_sorted _ _ _ hsorted, ?_⟩
            intro e he
            rcases modify_mem_sorted _ _ _ _ hsorted he with ⟨he1, he2⟩ | ⟨v, hv, rfl⟩
            · exact hnodes e he1
            · have hv2 := hnodes _ hv
              refine ⟨hv2.1, hv2.2.1, ?_, ?_⟩
              · intro hc
                have := insert_length _ _ _ _ hi
                simp at hc
                simp [hc] at this
              · exact insert_sorted _ _ _ _ hnode.2.2.2 hi
          · intro _
            have hk2 : fnode.sec_size = s := hkey.symm
            have h1 := bin_sections_modify sl s
              (fun fn => { sec_size := fn.sec_size, sec_list := sec2 }) _ hsorted hin
            have h2 := bins_sections_set bins _ _
              (H5SL_modify sl s (fun fn => { sec_size := fn.sec_size, sec_list := sec2 })) hslot
            have h3 := node_sections_insert fnode n a sec2 hi
            simp only [hk2] at h1 h3 ⊢
            have c1 := fun x => List.perm_iff_count.1 h1 x
            have c2 := fun x => List.perm_iff_count.1 h2 x
            have c3 := fun x => List.perm_iff_count.1 h3 x
            refine List.perm_iff_count.2 (fun x => ?_)
            have := c1 x; have := c2 x; have := c3 x
            simp only [List.count_append, List.count_cons, List.count_nil] at *
            omega

theorem single_sections_none (sg : H5HF_flist_single_t) (h : sg.node = none) :
    single_sections sg = [] := by
  simp [single_sections, h]

theorem BinsOK_alloc (nbins : Nat) : BinsOK nbins (alloc_bins nbins) := by
  refine ⟨by simp [alloc_bins], ?_⟩
  intro b slot h
  simp [alloc_bins, List.getElem?_replicate] at h
  obtain ⟨_, h2⟩ := h
  subst h2; trivial

theorem bins_sections_alloc (nbins : Nat) : bins_sections (some (alloc_bins nbins)) = [] := by
  induction nbins with
  | zero => simp [alloc_bins, bins_sections]
  | succ k ih =>
    simp only [alloc_bins, List.replicate_succ, bins_sections_cons] at ih ⊢
    simp [bin_sections, ih]

theorem WF_create (nbins : Nat) : WF (H5HF_flist_create nbins) := by
  refine ⟨?_, ?_, ?_, ?_, ?_⟩ <;>
    simp [H5HF_flist_create, H5HF_flist_init, tracked, single_sections, bins_sections]

theorem move_single_spec (fl fl2 : H5HF_freelist_t) (r : herr_t)
    (hwf : WF fl) (hub : fl.using_bins = false)
    (h : move_single_to_bins fl = some (fl2, r)) :
    fl2.nbins = fl.nbins ∧ fl2.sec_count = fl.sec_count ∧
      (∃ bins2, fl2.bins = some bins2 ∧ BinsOK fl.nbins bins2 ∧
        (r = herr_t.SUCCEED → List.Perm (bins_sections (some bins2)) (tracked fl)) ∧
        (r = herr_t.FAIL → bins_sections (some bins2) = [])) ∧
      (r = herr_t.SUCCEED → fl2.single.node = none ∧ fl2.using_bins = true) ∧
      (r = herr_t.FAIL → fl2.single = fl.single ∧ fl2.using_bins = false) := by
  unfold move_single_to_bins at h
  have hsm := hwf.single_mode hub
  cases hn : fl.single.node with
  | none => simp [hn] at h
  | some snode =>
    cases hs : fl.single.size_key with
    | none => simp [hn, hs] at h
    | some ssize =>
      cases ha : fl.single.addr_key with
      | none => simp [hn, hs, ha] at h
      | some saddr =>
        simp only [hn, hs, ha] at h
        -- the bins the single section is inserted into
        have key : ∃ fl1 bins1, ensure_bins fl = fl1 ∧ fl1.bins = some bins1 ∧
              BinsOK fl1.nbins bins1 ∧
              bins_sections (some bins1) = [] ∧ fl1.nbins = fl.nbins ∧
              fl1.sec_count = fl.sec_count ∧ fl1.single = fl.single ∧
              fl1.using_bins = fl.using_bins := by
          unfold ensure_bins
          cases hb : fl.bins with
          | none =>
            exact ⟨_, _, rfl, rfl, BinsOK_alloc _, bins_sections_alloc _, rfl, rfl, rfl, rfl⟩
          | some bins =>
            refine ⟨_, bins, rfl, hb, hwf.bins_ok _ hb, ?_, rfl, rfl, rfl, rfl⟩
            rw [hb] at hsm; exact hsm
        obtain ⟨fl1, bins1, hfl1, hb1, hok1, hsec1, hnb1, hsc1, hsg1, hub1⟩ := key
        rw [hfl1] at h
        have htr : tracked fl = [{ node := snode, size := ssize, addr := saddr }] := by
          simp [tracked, single_sections, hn, hs, ha, hsm]
        cases hadd : H5HF_flist_add_bin_node fl1 snode ssize saddr with
        | none => simp [hadd] at h
        | some p =>
          obtain ⟨fl3, r3⟩ := p
          obtain ⟨bins2, hfl3, hok2, hS, hF⟩ := add_bin_node_spec _ _ _ _ _ _ _ hb1 hok1 hadd
          rw [hnb1] at hok2
          cases r3 with
          | FAIL =>
            simp [hadd] at h
            obtain ⟨h1, h2⟩ := h
            subst h1; subst h2
            subst hfl3
            refine ⟨hnb1, hsc1, ⟨bins2, rfl, hok2, by simp, ?_⟩, by simp, ?_⟩
            · intro _
              have := hF rfl
              rw [hsec1] at this
              exact List.Perm.eq_nil this
            · intro _; exact ⟨hsg1, by rw [← hub]; exact hub1⟩
          | SUCCEED =>
            simp [hadd] at h
            obtain ⟨h1, h2⟩ := h
            subst h1; subst h2
            subst hfl3
            refine ⟨hnb1, hsc1, ⟨bins2, rfl, hok2, ?_, by simp⟩, ?_, by simp⟩
            · intro _
              have := hS rfl
              rw [hsec1] at this
              rw [htr]; exact this
            · intro _; exact ⟨rfl, rfl⟩

theorem perm_length_eq {α : Type} {l1 l2 : List α} (h : List.Perm l1 l2) :
    l1.length = l2.length := h.length_eq

/-- Adding through the bins on a list whose sections all sit in the bins. -/
theorem add_via_bins (fl fl2 : H5HF_freelist_t) (n s a : Nat) (r : herr_t)
    (T : List Section) (c : Nat)
    (bins : List (Option (H5SL H5HF_flist_node_t)))
    (hb : fl.bins = some bins) (hok : BinsOK fl.nbins bins)
    (hnode : fl.single.node = none) (hu : fl.using_bins = true)
    (hT : List.Perm (bins_sections (some bins)) T) (hc : fl.sec_count = c)
    (hcT : c = T.length) (hpos : 0 < c)
    (h : (match H5HF_flist_add_bin_node fl n s a with
        | none => none
        | some (flist4, herr_t.FAIL) => some (flist4, herr_t.FAIL)
        | some (flist4, herr_t.SUCCEED) =>
          some ({ flist4 with sec_count := flist4.sec_count + 1 }, herr_t.SUCCEED)) =
        some (fl2, r)) :
    WF fl2 ∧ fl2.nbins = fl.nbins ∧
      (r = herr_t.SUCCEED →
        List.Perm (tracked fl2) ({ node := n, size := s, addr := a } :: T) ∧
        fl2.sec_count = c + 1) ∧
      (r = herr_t.FAIL → List.Perm (tracked fl2) T ∧ fl2.sec_count = c) := by
  cases hadd : H5HF_flist_add_bin_node fl n s a with
  | none => simp [hadd] at h
  | some p =>
    obtain ⟨fl3, r3⟩ := p
    obtain ⟨bins2, hfl3, hok2, hS, hF⟩ := add_bin_node_spec _ _ _ _ _ _ _ hb hok hadd
    cases r3 with
    | FAIL =>
      simp [hadd] at h
      obtain ⟨h1, h2⟩ := h
      subst h1; subst h2; subst hfl3
      have hp := (hF rfl).trans hT
      have htr : tracked { fl with bins := some bins2 } = bins_sections (some bins2) := by
        simp [tracked, single_sections_none _ hnode]
      refine ⟨⟨?_, ?_, ?_, ?_, ?_⟩, rfl, by simp, ?_⟩
      · intro b hb2; simp at hb2; subst hb2; exact hok2
      · rw [htr]; simp only; rw [hc, hcT]; exact hp.length_eq.symm
      · intro hu2; simp [hu] at hu2
      · intro _; exact ⟨hnode, by simp, by simp only; omega⟩
      · intro hne; exact absurd hnode hne
      · intro _; rw [htr]; exact ⟨hp, hc⟩
    | SUCCEED =>
      simp [hadd] at h
      obtain ⟨h1, h2⟩ := h
      subst h1; subst h2; subst hfl3
      have hp := (hS rfl).trans (List.Perm.cons _ hT)
      have htr : tracked { fl with bins := some bins2, sec_count := fl.sec_count + 1 } =
          bins_sections (some bins2) := by
        simp [tracked, single_sections_none _ hnode]
      refine ⟨⟨?_, ?_, ?_, ?_, ?_⟩, rfl, ?_, by simp⟩
      · intro b hb2; simp at hb2; subst hb2; exact hok2
      · rw [htr]; simp only; rw [hc, hcT, hp.length_eq]; simp
      · intro hu2; simp [hu] at hu2
      · intro _; exact ⟨hnode, by simp, by simp⟩
      · intro hne; exact absurd hnode hne
      · intro _; rw [htr]; exact ⟨hp, by simp [hc]⟩

theorem add_spec (fl fl2 : H5HF_freelist_t) (n s a : Nat) (r : herr_t)
    (hwf : WF fl) (h : H5HF_flist_add fl n s a = some (fl2, r)) :
    WF fl2 ∧ fl2.nbins = fl.nbins ∧
      (r = herr_t.SUCCEED →
        List.Perm (tracked fl2) ({ node := n, size := s, addr := a } :: tracked fl) ∧
        fl2.sec_count = fl.sec_count + 1) ∧
      (r = herr_t.FAIL → List.Perm (tracked fl2) (tracked fl) ∧ fl2.sec_count = fl.sec_count) := by
  unfold H5HF_flist_add at h
  have hcount := hwf.count
  split_ifs at h with h0 hnode hmig
  · -- first section: the single slot
    simp at h
    obtain ⟨h1, h2⟩ := h
    subst h1; subst h2
    have hub : fl.using_bins = false := by
      cases hu : fl.using_bins with
      | false => rfl
      | true => have := (hwf.bins_mode hu).2.2; omega
    have hsm := hwf.single_mode hub
    refine ⟨⟨?_, ?_, ?_, ?_, ?_⟩, rfl, ?_, by simp⟩
    · exact hwf.bins_ok
    · simp [tracked, single_sections, hsm, h0]
    · intro _; exact hsm
    · intro hu; simp [hub] at hu
    · intro _; simp
    · intro _
      simp [tracked, single_sections, hsm, h0, hnode]
  · -- one section in the single slot: move it to the bins first
    obtain ⟨hc1, hub⟩ := hmig
    simp only at h
    cases hmv : move_single_to_bins fl with
    | none => simp [hmv] at h
    | some p =>
      obtain ⟨fl3, r3⟩ := p
      obtain ⟨hnb, hsc, ⟨bins2, hb2, hok2, hS, hF⟩, hS2, hF2⟩ :=
        move_single_spec _ _ _ hwf hub hmv
      cases r3 with
      | FAIL =>
        simp [hmv] at h
        obtain ⟨h1, h2⟩ := h
        subst h1; subst h2
        obtain ⟨hsg, hub3⟩ := hF2 rfl
        have hsec := hF rfl
        have hsm := hwf.single_mode hub
        have htr : tracked fl3 = tracked fl := by
          simp [tracked, hsg, hb2, hsec, hsm]
        refine ⟨⟨?_, ?_, ?_, ?_, ?_⟩, hnb, by simp, ?_⟩
        · intro b hb; rw [hb2] at hb; simp at hb; subst hb; rw [hnb]; exact hok2
        · rw [htr, hsc]; exact hcount
        · intro _; rw [hb2]; exact hsec
        · intro hu; simp [hub3] at hu
        · rw [hsg]; exact hwf.single_keys
        · intro _; rw [htr]; exact ⟨List.Perm.refl _, hsc⟩
      | SUCCEED =>
        simp only [hmv] at h
        obtain ⟨hn3, hu3⟩ := hS2 rfl
        simp only [hn3, if_true] at h
        have := add_via_bins fl3 fl2 n s a r (tracked fl) fl.sec_count bins2 hb2
          (by rw [hnb]; exact hok2) hn3 hu3 (hS rfl) hsc hcount (by omega) h
        rw [hnb] at this
        exact this
  · -- the bins are in use already
    simp only at h
    have hu : fl.using_bins = true := by
      cases hu : fl.using_bins with
      | true => rfl
      | false =>
        exfalso
        have hsm := hwf.single_mode hu
        simp only [not_and] at hmig
        have : (tracked fl).length ≤ 1 := by
          simp only [tracked, hsm, List.append_nil, single_sections]
          split <;> simp
        have : fl.sec_count = 1 := by omega
        exact hmig this hu
    obtain ⟨hn, hbne, hpos⟩ := hwf.bins_mode hu
    simp only [hn, if_true] at h
    cases hb : fl.bins with
    | none => exact absurd hb hbne
    | some bins =>
      have htr : tracked fl = bins_sections (some bins) := by
        simp [tracked, single_sections_none _ hn, hb]
      exact add_via_bins fl fl2 n s a r (tracked fl) fl.sec_count bins hb
        (hwf.bins_ok _ hb) hn hu (by rw [htr]) rfl hcount hpos h

theorem sorted_key_unique {β : Type} : ∀ (sl : H5SL β) (k : Nat) (v w : β),
    Sorted sl → (k, v) ∈ sl → (k, w) ∈ sl → v = w := by
  intro sl
  induction sl with
  | nil => intro k v w _ h; simp at h
  | cons e rest ih =>
    intro k v w hs hv hw
    rw [Sorted_cons] at hs
    simp at hv hw
    rcases hv with hv | hv <;> rcases hw with hw | hw
    · rw [← hw] at hv; simp at hv; exact hv
    · have := hs.1 _ hw; rw [← hv] at this; simp at this
    · have := hs.1 _ hv; rw [← hw] at this; simp at this
    · exact ih k v w hs.2 hv hw

theorem remove_mem_sorted {β : Type} : ∀ (sl sl2 : H5SL β) (k : Nat) (v : β),
    Sorted sl → H5SL_remove sl k = some (v, sl2) → ∀ x ∈ sl2, x ∈ sl ∧ x.1 ≠ k := by
  intro sl
  induction sl with
  | nil => intro sl2 k v _ h; simp [H5SL_remove] at h
  | cons e rest ih =>
    intro sl2 k v hs h x hx
    obtain ⟨k0, v0⟩ := e
    rw [Sorted_cons] at hs
    simp only [H5SL_remove] at h
    split_ifs at h with h1
    · simp at h; obtain ⟨a, b⟩ := h; subst b; subst h1
      have := hs.1 x hx
      simp at this
      exact ⟨by simp [hx], by omega⟩
    · cases hr : H5SL_remove rest k with
      | none => simp [hr] at h
      | some p =>
        obtain ⟨w, r2⟩ := p
        simp [hr] at h
        obtain ⟨a, b⟩ := h; subst a; subst b
        simp at hx
        rcases hx with hx | hx
        · subst hx; exact ⟨by simp, h1⟩
        · have := ih r2 k w hs.2 hr x hx
          exact ⟨by simp [this.1], this.2⟩

theorem modify_has {β : Type} : ∀ (sl : H5SL β) (k : Nat) (f : β → β) (v : β),
    (k, v) ∈ sl → ∃ w, (k, f w) ∈ H5SL_modify sl k f := by
  intro sl
  induction sl with
  | nil => intro k f v h; simp at h
  | cons e rest ih =>
    intro k f v h
    obtain ⟨k0, v0⟩ := e
    simp only [H5SL_modify]
    split_ifs with h1
    · subst h1; exact ⟨v0, by simp⟩
    · simp at h
      rcases h with h | h
      · exact absurd h.1.symm h1
      · obtain ⟨w, hw⟩ := ih k f v h
        exact ⟨w, by simp [hw]⟩

theorem take_first_spec (nbins : Nat) (bins bins2 : List (Option (H5SL H5HF_flist_node_t)))
    (bin req : Nat) (sl : H5SL H5HF_flist_node_t) (fnode : H5HF_flist_node_t)
    (r : htri_t) (node : Option Nat)
    (hok : BinsOK nbins bins) (hslot : bins[bin]? = some (some sl))
    (hg : H5SL_greater sl req = some fnode)
    (h : take_first_section bins bin sl fnode = (bins2, r, node)) :
    r = htri_t.TRUE ∧ ∃ s : Section, node = some s.node ∧ req ≤ s.size ∧
      H5V_log2_gen s.size = bin ∧ BinsOK nbins bins2 ∧
      List.Perm (s :: bins_sections (some bins2)) (bins_sections (some bins)) ∧
      ∀ t ∈ bin_sections (some sl),
        (req ≤ t.size → s.size ≤ t.size) ∧ (t.size = s.size → s.addr ≤ t.addr) := by
  obtain ⟨hsorted, hnodes⟩ := hok.2 _ _ hslot
  obtain ⟨k, hin, hreq, hmin⟩ := greater_some _ _ _ hsorted hg
  obtain ⟨hkey, hlog, hne, hsl⟩ := hnodes _ hin
  simp only at hkey hlog hne hsl
  subst hkey
  cases hsec : fnode.sec_list with
  | nil => exact absurd hsec hne
  | cons e sec2 =>
    obtain ⟨a0, n0⟩ := e
    rw [hsec] at hsl
    rw [Sorted_cons] at hsl
    have hprops : ∀ t ∈ bin_sections (some sl),
        (req ≤ t.size → fnode.sec_size ≤ t.size) ∧ (t.size = fnode.sec_size → a0 ≤ t.addr) := by
      intro t ht
      rw [mem_bin_sections] at ht
      obtain ⟨e, he, hte⟩ := ht
      rw [mem_node_sections] at hte
      have hE := hnodes _ he
      constructor
      · intro h1
        have := hmin e he (by rw [hE.1, ← hte.1]; exact h1)
        rw [hE.1, ← hte.1] at this; exact this
      · intro h1
        have hk : e.1 = fnode.sec_size := by rw [hE.1, ← hte.1, h1]
        have : e.2 = fnode := by
          apply sorted_key_unique sl fnode.sec_size _ _ hsorted _ hin
          rw [← hk]; exact he
        rw [this, hsec] at hte
        have hm := hte.2
        simp at hm
        rcases hm with hm | hm
        · omega
        · have := hsl.1 _ hm; simp at this; omega
    have hns : node_sections fnode =
        { node := n0, size := fnode.sec_size, addr := a0 } ::
          node_sections { fnode with sec_list := sec2 } := by
      simp [node_sections, hsec]
    have hmodp := bin_sections_modify sl fnode.sec_size
      (fun _ => { fnode with sec_list := sec2 }) fnode hsorted hin
    have hs2 := modify_sorted sl fnode.sec_size (fun _ => { fnode with sec_list := sec2 }) hsorted
    simp only [take_first_section, hsec, H5SL_remove_first, H5SL_count] at h
    by_cases hempty : sec2.length = 0
    · -- the size node became empty: it is removed from the bin
      simp only [hempty, if_true] at h
      obtain ⟨w, hw⟩ := modify_has sl fnode.sec_size (fun _ => { fnode with sec_list := sec2 }) _ hin
      obtain ⟨sl3, hrem⟩ := remove_of_mem _ _ _ hs2 hw
      simp only [hrem, ne_eq, not_true_eq_false, if_false] at h
      simp at h
      obtain ⟨h1, h2, h3⟩ := h
      subst h1; subst h2; subst h3
      have hs3 := remove_sorted _ _ _ _ hs2 hrem
      have hrp := bin_sections_perm _ _ (remove_spec _ _ _ _ hrem).2
      rw [bin_sections_cons] at hrp
      have hsetp := bins_sections_set bins bin _ sl3 hslot
      refine ⟨rfl, { node := n0, size := fnode.sec_size, addr := a0 }, rfl, hreq, hlog, ?_, ?_, hprops⟩
      · refine BinsOK_set _ _ _ _ hok ⟨hs3, ?_⟩
        intro x hx
        obtain ⟨hx1, hx2⟩ := remove_mem_sorted _ _ _ _ hs2 hrem x hx
        rcases modify_mem_sorted _ _ _ _ hsorted hx1 with ⟨hx3, _⟩ | ⟨v, _, hx3⟩
        · exact hnodes x hx3
        · subst hx3; simp at hx2
      · rw [hns] at hmodp
        have hnil : node_sections { fnode with sec_list := sec2 } = [] := by
          simp [node_sections, List.length_eq_zero.1 hempty]
        rw [hnil] at hmodp hrp
        have c1 := fun x => List.perm_iff_count.1 hmodp x
        have c2 := fun x => List.perm_iff_count.1 hrp x
        have c3 := fun x => List.perm_iff_count.1 hsetp x
        refine List.perm_iff_count.2 (fun x => ?_)
        have := c1 x; have := c2 x; have := c3 x
        simp only [List.count_append, List.count_cons, List.count_nil] at *
        omega
    · simp only [hempty, if_false] at h
      simp at h
      obtain ⟨h1, h2, h3⟩ := h
      subst h1; subst h2; subst h3
      have hsetp := bins_sections_set bins bin _
        (H5SL_modify sl fnode.sec_size (fun _ => { fnode with sec_list := sec2 })) hslot
      refine ⟨rfl, { node := n0, size := fnode.sec_size, addr := a0 }, rfl, hreq, hlog, ?_, ?_, hprops⟩
      · refine BinsOK_set _ _ _ _ hok ⟨hs2, ?_⟩
        intro x hx
        rcases modify_mem_sorted _ _ _ _ hsorted hx with ⟨hx3, _⟩ | ⟨v, _, hx3⟩
        · exact hnodes x hx3
        · subst hx3
          refine ⟨rfl, hlog, ?_, hsl.2⟩
          intro hc; simp at hc; simp [hc] at hempty
      · rw [hns] at hmodp
        have c1 := fun x => List.perm_iff_count.1 hmodp x
        have c3 := fun x => List.perm_iff_count.1 hsetp x
        refine List.perm_iff_count.2 (fun x => ?_)
        have := c1 x; have := c3 x
        simp only [List.count_append, List.count_cons, List.count_nil] at *
        omega

theorem skip_null_bins_spec (bins : List (Option (H5SL H5HF_flist_node_t))) (nbins : Nat) :
    ∀ (fuel bin : Nat), bin ≤ skip_null_bins bins nbins fuel bin ∧
      ∀ b2, bin ≤ b2 → b2 < skip_null_bins bins nbins fuel bin → bins[b2]? = some none := by
  intro fuel
  induction fuel with
  | zero => intro bin; simp [skip_null_bins]; intro b2 h1 h2; omega
  | succ f ih =>
    intro bin
    simp only [skip_null_bins]
    split_ifs with h
    · obtain ⟨h1, h2⟩ := ih (bin + 1)
      refine ⟨by omega, ?_⟩
      intro b2 hb1 hb2
      by_cases hb : b2 = bin
      · subst hb; exact h.2
      · exact h2 b2 (by omega) hb2
    · refine ⟨le_refl _, ?_⟩
      intro b2 h1 h2; omega

theorem section_in_bin (nbins : Nat) (bins : List (Option (H5SL H5HF_flist_node_t)))
    (hok : BinsOK nbins bins) (b : Nat) (sl : H5SL H5HF_flist_node_t)
    (hslot : bins[b]? = some (some sl)) (t : Section) (ht : t ∈ bin_sections (some sl)) :
    H5V_log2_gen t.size = b := by
  obtain ⟨_, hnodes⟩ := hok.2 _ _ hslot
  rw [mem_bin_sections] at ht
  obtain ⟨e, he, hte⟩ := ht
  rw [mem_node_sections] at hte
  rw [hte.1]; exact (hnodes e he).2.1

theorem find_bin_loop_spec (nbins req : Nat) (bins : List (Option (H5SL H5HF_flist_node_t)))
    (hok : BinsOK nbins bins) :
    ∀ (fuel bin : Nat) (bins2 : List (Option (H5SL H5HF_flist_node_t))) (r : htri_t)
      (node : Option Nat), bin < nbins → nbins ≤ bin + fuel →
      find_bin_loop nbins req fuel bins bin = some (bins2, r, node) →
      ScanResult nbins req bin bins bins2 r node := by
  intro fuel
  induction fuel with
  | zero => intro bin bins2 r node h1 h2 _; omega
  | succ f ih =>
    intro bin bins2 r node h1 h2 h
    simp only [find_bin_loop] at h
    -- what happens when this bin has nothing to offer
    have next : (∀ (sl : H5SL H5HF_flist_node_t), bins[bin]? = some (some sl) →
          ∀ t ∈ bin_sections (some sl), t.size < req) →
        (if bin + 1 < nbins then find_bin_loop nbins req f bins (bin + 1)
          else some (bins, htri_t.FALSE, none)) = some (bins2, r, node) →
        ScanResult nbins req bin bins bins2 r node := by
      intro hthis hn
      split_ifs at hn with hlt
      · rcases ih (bin + 1) bins2 r node hlt (by omega) hn with
          ⟨hr, hb, hnd, hall⟩ | ⟨hr, s, b1, sl1, hnd, hreq, hle, hlog, hsl1, hok2, hperm, hp1, hp2⟩
        · left
          refine ⟨hr, hb, hnd, ?_⟩
          intro b2 sl hb2 hslot t ht
          by_cases hbb : b2 = bin
          · subst hbb; exact hthis sl hslot t ht
          · exact hall b2 sl (by omega) hslot t ht
        · right
          refine ⟨hr, s, b1, sl1, hnd, hreq, by omega, hlog, hsl1, hok2, hperm, hp1, ?_⟩
          intro b2 sl hb2 hb3 hslot t ht
          by_cases hbb : b2 = bin
          · subst hbb; exact hthis sl hslot t ht
          · exact hp2 b2 sl (by omega) hb3 hslot t ht
      · simp at hn
        obtain ⟨e1, e2, e3⟩ := hn
        subst e1; subst e2; subst e3
        left
        refine ⟨rfl, rfl, rfl, ?_⟩
        intro b2 sl hb2 hslot t ht
        by_cases hbb : b2 = bin
        · subst hbb; exact hthis sl hslot t ht
        · exfalso
          have : b2 < bins.length := by
            by_contra hc
            rw [List.getElem?_eq_none (by omega)] at hslot
            simp at hslot
          rw [hok.1] at this
          omega
    cases hslot : bins[bin]? with
    | none => simp [hslot] at h
    | some slot =>
      cases slot with
      | none =>
        simp only [hslot] at h
        exact next (fun sl hsl => by rw [hslot] at hsl; simp at hsl) h
      | some sl =>
        simp only [hslot] at h
        cases hg : H5SL_greater sl req with
        | none =>
          simp only [hg] at h
          refine next ?_ h
          intro sl2 hsl2 t ht
          rw [hslot] at hsl2; simp at hsl2; subst hsl2
          rw [mem_bin_sections] at ht
          obtain ⟨e, he, hte⟩ := ht
          rw [mem_node_sections] at hte
          have hE := (hok.2 _ _ hslot).2 e he
          have := greater_none _ _ hg e he
          rw [hte.1, ← hE.1]; exact this
        | some fnode =>
          simp only [hg] at h
          simp at h
          obtain ⟨hr, s, hnd, hreq, hlog, hok2, hperm, hp⟩ :=
            take_first_spec nbins bins bins2 bin req sl fnode r node hok hslot hg h
          right
          refine ⟨hr, s, bin, sl, hnd, hreq, le_refl _, hlog, hslot, hok2, hperm, hp, ?_⟩
          intro b2 sl2 h3 h4; omega

theorem find_bin_node_spec (fl fl2 : H5HF_freelist_t) (req : Nat) (r : htri_t)
    (node : Option Nat) (bins : List (Option (H5SL H5HF_flist_node_t)))
    (hb : fl.bins = some bins) (hok : BinsOK fl.nbins bins)
    (h : H5HF_flist_find_bin_node fl req = some (fl2, r, node)) :
    (r = htri_t.FALSE ∧ fl2 = fl ∧ node = none ∧
      ∀ t ∈ bins_sections (some bins), t.size < req) ∨
    (r = htri_t.TRUE ∧ ∃ (s : Section) (bins2 : List (Option (H5SL H5HF_flist_node_t))),
      node = some s.node ∧ fl2 = { fl with bins := some bins2 } ∧ BinsOK fl.nbins bins2 ∧
      req ≤ s.size ∧
      List.Perm (s :: bins_sections (some bins2)) (bins_sections (some bins)) ∧
      ∀ t ∈ bins_sections (some bins),
        (req ≤ t.size → s.size ≤ t.size) ∧ (t.size = s.size → s.addr ≤ t.addr)) := by
  unfold H5HF_flist_find_bin_node at h
  by_cases hreq : 0 < req
  swap
  · simp [hreq] at h
  by_cases hbin0 : H5V_log2_gen req < fl.nbins
  swap
  · simp [hreq, hbin0] at h
  simp only [hreq, hbin0, if_true, hb] at h
  obtain ⟨hskip1, hskip2⟩ := skip_null_bins_spec bins fl.nbins (fl.nbins - H5V_log2_gen req)
    (H5V_log2_gen req)
  generalize skip_null_bins bins fl.nbins (fl.nbins - H5V_log2_gen req) (H5V_log2_gen req) = bin
    at h hskip1 hskip2
  -- sections of the bins below the starting bin are too small
  have hlow : ∀ (b2 : Nat) (sl : H5SL H5HF_flist_node_t), b2 < bin →
      bins[b2]? = some (some sl) → ∀ t ∈ bin_sections (some sl), t.size < req := by
    intro b2 sl hb2 hslot t ht
    have hlog := section_in_bin _ _ hok b2 sl hslot t ht
    by_cases hc : b2 < H5V_log2_gen req
    · exact log2_gen_lt _ _ (by rw [hlog]; exact hc)
    · have := hskip2 b2 (by omega) hb2
      rw [this] at hslot; simp at hslot
  split_ifs at h with hbin
  · cases hloop : find_bin_loop fl.nbins req (fl.nbins - bin) bins bin with
    | none => simp [hloop] at h
    | some p =>
      obtain ⟨bins2, r2, node2⟩ := p
      simp [hloop] at h
      obtain ⟨h1, h2, h3⟩ := h
      subst h1; subst h2; subst h3
      rcases find_bin_loop_spec fl.nbins req bins hok _ bin bins2 r2 node2 hbin (by omega) hloop with
        ⟨hr, hbe, hnd, hall⟩ | ⟨hr, s, b1, sl1, hnd, hsreq, hle, hlog, hsl1, hok2, hperm, hp1, hp2⟩
      · left
        subst hbe
        refine ⟨hr, (freelist_bins_eta _ _ hb).symm, hnd, ?_⟩
        intro t ht
        rw [mem_bins_sections] at ht
        obtain ⟨b2, slot, hslot, hts⟩ := ht
        cases slot with
        | none => simp [bin_sections] at hts
        | some sl =>
          by_cases hc : b2 < bin
          · exact hlow b2 sl hc hslot t hts
          · exact hall b2 sl (by omega) hslot t hts
      · right
        refine ⟨hr, s, bins2, hnd, rfl, hok2, hsreq, hperm, ?_⟩
        intro t ht
        rw [mem_bins_sections] at ht
        obtain ⟨b2, slot, hslot, hts⟩ := ht
        cases slot with
        | none => simp [bin_sections] at hts
        | some sl =>
          have hsmall : t.size < req → (req ≤ t.size → s.size ≤ t.size) ∧
              (t.size = s.size → s.addr ≤ t.addr) := by
            intro hlt
            exact ⟨fun h1 => by omega, fun h1 => by omega⟩
          by_cases hc : b2 < bin
          · exact hsmall (hlow b2 sl hc hslot t hts)
          · by_cases hc2 : b2 < b1
            · exact hsmall (hp2 b2 sl (by omega) hc2 hslot t hts)
            · by_cases hc3 : b2 = b1
              · subst hc3
                rw [hsl1] at hslot; simp at hslot; subst hslot
                exact hp1 t hts
              · have hlogt := section_in_bin _ _ hok b2 sl hslot t hts
                have : s.size < t.size := log2_gen_lt _ _ (by rw [hlog, hlogt]; omega)
                exact ⟨fun _ => by omega, fun h1 => by omega⟩
  · simp at h
    obtain ⟨h1, h2, h3⟩ := h
    subst h1; subst h2; subst h3
    left
    refine ⟨rfl, rfl, rfl, ?_⟩
    intro t ht
    rw [mem_bins_sections] at ht
    obtain ⟨b2, slot, hslot, hts⟩ := ht
    cases slot with
    | none => simp [bin_sections] at hts
    | some sl =>
      have : b2 < bins.length := by
        by_contra hc
        rw [List.getElem?_eq_none (by omega)] at hslot
        simp at hslot
      rw [hok.1] at this
      exact hlow b2 sl (by omega) hslot t hts

theorem find_spec (fl fl2 : H5HF_freelist_t) (req : Nat) (r : htri_t) (node : Option Nat)
    (hwf : WF fl) (h : H5HF_flist_find fl req = some (fl2, r, node)) :
    WF fl2 ∧ fl2.nbins = fl.nbins ∧ FindResult fl fl2 req r node := by
  unfold H5HF_flist_find at h
  have hcount := hwf.count
  by_cases hreq : 0 < req
  swap
  · simp [hreq] at h
  simp only [hreq, if_true] at h
  by_cases hpos : 0 < fl.sec_count
  swap
  · simp only [hpos, if_false] at h
    simp at h
    obtain ⟨h1, h2, h3⟩ := h
    subst h1; subst h2; subst h3
    refine ⟨hwf, rfl, Or.inl ⟨rfl, rfl, rfl, ?_⟩⟩
    have : tracked fl = [] := List.length_eq_zero.1 (by omega)
    rw [this]; simp
  simp only [hpos, if_true] at h
  by_cases hsingle : fl.sec_count = 1 ∧ fl.using_bins = false
  · -- the single slot
    obtain ⟨hc1, hub⟩ := hsingle
    simp only [hc1, hub, and_self, if_true] at h
    have hsm := hwf.single_mode hub
    cases hn : fl.single.node with
    | none =>
      exfalso
      have : tracked fl = [] := by simp [tracked, single_sections_none _ hn, hsm]
      rw [this] at hcount; simp at hcount; omega
    | some snode =>
      obtain ⟨hk1, hk2⟩ := hwf.single_keys (by rw [hn]; simp)
      cases hs : fl.single.size_key with
      | none => exact absurd hs hk1
      | some ssize =>
        cases ha : fl.single.addr_key with
        | none => exact absurd ha hk2
        | some saddr =>
          have htr : tracked fl = [{ node := snode, size := ssize, addr := saddr }] := by
            simp [tracked, single_sections, hn, hs, ha, hsm]
          simp only [hn, hs] at h
          by_cases hfit : req ≤ ssize
          · simp only [hfit, if_true] at h
            simp [hc1] at h
            obtain ⟨h1, h2, h3⟩ := h
            subst h1; subst h2; subst h3
            refine ⟨⟨?_, ?_, ?_, ?_, ?_⟩, rfl,
              Or.inr ⟨rfl, { node := snode, size := ssize, addr := saddr }, rfl, hfit, ?_, ?_, ?_⟩⟩
            · exact hwf.bins_ok
            · simp [tracked, single_sections, hsm]
            · intro _; exact hsm
            · intro hu; simp at hu
            · intro hne; simp at hne
            · rw [htr]; simp [tracked, single_sections, hsm]
            · simp [hc1]
            · intro t ht; rw [htr] at ht; simp at ht; subst ht; simp
          · simp only [hfit, if_false] at h
            simp at h
            obtain ⟨h1, h2, h3⟩ := h
            subst h1; subst h2; subst h3
            refine ⟨hwf, rfl, Or.inl ⟨rfl, rfl, rfl, ?_⟩⟩
            intro t ht; rw [htr] at ht; simp at ht; subst ht; simp; omega
  · -- the bins
    simp only [hsingle, if_false] at h
    have hu : fl.using_bins = true := by
      cases hu : fl.using_bins with
      | true => rfl
      | false =>
        exfalso
        have hsm := hwf.single_mode hu
        simp only [not_and] at hsingle
        have : (tracked fl).length ≤ 1 := by
          simp only [tracked, hsm, List.append_nil, single_sections]
          split <;> simp
        have : fl.sec_count = 1 := by omega
        exact hsingle this hu
    obtain ⟨hn, hbne, _⟩ := hwf.bins_mode hu
    simp only [hn, if_true] at h
    cases hb : fl.bins with
    | none => exact absurd hb hbne
    | some bins =>
      have htr : tracked fl = bins_sections (some bins) := by
        simp [tracked, single_sections_none _ hn, hb]
      cases hf : H5HF_flist_find_bin_node fl req with
      | none => simp [hf] at h
      | some p =>
        obtain ⟨fl3, r3, node3⟩ := p
        rcases find_bin_node_spec fl fl3 req r3 node3 bins hb (hwf.bins_ok _ hb) hf with
          ⟨hr, hfl, hnd, hall⟩ | ⟨hr, s, bins2, hnd, hfl, hok2, hsreq, hperm, hp⟩
        · subst hr; subst hfl; subst hnd
          simp [hf] at h
          obtain ⟨h1, h2, h3⟩ := h
          subst h1; subst h2; subst h3
          refine ⟨hwf, rfl, Or.inl ⟨rfl, rfl, rfl, ?_⟩⟩
          rw [htr]; exact hall
        · subst hr; subst hfl; subst hnd
          simp only [hf] at h
          have hlen := hperm.length_eq
          simp only [List.length_cons] at hlen
          rw [← htr, ← hcount] at hlen
          by_cases hz : fl.sec_count - 1 = 0
          · simp only [hz, if_true] at h
            simp at h
            obtain ⟨h1, h2, h3⟩ := h
            subst h1; subst h2; subst h3
            have hnil : bins_sections (some bins2) = [] :=
              List.length_eq_zero.1 (by omega)
            refine ⟨⟨?_, ?_, ?_, ?_, ?_⟩, rfl, Or.inr ⟨rfl, s, rfl, hsreq, ?_, ?_, ?_⟩⟩
            · intro b hb2; simp at hb2; subst hb2; exact hok2
            · simp [tracked, single_sections_none _ hn, hnil]
            · intro _; exact hnil
            · intro hu2; simp at hu2
            · intro hne; exact absurd hn hne
            · rw [htr]; simpa [tracked, single_sections_none _ hn] using hperm
            · simp only; omega
            · rw [htr]; exact hp
          · simp only [hz, if_false] at h
            simp at h
            obtain ⟨h1, h2, h3⟩ := h
            subst h1; subst h2; subst h3
            refine ⟨⟨?_, ?_, ?_, ?_, ?_⟩, rfl, Or.inr ⟨rfl, s, rfl, hsreq, ?_, ?_, ?_⟩⟩
            · intro b hb2; simp at hb2; subst hb2; exact hok2
            · simp [tracked, single_sections_none _ hn]; omega
            · intro hu2; simp [hu] at hu2
            · intro _; exact ⟨hn, by simp, by simp only; omega⟩
            · intro hne; exact absurd hn hne
            · rw [htr]; simpa [tracked, single_sections_none _ hn] using hperm
            · simp only; omega
            · rw [htr]; exact hp

theorem find_bin_loop_total (nbins req : Nat) (bins : List (Option (H5SL H5HF_flist_node_t)))
    (hlen : bins.length = nbins) :
    ∀ (fuel bin : Nat), bin < nbins →
      ∃ res, find_bin_loop nbins req fuel bins bin = some res := by
  intro fuel
  induction fuel with
  | zero => intro bin _; exact ⟨_, rfl⟩
  | succ f ih =>
    intro bin hbin
    simp only [find_bin_loop]
    have hget : bins[bin]? = some bins[bin] := List.getElem?_eq_getElem (by omega)
    rw [hget]
    cases bins[bin] with
    | none =>
      simp only
      split_ifs with h
      · exact ih _ h
      · exact ⟨_, rfl⟩
    | some sl =>
      simp only
      cases H5SL_greater sl req with
      | none =>
        simp only
        split_ifs with h
        · exact ih _ h
        · exact ⟨_, rfl⟩
      | some fnode => exact ⟨_, rfl⟩

theorem find_total (fl : H5HF_freelist_t) (req : Nat) (hwf : WF fl) (hreq : 0 < req)
    (hbin : H5V_log2_gen req < fl.nbins) :
    ∃ fl2 r node, H5HF_flist_find fl req = some (fl2, r, node) := by
  have hcount := hwf.count
  unfold H5HF_flist_find
  simp only [hreq, if_true]
  by_cases hpos : 0 < fl.sec_count
  swap
  · simp only [hpos, if_false]; exact ⟨_, _, _, rfl⟩
  simp only [hpos, if_true]
  have finish : ∀ (x : H5HF_freelist_t × htri_t × Option Nat),
      ∃ fl2 r node, (match some x with
        | none => none
        | some (flist2, htri_t.TRUE, node) =>
          if ({ flist2 with sec_count := flist2.sec_count - 1 } : H5HF_freelist_t).sec_count = 0 then
            some ({ { flist2 with sec_count := flist2.sec_count - 1 } with using_bins := false },
              htri_t.TRUE, node)
          else some ({ flist2 with sec_count := flist2.sec_count - 1 }, htri_t.TRUE, node)
        | some (flist2, r, node) => some (flist2, r, node)) = some (fl2, r, node) := by
    intro x
    obtain ⟨a, r, nd⟩ := x
    cases r with
    | TRUE =>
      simp only
      split_ifs
      · exact ⟨_, _, _, rfl⟩
      · exact ⟨_, _, _, rfl⟩
    | FALSE => exact ⟨_, _, _, rfl⟩
    | FAIL => exact ⟨_, _, _, rfl⟩
  by_cases hsingle : fl.sec_count = 1 ∧ fl.using_bins = false
  · obtain ⟨hc1, hub⟩ := hsingle
    simp only [hc1, hub, and_self, if_true]
    have hsm := hwf.single_mode hub
    cases hn : fl.single.node with
    | none =>
      exfalso
      have : tracked fl = [] := by simp [tracked, single_sections_none _ hn, hsm]
      rw [this] at hcount; simp at hcount; omega
    | some snode =>
      obtain ⟨hk1, _⟩ := hwf.single_keys (by rw [hn]; simp)
      cases hs : fl.single.size_key with
      | none => exact absurd hs hk1
      | some ssize =>
        simp only
        split_ifs with hfit
        · simp [hc1]
        · exact ⟨_, _, _, rfl⟩
  · simp only [hsingle, if_false]
    have hu : fl.using_bins = true := by
      cases hu : fl.using_bins with
      | true => rfl
      | false =>
        exfalso
        have hsm := hwf.single_mode hu
        simp only [not_and] at hsingle
        have : (tracked fl).length ≤ 1 := by
          simp only [tracked, hsm, List.append_nil, single_sections]
          split <;> simp
        have : fl.sec_count = 1 := by omega
        exact hsingle this hu
    obtain ⟨hn, hbne, _⟩ := hwf.bins_mode hu
    simp only [hn, if_true]
    cases hb : fl.bins with
    | none => exact absurd hb hbne
    | some bins =>
      have hok := hwf.bins_ok _ hb
      have : ∃ x, H5HF_flist_find_bin_node fl req = some x := by
        unfold H5HF_flist_find_bin_node
        simp only [hreq, hbin, if_true, hb]
        split_ifs with h2
        · obtain ⟨res, hres⟩ := find_bin_loop_total fl.nbins req bins hok.1
            (fl.nbins - skip_null_bins bins fl.nbins (fl.nbins - H5V_log2_gen req)
              (H5V_log2_gen req)) _ h2
          rw [hres]; exact ⟨_, rfl⟩
        · exact ⟨_, rfl⟩
      obtain ⟨x, hx⟩ := this
      rw [hx]
      exact finish x

theorem reset_spec (fl fl2 : H5HF_freelist_t) (freed : List (Nat × Option Nat))
    (h : H5HF_flist_reset fl = some (fl2, freed)) :
    WF fl2 ∧ fl2.nbins = fl.nbins := by
  unfold H5HF_flist_reset at h
  have key : ∀ (fl1 : H5HF_freelist_t), WF (H5HF_flist_init fl1) := by
    intro fl1
    refine ⟨?_, ?_, ?_, ?_, ?_⟩ <;>
      simp [H5HF_flist_init, tracked, single_sections, bins_sections]
  split_ifs at h with h1
  · cases hn : fl.single.node with
    | none => simp [hn] at h
    | some snode =>
      simp [hn] at h
      obtain ⟨h2, _⟩ := h
      subst h2
      exact ⟨key _, rfl⟩
  · simp only at h
    split_ifs at h with h2
    simp at h
    obtain ⟨h3, _⟩ := h
    subst h3
    exact ⟨key _, rfl⟩

theorem call_spec (fl fl2 : H5HF_freelist_t) (c : Call) (r : Ret) (hwf : WF fl)
    (h : call fl c = some (fl2, r)) : WF fl2 ∧ fl2.nbins = fl.nbins := by
  cases c with
  | add n s a =>
    simp only [call] at h
    cases hadd : H5HF_flist_add fl n s a with
    | none => simp [hadd] at h
    | some p =>
      obtain ⟨fl3, r3⟩ := p
      simp [hadd] at h
      obtain ⟨h1, _⟩ := h
      subst h1
      have := add_spec _ _ _ _ _ _ hwf hadd
      exact ⟨this.1, this.2.1⟩
  | find req =>
    simp only [call] at h
    cases hf : H5HF_flist_find fl req with
    | none => simp [hf] at h
    | some p =>
      obtain ⟨fl3, r3, nd⟩ := p
      simp [hf] at h
      obtain ⟨h1, _⟩ := h
      subst h1
      have := find_spec _ _ _ _ _ hwf hf
      exact ⟨this.1, this.2.1⟩

theorem reachable_wf (nbins : Nat) (fl : H5HF_freelist_t) (h : Reachable nbins fl) :
    WF fl ∧ fl.nbins = nbins := by
  induction h with
  | create => exact ⟨WF_create _, rfl⟩
  | step fl1 fl2 c r _ hc ih =>
    have := call_spec _ _ _ _ ih.1 hc
    exact ⟨this.1, by rw [this.2, ih.2]⟩
  | reset fl1 fl2 freed _ hr ih =>
    have := reset_spec _ _ _ hr
    exact ⟨this.1, by rw [this.2, ih.2]⟩

theorem build_spec : ∀ (secs : List Section) (fl0 fl : H5HF_freelist_t),
    WF fl0 → build fl0 secs = some fl →
    WF fl ∧ List.Perm (tracked fl) (secs.reverse ++ tracked fl0) := by
  intro secs
  induction secs with
  | nil => intro fl0 fl hwf h; simp [build] at h; subst h; exact ⟨hwf, by simp⟩
  | cons s rest ih =>
    intro fl0 fl hwf h
    simp only [build] at h
    cases hadd : H5HF_flist_add fl0 s.node s.size s.addr with
    | none => simp [hadd] at h
    | some p =>
      obtain ⟨fl1, r⟩ := p
      cases r with
      | FAIL => simp [hadd] at h
      | SUCCEED =>
        simp only [hadd] at h
        obtain ⟨hwf1, _, hS, _⟩ := add_spec _ _ _ _ _ _ hwf hadd
        obtain ⟨hwf2, hp⟩ := ih fl1 fl hwf1 h
        refine ⟨hwf2, hp.trans ?_⟩
        have h1 := (hS rfl).1
        simp only [List.reverse_cons, List.append_assoc, List.singleton_append]
        exact List.Perm.append_left _ h1

theorem calls_spec : ∀ (cs : List Call) (fl0 fl : H5HF_freelist_t) (rs : List Ret),
    WF fl0 → calls fl0 cs = some (fl, rs) →
    WF fl ∧ fl.sec_count + finds_ok rs = fl0.sec_count + adds_ok rs := by
  intro cs
  induction cs with
  | nil =>
    intro fl0 fl rs hwf h
    simp [calls] at h
    obtain ⟨h1, h2⟩ := h
    subst h1; subst h2
    exact ⟨hwf, by simp [finds_ok, adds_ok]⟩
  | cons c rest ih =>
    intro fl0 fl rs hwf h
    simp only [calls] at h
    cases hc : call fl0 c with
    | none => simp [hc] at h
    | some p =>
      obtain ⟨fl1, r1⟩ := p
      simp only [hc] at h
      cases hrest : calls fl1 rest with
      | none => simp [hrest] at h
      | some q =>
        obtain ⟨fl2, rs2⟩ := q
        simp [hrest] at h
        obtain ⟨h1, h2⟩ := h
        subst h1; subst h2
        obtain ⟨hwf1, _⟩ := call_spec _ _ _ _ hwf hc
        obtain ⟨hwf2, hcnt⟩ := ih fl1 fl2 rs2 hwf1 hrest
        refine ⟨hwf2, ?_⟩
        cases c with
        | add n s a =>
          simp only [call] at hc
          cases hadd : H5HF_flist_add fl0 n s a with
          | none => simp [hadd] at hc
          | some p =>
            obtain ⟨fl3, r3⟩ := p
            simp [hadd] at hc
            obtain ⟨e1, e2⟩ := hc
            subst e1; subst e2
            obtain ⟨_, _, hS, hF⟩ := add_spec _ _ _ _ _ _ hwf hadd
            cases r3 with
            | SUCCEED =>
              have := (hS rfl).2
              simp [finds_ok, adds_ok] at hcnt ⊢; omega
            | FAIL =>
              have := (hF rfl).2
              simp [finds_ok, adds_ok] at hcnt ⊢; omega
        | find req =>
          simp only [call] at hc
          cases hf : H5HF_flist_find fl0 req with
          | none => simp [hf] at hc
          | some p =>
            obtain ⟨fl3, r3, nd⟩ := p
            simp [hf] at hc
            obtain ⟨e1, e2⟩ := hc
            subst e1; subst e2
            obtain ⟨_, _, hres⟩ := find_spec _ _ _ _ _ hwf hf
            rcases hres with ⟨hr, hfl, _, _⟩ | ⟨hr, s, _, _, _, hsc, _⟩
            · subst hr; subst hfl
              simp [finds_ok, adds_ok] at hcnt ⊢; omega
            · subst hr
              simp [finds_ok, adds_ok] at hcnt ⊢; omega

/-! ## Properties of the free list -/

/-- C2: on a free list built by successful `H5HF_flist_add` calls, a
`H5HF_flist_find` that returns TRUE hands out a tracked section whose size is
at least the request, is the least such size among all tracked sections, and
whose address is the lowest among the tracked sections of that size; the
tracked sections are exactly the sections added. -/
theorem C2_find_best_fit (nbins : Nat) (secs : List Section) (fl fl2 : H5HF_freelist_t)
    (request : Nat) (node : Option Nat)
    (hbuild : build (H5HF_flist_create nbins) secs = some fl)
    (hfind : H5HF_flist_find fl request = some (fl2, htri_t.TRUE, node)) :
    List.Perm (tracked fl) secs ∧
    ∃ s ∈ tracked fl, node = some s.node ∧ request ≤ s.size ∧
      (∀ t ∈ tracked fl, request ≤ t.size → s.size ≤ t.size) ∧
      (∀ t ∈ tracked fl, t.size = s.size → s.addr ≤ t.addr) := by
  obtain ⟨hwf, hperm⟩ := build_spec secs _ fl (WF_create nbins) hbuild
  have htr0 : tracked (H5HF_flist_create nbins) = [] := by
    simp [H5HF_flist_create, H5HF_flist_init, tracked, single_sections, bins_sections]
  rw [htr0, List.append_nil] at hperm
  refine ⟨hperm.trans (List.reverse_perm secs), ?_⟩
  obtain ⟨_, _, hres⟩ := find_spec _ _ _ _ _ hwf hfind
  rcases hres with ⟨hr, _⟩ | ⟨_, s, hnd, hreq, hp, _, hall⟩
  · cases hr
  · refine ⟨s, hp.subset (by simp), hnd, hreq, ?_, ?_⟩
    · intro t ht; exact (hall t ht).1
    · intro t ht; exact (hall t ht).2

/-- C2 at `demo_sections`: the request 11 is served by the section of size 17. -/
theorem C2_find_best_fit_witness :
    build (H5HF_flist_create 8) demo_sections = some demo_flist ∧
    H5HF_flist_find demo_flist 11 = some (demo_flist_after, htri_t.TRUE, some 4) ∧
    (List.Perm (tracked demo_flist) demo_sections ∧
      ∃ s ∈ tracked demo_flist, some 4 = some s.node ∧ 11 ≤ s.size ∧
        (∀ t ∈ tracked demo_flist, 11 ≤ t.size → s.size ≤ t.size) ∧
        (∀ t ∈ tracked demo_flist, t.size = s.size → s.addr ≤ t.addr)) :=
  ⟨by decide, by decide,
    C2_find_best_fit 8 demo_sections demo_flist demo_flist_after 11 (some 4)
      (by decide) (by decide)⟩

/-- C5: after any sequence of `H5HF_flist_add` and `H5HF_flist_find` calls on
a freshly created free list, `sec_count` is the number of adds that succeeded
minus the number of finds that returned TRUE, and it is the number of sections
tracked. -/
theorem C5_sec_count (nbins : Nat) (cs : List Call) (fl : H5HF_freelist_t) (rs : List Ret)
    (h : calls (H5HF_flist_create nbins) cs = some (fl, rs)) :
    fl.sec_count = adds_ok rs - finds_ok rs ∧ finds_ok rs ≤ adds_ok rs ∧
      fl.sec_count = (tracked fl).length := by
  obtain ⟨hwf, hcnt⟩ := calls_spec cs _ fl rs (WF_create nbins) h
  have h0 : (H5HF_flist_create nbins).sec_count = 0 := rfl
  rw [h0] at hcnt
  exact ⟨by omega, by omega, hwf.count⟩

/-- C5 at `demo_calls`. -/
theorem C5_sec_count_witness :
    calls (H5HF_flist_create 8) demo_calls = some (demo_calls_flist, demo_rets) ∧
    (demo_calls_flist.sec_count = adds_ok demo_rets - finds_ok demo_rets ∧
      finds_ok demo_rets ≤ adds_ok demo_rets ∧
      demo_calls_flist.sec_count = (tracked demo_calls_flist).length) :=
  ⟨by decide, C5_sec_count 8 demo_calls demo_calls_flist demo_rets (by decide)⟩

/-- C6: on every reachable free list, `H5HF_flist_find` with a request > 0 whose
size class is below `nbins` returns, never with an error, and it returns FALSE
exactly when no tracked section has size at least the request; it returns
FALSE when `sec_count` is 0, a lone tracked section is returned iff it is large
enough, and a FALSE result leaves the free list unchanged. -/
theorem C6_find_false_iff (nbins : Nat) (fl : H5HF_freelist_t) (request : Nat)
    (hreach : Reachable nbins fl) (hreq : 0 < request)
    (hlog : H5V_log2_gen request < nbins) :
    ∃ fl2 r node, H5HF_flist_find fl request = some (fl2, r, node) ∧ r ≠ htri_t.FAIL ∧
      (r = htri_t.FALSE ↔ ∀ t ∈ tracked fl, t.size < request) ∧
      (r = htri_t.FALSE → fl2 = fl ∧ node = none) ∧
      (fl.sec_count = 0 → r = htri_t.FALSE) ∧
      (∀ s, tracked fl = [s] →
        (r = htri_t.TRUE ↔ request ≤ s.size) ∧ (r = htri_t.TRUE → node = some s.node)) := by
  obtain ⟨hwf, hnb⟩ := reachable_wf nbins fl hreach
  obtain ⟨fl2, r, node, hf⟩ := find_total fl request hwf hreq (by rw [hnb]; exact hlog)
  refine ⟨fl2, r, node, hf, ?_⟩
  obtain ⟨_, _, hres⟩ := find_spec _ _ _ _ _ hwf hf
  rcases hres with ⟨hr, hfl, hnd, hall⟩ | ⟨hr, s, hnd, hsreq, hp, hsc, hmin⟩
  · subst hr
    refine ⟨by simp, ⟨fun _ => hall, fun _ => rfl⟩, fun _ => ⟨hfl, hnd⟩, fun _ => rfl, ?_⟩
    intro s hs
    have := hall s (by rw [hs]; simp)
    constructor
    · constructor
      · intro h; cases h
      · intro h; omega
    · intro h; cases h
  · subst hr
    have hin : s ∈ tracked fl := hp.subset (by simp)
    refine ⟨by simp, ?_, by simp, ?_, ?_⟩
    · constructor
      · intro h; cases h
      · intro h; have := h s hin; omega
    · intro h0; omega
    · intro s2 hs2
      rw [hs2] at hin; simp at hin; subst hin
      exact ⟨⟨fun _ => hsreq, fun _ => rfl⟩, fun _ => hnd⟩

/-- A reachable free list with one section left alone in a bin. -/
theorem demo_calls_reachable : Reachable 8 demo_calls_flist := by
  have h1 : Reachable 8 (H5HF_flist_create 8) := Reachable.create
  have step : ∀ (cs : List Call) (fl0 fl : H5HF_freelist_t) (rs : List Ret),
      Reachable 8 fl0 → calls fl0 cs = some (fl, rs) → Reachable 8 fl := by
    intro cs
    induction cs with
    | nil => intro fl0 fl rs h0 h; simp [calls] at h; rw [← h.1]; exact h0
    | cons c rest ih =>
      intro fl0 fl rs h0 h
      simp only [calls] at h
      cases hc : call fl0 c with
      | none => simp [hc] at h
      | some p =>
        obtain ⟨fl1, r1⟩ := p
        simp only [hc] at h
        cases hrest : calls fl1 rest with
        | none => simp [hrest] at h
        | some q =>
          obtain ⟨fl3, rs3⟩ := q
          simp [hrest] at h
          rw [← h.1]
          exact ih fl1 fl3 rs3 (Reachable.step fl0 fl1 c r1 h0 hc) hrest
  exact step demo_calls _ _ demo_rets h1 (by decide)

/-- C6 at `demo_calls_flist`, whose only section has size 5, for the request 6. -/
theorem C6_find_false_iff_witness :
    Reachable 8 demo_calls_flist ∧ 0 < 6 ∧ H5V_log2_gen 6 < 8 ∧
    ∃ fl2 r node, H5HF_flist_find demo_calls_flist 6 = some (fl2, r, node) ∧
      r ≠ htri_t.FAIL ∧
      (r = htri_t.FALSE ↔ ∀ t ∈ tracked demo_calls_flist, t.size < 6) ∧
      (r = htri_t.FALSE → fl2 = demo_calls_flist ∧ node = none) ∧
      (demo_calls_flist.sec_count = 0 → r = htri_t.FALSE) ∧
      (∀ s, tracked demo_calls_flist = [s] →
        (r = htri_t.TRUE ↔ 6 ≤ s.size) ∧ (r = htri_t.TRUE → node = some s.node)) :=
  ⟨demo_calls_reachable, by decide, by decide,
    C6_find_false_iff 8 demo_calls_flist 6 demo_calls_reachable (by decide) (by decide)⟩

theorem node_free_cb_eq (fn : H5HF_flist_node_t) :
    H5HF_flist_node_free_cb fn = (node_sections fn).map free_call := by
  simp [H5HF_flist_node_free_cb, node_sections, free_call, Function.comp_def]

theorem destroy_bin_eq (slot : Option (H5SL H5HF_flist_node_t)) :
    destroy_bin slot = (bin_sections slot).map free_call := by
  cases slot with
  | none => rfl
  | some sl =>
    induction sl with
    | nil => simp [destroy_bin, bin_sections]
    | cons e rest ih =>
      simp only [destroy_bin, bin_sections, List.map_cons, List.flatten_cons, List.map_append]
        at ih ⊢
      rw [ih, node_free_cb_eq]

theorem destroy_bins_eq (bins : List (Option (H5SL H5HF_flist_node_t))) :
    (bins.map destroy_bin).flatten = (bins_sections (some bins)).map free_call := by
  induction bins with
  | nil => simp [bins_sections]
  | cons slot rest ih =>
    rw [bins_sections_cons, List.map_append, ← ih, ← destroy_bin_eq]
    simp

theorem single_sections_length (sg : H5HF_flist_single_t) : (single_sections sg).length ≤ 1 := by
  unfold single_sections
  split <;> simp

theorem reset_frees (fl : H5HF_freelist_t) (hwf : WF fl) :
    H5HF_flist_reset fl = some (H5HF_flist_init fl, (tracked fl).map free_call) := by
  have hbins : ∀ bins, fl.bins = some bins →
      ((bins.take fl.nbins).map destroy_bin).flatten = (bins_sections fl.bins).map free_call := by
    intro bins hb
    have hlen := (hwf.bins_ok bins hb).1
    rw [← hlen, List.take_length, destroy_bins_eq, hb]
  unfold H5HF_flist_reset
  by_cases h1 : fl.sec_count = 1 ∧ fl.using_bins = false
  · simp only [h1, and_self, if_true]
    have hbs := hwf.single_mode h1.2
    have hcount := hwf.count
    rw [h1.1] at hcount
    simp only [tracked, hbs, List.append_nil] at hcount
    cases hn : fl.single.node with
    | none => rw [single_sections_none _ hn] at hcount; simp at hcount
    | some snode =>
      have hk := hwf.single_keys (by rw [hn]; simp)
      cases hs : fl.single.size_key with
      | none => exact absurd hs hk.1
      | some sz =>
        cases ha : fl.single.addr_key with
        | none => exact absurd ha hk.2
        | some a =>
          simp only [if_true]
          cases hb : fl.bins with
          | none =>
            simp [tracked, bins_sections, single_sections, hn, hs, ha, free_call,
              H5HF_flist_init, hb]
          | some bins =>
            simp only
            rw [hbins bins hb, hbs]
            simp [tracked, hbs, single_sections, hn, hs, ha, free_call, H5HF_flist_init]
  · simp only [h1, if_false]
    have hnode : fl.single.node = none := by
      by_cases hub : fl.using_bins = true
      · exact (hwf.bins_mode hub).1
      · have hub2 : fl.using_bins = false := by simpa using hub
        have hbs := hwf.single_mode hub2
        have hcount := hwf.count
        simp only [tracked, hbs, List.append_nil] at hcount
        have hne : fl.sec_count ≠ 1 := fun h => h1 ⟨h, hub2⟩
        have hle := single_sections_length fl.single
        have h0 : (single_sections fl.single).length = 0 := by omega
        by_contra hnn
        have hk := hwf.single_keys hnn
        cases hn : fl.single.node with
        | none => exact hnn hn
        | some snode =>
          cases hs : fl.single.size_key with
          | none => exact absurd hs hk.1
          | some sz =>
            cases ha : fl.single.addr_key with
            | none => exact absurd ha hk.2
            | some a => simp [single_sections, hn, hs, ha] at h0
    simp only [hnode, if_true]
    cases hb : fl.bins with
    | none => simp [tracked, single_sections_none _ hnode, bins_sections, hb]
    | some bins =>
      simp only
      rw [hbins bins hb]
      simp [tracked, single_sections_none _ hnode, hb]

/-- C12 (`H5HF_flist_reset`, `H5HF_flist_node_free_cb`, `H5HF_flist_free`): on
every free list reachable from `H5HF_flist_create` by add, find and reset
calls, the reset succeeds and the calls of `node_free_op` it makes are exactly
one per tracked section (the one of the single slot, then those of the bins
in bin, size and address order), each with the section and its address key;
`H5HF_flist_free` makes the same calls.  Afterwards `sec_count = 0`,
`tot_space = 0`, the single slot is empty, `bins` is absent and `using_bins`
is false.  On a free list that was never used no call is made. -/

theorem C12_reset_frees_tracked (nbins : Nat) (fl : H5HF_freelist_t)
    (h : Reachable nbins fl) :
    (∃ fl2, H5HF_flist_reset fl = some (fl2, (tracked fl).map free_call) ∧
      H5HF_flist_free fl = some ((tracked fl).map free_call) ∧
      fl2.sec_count = 0 ∧ fl2.tot_space = 0 ∧
      fl2.single = { node := none, size_key := none, addr_key := none } ∧
      fl2.bins = none ∧ fl2.using_bins = false ∧ fl2.nbins = fl.nbins) ∧
    H5HF_flist_reset (H5HF_flist_create nbins) = some (H5HF_flist_create nbins, []) ∧
    H5HF_flist_free (H5HF_flist_create nbins) = some [] := by
  have hr := reset_frees fl (reachable_wf nbins fl h).1
  have hc := reset_frees (H5HF_flist_create nbins) (WF_create nbins)
  refine ⟨⟨H5HF_flist_init fl, hr, ?_, rfl, rfl, rfl, rfl, rfl, rfl⟩, ?_, ?_⟩
  · simp [H5HF_flist_free, hr]
  · rw [hc]; rfl
  · simp only [H5HF_flist_free, hc]; rfl

/-- C12 at `demo_calls_flist`, whose one section (handle 6, address 1) is left
alone in a bin. -/

theorem C12_reset_frees_tracked_witness :
    (Reachable 8 demo_calls_flist ∧ tracked demo_calls_flist = [{ node := 6, size := 5, addr := 1 }]) ∧
    ((∃ fl2, H5HF_flist_reset demo_calls_flist =
        some (fl2, (tracked demo_calls_flist).map free_call) ∧
      H5HF_flist_free demo_calls_flist = some ((tracked demo_calls_flist).map free_call) ∧
      fl2.sec_count = 0 ∧ fl2.tot_space = 0 ∧
      fl2.single = { node := none, size_key := none, addr_key := none } ∧
      fl2.bins = none ∧ fl2.using_bins = false ∧ fl2.nbins = demo_calls_flist.nbins) ∧
    H5HF_flist_reset (H5HF_flist_create 8) = some (H5HF_flist_create 8, []) ∧
    H5HF_flist_free (H5HF_flist_create 8) = some []) :=
  ⟨⟨demo_calls_reachable, by decide⟩,
    C12_reset_frees_tracked 8 demo_calls_flist demo_calls_reachable⟩

/-- A free list reached by calls from a reachable free list is reachable. -/

theorem reachable_calls (nbins : Nat) : ∀ (cs : List Call) (fl0 fl : H5HF_freelist_t)
    (rs : List Ret), Reachable nbins fl0 → calls fl0 cs = some (fl, rs) → Reachable nbins fl := by
  intro cs
  induction cs with
  | nil => intro fl0 fl rs h0 h; simp [calls] at h; rw [← h.1]; exact h0
  | cons c rest ih =>
    intro fl0 fl rs h0 h
    simp only [calls] at h
    cases hc : call fl0 c with
    | none => simp [hc] at h
    | some p =>
      obtain ⟨fl1, r1⟩ := p
      simp only [hc] at h
      cases hrest : calls fl1 rest with
      | none => simp [hrest] at h
      | some q =>
        obtain ⟨fl3, rs3⟩ := q
        simp [hrest] at h
        rw [← h.1]
        exact ih fl1 fl3 rs3 (Reachable.step fl0 fl1 c r1 h0 hc) hrest

theorem c24_reachable : Reachable 8 c24_flist :=
  reachable_calls 8 [Call.add 1 10 100, Call.add 1 10 100] _ _
    [Ret.added herr_t.SUCCEED, Ret.added herr_t.FAIL] Reachable.create (by decide)

/-- The single slot of a well-formed list holds a section exactly when its
node is set. -/

theorem single_sections_some (fl : H5HF_freelist_t) (hwf : WF fl)
    (h : fl.single.node ≠ none) : (single_sections fl.single).length = 1 := by
  obtain ⟨k1, k2⟩ := hwf.single_keys h
  cases hn : fl.single.node with
  | none => exact absurd hn h
  | some n =>
    cases hs : fl.single.size_key with
    | none => exact absurd hs k1
    | some s =>
      cases ha : fl.single.addr_key with
      | none => exact absurd ha k2
      | some a => simp [single_sections, hn, hs, ha]

/-- C24 (`H5HF_flist_add`, `H5HF_flist_find`, `H5HF_flist_reset`): in every
free list reachable from `H5HF_flist_create` by add, find and reset calls,
whatever these calls returned: when `sec_count > 0`, either the single slot
holds a node, no bin holds a section, `sec_count` is 1 and `using_bins` is
false, or the single slot is empty, the bins hold `sec_count` sections and
`using_bins` is true (the two cases exclude each other); when `sec_count` is
0 the single slot is empty and no bin holds a section; `using_bins` is true
exactly when the bins hold a section. -/

theorem C24_single_or_bins (nbins : Nat) (fl : H5HF_freelist_t) (h : Reachable nbins fl) :
    (0 < fl.sec_count →
      (fl.single.node ≠ none ∧ bins_sections fl.bins = [] ∧ fl.sec_count = 1 ∧
        fl.using_bins = false) ∨
      (fl.single.node = none ∧ (bins_sections fl.bins).length = fl.sec_count ∧
        fl.using_bins = true)) ∧
    (fl.sec_count = 0 →
      fl.single.node = none ∧ bins_sections fl.bins = [] ∧ fl.using_bins = false) ∧
    (fl.using_bins = true ↔ bins_sections fl.bins ≠ []) := by
  have hwf := (reachable_wf nbins fl h).1
  have hcount := hwf.count
  simp only [tracked, List.length_append] at hcount
  cases hub : fl.using_bins with
  | false =>
    have hsm := hwf.single_mode hub
    rw [hsm] at hcount
    simp only [List.length_nil, Nat.add_zero] at hcount
    have hle := single_sections_length fl.single
    refine ⟨?_, ?_, ?_⟩
    · intro hpos
      left
      refine ⟨?_, hsm, by omega, rfl⟩
      intro hnone
      rw [single_sections_none _ hnone] at hcount
      simp at hcount
      omega
    · intro hz
      refine ⟨?_, hsm, rfl⟩
      by_contra hne
      have := single_sections_some fl hwf hne
      omega
    · simp [hsm]
  | true =>
    obtain ⟨m1, m2, m3⟩ := hwf.bins_mode hub
    rw [single_sections_none _ m1] at hcount
    simp only [List.length_nil, Nat.zero_add] at hcount
    refine ⟨?_, ?_, ?_⟩
    · intro _
      right
      exact ⟨m1, hcount.symm, rfl⟩
    · intro hz; omega
    · simp only [true_iff]
      intro hnil
      rw [hnil] at hcount
      simp at hcount
      omega

/-- C24 at the free list left by an add followed by a failed add of the same
section: the one section sits in the bins and `using_bins` is true. -/

theorem C24_single_or_bins_witness :
    (c24_flist.single.node = none ∧ (bins_sections c24_flist.bins).length = 1 ∧
      c24_flist.using_bins = true) ∧
    ((0 < c24_flist.sec_count →
      (c24_flist.single.node ≠ none ∧ bins_sections c24_flist.bins = [] ∧
        c24_flist.sec_count = 1 ∧ c24_flist.using_bins = false) ∨
      (c24_flist.single.node = none ∧
        (bins_sections c24_flist.bins).length = c24_flist.sec_count ∧
        c24_flist.using_bins = true)) ∧
    (c24_flist.sec_count = 0 →
      c24_flist.single.node = none ∧ bins_sections c24_flist.bins = [] ∧
        c24_flist.using_bins = false) ∧
    (c24_flist.using_bins = true ↔ bins_sections c24_flist.bins ≠ [])) :=
  ⟨by decide, C24_single_or_bins 8 c24_flist c24_reachable⟩

theorem c23_reachable : Reachable 8 c23_single :=
  reachable_calls 8 [Call.add 1 10 100] _ _ [Ret.added herr_t.SUCCEED] Reachable.create
    (by decide)

/-- An add on a well-formed list without sections stores the section in the
single slot and changes nothing else but `sec_count`. -/

theorem add_empty (fl : H5HF_freelist_t) (hwf : WF fl) (h0 : fl.sec_count = 0) :
    fl.using_bins = false ∧ fl.single.node = none ∧ ∀ n s a,
      H5HF_flist_add fl n s a =
        some ({ fl with single := ⟨some n, some s, some a⟩, sec_count := 1 }, herr_t.SUCCEED) := by
  have hub : fl.using_bins = false := by
    cases hu : fl.using_bins with
    | false => rfl
    | true => have := (hwf.bins_mode hu).2.2; omega
  have hnode : fl.single.node = none := by
    by_contra hne
    have h1 := single_sections_some fl hwf hne
    have hc := hwf.count
    simp only [tracked, List.length_append] at hc
    omega
  refine ⟨hub, hnode, ?_⟩
  intro n s a
  simp [H5HF_flist_add, h0, hnode]

/-- A section held by good bins sits in the bin of its size class. -/

theorem section_bin_of_mem (nbins : Nat) (bins : List (Option (H5SL H5HF_flist_node_t)))
    (hok : BinsOK nbins bins) (t : Section) (ht : t ∈ bins_sections (some bins)) :
    ∃ sl, bins[H5V_log2_gen t.size]? = some (some sl) ∧ t ∈ bin_sections (some sl) := by
  rw [mem_bins_sections] at ht
  obtain ⟨b, slot, hslot, hmem⟩ := ht
  cases slot with
  | none => simp [bin_sections] at hmem
  | some sl =>
    have := section_in_bin nbins bins hok b sl hslot t hmem
    rw [this]
    exact ⟨sl, hslot, hmem⟩

theorem ensure_bins_bins (fl : H5HF_freelist_t) :
    (ensure_bins fl).bins = some (fl.bins.getD (alloc_bins fl.nbins)) := by
  unfold ensure_bins
  cases h : fl.bins <;> simp [h]

/-- The add that follows the first one on a well-formed list: the single
section is moved to the bins, then the new one is inserted. -/

theorem add_second (fl fl2 : H5HF_freelist_t) (n s a : Nat) (hwf : WF fl)
    (h1 : fl.sec_count = 1) (hub : fl.using_bins = false)
    (h : H5HF_flist_add fl n s a = some (fl2, herr_t.SUCCEED)) :
    ∃ sn ss sa, fl.single = ⟨some sn, some ss, some sa⟩ ∧
      ∃ fl0 fl1 fl4 bins2,
        H5HF_flist_add_bin_node (ensure_bins fl) sn ss sa = some (fl0, herr_t.SUCCEED) ∧
        fl1.bins = fl0.bins ∧ fl1.single.node = none ∧ fl1.using_bins = true ∧
        move_single_to_bins fl = some (fl1, herr_t.SUCCEED) ∧
        List.Perm (bins_sections fl1.bins) [{ node := sn, size := ss, addr := sa }] ∧
        H5HF_flist_add_bin_node fl1 n s a = some (fl4, herr_t.SUCCEED) ∧
        fl2 = { fl4 with sec_count := fl4.sec_count + 1 } ∧
        fl2.bins = some bins2 ∧ BinsOK fl.nbins bins2 ∧
        fl2.single.node = none ∧ fl2.using_bins = true ∧ fl2.sec_count = 2 ∧
        List.Perm (bins_sections (some bins2))
          [{ node := n, size := s, addr := a }, { node := sn, size := ss, addr := sa }] ∧
        (∃ sl, bins2[H5V_log2_gen ss]? = some (some sl) ∧
          { node := sn, size := ss, addr := sa } ∈ bin_sections (some sl)) ∧
        (∃ sl, bins2[H5V_log2_gen s]? = some (some sl) ∧
          { node := n, size := s, addr := a } ∈ bin_sections (some sl)) := by
  have hsm := hwf.single_mode hub
  have hc := hwf.count
  simp only [tracked, hsm, List.append_nil] at hc
  have hnode : fl.single.node ≠ none := by
    intro hnone
    rw [single_sections_none _ hnone] at hc
    simp at hc
    omega
  obtain ⟨k1, k2⟩ := hwf.single_keys hnode
  rcases hs : fl.single with ⟨_ | sn, _ | ss, _ | sa⟩
  all_goals rw [hs] at hnode k1 k2
  all_goals try exact absurd rfl hnode
  all_goals try exact absurd rfl k1
  all_goals try exact absurd rfl k2
  refine ⟨sn, ss, sa, rfl, ?_⟩
  have htr : tracked fl = [{ node := sn, size := ss, addr := sa }] := by
    simp [tracked, hsm, hs, single_sections]
  unfold H5HF_flist_add at h
  rw [if_neg (by omega)] at h
  simp only [h1, hub, and_self, if_true] at h
  rcases hm : move_single_to_bins fl with _ | ⟨fl1, _ | _⟩
  · simp [hm] at h
  swap
  · simp [hm] at h
  simp only [hm] at h
  obtain ⟨m1, m2, ⟨bins1, mb, mok, mperm, _⟩, msingle, _⟩ :=
    move_single_spec fl fl1 herr_t.SUCCEED hwf hub hm
  obtain ⟨mnode, mub⟩ := msingle rfl
  have mp := mperm rfl
  rw [htr] at mp
  rw [if_pos mnode] at h
  rcases ha : H5HF_flist_add_bin_node fl1 n s a with _ | ⟨fl4, _ | _⟩
  · simp [ha] at h
  swap
  · simp [ha] at h
  simp only [ha, Option.some.injEq, Prod.mk.injEq, and_true] at h
  obtain ⟨bins2, e4, ok2, p2, _⟩ :=
    add_bin_node_spec fl1 fl4 n s a herr_t.SUCCEED bins1 mb (by rw [m1]; exact mok) ha
  have pp := p2 rfl
  rw [m1] at ok2
  have pfull : List.Perm (bins_sections (some bins2))
      [{ node := n, size := s, addr := a }, { node := sn, size := ss, addr := sa }] :=
    pp.trans (List.Perm.cons _ mp)
  -- the step of the single section into the bins
  have hmove : ∃ fl0, H5HF_flist_add_bin_node (ensure_bins fl) sn ss sa =
      some (fl0, herr_t.SUCCEED) ∧ fl1.bins = fl0.bins := by
    have hm2 := hm
    unfold move_single_to_bins at hm2
    simp only [hs] at hm2
    rcases h0 : H5HF_flist_add_bin_node (ensure_bins fl) sn ss sa with _ | ⟨fl0, _ | _⟩
    · simp [h0] at hm2
    · simp only [h0, Option.some.injEq, Prod.mk.injEq, and_true] at hm2
      exact ⟨fl0, rfl, by rw [← hm2]⟩
    · simp [h0] at hm2
  obtain ⟨fl0, hfl0, hb0⟩ := hmove
  refine ⟨fl0, fl1, fl4, bins2, hfl0, hb0, mnode, mub, rfl, ?_, ha, h.symm, ?_, ok2, ?_, ?_,
    ?_, pfull, ?_, ?_⟩
  · rw [mb]; exact mp
  · rw [← h, e4]
  · rw [← h, e4]; exact mnode
  · rw [← h, e4]; exact mub
  · rw [← h, e4]; simp only; omega
  · have := section_bin_of_mem fl.nbins bins2 ok2 { node := sn, size := ss, addr := sa }
      (pfull.mem_iff.2 (by simp))
    exact this
  · have := section_bin_of_mem fl.nbins bins2 ok2 { node := n, size := s, addr := a }
      (pfull.mem_iff.2 (by simp))
    exact this

/-- C23 (`H5HF_flist_add`, lines 274-335; `H5HF_flist_find`, lines 435-495), on
a free list reachable from `H5HF_flist_create`.  An add on a list with
`sec_count == 0` succeeds, stores the section and its keys in the single
slot, sets `sec_count` to 1 and leaves the bin array (allocated or not) and
`using_bins` (false) as they are.  A successful add on a list with one
section in the single slot first moves that section: `H5HF_flist_add_bin_node`
on the list with the bin array allocated if it was absent (`ensure_bins`)
inserts it into the bin `H5V_log2_gen(size)`, the single slot is cleared and
`using_bins` set (the list `fl1`, whose bins hold this one section); then the
new section is inserted into its bin and `sec_count` becomes 2.  When a find
leaves `sec_count == 0`, `using_bins` is false and the next add stores its
section in the single slot again. -/

theorem C23_single_then_bins (nbins : Nat) (fl : H5HF_freelist_t) (hr : Reachable nbins fl) :
    (fl.sec_count = 0 → fl.using_bins = false ∧ ∀ n s a,
      H5HF_flist_add fl n s a =
        some ({ fl with single := ⟨some n, some s, some a⟩, sec_count := 1 }, herr_t.SUCCEED)) ∧
    (fl.sec_count = 1 → fl.using_bins = false → ∀ n s a fl2,
      H5HF_flist_add fl n s a = some (fl2, herr_t.SUCCEED) →
      ∃ sn ss sa, fl.single = ⟨some sn, some ss, some sa⟩ ∧
      ∃ fl0 fl1 fl4 bins2,
        H5HF_flist_add_bin_node (ensure_bins fl) sn ss sa = some (fl0, herr_t.SUCCEED) ∧
        fl1.bins = fl0.bins ∧ fl1.single.node = none ∧ fl1.using_bins = true ∧
        move_single_to_bins fl = some (fl1, herr_t.SUCCEED) ∧
        List.Perm (bins_sections fl1.bins) [{ node := sn, size := ss, addr := sa }] ∧
        H5HF_flist_add_bin_node fl1 n s a = some (fl4, herr_t.SUCCEED) ∧
        fl2 = { fl4 with sec_count := fl4.sec_count + 1 } ∧
        fl2.bins = some bins2 ∧ BinsOK fl.nbins bins2 ∧
        fl2.single.node = none ∧ fl2.using_bins = true ∧ fl2.sec_count = 2 ∧
        List.Perm (bins_sections (some bins2))
          [{ node := n, size := s, addr := a }, { node := sn, size := ss, addr := sa }] ∧
        (∃ sl, bins2[H5V_log2_gen ss]? = some (some sl) ∧
          { node := sn, size := ss, addr := sa } ∈ bin_sections (some sl)) ∧
        (∃ sl, bins2[H5V_log2_gen s]? = some (some sl) ∧
          { node := n, size := s, addr := a } ∈ bin_sections (some sl))) ∧
    (∀ req fl2 r nd, H5HF_flist_find fl req = some (fl2, r, nd) → fl2.sec_count = 0 →
      fl2.using_bins = false ∧ ∀ n s a,
        H5HF_flist_add fl2 n s a =
          some ({ fl2 with single := ⟨some n, some s, some a⟩, sec_count := 1 },
            herr_t.SUCCEED)) := by
  have hwf := (reachable_wf nbins fl hr).1
  refine ⟨?_, ?_, ?_⟩
  · intro h0
    have := add_empty fl hwf h0
    exact ⟨this.1, this.2.2⟩
  · intro h1 hub n s a fl2 h
    exact add_second fl fl2 n s a hwf h1 hub h
  · intro req fl2 r nd hf h0
    have hwf2 := (find_spec fl fl2 req r nd hwf hf).1
    have := add_empty fl2 hwf2 h0
    exact ⟨this.1, this.2.2⟩

/-- C23 at the list that holds the section (1, size 10, address 100) in its
single slot and no bin array, for the add of (2, size 20, address 50): the
result holds the first section in bin 3 and the second in bin 4. -/

theorem C23_single_then_bins_witness :
    (H5HF_flist_add (H5HF_flist_create 8) 1 10 100 = some (c23_single, herr_t.SUCCEED) ∧
      H5HF_flist_add c23_single 2 20 50 = some (c23_two, herr_t.SUCCEED) ∧
      (H5HF_flist_find c23_single 4).map (fun r => (r.1.using_bins, r.1.sec_count, r.2)) =
        some (false, 0, htri_t.TRUE, some 1)) ∧
    (∃ sn ss sa, c23_single.single = ⟨some sn, some ss, some sa⟩ ∧
      ∃ fl0 fl1 fl4 bins2,
        H5HF_flist_add_bin_node (ensure_bins c23_single) sn ss sa = some (fl0, herr_t.SUCCEED) ∧
        fl1.bins = fl0.bins ∧ fl1.single.node = none ∧ fl1.using_bins = true ∧
        move_single_to_bins c23_single = some (fl1, herr_t.SUCCEED) ∧
        List.Perm (bins_sections fl1.bins) [{ node := sn, size := ss, addr := sa }] ∧
        H5HF_flist_add_bin_node fl1 2 20 50 = some (fl4, herr_t.SUCCEED) ∧
        c23_two = { fl4 with sec_count := fl4.sec_count + 1 } ∧
        c23_two.bins = some bins2 ∧ BinsOK c23_single.nbins bins2 ∧
        c23_two.single.node = none ∧ c23_two.using_bins = true ∧ c23_two.sec_count = 2 ∧
        List.Perm (bins_sections (some bins2))
          [{ node := 2, size := 20, addr := 50 }, { node := sn, size := ss, addr := sa }] ∧
        (∃ sl, bins2[H5V_log2_gen ss]? = some (some sl) ∧
          { node := sn, size := ss, addr := sa } ∈ bin_sections (some sl)) ∧
        (∃ sl, bins2[H5V_log2_gen 20]? = some (some sl) ∧
          { node := 2, size := 20, addr := 50 } ∈ bin_sections (some sl))) :=
  ⟨⟨by decide, by decide, by decide⟩,
    (C23_single_then_bins 8 c23_single c23_reachable).2.1 (by decide) (by decide) 2 20 50
      c23_two (by decide)⟩

theorem add_bin_node_tot (fl fl2 : H5HF_freelist_t) (n s a : Nat) (r : herr_t)
    (h : H5HF_flist_add_bin_node fl n s a = some (fl2, r)) : fl2.tot_space = fl.tot_space := by
  unfold H5HF_flist_add_bin_node at h
  simp only at h
  repeat' split at h
  all_goals first
    | (simp at h; done)
    | (simp only [Option.some.injEq, Prod.mk.injEq] at h; rw [← h.1])

theorem ensure_bins_tot (fl : H5HF_freelist_t) : (ensure_bins fl).tot_space = fl.tot_space := by
  unfold ensure_bins
  cases fl.bins <;> rfl

theorem move_single_tot (fl fl2 : H5HF_freelist_t) (r : herr_t)
    (h : move_single_to_bins fl = some (fl2, r)) : fl2.tot_space = fl.tot_space := by
  unfold move_single_to_bins at h
  split at h
  · rename_i snode ssize saddr _ _ _
    rcases h0 : H5HF_flist_add_bin_node (ensure_bins fl) snode ssize saddr with _ | ⟨fl0, _ | _⟩
    · simp [h0] at h
    · simp only [h0, Option.some.injEq, Prod.mk.injEq] at h
      rw [← h.1]
      simp only
      rw [add_bin_node_tot _ _ _ _ _ _ h0, ensure_bins_tot]
    · simp only [h0, Option.some.injEq, Prod.mk.injEq] at h
      rw [← h.1, add_bin_node_tot _ _ _ _ _ _ h0, ensure_bins_tot]
  · simp at h

/-- `H5HF_flist_add` never changes `tot_space`. -/

theorem add_tot (fl fl2 : H5HF_freelist_t) (n s a : Nat) (r : herr_t)
    (h : H5HF_flist_add fl n s a = some (fl2, r)) : fl2.tot_space = fl.tot_space := by
  unfold H5HF_flist_add at h
  by_cases h0 : fl.sec_count = 0
  · rw [if_pos h0] at h
    split at h
    · simp only [Option.some.injEq, Prod.mk.injEq] at h
      rw [← h.1]
    · simp at h
  · rw [if_neg h0] at h
    simp only at h
    have key : ∀ fl3 : H5HF_freelist_t, fl3.tot_space = fl.tot_space →
        (if fl3.single.node = none then
          match H5HF_flist_add_bin_node fl3 n s a with
          | none => none
          | some (flist4, herr_t.FAIL) => some (flist4, herr_t.FAIL)
          | some (flist4, herr_t.SUCCEED) =>
            some ({ flist4 with sec_count := flist4.sec_count + 1 }, herr_t.SUCCEED)
        else none) = some (fl2, r) → fl2.tot_space = fl.tot_space := by
      intro fl3 h3 hk
      split at hk
      · rcases ha : H5HF_flist_add_bin_node fl3 n s a with _ | ⟨fl4, _ | _⟩
        · simp [ha] at hk
        · simp only [ha, Option.some.injEq, Prod.mk.injEq] at hk
          rw [← hk.1]
          simp only
          rw [add_bin_node_tot _ _ _ _ _ _ ha, h3]
        · simp only [ha, Option.some.injEq, Prod.mk.injEq] at hk
          rw [← hk.1, add_bin_node_tot _ _ _ _ _ _ ha, h3]
      · simp at hk
    by_cases hmig : fl.sec_count = 1 ∧ fl.using_bins = false
    · rw [if_pos hmig] at h
      rcases hm : move_single_to_bins fl with _ | ⟨fl1, _ | _⟩
      · simp [hm] at h
      · simp only [hm] at h
        exact key fl1 (move_single_tot _ _ _ hm) h
      · simp only [hm, Option.some.injEq, Prod.mk.injEq] at h
        rw [← h.1]
        exact move_single_tot _ _ _ hm
    · rw [if_neg hmig] at h
      exact key fl rfl h

theorem find_bin_node_tot (fl fl2 : H5HF_freelist_t) (req : Nat) (r : htri_t) (nd : Option Nat)
    (h : H5HF_flist_find_bin_node fl req = some (fl2, r, nd)) :
    fl2.tot_space = fl.tot_space := by
  unfold H5HF_flist_find_bin_node at h
  simp only at h
  repeat' split at h
  all_goals first
    | (simp at h; done)
    | (simp only [Option.some.injEq, Prod.mk.injEq] at h; rw [← h.1])

/-- `H5HF_flist_find` never changes `tot_space`. -/

theorem find_tot (fl fl2 : H5HF_freelist_t) (req : Nat) (r : htri_t) (nd : Option Nat)
    (h : H5HF_flist_find fl req = some (fl2, r, nd)) : fl2.tot_space = fl.tot_space := by
  unfold H5HF_flist_find at h
  simp only at h
  have key : ∀ (searched : Option (H5HF_freelist_t × htri_t × Option Nat)),
      (∀ g r1 n1, searched = some (g, r1, n1) → g.tot_space = fl.tot_space) →
      (match searched with
        | none => none
        | some (flist2, htri_t.TRUE, node) =>
          if ({ flist2 with sec_count := flist2.sec_count - 1 } : H5HF_freelist_t).sec_count = 0
          then some ({ { flist2 with sec_count := flist2.sec_count - 1 } with
            using_bins := false }, htri_t.TRUE, node)
          else some ({ flist2 with sec_count := flist2.sec_count - 1 }, htri_t.TRUE, node)
        | some (flist2, r, node) => some (flist2, r, node)) = some (fl2, r, nd) →
      fl2.tot_space = fl.tot_space := by
    intro searched hs hk
    rcases searched with _ | ⟨g, _ | _ | _, n1⟩
    · simp at hk
    · have hg := hs g _ n1 rfl
      simp only at hk
      split at hk
      · simp only [Option.some.injEq, Prod.mk.injEq] at hk
        rw [← hk.1]; exact hg
      · simp only [Option.some.injEq, Prod.mk.injEq] at hk
        rw [← hk.1]; exact hg
    · have hg := hs g _ n1 rfl
      simp only [Option.some.injEq, Prod.mk.injEq] at hk
      rw [← hk.1]; exact hg
    · have hg := hs g _ n1 rfl
      simp only [Option.some.injEq, Prod.mk.injEq] at hk
      rw [← hk.1]; exact hg
  split at h
  · split at h
    · refine key _ ?_ h
      intro g r1 n1 hs
      split at hs
      · split at hs
        · split at hs
          · simp only [Option.some.injEq, Prod.mk.injEq] at hs
            rw [← hs.1]
          · simp only [Option.some.injEq, Prod.mk.injEq] at hs
            rw [← hs.1]
        · simp at hs
      · split at hs
        · exact find_bin_node_tot _ _ _ _ _ hs
        · simp at hs
    · simp only [Option.some.injEq, Prod.mk.injEq] at h
      rw [← h.1]
  · simp at h

/-- Nothing but `H5HF_flist_init` assigns `tot_space`: it is 0 in every free
list reachable from `H5HF_flist_create`. -/

theorem reachable_tot_space (nbins : Nat) (fl : H5HF_freelist_t) (h : Reachable nbins fl) :
    fl.tot_space = 0 := by
  induction h with
  | create => rfl
  | step fl1 fl2 c r _ hc ih =>
    cases c with
    | add n s a =>
      simp only [call] at hc
      rcases ha : H5HF_flist_add fl1 n s a with _ | ⟨g, r1⟩
      · simp [ha] at hc
      · simp only [ha, Option.some.injEq, Prod.mk.injEq] at hc
        rw [← hc.1, add_tot _ _ _ _ _ _ ha, ih]
    | find req =>
      simp only [call] at hc
      rcases hf : H5HF_flist_find fl1 req with _ | ⟨g, r1, n1⟩
      · simp [hf] at hc
      · simp only [hf, Option.some.injEq, Prod.mk.injEq] at hc
        rw [← hc.1, find_tot _ _ _ _ _ hf, ih]
  | reset fl1 fl2 freed _ hr _ =>
    unfold H5HF_flist_reset at hr
    simp only at hr
    repeat' split at hr
    all_goals first
      | (simp at hr; done)
      | (simp only [Option.some.injEq, Prod.mk.injEq] at hr; rw [← hr.1]; rfl)

/-- C26, counterexample (`H5HF_flist_add`, lines 274-335; `H5HF_flist_find`,
lines 435-495): on a new free list the add of the section (1, size 5, address
100) succeeds and the list then tracks that one section, of size 5, while
`tot_space` still has the value 0 that `H5HF_flist_init` gave it; after two
successful adds (sizes 10 and 20) and the successful find of the request 11,
which returns the section of size 20, the list tracks 10 bytes and `tot_space`
is 0 as well. -/

theorem C26_tot_space_not_maintained :
    (calls (H5HF_flist_create 8) [Call.add 1 5 100]).map
        (fun r => (r.2, ((tracked r.1).map Section.size).sum, r.1.tot_space)) =
      some ([Ret.added herr_t.SUCCEED], 5, 0) ∧
    (calls (H5HF_flist_create 8) [Call.add 1 10 100, Call.add 2 20 50, Call.find 11]).map
        (fun r => (r.2, ((tracked r.1).map Section.size).sum, r.1.tot_space)) =
      some ([Ret.added herr_t.SUCCEED, Ret.added herr_t.SUCCEED,
        Ret.found htri_t.TRUE (some 2)], 10, 0) := by
  decide

/-- Every section a free list tracks after a sequence of calls was tracked
before them or was passed to one of the add calls, with its size and address
keys. -/

theorem calls_history : ∀ (cs : List Call) (fl0 fl : H5HF_freelist_t) (rs : List Ret),
    WF fl0 → calls fl0 cs = some (fl, rs) →
    ∀ t ∈ tracked fl, t ∈ tracked fl0 ∨ Call.add t.node t.size t.addr ∈ cs := by
  intro cs
  induction cs with
  | nil =>
    intro fl0 fl rs _ h t ht
    simp [calls] at h
    rw [← h.1] at ht
    exact Or.inl ht
  | cons c rest ih =>
    intro fl0 fl rs hwf h t ht
    simp only [calls] at h
    rcases hc : call fl0 c with _ | ⟨fl1, r1⟩
    · simp [hc] at h
    simp only [hc] at h
    rcases hrest : calls fl1 rest with _ | ⟨fl3, rs3⟩
    · simp [hrest] at h
    simp only [hrest, Option.some.injEq, Prod.mk.injEq] at h
    rw [← h.1] at ht
    have hwf1 := (call_spec _ _ _ _ hwf hc).1
    rcases ih fl1 fl3 rs3 hwf1 hrest t ht with h1 | h1
    swap
    · exact Or.inr (List.mem_cons_of_mem _ h1)
    cases c with
    | add n s a =>
      simp only [call] at hc
      rcases ha : H5HF_flist_add fl0 n s a with _ | ⟨g, r2⟩
      · simp [ha] at hc
      simp only [ha, Option.some.injEq, Prod.mk.injEq] at hc
      rw [← hc.1] at h1
      obtain ⟨_, _, hs, hf⟩ := add_spec _ _ _ _ _ _ hwf ha
      cases r2 with
      | SUCCEED =>
        have hp := (hs rfl).1
        rcases List.mem_cons.1 (hp.mem_iff.1 h1) with e | e
        · right
          rw [e]
          exact List.mem_cons_self _ _
        · exact Or.inl e
      | FAIL =>
        have hp := (hf rfl).1
        exact Or.inl (hp.mem_iff.1 h1)
    | find req =>
      simp only [call] at hc
      rcases hf : H5HF_flist_find fl0 req with _ | ⟨g, r2, n2⟩
      · simp [hf] at hc
      simp only [hf, Option.some.injEq, Prod.mk.injEq] at hc
      rw [← hc.1] at h1
      obtain ⟨_, _, hres⟩ := find_spec _ _ _ _ _ hwf hf
      rcases hres with ⟨_, e, _, _⟩ | ⟨_, s, _, _, hp, _, _⟩
      · rw [e] at h1; exact Or.inl h1
      · exact Or.inl (hp.mem_iff.1 (List.mem_cons_of_mem _ h1))

/-- C25 (`H5HF_flist_add_bin_node`, `H5HF_flist_find_bin_node`): in the free
list `fl` left by any sequence `cs` of add and find calls on a free list `fl0`
reachable from `H5HF_flist_create` (so `fl` is any reachable list, using bins
or not), every size node `e` stored in the skip list of `bins[b]` has
`H5V_log2_gen(sec_size) = b`, that is `2^b <= sec_size < 2^(b+1)` for a size
of at least 1, is keyed by its `sec_size`, holds at least one section, its
sections in increasing order of their address keys, and every section it
holds under the address key `x.1` was tracked by `fl0` with that size and
address or was passed to an add call of `cs` with that size and address
(for `fl0` the new list only the latter); the bin is ordered by size.  The
same holds of the list a find leaves: no size node without sections remains
after it. -/

theorem C25_size_classes (nbins : Nat) (fl0 fl : H5HF_freelist_t) (cs : List Call)
    (rs : List Ret) (h0 : Reachable nbins fl0) (h : calls fl0 cs = some (fl, rs)) :
    (∀ bins b sl e, fl.bins = some bins → bins[b]? = some (some sl) → e ∈ sl →
      H5V_log2_gen e.2.sec_size = b ∧
      (1 ≤ e.2.sec_size → 2 ^ b ≤ e.2.sec_size ∧ e.2.sec_size < 2 ^ (b + 1)) ∧
      e.1 = e.2.sec_size ∧ e.2.sec_list ≠ [] ∧ Sorted e.2.sec_list ∧ Sorted sl ∧
      ∀ x ∈ e.2.sec_list,
        { node := x.2, size := e.2.sec_size, addr := x.1 } ∈ tracked fl0 ∨
        Call.add x.2 e.2.sec_size x.1 ∈ cs) ∧
    (tracked (H5HF_flist_create nbins) = []) ∧
    (∀ req fl2 r nd bins b sl e, H5HF_flist_find fl req = some (fl2, r, nd) →
      fl2.bins = some bins → bins[b]? = some (some sl) → e ∈ sl →
      e.2.sec_list ≠ [] ∧ H5V_log2_gen e.2.sec_size = b ∧ e.1 = e.2.sec_size) := by
  have hwf0 := (reachable_wf nbins fl0 h0).1
  have hwf := (reachable_wf nbins fl (reachable_calls nbins cs fl0 fl rs h0 h)).1
  refine ⟨?_, rfl, ?_⟩
  · intro bins b sl e hb hslot he
    obtain ⟨hsorted, hnodes⟩ := (hwf.bins_ok bins hb).2 b (some sl) hslot
    obtain ⟨n1, n2, n3, n4⟩ := hnodes e he
    refine ⟨n2, ?_, n1, n3, n4, hsorted, ?_⟩
    · intro hpos
      have := log2_gen_spec e.2.sec_size hpos
      rw [n2] at this
      exact this
    · intro x hx
      have hmem : ({ node := x.2, size := e.2.sec_size, addr := x.1 } : Section) ∈
          tracked fl := by
        simp only [tracked, List.mem_append]
        right
        rw [hb, mem_bins_sections]
        refine ⟨b, some sl, hslot, ?_⟩
        rw [mem_bin_sections]
        refine ⟨e, he, ?_⟩
        rw [mem_node_sections]
        exact ⟨rfl, hx⟩
      exact calls_history cs fl0 fl rs hwf0 h _ hmem
  · intro req fl2 r nd bins b sl e hf hb hslot he
    have hwf2 := (find_spec fl fl2 req r nd hwf hf).1
    obtain ⟨_, hnodes⟩ := (hwf2.bins_ok bins hb).2 b (some sl) hslot
    obtain ⟨n1, n2, n3, _⟩ := hnodes e he
    exact ⟨n3, n2, n1⟩

/-- C25 at `demo_flist`, built by four add calls on a new list: bin 3 holds
the size node 10 with two sections, bin 4 the size nodes 17 and 20. -/

theorem C25_size_classes_witness :
    (demo_flist.using_bins = true ∧
      demo_flist.bins.map (fun bins => bins.map (fun slot => slot.map (fun sl => sl.map
        (fun e => (e.1, e.2.sec_list.length))))) =
        some [none, none, none, some [(10, 2)], some [(17, 1), (20, 1)], none, none, none]) ∧
    ((∀ bins b sl e, demo_flist.bins = some bins → bins[b]? = some (some sl) → e ∈ sl →
      H5V_log2_gen e.2.sec_size = b ∧
      (1 ≤ e.2.sec_size → 2 ^ b ≤ e.2.sec_size ∧ e.2.sec_size < 2 ^ (b + 1)) ∧
      e.1 = e.2.sec_size ∧ e.2.sec_list ≠ [] ∧ Sorted e.2.sec_list ∧ Sorted sl ∧
      ∀ x ∈ e.2.sec_list,
        { node := x.2, size := e.2.sec_size, addr := x.1 } ∈ tracked (H5HF_flist_create 8) ∨
        Call.add x.2 e.2.sec_size x.1 ∈ c25_calls) ∧
    (tracked (H5HF_flist_create 8) = []) ∧
    (∀ req fl2 r nd bins b sl e, H5HF_flist_find demo_flist req = some (fl2, r, nd) →
      fl2.bins = some bins → bins[b]? = some (some sl) → e ∈ sl →
      e.2.sec_list ≠ [] ∧ H5V_log2_gen e.2.sec_size = b ∧ e.1 = e.2.sec_size)) :=
  ⟨⟨by decide, by decide⟩,
    C25_size_classes 8 (H5HF_flist_create 8) demo_flist c25_calls
      [Ret.added herr_t.SUCCEED, Ret.added herr_t.SUCCEED, Ret.added herr_t.SUCCEED,
        Ret.added herr_t.SUCCEED] Reachable.create (by decide)⟩

end H5HF

/-! # Object-header attributes: lemmas and theorems -/

namespace H5O

theorem getElem?_at_length {α : Type} (pre : List α) (m : α) (post : List α) :
    (pre ++ m :: post)[pre.length]? = some m := by
  induction pre with
  | nil => simp
  | cons x xs ih => simpa using ih

theorem modify_at_length {α : Type} (g : α → α) (pre : List α) (m : α) (post : List α) :
    modify_nth g (pre ++ m :: post) pre.length = pre ++ g m :: post := by
  induction pre with
  | nil => rfl
  | cons x xs ih => simp [modify_nth, ih]

theorem getElem?_length_nil {α : Type} (pre : List α) :
    (pre ++ [])[pre.length]? = none := by
  simp

theorem mesg_attr_congr (f g : H5F_t) (h : f.sohm = g.sohm) (m : H5O_mesg_t) :
    mesg_attr f m = mesg_attr g m := by
  unfold mesg_attr H5O_shared_read
  rw [h]

theorem attr_recs_congr (f g : H5F_t) (h : f.sohm = g.sohm) (ms : List H5O_mesg_t) :
    attr_recs f ms = attr_recs g ms := by
  induction ms with
  | nil => rfl
  | cons m rest ih => simp only [attr_recs, ih, mesg_attr_congr f g h]

theorem release_mesg_at (f : H5F_t) (pre post : List H5O_mesg_t) (m : H5O_mesg_t)
    (h : f.oh.mesg = pre ++ m :: post) :
    H5O_release_mesg f pre.length =
      { f with oh := { f.oh with mesg := pre ++ null_mesg :: post } } := by
  simp only [H5O_release_mesg, h, modify_at_length]

theorem to_dense_iterate (fuel : Nat) :
    ∀ (pre post : List H5O_mesg_t) (f : H5F_t) (oh_flags : Bool),
      f.oh.mesg = pre ++ post → post.length ≤ fuel →
      ∀ (f2 : H5F_t) (oh_flags2 : Bool) (r : H5_iter),
        H5O_msg_iterate_real H5O_attr_to_dense_cb fuel pre.length f oh_flags () =
          (f2, oh_flags2, (), r) →
        r ≠ H5_iter.STOP ∧
        (r = H5_iter.CONT →
          f2 = { f with oh := { f.oh with mesg := pre ++ post.map tomb },
                        dense := f.dense ++ attr_recs f post } ∧
          (attr_recs f post).length =
            (post.filter (fun m => decide (m.type = H5O_msg_class_t.H5O_MSG_ATTR))).length) := by
  induction fuel with
  | zero =>
    intro pre post f oh_flags hm hlen f2 oh_flags2 r h
    have hp : post = [] := List.length_eq_zero.1 (by omega)
    subst hp
    simp [H5O_msg_iterate_real] at h
    obtain ⟨h1, h2, h3⟩ := h
    subst h1; subst h3
    refine ⟨by simp, fun _ => ⟨?_, by simp [attr_recs]⟩⟩
    cases f with
    | mk oh dense sohm log =>
      cases oh
      simp at hm
      simp [attr_recs, hm]
  | succ k ih =>
    intro pre post f oh_flags hm hlen f2 oh_flags2 r h
    cases post with
    | nil =>
      simp only [H5O_msg_iterate_real, hm, getElem?_length_nil] at h
      simp at h
      obtain ⟨h1, h2, h3⟩ := h
      subst h1; subst h3
      refine ⟨by simp, fun _ => ⟨?_, by simp [attr_recs]⟩⟩
      cases f with
      | mk oh dense sohm log =>
        cases oh
        simp at hm
        simp [attr_recs, hm]
    | cons m post =>
      simp only [H5O_msg_iterate_real, hm, getElem?_at_length] at h
      have hpre : pre ++ m :: post = (pre ++ [m]) ++ post := by simp
      by_cases ht : m.type = H5O_msg_class_t.H5O_MSG_ATTR
      · simp only [ht, if_true] at h
        unfold H5O_attr_to_dense_cb at h
        cases ha : mesg_attr f m with
        | none =>
          simp [ha] at h
          obtain ⟨_, _, h3⟩ := h
          subst h3
          exact ⟨by simp, fun hc => by cases hc⟩
        | some a =>
          simp only [ha] at h
          cases hi : H5A_dense_insert f m.shared a with
          | none =>
            simp [hi] at h
            obtain ⟨_, _, h3⟩ := h
            subst h3
            exact ⟨by simp, fun hc => by cases hc⟩
          | some f3 =>
            simp only [hi] at h
            have hf3 : f3 = { f with dense := f.dense ++ [{ shared := m.shared, attr := a }] } := by
              unfold H5A_dense_insert at hi
              split_ifs at hi
              simp at hi; exact hi.symm
            have hm3 : f3.oh.mesg = pre ++ m :: post := by rw [hf3]; exact hm
            rw [release_mesg_at f3 pre post m hm3] at h
            have hlen2 : (pre ++ [null_mesg]).length = pre.length + 1 := by simp
            rw [← hlen2] at h
            obtain ⟨hr, hc⟩ := ih (pre ++ [null_mesg]) post _ true (by simp) (by simpa using hlen)
              f2 oh_flags2 r h
            refine ⟨hr, fun hcont => ?_⟩
            obtain ⟨e1, e2⟩ := hc hcont
            have hsohm : ({ f3 with oh := { f3.oh with mesg := pre ++ null_mesg :: post } } :
                H5F_t).sohm = f.sohm := by rw [hf3]
            rw [attr_recs_congr _ f hsohm] at e1 e2
            constructor
            · rw [e1, hf3]
              simp [attr_recs, ht, ha, tomb]
            · simp [attr_recs, ht, ha, e2]
      · simp only [ht, if_false] at h
        have hlen2 : (pre ++ [m]).length = pre.length + 1 := by simp
        rw [← hlen2] at h
        obtain ⟨hr, hc⟩ := ih (pre ++ [m]) post f oh_flags (by rw [hm]; simp)
          (by simpa using hlen) f2 oh_flags2 r h
        refine ⟨hr, fun hcont => ?_⟩
        obtain ⟨e1, e2⟩ := hc hcont
        constructor
        · rw [e1]; simp [attr_recs, ht, tomb]
        · simp [attr_recs, ht, e2]

theorem try_share_frame (cfg : Config) (f : H5F_t) (a : H5A_t) :
    (H5SM_try_share cfg f a).1.oh = f.oh ∧ (H5SM_try_share cfg f a).1.dense = f.dense := by
  unfold H5SM_try_share
  split_ifs
  · split <;> simp
  · simp

theorem create_share_frame (cfg : Config) (f : H5F_t) (a : H5A_t) :
    (create_share cfg f a).1.oh = f.oh ∧ (create_share cfg f a).1.dense = f.dense := by
  obtain ⟨h1, h2⟩ := try_share_frame cfg f a
  unfold create_share
  generalize H5SM_try_share cfg f a = ts at h1 h2
  obtain ⟨f1, attr1, sh⟩ := ts
  cases sh with
  | false => exact ⟨h1, h2⟩
  | true =>
    simp only
    cases H5SM_get_refcount f1 attr1.sh_loc with
    | none => exact ⟨h1, h2⟩
    | some rc =>
      simp only
      split_ifs
      · exact ⟨h1, h2⟩
      · exact ⟨h1, h2⟩

theorem filter_tomb (ms : List H5O_mesg_t) :
    (ms.map tomb).filter (fun m => decide (m.type = H5O_msg_class_t.H5O_MSG_ATTR)) = [] := by
  induction ms with
  | nil => rfl
  | cons m rest ih =>
    simp only [List.map_cons, List.filter_cons]
    by_cases h : m.type = H5O_msg_class_t.H5O_MSG_ATTR
    · simp [tomb, h, null_mesg, ih]
    · simp [tomb, h, ih]

theorem create_convert_spec (cfg : Config) (f f2 : H5F_t) (oh_flags : Bool)
    (h : create_convert cfg f = (f2, oh_flags, none)) :
    (cfg.H5O_VERSION_1 < f.oh.version ∧ f.oh.nattrs = f.oh.max_compact ∧
        f.oh.attr_fheap_addr = none →
      f2 = { f with
             oh := { f.oh with attr_fheap_addr := some cfg.fheap_addr,
                               name_bt2_addr := some cfg.bt2_addr,
                               mesg := f.oh.mesg.map tomb },
             dense := attr_recs f f.oh.mesg } ∧
      (attr_recs f f.oh.mesg).length = attr_count f) ∧
    (¬(cfg.H5O_VERSION_1 < f.oh.version ∧ f.oh.nattrs = f.oh.max_compact ∧
        f.oh.attr_fheap_addr = none) → f2 = f) := by
  unfold create_convert at h
  split_ifs at h with hc
  · refine ⟨fun _ => ?_, fun hn => absurd hc hn⟩
    rcases hit : H5O_msg_iterate_real H5O_attr_to_dense_cb
      (H5A_dense_create cfg f).oh.mesg.length 0 (H5A_dense_create cfg f) false () with
      ⟨f3, fl3, u3, r3⟩
    dsimp only at h
    rw [hit] at h
    have hspec := to_dense_iterate (H5A_dense_create cfg f).oh.mesg.length []
      (H5A_dense_create cfg f).oh.mesg (H5A_dense_create cfg f) false (by simp) (le_refl _)
      f3 fl3 r3 hit
    cases r3 with
    | ERROR => simp at h
    | STOP => exact absurd rfl hspec.1
    | CONT =>
      simp at h
      obtain ⟨h1, _⟩ := h
      subst h1
      obtain ⟨e1, e2⟩ := hspec.2 rfl
      have hs : (H5A_dense_create cfg f).sohm = f.sohm := rfl
      rw [attr_recs_congr _ f hs] at e1 e2
      constructor
      · rw [e1]; simp [H5A_dense_create]
      · exact e2
  · simp at h
    refine ⟨fun hp => absurd hp hc, fun _ => h.1.symm⟩

theorem create_store_spec (f f2 : H5F_t) (mesg_flags : Bool) (a : H5A_t) (oh_flags oh_flags2 : Bool)
    (h : create_store f mesg_flags a oh_flags = (f2, oh_flags2, none)) :
    f2.oh.version = f.oh.version ∧ f2.oh.max_compact = f.oh.max_compact ∧
    f2.oh.min_dense = f.oh.min_dense ∧ f2.oh.nattrs = f.oh.nattrs + 1 ∧
    f2.oh.attr_fheap_addr = f.oh.attr_fheap_addr ∧ f2.sohm = f.sohm ∧
    (f.oh.attr_fheap_addr = none →
      f2.oh.mesg = f.oh.mesg ++ [new_attr_mesg mesg_flags a] ∧ f2.dense = f.dense) ∧
    (f.oh.attr_fheap_addr ≠ none →
      (∀ r ∈ f.dense, r.attr.name ≠ a.name) ∧ f2.oh.mesg = f.oh.mesg ∧
      f2.dense = f.dense ++ [{ shared := mesg_flags, attr := a }]) := by
  unfold create_store at h
  cases hd : f.oh.attr_fheap_addr with
  | none =>
    simp only [hd] at h
    simp [H5O_msg_append_real] at h
    obtain ⟨h1, _⟩ := h
    subst h1
    simp [hd]
  | some addr =>
    simp only [hd] at h
    unfold H5A_dense_insert at h
    split_ifs at h with hex
    · simp at h
    · simp at h
      obtain ⟨h1, _⟩ := h
      subst h1
      simp [hd]
      intro r hr hname
      apply hex
      simp only [H5A_dense_exists, List.any_eq_true, decide_eq_true_eq]
      exact ⟨r, hr, hname⟩

/-- The stages a successful `H5O_attr_create` went through. -/

theorem create_stages (cfg : Config) (f f2 : H5F_t) (a : H5A_t)
    (h : H5O_attr_create cfg f a = (f2, none)) :
    ∃ (f1 g h2 : H5F_t) (a1 : H5A_t) (mesg_flags fl1 fl2 : Bool),
      create_share cfg f a = (f1, a1, mesg_flags, none) ∧
      create_convert cfg (H5AC_protect f1 true) = (g, fl1, none) ∧
      create_store g mesg_flags a1 fl1 = (h2, fl2, none) ∧
      f2 = H5AC_unprotect h2 (H5O_touch_oh cfg fl2) := by
  unfold H5O_attr_create at h
  generalize hs : create_share cfg f a = s at h
  obtain ⟨f1, a1, mf, e1⟩ := s
  cases e1 with
  | some e => simp at h
  | none =>
    simp only at h
    generalize hc : create_convert cfg (H5AC_protect f1 true) = c at h
    obtain ⟨g, fl1, e2⟩ := c
    cases e2 with
    | some e => simp at h
    | none =>
      simp only at h
      generalize hst : create_store g mf a1 fl1 = st at h
      obtain ⟨h2, fl2, e3⟩ := st
      cases e3 with
      | some e => simp at h
      | none =>
        simp at h
        exact ⟨f1, g, h2, a1, mf, fl1, fl2, rfl, hc, hst, h.symm⟩

theorem attr_count_append (f g : H5F_t) (mf : Bool) (a : H5A_t)
    (h : g.oh.mesg = f.oh.mesg ++ [new_attr_mesg mf a]) : attr_count g = attr_count f + 1 := by
  simp [attr_count, h, List.filter_append, new_attr_mesg]

theorem attr_count_congr (f g : H5F_t) (h : g.oh.mesg = f.oh.mesg) :
    attr_count g = attr_count f := by
  simp [attr_count, h]

theorem storage_step (cfg : Config) (ver mc k : Nat) (f f2 : H5F_t) (a : H5A_t)
    (hinv : StorageAfter cfg ver mc f k) (h : H5O_attr_create cfg f a = (f2, none)) :
    StorageAfter cfg ver mc f2 (k + 1) := by
  obtain ⟨f1, g, h2, a1, mf, fl1, fl2, hsh, hcv, hst, hf2⟩ := create_stages cfg f f2 a h
  obtain ⟨hoh1, hd1⟩ := create_share_frame cfg f a
  rw [hsh] at hoh1 hd1
  simp only at hoh1 hd1
  have hP : (H5AC_protect f1 true).oh = f.oh := hoh1
  have hPd : (H5AC_protect f1 true).dense = f.dense := hd1
  obtain ⟨hcv1, hcv2⟩ := create_convert_spec cfg _ g fl1 hcv
  rw [hP] at hcv1 hcv2
  obtain ⟨s1, s2, s3, s4, s5, s6, s7, s8⟩ := create_store_spec g h2 mf a1 fl1 fl2 hst
  obtain ⟨iv, imc, ik, ihi, ilo⟩ := hinv
  have hf2oh : f2.oh = h2.oh := by rw [hf2]; rfl
  have hf2d : f2.dense = h2.dense := by rw [hf2]; rfl
  have hac : attr_count f2 = attr_count h2 := attr_count_congr _ _ (by rw [hf2oh])
  by_cases hc : cfg.H5O_VERSION_1 < f.oh.version ∧ f.oh.nattrs = f.oh.max_compact ∧
      f.oh.attr_fheap_addr = none
  · -- the create that switches to dense storage
    obtain ⟨hg, hlen⟩ := hcv1 hc
    have hcnt : attr_count (H5AC_protect f1 true) = attr_count f :=
      attr_count_congr _ _ (by rw [hP])
    have hgoh : g.oh.attr_fheap_addr = some cfg.fheap_addr := by rw [hg]
    have hgne : g.oh.attr_fheap_addr ≠ none := by rw [hgoh]; simp
    obtain ⟨_, hm, hdn⟩ := s8 hgne
    have hkmc : k = mc := by rw [← ik, ← imc]; exact hc.2.1
    have hver : cfg.H5O_VERSION_1 < ver := by rw [← iv]; exact hc.1
    have hcf : attr_count f = k := ((ihi hver).1 (by omega)).2
    have hg_ac : attr_count g = 0 := by
      simp [attr_count, hg, filter_tomb]
    have hgd : g.dense.length = k := by
      rw [hg]; simp only; rw [hlen, hcnt, hcf]
    refine ⟨?_, ?_, ?_, ?_, ?_⟩
    · rw [hf2oh, s1, hg]; exact iv
    · rw [hf2oh, s2, hg]; exact imc
    · rw [hf2oh, s4, hg]; simp only; omega
    · intro _
      refine ⟨fun hle => by omega, fun _ => ⟨?_, ?_, ?_⟩⟩
      · rw [hf2oh, s5, hgoh]
      · rw [hac, attr_count_congr _ _ hm, hg_ac]
      · rw [hf2d, hdn]; simp [hgd]
    · intro hle; omega
  · have hg : g = H5AC_protect f1 true := hcv2 hc
    have hgoh : g.oh = f.oh := by rw [hg, hP]
    have hgd : g.dense = f.dense := by rw [hg, hPd]
    have hgc : attr_count g = attr_count f := attr_count_congr _ _ (by rw [hgoh])
    refine ⟨?_, ?_, ?_, ?_, ?_⟩
    · rw [hf2oh, s1, hgoh]; exact iv
    · rw [hf2oh, s2, hgoh]; exact imc
    · rw [hf2oh, s4, hgoh]; omega
    · intro hver
      obtain ⟨hA, hB⟩ := ihi hver
      constructor
      · intro hle
        by_cases hk : k ≤ mc
        · obtain ⟨hn, hcf⟩ := hA hk
          have hgn : g.oh.attr_fheap_addr = none := by rw [hgoh]; exact hn
          obtain ⟨hm, _⟩ := s7 hgn
          refine ⟨by rw [hf2oh, s5, hgn], ?_⟩
          rw [hac, attr_count_append g h2 mf a1 hm, hgc, hcf]
        · omega
      · intro hlt
        by_cases hk : k ≤ mc
        · -- k = mc would have switched
          exfalso
          obtain ⟨hn, _⟩ := hA hk
          apply hc
          refine ⟨by rw [iv]; exact hver, by rw [ik, imc]; omega, hn⟩
        · obtain ⟨hn, hcf, hdl⟩ := hB (by omega)
          have hgne : g.oh.attr_fheap_addr ≠ none := by rw [hgoh, hn]; simp
          obtain ⟨_, hm, hdn⟩ := s8 hgne
          refine ⟨by rw [hf2oh, s5, hgoh, hn], ?_, ?_⟩
          · rw [hac, attr_count_congr _ _ hm, hgc, hcf]
          · rw [hf2d, hdn]; simp [hgd, hdl]
    · intro hle
      obtain ⟨hn, hcf⟩ := ilo hle
      have hgn : g.oh.attr_fheap_addr = none := by rw [hgoh]; exact hn
      obtain ⟨hm, _⟩ := s7 hgn
      refine ⟨by rw [hf2oh, s5, hgn], ?_⟩
      rw [hac, attr_count_append g h2 mf a1 hm, hgc, hcf]

theorem storage_create_all (cfg : Config) (ver mc : Nat) :
    ∀ (attrs : List H5A_t) (k : Nat) (f f2 : H5F_t),
      StorageAfter cfg ver mc f k → create_all cfg f attrs = some f2 →
      StorageAfter cfg ver mc f2 (k + attrs.length) := by
  intro attrs
  induction attrs with
  | nil => intro k f f2 hinv h; simp [create_all] at h; subst h; simpa using hinv
  | cons a rest ih =>
    intro k f f2 hinv h
    simp only [create_all] at h
    rcases hc : H5O_attr_create cfg f a with ⟨f1, e⟩
    rw [hc] at h
    cases e with
    | some e => simp at h
    | none =>
      simp only at h
      have := ih (k + 1) f1 f2 (storage_step cfg ver mc k f f1 a hinv hc) h
      simpa [Nat.add_assoc, Nat.add_comm 1] using this

/-- C10: on a header that starts with no attributes and no dense storage, after
`k` successive successful `H5O_attr_create` calls the attributes are held as
`k` attribute messages with no dense storage if `k ≤ max_compact`, and in a
dense storage of `k` records with no attribute message left if
`k > max_compact`, when the header version is above 1; on a version-1 header
the dense storage is never defined. -/

theorem C10_dense_after_max_compact (cfg : Config) (f0 f : H5F_t) (attrs : List H5A_t)
    (hn : f0.oh.nattrs = 0) (hd : f0.oh.attr_fheap_addr = none) (hm : attr_count f0 = 0)
    (hrun : create_all cfg f0 attrs = some f) :
    (cfg.H5O_VERSION_1 < f0.oh.version →
      (attrs.length ≤ f0.oh.max_compact →
        f.oh.attr_fheap_addr = none ∧ attr_count f = attrs.length) ∧
      (f0.oh.max_compact < attrs.length →
        H5F_addr_defined f.oh.attr_fheap_addr = true ∧ attr_count f = 0 ∧
          f.dense.length = attrs.length)) ∧
    (f0.oh.version ≤ cfg.H5O_VERSION_1 →
      f.oh.attr_fheap_addr = none ∧ attr_count f = attrs.length) := by
  have h0 : StorageAfter cfg f0.oh.version f0.oh.max_compact f0 0 :=
    ⟨rfl, rfl, hn, fun _ => ⟨fun _ => ⟨hd, hm⟩, fun h => by omega⟩, fun _ => ⟨hd, hm⟩⟩
  have h1 := storage_create_all cfg _ _ attrs 0 f0 f h0 hrun
  simp only [Nat.zero_add] at h1
  obtain ⟨_, _, _, hhi, hlo⟩ := h1
  refine ⟨fun hv => ⟨(hhi hv).1, fun hlt => ?_⟩, hlo⟩
  obtain ⟨a, b, c⟩ := (hhi hv).2 hlt
  exact ⟨by simp [H5F_addr_defined, a], b, c⟩

/-- C10 at `demo_file` with `max_compact = 8`: dense after the 9th create,
compact after the 8th. -/

theorem C10_dense_after_max_compact_witness :
    (create_all demo_cfg demo_file (demo_attrs.take 9) = some demo_file9 ∧
      demo_cfg.H5O_VERSION_1 < demo_file.oh.version ∧
      demo_file.oh.max_compact < (demo_attrs.take 9).length ∧
      H5F_addr_defined demo_file9.oh.attr_fheap_addr = true ∧ attr_count demo_file9 = 0 ∧
      demo_file9.dense.length = (demo_attrs.take 9).length) ∧
    (create_all demo_cfg demo_file (demo_attrs.take 8) = some demo_file8 ∧
      (demo_attrs.take 8).length ≤ demo_file.oh.max_compact ∧
      demo_file8.oh.attr_fheap_addr = none ∧ attr_count demo_file8 = (demo_attrs.take 8).length) :=
  ⟨⟨by decide, by decide, by decide,
      ((C10_dense_after_max_compact demo_cfg demo_file demo_file9 (demo_attrs.take 9)
        (by decide) (by decide) (by decide) (by decide)).1 (by decide)).2 (by decide)⟩,
    ⟨by decide, by decide,
      ((C10_dense_after_max_compact demo_cfg demo_file demo_file8 (demo_attrs.take 8)
        (by decide) (by decide) (by decide) (by decide)).1 (by decide)).1 (by decide)⟩⟩

theorem chk_iterate (name : List Nat) (fuel : Nat) :
    ∀ (pre post : List H5O_mesg_t) (f : H5F_t) (oh_flags found : Bool),
      f.oh.mesg = pre ++ post → post.length ≤ fuel →
      H5O_msg_iterate_real (H5O_attr_rename_chk_cb name) fuel pre.length f oh_flags found =
        (f, oh_flags, (if name_scan f name post = H5_iter.STOP then true else found),
          name_scan f name post) := by
  induction fuel with
  | zero =>
    intro pre post f oh_flags found hm hlen
    have hp : post = [] := List.length_eq_zero.1 (by omega)
    subst hp
    simp [H5O_msg_iterate_real, name_scan]
  | succ k ih =>
    intro pre post f oh_flags found hm hlen
    cases post with
    | nil => simp [H5O_msg_iterate_real, hm, name_scan]
    | cons m post =>
      simp only [H5O_msg_iterate_real, hm, getElem?_at_length]
      have hlen2 : (pre ++ [m]).length = pre.length + 1 := by simp
      by_cases ht : m.type = H5O_msg_class_t.H5O_MSG_ATTR
      · simp only [ht, if_true, name_scan, H5O_attr_rename_chk_cb]
        cases ha : mesg_attr f m with
        | none => simp
        | some a =>
          simp only
          by_cases hn : a.name = name
          · simp [hn]
          · simp only [hn, if_false]
            rw [← hlen2]
            rw [ih (pre ++ [m]) post f oh_flags found (by rw [hm]; simp) (by simpa using hlen)]
      · simp only [ht, if_false, name_scan]
        rw [← hlen2]
        rw [ih (pre ++ [m]) post f oh_flags found (by rw [hm]; simp) (by simpa using hlen)]

theorem exists_cb_eq (name : List Nat) :
    H5O_attr_exists_cb name = H5O_attr_rename_chk_cb name := by
  funext f idx mesg oh_flags found
  simp only [H5O_attr_exists_cb, H5O_attr_rename_chk_cb]

theorem name_scan_of_mem (f : H5F_t) (name : List Nat) :
    ∀ (ms : List H5O_mesg_t),
      (∃ m ∈ ms, m.type = H5O_msg_class_t.H5O_MSG_ATTR ∧
        ∃ a, mesg_attr f m = some a ∧ a.name = name) →
      name_scan f name ms ≠ H5_iter.CONT ∧
      ((∀ m ∈ ms, m.type = H5O_msg_class_t.H5O_MSG_ATTR → mesg_attr f m ≠ none) →
        name_scan f name ms = H5_iter.STOP) := by
  intro ms
  induction ms with
  | nil => intro h; obtain ⟨m, hm, _⟩ := h; simp at hm
  | cons m0 rest ih =>
    intro h
    obtain ⟨m, hm, ht, a, ha, hn⟩ := h
    simp only [name_scan]
    by_cases ht0 : m0.type = H5O_msg_class_t.H5O_MSG_ATTR
    · simp only [ht0, if_true]
      cases ha0 : mesg_attr f m0 with
      | none =>
        simp only
        refine ⟨by simp, fun hall => ?_⟩
        exact absurd ha0 (hall m0 (by simp) ht0)
      | some a0 =>
        simp only
        by_cases hn0 : a0.name = name
        · simp [hn0]
        · simp only [hn0, if_false]
          have hrest : ∃ m ∈ rest, m.type = H5O_msg_class_t.H5O_MSG_ATTR ∧
              ∃ a, mesg_attr f m = some a ∧ a.name = name := by
            simp at hm
            rcases hm with hm | hm
            · subst hm; rw [ha0] at ha; simp at ha; subst ha; exact absurd hn hn0
            · exact ⟨m, hm, ht, a, ha, hn⟩
          obtain ⟨i1, i2⟩ := ih hrest
          exact ⟨i1, fun hall => i2 (fun x hx => hall x (by simp [hx]))⟩
    · simp only [ht0, if_false]
      have hrest : ∃ m ∈ rest, m.type = H5O_msg_class_t.H5O_MSG_ATTR ∧
          ∃ a, mesg_attr f m = some a ∧ a.name = name := by
        simp at hm
        rcases hm with hm | hm
        · subst hm; exact absurd ht ht0
        · exact ⟨m, hm, ht, a, ha, hn⟩
      obtain ⟨i1, i2⟩ := ih hrest
      exact ⟨i1, fun hall => i2 (fun x hx => hall x (by simp [hx]))⟩

/-- C4: in compact storage, `H5O_attr_rename` to a new name that some attribute
already has returns failure and changes nothing of the object header (no
message, hence no name or value, and not `nattrs`), of the dense storage or of
the shared message storage; the failure is "already exists" whenever the
attribute messages of the header can be read (otherwise the walk that checks
the new name reports the read failure). -/

theorem C4_rename_to_existing_name (cfg : Config) (f : H5F_t) (old_name new_name : List Nat)
    (hcompact : f.oh.attr_fheap_addr = none)
    (hexists : ∃ m ∈ f.oh.mesg, m.type = H5O_msg_class_t.H5O_MSG_ATTR ∧
      ∃ a, mesg_attr f m = some a ∧ a.name = new_name) :
    (H5O_attr_rename cfg f old_name new_name).2 ≠ none ∧
    (H5O_attr_rename cfg f old_name new_name).1.oh = f.oh ∧
    (H5O_attr_rename cfg f old_name new_name).1.dense = f.dense ∧
    (H5O_attr_rename cfg f old_name new_name).1.sohm = f.sohm ∧
    ((∀ m ∈ f.oh.mesg, m.type = H5O_msg_class_t.H5O_MSG_ATTR → mesg_attr f m ≠ none) →
      (H5O_attr_rename cfg f old_name new_name).2 = some H5E.EXISTS) := by
  have hsohm : (H5AC_protect f true).sohm = f.sohm := rfl
  have hscan : name_scan (H5AC_protect f true) new_name f.oh.mesg =
      name_scan f new_name f.oh.mesg := by
    have : ∀ ms, name_scan (H5AC_protect f true) new_name ms = name_scan f new_name ms := by
      intro ms
      induction ms with
      | nil => rfl
      | cons m rest ih => simp only [name_scan, ih, mesg_attr_congr _ f hsohm]
    exact this _
  have hit := chk_iterate new_name (H5AC_protect f true).oh.mesg.length [] f.oh.mesg
    (H5AC_protect f true) false false (by simp [H5AC_protect]) (by simp [H5AC_protect])
  rw [hscan] at hit
  obtain ⟨hne, hstop⟩ := name_scan_of_mem f new_name f.oh.mesg hexists
  unfold H5O_attr_rename
  have hdef : H5F_addr_defined (H5AC_protect f true).oh.attr_fheap_addr = false := by
    simp [H5F_addr_defined, H5AC_protect, hcompact]
  simp only [hdef, List.length_nil] at hit ⊢
  simp only [Bool.false_eq_true, if_false]
  rw [hit]
  cases hs : name_scan f new_name f.oh.mesg with
  | CONT => exact absurd hs hne
  | ERROR =>
    refine ⟨by simp, rfl, rfl, rfl, fun hall => ?_⟩
    have := hstop hall
    rw [hs] at this; cases this
  | STOP =>
    exact ⟨by simp, rfl, rfl, rfl, fun _ => by simp⟩

/-- C4 at `demo_file3`: renaming "attr0" to "attr1", which exists. -/

theorem C4_rename_to_existing_name_witness :
    demo_file3.oh.attr_fheap_addr = none ∧
    (∃ m ∈ demo_file3.oh.mesg, m.type = H5O_msg_class_t.H5O_MSG_ATTR ∧
      ∃ a, mesg_attr demo_file3 m = some a ∧ a.name = (demo_attr 1).name) ∧
    ((H5O_attr_rename demo_cfg demo_file3 (demo_attr 0).name (demo_attr 1).name).2 ≠ none ∧
      (H5O_attr_rename demo_cfg demo_file3 (demo_attr 0).name (demo_attr 1).name).1.oh =
        demo_file3.oh ∧
      (H5O_attr_rename demo_cfg demo_file3 (demo_attr 0).name (demo_attr 1).name).1.dense =
        demo_file3.dense ∧
      (H5O_attr_rename demo_cfg demo_file3 (demo_attr 0).name (demo_attr 1).name).1.sohm =
        demo_file3.sohm ∧
      ((∀ m ∈ demo_file3.oh.mesg, m.type = H5O_msg_class_t.H5O_MSG_ATTR →
          mesg_attr demo_file3 m ≠ none) →
        (H5O_attr_rename demo_cfg demo_file3 (demo_attr 0).name (demo_attr 1).name).2 =
          some H5E.EXISTS)) :=
  ⟨by decide,
    ⟨new_attr_mesg false (demo_attr 1), by decide, by decide, demo_attr 1, by decide, rfl⟩,
    C4_rename_to_existing_name demo_cfg demo_file3 (demo_attr 0).name (demo_attr 1).name
      (by decide)
      ⟨new_attr_mesg false (demo_attr 1), by decide, by decide, demo_attr 1, by decide, rfl⟩⟩

theorem plain_cons (m : H5O_mesg_t) (ms : List H5O_mesg_t) (h : Plain (m :: ms)) :
    Plain ms := fun x hx => h x (by simp [hx])

theorem mesg_attr_plain (f : H5F_t) (m : H5O_mesg_t) (a : H5A_t)
    (hs : m.shared = false) (hn : m.native = Native.attr a) : mesg_attr f m = some a := by
  simp [mesg_attr, hs, hn]

theorem name_scan_plain (f : H5F_t) (name : List Nat) :
    ∀ (ms : List H5O_mesg_t), Plain ms →
      name_scan f name ms =
        if (header_attrs ms).any (fun a => decide (a.name = name)) then H5_iter.STOP
        else H5_iter.CONT := by
  intro ms
  induction ms with
  | nil => intro _; rfl
  | cons m rest ih =>
    intro hp
    have ihr := ih (plain_cons _ _ hp)
    simp only [name_scan, header_attrs]
    by_cases ht : m.type = H5O_msg_class_t.H5O_MSG_ATTR
    · obtain ⟨hs, a, hn⟩ := hp m (by simp) ht
      simp only [ht, if_true, mesg_attr_plain f m a hs hn, hn]
      by_cases hname : a.name = name
      · simp [hname]
      · simp [hname, ihr]
    · simp only [ht, if_false, ihr]

theorem compact_attrs_plain (f : H5F_t) :
    ∀ (ms : List H5O_mesg_t), Plain ms → compact_attrs f ms = some (header_attrs ms) := by
  intro ms
  induction ms with
  | nil => intro _; rfl
  | cons m rest ih =>
    intro hp
    have ihr := ih (plain_cons _ _ hp)
    simp only [compact_attrs, header_attrs]
    by_cases ht : m.type = H5O_msg_class_t.H5O_MSG_ATTR
    · obtain ⟨hs, a, hn⟩ := hp m (by simp) ht
      simp only [ht, if_true, mesg_attr_plain f m a hs hn, hn, ihr]
    · simp only [ht, if_false, ihr]

theorem attr_recs_plain (f : H5F_t) :
    ∀ (ms : List H5O_mesg_t), Plain ms →
      attr_recs f ms = (header_attrs ms).map (fun a => { shared := false, attr := a }) := by
  intro ms
  induction ms with
  | nil => intro _; rfl
  | cons m rest ih =>
    intro hp
    have ihr := ih (plain_cons _ _ hp)
    simp only [attr_recs, header_attrs]
    by_cases ht : m.type = H5O_msg_class_t.H5O_MSG_ATTR
    · obtain ⟨hs, a, hn⟩ := hp m (by simp) ht
      simp only [ht, if_true, mesg_attr_plain f m a hs hn, hn, ihr, hs, List.map_cons]
    · simp only [ht, if_false, ihr]

theorem header_attrs_tomb (ms : List H5O_mesg_t) : header_attrs (ms.map tomb) = [] := by
  induction ms with
  | nil => rfl
  | cons m rest ih =>
    simp only [List.map_cons, header_attrs]
    by_cases ht : m.type = H5O_msg_class_t.H5O_MSG_ATTR
    · simp [tomb, ht, null_mesg, ih]
    · simp [tomb, ht, ih]

theorem plain_tomb (ms : List H5O_mesg_t) : Plain (ms.map tomb) := by
  intro m hm ht
  simp only [List.mem_map] at hm
  obtain ⟨m0, _, rfl⟩ := hm
  by_cases h0 : m0.type = H5O_msg_class_t.H5O_MSG_ATTR
  · simp [tomb, h0, null_mesg] at ht
  · simp [tomb, h0] at ht

theorem header_attrs_append (ms ns : List H5O_mesg_t) :
    header_attrs (ms ++ ns) = header_attrs ms ++ header_attrs ns := by
  induction ms with
  | nil => rfl
  | cons m rest ih =>
    rw [List.cons_append]
    by_cases ht : m.type = H5O_msg_class_t.H5O_MSG_ATTR
    · cases hn : m.native <;> simp [header_attrs, ht, hn, ih]
    · simp [header_attrs, ht, ih]

theorem iterate_table_cont : ∀ (t : List H5A_t),
    H5A_attr_iterate_table (fun _ => H5_iter.CONT) t = (H5_iter.CONT, t) := by
  intro t
  induction t with
  | nil => rfl
  | cons a rest ih => simp [H5A_attr_iterate_table, ih]

theorem any_perm {α : Type} (p : α → Bool) (l1 l2 : List α) (h : List.Perm l1 l2) :
    l1.any p = l2.any p := by
  rw [Bool.eq_iff_iff]
  simp only [List.any_eq_true]
  constructor
  · rintro ⟨x, hx, hp⟩; exact ⟨x, h.subset hx, hp⟩
  · rintro ⟨x, hx, hp⟩; exact ⟨x, h.symm.subset hx, hp⟩

theorem refines_exists (cfg : Config) (f : H5F_t) (M : List H5A_t) (h : Refines cfg f M)
    (name : List Nat) :
    (H5O_attr_exists f name).2 = Except.ok (M.any (fun a => decide (a.name = name))) := by
  unfold H5O_attr_exists
  cases hd : f.oh.attr_fheap_addr with
  | none =>
    have hdef : H5F_addr_defined (H5AC_protect f false).oh.attr_fheap_addr = false := by
      simp [H5F_addr_defined, H5AC_protect, hd]
    simp only [hdef, Bool.false_eq_true, if_false]
    rw [exists_cb_eq]
    have hit := chk_iterate name (H5AC_protect f false).oh.mesg.length [] f.oh.mesg
      (H5AC_protect f false) false false (by simp [H5AC_protect]) (by simp [H5AC_protect])
    simp only [List.length_nil] at hit
    rw [hit, name_scan_plain _ _ _ h.plain]
    have hp := (h.compact hd).2
    rw [any_perm _ _ _ hp]
    cases hany : M.any (fun a => decide (a.name = name)) <;> simp
  | some addr =>
    have hdef : H5F_addr_defined (H5AC_protect f false).oh.attr_fheap_addr = true := by
      simp [H5F_addr_defined, H5AC_protect, hd]
    simp only [hdef, if_true]
    have hp := (h.dense (by rw [hd]; simp)).2
    have : H5A_dense_exists (H5AC_protect f false) name =
        (f.dense.map (fun r => r.attr)).any (fun a => decide (a.name = name)) := by
      simp only [H5A_dense_exists, H5AC_protect]
      induction f.dense with
      | nil => rfl
      | cons r rest ih => simp [List.any_cons, ih]
    rw [this, any_perm _ _ _ hp]

theorem refines_iterate (cfg : Config) (f : H5F_t) (M : List H5A_t) (h : Refines cfg f M) :
    ∃ visited, (H5O_attr_iterate cfg f 0 (fun _ => H5_iter.CONT)).2 =
        Except.ok (H5_iter.CONT, visited) ∧ List.Perm visited M := by
  unfold H5O_attr_iterate
  cases hd : f.oh.attr_fheap_addr with
  | none =>
    have hc : ¬(cfg.H5O_VERSION_1 < (H5AC_protect f false).oh.version ∧
        H5F_addr_defined (H5AC_protect f false).oh.attr_fheap_addr = true) := by
      simp [H5F_addr_defined, H5AC_protect, hd]
    simp only [hc, if_false]
    have htab : H5A_compact_build_table (H5AC_protect f false) =
        some ((header_attrs f.oh.mesg).insertionSort name_le) := by
      unfold H5A_compact_build_table
      have : (H5AC_protect f false).oh.mesg = f.oh.mesg := rfl
      rw [this, compact_attrs_plain _ _ h.plain]
    rw [htab]
    simp only [Nat.lt_irrefl, false_and, if_false, List.drop_zero, iterate_table_cont]
    exact ⟨_, rfl, (List.perm_insertionSort _ _).trans (h.compact hd).2⟩
  | some addr =>
    have hc : cfg.H5O_VERSION_1 < (H5AC_protect f false).oh.version ∧
        H5F_addr_defined (H5AC_protect f false).oh.attr_fheap_addr = true := by
      refine ⟨h.version, ?_⟩
      simp [H5F_addr_defined, H5AC_protect, hd]
    simp only [hc, and_self, if_true]
    unfold H5A_dense_iterate
    simp only [Nat.lt_irrefl, false_and, if_false, List.drop_zero, iterate_table_cont]
    refine ⟨_, rfl, (List.perm_insertionSort _ _).trans ?_⟩
    exact (h.dense (by rw [hd]; simp)).2

theorem create_share_unshared (cfg : Config) (f : H5F_t) (a : H5A_t)
    (hun : cfg.sharable a = false) : create_share cfg f a = (f, a, false, none) := by
  simp [create_share, H5SM_try_share, hun]

theorem header_attrs_new (a : H5A_t) : header_attrs [new_attr_mesg false a] = [a] := by
  simp [header_attrs, new_attr_mesg]

theorem plain_append_new (ms : List H5O_mesg_t) (a : H5A_t) (h : Plain ms) :
    Plain (ms ++ [new_attr_mesg false a]) := by
  intro m hm ht
  simp only [List.mem_append, List.mem_singleton] at hm
  rcases hm with hm | hm
  · exact h m hm ht
  · subst hm; exact ⟨rfl, a, rfl⟩

theorem refines_create (cfg : Config) (f f2 : H5F_t) (M : List H5A_t) (a : H5A_t)
    (h : Refines cfg f M) (hfresh : ∀ b ∈ M, b.name ≠ a.name)
    (hun : cfg.sharable a = false) (hc : H5O_attr_create cfg f a = (f2, none)) :
    Refines cfg f2 (M ++ [a]) := by
  obtain ⟨f1, g, h2, a1, mf, fl1, fl2, hsh, hcv, hst, hf2⟩ := create_stages cfg f f2 a hc
  rw [create_share_unshared cfg f a hun] at hsh
  simp only [Prod.mk.injEq] at hsh
  obtain ⟨e1, e2, e3, _⟩ := hsh
  subst e1; subst e2; subst e3
  obtain ⟨hcv1, hcv2⟩ := create_convert_spec cfg _ g fl1 hcv
  obtain ⟨s1, s2, s3, s4, s5, s6, s7, s8⟩ := create_store_spec g h2 false a fl1 fl2 hst
  have hf2oh : f2.oh = h2.oh := by rw [hf2]; rfl
  have hf2d : f2.dense = h2.dense := by rw [hf2]; rfl
  have hnodup : ((M ++ [a]).map (fun x => x.name)).Nodup := by
    rw [List.map_append, List.nodup_append]
    refine ⟨h.nodup, by simp, ?_⟩
    intro x hx1 hx2
    simp only [List.map_cons, List.map_nil, List.mem_singleton] at hx2
    simp only [List.mem_map] at hx1
    obtain ⟨b, hb, hbn⟩ := hx1
    exact hfresh b hb (by rw [hbn, hx2])
  have hunsh : ∀ x ∈ M ++ [a], cfg.sharable x = false := by
    intro x hx
    simp only [List.mem_append, List.mem_singleton] at hx
    rcases hx with hx | hx
    · exact h.unshared x hx
    · subst hx; exact hun
  by_cases hcond : cfg.H5O_VERSION_1 < (H5AC_protect f true).oh.version ∧
      (H5AC_protect f true).oh.nattrs = (H5AC_protect f true).oh.max_compact ∧
      (H5AC_protect f true).oh.attr_fheap_addr = none
  · -- the attributes move to dense storage
    obtain ⟨hg, _⟩ := hcv1 hcond
    have hfn : f.oh.attr_fheap_addr = none := hcond.2.2
    have hgne : g.oh.attr_fheap_addr ≠ none := by rw [hg]; simp
    obtain ⟨_, hm, hdn⟩ := s8 hgne
    have hgm : g.oh.mesg = f.oh.mesg.map tomb := by rw [hg]; rfl
    have hgd : g.dense = (header_attrs f.oh.mesg).map (fun x => { shared := false, attr := x }) := by
      rw [hg]; simp only
      exact attr_recs_plain _ _ h.plain
    refine ⟨?_, ?_, hnodup, hunsh, ?_, ?_, ?_⟩
    · rw [hf2oh, s1, hg]; exact h.version
    · rw [hf2oh, s4, hg, List.length_append, List.length_singleton]
      have := h.nattrs
      show f.oh.nattrs + 1 = M.length + 1
      omega
    · rw [hf2oh, hm, hgm]; exact plain_tomb _
    · intro hn; rw [hf2oh, s5] at hn; exact absurd hn hgne
    · intro _
      refine ⟨by rw [hf2oh, hm, hgm]; exact header_attrs_tomb _, ?_⟩
      rw [hf2d, hdn, hgd]
      simp only [List.map_append, List.map_map, List.map_cons, List.map_nil]
      have : (List.map ((fun r : DenseRec => r.attr) ∘ fun x => { shared := false, attr := x })
          (header_attrs f.oh.mesg)) = header_attrs f.oh.mesg := by
        induction header_attrs f.oh.mesg with
        | nil => rfl
        | cons x rest ih => rw [List.map_cons, ih]; rfl
      rw [this]
      exact List.Perm.append_right _ (h.compact hfn).2
  · have hg : g = H5AC_protect f true := hcv2 hcond
    have hgoh : g.oh = f.oh := by rw [hg]; rfl
    have hgd : g.dense = f.dense := by rw [hg]; rfl
    cases hd : f.oh.attr_fheap_addr with
    | none =>
      have hgn : g.oh.attr_fheap_addr = none := by rw [hgoh]; exact hd
      obtain ⟨hm, hdn⟩ := s7 hgn
      refine ⟨?_, ?_, hnodup, hunsh, ?_, ?_, ?_⟩
      · rw [hf2oh, s1, hgoh]; exact h.version
      · rw [hf2oh, s4, hgoh, h.nattrs]; simp
      · rw [hf2oh, hm, hgoh]; exact plain_append_new _ _ h.plain
      · intro _
        refine ⟨by rw [hf2d, hdn, hgd]; exact (h.compact hd).1, ?_⟩
        rw [hf2oh, hm, hgoh, header_attrs_append, header_attrs_new]
        exact List.Perm.append_right _ (h.compact hd).2
      · intro hn; rw [hf2oh, s5, hgn] at hn; exact absurd rfl hn
    | some addr =>
      have hfne : f.oh.attr_fheap_addr ≠ none := by rw [hd]; simp
      have hgne : g.oh.attr_fheap_addr ≠ none := by rw [hgoh]; exact hfne
      obtain ⟨_, hm, hdn⟩ := s8 hgne
      refine ⟨?_, ?_, hnodup, hunsh, ?_, ?_, ?_⟩
      · rw [hf2oh, s1, hgoh]; exact h.version
      · rw [hf2oh, s4, hgoh, h.nattrs]; simp
      · rw [hf2oh, hm, hgoh]; exact h.plain
      · intro hn; rw [hf2oh, s5] at hn; exact absurd hn hgne
      · intro _
        refine ⟨by rw [hf2oh, hm, hgoh]; exact (h.dense hfne).1, ?_⟩
        rw [hf2d, hdn, hgd]
        simp only [List.map_append, List.map_cons, List.map_nil]
        exact List.Perm.append_right _ (h.dense hfne).2

theorem refines_congr (cfg : Config) (f g : H5F_t) (M : List H5A_t)
    (hoh : g.oh = f.oh) (hd : g.dense = f.dense) (h : Refines cfg f M) : Refines cfg g M := by
  refine ⟨?_, ?_, h.nodup, h.unshared, ?_, ?_, ?_⟩
  · rw [hoh]; exact h.version
  · rw [hoh]; exact h.nattrs
  · rw [hoh]; exact h.plain
  · rw [hoh, hd]; exact h.compact
  · rw [hoh, hd]; exact h.dense

theorem remove_iterate (cfg : Config) (name : List Nat) (fuel : Nat) :
    ∀ (pre post : List H5O_mesg_t) (f : H5F_t) (oh_flags : Bool),
      f.oh.mesg = pre ++ post → Plain post → post.length ≤ fuel →
      cfg.H5O_VERSION_1 < f.oh.version →
      H5O_msg_iterate_real (H5O_attr_remove_cb cfg name) fuel pre.length f oh_flags false =
        if (header_attrs post).any (fun a => decide (a.name = name)) then
          ({ f with oh := { f.oh with nattrs := f.oh.nattrs - 1,
                                      mesg := pre ++ tomb_first name post } },
            true, true, H5_iter.STOP)
        else (f, oh_flags, false, H5_iter.CONT) := by
  induction fuel with
  | zero =>
    intro pre post f oh_flags hm hp hlen hv
    have hpn : post = [] := List.length_eq_zero.1 (by omega)
    subst hpn
    simp [H5O_msg_iterate_real, header_attrs]
  | succ k ih =>
    intro pre post f oh_flags hm hp hlen hv
    cases post with
    | nil => simp [H5O_msg_iterate_real, hm, header_attrs]
    | cons m post =>
      simp only [H5O_msg_iterate_real, hm, getElem?_at_length]
      have hlen2 : (pre ++ [m]).length = pre.length + 1 := by simp
      have ihr := ih (pre ++ [m]) post f oh_flags (by rw [hm]; simp) (plain_cons _ _ hp)
        (by simpa using hlen) hv
      rw [hlen2] at ihr
      by_cases ht : m.type = H5O_msg_class_t.H5O_MSG_ATTR
      · obtain ⟨hs, a, hn⟩ := hp m (by simp) ht
        simp only [ht, if_true, H5O_attr_remove_cb, mesg_attr_plain f m a hs hn, header_attrs, hn,
          tomb_first]
        by_cases hname : a.name = name
        · simp only [hname, if_true, hv, List.any_cons, decide_True, Bool.true_or]
          have hm2 : ({ f with oh := { f.oh with nattrs := f.oh.nattrs - 1 } } : H5F_t).oh.mesg =
              pre ++ m :: post := hm
          rw [release_mesg_at _ pre post m hm2]
        · simp only [hname, if_false, List.any_cons, decide_False, Bool.false_or]
          rw [ihr]
          split_ifs <;> simp
      · simp only [ht, if_false, header_attrs, tomb_first]
        rw [ihr]
        split_ifs <;> simp

theorem plain_tomb_first (name : List Nat) : ∀ (ms : List H5O_mesg_t),
    Plain ms → Plain (tomb_first name ms) := by
  intro ms
  induction ms with
  | nil => intro h; exact h
  | cons m rest ih =>
    intro hp
    have hr := ih (plain_cons _ _ hp)
    have hrest := plain_cons _ _ hp
    simp only [tomb_first]
    by_cases ht : m.type = H5O_msg_class_t.H5O_MSG_ATTR
    · obtain ⟨hs, a, hn⟩ := hp m (by simp) ht
      simp only [ht, if_true, hn]
      by_cases hname : a.name = name
      · simp only [hname, if_true]
        intro x hx hxt
        simp only [List.mem_cons] at hx
        rcases hx with hx | hx
        · subst hx; simp [null_mesg] at hxt
        · exact hrest x hx hxt
      · simp only [hname, if_false]
        intro x hx hxt
        simp only [List.mem_cons] at hx
        rcases hx with hx | hx
        · subst hx; exact ⟨hs, a, hn⟩
        · exact hr x hx hxt
    · simp only [ht, if_false]
      intro x hx hxt
      simp only [List.mem_cons] at hx
      rcases hx with hx | hx
      · subst hx; exact absurd hxt ht
      · exact hr x hx hxt

theorem header_attrs_tomb_first (name : List Nat) : ∀ (ms : List H5O_mesg_t),
    Plain ms → ((header_attrs ms).map (fun a => a.name)).Nodup →
    header_attrs (tomb_first name ms) =
      (header_attrs ms).filter (fun a => decide (a.name ≠ name)) := by
  intro ms
  induction ms with
  | nil => intro _ _; rfl
  | cons m rest ih =>
    intro hp hnd
    simp only [tomb_first, header_attrs]
    by_cases ht : m.type = H5O_msg_class_t.H5O_MSG_ATTR
    · obtain ⟨hs, a, hn⟩ := hp m (by simp) ht
      simp only [header_attrs, ht, if_true, hn] at hnd
      simp only [ht, if_true, hn]
      rw [List.map_cons, List.nodup_cons] at hnd
      by_cases hname : a.name = name
      · simp only [hname, if_true, header_attrs]
        have hnull : null_mesg.type ≠ H5O_msg_class_t.H5O_MSG_ATTR := by simp [null_mesg]
        simp only [hnull, if_false]
        rw [List.filter_cons]
        simp only [hname, ne_eq, not_true_eq_false, decide_False, Bool.false_eq_true, if_false]
        symm
        rw [List.filter_eq_self]
        intro b hb
        simp only [ne_eq, decide_eq_true_eq]
        intro hbn
        apply hnd.1
        rw [hname, ← hbn]
        exact List.mem_map_of_mem _ hb
      · simp only [hname, if_false, header_attrs, ht, if_true, hn]
        rw [List.filter_cons]
        simp only [ne_eq, hname, not_false_eq_true, decide_True, if_true]
        rw [ih (plain_cons _ _ hp) hnd.2]
    · simp only [header_attrs, ht, if_false] at hnd
      simp only [ht, if_false, header_attrs]
      exact ih (plain_cons _ _ hp) hnd

theorem filter_names_nodup (M : List H5A_t) (p : H5A_t → Bool)
    (h : (M.map (fun a => a.name)).Nodup) : ((M.filter p).map (fun a => a.name)).Nodup := by
  exact (List.Sublist.map _ (List.filter_sublist M)).nodup h

theorem filter_name_length (M : List H5A_t) (name : List Nat)
    (hnd : (M.map (fun a => a.name)).Nodup) (hex : ∃ a ∈ M, a.name = name) :
    (M.filter (fun a => decide (a.name ≠ name))).length + 1 = M.length := by
  induction M with
  | nil => obtain ⟨a, ha, _⟩ := hex; simp at ha
  | cons b rest ih =>
    simp only [List.map_cons, List.nodup_cons] at hnd
    by_cases hb : b.name = name
    · have hnone : ∀ a ∈ rest, a.name ≠ name := by
        intro a ha hn
        apply hnd.1
        rw [hb, ← hn]
        exact List.mem_map_of_mem _ ha
      have hall : rest.filter (fun a => decide (a.name ≠ name)) = rest := by
        rw [List.filter_eq_self]
        intro a ha
        simp [hnone a ha]
      have hdb : decide (b.name ≠ name) = false := by simp [hb]
      rw [List.filter_cons, hdb, hall]
      simp
    · have hex2 : ∃ a ∈ rest, a.name = name := by
        obtain ⟨a, ha, han⟩ := hex
        rcases List.mem_cons.1 ha with rfl | h
        · exact absurd han hb
        · exact ⟨a, h, han⟩
      have := ih hnd.2 hex2
      have hdb : decide (b.name ≠ name) = true := by simp [hb]
      rw [List.filter_cons, hdb]
      simp only [if_true, List.length_cons]
      omega

theorem remove_lookup_refines (cfg : Config) (f g : H5F_t) (M : List H5A_t) (name : List Nat)
    (oh_flags : Bool) (h : Refines cfg f M)
    (hl : remove_lookup cfg f name = (g, oh_flags, none)) :
    Refines cfg g (M.filter (fun a => decide (a.name ≠ name))) ∧ g.sohm = f.sohm ∧
      g.oh.min_dense = f.oh.min_dense := by
  have hnd2 := filter_names_nodup M (fun a => decide (a.name ≠ name)) h.nodup
  have hun2 : ∀ a ∈ M.filter (fun a => decide (a.name ≠ name)), cfg.sharable a = false :=
    fun a ha => h.unshared a (List.mem_filter.1 ha).1
  unfold remove_lookup at hl
  cases hd : f.oh.attr_fheap_addr with
  | none =>
    simp only [hd] at hl
    have hit := remove_iterate cfg name f.oh.mesg.length [] f.oh.mesg f false (by simp)
      h.plain (le_refl _) h.version
    simp only [List.length_nil, List.nil_append] at hit
    rw [hit] at hl
    obtain ⟨hde, hperm⟩ := h.compact hd
    by_cases hany : (header_attrs f.oh.mesg).any (fun a => decide (a.name = name)) = true
    · simp only [hany, if_true] at hl
      simp only [Prod.mk.injEq, and_true] at hl
      obtain ⟨hg, _⟩ := hl
      subst hg
      have hndh : ((header_attrs f.oh.mesg).map (fun a => a.name)).Nodup :=
        (hperm.map _).nodup_iff.2 h.nodup
      have hha := header_attrs_tomb_first name f.oh.mesg h.plain hndh
      have hpf : List.Perm ((header_attrs f.oh.mesg).filter (fun a => decide (a.name ≠ name)))
          (M.filter (fun a => decide (a.name ≠ name))) := hperm.filter _
      have hex : ∃ a ∈ M, a.name = name := by
        rw [any_perm _ _ _ hperm] at hany
        simp only [List.any_eq_true, decide_eq_true_eq] at hany
        exact hany
      have hlen := filter_name_length M name h.nodup hex
      refine ⟨⟨?_, ?_, hnd2, hun2, ?_, ?_, ?_⟩, rfl, rfl⟩
      · exact h.version
      · simp only; rw [h.nattrs]; omega
      · exact plain_tomb_first name _ h.plain
      · intro _
        refine ⟨hde, ?_⟩
        simp only; rw [hha]; exact hpf
      · intro hn; exact absurd hd hn
    · simp only [hany, Bool.false_eq_true, if_false] at hl
      simp at hl
  | some addr =>
    simp only [hd] at hl
    have hfne : f.oh.attr_fheap_addr ≠ none := by rw [hd]; simp
    obtain ⟨hha, hperm⟩ := h.dense hfne
    unfold H5A_dense_remove at hl
    split_ifs at hl with hex
    swap
    · simp at hl
    simp only [Prod.mk.injEq, and_true] at hl
    obtain ⟨hg, _⟩ := hl
    subst hg
    have hfm : (f.dense.filter (fun r => decide (r.attr.name ≠ name))).map (fun r => r.attr) =
        (f.dense.map (fun r => r.attr)).filter (fun a => decide (a.name ≠ name)) := by
      rw [List.filter_map]; rfl
    have hpf : List.Perm ((f.dense.map (fun r => r.attr)).filter (fun a => decide (a.name ≠ name)))
        (M.filter (fun a => decide (a.name ≠ name))) := hperm.filter _
    have hexM : ∃ a ∈ M, a.name = name := by
      simp only [H5A_dense_exists, List.any_eq_true, decide_eq_true_eq] at hex
      obtain ⟨r, hr, hrn⟩ := hex
      exact ⟨r.attr, hperm.subset (List.mem_map_of_mem _ hr), hrn⟩
    have hlen := filter_name_length M name h.nodup hexM
    refine ⟨⟨?_, ?_, hnd2, hun2, ?_, ?_, ?_⟩, rfl, rfl⟩
    · exact h.version
    · simp only; rw [h.nattrs]; omega
    · exact h.plain
    · intro hn; exact absurd (hd.symm.trans hn) (by simp)
    · intro _
      refine ⟨hha, ?_⟩
      simp only; rw [hfm]; exact hpf

theorem append_table_unshared (cfg : Config) : ∀ (as : List H5A_t) (f : H5F_t) (fl : Bool),
    (∀ a ∈ as, cfg.sharable a = false) →
    (append_table cfg as f fl).1.oh = { f.oh with mesg := f.oh.mesg ++ as.map (new_attr_mesg false) } ∧
    (append_table cfg as f fl).1.dense = f.dense := by
  intro as
  induction as with
  | nil => intro f fl _; simp [append_table]
  | cons a rest ih =>
    intro f fl hun
    have ha : cfg.sharable a = false := hun a (by simp)
    have hts : H5SM_try_share cfg f a = (f, a, false) := by simp [H5SM_try_share, ha]
    simp only [append_table, hts, H5O_msg_append_real]
    obtain ⟨h1, h2⟩ := ih { f with oh := { f.oh with mesg := f.oh.mesg ++ [new_attr_mesg false a] } }
      (fl || true) (fun b hb => hun b (List.mem_cons_of_mem _ hb))
    refine ⟨?_, ?_⟩
    · rw [h1]; simp
    · rw [h2]

theorem header_attrs_map_new (as : List H5A_t) :
    header_attrs (as.map (new_attr_mesg false)) = as := by
  induction as with
  | nil => rfl
  | cons a rest ih => simp [header_attrs, new_attr_mesg, ih]

theorem plain_append_map_new (ms : List H5O_mesg_t) (as : List H5A_t) (h : Plain ms) :
    Plain (ms ++ as.map (new_attr_mesg false)) := by
  intro m hm ht
  simp only [List.mem_append, List.mem_map] at hm
  rcases hm with hm | ⟨a, _, rfl⟩
  · exact h m hm ht
  · exact ⟨rfl, a, rfl⟩

theorem remove_shift_refines (cfg : Config) (f g : H5F_t) (M : List H5A_t) (fl fl2 : Bool)
    (h : Refines cfg f M) (hs : remove_shift cfg f fl = (g, fl2)) : Refines cfg g M := by
  unfold remove_shift at hs
  cases hd : f.oh.attr_fheap_addr with
  | none =>
    simp only [hd, Prod.mk.injEq] at hs
    rw [← hs.1]; exact h
  | some addr =>
    simp only [hd] at hs
    have hfne : f.oh.attr_fheap_addr ≠ none := by rw [hd]; simp
    obtain ⟨hha, hperm⟩ := h.dense hfne
    by_cases hc : f.oh.nattrs = 0 ∨ f.oh.nattrs < f.oh.min_dense
    · simp only [hc, if_true] at hs
      by_cases h0 : f.oh.nattrs = 0
      · simp only [h0, if_true, Prod.mk.injEq] at hs
        obtain ⟨hg, _⟩ := hs
        subst hg
        have hM : M = [] := by
          have := h.nattrs; rw [h0] at this
          exact List.length_eq_zero.1 this.symm
        subst hM
        refine ⟨h.version, h.nattrs, h.nodup, h.unshared, h.plain, ?_, ?_⟩
        · intro _
          refine ⟨rfl, ?_⟩
          show List.Perm (header_attrs f.oh.mesg) []
          rw [hha]
        · intro hn; exact absurd rfl hn
      · simp only [h0, if_false] at hs
        have hlen : f.dense.length = f.oh.nattrs := by
          have := hperm.length_eq
          rw [List.length_map] at this
          rw [this, h.nattrs]
        have htake : (H5A_dense_build_table f).take f.oh.nattrs = f.dense.map (fun r => r.attr) := by
          unfold H5A_dense_build_table
          rw [← hlen, ← List.length_map f.dense (fun r => r.attr), List.take_length]
        rw [htake] at hs
        split_ifs at hs with hcan
        · have hun : ∀ a ∈ f.dense.map (fun r => r.attr), cfg.sharable a = false :=
            fun a ha => h.unshared a (hperm.subset ha)
          obtain ⟨a1, a2⟩ := append_table_unshared cfg (f.dense.map (fun r => r.attr)) f fl hun
          rcases hat : append_table cfg (f.dense.map (fun r => r.attr)) f fl with ⟨f2, fl3⟩
          rw [hat] at hs a1 a2
          simp only [Prod.mk.injEq] at hs
          obtain ⟨hg, _⟩ := hs
          subst hg
          simp only at a1 a2
          refine ⟨?_, ?_, h.nodup, h.unshared, ?_, ?_, ?_⟩
          · show cfg.H5O_VERSION_1 < f2.oh.version
            rw [a1]; exact h.version
          · show f2.oh.nattrs = M.length
            rw [a1]; exact h.nattrs
          · show Plain f2.oh.mesg
            rw [a1]
            exact plain_append_map_new _ _ h.plain
          · intro _
            refine ⟨rfl, ?_⟩
            show List.Perm (header_attrs f2.oh.mesg) M
            rw [a1]
            simp only
            rw [header_attrs_append, hha, header_attrs_map_new, List.nil_append]
            exact hperm
          · intro hn; exact absurd rfl hn
        · simp only [Prod.mk.injEq] at hs
          rw [← hs.1]; exact h
    · simp only [hc, if_false, Prod.mk.injEq] at hs
      rw [← hs.1]; exact h

theorem refines_remove (cfg : Config) (f f2 : H5F_t) (M : List H5A_t) (name : List Nat)
    (h : Refines cfg f M) (hr : H5O_attr_remove cfg f name = (f2, none)) :
    Refines cfg f2 (M.filter (fun a => decide (a.name ≠ name))) := by
  unfold H5O_attr_remove at hr
  have hp : Refines cfg (H5AC_protect f true) M := refines_congr cfg f _ M rfl rfl h
  rcases hl : remove_lookup cfg (H5AC_protect f true) name with ⟨g, fl, e⟩
  rw [hl] at hr
  cases e with
  | some e => simp at hr
  | none =>
    simp only at hr
    obtain ⟨hg, _, _⟩ := remove_lookup_refines cfg _ g M name fl hp hl
    rcases hsh : remove_shift cfg g fl with ⟨g2, fl2⟩
    rw [hsh] at hr
    simp only [Prod.mk.injEq, and_true] at hr
    have hg2 := remove_shift_refines cfg g g2 _ fl fl2 hg hsh
    rw [← hr]
    exact refines_congr cfg g2 _ _ rfl rfl hg2

theorem remove_succeeds (cfg : Config) (f : H5F_t) (M : List H5A_t) (name : List Nat)
    (h : Refines cfg f M) (hex : ∃ a ∈ M, a.name = name) :
    (H5O_attr_remove cfg f name).2 = none := by
  have hp : Refines cfg (H5AC_protect f true) M := refines_congr cfg f _ M rfl rfl h
  unfold H5O_attr_remove
  have hl : (remove_lookup cfg (H5AC_protect f true) name).2.2 = none := by
    unfold remove_lookup
    cases hd : (H5AC_protect f true).oh.attr_fheap_addr with
    | none =>
      simp only
      have hit := remove_iterate cfg name (H5AC_protect f true).oh.mesg.length []
        (H5AC_protect f true).oh.mesg (H5AC_protect f true) false (by simp) hp.plain
        (le_refl _) hp.version
      simp only [List.length_nil, List.nil_append] at hit
      rw [hit]
      obtain ⟨_, hperm⟩ := hp.compact hd
      have hany : (header_attrs (H5AC_protect f true).oh.mesg).any
          (fun a => decide (a.name = name)) = true := by
        rw [any_perm _ _ _ hperm]
        simp only [List.any_eq_true, decide_eq_true_eq]
        exact hex
      simp only [hany, if_true]
    | some addr =>
      simp only
      have hfne : (H5AC_protect f true).oh.attr_fheap_addr ≠ none := by rw [hd]; simp
      obtain ⟨_, hperm⟩ := hp.dense hfne
      have hde : H5A_dense_exists (H5AC_protect f true) name = true := by
        obtain ⟨a, ha, han⟩ := hex
        have := hperm.symm.subset ha
        simp only [List.mem_map] at this
        obtain ⟨r, hr, hra⟩ := this
        simp only [H5A_dense_exists, List.any_eq_true, decide_eq_true_eq]
        exact ⟨r, hr, by rw [hra]; exact han⟩
      simp [H5A_dense_remove, hde]
  rcases hlr : remove_lookup cfg (H5AC_protect f true) name with ⟨g, fl, e⟩
  rw [hlr] at hl
  simp only at hl
  subst hl
  simp

theorem refines_calls (cfg : Config) : ∀ (cs : List AttrCall) (f f2 : H5F_t) (M : List H5A_t),
    Refines cfg f M → distinct_unshared cfg M cs = true → attr_calls cfg f cs = some f2 →
    Refines cfg f2 (abstract_calls M cs) := by
  intro cs
  induction cs with
  | nil =>
    intro f f2 M h _ hr
    simp only [attr_calls, Option.some.injEq] at hr
    subst hr; exact h
  | cons c rest ih =>
    intro f f2 M h hadm hr
    cases c with
    | create a =>
      simp only [distinct_unshared, Bool.and_eq_true, List.all_eq_true, decide_eq_true_eq,
        Bool.not_eq_true'] at hadm
      obtain ⟨⟨hfresh, hun⟩, hrest⟩ := hadm
      simp only [attr_calls] at hr
      rcases hc : H5O_attr_create cfg f a with ⟨g, e⟩
      rw [hc] at hr
      cases e with
      | some e => simp at hr
      | none =>
        simp only at hr
        exact ih g f2 _ (refines_create cfg f g M a h hfresh hun hc) hrest hr
    | remove name =>
      simp only [distinct_unshared] at hadm
      simp only [attr_calls] at hr
      rcases hc : H5O_attr_remove cfg f name with ⟨g, e⟩
      rw [hc] at hr
      cases e with
      | some e => simp at hr
      | none =>
        simp only at hr
        exact ih g f2 _ (refines_remove cfg f g M name h hc) hadm hr

theorem header_attrs_nil_of_no_attr : ∀ (ms : List H5O_mesg_t),
    (∀ m ∈ ms, m.type ≠ H5O_msg_class_t.H5O_MSG_ATTR) → header_attrs ms = [] := by
  intro ms
  induction ms with
  | nil => intro _; rfl
  | cons m rest ih =>
    intro h
    have hm := h m (by simp)
    simp only [header_attrs, hm, if_false]
    exact ih (fun x hx => h x (List.mem_cons_of_mem _ hx))

theorem no_attr_of_header_attrs_nil : ∀ (ms : List H5O_mesg_t), Plain ms →
    header_attrs ms = [] → ∀ m ∈ ms, m.type ≠ H5O_msg_class_t.H5O_MSG_ATTR := by
  intro ms
  induction ms with
  | nil => intro _ _ m hm; simp at hm
  | cons x rest ih =>
    intro hp hh m hm
    by_cases hx : x.type = H5O_msg_class_t.H5O_MSG_ATTR
    · obtain ⟨_, a, ha⟩ := hp x (by simp) hx
      simp [header_attrs, hx, ha] at hh
    · simp only [header_attrs, hx, if_false] at hh
      rcases List.mem_cons.1 hm with rfl | hm
      · exact hx
      · exact ih (plain_cons _ _ hp) hh m hm

/-- C3 (`H5O_attr_create`, `H5O_attr_remove`, `H5O_attr_to_dense_cb`): on a header
of a later version that starts without attributes, after any sequence of
successful creates (of unshared attributes under names not in use) and
removes, the state stands for the abstract map `abstract_calls [] cs`:
`H5O_attr_exists` answers true exactly for the names of the map,
`H5O_attr_iterate` visits exactly its attributes (each once, in some order),
the names of the map are distinct, and the attributes are held either by the
attribute messages of the header with an empty dense storage, or by the dense
storage with no attribute message in the header. -/

theorem C3_compact_dense_refinement (cfg : Config) (f0 f : H5F_t) (cs : List AttrCall)
    (hv : cfg.H5O_VERSION_1 < f0.oh.version)
    (hn : f0.oh.nattrs = 0) (hd : f0.oh.attr_fheap_addr = none) (hde : f0.dense = [])
    (hm : ∀ m ∈ f0.oh.mesg, m.type ≠ H5O_msg_class_t.H5O_MSG_ATTR)
    (hadm : distinct_unshared cfg [] cs = true)
    (hrun : attr_calls cfg f0 cs = some f) :
    (∀ name, (H5O_attr_exists f name).2 =
      Except.ok ((abstract_calls [] cs).any (fun a => decide (a.name = name)))) ∧
    (∃ visited, (H5O_attr_iterate cfg f 0 (fun _ => H5_iter.CONT)).2 =
        Except.ok (H5_iter.CONT, visited) ∧ List.Perm visited (abstract_calls [] cs)) ∧
    ((abstract_calls [] cs).map (fun a => a.name)).Nodup ∧
    f.oh.nattrs = (abstract_calls [] cs).length ∧
    (f.oh.attr_fheap_addr = none →
      f.dense = [] ∧ List.Perm (header_attrs f.oh.mesg) (abstract_calls [] cs)) ∧
    (f.oh.attr_fheap_addr ≠ none →
      (∀ m ∈ f.oh.mesg, m.type ≠ H5O_msg_class_t.H5O_MSG_ATTR) ∧
      List.Perm (f.dense.map (fun r => r.attr)) (abstract_calls [] cs)) := by
  have h0 : Refines cfg f0 [] := by
    refine ⟨hv, by simp [hn], by simp, by simp, ?_, ?_, ?_⟩
    · intro m hmem ht; exact absurd ht (hm m hmem)
    · intro _
      refine ⟨hde, ?_⟩
      rw [header_attrs_nil_of_no_attr _ hm]
    · intro h; exact absurd hd h
  have h := refines_calls cfg cs f0 f [] h0 hadm hrun
  refine ⟨fun name => refines_exists cfg f _ h name, refines_iterate cfg f _ h, h.nodup,
    h.nattrs, h.compact, fun hne => ?_⟩
  obtain ⟨h1, h2⟩ := h.dense hne
  exact ⟨no_attr_of_header_attrs_nil _ h.plain h1, h2⟩

/-- C3 at `demo_file` (`max_compact = 8`, `min_dense = 6`): after ten creates
and five removes the five attributes left are visible through
`H5O_attr_exists` and `H5O_attr_iterate` and held by one storage only. -/

theorem C3_compact_dense_refinement_witness :
    (demo_cfg.H5O_VERSION_1 < demo_file.oh.version ∧
      distinct_unshared demo_cfg [] demo_attr_calls = true ∧
      attr_calls demo_cfg demo_file demo_attr_calls = some demo_file_10_5) ∧
    ((∀ name, (H5O_attr_exists demo_file_10_5 name).2 =
      Except.ok ((abstract_calls [] demo_attr_calls).any (fun a => decide (a.name = name)))) ∧
    (∃ visited, (H5O_attr_iterate demo_cfg demo_file_10_5 0 (fun _ => H5_iter.CONT)).2 =
        Except.ok (H5_iter.CONT, visited) ∧
        List.Perm visited (abstract_calls [] demo_attr_calls)) ∧
    ((abstract_calls [] demo_attr_calls).map (fun a => a.name)).Nodup ∧
    demo_file_10_5.oh.nattrs = (abstract_calls [] demo_attr_calls).length ∧
    (demo_file_10_5.oh.attr_fheap_addr = none →
      demo_file_10_5.dense = [] ∧
        List.Perm (header_attrs demo_file_10_5.oh.mesg) (abstract_calls [] demo_attr_calls)) ∧
    (demo_file_10_5.oh.attr_fheap_addr ≠ none →
      (∀ m ∈ demo_file_10_5.oh.mesg, m.type ≠ H5O_msg_class_t.H5O_MSG_ATTR) ∧
      List.Perm (demo_file_10_5.dense.map (fun r => r.attr))
        (abstract_calls [] demo_attr_calls))) :=
  ⟨⟨by decide, by decide, by decide⟩,
    C3_compact_dense_refinement demo_cfg demo_file demo_file_10_5 demo_attr_calls
      (by decide) (by decide) (by decide) (by decide) (by decide) (by decide) (by decide)⟩

theorem modify_nth_get {α : Type} (g : α → α) : ∀ (xs : List α) (n i : Nat),
    (modify_nth g xs n)[i]? = if i = n then (xs[i]?).map g else xs[i]? := by
  intro xs
  induction xs with
  | nil => intro n i; cases n <;> simp [modify_nth]
  | cons x rest ih =>
    intro n i
    cases n with
    | zero =>
      cases i with
      | zero => simp [modify_nth]
      | succ j => simp [modify_nth]
    | succ m =>
      cases i with
      | zero => simp [modify_nth]
      | succ j => simp [modify_nth, ih m j]

theorem sohm_find_some (a : H5A_t) : ∀ (s : List (H5A_t × Nat)) (k i : Nat),
    sohm_find a s k = some i →
    k ≤ i ∧ ∃ b rc, s[i - k]? = some (b, rc) ∧ 0 < rc ∧ b.name = a.name ∧ b.data = a.data ∧
      b.data_size = a.data_size := by
  intro s
  induction s with
  | nil => intro k i h; simp [sohm_find] at h
  | cons e rest ih =>
    intro k i h
    obtain ⟨b, rc⟩ := e
    simp only [sohm_find] at h
    split_ifs at h with hc
    · simp only [Option.some.injEq] at h
      subst h
      exact ⟨le_refl _, b, rc, by simp, hc.1, hc.2.1, hc.2.2.1, hc.2.2.2⟩
    · obtain ⟨h1, b2, rc2, h2, h3⟩ := ih (k + 1) i h
      refine ⟨by omega, b2, rc2, ?_, h3⟩
      have : i - k = (i - (k + 1)) + 1 := by omega
      rw [this]
      simpa using h2

theorem sohm_ext_refl (s : List (H5A_t × Nat)) : SohmExt s s :=
  fun _ _ rc h hrc => ⟨rc, h, hrc⟩

theorem sohm_ext_trans (s t u : List (H5A_t × Nat)) (h1 : SohmExt s t) (h2 : SohmExt t u) :
    SohmExt s u := by
  intro i b rc h hrc
  obtain ⟨rc2, ht, hrc2⟩ := h1 i b rc h hrc
  exact h2 i b rc2 ht hrc2

theorem mesg_holds_ext (f g : H5F_t) (m : H5O_mesg_t) (a : H5A_t) (hext : SohmExt f.sohm g.sohm)
    (h : mesg_holds f m a) : mesg_holds g m a := by
  obtain ⟨ht, b, hb, hrest⟩ := h
  refine ⟨ht, b, ?_, hrest⟩
  unfold mesg_attr at hb ⊢
  by_cases hs : m.shared = true
  · simp only [hs, if_true] at hb ⊢
    unfold H5O_shared_read at hb ⊢
    cases hn : m.native with
    | attr x => simp [hn] at hb
    | null => simp [hn] at hb
    | shared sh =>
      simp only [hn] at hb ⊢
      cases he : f.sohm[sh]? with
      | none => simp [he] at hb
      | some e =>
        obtain ⟨c, rc⟩ := e
        simp only [he] at hb
        split_ifs at hb with hrc
        simp only [Option.some.injEq] at hb
        subst hb
        obtain ⟨rc2, hg, hrc2⟩ := hext sh c rc he hrc
        simp [hg, hrc2]
  · simp only [hs, if_false] at hb ⊢
    exact hb

theorem try_share_spec (cfg : Config) (f : H5F_t) (a : H5A_t) :
    SohmExt f.sohm (H5SM_try_share cfg f a).1.sohm ∧
    mesg_holds (H5SM_try_share cfg f a).1
      (new_attr_mesg (H5SM_try_share cfg f a).2.2 (H5SM_try_share cfg f a).2.1) a := by
  unfold H5SM_try_share
  by_cases hsh : cfg.sharable a = true
  · simp only [hsh, if_true]
    cases hf : sohm_find a f.sohm 0 with
    | some i =>
      simp only
      obtain ⟨_, b, rc, hb, hrc, h1, h2, h3⟩ := sohm_find_some a f.sohm 0 i hf
      simp only [Nat.sub_zero] at hb
      constructor
      · intro j c rcj hj hrcj
        rw [modify_nth_get]
        by_cases hji : j = i
        · subst hji
          simp only [if_true, hj, Option.map_some']
          exact ⟨rcj + 1, rfl, by omega⟩
        · simp only [hji, if_false]
          exact ⟨rcj, hj, hrcj⟩
      · refine ⟨rfl, b, ?_, h1, h2, h3⟩
        simp only [mesg_attr, new_attr_mesg, if_true, H5O_shared_read]
        rw [modify_nth_get]
        simp [hb]
    | none =>
      simp only
      constructor
      · intro j c rcj hj hrcj
        refine ⟨rcj, ?_, hrcj⟩
        have hlt : j < f.sohm.length := by
          by_contra hge
          rw [List.getElem?_eq_none (by omega)] at hj
          cases hj
        rw [List.getElem?_append_left hlt]
        exact hj
      · refine ⟨rfl, { a with sh_loc := none }, ?_, rfl, rfl, rfl⟩
        simp [mesg_attr, new_attr_mesg, H5O_shared_read]
  · have hsh2 : cfg.sharable a = false := by simpa using hsh
    simp only [hsh2, Bool.false_eq_true, if_false]
    exact ⟨sohm_ext_refl _, rfl, a, by simp [mesg_attr, new_attr_mesg], rfl, rfl, rfl⟩

theorem append_table_spec (cfg : Config) : ∀ (as : List H5A_t) (f : H5F_t) (fl : Bool),
    SohmExt f.sohm (append_table cfg as f fl).1.sohm ∧
    (append_table cfg as f fl).1.dense = f.dense ∧
    ∃ msgs, (append_table cfg as f fl).1.oh = { f.oh with mesg := f.oh.mesg ++ msgs } ∧
      List.Forall₂ (mesg_holds (append_table cfg as f fl).1) msgs as := by
  intro as
  induction as with
  | nil =>
    intro f fl
    exact ⟨sohm_ext_refl _, rfl, [], by simp [append_table], List.Forall₂.nil⟩
  | cons a rest ih =>
    intro f fl
    obtain ⟨t1, t2⟩ := try_share_spec cfg f a
    obtain ⟨t3, t4⟩ := try_share_frame cfg f a
    rcases hts : H5SM_try_share cfg f a with ⟨f1, a1, sh⟩
    rw [hts] at t1 t2 t3 t4
    simp only at t1 t2 t3 t4
    simp only [append_table, hts, H5O_msg_append_real]
    obtain ⟨i1, i2, msgs, i3, i4⟩ :=
      ih { f1 with oh := { f1.oh with mesg := f1.oh.mesg ++ [new_attr_mesg sh a1] } } (fl || true)
    refine ⟨sohm_ext_trans _ _ _ t1 i1, by rw [i2]; exact t4, new_attr_mesg sh a1 :: msgs, ?_, ?_⟩
    · rw [i3]; simp [t3]
    · refine List.Forall₂.cons ?_ i4
      exact mesg_holds_ext _ _ _ _ i1 (mesg_holds_ext f1 _ _ _ (sohm_ext_refl _) t2)

theorem remove_dense_lookup (cfg : Config) (f g : H5F_t) (name : List Nat) (addr : Nat)
    (fl : Bool) (hd : f.oh.attr_fheap_addr = some addr)
    (hl : remove_lookup cfg f name = (g, fl, none)) :
    H5A_dense_exists f name = true ∧ fl = false ∧
    g = { f with dense := f.dense.filter (fun r => decide (r.attr.name ≠ name)),
                 oh := { f.oh with nattrs := f.oh.nattrs - 1 } } := by
  unfold remove_lookup at hl
  simp only [hd] at hl
  unfold H5A_dense_remove at hl
  by_cases hex : H5A_dense_exists f name = true
  · simp only [hex, if_true, Prod.mk.injEq, and_true] at hl
    exact ⟨hex, hl.2.symm, hl.1.symm⟩
  · simp [hex] at hl

theorem dense_left_length (f : H5F_t) (name : List Nat)
    (hnodup : (f.dense.map (fun r => r.attr.name)).Nodup)
    (hex : H5A_dense_exists f name = true) :
    (dense_left f name).length + 1 = f.dense.length := by
  have hM : ((f.dense.map (fun r => r.attr)).map (fun a => a.name)).Nodup := by
    rw [List.map_map]; exact hnodup
  have hexM : ∃ a ∈ f.dense.map (fun r => r.attr), a.name = name := by
    simp only [H5A_dense_exists, List.any_eq_true, decide_eq_true_eq] at hex
    obtain ⟨r, hr, hrn⟩ := hex
    exact ⟨r.attr, List.mem_map_of_mem _ hr, hrn⟩
  have h := filter_name_length _ name hM hexM
  have hfm : dense_left f name =
      (f.dense.map (fun r => r.attr)).filter (fun a => decide (a.name ≠ name)) := by
    unfold dense_left
    rw [List.filter_map]; rfl
  rw [hfm, h, List.length_map]

/-- C11 (`H5O_attr_remove`, lines 1289-1344): a successful remove on an object
in dense storage (the count `nattrs` being that of the storage, names
distinct) leaves `n = nattrs - 1` attributes, those of `dense_left`.  If
`n = 0` the dense storage is deleted and the header messages are as before.
If `0 < n < min_dense` and every attribute left has a message size below
`H5O_MESG_MAX_SIZE`, the header gains one attribute message per attribute
left, in the order of the table, each holding its attribute, and the dense
storage is deleted.  Otherwise (`n >= min_dense`, or an attribute left is too
large) the object stays dense with the attributes left, and neither the
header messages nor the shared message storage change: the size check covers
the whole table before anything is converted. -/

theorem C11_remove_dense_shift (cfg : Config) (f f2 : H5F_t) (name : List Nat) (addr : Nat)
    (hd : f.oh.attr_fheap_addr = some addr)
    (hcount : f.oh.nattrs = f.dense.length)
    (hnodup : (f.dense.map (fun r => r.attr.name)).Nodup)
    (hr : H5O_attr_remove cfg f name = (f2, none)) :
    f2.oh.nattrs + 1 = f.oh.nattrs ∧ (dense_left f name).length = f2.oh.nattrs ∧
    (f2.oh.nattrs = 0 →
      f2.oh.attr_fheap_addr = none ∧ f2.oh.name_bt2_addr = none ∧ f2.dense = [] ∧
      f2.oh.mesg = f.oh.mesg ∧ f2.sohm = f.sohm) ∧
    (0 < f2.oh.nattrs → f2.oh.nattrs < f.oh.min_dense →
      (∀ a ∈ dense_left f name, cfg.mesg_size a < cfg.H5O_MESG_MAX_SIZE) →
      f2.oh.attr_fheap_addr = none ∧ f2.oh.name_bt2_addr = none ∧ f2.dense = [] ∧
      ∃ msgs, f2.oh.mesg = f.oh.mesg ++ msgs ∧
        List.Forall₂ (mesg_holds f2) msgs (dense_left f name)) ∧
    (0 < f2.oh.nattrs →
      (f.oh.min_dense ≤ f2.oh.nattrs ∨
        ∃ a ∈ dense_left f name, cfg.H5O_MESG_MAX_SIZE ≤ cfg.mesg_size a) →
      f2.oh.attr_fheap_addr = some addr ∧ f2.oh.mesg = f.oh.mesg ∧ f2.sohm = f.sohm ∧
      f2.dense.map (fun r => r.attr) = dense_left f name) := by
  unfold H5O_attr_remove at hr
  rcases hl : remove_lookup cfg (H5AC_protect f true) name with ⟨g, fl, e⟩
  rw [hl] at hr
  cases e with
  | some e => simp at hr
  | none =>
    simp only at hr
    obtain ⟨hex, hfl, hg⟩ := remove_dense_lookup cfg (H5AC_protect f true) g name addr fl hd hl
    have hlen := dense_left_length f name hnodup hex
    rcases hsh : remove_shift cfg g fl with ⟨g2, fl2⟩
    rw [hsh] at hr
    simp only [Prod.mk.injEq, and_true] at hr
    have hoh : f2.oh = g2.oh := by rw [← hr]; rfl
    have hde : f2.dense = g2.dense := by rw [← hr]; rfl
    have hso : f2.sohm = g2.sohm := by rw [← hr]; rfl
    have hgn : g.oh.nattrs = f.oh.nattrs - 1 := by rw [hg]; rfl
    have hgd : g.dense.map (fun r => r.attr) = dense_left f name := by rw [hg]; rfl
    have hgm : g.oh.mesg = f.oh.mesg := by rw [hg]; rfl
    have hgs : g.sohm = f.sohm := by rw [hg]; rfl
    have hgdm : g.oh.min_dense = f.oh.min_dense := by rw [hg]; rfl
    have hga : g.oh.attr_fheap_addr = some addr := by rw [hg]; exact hd
    have hgl : (dense_left f name).length = g.oh.nattrs := by rw [hgn]; omega
    have htake : (H5A_dense_build_table g).take g.oh.nattrs = dense_left f name := by
      unfold H5A_dense_build_table
      rw [hgd, ← hgl, List.take_length]
    unfold remove_shift at hsh
    simp only [hga] at hsh
    by_cases h0 : g.oh.nattrs = 0
    · -- no attribute left: the dense storage is deleted
      simp only [h0, true_or, if_true, Prod.mk.injEq] at hsh
      obtain ⟨hg2, _⟩ := hsh
      have hn2 : f2.oh.nattrs = 0 := by rw [hoh, ← hg2]; exact h0
      refine ⟨by rw [hn2]; omega, by rw [hn2, hgl, h0], fun _ => ?_,
        fun hp => by omega, fun hp => by omega⟩
      rw [hoh, hde, hso, ← hg2]
      exact ⟨rfl, rfl, rfl, hgm, hgs⟩
    · have hpos : 0 < g.oh.nattrs := Nat.pos_of_ne_zero h0
      by_cases hlow : g.oh.nattrs < g.oh.min_dense
      · simp only [h0, false_or, hlow, if_true, if_false, htake] at hsh
        by_cases hcan : (dense_left f name).all
            (fun a => decide (cfg.mesg_size a < cfg.H5O_MESG_MAX_SIZE)) = true
        · -- every attribute left fits: converted back to header messages
          simp only [hcan, if_true] at hsh
          obtain ⟨a1, a2, msgs, a3, a4⟩ := append_table_spec cfg (dense_left f name) g fl
          rcases hat : append_table cfg (dense_left f name) g fl with ⟨g3, fl3⟩
          rw [hat] at hsh a1 a2 a3 a4
          simp only [Prod.mk.injEq] at hsh a1 a2 a3 a4
          obtain ⟨hg2, _⟩ := hsh
          have hn2 : f2.oh.nattrs = g.oh.nattrs := by
            rw [hoh, ← hg2]
            show g3.oh.nattrs = g.oh.nattrs
            rw [a3]
          refine ⟨by rw [hn2]; omega, by rw [hn2]; exact hgl, fun hz => by omega,
            fun _ _ _ => ?_, fun _ hor => ?_⟩
          · refine ⟨by rw [hoh, ← hg2]; rfl, by rw [hoh, ← hg2]; rfl, by rw [hde, ← hg2]; rfl,
              msgs, ?_, ?_⟩
            · rw [hoh, ← hg2]
              show g3.oh.mesg = f.oh.mesg ++ msgs
              rw [a3, ← hgm]
            · have hsame : f2.sohm = g3.sohm := by rw [hso, ← hg2]; rfl
              refine List.Forall₂.imp ?_ a4
              intro m a hm
              exact mesg_holds_ext g3 f2 m a (by rw [hsame]; exact sohm_ext_refl _) hm
          · exfalso
            rcases hor with hor | ⟨a, ha, hbig⟩
            · rw [hn2, ← hgdm] at hor; omega
            · rw [List.all_eq_true] at hcan
              have := hcan a ha
              simp only [decide_eq_true_eq] at this
              omega
        · -- an attribute left is too large: nothing is converted
          simp only [hcan, Bool.false_eq_true, if_false, Prod.mk.injEq] at hsh
          obtain ⟨hg2, _⟩ := hsh
          have hn2 : f2.oh.nattrs = g.oh.nattrs := by rw [hoh, ← hg2]
          refine ⟨by rw [hn2]; omega, by rw [hn2]; exact hgl, fun hz => by omega,
            fun _ _ hall => ?_, fun _ _ => ?_⟩
          · exfalso
            apply hcan
            rw [List.all_eq_true]
            intro a ha
            simpa using hall a ha
          · rw [hoh, hde, hso, ← hg2]
            exact ⟨hga, hgm, hgs, hgd⟩
      · -- at least min_dense attributes left: the object stays dense
        have hc : ¬(g.oh.nattrs = 0 ∨ g.oh.nattrs < g.oh.min_dense) := by
          intro h; rcases h with h | h
          · exact h0 h
          · exact hlow h
        simp only [hc, if_false, Prod.mk.injEq] at hsh
        obtain ⟨hg2, _⟩ := hsh
        have hn2 : f2.oh.nattrs = g.oh.nattrs := by rw [hoh, ← hg2]
        refine ⟨by rw [hn2]; omega, by rw [hn2]; exact hgl, fun hz => by omega,
          fun _ hlt _ => ?_, fun _ _ => ?_⟩
        · exfalso; rw [hn2, ← hgdm] at hlt; exact hlow hlt
        · rw [hoh, hde, hso, ← hg2]
          exact ⟨hga, hgm, hgs, hgd⟩

/-- C11 at `demo_file_10_4` (six attributes in dense storage, `min_dense = 6`):
the remove of "attr4" leaves five, which go back into the header. -/

theorem C11_remove_dense_shift_witness :
    (demo_file_10_4.oh.attr_fheap_addr = some 4096 ∧
      demo_file_10_4.oh.nattrs = demo_file_10_4.dense.length ∧
      H5O_attr_remove demo_cfg demo_file_10_4 (demo_attr 4).name = (demo_file_10_5, none) ∧
      demo_file_10_5.oh.nattrs = 5 ∧ demo_file_10_4.oh.min_dense = 6) ∧
    (demo_file_10_5.oh.nattrs + 1 = demo_file_10_4.oh.nattrs ∧
    (dense_left demo_file_10_4 (demo_attr 4).name).length = demo_file_10_5.oh.nattrs ∧
    (demo_file_10_5.oh.nattrs = 0 →
      demo_file_10_5.oh.attr_fheap_addr = none ∧ demo_file_10_5.oh.name_bt2_addr = none ∧
      demo_file_10_5.dense = [] ∧
      demo_file_10_5.oh.mesg = demo_file_10_4.oh.mesg ∧
      demo_file_10_5.sohm = demo_file_10_4.sohm) ∧
    (0 < demo_file_10_5.oh.nattrs → demo_file_10_5.oh.nattrs < demo_file_10_4.oh.min_dense →
      (∀ a ∈ dense_left demo_file_10_4 (demo_attr 4).name,
        demo_cfg.mesg_size a < demo_cfg.H5O_MESG_MAX_SIZE) →
      demo_file_10_5.oh.attr_fheap_addr = none ∧ demo_file_10_5.oh.name_bt2_addr = none ∧
      demo_file_10_5.dense = [] ∧
      ∃ msgs, demo_file_10_5.oh.mesg = demo_file_10_4.oh.mesg ++ msgs ∧
        List.Forall₂ (mesg_holds demo_file_10_5) msgs
          (dense_left demo_file_10_4 (demo_attr 4).name)) ∧
    (0 < demo_file_10_5.oh.nattrs →
      (demo_file_10_4.oh.min_dense ≤ demo_file_10_5.oh.nattrs ∨
        ∃ a ∈ dense_left demo_file_10_4 (demo_attr 4).name,
          demo_cfg.H5O_MESG_MAX_SIZE ≤ demo_cfg.mesg_size a) →
      demo_file_10_5.oh.attr_fheap_addr = some 4096 ∧
      demo_file_10_5.oh.mesg = demo_file_10_4.oh.mesg ∧
      demo_file_10_5.sohm = demo_file_10_4.sohm ∧
      demo_file_10_5.dense.map (fun r => r.attr) =
        dense_left demo_file_10_4 (demo_attr 4).name)) :=
  ⟨⟨by decide, by decide, by decide, by decide, by decide⟩,
    C11_remove_dense_shift demo_cfg demo_file_10_4 demo_file_10_5 (demo_attr 4).name 4096
      (by decide) (by decide) (by decide) (by decide)⟩

theorem write_cb_shared_match (cfg : Config) (f : H5F_t) (idx : Nat) (mesg : H5O_mesg_t)
    (oh_flags : Bool) (attr sa : H5A_t) (found : Bool)
    (hs : mesg.shared = true) (hr : H5O_shared_read f mesg.native = some sa)
    (hn : sa.name = attr.name) :
    (H5O_attr_write_cb cfg f idx mesg oh_flags (attr, found)).2.2.2 = H5_iter.ERROR ∨
    ((H5O_attr_write_cb cfg f idx mesg oh_flags (attr, found)).2.2.2 = H5_iter.STOP ∧
      (H5O_attr_write_cb cfg f idx mesg oh_flags (attr, found)).2.2.1.2 = true) := by
  simp only [H5O_attr_write_cb, hs, if_true, hr, hn]
  rcases H5O_attr_update_shared cfg f attr mesg.native with ⟨f2, attr2, e⟩
  cases e with
  | some e => exact Or.inl rfl
  | none =>
    simp only
    cases H5O_attr_get_share attr2 with
    | none => exact Or.inl rfl
    | some sh => exact Or.inr ⟨rfl, rfl⟩

theorem write_iterate_scan (cfg : Config) (attr : H5A_t) (fuel : Nat) :
    ∀ (pre post : List H5O_mesg_t) (f : H5F_t) (oh_flags : Bool),
      f.oh.mesg = pre ++ post → post.length ≤ fuel →
      (∀ as, compact_attrs f post = some as → (∀ a ∈ as, a.name ≠ attr.name) →
        H5O_msg_iterate_real (H5O_attr_write_cb cfg) fuel pre.length f oh_flags (attr, false) =
          (f, oh_flags, (attr, false), H5_iter.CONT)) ∧
      ((H5O_msg_iterate_real (H5O_attr_write_cb cfg) fuel pre.length f oh_flags
            (attr, false)).2.2.2 ≠ H5_iter.ERROR →
        (H5O_msg_iterate_real (H5O_attr_write_cb cfg) fuel pre.length f oh_flags
            (attr, false)).2.2.1.2 = false →
        ∃ as, compact_attrs f post = some as ∧ ∀ a ∈ as, a.name ≠ attr.name) := by
  induction fuel with
  | zero =>
    intro pre post f oh_flags hm hlen
    have hp : post = [] := List.length_eq_zero.1 (by omega)
    subst hp
    simp [H5O_msg_iterate_real, compact_attrs]
  | succ k ih =>
    intro pre post f oh_flags hm hlen
    cases post with
    | nil => simp [H5O_msg_iterate_real, hm, compact_attrs]
    | cons m post =>
      have hlen2 : (pre ++ [m]).length = pre.length + 1 := by simp
      have ihr := ih (pre ++ [m]) post f oh_flags (by rw [hm]; simp) (by simpa using hlen)
      rw [hlen2] at ihr
      simp only [H5O_msg_iterate_real, hm, getElem?_at_length]
      by_cases ht : m.type = H5O_msg_class_t.H5O_MSG_ATTR
      · simp only [ht, if_true, compact_attrs]
        by_cases hs : m.shared = true
        · cases hrd : H5O_shared_read f m.native with
          | none =>
            have hma : mesg_attr f m = none := by simp [mesg_attr, hs, hrd]
            simp [H5O_attr_write_cb, hs, hrd, hma]
          | some sa =>
            have hma : mesg_attr f m = some sa := by simp [mesg_attr, hs, hrd]
            by_cases hn : sa.name = attr.name
            · have hcb := write_cb_shared_match cfg f pre.length m oh_flags attr sa false hs hrd hn
              rcases hres : H5O_attr_write_cb cfg f pre.length m oh_flags (attr, false)
                with ⟨g, fl, ⟨at2, fd⟩, st⟩
              rw [hres] at hcb
              simp only at hcb
              constructor
              · intro as hca hall
                rw [hma] at hca
                cases hrest : compact_attrs f post with
                | none => simp [hrest] at hca
                | some rest =>
                  simp only [hrest, Option.some.injEq] at hca
                  subst hca
                  exact absurd hn (hall sa (by simp))
              · rcases hcb with h1 | ⟨h1, h2⟩
                · subst h1
                  intro h; exact absurd rfl h
                · subst h1; subst h2
                  intro _ h; simp at h
            · simp only [H5O_attr_write_cb, hs, if_true, hrd, hn, if_false, hma]
              obtain ⟨i1, i2⟩ := ihr
              constructor
              · intro as hca hall
                cases hrest : compact_attrs f post with
                | none => simp [hrest] at hca
                | some rest =>
                  simp only [hrest, Option.some.injEq] at hca
                  subst hca
                  exact i1 rest hrest (fun a ha => hall a (by simp [ha]))
              · intro h1 h2
                obtain ⟨rest, e1, e2⟩ := i2 h1 h2
                refine ⟨sa :: rest, by simp [e1], ?_⟩
                intro a ha
                simp at ha
                rcases ha with ha | ha
                · subst ha; exact hn
                · exact e2 a ha
        · have hs2 : m.shared = false := by simpa using hs
          cases hnat : m.native with
          | attr a =>
            have hma : mesg_attr f m = some a := by simp [mesg_attr, hs2, hnat]
            by_cases hn : a.name = attr.name
            · simp only [H5O_attr_write_cb, hs2, Bool.false_eq_true, if_false, hnat, hn, if_true,
                hma]
              constructor
              · intro as hca hall
                cases hrest : compact_attrs f post with
                | none => simp [hrest] at hca
                | some rest =>
                  simp only [hrest, Option.some.injEq] at hca
                  subst hca
                  exact absurd hn (hall a (by simp))
              · intro _ h; simp at h
            · simp only [H5O_attr_write_cb, hs2, Bool.false_eq_true, if_false, hnat, hn, hma]
              obtain ⟨i1, i2⟩ := ihr
              constructor
              · intro as hca hall
                cases hrest : compact_attrs f post with
                | none => simp [hrest] at hca
                | some rest =>
                  simp only [hrest, Option.some.injEq] at hca
                  subst hca
                  exact i1 rest hrest (fun a ha => hall a (by simp [ha]))
              · intro h1 h2
                obtain ⟨rest, e1, e2⟩ := i2 h1 h2
                refine ⟨a :: rest, by simp [e1], ?_⟩
                intro b hb
                simp at hb
                rcases hb with hb | hb
                · subst hb; exact hn
                · exact e2 b hb
          | shared sh =>
            have hma : mesg_attr f m = none := by simp [mesg_attr, hs2, hnat]
            simp [H5O_attr_write_cb, hs2, hnat, hma]
          | null =>
            have hma : mesg_attr f m = none := by simp [mesg_attr, hs2, hnat]
            simp [H5O_attr_write_cb, hs2, hnat, hma]
      · simp only [ht, if_false, compact_attrs]
        exact ihr

theorem compact_attrs_congr (f g : H5F_t) (h : f.sohm = g.sohm) :
    ∀ ms, compact_attrs f ms = compact_attrs g ms := by
  intro ms
  induction ms with
  | nil => rfl
  | cons m rest ih => simp only [compact_attrs, ih, mesg_attr_congr f g h m]

theorem write_cb_cont (cfg : Config) (f : H5F_t) (idx : Nat) (m : H5O_mesg_t)
    (oh_flags : Bool) (attr a : H5A_t) (found : Bool)
    (ha : mesg_attr f m = some a) (hn : a.name ≠ attr.name) :
    H5O_attr_write_cb cfg f idx m oh_flags (attr, found) =
      (f, oh_flags, (attr, found), H5_iter.CONT) := by
  by_cases hs : m.shared = true
  · have hrd : H5O_shared_read f m.native = some a := by simpa [mesg_attr, hs] using ha
    simp only [H5O_attr_write_cb, hs, if_true, hrd, hn, if_false]
  · have hs2 : m.shared = false := by simpa using hs
    cases hnat : m.native with
    | attr b =>
      have hb : b = a := by simpa [mesg_attr, hs2, hnat] using ha
      subst hb
      simp only [H5O_attr_write_cb, hs2, Bool.false_eq_true, if_false, hnat, hn]
    | shared sh => simp [mesg_attr, hs2, hnat] at ha
    | null => simp [mesg_attr, hs2, hnat] at ha

theorem write_iterate_skip (cfg : Config) (attr : H5A_t) (f : H5F_t) (oh_flags : Bool)
    (k : Nat) :
    ∀ (pre done rest : List H5O_mesg_t) (pas : List H5A_t),
      f.oh.mesg = done ++ (pre ++ rest) → compact_attrs f pre = some pas →
      (∀ a ∈ pas, a.name ≠ attr.name) →
      H5O_msg_iterate_real (H5O_attr_write_cb cfg) (pre.length + k) done.length f oh_flags
          (attr, false) =
        H5O_msg_iterate_real (H5O_attr_write_cb cfg) k (done ++ pre).length f oh_flags
          (attr, false) := by
  intro pre
  induction pre with
  | nil =>
    intro done rest pas _ _ _
    simp
  | cons m pre ih =>
    intro done rest pas hm hca hall
    have hfuel : (m :: pre).length + k = (pre.length + k) + 1 := by simp; omega
    have hm2 : f.oh.mesg = done ++ m :: (pre ++ rest) := by rw [hm]; simp
    have hlen2 : (done ++ [m]).length = done.length + 1 := by simp
    have hm3 : f.oh.mesg = (done ++ [m]) ++ (pre ++ rest) := by rw [hm]; simp
    have hd : done ++ m :: pre = (done ++ [m]) ++ pre := by simp
    rw [hfuel, hd]
    simp only [H5O_msg_iterate_real, hm2, getElem?_at_length]
    simp only [compact_attrs] at hca
    by_cases ht : m.type = H5O_msg_class_t.H5O_MSG_ATTR
    · simp only [ht, if_true] at hca ⊢
      cases hma : mesg_attr f m with
      | none => simp [hma] at hca
      | some a =>
        cases hrest : compact_attrs f pre with
        | none => simp [hma, hrest] at hca
        | some ras =>
          simp only [hma, hrest, Option.some.injEq] at hca
          subst hca
          rw [write_cb_cont cfg f done.length m oh_flags attr a false hma (hall a (by simp))]
          simp only
          rw [← hlen2]
          exact ih (done ++ [m]) rest ras hm3 hrest (fun b hb => hall b (by simp [hb]))
    · simp only [ht, if_false] at hca ⊢
      rw [← hlen2]
      exact ih (done ++ [m]) rest pas hm3 hca hall

theorem memcpy_all (room d : List Nat) (n : Nat) (h1 : d.length = n) (h2 : room.length ≤ n) :
    HDmemcpy room d n = d := by
  unfold HDmemcpy
  rw [List.take_of_length_le (by omega), List.drop_of_length_le h2, List.append_nil]

/-- C18 (`H5O_attr_write`, `H5O_attr_write_cb`), compact storage.  The call
fails with "not found" exactly when every attribute message of the header can
be read (shared ones through the shared message storage) and none of the
attributes has the name of `attr`; the header is then as it was.  When the
first attribute message with that name is an unshared one, the call succeeds:
`attr->data_size` bytes of `attr->data` are copied over the data of that
message (into a block of `attr->data_size` bytes when it had none), which
leaves exactly `attr`'s data when the old data is not longer than that; the
message is marked dirty, every other message, `nattrs`, the dense storage and
the shared message storage stay as they were, and the header is released as
modified. -/

theorem C18_compact_write (cfg : Config) (f : H5F_t) (attr : H5A_t)
    (hc : f.oh.attr_fheap_addr = none) :
    ((H5O_attr_write cfg f attr).2 = some H5E.NOTFOUND ↔
      ∃ as, compact_attrs f f.oh.mesg = some as ∧ ∀ a ∈ as, a.name ≠ attr.name) ∧
    ((H5O_attr_write cfg f attr).2 = some H5E.NOTFOUND →
      (H5O_attr_write cfg f attr).1.oh = f.oh) ∧
    (∀ pre m post a pas, f.oh.mesg = pre ++ m :: post →
      compact_attrs f pre = some pas → (∀ b ∈ pas, b.name ≠ attr.name) →
      m.type = H5O_msg_class_t.H5O_MSG_ATTR → m.shared = false → m.native = Native.attr a →
      a.name = attr.name →
      (H5O_attr_write cfg f attr).2 = none ∧
      (∃ m1 a1, (H5O_attr_write cfg f attr).1.oh.mesg = pre ++ m1 :: post ∧
        m1.type = m.type ∧ m1.shared = m.shared ∧ m1.dirty = true ∧
        m1.native = Native.attr a1 ∧ a1.name = a.name ∧ a1.data_size = a.data_size ∧
        a1.sh_loc = a.sh_loc ∧
        a1.data = some (HDmemcpy (a.data.getD (List.replicate attr.data_size 0))
          (attr.data.getD []) attr.data_size)) ∧
      (∀ d, attr.data = some d → d.length = attr.data_size →
        (∀ old, a.data = some old → old.length ≤ attr.data_size) →
        HDmemcpy (a.data.getD (List.replicate attr.data_size 0)) (attr.data.getD [])
          attr.data_size = d) ∧
      (H5O_attr_write cfg f attr).1.oh.nattrs = f.oh.nattrs ∧
      (H5O_attr_write cfg f attr).1.dense = f.dense ∧
      (H5O_attr_write cfg f attr).1.sohm = f.sohm ∧
      (H5O_attr_write cfg f attr).1.log =
        f.log ++ [Event.protect true, Event.unprotect true]) := by
  have hc1 : H5F_addr_defined (H5AC_protect f true).oh.attr_fheap_addr = false := by
    simp [H5AC_protect, H5F_addr_defined, hc]
  have hca : ∀ ms, compact_attrs (H5AC_protect f true) ms = compact_attrs f ms :=
    compact_attrs_congr _ _ rfl
  have hscan := write_iterate_scan cfg attr (H5AC_protect f true).oh.mesg.length []
    (H5AC_protect f true).oh.mesg (H5AC_protect f true) false (by simp) (le_refl _)
  simp only [List.length_nil, hca] at hscan
  obtain ⟨sc1, sc2⟩ := hscan
  have hmesg : (H5AC_protect f true).oh.mesg = f.oh.mesg := rfl
  refine ⟨⟨?_, ?_⟩, ?_, ?_⟩
  · intro h
    simp only [H5O_attr_write, hc1, Bool.false_eq_true, if_false] at h
    rcases hit : H5O_msg_iterate_real (H5O_attr_write_cb cfg)
      (H5AC_protect f true).oh.mesg.length 0 (H5AC_protect f true) false (attr, false)
      with ⟨g, fl, ⟨at2, fd⟩, st⟩
    rw [hit] at h sc2
    rw [← hmesg]
    cases st <;> cases fd <;> simp at h
    · exact sc2 (by simp) rfl
    · exact sc2 (by simp) rfl
  · rintro ⟨as, h1, h2⟩
    have := sc1 as (by rw [hmesg]; exact h1) h2
    simp only [H5O_attr_write, hc1, Bool.false_eq_true, if_false, this]
  · intro h
    simp only [H5O_attr_write, hc1, Bool.false_eq_true, if_false] at h ⊢
    rcases hit : H5O_msg_iterate_real (H5O_attr_write_cb cfg)
      (H5AC_protect f true).oh.mesg.length 0 (H5AC_protect f true) false (attr, false)
      with ⟨g, fl, ⟨at2, fd⟩, st⟩
    rw [hit] at h sc2
    have hex : ∃ as, compact_attrs f (H5AC_protect f true).oh.mesg = some as ∧
        ∀ a ∈ as, a.name ≠ attr.name := by
      cases st <;> cases fd <;> simp at h
      · exact sc2 (by simp) rfl
      · exact sc2 (by simp) rfl
    obtain ⟨as, h1, h2⟩ := hex
    have hres := sc1 as h1 h2
    rw [hit] at hres
    simp only [Prod.mk.injEq] at hres
    obtain ⟨e1, e2, e3, e4⟩ := hres
    subst e1; subst e4
    obtain ⟨_, e5⟩ := e3
    subst e5
    rfl
  · intro pre m post a pas hm hpre hall ht hs hnat hn
    have hlenf : (H5AC_protect f true).oh.mesg.length = pre.length + (post.length + 1) := by
      rw [hmesg, hm]; simp
    have hskip := write_iterate_skip cfg attr (H5AC_protect f true) false (post.length + 1)
      pre [] (m :: post) pas (by rw [hmesg, hm]; simp) (by rw [hca]; exact hpre) hall
    simp only [List.length_nil, List.nil_append] at hskip
    have hstep : H5O_msg_iterate_real (H5O_attr_write_cb cfg) (post.length + 1) pre.length
        (H5AC_protect f true) false (attr, false) =
        (set_mesg (H5AC_protect f true) pre.length (fun m => { m with native := Native.attr { a with data := some (HDmemcpy (a.data.getD (List.replicate attr.data_size 0)) (attr.data.getD []) attr.data_size) }, dirty := true }),
          true, (attr, true), H5_iter.STOP) := by
      simp only [H5O_msg_iterate_real, hmesg, hm, getElem?_at_length, ht, if_true,
        H5O_attr_write_cb, hs, Bool.false_eq_true, if_false, hnat, hn]
    have hwr : H5O_attr_write cfg f attr =
        (H5AC_unprotect (set_mesg (H5AC_protect f true) pre.length (fun m => { m with native := Native.attr { a with data := some (HDmemcpy (a.data.getD (List.replicate attr.data_size 0)) (attr.data.getD []) attr.data_size) }, dirty := true }))
          (H5O_touch_oh cfg true), none) := by
      simp only [H5O_attr_write, hc1, Bool.false_eq_true, if_false, hlenf, hskip, hstep]
    rw [hwr]
    refine ⟨rfl, ⟨{ m with native := Native.attr { a with data := some (HDmemcpy (a.data.getD (List.replicate attr.data_size 0)) (attr.data.getD []) attr.data_size) }, dirty := true },
      { a with data := some (HDmemcpy (a.data.getD (List.replicate attr.data_size 0)) (attr.data.getD []) attr.data_size) },
      ?_, rfl, rfl, rfl, rfl, rfl, rfl, rfl, rfl⟩, ?_, rfl, rfl, rfl, ?_⟩
    · simp only [H5AC_unprotect, set_mesg, hmesg, hm, modify_at_length]
    · intro d hd hdl hold
      rw [hd]
      apply memcpy_all _ _ _ hdl
      cases hda : a.data with
      | none => simp
      | some old => simpa using hold old hda
    · simp [H5AC_unprotect, set_mesg, H5AC_protect, H5O_touch_oh]

/-- C18 at `c18_file`: a write to the absent "attr5" is refused as not found,
and the write of `[7, 8, 9, 10]` to "attr1" changes the data of the second
message, which becomes dirty, and nothing else. -/

theorem C18_compact_write_witness :
    c18_file.oh.attr_fheap_addr = none ∧
    (H5O_attr_write demo_cfg c18_file (demo_attr 5)).2 = some H5E.NOTFOUND ∧
    (H5O_attr_write demo_cfg c18_file (demo_attr 5)).1.oh = c18_file.oh ∧
    ((H5O_attr_write demo_cfg c18_file c18_attr).2 = none ∧
      (∃ m1 a1, (H5O_attr_write demo_cfg c18_file c18_attr).1.oh.mesg =
          [clean_mesg (demo_attr 0)] ++ m1 :: [clean_mesg (demo_attr 2)] ∧
        m1.type = (clean_mesg (demo_attr 1)).type ∧
        m1.shared = (clean_mesg (demo_attr 1)).shared ∧ m1.dirty = true ∧
        m1.native = Native.attr a1 ∧ a1.name = (demo_attr 1).name ∧
        a1.data_size = (demo_attr 1).data_size ∧ a1.sh_loc = (demo_attr 1).sh_loc ∧
        a1.data = some (HDmemcpy ((demo_attr 1).data.getD (List.replicate c18_attr.data_size 0))
          (c18_attr.data.getD []) c18_attr.data_size)) ∧
      (∀ d, c18_attr.data = some d → d.length = c18_attr.data_size →
        (∀ old, (demo_attr 1).data = some old → old.length ≤ c18_attr.data_size) →
        HDmemcpy ((demo_attr 1).data.getD (List.replicate c18_attr.data_size 0))
          (c18_attr.data.getD []) c18_attr.data_size = d) ∧
      (H5O_attr_write demo_cfg c18_file c18_attr).1.oh.nattrs = c18_file.oh.nattrs ∧
      (H5O_attr_write demo_cfg c18_file c18_attr).1.dense = c18_file.dense ∧
      (H5O_attr_write demo_cfg c18_file c18_attr).1.sohm = c18_file.sohm ∧
      (H5O_attr_write demo_cfg c18_file c18_attr).1.log =
        c18_file.log ++ [Event.protect true, Event.unprotect true]) ∧
    (H5O_attr_write demo_cfg c18_file c18_attr).1.oh.mesg =
      [clean_mesg (demo_attr 0),
        { type := H5O_msg_class_t.H5O_MSG_ATTR, shared := false, native := Native.attr c18_attr, dirty := true },
        clean_mesg (demo_attr 2)] :=
  ⟨by decide,
    (C18_compact_write demo_cfg c18_file (demo_attr 5) (by decide)).1.2
      ⟨[demo_attr 0, demo_attr 1, demo_attr 2], by decide, by decide⟩,
    (C18_compact_write demo_cfg c18_file (demo_attr 5) (by decide)).2.1
      ((C18_compact_write demo_cfg c18_file (demo_attr 5) (by decide)).1.2
        ⟨[demo_attr 0, demo_attr 1, demo_attr 2], by decide, by decide⟩),
    (C18_compact_write demo_cfg c18_file c18_attr (by decide)).2.2
      [clean_mesg (demo_attr 0)] (clean_mesg (demo_attr 1)) [clean_mesg (demo_attr 2)]
      (demo_attr 1) [demo_attr 0] (by decide) (by decide) (by decide) (by decide) (by decide)
      (by decide) (by decide),
    by decide⟩

theorem strcmp_cons (x y : Nat) (xs ys : List Nat) :
    HDstrcmp (x :: xs) (y :: ys) =
      if x < y then Ordering.lt else if y < x then Ordering.gt else HDstrcmp xs ys := rfl

theorem strcmp_total : ∀ (a b : List Nat),
    HDstrcmp a b ≠ Ordering.gt ∨ HDstrcmp b a ≠ Ordering.gt := by
  intro a
  induction a with
  | nil => intro b; cases b <;> simp [HDstrcmp]
  | cons x xs ih =>
    intro b
    cases b with
    | nil => simp [HDstrcmp]
    | cons y ys =>
      rw [strcmp_cons, strcmp_cons]
      rcases Nat.lt_trichotomy x y with h | h | h
      · left; simp [h]
      · subst h; simpa using ih ys
      · right; simp [h]

theorem strcmp_trans : ∀ (a b c : List Nat),
    HDstrcmp a b ≠ Ordering.gt → HDstrcmp b c ≠ Ordering.gt → HDstrcmp a c ≠ Ordering.gt := by
  intro a
  induction a with
  | nil => intro b c _ _; cases c <;> simp [HDstrcmp]
  | cons x xs ih =>
    intro b c h1 h2
    cases b with
    | nil => simp [HDstrcmp] at h1
    | cons y ys =>
      cases c with
      | nil => simp [HDstrcmp] at h2
      | cons z zs =>
        rw [strcmp_cons] at h1 h2 ⊢
        by_cases hxy : x < y
        · by_cases hyz : y < z
          · have : x < z := by omega
            simp [this]
          · by_cases hzy : z < y
            · simp [hyz, hzy] at h2
            · have : x < z := by omega
              simp [this]
        · by_cases hyx : y < x
          · simp [hxy, hyx] at h1
          · have hxy2 : x = y := by omega
            subst hxy2
            simp only [hxy, if_false] at h1
            by_cases hyz : x < z
            · simp [hyz]
            · by_cases hzy : z < x
              · simp [hyz, hzy] at h2
              · simp only [hyz, hzy, if_false] at h2 ⊢
                exact ih ys zs h1 h2

theorem table_sorted (attrs : List H5A_t) :
    List.Sorted name_le (attrs.insertionSort name_le) := by
  haveI : IsTotal H5A_t name_le := ⟨fun a b => strcmp_total a.name b.name⟩
  haveI : IsTrans H5A_t name_le :=
    ⟨fun a b c h1 h2 => strcmp_trans a.name b.name c.name h1 h2⟩
  exact List.sorted_insertionSort name_le attrs

theorem iterate_table_spec (op : H5A_t → H5_iter) :
    ∀ (table : List H5A_t),
      (H5A_attr_iterate_table op table).2 <+: table ∧
      (∀ a ∈ (H5A_attr_iterate_table op table).2.dropLast, op a = H5_iter.CONT) ∧
      ((H5A_attr_iterate_table op table).1 = H5_iter.CONT →
        (H5A_attr_iterate_table op table).2 = table ∧ ∀ a ∈ table, op a = H5_iter.CONT) ∧
      ((H5A_attr_iterate_table op table).1 ≠ H5_iter.CONT →
        ∃ a, (H5A_attr_iterate_table op table).2.getLast? = some a ∧
          op a = (H5A_attr_iterate_table op table).1) := by
  intro table
  induction table with
  | nil => simp [H5A_attr_iterate_table]
  | cons a rest ih =>
    obtain ⟨i1, i2, i3, i4⟩ := ih
    cases hop : op a with
    | CONT =>
      simp only [H5A_attr_iterate_table, hop]
      refine ⟨?_, ?_, ?_, ?_⟩
      · exact (List.prefix_cons_inj a).2 i1
      · intro b hb
        cases hr : (H5A_attr_iterate_table op rest).2 with
        | nil => simp [hr] at hb
        | cons c cs =>
          rw [hr, List.dropLast_cons₂] at hb
          rcases List.mem_cons.1 hb with h | h
          · rw [h]; exact hop
          · exact i2 b (by rw [hr]; exact h)
      · intro h
        obtain ⟨e1, e2⟩ := i3 h
        refine ⟨by rw [e1], ?_⟩
        intro b hb
        rcases List.mem_cons.1 hb with h | h
        · rw [h]; exact hop
        · exact e2 b h
      · intro h
        obtain ⟨b, e1, e2⟩ := i4 h
        refine ⟨b, ?_, e2⟩
        cases hr : (H5A_attr_iterate_table op rest).2 with
        | nil => simp [hr] at e1
        | cons c cs =>
          rw [hr] at e1
          rw [List.getLast?_cons_cons]
          exact e1
    | STOP =>
      simp only [H5A_attr_iterate_table, hop]
      refine ⟨by simp, by simp, by simp, fun _ => ⟨a, by simp, hop⟩⟩
    | ERROR =>
      simp only [H5A_attr_iterate_table, hop]
      refine ⟨by simp, by simp, by simp, fun _ => ⟨a, by simp, hop⟩⟩

/-- C19 (`H5O_attr_iterate`, lines 1118-1138), compact storage.  The call fails
with the "invalid index" error exactly when the table of attributes can be
built and `skip > 0` and `skip >= n`, `n` being the number of attributes of the
table; the operator plays no part then.  With `skip = 0` or `skip < n` the
result is that of the walk over the table from position `skip`: the table
holds the attributes of the header in increasing name order, the attributes
the operator is called on are the entries from position `skip` on, in order,
up to the first one for which the operator does not return "continue" (all of
them when it always does), and the call fails only when the operator returns
an error. -/

theorem C19_compact_iterate (cfg : Config) (f : H5F_t) (skip : Nat) (op : H5A_t → H5_iter)
    (hc : ¬(cfg.H5O_VERSION_1 < f.oh.version ∧
      H5F_addr_defined f.oh.attr_fheap_addr = true)) :
    ((H5O_attr_iterate cfg f skip op).2 = Except.error H5E.BADVALUE ↔
      ∃ attrs, compact_attrs f f.oh.mesg = some attrs ∧ 0 < skip ∧ attrs.length ≤ skip) ∧
    (∀ attrs, compact_attrs f f.oh.mesg = some attrs →
      ∃ table, List.Perm table attrs ∧ List.Sorted name_le table ∧
        (0 < skip → attrs.length ≤ skip →
          ∀ op2, (H5O_attr_iterate cfg f skip op2).2 = Except.error H5E.BADVALUE) ∧
        ((skip = 0 ∨ skip < attrs.length) →
          (H5O_attr_iterate cfg f skip op).2 =
            (if (H5A_attr_iterate_table op (table.drop skip)).1 = H5_iter.ERROR then
              Except.error H5E.CANTNEXT
            else Except.ok (H5A_attr_iterate_table op (table.drop skip))) ∧
          (H5A_attr_iterate_table op (table.drop skip)).2 <+: table.drop skip ∧
          (∀ a ∈ (H5A_attr_iterate_table op (table.drop skip)).2.dropLast,
            op a = H5_iter.CONT) ∧
          ((H5A_attr_iterate_table op (table.drop skip)).1 = H5_iter.CONT →
            (H5A_attr_iterate_table op (table.drop skip)).2 = table.drop skip) ∧
          ((H5A_attr_iterate_table op (table.drop skip)).1 ≠ H5_iter.CONT →
            ∃ a, (H5A_attr_iterate_table op (table.drop skip)).2.getLast? = some a ∧
              op a = (H5A_attr_iterate_table op (table.drop skip)).1))) := by
  have hc1 : ¬(cfg.H5O_VERSION_1 < (H5AC_protect f false).oh.version ∧
      H5F_addr_defined (H5AC_protect f false).oh.attr_fheap_addr = true) := hc
  have hca : compact_attrs (H5AC_protect f false) (H5AC_protect f false).oh.mesg =
      compact_attrs f f.oh.mesg :=
    compact_attrs_congr (H5AC_protect f false) f rfl f.oh.mesg
  have hval : ∀ (o : H5A_t → H5_iter) (attrs : List H5A_t),
      compact_attrs f f.oh.mesg = some attrs →
      (H5O_attr_iterate cfg f skip o).2 =
        if 0 < skip ∧ attrs.length ≤ skip then Except.error H5E.BADVALUE
        else if (H5A_attr_iterate_table o ((attrs.insertionSort name_le).drop skip)).1 =
            H5_iter.ERROR then Except.error H5E.CANTNEXT
        else Except.ok (H5A_attr_iterate_table o ((attrs.insertionSort name_le).drop skip)) := by
    intro o attrs ha
    simp only [H5O_attr_iterate, hc1, if_false, H5A_compact_build_table, hca, ha,
      List.length_insertionSort]
    by_cases hs : 0 < skip ∧ attrs.length ≤ skip
    · simp only [hs, and_self, if_true]
    · simp only [hs, if_false]
      rcases H5A_attr_iterate_table o ((attrs.insertionSort name_le).drop skip) with ⟨st, v⟩
      cases st <;> simp
  constructor
  · constructor
    · intro h
      cases ha : compact_attrs f f.oh.mesg with
      | none =>
        simp [H5O_attr_iterate, hc1, H5A_compact_build_table, hca, ha] at h
      | some attrs =>
        refine ⟨attrs, rfl, ?_⟩
        rw [hval op attrs ha] at h
        by_cases hs : 0 < skip ∧ attrs.length ≤ skip
        · exact hs
        · simp only [hs, if_false] at h
          split_ifs at h
          simp at h
    · rintro ⟨attrs, ha, h1, h2⟩
      rw [hval op attrs ha]
      simp [h1, h2]
  · intro attrs ha
    refine ⟨attrs.insertionSort name_le, List.perm_insertionSort _ _, table_sorted attrs, ?_, ?_⟩
    · intro h1 h2 op2
      rw [hval op2 attrs ha]
      simp [h1, h2]
    · intro hs
      have hns : ¬(0 < skip ∧ attrs.length ≤ skip) := by omega
      obtain ⟨i1, i2, i3, i4⟩ := iterate_table_spec op ((attrs.insertionSort name_le).drop skip)
      refine ⟨?_, i1, i2, fun h => (i3 h).1, i4⟩
      rw [hval op attrs ha]
      simp only [hns, if_false]

/-- C19 at `c19_file`: `skip = 3` is refused as an invalid index, `skip = 1`
visits "attr1" and then "attr2", and with an operator that stops at "attr1"
`skip = 0` visits "attr0" and "attr1". -/

theorem C19_compact_iterate_witness :
    (H5O_attr_iterate demo_cfg c19_file 3 (fun _ => H5_iter.CONT)).2 =
      Except.error H5E.BADVALUE ∧
    (∃ table, List.Perm table [demo_attr 2, demo_attr 0, demo_attr 1] ∧
      List.Sorted name_le table ∧
      (0 < 1 → ([demo_attr 2, demo_attr 0, demo_attr 1] : List H5A_t).length ≤ 1 →
        ∀ op2, (H5O_attr_iterate demo_cfg c19_file 1 op2).2 = Except.error H5E.BADVALUE) ∧
      ((1 = 0 ∨ 1 < ([demo_attr 2, demo_attr 0, demo_attr 1] : List H5A_t).length) →
        (H5O_attr_iterate demo_cfg c19_file 1 (fun _ => H5_iter.CONT)).2 =
          (if (H5A_attr_iterate_table (fun _ => H5_iter.CONT) (table.drop 1)).1 =
              H5_iter.ERROR then
            Except.error H5E.CANTNEXT
          else Except.ok (H5A_attr_iterate_table (fun _ => H5_iter.CONT) (table.drop 1))) ∧
        (H5A_attr_iterate_table (fun _ => H5_iter.CONT) (table.drop 1)).2 <+: table.drop 1 ∧
        (∀ a ∈ (H5A_attr_iterate_table (fun _ => H5_iter.CONT) (table.drop 1)).2.dropLast,
          (fun _ => H5_iter.CONT) a = H5_iter.CONT) ∧
        ((H5A_attr_iterate_table (fun _ => H5_iter.CONT) (table.drop 1)).1 = H5_iter.CONT →
          (H5A_attr_iterate_table (fun _ => H5_iter.CONT) (table.drop 1)).2 = table.drop 1) ∧
        ((H5A_attr_iterate_table (fun _ => H5_iter.CONT) (table.drop 1)).1 ≠ H5_iter.CONT →
          ∃ a, (H5A_attr_iterate_table (fun _ => H5_iter.CONT) (table.drop 1)).2.getLast? =
              some a ∧
            (fun _ => H5_iter.CONT) a =
              (H5A_attr_iterate_table (fun _ => H5_iter.CONT) (table.drop 1)).1))) ∧
    (H5O_attr_iterate demo_cfg c19_file 1 (fun _ => H5_iter.CONT)).2 =
      Except.ok (H5_iter.CONT, [demo_attr 1, demo_attr 2]) ∧
    (H5O_attr_iterate demo_cfg c19_file 0 c19_op).2 =
      Except.ok (H5_iter.STOP, [demo_attr 0, demo_attr 1]) :=
  ⟨(C19_compact_iterate demo_cfg c19_file 3 (fun _ => H5_iter.CONT) (by decide)).1.2
      ⟨[demo_attr 2, demo_attr 0, demo_attr 1], by decide, by decide, by decide⟩,
    (C19_compact_iterate demo_cfg c19_file 1 (fun _ => H5_iter.CONT) (by decide)).2
      [demo_attr 2, demo_attr 0, demo_attr 1] (by decide),
    rfl, rfl⟩

/-- A walk whose callback changes nothing when it returns continue either
leaves everything as it is or ends with one call of the callback, on the
file as it was. -/

theorem iterate_cases {U : Type}
    (op : H5F_t → Nat → H5O_mesg_t → Bool → U → H5F_t × Bool × U × H5_iter)
    (hcont : ∀ f idx mesg fl u, (op f idx mesg fl u).2.2.2 = H5_iter.CONT →
      op f idx mesg fl u = (f, fl, u, H5_iter.CONT)) :
    ∀ (fuel idx : Nat) (f : H5F_t) (fl : Bool) (u : U),
      H5O_msg_iterate_real op fuel idx f fl u = (f, fl, u, H5_iter.CONT) ∨
      ∃ i mesg, f.oh.mesg[i]? = some mesg ∧ mesg.type = H5O_msg_class_t.H5O_MSG_ATTR ∧
        H5O_msg_iterate_real op fuel idx f fl u = op f i mesg fl u ∧
        (op f i mesg fl u).2.2.2 ≠ H5_iter.CONT := by
  intro fuel
  induction fuel with
  | zero => intro idx f fl u; left; rfl
  | succ k ih =>
    intro idx f fl u
    simp only [H5O_msg_iterate_real]
    cases hm : f.oh.mesg[idx]? with
    | none => left; rfl
    | some mesg =>
      simp only
      by_cases ht : mesg.type = H5O_msg_class_t.H5O_MSG_ATTR
      · rw [if_pos ht]
        rcases hop : op f idx mesg fl u with ⟨f2, fl2, u2, r⟩
        cases r with
        | CONT =>
          have := hcont f idx mesg fl u (by rw [hop])
          rw [hop] at this
          simp only [Prod.mk.injEq, and_true] at this
          obtain ⟨e1, e2, e3⟩ := this
          subst e1; subst e2; subst e3
          simp only
          exact ih (idx + 1) f2 fl2 u2
        | STOP =>
          right
          exact ⟨idx, mesg, hm, ht, by rw [hop], by rw [hop]; simp⟩
        | ERROR =>
          right
          exact ⟨idx, mesg, hm, ht, by rw [hop], by rw [hop]; simp⟩
      · rw [if_neg ht]
        exact ih (idx + 1) f fl u

/-- A property of the file that every call of the callback preserves holds
after the walk. -/

theorem iterate_inv {U : Type}
    (op : H5F_t → Nat → H5O_mesg_t → Bool → U → H5F_t × Bool × U × H5_iter)
    (P : H5F_t → Prop)
    (hop : ∀ f idx mesg fl u, P f → P (op f idx mesg fl u).1) :
    ∀ (fuel idx : Nat) (f : H5F_t) (fl : Bool) (u : U), P f →
      P (H5O_msg_iterate_real op fuel idx f fl u).1 := by
  intro fuel
  induction fuel with
  | zero => intro idx f fl u h; exact h
  | succ k ih =>
    intro idx f fl u h
    simp only [H5O_msg_iterate_real]
    cases hm : f.oh.mesg[idx]? with
    | none => exact h
    | some mesg =>
      simp only
      by_cases ht : mesg.type = H5O_msg_class_t.H5O_MSG_ATTR
      · rw [if_pos ht]
        have hp := hop f idx mesg fl u h
        rcases hopv : op f idx mesg fl u with ⟨f2, fl2, u2, r⟩
        rw [hopv] at hp
        cases r with
        | CONT => exact ih (idx + 1) f2 fl2 u2 hp
        | STOP => exact hp
        | ERROR => exact hp
      · rw [if_neg ht]
        exact ih (idx + 1) f fl u h

/-- A change in place that keeps the type of the message keeps the number of
attribute messages. -/

theorem filter_modify_same (g : H5O_mesg_t → H5O_mesg_t) (hg : ∀ m, (g m).type = m.type) :
    ∀ (xs : List H5O_mesg_t) (i : Nat),
      ((modify_nth g xs i).filter
        (fun m => decide (m.type = H5O_msg_class_t.H5O_MSG_ATTR))).length =
      (xs.filter (fun m => decide (m.type = H5O_msg_class_t.H5O_MSG_ATTR))).length := by
  intro xs
  induction xs with
  | nil => intro i; rfl
  | cons x rest ih =>
    intro i
    cases i with
    | zero =>
      simp only [modify_nth, List.filter_cons, hg]
      split_ifs <;> rfl
    | succ n =>
      simp only [modify_nth, List.filter_cons]
      split_ifs
      · simp only [List.length_cons, ih n]
      · exact ih n

/-- Releasing an attribute message takes one off the number of attribute
messages. -/

theorem filter_modify_null :
    ∀ (xs : List H5O_mesg_t) (i : Nat) (m : H5O_mesg_t), xs[i]? = some m →
      m.type = H5O_msg_class_t.H5O_MSG_ATTR →
      ((modify_nth (fun _ => null_mesg) xs i).filter
        (fun m => decide (m.type = H5O_msg_class_t.H5O_MSG_ATTR))).length + 1 =
      (xs.filter (fun m => decide (m.type = H5O_msg_class_t.H5O_MSG_ATTR))).length := by
  intro xs
  induction xs with
  | nil => intro i m h; simp at h
  | cons x rest ih =>
    intro i m h ht
    cases i with
    | zero =>
      simp only [List.getElem?_cons_zero, Option.some.injEq] at h
      subst h
      simp [modify_nth, List.filter_cons, ht, null_mesg]
    | succ n =>
      simp only [List.getElem?_cons_succ] at h
      simp only [modify_nth, List.filter_cons]
      split_ifs
      · simp only [List.length_cons]
        have := ih n m h ht
        omega
      · exact ih n m h ht

theorem attr_count_set_mesg (f : H5F_t) (i : Nat) (g : H5O_mesg_t → H5O_mesg_t)
    (hg : ∀ m, (g m).type = m.type) : attr_count (set_mesg f i g) = attr_count f := by
  simp only [attr_count, set_mesg]
  exact filter_modify_same g hg _ _

theorem attr_count_release (f : H5F_t) (i : Nat) (m : H5O_mesg_t) (h : f.oh.mesg[i]? = some m)
    (ht : m.type = H5O_msg_class_t.H5O_MSG_ATTR) :
    attr_count (H5O_release_mesg f i) + 1 = attr_count f := by
  simp only [attr_count, H5O_release_mesg]
  exact filter_modify_null _ _ m h ht

theorem modify_nth_getElem? {α : Type} (g : α → α) : ∀ (xs : List α) (i : Nat),
    (modify_nth g xs i)[i]? = (xs[i]?).map g := by
  intro xs
  induction xs with
  | nil => intro i; simp [modify_nth]
  | cons x rest ih =>
    intro i
    cases i with
    | zero => simp [modify_nth]
    | succ n => simp [modify_nth, ih n]

/-- `H5O_attr_update_shared` changes neither the object header nor the dense
storage. -/

theorem update_shared_frame (cfg : Config) (f : H5F_t) (a : H5A_t) (sh : Native) :
    (H5O_attr_update_shared cfg f a sh).1.oh = f.oh ∧
    (H5O_attr_update_shared cfg f a sh).1.dense = f.dense := by
  obtain ⟨h1, h2⟩ := try_share_frame cfg f a
  unfold H5O_attr_update_shared
  rcases hts : H5SM_try_share cfg f a with ⟨f1, a1, s⟩
  rw [hts] at h1 h2
  simp only at h1 h2 ⊢
  split_ifs with hs
  · exact ⟨h1, h2⟩
  · cases hr : H5SM_get_refcount f1 a1.sh_loc with
    | none => exact ⟨h1, h2⟩
    | some rc =>
      simp only
      have hl : (if rc = 1 then H5O_attr_link f1 a1 else f1).oh = f.oh ∧
          (if rc = 1 then H5O_attr_link f1 a1 else f1).dense = f.dense := by
        split_ifs
        · exact ⟨h1, h2⟩
        · exact ⟨h1, h2⟩
      generalize (if rc = 1 then H5O_attr_link f1 a1 else f1) = f2 at hl ⊢
      cases hd : H5SM_try_delete f2 sh with
      | none => exact hl
      | some f3 =>
        simp only
        unfold H5SM_try_delete at hd
        split at hd
        · split at hd
          · split_ifs at hd
            simp only [Option.some.injEq] at hd
            rw [← hd]
            exact hl
          · simp at hd
        · simp at hd

theorem same_refl (f : H5F_t) : SameCount f f := ⟨rfl, rfl, rfl, rfl, rfl⟩

theorem same_trans (f g h : H5F_t) (h1 : SameCount f g) (h2 : SameCount g h) : SameCount f h := by
  obtain ⟨a1, a2, a3, a4, a5⟩ := h1
  obtain ⟨b1, b2, b3, b4, b5⟩ := h2
  exact ⟨b1.trans a1, b2.trans a2, b3.trans a3, b4.trans a4, b5.trans a5⟩

theorem same_of_frame (f g : H5F_t) (h1 : g.oh = f.oh) (h2 : g.dense = f.dense) :
    SameCount f g := by
  refine ⟨by rw [h1], by rw [h1], by rw [h1], ?_, by rw [h2]⟩
  simp only [attr_count, h1]

theorem same_set_mesg (f : H5F_t) (i : Nat) (g : H5O_mesg_t → H5O_mesg_t)
    (hg : ∀ m, (g m).type = m.type) : SameCount f (set_mesg f i g) :=
  ⟨rfl, rfl, rfl, attr_count_set_mesg f i g hg, rfl⟩

theorem live_count_same (f g : H5F_t) (h : SameCount f g) : live_count g = live_count f := by
  obtain ⟨_, _, a3, a4, a5⟩ := h
  have hl : g.dense.length = f.dense.length := by
    have := congrArg List.length a5
    simpa using this
  simp only [live_count, a3, a4, hl]

theorem counted_same (cfg : Config) (f g : H5F_t) (hc : Counted cfg f) (h : SameCount f g) :
    Counted cfg g := by
  have hl := live_count_same f g h
  obtain ⟨a1, a2, a3, a4, a5⟩ := h
  refine ⟨by rw [a1]; exact hc.version, by rw [a2, hl]; exact hc.nattrs, ?_, ?_⟩
  · intro hd
    rw [a4]
    exact hc.dense_only (by rw [← a3]; exact hd)
  · intro hd
    rw [a5]
    exact hc.nodup (by rw [← a3]; exact hd)

theorem same_protect (f : H5F_t) (w : Bool) : SameCount f (H5AC_protect f w) :=
  same_of_frame _ _ rfl rfl

theorem same_unprotect (f : H5F_t) (fl : Bool) : SameCount f (H5AC_unprotect f fl) :=
  same_of_frame _ _ rfl rfl

/-- A call of `H5O_attr_write_cb` leaves the counts as they are. -/

theorem write_cb_same (cfg : Config) (f : H5F_t) (idx : Nat) (mesg : H5O_mesg_t) (fl : Bool)
    (u : H5A_t × Bool) : SameCount f (H5O_attr_write_cb cfg f idx mesg fl u).1 := by
  unfold H5O_attr_write_cb
  by_cases hs : mesg.shared = true
  · rw [if_pos hs]
    cases H5O_shared_read f mesg.native with
    | none => exact same_refl f
    | some sa =>
      simp only
      by_cases hn : sa.name = u.1.name
      · rw [if_pos hn]
        have hf := update_shared_frame cfg f u.1 mesg.native
        rcases hu : H5O_attr_update_shared cfg f u.1 mesg.native with ⟨f2, a2, e⟩
        rw [hu] at hf
        cases e with
        | some e => exact same_of_frame _ _ hf.1 hf.2
        | none =>
          simp only
          cases H5O_attr_get_share a2 with
          | none => exact same_of_frame _ _ hf.1 hf.2
          | some sh =>
            exact same_trans _ _ _ (same_of_frame _ _ hf.1 hf.2)
              (same_set_mesg _ _ _ (fun _ => rfl))
      · rw [if_neg hn]
        exact same_refl f
  · rw [if_neg hs]
    cases mesg.native with
    | attr a =>
      simp only
      by_cases hn : a.name = u.1.name
      · rw [if_pos hn]
        exact same_set_mesg _ _ _ (fun _ => rfl)
      · rw [if_neg hn]
        exact same_refl f
    | shared _ => exact same_refl f
    | null => exact same_refl f

theorem dense_write_same (f f2 : H5F_t) (a : H5A_t) (h : H5A_dense_write f a = some f2) :
    SameCount f f2 := by
  unfold H5A_dense_write at h
  split_ifs at h
  simp only [Option.some.injEq] at h
  rw [← h]
  refine ⟨rfl, rfl, rfl, rfl, ?_⟩
  simp only [List.map_map]
  apply List.map_congr_left
  intro r _
  simp only [Function.comp]
  split_ifs <;> rfl

/-- `H5O_attr_write` leaves the counts as they are, whatever it returns. -/

theorem write_same (cfg : Config) (f : H5F_t) (a : H5A_t) :
    SameCount f (H5O_attr_write cfg f a).1 := by
  unfold H5O_attr_write
  simp only
  have key : ∀ w : H5F_t × Bool × Option H5E, SameCount f w.1 →
      SameCount f (match w with
        | (f2, oh_flags, some e) => (H5AC_unprotect f2 oh_flags, some e)
        | (f2, oh_flags, none) =>
          (H5AC_unprotect f2 (H5O_touch_oh cfg oh_flags), none)).1 := by
    intro w hw
    obtain ⟨g, fl, e⟩ := w
    cases e with
    | some e => exact same_trans _ _ _ hw (same_unprotect _ _)
    | none => exact same_trans _ _ _ hw (same_unprotect _ _)
  apply key
  split_ifs with hd
  · cases hw : H5A_dense_write (H5AC_protect f true) a with
    | none => exact same_protect f true
    | some f2 => exact same_trans _ _ _ (same_protect f true) (dense_write_same _ _ _ hw)
  · have hi := iterate_inv (H5O_attr_write_cb cfg) (SameCount f)
      (fun g idx mesg fl u hg => same_trans _ _ _ hg (write_cb_same cfg g idx mesg fl u))
      (H5AC_protect f true).oh.mesg.length 0 (H5AC_protect f true) false (a, false)
      (same_protect f true)
    rcases hit : H5O_msg_iterate_real (H5O_attr_write_cb cfg)
      (H5AC_protect f true).oh.mesg.length 0 (H5AC_protect f true) false (a, false) with
      ⟨g, fl, ⟨a2, found⟩, r⟩
    rw [hit] at hi
    cases r <;> cases found <;> exact hi

theorem attr_count_pos (f : H5F_t) (i : Nat) (m : H5O_mesg_t) (h : f.oh.mesg[i]? = some m)
    (ht : m.type = H5O_msg_class_t.H5O_MSG_ATTR) : 1 ≤ attr_count f := by
  have := attr_count_release f i m h ht
  omega

theorem filter_release_after (g1 g2 : H5O_mesg_t → H5O_mesg_t)
    (hg1 : ∀ m, (g1 m).type = m.type) (hg2 : ∀ m, (g2 m).type = m.type)
    (xs : List H5O_mesg_t) (i : Nat) (m : H5O_mesg_t) (hm : xs[i]? = some m)
    (ht : m.type = H5O_msg_class_t.H5O_MSG_ATTR) :
    ((modify_nth (fun _ => null_mesg) (modify_nth g2 (modify_nth g1 xs i) i) i).filter
      (fun m => decide (m.type = H5O_msg_class_t.H5O_MSG_ATTR))).length + 1 =
    (xs.filter (fun m => decide (m.type = H5O_msg_class_t.H5O_MSG_ATTR))).length := by
  have h1 := modify_nth_getElem? g1 xs i
  rw [hm] at h1
  have h2 := modify_nth_getElem? g2 (modify_nth g1 xs i) i
  rw [h1] at h2
  have h3 := filter_modify_null _ i _ h2 (by rw [hg2, hg1]; exact ht)
  rw [h3, filter_modify_same g2 hg2, filter_modify_same g1 hg1]

theorem filter_new_attr (mf : Bool) (a : H5A_t) :
    ([new_attr_mesg mf a].filter
      (fun m => decide (m.type = H5O_msg_class_t.H5O_MSG_ATTR))).length = 1 := by
  simp [new_attr_mesg]

/-- A call of `H5O_attr_rename_mod_cb` on an attribute message of a header
that counts its attributes leaves the counts as they are: the decrement and
the increment of the changed-length path cancel. -/

theorem rename_mod_cb_same (cfg : Config) (old_name new_name : List Nat) (f : H5F_t) (i : Nat)
    (mesg : H5O_mesg_t) (fl found : Bool) (hc : Counted cfg f)
    (hm : f.oh.mesg[i]? = some mesg) (ht : mesg.type = H5O_msg_class_t.H5O_MSG_ATTR)
    (hcompact : f.oh.attr_fheap_addr = none) :
    SameCount f (H5O_attr_rename_mod_cb cfg old_name new_name f i mesg fl found).1 := by
  have hv := hc.version
  have hpos := attr_count_pos f i mesg hm ht
  have hn1 : 1 ≤ f.oh.nattrs := by
    have := hc.nattrs
    simp only [live_count, hcompact, H5F_addr_defined, Option.isSome_none, Bool.false_eq_true,
      if_false] at this
    omega
  unfold H5O_attr_rename_mod_cb
  by_cases hs : mesg.shared = true
  · rw [if_pos hs]
    cases H5O_shared_read f mesg.native with
    | none => exact same_refl f
    | some sa =>
      simp only
      by_cases hn : sa.name = old_name
      · rw [if_pos hn]
        generalize hg : set_mesg f i (fun m => { m with dirty := true }) = g
        have hfg : SameCount f g := by
          rw [← hg]
          exact same_set_mesg f i _ (fun _ => rfl)
        have hf := update_shared_frame cfg g { sa with name := new_name } mesg.native
        rcases hu : H5O_attr_update_shared cfg g { sa with name := new_name } mesg.native with
          ⟨f2, a2, e⟩
        rw [hu] at hf
        have h1 : SameCount f f2 := same_trans _ _ _ hfg (same_of_frame _ _ hf.1 hf.2)
        cases e with
        | some e => exact h1
        | none =>
          simp only
          cases H5O_attr_get_share a2 with
          | none => exact h1
          | some sh => exact same_trans _ _ _ h1 (same_set_mesg _ _ _ (fun _ => rfl))
      · rw [if_neg hn]
        exact same_refl f
  · rw [if_neg hs]
    cases hnat : mesg.native with
    | attr a =>
      simp only
      by_cases hn : a.name = old_name
      · rw [if_pos hn]
        by_cases hl : new_name.length ≠ old_name.length
        · rw [if_pos hl]
          simp only [H5O_msg_append_real, H5O_attr_delete, set_mesg, H5O_release_mesg, hv, if_true]
          refine ⟨rfl, ?_, rfl, ?_, rfl⟩
          · simp only
            omega
          · simp only [attr_count, List.filter_append, List.length_append, filter_new_attr]
            refine filter_release_after _ _ ?_ ?_ _ _ _ hm ht <;> intro _ <;> rfl
        · rw [if_neg hl]
          exact same_set_mesg _ _ _ (fun _ => rfl)
      · rw [if_neg hn]
        exact same_refl f
    | shared _ => exact same_refl f
    | null => exact same_refl f

theorem rename_mod_cb_cont (cfg : Config) (old_name new_name : List Nat) (f : H5F_t) (i : Nat)
    (mesg : H5O_mesg_t) (fl found : Bool)
    (h : (H5O_attr_rename_mod_cb cfg old_name new_name f i mesg fl found).2.2.2 = H5_iter.CONT) :
    H5O_attr_rename_mod_cb cfg old_name new_name f i mesg fl found =
      (f, fl, found, H5_iter.CONT) := by
  unfold H5O_attr_rename_mod_cb at h ⊢
  by_cases hs : mesg.shared = true
  · rw [if_pos hs] at h ⊢
    cases hr : H5O_shared_read f mesg.native with
    | none => rw [hr] at h; simp at h
    | some sa =>
      rw [hr] at h
      simp only at h ⊢
      by_cases hn : sa.name = old_name
      · rw [if_pos hn] at h
        exfalso
        generalize set_mesg f i (fun m => { m with dirty := true }) = g at h
        rcases hu : H5O_attr_update_shared cfg g { sa with name := new_name } mesg.native with
          ⟨f2, a2, e⟩
        rw [hu] at h
        cases e with
        | some e => simp at h
        | none =>
          simp only at h
          cases hg : H5O_attr_get_share a2 with
          | none => rw [hg] at h; simp at h
          | some sh => rw [hg] at h; simp at h
      · rw [if_neg hn]
  · rw [if_neg hs] at h ⊢
    cases hnat : mesg.native with
    | attr a =>
      rw [hnat] at h
      simp only at h ⊢
      by_cases hn : a.name = old_name
      · rw [if_pos hn] at h
        exfalso
        by_cases hl : new_name.length ≠ old_name.length
        · rw [if_pos hl] at h
          simp [H5O_msg_append_real] at h
        · rw [if_neg hl] at h
          simp at h
      · rw [if_neg hn]
    | shared _ => rw [hnat] at h; simp at h
    | null => rw [hnat] at h; simp at h

theorem rename_chk_cb_file (name : List Nat) (f : H5F_t) (i : Nat) (mesg : H5O_mesg_t)
    (fl found : Bool) : (H5O_attr_rename_chk_cb name f i mesg fl found).1 = f := by
  unfold H5O_attr_rename_chk_cb
  cases mesg_attr f mesg with
  | none => rfl
  | some a =>
    simp only
    split_ifs <;> rfl

/-- The walk of `H5O_attr_rename_chk_cb` leaves the file as it is. -/

theorem chk_iterate_file (name : List Nat) (fuel idx : Nat) (f : H5F_t) (fl found : Bool) :
    (H5O_msg_iterate_real (H5O_attr_rename_chk_cb name) fuel idx f fl found).1 = f :=
  iterate_inv (H5O_attr_rename_chk_cb name) (fun g => g = f)
    (fun g i m fl2 u hg => by rw [rename_chk_cb_file, hg]) fuel idx f fl found rfl

/-- Renaming in the dense storage keeps the names distinct. -/

theorem dense_rename_nodup (names : List (List Nat)) (old_name new_name : List Nat)
    (hnodup : names.Nodup) (hnew : new_name ∉ names) :
    (names.map (fun n => if n = old_name then new_name else n)).Nodup := by
  apply List.Nodup.map_on _ hnodup
  intro x hx y hy hxy
  by_cases h1 : x = old_name
  · by_cases h2 : y = old_name
    · rw [h1, h2]
    · simp only [h1, if_true, h2, if_false] at hxy
      exact absurd (hxy ▸ hy) hnew
  · by_cases h2 : y = old_name
    · simp only [h1, if_false, h2, if_true] at hxy
      exact absurd (hxy ▸ hx) hnew
    · simp only [h1, if_false, h2] at hxy
      exact hxy

theorem dense_rename_counted (cfg : Config) (f f2 : H5F_t) (old_name new_name : List Nat)
    (hc : Counted cfg f) (hd : f.oh.attr_fheap_addr ≠ none)
    (h : H5A_dense_rename f old_name new_name = some f2) :
    Counted cfg f2 ∧ f2.oh = f.oh := by
  unfold H5A_dense_rename at h
  split_ifs at h with hex
  simp only [Option.some.injEq] at h
  have hoh : f2.oh = f.oh := by rw [← h]
  refine ⟨⟨by rw [hoh]; exact hc.version, ?_, ?_, ?_⟩, hoh⟩
  · have := hc.nattrs
    rw [hoh, this]
    simp only [live_count, hoh, attr_count]
    rw [← h]
    simp
  · intro _
    have := hc.dense_only hd
    simp only [attr_count, hoh] at this ⊢
    exact this
  · intro _
    have hn := hc.nodup hd
    have hnew : new_name ∉ f.dense.map (fun r => r.attr.name) := by
      intro hmem
      apply hex.2
      simp only [H5A_dense_exists, List.any_eq_true, decide_eq_true_eq]
      obtain ⟨r, hr, hrn⟩ := List.mem_map.1 hmem
      exact ⟨r, hr, hrn⟩
    have := dense_rename_nodup _ old_name new_name hn hnew
    rw [← h]
    simp only [List.map_map] at this ⊢
    convert this using 2
    funext r
    simp only [Function.comp]
    split_ifs <;> rfl

/-- `H5O_attr_rename` keeps a header that counts its attributes such, and
leaves `nattrs` as it is, whatever it returns. -/

theorem rename_counted (cfg : Config) (f : H5F_t) (old_name new_name : List Nat)
    (hc : Counted cfg f) :
    Counted cfg (H5O_attr_rename cfg f old_name new_name).1 ∧
    (H5O_attr_rename cfg f old_name new_name).1.oh.nattrs = f.oh.nattrs := by
  have hc1 : Counted cfg (H5AC_protect f true) := counted_same cfg _ _ hc (same_protect f true)
  unfold H5O_attr_rename
  simp only
  have key : ∀ w : H5F_t × Bool × Option H5E, (Counted cfg w.1 ∧ w.1.oh.nattrs = f.oh.nattrs) →
      (Counted cfg (match w with
        | (f2, oh_flags, some e) => (H5AC_unprotect f2 oh_flags, some e)
        | (f2, oh_flags, none) =>
          (H5AC_unprotect f2 (H5O_touch_oh cfg oh_flags), none)).1 ∧
       (match w with
        | (f2, oh_flags, some e) => (H5AC_unprotect f2 oh_flags, some e)
        | (f2, oh_flags, none) =>
          (H5AC_unprotect f2 (H5O_touch_oh cfg oh_flags), none)).1.oh.nattrs = f.oh.nattrs) := by
    intro w hw
    obtain ⟨g, fl, e⟩ := w
    cases e with
    | some e => exact ⟨counted_same cfg _ _ hw.1 (same_unprotect _ _), hw.2⟩
    | none => exact ⟨counted_same cfg _ _ hw.1 (same_unprotect _ _), hw.2⟩
  apply key
  by_cases hd : H5F_addr_defined (H5AC_protect f true).oh.attr_fheap_addr = true
  · rw [if_pos hd]
    cases hr : H5A_dense_rename (H5AC_protect f true) old_name new_name with
    | none => exact ⟨hc1, rfl⟩
    | some f2 =>
      have hdn : (H5AC_protect f true).oh.attr_fheap_addr ≠ none := by
        intro hnone
        rw [hnone] at hd
        simp [H5F_addr_defined] at hd
      obtain ⟨h1, h2⟩ := dense_rename_counted cfg _ f2 old_name new_name hc1 hdn hr
      exact ⟨h1, by simp only [h2]; rfl⟩
  · rw [if_neg hd]
    have hcompact : (H5AC_protect f true).oh.attr_fheap_addr = none := by
      cases hx : (H5AC_protect f true).oh.attr_fheap_addr with
      | none => rfl
      | some v => rw [hx] at hd; simp [H5F_addr_defined] at hd
    have hchk := chk_iterate_file new_name (H5AC_protect f true).oh.mesg.length 0
      (H5AC_protect f true) false false
    rcases hit : H5O_msg_iterate_real (H5O_attr_rename_chk_cb new_name)
      (H5AC_protect f true).oh.mesg.length 0 (H5AC_protect f true) false false with
      ⟨g, fl, found, r⟩
    rw [hit] at hchk
    simp only at hchk
    subst hchk
    have hmod : ∀ fl0, Counted cfg (H5O_msg_iterate_real
          (H5O_attr_rename_mod_cb cfg old_name new_name)
          (H5AC_protect f true).oh.mesg.length 0 (H5AC_protect f true) fl0 false).1 ∧
        (H5O_msg_iterate_real (H5O_attr_rename_mod_cb cfg old_name new_name)
          (H5AC_protect f true).oh.mesg.length 0 (H5AC_protect f true) fl0 false).1.oh.nattrs =
          f.oh.nattrs := by
      intro fl0
      rcases iterate_cases (H5O_attr_rename_mod_cb cfg old_name new_name)
        (rename_mod_cb_cont cfg old_name new_name)
        (H5AC_protect f true).oh.mesg.length 0 (H5AC_protect f true) fl0 false with
        h | ⟨i, mesg, hm, ht, h, _⟩
      · rw [h]; exact ⟨hc1, rfl⟩
      · rw [h]
        have hs := rename_mod_cb_same cfg old_name new_name (H5AC_protect f true) i mesg fl0
          false hc1 hm ht hcompact
        exact ⟨counted_same cfg _ _ hc1 hs, hs.2.1⟩
    have hfin : ∀ fl0, (Counted cfg (match H5O_msg_iterate_real
          (H5O_attr_rename_mod_cb cfg old_name new_name)
          (H5AC_protect f true).oh.mesg.length 0 (H5AC_protect f true) fl0 false with
        | (f3, oh_flags3, _, H5_iter.ERROR) => (f3, oh_flags3, some H5E.CANTUPDATE)
        | (f3, oh_flags3, _, _) => (f3, oh_flags3, none)).1 ∧
        (match H5O_msg_iterate_real
          (H5O_attr_rename_mod_cb cfg old_name new_name)
          (H5AC_protect f true).oh.mesg.length 0 (H5AC_protect f true) fl0 false with
        | (f3, oh_flags3, _, H5_iter.ERROR) => (f3, oh_flags3, some H5E.CANTUPDATE)
        | (f3, oh_flags3, _, _) => (f3, oh_flags3, none)).1.oh.nattrs = f.oh.nattrs) := by
      intro fl0
      have := hmod fl0
      rcases hit2 : H5O_msg_iterate_real (H5O_attr_rename_mod_cb cfg old_name new_name)
        (H5AC_protect f true).oh.mesg.length 0 (H5AC_protect f true) fl0 false with
        ⟨g2, fl2, found2, r2⟩
      rw [hit2] at this
      cases r2 <;> exact this
    cases r <;> cases found <;> simp only
    all_goals first
      | exact ⟨hc1, rfl⟩
      | exact hfin fl

theorem remove_cb_cont (cfg : Config) (name : List Nat) (f : H5F_t) (i : Nat)
    (mesg : H5O_mesg_t) (fl found : Bool)
    (h : (H5O_attr_remove_cb cfg name f i mesg fl found).2.2.2 = H5_iter.CONT) :
    H5O_attr_remove_cb cfg name f i mesg fl found = (f, fl, found, H5_iter.CONT) := by
  unfold H5O_attr_remove_cb at h ⊢
  cases hr : mesg_attr f mesg with
  | none => rw [hr] at h; simp at h
  | some a =>
    rw [hr] at h
    simp only at h ⊢
    by_cases hn : a.name = name
    · rw [if_pos hn] at h
      simp at h
    · rw [if_neg hn]

/-- A successful first block of `H5O_attr_remove` on a header that counts its
attributes takes one attribute away and one off `nattrs`. -/

theorem remove_lookup_counted (cfg : Config) (f g : H5F_t) (name : List Nat) (fl : Bool)
    (hc : Counted cfg f) (h : remove_lookup cfg f name = (g, fl, none)) :
    Counted cfg g ∧ g.oh.nattrs + 1 = f.oh.nattrs := by
  cases hd : f.oh.attr_fheap_addr with
  | some addr =>
    obtain ⟨hex, _, hg⟩ := remove_dense_lookup cfg f g name addr fl hd h
    have hdn : f.oh.attr_fheap_addr ≠ none := by rw [hd]; simp
    have hnodup := hc.nodup hdn
    have hlen := dense_left_length f name hnodup hex
    simp only [dense_left, List.length_map] at hlen
    have hn := hc.nattrs
    simp only [live_count, hd, H5F_addr_defined, Option.isSome_some, if_true] at hn
    rw [hg]
    refine ⟨⟨hc.version, ?_, ?_, ?_⟩, ?_⟩
    · simp only [live_count, hd, H5F_addr_defined, Option.isSome_some, if_true]
      omega
    · intro _
      exact hc.dense_only hdn
    · intro _
      exact List.Nodup.sublist (List.Sublist.map _ (List.filter_sublist _)) hnodup
    · simp only
      omega
  | none =>
    unfold remove_lookup at h
    simp only [hd] at h
    rcases iterate_cases (H5O_attr_remove_cb cfg name) (remove_cb_cont cfg name)
      f.oh.mesg.length 0 f false false with hi | ⟨i, mesg, hm, ht, hi, _⟩
    · rw [hi] at h
      simp at h
    · rw [hi] at h
      unfold H5O_attr_remove_cb at h
      cases hr : mesg_attr f mesg with
      | none => rw [hr] at h; simp at h
      | some a =>
        rw [hr] at h
        simp only at h
        by_cases hn : a.name = name
        · rw [if_pos hn, if_pos hc.version] at h
          simp only [Prod.mk.injEq, and_true] at h
          obtain ⟨h1, _⟩ := h
          have hcount := attr_count_release
            { f with oh := { f.oh with nattrs := f.oh.nattrs - 1 } } i mesg hm ht
          rw [h1] at hcount
          have hpos := attr_count_pos f i mesg hm ht
          have hnat := hc.nattrs
          simp only [live_count, hd, H5F_addr_defined, Option.isSome_none, Bool.false_eq_true,
            if_false] at hnat
          have hac : attr_count ({ f with oh := { f.oh with nattrs := f.oh.nattrs - 1 } } : H5F_t) =
              attr_count f := rfl
          have hgn : g.oh.nattrs = f.oh.nattrs - 1 := by rw [← h1]; rfl
          have hga : g.oh.attr_fheap_addr = none := by rw [← h1]; exact hd
          have hgv : g.oh.version = f.oh.version := by rw [← h1]; rfl
          refine ⟨⟨by rw [hgv]; exact hc.version, ?_, ?_, ?_⟩, by omega⟩
          · simp only [live_count, hga, H5F_addr_defined, Option.isSome_none,
              Bool.false_eq_true, if_false]
            omega
          · intro hx; exact absurd hga hx
          · intro hx; exact absurd hga hx
        · rw [if_neg hn] at h
          simp at h

theorem forall₂_holds_type (f : H5F_t) : ∀ (msgs : List H5O_mesg_t) (as : List H5A_t),
    List.Forall₂ (mesg_holds f) msgs as →
    (msgs.filter (fun m => decide (m.type = H5O_msg_class_t.H5O_MSG_ATTR))).length =
      as.length := by
  intro msgs as h
  induction h with
  | nil => rfl
  | cons hh _ ih =>
    simp only [List.filter_cons, hh.1, decide_True, if_true, List.length_cons, ih]

/-- The shift back to compact storage keeps a header that counts its
attributes such and leaves `nattrs` as it is. -/

theorem remove_shift_counted (cfg : Config) (f : H5F_t) (fl : Bool) (hc : Counted cfg f) :
    Counted cfg (remove_shift cfg f fl).1 ∧ (remove_shift cfg f fl).1.oh.nattrs = f.oh.nattrs := by
  unfold remove_shift
  cases hd : f.oh.attr_fheap_addr with
  | none => exact ⟨hc, rfl⟩
  | some addr =>
    have hdn : f.oh.attr_fheap_addr ≠ none := by rw [hd]; simp
    have hn := hc.nattrs
    simp only [live_count, hd, H5F_addr_defined, Option.isSome_some, if_true] at hn
    have h0 := hc.dense_only hdn
    simp only
    by_cases hcond : f.oh.nattrs = 0 ∨ f.oh.nattrs < f.oh.min_dense
    · rw [if_pos hcond]
      by_cases hz : f.oh.nattrs = 0
      · rw [if_pos hz]
        refine ⟨⟨hc.version, ?_, ?_, ?_⟩, rfl⟩
        · simp only [live_count, H5A_dense_delete, H5F_addr_defined, Option.isSome_none,
            Bool.false_eq_true, if_false]
          simp only [attr_count] at h0 ⊢
          rw [h0]; exact hz
        · intro hx; exact absurd rfl hx
        · intro hx; exact absurd rfl hx
      · rw [if_neg hz]
        split_ifs with hcan
        · obtain ⟨_, _, msgs, hoh, hall⟩ := append_table_spec cfg
            ((H5A_dense_build_table f).take f.oh.nattrs) f fl
          rcases hat : append_table cfg ((H5A_dense_build_table f).take f.oh.nattrs) f fl with
            ⟨f2, fl2⟩
          rw [hat] at hoh hall
          simp only at hoh hall ⊢
          have hlen := forall₂_holds_type f2 msgs _ hall
          have htl : ((H5A_dense_build_table f).take f.oh.nattrs).length = f.oh.nattrs := by
            simp [H5A_dense_build_table, hn]
          refine ⟨⟨?_, ?_, ?_, ?_⟩, ?_⟩
          · simp only [H5A_dense_delete, hoh]; exact hc.version
          · simp only [live_count, H5A_dense_delete, H5F_addr_defined, Option.isSome_none,
              Bool.false_eq_true, if_false, attr_count, hoh, List.filter_append,
              List.length_append]
            simp only [attr_count] at h0
            rw [h0, hlen, htl]
            omega
          · intro hx; exact absurd rfl hx
          · intro hx; exact absurd rfl hx
          · simp only [H5A_dense_delete, hoh]
        · exact ⟨hc, rfl⟩
    · rw [if_neg hcond]
      exact ⟨hc, rfl⟩

/-- A successful `H5O_attr_remove` on a header that counts its attributes
leaves one that does, with one attribute less. -/

theorem remove_counted (cfg : Config) (f f2 : H5F_t) (name : List Nat) (hc : Counted cfg f)
    (h : H5O_attr_remove cfg f name = (f2, none)) :
    Counted cfg f2 ∧ f2.oh.nattrs + 1 = f.oh.nattrs := by
  have hc1 : Counted cfg (H5AC_protect f true) := counted_same cfg _ _ hc (same_protect f true)
  unfold H5O_attr_remove at h
  rcases hl : remove_lookup cfg (H5AC_protect f true) name with ⟨g, fl, e⟩
  rw [hl] at h
  cases e with
  | some e => simp at h
  | none =>
    simp only at h
    obtain ⟨l1, l2⟩ := remove_lookup_counted cfg _ g name fl hc1 hl
    obtain ⟨s1, s2⟩ := remove_shift_counted cfg g fl l1
    rcases hs : remove_shift cfg g fl with ⟨f3, fl3⟩
    rw [hs] at h s1 s2
    simp only [Prod.mk.injEq, and_true] at h s1 s2
    rw [← h]
    refine ⟨counted_same cfg _ _ s1 (same_unprotect _ _), ?_⟩
    have : (H5AC_unprotect f3 fl3).oh.nattrs = f3.oh.nattrs := rfl
    have : (H5AC_protect f true).oh.nattrs = f.oh.nattrs := rfl
    omega

theorem dense_insert_nodup (f f2 : H5F_t) (mf : Bool) (a : H5A_t)
    (hn : (f.dense.map (fun r => r.attr.name)).Nodup)
    (h : H5A_dense_insert f mf a = some f2) :
    (f2.dense.map (fun r => r.attr.name)).Nodup := by
  unfold H5A_dense_insert at h
  split_ifs at h with hex
  simp only [Option.some.injEq] at h
  rw [← h]
  simp only [List.map_append, List.map_cons, List.map_nil]
  rw [List.nodup_append]
  refine ⟨hn, List.nodup_singleton _, ?_⟩
  intro x hx hy
  simp only [List.mem_singleton] at hy
  apply hex
  simp only [H5A_dense_exists, List.any_eq_true, decide_eq_true_eq]
  obtain ⟨r, hr, hrn⟩ := List.mem_map.1 hx
  exact ⟨r, hr, by rw [hrn, hy]⟩

theorem to_dense_cb_nodup (f : H5F_t) (idx : Nat) (mesg : H5O_mesg_t) (fl : Bool) (u : Unit)
    (hn : (f.dense.map (fun r => r.attr.name)).Nodup) :
    ((H5O_attr_to_dense_cb f idx mesg fl u).1.dense.map (fun r => r.attr.name)).Nodup := by
  unfold H5O_attr_to_dense_cb
  cases mesg_attr f mesg with
  | none => exact hn
  | some a =>
    simp only
    cases hi : H5A_dense_insert f mesg.shared a with
    | none => exact hn
    | some f2 => exact dense_insert_nodup f f2 _ a hn hi

/-- The names in the dense storage differ after the conversion. -/

theorem create_convert_nodup (cfg : Config) (f : H5F_t)
    (hc : cfg.H5O_VERSION_1 < f.oh.version ∧ f.oh.nattrs = f.oh.max_compact ∧
      f.oh.attr_fheap_addr = none) :
    ((create_convert cfg f).1.dense.map (fun r => r.attr.name)).Nodup := by
  unfold create_convert
  rw [if_pos hc]
  have hi := iterate_inv H5O_attr_to_dense_cb
    (fun g => (g.dense.map (fun r => r.attr.name)).Nodup)
    (fun g idx mesg fl u hg => to_dense_cb_nodup g idx mesg fl u hg)
    (H5A_dense_create cfg f).oh.mesg.length 0 (H5A_dense_create cfg f) false ()
    (by simp [H5A_dense_create])
  simp only
  rcases hit : H5O_msg_iterate_real H5O_attr_to_dense_cb
    (H5A_dense_create cfg f).oh.mesg.length 0 (H5A_dense_create cfg f) false () with
    ⟨g, fl, u, r⟩
  rw [hit] at hi
  cases r <;> exact hi

/-- A successful conversion block of `H5O_attr_create` keeps a header that
counts its attributes such and leaves `nattrs` as it is. -/

theorem create_convert_counted (cfg : Config) (f g : H5F_t) (fl : Bool) (hc : Counted cfg f)
    (h : create_convert cfg f = (g, fl, none)) :
    Counted cfg g ∧ g.oh.nattrs = f.oh.nattrs := by
  obtain ⟨s1, s2⟩ := create_convert_spec cfg f g fl h
  by_cases hcond : cfg.H5O_VERSION_1 < f.oh.version ∧ f.oh.nattrs = f.oh.max_compact ∧
      f.oh.attr_fheap_addr = none
  · obtain ⟨e1, e2⟩ := s1 hcond
    have hnd := create_convert_nodup cfg f hcond
    rw [h] at hnd
    simp only at hnd
    have hn := hc.nattrs
    simp only [live_count, hcond.2.2, H5F_addr_defined, Option.isSome_none, Bool.false_eq_true,
      if_false] at hn
    have hv : g.oh.version = f.oh.version := by rw [e1]
    have hna : g.oh.nattrs = f.oh.nattrs := by rw [e1]
    have had : g.oh.attr_fheap_addr = some cfg.fheap_addr := by rw [e1]
    have hms : g.oh.mesg = f.oh.mesg.map tomb := by rw [e1]
    have hde : g.dense = attr_recs f f.oh.mesg := by rw [e1]
    have hac : attr_count g = 0 := by
      simp only [attr_count, hms, filter_tomb, List.length_nil]
    refine ⟨⟨by rw [hv]; exact hc.version, ?_, fun _ => hac, fun _ => hnd⟩, hna⟩
    simp only [live_count, had, H5F_addr_defined, Option.isSome_some, if_true, hde, e2, hna]
    exact hn
  · rw [s2 hcond]
    exact ⟨hc, rfl⟩

/-- A successful storing block of `H5O_attr_create` keeps a header that counts
its attributes such and adds one to `nattrs`. -/

theorem create_store_counted (cfg : Config) (f f2 : H5F_t) (mf : Bool) (a : H5A_t)
    (fl fl2 : Bool) (hc : Counted cfg f) (h : create_store f mf a fl = (f2, fl2, none)) :
    Counted cfg f2 ∧ f2.oh.nattrs = f.oh.nattrs + 1 := by
  obtain ⟨v, _, _, n, ad, _, cp, dn⟩ := create_store_spec f f2 mf a fl fl2 h
  refine ⟨⟨by rw [v]; exact hc.version, ?_, ?_, ?_⟩, n⟩
  · cases hd : f.oh.attr_fheap_addr with
    | none =>
      obtain ⟨c1, c2⟩ := cp hd
      have hn := hc.nattrs
      simp only [live_count, hd, H5F_addr_defined, Option.isSome_none, Bool.false_eq_true,
        if_false] at hn
      have := attr_count_append f f2 mf a c1
      simp only [live_count, ad, hd, H5F_addr_defined, Option.isSome_none, Bool.false_eq_true,
        if_false]
      omega
    | some addr =>
      have hdn : f.oh.attr_fheap_addr ≠ none := by rw [hd]; simp
      obtain ⟨_, d2, d3⟩ := dn hdn
      have hn := hc.nattrs
      simp only [live_count, hd, H5F_addr_defined, Option.isSome_some, if_true] at hn
      simp only [live_count, ad, hd, H5F_addr_defined, Option.isSome_some, if_true, d3,
        List.length_append, List.length_singleton]
      omega
  · intro hx
    rw [ad] at hx
    obtain ⟨_, d2, _⟩ := dn hx
    rw [attr_count_congr f f2 d2]
    exact hc.dense_only hx
  · intro hx
    rw [ad] at hx
    obtain ⟨d1, _, d3⟩ := dn hx
    rw [d3]
    simp only [List.map_append, List.map_cons, List.map_nil]
    rw [List.nodup_append]
    refine ⟨hc.nodup hx, List.nodup_singleton _, ?_⟩
    intro x hx1 hy
    simp only [List.mem_singleton] at hy
    obtain ⟨r, hr, hrn⟩ := List.mem_map.1 hx1
    exact d1 r hr (by rw [hrn, hy])

/-- A successful `H5O_attr_create` on a header that counts its attributes
leaves one that does, with one attribute more. -/

theorem create_counted (cfg : Config) (f f2 : H5F_t) (a : H5A_t) (hc : Counted cfg f)
    (h : H5O_attr_create cfg f a = (f2, none)) :
    Counted cfg f2 ∧ f2.oh.nattrs = f.oh.nattrs + 1 := by
  obtain ⟨f1, g, h2, a1, mf, fl1, fl2, hs, hcv, hst, hf2⟩ := create_stages cfg f f2 a h
  obtain ⟨sh1, sh2⟩ := create_share_frame cfg f a
  rw [hs] at sh1 sh2
  simp only at sh1 sh2
  have hc1 : Counted cfg (H5AC_protect f1 true) :=
    counted_same cfg _ _ hc
      (same_trans _ _ _ (same_of_frame _ _ sh1 sh2) (same_protect f1 true))
  obtain ⟨c1, c2⟩ := create_convert_counted cfg _ g fl1 hc1 hcv
  obtain ⟨t1, t2⟩ := create_store_counted cfg g h2 mf a1 fl1 fl2 c1 hst
  rw [hf2]
  refine ⟨counted_same cfg _ _ t1 (same_unprotect _ _), ?_⟩
  have e1 : (H5AC_unprotect h2 (H5O_touch_oh cfg fl2)).oh.nattrs = h2.oh.nattrs := rfl
  have e2 : (H5AC_protect f1 true).oh.nattrs = f1.oh.nattrs := rfl
  rw [e1, t2, c2, e2, sh1]

/-- C27 (`H5O_attr_create`, `H5O_attr_remove`, `H5O_attr_rename`,
`H5O_attr_write`): on a header of a version above `H5O_VERSION_1` whose
`nattrs` is the number of live attributes (`Counted`: the attribute messages
of the header in compact storage, the records of the dense storage, whose
names differ, once it exists and the header holds no attribute message), a
successful create leaves `nattrs` one higher, a successful remove one lower,
a rename or a write unchanged, and in each case `nattrs` is again the number of
live attributes of the header left.  For the rename this covers the compact
path that renames in place and the one for a name of another length (release
and re-append). -/

theorem C27_nattrs_counts (cfg : Config) (f : H5F_t) (hinv : Counted cfg f) :
    (∀ a f2, H5O_attr_create cfg f a = (f2, none) →
      Counted cfg f2 ∧ f2.oh.nattrs = live_count f2 ∧ f2.oh.nattrs = f.oh.nattrs + 1) ∧
    (∀ name f2, H5O_attr_remove cfg f name = (f2, none) →
      Counted cfg f2 ∧ f2.oh.nattrs = live_count f2 ∧ f2.oh.nattrs + 1 = f.oh.nattrs) ∧
    (∀ old_name new_name f2 e, H5O_attr_rename cfg f old_name new_name = (f2, e) →
      Counted cfg f2 ∧ f2.oh.nattrs = live_count f2 ∧ f2.oh.nattrs = f.oh.nattrs) ∧
    (∀ a f2 e, H5O_attr_write cfg f a = (f2, e) →
      Counted cfg f2 ∧ f2.oh.nattrs = live_count f2 ∧ f2.oh.nattrs = f.oh.nattrs) := by
  refine ⟨?_, ?_, ?_, ?_⟩
  · intro a f2 h
    obtain ⟨h1, h2⟩ := create_counted cfg f f2 a hinv h
    exact ⟨h1, h1.nattrs, h2⟩
  · intro name f2 h
    obtain ⟨h1, h2⟩ := remove_counted cfg f f2 name hinv h
    exact ⟨h1, h1.nattrs, h2⟩
  · intro old_name new_name f2 e h
    obtain ⟨h1, h2⟩ := rename_counted cfg f old_name new_name hinv
    rw [h] at h1 h2
    exact ⟨h1, h1.nattrs, h2⟩
  · intro a f2 e h
    have hs := write_same cfg f a
    rw [h] at hs
    have h1 := counted_same cfg f f2 hinv hs
    exact ⟨h1, h1.nattrs, hs.2.1⟩

/-- C27 at the header with "attr0", "attr1", "attr2" in compact storage, for
the rename of "attr1" to "a": the message of "attr1" is released, a new one is
appended, and `nattrs` is 3 as before. -/

theorem C27_nattrs_counts_witness :
    (c18_file.oh.nattrs = 3 ∧ c27_renamed.oh.nattrs = 3 ∧ attr_count c27_renamed = 3 ∧
      c27_renamed.oh.mesg.map (fun m => m.type) =
        [H5O_msg_class_t.H5O_MSG_ATTR, H5O_msg_class_t.H5O_MSG_NULL,
          H5O_msg_class_t.H5O_MSG_ATTR, H5O_msg_class_t.H5O_MSG_ATTR] ∧
      (H5O_attr_rename demo_cfg c18_file (demo_attr 1).name [97]).2 = none) ∧
    (Counted demo_cfg c27_renamed ∧ c27_renamed.oh.nattrs = live_count c27_renamed ∧
      c27_renamed.oh.nattrs = c18_file.oh.nattrs) :=
  ⟨⟨by decide, by decide, by decide, by decide, by decide⟩,
    (C27_nattrs_counts demo_cfg c18_file
      ⟨by decide, by decide, by decide, by decide⟩).2.2.1 (demo_attr 1).name [97] c27_renamed
      (H5O_attr_rename demo_cfg c18_file (demo_attr 1).name [97]).2 rfl⟩

theorem quiet_refl (f : H5F_t) : QuietExt f f := ⟨[], by simp, rfl⟩

theorem quiet_of_log (f g : H5F_t) (h : g.log = f.log) : QuietExt f g :=
  ⟨[], by simp [h], rfl⟩

theorem quiet_trans (f g h : H5F_t) (h1 : QuietExt f g) (h2 : QuietExt g h) : QuietExt f h := by
  obtain ⟨e1, a1, b1⟩ := h1
  obtain ⟨e2, a2, b2⟩ := h2
  refine ⟨e1 ++ e2, by rw [a2, a1, List.append_assoc], ?_⟩
  simp only [cache_calls, List.filter_append] at b1 b2 ⊢
  rw [b1, b2]
  rfl

theorem quiet_set_mesg (f : H5F_t) (i : Nat) (g : H5O_mesg_t → H5O_mesg_t) :
    QuietExt f (set_mesg f i g) := quiet_of_log _ _ rfl

theorem try_share_log (cfg : Config) (f : H5F_t) (a : H5A_t) :
    (H5SM_try_share cfg f a).1.log = f.log := by
  unfold H5SM_try_share
  split_ifs
  · split <;> rfl
  · rfl

theorem quiet_try_delete (f g : H5F_t) (sh : Native) (h : H5SM_try_delete f sh = some g) :
    QuietExt f g := by
  unfold H5SM_try_delete at h
  split at h
  · split at h
    · split_ifs at h
      simp only [Option.some.injEq] at h
      rw [← h]
      exact ⟨[Event.sm_try_delete _], rfl, rfl⟩
    · simp at h
  · simp at h

theorem quiet_update_shared (cfg : Config) (f : H5F_t) (a : H5A_t) (sh : Native) :
    QuietExt f (H5O_attr_update_shared cfg f a sh).1 := by
  have h1 := try_share_log cfg f a
  unfold H5O_attr_update_shared
  rcases hts : H5SM_try_share cfg f a with ⟨f1, a1, s⟩
  rw [hts] at h1
  simp only at h1 ⊢
  have q1 : QuietExt f f1 := quiet_of_log _ _ h1
  split_ifs with hs
  · exact q1
  · cases hr : H5SM_get_refcount f1 a1.sh_loc with
    | none => exact q1
    | some rc =>
      simp only
      have q2 : QuietExt f (if rc = 1 then H5O_attr_link f1 a1 else f1) := by
        split_ifs
        · exact quiet_trans _ _ _ q1 ⟨[Event.attr_link a1.name], rfl, rfl⟩
        · exact q1
      generalize (if rc = 1 then H5O_attr_link f1 a1 else f1) = f2 at q2 ⊢
      cases hd : H5SM_try_delete f2 sh with
      | none => exact q2
      | some f3 => exact quiet_trans _ _ _ q2 (quiet_try_delete _ _ _ hd)

theorem quiet_write_cb (cfg : Config) (f : H5F_t) (idx : Nat) (mesg : H5O_mesg_t) (fl : Bool)
    (u : H5A_t × Bool) : QuietExt f (H5O_attr_write_cb cfg f idx mesg fl u).1 := by
  unfold H5O_attr_write_cb
  by_cases hs : mesg.shared = true
  · rw [if_pos hs]
    cases H5O_shared_read f mesg.native with
    | none => exact quiet_refl f
    | some sa =>
      simp only
      by_cases hn : sa.name = u.1.name
      · rw [if_pos hn]
        have hq := quiet_update_shared cfg f u.1 mesg.native
        rcases hu : H5O_attr_update_shared cfg f u.1 mesg.native with ⟨f2, a2, e⟩
        rw [hu] at hq
        cases e with
        | some e => exact hq
        | none =>
          simp only
          cases H5O_attr_get_share a2 with
          | none => exact hq
          | some sh => exact quiet_trans _ _ _ hq (quiet_set_mesg _ _ _)
      · rw [if_neg hn]
        exact quiet_refl f
  · rw [if_neg hs]
    cases mesg.native with
    | attr a =>
      simp only
      by_cases hn : a.name = u.1.name
      · rw [if_pos hn]
        exact quiet_set_mesg _ _ _
      · rw [if_neg hn]
        exact quiet_refl f
    | shared _ => exact quiet_refl f
    | null => exact quiet_refl f

theorem quiet_rename_mod_cb (cfg : Config) (old_name new_name : List Nat) (f : H5F_t) (i : Nat)
    (mesg : H5O_mesg_t) (fl found : Bool) :
    QuietExt f (H5O_attr_rename_mod_cb cfg old_name new_name f i mesg fl found).1 := by
  unfold H5O_attr_rename_mod_cb
  by_cases hs : mesg.shared = true
  · rw [if_pos hs]
    cases H5O_shared_read f mesg.native with
    | none => exact quiet_refl f
    | some sa =>
      simp only
      by_cases hn : sa.name = old_name
      · rw [if_pos hn]
        generalize hg : set_mesg f i (fun m => { m with dirty := true }) = g
        have hfg : QuietExt f g := by
          rw [← hg]
          exact quiet_set_mesg f i _
        have hq := quiet_update_shared cfg g { sa with name := new_name } mesg.native
        rcases hu : H5O_attr_update_shared cfg g { sa with name := new_name } mesg.native with
          ⟨f2, a2, e⟩
        rw [hu] at hq
        have h1 : QuietExt f f2 := quiet_trans _ _ _ hfg hq
        cases e with
        | some e => exact h1
        | none =>
          simp only
          cases H5O_attr_get_share a2 with
          | none => exact h1
          | some sh => exact quiet_trans _ _ _ h1 (quiet_set_mesg _ _ _)
      · rw [if_neg hn]
        exact quiet_refl f
  · rw [if_neg hs]
    cases hnat : mesg.native with
    | attr a =>
      simp only
      by_cases hn : a.name = old_name
      · rw [if_pos hn]
        by_cases hl : new_name.length ≠ old_name.length
        · rw [if_pos hl]
          simp only [H5O_msg_append_real, H5O_attr_delete, set_mesg, H5O_release_mesg]
          refine ⟨[Event.attr_delete new_name], ?_, rfl⟩
          split_ifs <;> rfl
        · rw [if_neg hl]
          exact quiet_set_mesg _ _ _
      · rw [if_neg hn]
        exact quiet_refl f
    | shared _ => exact quiet_refl f
    | null => exact quiet_refl f

theorem bracket_of (f g : H5F_t) (w fl : Bool) (h : QuietExt (H5AC_protect f w) g) :
    Bracketed f (H5AC_unprotect g fl) := by
  obtain ⟨mid, h1, h2⟩ := h
  refine ⟨w, mid, fl, ?_, h2⟩
  simp only [H5AC_unprotect, h1, H5AC_protect]

theorem quiet_iterate {U : Type}
    (op : H5F_t → Nat → H5O_mesg_t → Bool → U → H5F_t × Bool × U × H5_iter)
    (hop : ∀ g idx mesg fl u, QuietExt g (op g idx mesg fl u).1)
    (f0 : H5F_t) (fuel idx : Nat) (f : H5F_t) (fl : Bool) (u : U) (h : QuietExt f0 f) :
    QuietExt f0 (H5O_msg_iterate_real op fuel idx f fl u).1 :=
  iterate_inv op (QuietExt f0)
    (fun g i m fl2 u2 hg => quiet_trans _ _ _ hg (hop g i m fl2 u2)) fuel idx f fl u h

theorem quiet_open_cb (name : List Nat) (f : H5F_t) (i : Nat) (mesg : H5O_mesg_t) (fl : Bool)
    (u : Option H5A_t) : QuietExt f (H5O_attr_open_cb name f i mesg fl u).1 := by
  unfold H5O_attr_open_cb
  cases mesg_attr f mesg with
  | none => exact quiet_refl f
  | some a =>
    simp only
    split_ifs <;> exact quiet_refl f

theorem quiet_chk_cb (name : List Nat) (f : H5F_t) (i : Nat) (mesg : H5O_mesg_t)
    (fl found : Bool) : QuietExt f (H5O_attr_rename_chk_cb name f i mesg fl found).1 := by
  rw [rename_chk_cb_file]
  exact quiet_refl f

theorem quiet_remove_cb (cfg : Config) (name : List Nat) (f : H5F_t) (i : Nat)
    (mesg : H5O_mesg_t) (fl found : Bool) :
    QuietExt f (H5O_attr_remove_cb cfg name f i mesg fl found).1 := by
  unfold H5O_attr_remove_cb
  cases mesg_attr f mesg with
  | none => exact quiet_refl f
  | some a =>
    simp only
    by_cases hn : a.name = name
    · rw [if_pos hn]
      apply quiet_of_log
      simp only [H5O_release_mesg]
      split_ifs <;> rfl
    · rw [if_neg hn]
      exact quiet_refl f

theorem quiet_to_dense_cb (f : H5F_t) (i : Nat) (mesg : H5O_mesg_t) (fl : Bool) (u : Unit) :
    QuietExt f (H5O_attr_to_dense_cb f i mesg fl u).1 := by
  unfold H5O_attr_to_dense_cb
  cases mesg_attr f mesg with
  | none => exact quiet_refl f
  | some a =>
    simp only
    cases hi : H5A_dense_insert f mesg.shared a with
    | none => exact quiet_refl f
    | some f2 =>
      unfold H5A_dense_insert at hi
      split_ifs at hi
      simp only [Option.some.injEq] at hi
      apply quiet_of_log
      rw [← hi]
      rfl

/-- `H5O_attr_open_by_name` protects, then unprotects. -/

theorem open_bracketed (f : H5F_t) (name : List Nat) :
    Bracketed f (H5O_attr_open_by_name f name).1 := by
  unfold H5O_attr_open_by_name
  simp only
  split_ifs
  · cases H5A_dense_open (H5AC_protect f false) name with
    | none => exact bracket_of f _ false false (quiet_refl _)
    | some a => exact bracket_of f _ false false (quiet_refl _)
  · have hq := quiet_iterate (H5O_attr_open_cb name) (quiet_open_cb name) (H5AC_protect f false)
      (H5AC_protect f false).oh.mesg.length 0 (H5AC_protect f false) false none (quiet_refl _)
    rcases hit : H5O_msg_iterate_real (H5O_attr_open_cb name)
      (H5AC_protect f false).oh.mesg.length 0 (H5AC_protect f false) false none with
      ⟨g, fl, u, r⟩
    rw [hit] at hq
    cases r <;> cases u <;> exact bracket_of f g false _ hq

/-- `H5O_attr_write` protects, then unprotects. -/

theorem write_bracketed (cfg : Config) (f : H5F_t) (a : H5A_t) :
    Bracketed f (H5O_attr_write cfg f a).1 := by
  unfold H5O_attr_write
  simp only
  have key : ∀ w : H5F_t × Bool × Option H5E, QuietExt (H5AC_protect f true) w.1 →
      Bracketed f (match w with
        | (f2, oh_flags, some e) => (H5AC_unprotect f2 oh_flags, some e)
        | (f2, oh_flags, none) =>
          (H5AC_unprotect f2 (H5O_touch_oh cfg oh_flags), none)).1 := by
    intro w hw
    obtain ⟨g, fl, e⟩ := w
    cases e with
    | some e => exact bracket_of f g true _ hw
    | none => exact bracket_of f g true _ hw
  apply key
  split_ifs with hd
  · cases hw : H5A_dense_write (H5AC_protect f true) a with
    | none => exact quiet_refl _
    | some f2 =>
      unfold H5A_dense_write at hw
      split_ifs at hw
      simp only [Option.some.injEq] at hw
      apply quiet_of_log
      rw [← hw]
  · have hq := quiet_iterate (H5O_attr_write_cb cfg) (quiet_write_cb cfg) (H5AC_protect f true)
      (H5AC_protect f true).oh.mesg.length 0 (H5AC_protect f true) false (a, false)
      (quiet_refl _)
    rcases hit : H5O_msg_iterate_real (H5O_attr_write_cb cfg)
      (H5AC_protect f true).oh.mesg.length 0 (H5AC_protect f true) false (a, false) with
      ⟨g, fl, ⟨a2, found⟩, r⟩
    rw [hit] at hq
    cases r <;> cases found <;> exact hq

/-- `H5O_attr_rename` protects, then unprotects. -/

theorem rename_bracketed (cfg : Config) (f : H5F_t) (old_name new_name : List Nat) :
    Bracketed f (H5O_attr_rename cfg f old_name new_name).1 := by
  unfold H5O_attr_rename
  simp only
  have key : ∀ w : H5F_t × Bool × Option H5E, QuietExt (H5AC_protect f true) w.1 →
      Bracketed f (match w with
        | (f2, oh_flags, some e) => (H5AC_unprotect f2 oh_flags, some e)
        | (f2, oh_flags, none) =>
          (H5AC_unprotect f2 (H5O_touch_oh cfg oh_flags), none)).1 := by
    intro w hw
    obtain ⟨g, fl, e⟩ := w
    cases e with
    | some e => exact bracket_of f g true _ hw
    | none => exact bracket_of f g true _ hw
  apply key
  split_ifs with hd
  · cases hw : H5A_dense_rename (H5AC_protect f true) old_name new_name with
    | none => exact quiet_refl _
    | some f2 =>
      unfold H5A_dense_rename at hw
      split_ifs at hw
      simp only [Option.some.injEq] at hw
      apply quiet_of_log
      rw [← hw]
  · have hchk := chk_iterate_file new_name (H5AC_protect f true).oh.mesg.length 0
      (H5AC_protect f true) false false
    rcases hit : H5O_msg_iterate_real (H5O_attr_rename_chk_cb new_name)
      (H5AC_protect f true).oh.mesg.length 0 (H5AC_protect f true) false false with
      ⟨g, fl, found, r⟩
    rw [hit] at hchk
    simp only at hchk
    subst hchk
    have hfin : ∀ fl0, QuietExt (H5AC_protect f true) (match H5O_msg_iterate_real
          (H5O_attr_rename_mod_cb cfg old_name new_name)
          (H5AC_protect f true).oh.mesg.length 0 (H5AC_protect f true) fl0 false with
        | (f3, oh_flags3, _, H5_iter.ERROR) => (f3, oh_flags3, some H5E.CANTUPDATE)
        | (f3, oh_flags3, _, _) => (f3, oh_flags3, none)).1 := by
      intro fl0
      have hq := quiet_iterate (H5O_attr_rename_mod_cb cfg old_name new_name)
        (quiet_rename_mod_cb cfg old_name new_name) (H5AC_protect f true)
        (H5AC_protect f true).oh.mesg.length 0 (H5AC_protect f true) fl0 false (quiet_refl _)
      rcases hit2 : H5O_msg_iterate_real (H5O_attr_rename_mod_cb cfg old_name new_name)
        (H5AC_protect f true).oh.mesg.length 0 (H5AC_protect f true) fl0 false with
        ⟨g2, fl2, found2, r2⟩
      rw [hit2] at hq
      cases r2 <;> exact hq
    cases r <;> cases found <;> simp only
    all_goals first
      | exact quiet_refl _
      | exact hfin fl

/-- `H5O_attr_iterate` protects, then unprotects. -/

theorem iterate_bracketed (cfg : Config) (f : H5F_t) (skip : Nat) (op : H5A_t → H5_iter) :
    Bracketed f (H5O_attr_iterate cfg f skip op).1 := by
  have hb : Bracketed f (H5AC_unprotect (H5AC_protect f false) false) :=
    bracket_of f _ false false (quiet_refl _)
  unfold H5O_attr_iterate
  simp only
  split_ifs with h1
  · rcases H5A_dense_iterate (H5AC_unprotect (H5AC_protect f false) false) skip op with
      _ | ⟨r, l⟩
    · exact hb
    · cases r <;> exact hb
  · cases H5A_compact_build_table (H5AC_protect f false) with
    | none => exact hb
    | some atable =>
      simp only
      split_ifs
      · exact hb
      · rcases H5A_attr_iterate_table op (atable.drop skip) with ⟨r, l⟩
        cases r <;> exact hb

theorem append_table_log (cfg : Config) : ∀ (as : List H5A_t) (f : H5F_t) (fl : Bool),
    (append_table cfg as f fl).1.log = f.log := by
  intro as
  induction as with
  | nil => intro f fl; rfl
  | cons a rest ih =>
    intro f fl
    have h1 := try_share_log cfg f a
    rcases hts : H5SM_try_share cfg f a with ⟨f1, a1, sh⟩
    rw [hts] at h1
    simp only [append_table, hts, H5O_msg_append_real]
    rw [ih]
    exact h1

theorem remove_shift_log (cfg : Config) (f : H5F_t) (fl : Bool) :
    (remove_shift cfg f fl).1.log = f.log := by
  unfold remove_shift
  cases f.oh.attr_fheap_addr with
  | none => rfl
  | some addr =>
    simp only
    split_ifs
    · rfl
    · have := append_table_log cfg ((H5A_dense_build_table f).take f.oh.nattrs) f fl
      rcases hat : append_table cfg ((H5A_dense_build_table f).take f.oh.nattrs) f fl with
        ⟨f2, fl2⟩
      rw [hat] at this
      exact this
    · rfl
    · rfl

theorem quiet_remove_lookup (cfg : Config) (f : H5F_t) (name : List Nat) :
    QuietExt f (remove_lookup cfg f name).1 := by
  unfold remove_lookup
  cases f.oh.attr_fheap_addr with
  | some addr =>
    simp only
    cases hr : H5A_dense_remove f name with
    | none => exact quiet_refl f
    | some f2 =>
      unfold H5A_dense_remove at hr
      split_ifs at hr
      simp only [Option.some.injEq] at hr
      apply quiet_of_log
      rw [← hr]
  | none =>
    simp only
    have hq := quiet_iterate (H5O_attr_remove_cb cfg name) (quiet_remove_cb cfg name) f
      f.oh.mesg.length 0 f false false (quiet_refl _)
    rcases hit : H5O_msg_iterate_real (H5O_attr_remove_cb cfg name) f.oh.mesg.length 0 f false
      false with ⟨g, fl, found, r⟩
    rw [hit] at hq
    cases r <;> cases found <;> exact hq

/-- `H5O_attr_remove` protects, then unprotects. -/

theorem remove_bracketed (cfg : Config) (f : H5F_t) (name : List Nat) :
    Bracketed f (H5O_attr_remove cfg f name).1 := by
  unfold H5O_attr_remove
  have hq := quiet_remove_lookup cfg (H5AC_protect f true) name
  rcases hl : remove_lookup cfg (H5AC_protect f true) name with ⟨g, fl, e⟩
  rw [hl] at hq
  cases e with
  | some e => exact bracket_of f g true _ hq
  | none =>
    simp only
    have hs := remove_shift_log cfg g fl
    rcases hsh : remove_shift cfg g fl with ⟨f3, fl3⟩
    rw [hsh] at hs
    exact bracket_of f f3 true _ (quiet_trans _ _ _ hq (quiet_of_log _ _ hs))

/-- `H5O_attr_count` protects, then unprotects. -/

theorem count_bracketed (cfg : Config) (f : H5F_t) : Bracketed f (H5O_attr_count cfg f).1 :=
  bracket_of f _ false false (quiet_refl _)

/-- `H5O_attr_exists` protects, then unprotects. -/

theorem exists_bracketed (f : H5F_t) (name : List Nat) :
    Bracketed f (H5O_attr_exists f name).1 := by
  unfold H5O_attr_exists
  simp only
  split_ifs
  · exact bracket_of f _ false false (quiet_refl _)
  · rw [exists_cb_eq]
    have hq := quiet_iterate (H5O_attr_rename_chk_cb name) (quiet_chk_cb name)
      (H5AC_protect f false) (H5AC_protect f false).oh.mesg.length 0 (H5AC_protect f false)
      false false (quiet_refl _)
    rcases hit : H5O_msg_iterate_real (H5O_attr_rename_chk_cb name)
      (H5AC_protect f false).oh.mesg.length 0 (H5AC_protect f false) false false with
      ⟨g, fl, found, r⟩
    rw [hit] at hq
    cases r <;> exact bracket_of f g false false hq

theorem quiet_create_share (cfg : Config) (f : H5F_t) (a : H5A_t) :
    QuietExt f (create_share cfg f a).1 := by
  have h1 := try_share_log cfg f a
  unfold create_share
  rcases hts : H5SM_try_share cfg f a with ⟨f1, a1, sh⟩
  rw [hts] at h1
  simp only at h1
  have q1 : QuietExt f f1 := quiet_of_log _ _ h1
  cases sh with
  | false => exact q1
  | true =>
    simp only
    cases H5SM_get_refcount f1 a1.sh_loc with
    | none => exact q1
    | some rc =>
      simp only
      split_ifs
      · exact quiet_trans _ _ _ q1 ⟨[Event.attr_delete a1.name], rfl, rfl⟩
      · exact q1

theorem quiet_create_convert (cfg : Config) (f : H5F_t) :
    QuietExt f (create_convert cfg f).1 := by
  unfold create_convert
  split_ifs with hc
  · have hq := quiet_iterate H5O_attr_to_dense_cb quiet_to_dense_cb f
      (H5A_dense_create cfg f).oh.mesg.length 0 (H5A_dense_create cfg f) false ()
      (quiet_of_log _ _ rfl)
    simp only
    rcases hit : H5O_msg_iterate_real H5O_attr_to_dense_cb
      (H5A_dense_create cfg f).oh.mesg.length 0 (H5A_dense_create cfg f) false () with
      ⟨g, fl, u, r⟩
    rw [hit] at hq
    cases r <;> exact hq
  · exact quiet_refl f

theorem create_store_log (f : H5F_t) (mf : Bool) (a : H5A_t) (fl : Bool) :
    (create_store f mf a fl).1.log = f.log := by
  unfold create_store H5A_dense_insert H5O_msg_append_real
  simp only
  cases f.oh.attr_fheap_addr with
  | none => rfl
  | some addr =>
    simp only
    split_ifs <;> rfl

/-- `H5O_attr_create` either fails before it protects, or protects and then
unprotects. -/

theorem create_bracketed (cfg : Config) (f : H5F_t) (a : H5A_t) :
    ((∃ e, (create_share cfg f a).2.2.2 = some e) ∧
      (H5O_attr_create cfg f a).1 = (create_share cfg f a).1) ∨
    ((create_share cfg f a).2.2.2 = none ∧
      Bracketed (create_share cfg f a).1 (H5O_attr_create cfg f a).1) := by
  unfold H5O_attr_create
  rcases hs : create_share cfg f a with ⟨f1, a1, mf, e⟩
  cases e with
  | some e => left; exact ⟨⟨e, rfl⟩, rfl⟩
  | none =>
    right
    refine ⟨rfl, ?_⟩
    simp only
    have hq := quiet_create_convert cfg (H5AC_protect f1 true)
    rcases hc : create_convert cfg (H5AC_protect f1 true) with ⟨g, fl1, e2⟩
    rw [hc] at hq
    cases e2 with
    | some e => exact bracket_of f1 g true _ hq
    | none =>
      simp only
      have hl := create_store_log g mf a1 fl1
      rcases hst : create_store g mf a1 fl1 with ⟨h2, fl2, e3⟩
      rw [hst] at hl
      have hq2 : QuietExt (H5AC_protect f1 true) h2 :=
        quiet_trans _ _ _ hq (quiet_of_log _ _ hl)
      cases e3 with
      | some e => exact bracket_of f1 h2 true _ hq2
      | none => exact bracket_of f1 h2 true _ hq2

/-- C29 (`H5O_attr_create`, `H5O_attr_open_by_name`, `H5O_attr_write`,
`H5O_attr_rename`, `H5O_attr_iterate`, `H5O_attr_remove`, `H5O_attr_count`,
`H5O_attr_exists`): the calls an operation adds to the trace are calls `pre`
that are not calls of the metadata cache, followed by `ext`, where either
`ext` is empty, which happens only for a create that failed before it
protects; or the protect handed the header out and `ext` is that one protect,
calls that are not calls of the metadata cache, and one unprotect as the last
call, whatever the operation returns; or the protect failed and `ext` is that
protect alone, without any unprotect. -/

theorem C29_unprotect_after_protect (cfg : Config) (loads : Bool) (f : H5F_t) (op : AttrOp) :
    ∃ pre ext, cache_calls pre = [] ∧ (run_op cfg loads f op).log = f.log ++ pre ++ ext ∧
      ((ext = [] ∧ ∃ a e, op = AttrOp.create a ∧ (create_share cfg f a).2.2.2 = some e) ∨
       (loads = true ∧ ∃ w mid fl,
          ext = [Event.protect w] ++ mid ++ [Event.unprotect fl] ∧ cache_calls mid = []) ∨
       (loads = false ∧ ∃ w, ext = [Event.protect w])) := by
  have hb : ∀ g : H5F_t, Bracketed f g → ∃ pre ext, cache_calls pre = [] ∧
      g.log = f.log ++ pre ++ ext ∧
      ((ext = [] ∧ ∃ a e, op = AttrOp.create a ∧ (create_share cfg f a).2.2.2 = some e) ∨
       (true = true ∧ ∃ w mid fl,
          ext = [Event.protect w] ++ mid ++ [Event.unprotect fl] ∧ cache_calls mid = []) ∨
       (true = false ∧ ∃ w, ext = [Event.protect w])) := by
    intro g hg
    obtain ⟨w, mid, fl, h1, h2⟩ := hg
    refine ⟨[], [Event.protect w] ++ mid ++ [Event.unprotect fl], rfl, ?_,
      Or.inr (Or.inl ⟨rfl, w, mid, fl, rfl, h2⟩)⟩
    rw [h1]
    simp
  have hp : ∀ w : Bool, ∃ pre ext, cache_calls pre = [] ∧
      (H5AC_protect f w).log = f.log ++ pre ++ ext ∧
      ((ext = [] ∧ ∃ a e, op = AttrOp.create a ∧ (create_share cfg f a).2.2.2 = some e) ∨
       (false = true ∧ ∃ w mid fl,
          ext = [Event.protect w] ++ mid ++ [Event.unprotect fl] ∧ cache_calls mid = []) ∨
       (false = false ∧ ∃ w, ext = [Event.protect w])) := by
    intro w
    exact ⟨[], [Event.protect w], rfl, by simp [H5AC_protect], Or.inr (Or.inr ⟨rfl, w, rfl⟩)⟩
  cases op with
  | create a =>
    obtain ⟨pre, hpre, hq⟩ := quiet_create_share cfg f a
    cases loads with
    | true =>
      simp only [run_op, if_true]
      rcases create_bracketed cfg f a with ⟨⟨e, he⟩, h2⟩ | ⟨_, w, mid, fl, h1, h2⟩
      · exact ⟨pre, [], hq, by rw [h2, hpre]; simp, Or.inl ⟨rfl, a, e, rfl, he⟩⟩
      · refine ⟨pre, [Event.protect w] ++ mid ++ [Event.unprotect fl], hq, ?_,
          Or.inr (Or.inl ⟨by first | rfl | trivial, w, mid, fl, rfl, h2⟩)⟩
        rw [h1, hpre]
        simp
    | false =>
      simp only [run_op, Bool.false_eq_true, if_false]
      rcases hs : create_share cfg f a with ⟨f1, a1, mf, e⟩
      rw [hs] at hpre
      simp only at hpre
      cases e with
      | some e =>
        exact ⟨pre, [], hq, by simp [hpre], Or.inl ⟨rfl, a, e, rfl, by rw [hs]⟩⟩
      | none =>
        exact ⟨pre, [Event.protect true], hq, by simp [H5AC_protect, hpre],
          Or.inr (Or.inr ⟨by first | rfl | trivial, true, rfl⟩)⟩
  | open_by_name name =>
    cases loads with
    | true => exact hb _ (open_bracketed f name)
    | false => exact hp false
  | write a =>
    cases loads with
    | true => exact hb _ (write_bracketed cfg f a)
    | false => exact hp true
  | rename o n =>
    cases loads with
    | true => exact hb _ (rename_bracketed cfg f o n)
    | false => exact hp true
  | iterate skip itop =>
    cases loads with
    | true => exact hb _ (iterate_bracketed cfg f skip itop)
    | false => exact hp false
  | remove name =>
    cases loads with
    | true => exact hb _ (remove_bracketed cfg f name)
    | false => exact hp true
  | count =>
    cases loads with
    | true => exact hb _ (count_bracketed cfg f)
    | false => exact hp false
  | attr_exists name =>
    cases loads with
    | true => exact hb _ (exists_bracketed f name)
    | false => exact hp false

/-- C29 at the header with three attributes in compact storage: a rename to a
name of another length records the protect, the `H5O_attr_delete` of the
callback and the unprotect; a remove whose protect fails records the protect
alone. -/

theorem C29_unprotect_after_protect_witness :
    ((run_op demo_cfg true c18_file (AttrOp.rename (demo_attr 1).name [97])).log =
        [Event.protect true, Event.attr_delete [97], Event.unprotect true] ∧
      (run_op demo_cfg true c18_file (AttrOp.remove [97])).log =
        [Event.protect true, Event.unprotect false] ∧
      (run_op demo_cfg false c18_file (AttrOp.remove (demo_attr 1).name)).log =
        [Event.protect true] ∧ c18_file.log = []) ∧
    (∃ pre ext, cache_calls pre = [] ∧
      (run_op demo_cfg false c18_file (AttrOp.remove (demo_attr 1).name)).log =
        c18_file.log ++ pre ++ ext ∧
      ((ext = [] ∧ ∃ a e, AttrOp.remove (demo_attr 1).name = AttrOp.create a ∧
          (create_share demo_cfg c18_file a).2.2.2 = some e) ∨
       (false = true ∧ ∃ w mid fl,
          ext = [Event.protect w] ++ mid ++ [Event.unprotect fl] ∧ cache_calls mid = []) ∨
       (false = false ∧ ∃ w, ext = [Event.protect w]))) :=
  ⟨⟨by decide, by decide, by decide, by decide⟩,
    C29_unprotect_after_protect demo_cfg false c18_file (AttrOp.remove (demo_attr 1).name)⟩

/-- A successful create on an object in dense storage passes to
`H5AC_unprotect` the flags `H5O_touch_oh` returns for `H5AC__NO_FLAGS_SET`:
nothing else on this path sets `H5AC__DIRTIED_FLAG`. -/

theorem create_dense_flags (cfg : Config) (f f2 : H5F_t) (a : H5A_t) (addr : Nat)
    (hd : f.oh.attr_fheap_addr = some addr) (h : H5O_attr_create cfg f a = (f2, none)) :
    f2.log.getLast? = some (Event.unprotect (H5O_touch_oh cfg false)) := by
  obtain ⟨f1, g, h2, a1, mf, fl1, fl2, hs, hcv, hst, hf2⟩ := create_stages cfg f f2 a h
  obtain ⟨sh1, _⟩ := create_share_frame cfg f a
  rw [hs] at sh1
  simp only at sh1
  have hd1 : (H5AC_protect f1 true).oh.attr_fheap_addr = some addr := by
    simp only [H5AC_protect, sh1, hd]
  have hfl1 : fl1 = false ∧ g = H5AC_protect f1 true := by
    unfold create_convert at hcv
    rw [if_neg (by rw [hd1]; simp)] at hcv
    simp only [Prod.mk.injEq, and_true] at hcv
    exact ⟨hcv.2.symm, hcv.1.symm⟩
  have hfl2 : fl2 = fl1 := by
    unfold create_store at hst
    simp only [hfl1.2, hd1] at hst
    split at hst
    · simp at hst
    · simp only [Prod.mk.injEq, and_true] at hst
      exact hst.2.symm
  rw [hf2, hfl2, hfl1.1]
  simp [H5AC_unprotect]

/-- C28, counterexample (`H5O_attr_remove`, lines 1243-1351): on the object
with the ten attributes "attr0" .. "attr9" in dense storage
(`min_dense = 6`), the remove of "attr0" succeeds, takes the attribute out of
the dense storage and changes `nattrs` of the protected header from 10 to 9,
and the one `H5AC_unprotect` it calls gets the flags without
`H5AC__DIRTIED_FLAG`: the dense branch does `oh->nattrs--` and never touches
`oh_flags`. -/

theorem C28_dense_remove_not_dirtied :
    c28_file.oh.attr_fheap_addr = some 4096 ∧ c28_file.oh.nattrs = 10 ∧
    c28_file.dense.length = 10 ∧
    (H5O_attr_remove demo_cfg c28_file (demo_attr 0).name).2 = none ∧
    (H5O_attr_remove demo_cfg c28_file (demo_attr 0).name).1.oh.nattrs = 9 ∧
    (H5O_attr_remove demo_cfg c28_file (demo_attr 0).name).1.dense.length = 9 ∧
    (H5O_attr_remove demo_cfg c28_file (demo_attr 0).name).1.oh ≠ c28_file.oh ∧
    (H5O_attr_remove demo_cfg c28_file (demo_attr 0).name).1.log =
      c28_file.log ++ [Event.protect true, Event.unprotect false] := by
  refine ⟨by decide, by decide, by decide, by decide, by decide, by decide, by decide,
    by decide⟩

/-- The routine `H5O_attr_update_shared` of the embedding is the control flow
`update_shared_calls` over the modelled collaborators. -/

theorem update_shared_refines (cfg : Config) (f : H5F_t) (attr : H5A_t) (sh_mesg : Native) :
    H5O_attr_update_shared cfg f attr sh_mesg =
      ((update_shared_calls (modelled_ops cfg) f attr sh_mesg).1,
        (update_shared_calls (modelled_ops cfg) f attr sh_mesg).2.1,
        (update_shared_calls (modelled_ops cfg) f attr sh_mesg).2.2.1) := by
  unfold H5O_attr_update_shared update_shared_calls modelled_ops link_step
  simp only
  rcases hts : H5SM_try_share cfg f attr with ⟨f1, a1, sh⟩
  cases sh with
  | false => simp
  | true =>
    simp only [Bool.true_eq_false, if_false, if_true, one_ne_zero]
    rw [if_neg (by decide)]
    cases hr : H5SM_get_refcount f1 a1.sh_loc with
    | none => rfl
    | some rc =>
      simp only
      by_cases h1 : rc = 1
      · simp only [h1, if_true]
        cases hd : H5SM_try_delete (H5O_attr_link f1 a1) sh_mesg with
        | none => simp
        | some g => simp
      · simp only [h1, if_false]
        cases hd : H5SM_try_delete f1 sh_mesg with
        | none => simp
        | some g => simp

/-- C30 (`H5O_attr_update_shared`, lines 569-614), for any behaviour of the
collaborators.  The first call is `H5SM_try_share` on the new attribute.  If
its result is 0 or negative the routine fails with `H5E_BADMESG` having made
no other call, in the state that call left.  If it is positive the routine
reads the reference count at the shared location of the new attribute
(failure `H5E_CANTGET` without further calls); it calls `H5O_attr_link` on
the attribute exactly when the count read is 1 (failure `H5E_LINKCOUNT`
without a delete); and only after these it calls `H5SM_try_delete` on the
old shared message, in the state they left, failing with `H5E_CANTFREE` if
that fails.  So a `H5SM_try_delete` call is always the last call, on the old
shared message, and follows a `H5SM_try_share` that returned a positive
value. -/

theorem C30_update_shared_order {σ : Type} (ops : SharedOps σ) (s : σ) (attr : H5A_t)
    (sh_mesg : Native) :
    ((ops.H5SM_try_share s attr).2.2 ≤ 0 →
      update_shared_calls ops s attr sh_mesg =
        ((ops.H5SM_try_share s attr).1, (ops.H5SM_try_share s attr).2.1, some H5E.BADMESG,
          [SharedCall.try_share attr])) ∧
    (0 < (ops.H5SM_try_share s attr).2.2 →
      ops.H5SM_get_refcount (ops.H5SM_try_share s attr).1
        (ops.H5SM_try_share s attr).2.1.sh_loc = none →
      update_shared_calls ops s attr sh_mesg =
        ((ops.H5SM_try_share s attr).1, (ops.H5SM_try_share s attr).2.1, some H5E.CANTGET,
          [SharedCall.try_share attr,
            SharedCall.get_refcount (ops.H5SM_try_share s attr).2.1.sh_loc])) ∧
    (0 < (ops.H5SM_try_share s attr).2.2 → ∀ rc,
      ops.H5SM_get_refcount (ops.H5SM_try_share s attr).1
        (ops.H5SM_try_share s attr).2.1.sh_loc = some rc → rc ≠ 1 →
      update_shared_calls ops s attr sh_mesg =
        ((ops.H5SM_try_delete (ops.H5SM_try_share s attr).1 sh_mesg).1,
          (ops.H5SM_try_share s attr).2.1,
          (if (ops.H5SM_try_delete (ops.H5SM_try_share s attr).1 sh_mesg).2 then none
            else some H5E.CANTFREE),
          [SharedCall.try_share attr,
            SharedCall.get_refcount (ops.H5SM_try_share s attr).2.1.sh_loc,
            SharedCall.try_delete sh_mesg])) ∧
    (0 < (ops.H5SM_try_share s attr).2.2 →
      ops.H5SM_get_refcount (ops.H5SM_try_share s attr).1
        (ops.H5SM_try_share s attr).2.1.sh_loc = some 1 →
      (ops.H5O_attr_link (ops.H5SM_try_share s attr).1 (ops.H5SM_try_share s attr).2.1).2 =
        false →
      update_shared_calls ops s attr sh_mesg =
        ((ops.H5O_attr_link (ops.H5SM_try_share s attr).1 (ops.H5SM_try_share s attr).2.1).1,
          (ops.H5SM_try_share s attr).2.1, some H5E.LINKCOUNT,
          [SharedCall.try_share attr,
            SharedCall.get_refcount (ops.H5SM_try_share s attr).2.1.sh_loc,
            SharedCall.attr_link (ops.H5SM_try_share s attr).2.1])) ∧
    (0 < (ops.H5SM_try_share s attr).2.2 →
      ops.H5SM_get_refcount (ops.H5SM_try_share s attr).1
        (ops.H5SM_try_share s attr).2.1.sh_loc = some 1 →
      (ops.H5O_attr_link (ops.H5SM_try_share s attr).1 (ops.H5SM_try_share s attr).2.1).2 =
        true →
      update_shared_calls ops s attr sh_mesg =
        ((ops.H5SM_try_delete (ops.H5O_attr_link (ops.H5SM_try_share s attr).1
            (ops.H5SM_try_share s attr).2.1).1 sh_mesg).1,
          (ops.H5SM_try_share s attr).2.1,
          (if (ops.H5SM_try_delete (ops.H5O_attr_link (ops.H5SM_try_share s attr).1
            (ops.H5SM_try_share s attr).2.1).1 sh_mesg).2 then none else some H5E.CANTFREE),
          [SharedCall.try_share attr,
            SharedCall.get_refcount (ops.H5SM_try_share s attr).2.1.sh_loc,
            SharedCall.attr_link (ops.H5SM_try_share s attr).2.1,
            SharedCall.try_delete sh_mesg])) ∧
    (update_shared_calls ops s attr sh_mesg).2.2.2.head? = some (SharedCall.try_share attr) ∧
    (∀ k x, (update_shared_calls ops s attr sh_mesg).2.2.2[k]? =
        some (SharedCall.try_delete x) →
      x = sh_mesg ∧ k + 1 = (update_shared_calls ops s attr sh_mesg).2.2.2.length ∧ 2 ≤ k ∧
      0 < (ops.H5SM_try_share s attr).2.2 ∧
      (update_shared_calls ops s attr sh_mesg).2.2.2[1]? =
        some (SharedCall.get_refcount (ops.H5SM_try_share s attr).2.1.sh_loc)) ∧
    (∀ a, SharedCall.attr_link a ∈ (update_shared_calls ops s attr sh_mesg).2.2.2 ↔
      (a = (ops.H5SM_try_share s attr).2.1 ∧ 0 < (ops.H5SM_try_share s attr).2.2 ∧
        ops.H5SM_get_refcount (ops.H5SM_try_share s attr).1
          (ops.H5SM_try_share s attr).2.1.sh_loc = some 1)) := by
  unfold update_shared_calls link_step
  rcases hts : ops.H5SM_try_share s attr with ⟨s1, a1, r⟩
  simp only
  by_cases h0 : r = 0
  · subst h0
    simp
    intro k x hk
    rcases k with _ | k <;> simp at hk
  rw [if_neg h0]
  by_cases hneg : r < 0
  · rw [if_pos hneg]
    have hle : r ≤ 0 := by omega
    have hnp : ¬ 0 < r := by omega
    simp [hle, hnp]
    intro k x hk
    rcases k with _ | k <;> simp at hk
  rw [if_neg hneg]
  have hpos : 0 < r := by omega
  have hnle : ¬ r ≤ 0 := by omega
  cases hr : ops.H5SM_get_refcount s1 a1.sh_loc with
  | none =>
    simp [hpos, hnle]
    intro k x hk
    rcases k with _ | _ | k <;> simp at hk
  | some rc =>
    simp only
    by_cases h1 : rc = 1
    · subst h1
      simp only [if_true]
      cases hl : (ops.H5O_attr_link s1 a1).2 with
      | false =>
        simp [hpos, hnle]
        intro k x hk
        rcases k with _ | _ | _ | k <;> simp at hk
      | true =>
        simp [hpos, hnle]
        intro k x hk
        rcases k with _ | _ | _ | _ | k
        · simp at hk
        · simp at hk
        · simp at hk
        · simp at hk
          exact ⟨hk.symm, by omega⟩
        · simp at hk
    · simp only [h1, if_false]
      simp [hpos, hnle, h1]
      intro k x hk
      rcases k with _ | _ | _ | k
      · simp at hk
      · simp at hk
      · simp at hk
        exact ⟨hk.symm, by omega⟩
      · simp at hk

/-- An attribute the shared message storage does not take makes
`H5O_attr_update_shared` fail with the file as it was. -/

theorem update_shared_unshared (cfg : Config) (f : H5F_t) (attr : H5A_t) (sh_mesg : Native)
    (h : cfg.sharable attr = false) :
    H5O_attr_update_shared cfg f attr sh_mesg = (f, attr, some H5E.BADMESG) := by
  simp [H5O_attr_update_shared, H5SM_try_share, h]

/-- C30 at a shared "attr1" that gets a new value: the new version is
registered as entry 1 with one reference, its components are linked, and only
then the reference to the old entry 0 is dropped. -/

theorem C30_update_shared_order_witness :
    ((update_shared_calls (modelled_ops c30_cfg) c30_file c30_attr (Native.shared 0)).2.2.2 =
        [SharedCall.try_share c30_attr, SharedCall.get_refcount (some 1),
          SharedCall.attr_link { c30_attr with sh_loc := some 1 },
          SharedCall.try_delete (Native.shared 0)] ∧
      (H5O_attr_update_shared c30_cfg c30_file c30_attr (Native.shared 0)).1.log =
        [Event.attr_link c30_attr.name, Event.sm_try_delete 0] ∧
      (H5O_attr_update_shared c30_cfg c30_file c30_attr (Native.shared 0)).1.sohm =
        [(demo_attr 1, 0), (c30_attr, 1)] ∧
      (H5O_attr_update_shared c30_cfg c30_file c30_attr (Native.shared 0)).2.2 = none) ∧
    (∀ k x, (update_shared_calls (modelled_ops c30_cfg) c30_file c30_attr
        (Native.shared 0)).2.2.2[k]? = some (SharedCall.try_delete x) →
      x = Native.shared 0 ∧
      k + 1 = (update_shared_calls (modelled_ops c30_cfg) c30_file c30_attr
        (Native.shared 0)).2.2.2.length ∧ 2 ≤ k ∧
      0 < ((modelled_ops c30_cfg).H5SM_try_share c30_file c30_attr).2.2 ∧
      (update_shared_calls (modelled_ops c30_cfg) c30_file c30_attr (Native.shared 0)).2.2.2[1]? =
        some (SharedCall.get_refcount
          ((modelled_ops c30_cfg).H5SM_try_share c30_file c30_attr).2.1.sh_loc)) :=
  ⟨⟨by decide, by decide, by decide, by decide⟩,
    (C30_update_shared_order (modelled_ops c30_cfg) c30_file c30_attr
      (Native.shared 0)).2.2.2.2.2.2.1⟩

theorem rename_chk_cb_cont (name : List Nat) (f : H5F_t) (i : Nat) (mesg : H5O_mesg_t)
    (fl found : Bool)
    (h : (H5O_attr_rename_chk_cb name f i mesg fl found).2.2.2 = H5_iter.CONT) :
    H5O_attr_rename_chk_cb name f i mesg fl found = (f, fl, found, H5_iter.CONT) := by
  unfold H5O_attr_rename_chk_cb at h ⊢
  cases hr : mesg_attr f mesg with
  | none => rw [hr] at h; simp at h
  | some a =>
    rw [hr] at h
    simp only at h ⊢
    by_cases hn : a.name = name
    · rw [if_pos hn] at h
      simp at h
    · rw [if_neg hn]

/-- On a message whose attribute has another name `H5O_attr_rename_chk_cb`
continues. -/
theorem rename_chk_cb_other (name : List Nat) (f : H5F_t) (i : Nat) (mesg : H5O_mesg_t)
    (fl found : Bool) (a : H5A_t) (ha : mesg_attr f mesg = some a) (hn : a.name ≠ name) :
    H5O_attr_rename_chk_cb name f i mesg fl found = (f, fl, found, H5_iter.CONT) := by
  unfold H5O_attr_rename_chk_cb
  rw [ha]
  simp only
  rw [if_neg hn]

/-- On a message whose attribute has another name `H5O_attr_rename_mod_cb`
continues and changes nothing. -/
theorem rename_mod_cb_other (cfg : Config) (old_name new_name : List Nat) (f : H5F_t) (i : Nat)
    (mesg : H5O_mesg_t) (fl found : Bool) (a : H5A_t) (ha : mesg_attr f mesg = some a)
    (hn : a.name ≠ old_name) :
    H5O_attr_rename_mod_cb cfg old_name new_name f i mesg fl found =
      (f, fl, found, H5_iter.CONT) := by
  unfold mesg_attr at ha
  unfold H5O_attr_rename_mod_cb
  by_cases hs : mesg.shared = true
  · rw [if_pos hs] at ha ⊢
    rw [ha]
    simp only
    rw [if_neg hn]
  · rw [if_neg hs] at ha ⊢
    cases hnat : mesg.native with
    | attr b =>
      rw [hnat] at ha
      simp only [Option.some.injEq] at ha
      subst ha
      simp only
      rw [if_neg hn]
    | shared _ => rw [hnat] at ha; simp at ha
    | null => rw [hnat] at ha; simp at ha

/-- A walk over messages on each of which the callback continues without
changing anything leaves everything as it is. -/
theorem iterate_all_cont {U : Type}
    (op : H5F_t → Nat → H5O_mesg_t → Bool → U → H5F_t × Bool × U × H5_iter)
    (hcont : ∀ f idx mesg fl u, (op f idx mesg fl u).2.2.2 = H5_iter.CONT →
      op f idx mesg fl u = (f, fl, u, H5_iter.CONT))
    (f : H5F_t) (fl : Bool) (u : U)
    (hall : ∀ i mesg, f.oh.mesg[i]? = some mesg → mesg.type = H5O_msg_class_t.H5O_MSG_ATTR →
      op f i mesg fl u = (f, fl, u, H5_iter.CONT)) (fuel idx : Nat) :
    H5O_msg_iterate_real op fuel idx f fl u = (f, fl, u, H5_iter.CONT) := by
  rcases iterate_cases op hcont fuel idx f fl u with h | ⟨i, mesg, hm, ht, _, hne⟩
  · exact h
  · exfalso
    apply hne
    rw [hall i mesg hm ht]

/-- C39 (`H5O_attr_rename`, lines 1029-1053; `H5O_attr_rename_mod_cb`): on an
object in compact storage whose attribute messages all resolve to attributes
named neither `old_name` nor `new_name`, the rename returns success (no
not-found is reported) and leaves the object header (`nattrs` and every
message), the dense storage and the shared message storage as they were; the
only calls it adds to the trace are its protect and its unprotect, with the
flags `H5O_touch_oh` returns. -/

theorem C39_rename_missing_name (cfg : Config) (f : H5F_t) (old_name new_name : List Nat)
    (hcompact : f.oh.attr_fheap_addr = none)
    (hnone : ∀ m ∈ f.oh.mesg, m.type = H5O_msg_class_t.H5O_MSG_ATTR →
      ∃ a, mesg_attr f m = some a ∧ a.name ≠ old_name ∧ a.name ≠ new_name) :
    (H5O_attr_rename cfg f old_name new_name).2 = none ∧
    (H5O_attr_rename cfg f old_name new_name).1.oh = f.oh ∧
    (H5O_attr_rename cfg f old_name new_name).1.dense = f.dense ∧
    (H5O_attr_rename cfg f old_name new_name).1.sohm = f.sohm ∧
    (H5O_attr_rename cfg f old_name new_name).1.log =
      f.log ++ [Event.protect true, Event.unprotect (H5O_touch_oh cfg false)] := by
  have hget : ∀ (i : Nat) (mesg : H5O_mesg_t), (H5AC_protect f true).oh.mesg[i]? = some mesg →
      mesg.type = H5O_msg_class_t.H5O_MSG_ATTR →
      ∃ a, mesg_attr (H5AC_protect f true) mesg = some a ∧ a.name ≠ old_name ∧
        a.name ≠ new_name := by
    intro i mesg hm ht
    have hmem : mesg ∈ f.oh.mesg := by
      have hm2 : f.oh.mesg[i]? = some mesg := hm
      obtain ⟨hlt, he⟩ := List.getElem?_eq_some.mp hm2
      rw [← he]
      exact List.getElem_mem _
    obtain ⟨a, h1, h2, h3⟩ := hnone mesg hmem ht
    exact ⟨a, by rw [mesg_attr_congr (H5AC_protect f true) f rfl]; exact h1, h2, h3⟩
  have hchk := iterate_all_cont (H5O_attr_rename_chk_cb new_name) (rename_chk_cb_cont new_name)
    (H5AC_protect f true) false false
    (fun i mesg hm ht => by
      obtain ⟨a, h1, _, h3⟩ := hget i mesg hm ht
      exact rename_chk_cb_other new_name _ i mesg false false a h1 h3)
    (H5AC_protect f true).oh.mesg.length 0
  have hmod := iterate_all_cont (H5O_attr_rename_mod_cb cfg old_name new_name)
    (rename_mod_cb_cont cfg old_name new_name) (H5AC_protect f true) false false
    (fun i mesg hm ht => by
      obtain ⟨a, h1, h2, _⟩ := hget i mesg hm ht
      exact rename_mod_cb_other cfg old_name new_name _ i mesg false false a h1 h2)
    (H5AC_protect f true).oh.mesg.length 0
  have hd : H5F_addr_defined (H5AC_protect f true).oh.attr_fheap_addr = false := by
    simp [H5AC_protect, hcompact, H5F_addr_defined]
  have hres : H5O_attr_rename cfg f old_name new_name =
      (H5AC_unprotect (H5AC_protect f true) (H5O_touch_oh cfg false), none) := by
    unfold H5O_attr_rename
    simp only [hd, Bool.false_eq_true, if_false, hchk, hmod]
  rw [hres]
  refine ⟨rfl, rfl, rfl, rfl, ?_⟩
  simp [H5AC_unprotect, H5AC_protect]

/-- C39 at the header with "attr0", "attr1", "attr2" in compact storage, for
the rename of "z" to "y": success, and the header is as before. -/

theorem C39_rename_missing_name_witness :
    (H5O_attr_rename demo_cfg c18_file [122] [121]).2 = none ∧
    (H5O_attr_rename demo_cfg c18_file [122] [121]).1.oh = c18_file.oh ∧
    (H5O_attr_rename demo_cfg c18_file [122] [121]).1.dense = c18_file.dense ∧
    (H5O_attr_rename demo_cfg c18_file [122] [121]).1.sohm = c18_file.sohm ∧
    (H5O_attr_rename demo_cfg c18_file [122] [121]).1.log =
      c18_file.log ++ [Event.protect true, Event.unprotect (H5O_touch_oh demo_cfg false)] :=
  C39_rename_missing_name demo_cfg c18_file [122] [121] (by decide) (by decide)

/-- A successful first block of `H5O_attr_remove` leaves the thresholds and
the address of the dense storage as they are. -/

theorem remove_lookup_frame (cfg : Config) (f g : H5F_t) (name : List Nat) (fl : Bool)
    (h : remove_lookup cfg f name = (g, fl, none)) :
    g.oh.max_compact = f.oh.max_compact ∧ g.oh.min_dense = f.oh.min_dense ∧
    g.oh.attr_fheap_addr = f.oh.attr_fheap_addr := by
  cases hd : f.oh.attr_fheap_addr with
  | some addr =>
    obtain ⟨_, _, hg⟩ := remove_dense_lookup cfg f g name addr fl hd h
    rw [hg]
    exact ⟨rfl, rfl, hd⟩
  | none =>
    unfold remove_lookup at h
    simp only [hd] at h
    rcases iterate_cases (H5O_attr_remove_cb cfg name) (remove_cb_cont cfg name)
      f.oh.mesg.length 0 f false false with hi | ⟨i, mesg, hm, ht, hi, _⟩
    · rw [hi] at h
      simp at h
    · rw [hi] at h
      unfold H5O_attr_remove_cb at h
      cases hr : mesg_attr f mesg with
      | none => rw [hr] at h; simp at h
      | some a =>
        rw [hr] at h
        simp only at h
        by_cases hn : a.name = name
        · rw [if_pos hn] at h
          simp only [Prod.mk.injEq, and_true] at h
          obtain ⟨h1, _⟩ := h
          rw [← h1]
          split_ifs
          · exact ⟨rfl, rfl, hd⟩
          · exact ⟨rfl, rfl, hd⟩
        · rw [if_neg hn] at h
          simp at h

/-- The shift back to compact storage establishes the bounds on a header that
counts its attributes and is within `max_compact` when compact. -/

theorem remove_shift_bounds (cfg : Config) (f : H5F_t) (fl : Bool) (hc : Counted cfg f)
    (ho : f.oh.min_dense ≤ f.oh.max_compact)
    (hcp : f.oh.attr_fheap_addr = none → f.oh.nattrs ≤ f.oh.max_compact) :
    StorageBounds cfg (remove_shift cfg f fl).1 := by
  unfold remove_shift
  cases hd : f.oh.attr_fheap_addr with
  | none => exact ⟨ho, hcp, fun hx => absurd hd hx⟩
  | some addr =>
    have hdn : f.oh.attr_fheap_addr ≠ none := by rw [hd]; simp
    have hn := hc.nattrs
    simp only [live_count, hd, H5F_addr_defined, Option.isSome_some, if_true] at hn
    simp only
    by_cases hcond : f.oh.nattrs = 0 ∨ f.oh.nattrs < f.oh.min_dense
    · rw [if_pos hcond]
      by_cases hz : f.oh.nattrs = 0
      · rw [if_pos hz]
        refine ⟨ho, fun _ => ?_, fun hx => absurd rfl hx⟩
        show f.oh.nattrs ≤ f.oh.max_compact
        omega
      · rw [if_neg hz]
        split_ifs with hcan
        · obtain ⟨_, _, msgs, hoh, _⟩ := append_table_spec cfg
            ((H5A_dense_build_table f).take f.oh.nattrs) f fl
          rcases hat : append_table cfg ((H5A_dense_build_table f).take f.oh.nattrs) f fl with
            ⟨f2, fl2⟩
          rw [hat] at hoh
          simp only at hoh ⊢
          have hlt : f.oh.nattrs < f.oh.min_dense := by
            rcases hcond with h0 | h1
            · exact absurd h0 hz
            · exact h1
          refine ⟨?_, fun _ => ?_, fun hx => absurd rfl hx⟩
          · simp only [H5A_dense_delete, hoh]; exact ho
          · simp only [H5A_dense_delete, hoh]; omega
        · show StorageBounds cfg f
          refine ⟨ho, fun hx => absurd hx hdn, fun _ => ⟨by omega, Or.inr ?_⟩⟩
          simp only [List.all_eq_true, decide_eq_true_eq, not_forall, not_lt] at hcan
          obtain ⟨a, ha, hlarge⟩ := hcan
          have hmem : a ∈ H5A_dense_build_table f := List.mem_of_mem_take ha
          simp only [H5A_dense_build_table, List.mem_map] at hmem
          obtain ⟨r, hr, hra⟩ := hmem
          exact ⟨r, hr, by rw [hra]; exact hlarge⟩
    · rw [if_neg hcond]
      show StorageBounds cfg f
      refine ⟨ho, fun hx => absurd hx hdn, fun _ => ⟨by omega, Or.inl (by omega)⟩⟩

/-- A successful `H5O_attr_remove` on a header that counts its attributes and
keeps the bounds leaves one that keeps the bounds. -/

theorem remove_bounds (cfg : Config) (f f2 : H5F_t) (name : List Nat) (hc : Counted cfg f)
    (hb : StorageBounds cfg f) (h : H5O_attr_remove cfg f name = (f2, none)) :
    StorageBounds cfg f2 ∧ f2.oh.max_compact = f.oh.max_compact ∧
    f2.oh.min_dense = f.oh.min_dense := by
  have hc1 : Counted cfg (H5AC_protect f true) := counted_same cfg _ _ hc (same_protect f true)
  unfold H5O_attr_remove at h
  rcases hl : remove_lookup cfg (H5AC_protect f true) name with ⟨g, fl, e⟩
  rw [hl] at h
  cases e with
  | some e => simp at h
  | none =>
    simp only at h
    obtain ⟨l1, l2⟩ := remove_lookup_counted cfg _ g name fl hc1 hl
    obtain ⟨m1, m2, m3⟩ := remove_lookup_frame cfg _ g name fl hl
    have p1 : (H5AC_protect f true).oh = f.oh := rfl
    rw [p1] at l2 m1 m2 m3
    have ho : g.oh.min_dense ≤ g.oh.max_compact := by rw [m1, m2]; exact hb.order
    have hcp : g.oh.attr_fheap_addr = none → g.oh.nattrs ≤ g.oh.max_compact := by
      intro hx
      rw [m3] at hx
      have := hb.compact hx
      omega
    have hs := remove_shift_bounds cfg g fl l1 ho hcp
    have hfr : (remove_shift cfg g fl).1.oh.max_compact = g.oh.max_compact ∧
        (remove_shift cfg g fl).1.oh.min_dense = g.oh.min_dense := by
      unfold remove_shift
      cases g.oh.attr_fheap_addr with
      | none => exact ⟨rfl, rfl⟩
      | some addr =>
        simp only
        split_ifs
        · exact ⟨rfl, rfl⟩
        · obtain ⟨_, _, msgs, hoh, _⟩ := append_table_spec cfg
            ((H5A_dense_build_table g).take g.oh.nattrs) g fl
          rcases hat : append_table cfg ((H5A_dense_build_table g).take g.oh.nattrs) g fl with
            ⟨g2, fl2⟩
          rw [hat] at hoh
          simp only at hoh ⊢
          simp only [H5A_dense_delete, hoh, and_self]
        · exact ⟨rfl, rfl⟩
        · exact ⟨rfl, rfl⟩
    rcases hsh : remove_shift cfg g fl with ⟨f3, fl3⟩
    rw [hsh] at h hs hfr
    simp only [Prod.mk.injEq, and_true] at h hs hfr
    rw [← h]
    exact ⟨⟨hs.order, hs.compact, hs.dense⟩, by
      show f3.oh.max_compact = f.oh.max_compact
      rw [hfr.1, m1], by
      show f3.oh.min_dense = f.oh.min_dense
      rw [hfr.2, m2]⟩

/-- A successful `H5O_attr_create` on a header that counts its attributes and
keeps the bounds leaves one that keeps the bounds. -/

theorem create_bounds (cfg : Config) (f f2 : H5F_t) (a : H5A_t) (hc : Counted cfg f)
    (hb : StorageBounds cfg f) (h : H5O_attr_create cfg f a = (f2, none)) :
    StorageBounds cfg f2 ∧ f2.oh.max_compact = f.oh.max_compact ∧
    f2.oh.min_dense = f.oh.min_dense := by
  obtain ⟨f1, g, h2, a1, mf, fl1, fl2, hs, hcv, hst, hf2⟩ := create_stages cfg f f2 a h
  obtain ⟨sh1, sh2⟩ := create_share_frame cfg f a
  rw [hs] at sh1 sh2
  simp only at sh1 sh2
  have p1 : (H5AC_protect f1 true).oh = f.oh := sh1
  have p2 : (H5AC_protect f1 true).dense = f.dense := sh2
  obtain ⟨c1, c2⟩ := create_convert_spec cfg _ g fl1 hcv
  obtain ⟨v, mc, md, n, ad, _, cp, dn⟩ := create_store_spec g h2 mf a1 fl1 fl2 hst
  subst hf2
  have u1 : ∀ fl, (H5AC_unprotect h2 fl).oh = h2.oh := fun _ => rfl
  have u2 : ∀ fl, (H5AC_unprotect h2 fl).dense = h2.dense := fun _ => rfl
  by_cases hcond : cfg.H5O_VERSION_1 < (H5AC_protect f1 true).oh.version ∧
      (H5AC_protect f1 true).oh.nattrs = (H5AC_protect f1 true).oh.max_compact ∧
      (H5AC_protect f1 true).oh.attr_fheap_addr = none
  · obtain ⟨e1, _⟩ := c1 hcond
    have g1 : g.oh.max_compact = f.oh.max_compact := by rw [e1, p1]
    have g2 : g.oh.min_dense = f.oh.min_dense := by rw [e1, p1]
    have g3 : g.oh.nattrs = f.oh.nattrs := by rw [e1, p1]
    have g4 : g.oh.attr_fheap_addr = some cfg.fheap_addr := by rw [e1]
    have hnm : f.oh.nattrs = f.oh.max_compact := by rw [← p1]; exact hcond.2.1
    have ho := hb.order
    refine ⟨⟨by rw [u1]; omega, ?_, ?_⟩, by rw [u1]; omega, by rw [u1]; omega⟩
    · intro hx
      rw [u1, ad, g4] at hx
      simp at hx
    · intro _
      rw [u1]
      exact ⟨by omega, Or.inl (by omega)⟩
  · have e1 := c2 hcond
    have g1 : g.oh.max_compact = f.oh.max_compact := by rw [e1, p1]
    have g2 : g.oh.min_dense = f.oh.min_dense := by rw [e1, p1]
    have g3 : g.oh.nattrs = f.oh.nattrs := by rw [e1, p1]
    have g4 : g.oh.attr_fheap_addr = f.oh.attr_fheap_addr := by rw [e1, p1]
    have g5 : g.dense = f.dense := by rw [e1, p2]
    have ho := hb.order
    refine ⟨⟨by rw [u1]; omega, ?_, ?_⟩, by rw [u1]; omega, by rw [u1]; omega⟩
    · intro hx
      rw [u1, ad, g4] at hx
      rw [u1]
      have hle := hb.compact hx
      have hne : f.oh.nattrs ≠ f.oh.max_compact := by
        intro heq
        apply hcond
        rw [p1]
        exact ⟨hc.version, heq, hx⟩
      omega
    · intro hx
      rw [u1, ad] at hx
      rw [u1, u2]
      have hx2 : f.oh.attr_fheap_addr ≠ none := by rw [← g4]; exact hx
      obtain ⟨d1, d2⟩ := hb.dense hx2
      obtain ⟨_, _, hden⟩ := dn hx
      refine ⟨by omega, ?_⟩
      rcases d2 with d2 | ⟨r, hr, hlarge⟩
      · exact Or.inl (by omega)
      · refine Or.inr ⟨r, ?_, hlarge⟩
        rw [hden, g5]
        exact List.mem_append_left _ hr

/-- Successful creates and removes keep a header that counts its attributes
within the bounds, and leave the thresholds as they are. -/

theorem attr_calls_bounds (cfg : Config) : ∀ (cs : List AttrCall) (f g : H5F_t),
    Counted cfg f → StorageBounds cfg f → attr_calls cfg f cs = some g →
    StorageBounds cfg g ∧ g.oh.max_compact = f.oh.max_compact ∧
      g.oh.min_dense = f.oh.min_dense := by
  intro cs
  induction cs with
  | nil =>
    intro f g _ hb h
    simp only [attr_calls, Option.some.injEq] at h
    rw [← h]
    exact ⟨hb, rfl, rfl⟩
  | cons c rest ih =>
    intro f g hc hb h
    cases c with
    | create a =>
      simp only [attr_calls] at h
      rcases hcr : H5O_attr_create cfg f a with ⟨f2, e⟩
      rw [hcr] at h
      cases e with
      | some e => simp at h
      | none =>
        simp only at h
        obtain ⟨b1, b2, b3⟩ := create_bounds cfg f f2 a hc hb hcr
        obtain ⟨k1, _⟩ := create_counted cfg f f2 a hc hcr
        obtain ⟨i1, i2, i3⟩ := ih f2 g k1 b1 h
        exact ⟨i1, by rw [i2, b2], by rw [i3, b3]⟩
    | remove name =>
      simp only [attr_calls] at h
      rcases hrm : H5O_attr_remove cfg f name with ⟨f2, e⟩
      rw [hrm] at h
      cases e with
      | some e => simp at h
      | none =>
        simp only at h
        obtain ⟨b1, b2, b3⟩ := remove_bounds cfg f f2 name hc hb hrm
        obtain ⟨k1, _⟩ := remove_counted cfg f f2 name hc hrm
        obtain ⟨i1, i2, i3⟩ := ih f2 g k1 b1 h
        exact ⟨i1, by rw [i2, b2], by rw [i3, b3]⟩

/-- C38 (`H5O_attr_create`, lines 288-312; `H5O_attr_remove`, lines
1289-1344): take a header of a later version (`version > H5O_VERSION_1`) with
`min_dense ≤ max_compact` that is empty (`nattrs = 0`, no attribute message, no
dense storage).  In every state `f` reached from it by successful
`H5O_attr_create` and `H5O_attr_remove` calls the thresholds are as at the
start; if the attributes are in compact storage then `nattrs ≤ max_compact`;
and if the dense storage is defined then `nattrs ≥ 1` and either
`nattrs ≥ min_dense` or the dense storage holds an attribute whose message
size is `H5O_MESG_MAX_SIZE` or more. -/

theorem C38_storage_thresholds (cfg : Config) (f0 f : H5F_t) (cs : List AttrCall)
    (hver : cfg.H5O_VERSION_1 < f0.oh.version)
    (hord : f0.oh.min_dense ≤ f0.oh.max_compact)
    (hn : f0.oh.nattrs = 0) (hm : attr_count f0 = 0) (hd : f0.oh.attr_fheap_addr = none)
    (h : attr_calls cfg f0 cs = some f) :
    f.oh.max_compact = f0.oh.max_compact ∧ f.oh.min_dense = f0.oh.min_dense ∧
    (f.oh.attr_fheap_addr = none → f.oh.nattrs ≤ f0.oh.max_compact) ∧
    (f.oh.attr_fheap_addr ≠ none → 1 ≤ f.oh.nattrs ∧
      (f0.oh.min_dense ≤ f.oh.nattrs ∨
        ∃ r ∈ f.dense, cfg.H5O_MESG_MAX_SIZE ≤ cfg.mesg_size r.attr)) := by
  have hc : Counted cfg f0 := by
    refine ⟨hver, ?_, fun hx => absurd hd hx, fun hx => absurd hd hx⟩
    simp only [live_count, hd, H5F_addr_defined, Option.isSome_none, Bool.false_eq_true,
      if_false]
    rw [hn, hm]
  have hb : StorageBounds cfg f0 :=
    ⟨hord, fun _ => by rw [hn]; exact Nat.zero_le _, fun hx => absurd hd hx⟩
  obtain ⟨b, e1, e2⟩ := attr_calls_bounds cfg cs f0 f hc hb h
  refine ⟨e1, e2, ?_, ?_⟩
  · intro hx
    rw [← e1]
    exact b.compact hx
  · intro hx
    rw [← e2]
    exact b.dense hx

/-- C38 at the empty version-2 header with `max_compact = 8` and
`min_dense = 6`, after ten creates and five removes. -/

theorem C38_storage_thresholds_witness :
    attr_calls demo_cfg demo_file demo_attr_calls = some demo_file_10_5 ∧
    demo_file_10_5.oh.max_compact = demo_file.oh.max_compact ∧
    demo_file_10_5.oh.min_dense = demo_file.oh.min_dense ∧
    (demo_file_10_5.oh.attr_fheap_addr = none →
      demo_file_10_5.oh.nattrs ≤ demo_file.oh.max_compact) ∧
    (demo_file_10_5.oh.attr_fheap_addr ≠ none → 1 ≤ demo_file_10_5.oh.nattrs ∧
      (demo_file.oh.min_dense ≤ demo_file_10_5.oh.nattrs ∨
        ∃ r ∈ demo_file_10_5.dense,
          demo_cfg.H5O_MESG_MAX_SIZE ≤ demo_cfg.mesg_size r.attr)) :=
  ⟨by decide, C38_storage_thresholds demo_cfg demo_file demo_file_10_5 demo_attr_calls
    (by decide) (by decide) (by decide) (by decide) (by decide) (by decide)⟩

end H5O

/-! # Data sieving of contiguous datasets: lemmas and theorems -/

namespace H5F

theorem block_write_fields (f : H5F_t) (addr size : Nat) (buf : List Nat) :
    (H5F_block_write f addr size buf).1.sieve_buf = f.sieve_buf ∧
    (H5F_block_write f addr size buf).1.sieve_loc = f.sieve_loc ∧
    (H5F_block_write f addr size buf).1.sieve_size = f.sieve_size ∧
    (H5F_block_write f addr size buf).1.sieve_dirty = f.sieve_dirty ∧
    (H5F_block_write f addr size buf).1.sieve_buf_size = f.sieve_buf_size ∧
    (H5F_block_write f addr size buf).1.base_addr = f.base_addr ∧
    (H5F_block_write f addr size buf).1.log = f.log ++
      [Event.block_write addr size (buf.take size)
        (decide ((H5F_block_write f addr size buf).2 = herr_t.SUCCEED))] := by
  unfold H5F_block_write
  split_ifs <;> simp [put_data, log_event]

theorem block_read_fields (f : H5F_t) (addr size : Nat) :
    (H5F_block_read f addr size).1.sieve_buf = f.sieve_buf ∧
    (H5F_block_read f addr size).1.sieve_loc = f.sieve_loc ∧
    (H5F_block_read f addr size).1.sieve_size = f.sieve_size ∧
    (H5F_block_read f addr size).1.sieve_dirty = f.sieve_dirty ∧
    (H5F_block_read f addr size).1.sieve_buf_size = f.sieve_buf_size ∧
    (H5F_block_read f addr size).1.base_addr = f.base_addr ∧
    (H5F_block_read f addr size).1.lf = f.lf ∧
    (H5F_block_read f addr size).1.log = f.log ++
      [Event.block_read addr size (H5F_block_read f addr size).2.isSome] := by
  unfold H5F_block_read
  split_ifs <;> simp [log_event]

/-- In sync with a window that is a real range, the overlap test of the
oversized branches is exact for a request longer than the window. -/
theorem overlap_check_exact (f : H5F_t) (addr size : Nat)
    (hw : f.sieve_loc + f.sieve_size < HADDR_MOD) (hr : addr + size < HADDR_MOD)
    (hlt : f.sieve_size < size) (hpos : 0 < f.sieve_size) :
    overlap_check (stash f) addr (sub64 (add64 addr size) 1) = true ↔
      (f.sieve_loc < addr + size ∧ addr < f.sieve_loc + f.sieve_size) := by
  simp only [overlap_check, stash, add64, sub64, HADDR_MOD, Bool.or_eq_true, Bool.and_eq_true,
    decide_eq_true_eq] at *
  omega

theorem sieve_flush_dirty (f : H5F_t) (sb : List Nat)
    (hbuf : f.sieve_buf = some sb) (hlen : f.sieve_size ≤ sb.length) (hdirty : f.sieve_dirty = true) :
    sieve_flush f (stash f) =
      if f.sieve_loc + f.sieve_size ≤ f.lf.data.length then
        some ({ put_data (log_event f (Event.block_write f.sieve_loc f.sieve_size
          (sb.take f.sieve_size) true)) f.sieve_loc (sb.take f.sieve_size) with sieve_dirty := false },
          herr_t.SUCCEED)
      else
        some (log_event f (Event.block_write f.sieve_loc f.sieve_size (sb.take f.sieve_size) false),
          herr_t.FAIL) := by
  unfold sieve_flush
  simp only [hdirty, if_true, hbuf, stash]
  have h : ¬ sb.length < f.sieve_size := by omega
  simp only [h, if_false, H5F_block_write]
  split_ifs <;> rfl

/-- C9 (`H5F_contig_readv`, `H5F_contig_writev`, the branches for a sequence
larger than the sieve buffer): when the window is dirty and shares a byte with
the oversized request, the first block I/O issued is the block write of the
whole window `(sieve_loc, sieve_size)` from the sieve buffer.  If it fails
nothing else is issued and the call fails; if it succeeds the dirty flag is
cleared and only then the direct block read or write of `(addr, size)` is
issued, the direct write after the window has been invalidated
(`sieve_loc = HADDR_UNDEF`, `sieve_size = 0`).  The local copies are those of
the window (or the window is empty, which shares no byte). -/

theorem C9_flush_before_direct (f : H5F_t) (l : Locals) (_max_data offset addr size : Nat)
    (bytes sb : List Nat)
    (hsync : l = stash f ∨ f.sieve_size = 0)
    (hbuf : f.sieve_buf = some sb) (hlen : f.sieve_size ≤ sb.length)
    (hcap : f.sieve_size ≤ f.sieve_buf_size) (hbig : f.sieve_buf_size < size)
    (hw : f.sieve_loc + f.sieve_size < HADDR_MOD) (hr : addr + size < HADDR_MOD)
    (hdirty : f.sieve_dirty = true)
    (hover : ∃ x, f.sieve_loc ≤ x ∧ x < f.sieve_loc + f.sieve_size ∧ addr ≤ x ∧ x < addr + size) :
    (∃ f1 r, readv_miss f l _max_data offset addr size (sub64 (add64 addr size) 1) =
        some (f1, l, r) ∧
      ((r = none ∧ f1.sieve_dirty = true ∧ f1.log = f.log ++
          [Event.block_write f.sieve_loc f.sieve_size (sb.take f.sieve_size) false]) ∨
       (f1.sieve_dirty = false ∧ f1.log = f.log ++
          [Event.block_write f.sieve_loc f.sieve_size (sb.take f.sieve_size) true,
           Event.block_read addr size r.isSome]))) ∧
    (∃ f1 r, writev_miss f l _max_data offset addr size (sub64 (add64 addr size) 1) bytes =
        some (f1, l, r) ∧
      ((r = herr_t.FAIL ∧ f1.sieve_dirty = true ∧ f1.sieve_loc = f.sieve_loc ∧
          f1.sieve_size = f.sieve_size ∧ f1.log = f.log ++
          [Event.block_write f.sieve_loc f.sieve_size (sb.take f.sieve_size) false]) ∨
       (f1.sieve_dirty = false ∧ f1.sieve_loc = HADDR_UNDEF ∧ f1.sieve_size = 0 ∧
          f1.log = f.log ++
          [Event.block_write f.sieve_loc f.sieve_size (sb.take f.sieve_size) true,
           Event.block_write addr size (bytes.take size) (decide (r = herr_t.SUCCEED))]))) := by
  obtain ⟨x, hx1, hx2, hx3, hx4⟩ := hover
  have hl : l = stash f := by
    rcases hsync with h | h
    · exact h
    · omega
  subst hl
  have hov : overlap_check (stash f) addr (sub64 (add64 addr size) 1) = true :=
    (overlap_check_exact f addr size hw hr (by omega) (by omega)).2 ⟨by omega, by omega⟩
  have hfl := sieve_flush_dirty f sb hbuf hlen hdirty
  have hgt : size > f.sieve_buf_size := hbig
  constructor
  · simp only [readv_miss, hgt, if_true, readv_direct, hov, hfl]
    by_cases hrange : f.sieve_loc + f.sieve_size ≤ f.lf.data.length
    · simp only [hrange, if_true]
      refine ⟨_, _, rfl, Or.inr ?_⟩
      obtain ⟨_, _, _, h4, _, _, _, h8⟩ := block_read_fields
        { put_data (log_event f (Event.block_write f.sieve_loc f.sieve_size
          (sb.take f.sieve_size) true)) f.sieve_loc (sb.take f.sieve_size) with
          sieve_dirty := false } addr size
      refine ⟨h4, ?_⟩
      rw [h8]
      simp [put_data, log_event]
    · simp only [hrange, if_false]
      refine ⟨_, _, rfl, Or.inl ⟨rfl, ?_, ?_⟩⟩
      · simp [log_event, hdirty]
      · simp [log_event]
  · simp only [writev_miss, hgt, if_true, writev_direct, hov, hfl]
    by_cases hrange : f.sieve_loc + f.sieve_size ≤ f.lf.data.length
    · simp only [hrange, if_true]
      refine ⟨_, _, rfl, Or.inr ?_⟩
      obtain ⟨_, h2, h3, h4, _, _, h7⟩ := block_write_fields
        { { put_data (log_event f (Event.block_write f.sieve_loc f.sieve_size
          (sb.take f.sieve_size) true)) f.sieve_loc (sb.take f.sieve_size) with
          sieve_dirty := false } with sieve_loc := HADDR_UNDEF, sieve_size := 0 } addr size bytes
      refine ⟨h4, h2, h3, ?_⟩
      rw [h7]
      simp [put_data, log_event]
    · simp only [hrange, if_false]
      refine ⟨_, _, rfl, Or.inl ⟨rfl, ?_, ?_, ?_, ?_⟩⟩ <;> simp [log_event, hdirty]

theorem take_of_length {α : Type} (xs : List α) (n : Nat) (h : xs.length = n) : xs.take n = xs := by
  rw [← h]; exact List.take_length xs

theorem sieve_flush_spec (f : H5F_t) (l : Locals) (f1 : H5F_t) (r : herr_t)
    (h : sieve_flush f l = some (f1, r)) :
    f1.sieve_buf = f.sieve_buf ∧ f1.sieve_loc = f.sieve_loc ∧ f1.sieve_size = f.sieve_size ∧
    f1.sieve_buf_size = f.sieve_buf_size ∧ f1.base_addr = f.base_addr ∧
    ((f.sieve_dirty = false ∧ f1 = f ∧ r = herr_t.SUCCEED) ∨
     (f.sieve_dirty = true ∧ ∃ sb, f.sieve_buf = some sb ∧ l.sieve_size ≤ sb.length ∧
        f1.log = f.log ++ [Event.block_write l.sieve_start l.sieve_size (sb.take l.sieve_size)
          (decide (r = herr_t.SUCCEED))] ∧
        (r = herr_t.SUCCEED → f1.sieve_dirty = false) ∧
        (r = herr_t.FAIL → f1.sieve_dirty = true ∧ f1.lf = f.lf))) := by
  unfold sieve_flush at h
  by_cases hd : f.sieve_dirty = true
  · simp only [hd, if_true] at h
    cases hb : f.sieve_buf with
    | none => simp [hb] at h
    | some sb =>
      simp only [hb] at h
      by_cases hlen : sb.length < l.sieve_size
      · simp [hlen] at h
      · simp only [hlen, if_false] at h
        obtain ⟨w1, w2, w3, w4, w5, w6, w7⟩ := block_write_fields f l.sieve_start l.sieve_size sb
        rcases hw : H5F_block_write f l.sieve_start l.sieve_size sb with ⟨g, rr⟩
        rw [hw] at h w1 w2 w3 w4 w5 w6 w7
        simp only at w1 w2 w3 w4 w5 w6 w7
        cases rr with
        | FAIL =>
          simp only [Option.some.injEq, Prod.mk.injEq] at h
          obtain ⟨h1, h2⟩ := h
          subst h1; subst h2
          refine ⟨by rw [w1, hb], w2, w3, w5, w6, Or.inr ⟨hd, sb, rfl, by omega, ?_, ?_, ?_⟩⟩
          · rw [w7]
          · intro hc; cases hc
          · intro _
            refine ⟨by rw [w4, hd], ?_⟩
            have : (H5F_block_write f l.sieve_start l.sieve_size sb).1.lf = f.lf := by
              unfold H5F_block_write at hw ⊢
              split_ifs at hw ⊢ with hc
              · simp at hw
              · simp [log_event]
            rw [hw] at this
            exact this
        | SUCCEED =>
          simp only [Option.some.injEq, Prod.mk.injEq] at h
          obtain ⟨h1, h2⟩ := h
          subst h1; subst h2
          refine ⟨by simp only; rw [w1, hb], w2, w3, w5, w6, Or.inr ⟨hd, sb, rfl, by omega, ?_, ?_, ?_⟩⟩
          · simp only; rw [w7]; simp
          · intro _; rfl
          · intro hc; cases hc
  · have hd2 : f.sieve_dirty = false := by simpa using hd
    simp only [hd2, Bool.false_eq_true, if_false, Option.some.injEq, Prod.mk.injEq] at h
    obtain ⟨h1, h2⟩ := h
    subst h1; subst h2
    exact ⟨rfl, rfl, rfl, rfl, rfl, Or.inl ⟨hd2, rfl, rfl⟩⟩

theorem sieve_flush_total (f : H5F_t) (l : Locals) (sb : List Nat)
    (hbuf : f.sieve_buf = some sb) (hlen : l.sieve_size ≤ sb.length) :
    ∃ f1 r, sieve_flush f l = some (f1, r) := by
  unfold sieve_flush
  by_cases hd : f.sieve_dirty = true
  · have h : ¬ sb.length < l.sieve_size := by omega
    simp only [hd, if_true, hbuf, h, if_false]
    rcases H5F_block_write f l.sieve_start l.sieve_size sb with ⟨g, rr⟩
    cases rr <;> exact ⟨_, _, rfl⟩
  · simp only [hd, if_false]
    exact ⟨_, _, rfl⟩

/-- C8, amended (`H5F_contig_writev`, the branches for a sequence larger than
the sieve buffer): when the loop handles a sequence of `size > sieve_buf_size`
as its current sequence, with no sieve buffer none is allocated and the one
block write of `(addr, size)` from the user's buffer is all that happens; with
a sieve buffer the buffer contents are not changed and the block I/O issued is
the block write of `(addr, size)`, preceded at most by the flush of the window
(after a failed flush nothing is issued for the sequence); and when the local
copies are those of the window and the window (not empty, or invalid) shares
no byte with the request, location, size and dirty flag of the window are
unchanged as well and the direct write is the only block I/O. -/

theorem C8_oversize_write_direct (f : H5F_t) (l : Locals) (_max_data offset addr size : Nat)
    (bytes sb : List Nat)
    (hbig : f.sieve_buf_size < size) (hbytes : bytes.length = size) :
    (∃ f1 r, writev_nobuf f _max_data offset addr size bytes = some (f1, r) ∧
      f1.sieve_buf = f.sieve_buf ∧ f1.sieve_loc = f.sieve_loc ∧ f1.sieve_size = f.sieve_size ∧
      f1.sieve_dirty = f.sieve_dirty ∧
      f1.log = f.log ++ [Event.block_write addr size bytes (decide (r = herr_t.SUCCEED))]) ∧
    (f.sieve_buf = some sb → l.sieve_size ≤ sb.length →
      ∃ f1 r, writev_miss f l _max_data offset addr size (sub64 (add64 addr size) 1) bytes =
          some (f1, l, r) ∧
        f1.sieve_buf = f.sieve_buf ∧
        ((r = herr_t.FAIL ∧ f1.log = f.log ++
            [Event.block_write l.sieve_start l.sieve_size (sb.take l.sieve_size) false]) ∨
         (f1.log = f.log ++
            [Event.block_write l.sieve_start l.sieve_size (sb.take l.sieve_size) true,
             Event.block_write addr size bytes (decide (r = herr_t.SUCCEED))]) ∨
         (f1.log = f.log ++ [Event.block_write addr size bytes (decide (r = herr_t.SUCCEED))])) ∧
        (l = stash f → (0 < f.sieve_size ∨ f.sieve_loc = HADDR_UNDEF) →
          f.sieve_size ≤ f.sieve_buf_size →
          f.sieve_loc + f.sieve_size < HADDR_MOD → addr + size < HADDR_UNDEF →
          (f.sieve_loc + f.sieve_size ≤ addr ∨ addr + size ≤ f.sieve_loc) →
          f1.sieve_loc = f.sieve_loc ∧ f1.sieve_size = f.sieve_size ∧
          f1.sieve_dirty = f.sieve_dirty ∧
          f1.log = f.log ++ [Event.block_write addr size bytes (decide (r = herr_t.SUCCEED))])) := by
  have hgt : size > f.sieve_buf_size := hbig
  have htake : bytes.take size = bytes := take_of_length bytes size hbytes
  constructor
  · simp only [writev_nobuf, hgt, if_true]
    obtain ⟨w1, w2, w3, w4, _, _, w7⟩ := block_write_fields f addr size bytes
    rw [htake] at w7
    exact ⟨_, _, rfl, w1, w2, w3, w4, w7⟩
  · intro hbuf hlen
    simp only [writev_miss, hgt, if_true, writev_direct]
    by_cases hov : overlap_check l addr (sub64 (add64 addr size) 1) = true
    · simp only [hov, if_true]
      obtain ⟨g, rr, hfl⟩ := sieve_flush_total f l sb hbuf hlen
      obtain ⟨s1, s2, s3, _, _, s6⟩ := sieve_flush_spec f l g rr hfl
      rw [hfl]
      have hframe : l = stash f → (0 < f.sieve_size ∨ f.sieve_loc = HADDR_UNDEF) →
          f.sieve_size ≤ f.sieve_buf_size →
          f.sieve_loc + f.sieve_size < HADDR_MOD → addr + size < HADDR_UNDEF →
          (f.sieve_loc + f.sieve_size ≤ addr ∨ addr + size ≤ f.sieve_loc) → False := by
        intro hl hne hcap hw hr hdis
        subst hl
        simp only [overlap_check, stash, add64, sub64, HADDR_MOD, HADDR_UNDEF, Bool.or_eq_true,
          Bool.and_eq_true, decide_eq_true_eq] at *
        omega
      cases rr with
      | FAIL =>
        simp only
        refine ⟨_, _, rfl, s1, ?_, fun a b c d e g' => (hframe a b c d e g').elim⟩
        rcases s6 with ⟨_, _, hc⟩ | ⟨_, sb2, hb2, _, hlog, _, _⟩
        · cases hc
        · rw [hbuf] at hb2
          cases hb2
          exact Or.inl ⟨rfl, by simpa using hlog⟩
      | SUCCEED =>
        simp only
        obtain ⟨w1, w2, w3, w4, _, _, w7⟩ := block_write_fields
          { g with sieve_loc := HADDR_UNDEF, sieve_size := 0 } addr size bytes
        rw [htake] at w7
        refine ⟨_, _, rfl, by rw [w1]; exact s1, ?_, fun a b c d e g' => (hframe a b c d e g').elim⟩
        rcases s6 with ⟨_, hg, _⟩ | ⟨_, sb2, hb2, _, hlog, _, _⟩
        · refine Or.inr (Or.inr ?_)
          rw [w7]
          simp only
          rw [hg]
        · rw [hbuf] at hb2
          cases hb2
          refine Or.inr (Or.inl ?_)
          rw [w7]
          simp only
          rw [hlog]
          simp
    · simp only [hov, Bool.false_eq_true, if_false]
      obtain ⟨w1, w2, w3, w4, _, _, w7⟩ := block_write_fields f addr size bytes
      rw [htake] at w7
      exact ⟨_, _, rfl, w1, Or.inr (Or.inr w7), fun _ _ _ _ _ _ => ⟨w2, w3, w4, w7⟩⟩

theorem sieve_fill_log (f f1 : H5F_t) (r : herr_t) (h : sieve_fill f = some (f1, r)) :
    ∃ rest, f1.log = f.log ++ rest := by
  unfold sieve_fill at h
  obtain ⟨_, _, _, _, _, _, _, w8⟩ := block_read_fields f f.sieve_loc f.sieve_size
  rcases hr : H5F_block_read f f.sieve_loc f.sieve_size with ⟨g, d⟩
  rw [hr] at h w8
  cases d with
  | none =>
    simp only [Option.some.injEq, Prod.mk.injEq] at h
    rw [← h.1]; exact ⟨_, w8⟩
  | some data =>
    simp only at h
    cases hb : g.sieve_buf with
    | none => simp [hb] at h
    | some sb =>
      simp only [hb] at h
      cases hm : mem_write sb 0 data with
      | none => simp [hm] at h
      | some sb1 =>
        simp only [hm, Option.some.injEq, Prod.mk.injEq] at h
        rw [← h.1]; exact ⟨_, w8⟩

theorem readv_window_log (f f1 : H5F_t) (_max_data offset addr size : Nat) (r : Option (List Nat))
    (h : readv_window f _max_data offset addr size = some (f1, r)) :
    ∃ rest, f1.log = f.log ++ rest := by
  unfold readv_window at h
  simp only at h
  split_ifs at h with he
  · simp only [Option.some.injEq, Prod.mk.injEq] at h
    rw [← h.1]; exact ⟨[], by simp⟩
  · rcases hf : sieve_fill { f with sieve_loc := addr, sieve_size := window_size { f with sieve_loc := addr } _max_data offset } with _ | ⟨g, rr⟩
    · simp [hf] at h
    · obtain ⟨rest, hrest⟩ := sieve_fill_log _ g rr hf
      simp only [hf] at h
      cases rr with
      | FAIL =>
        simp only [Option.some.injEq, Prod.mk.injEq] at h
        rw [← h.1]; exact ⟨rest, hrest⟩
      | SUCCEED =>
        simp only at h
        cases hb : g.sieve_buf with
        | none => simp [hb] at h
        | some sb =>
          simp only [hb] at h
          cases hm : mem_read sb 0 size with
          | none => simp [hm] at h
          | some bytes =>
            simp only [hm, Option.some.injEq, Prod.mk.injEq] at h
            rw [← h.1]; exact ⟨rest, hrest⟩

theorem writev_window_log (f f1 : H5F_t) (_max_data offset addr size : Nat) (bytes : List Nat)
    (r : herr_t) (h : writev_window f _max_data offset addr size bytes = some (f1, r)) :
    ∃ rest, f1.log = f.log ++ rest := by
  unfold writev_window at h
  simp only at h
  split_ifs at h with he hs
  · simp only [Option.some.injEq, Prod.mk.injEq] at h
    rw [← h.1]; exact ⟨[], by simp⟩
  · rcases hf : sieve_fill { f with sieve_loc := addr, sieve_size := window_size { f with sieve_loc := addr } _max_data offset } with _ | ⟨g, rr⟩
    · simp [hf] at h
    · obtain ⟨rest, hrest⟩ := sieve_fill_log _ g rr hf
      simp only [hf] at h
      cases rr with
      | FAIL =>
        simp only [Option.some.injEq, Prod.mk.injEq] at h
        rw [← h.1]; exact ⟨rest, hrest⟩
      | SUCCEED =>
        simp only at h
        cases hb : g.sieve_buf with
        | none => simp [hb] at h
        | some sb =>
          simp only [hb] at h
          cases hm : mem_write sb 0 bytes with
          | none => simp [hm] at h
          | some sb1 =>
            simp only [hm, Option.some.injEq, Prod.mk.injEq] at h
            rw [← h.1]; exact ⟨rest, hrest⟩
  · simp only at h
    cases hb : f.sieve_buf with
    | none => simp [hb] at h
    | some sb =>
      simp only [hb] at h
      cases hm : mem_write sb 0 bytes with
      | none => simp [hm] at h
      | some sb1 =>
        simp only [hm, Option.some.injEq, Prod.mk.injEq] at h
        rw [← h.1]; exact ⟨[], by simp⟩

theorem drop_append_len {α : Type} (a b : List α) (n : Nat) (h : a.length = n) :
    (a ++ b).drop n = b := by
  subst h; simp

theorem take_append_len {α : Type} (a b : List α) (n : Nat) (h : a.length = n) :
    (a ++ b).take n = a := by
  subst h; simp

theorem mem_write_some (blk src r : List Nat) (off : Nat) (h : mem_write blk off src = some r) :
    off + src.length ≤ blk.length ∧ r = blk.take off ++ src ++ blk.drop (off + src.length) := by
  unfold mem_write at h
  split_ifs at h with hc
  simp only [Option.some.injEq] at h
  exact ⟨hc, h.symm⟩

theorem mem_read_some (blk r : List Nat) (off n : Nat) (h : mem_read blk off n = some r) :
    off + n ≤ blk.length ∧ r = (blk.drop off).take n := by
  unfold mem_read at h
  split_ifs at h with hc
  simp only [Option.some.injEq] at h
  exact ⟨hc, h.symm⟩

theorem writev_extend_spec (f f1 : H5F_t) (addr size : Nat) (bytes sb : List Nat)
    (hbuf : f.sieve_buf = some sb) (hbytes : bytes.length = size)
    (h : writev_extend f (stash f) addr size bytes = some f1) :
    f1.log = f.log ∧ f1.sieve_dirty = f.sieve_dirty ∧ f1.lf = f.lf ∧
    f1.sieve_size = add64 f.sieve_size size ∧
    ∃ sb1, f1.sieve_buf = some sb1 ∧
      ((add64 addr size = f.sieve_loc ∧ f1.sieve_loc = addr ∧
          (sb1.drop size).take f.sieve_size = sb.take f.sieve_size) ∨
       (add64 addr size ≠ f.sieve_loc ∧ f1.sieve_loc = f.sieve_loc ∧
          sb1.take f.sieve_size = sb.take f.sieve_size)) := by
  unfold writev_extend at h
  simp only [hbuf, stash] at h
  by_cases hp : add64 addr size = f.sieve_loc
  · simp only [hp, if_true] at h
    cases h1 : mem_read sb 0 f.sieve_size with
    | none => simp [h1] at h
    | some old =>
      simp only [h1] at h
      cases h2 : mem_write sb size old with
      | none => simp [h2] at h
      | some sb1 =>
        simp only [h2] at h
        cases h3 : mem_write sb1 0 bytes with
        | none => simp [h3] at h
        | some sb2 =>
          simp only [h3, Option.some.injEq] at h
          subst h
          refine ⟨rfl, rfl, rfl, rfl, sb2, rfl, Or.inl ⟨hp, rfl, ?_⟩⟩
          obtain ⟨r1, r2⟩ := mem_read_some _ _ _ _ h1
          obtain ⟨w1, w2⟩ := mem_write_some _ _ _ _ h2
          obtain ⟨v1, v2⟩ := mem_write_some _ _ _ _ h3
          simp only [List.drop_zero] at r2
          have hold : old.length = f.sieve_size := by
            rw [r2, List.length_take]; omega
          have hts : (sb.take size).length = size := by
            rw [List.length_take]; omega
          have e1 : sb1.drop size = old ++ sb.drop (size + old.length) := by
            rw [w2, List.append_assoc]
            exact drop_append_len _ _ _ hts
          have e2 : sb2.drop size = old ++ sb.drop (size + old.length) := by
            rw [v2]
            simp only [List.take_zero, List.nil_append, Nat.zero_add, hbytes]
            rw [drop_append_len _ _ _ hbytes]
            exact e1
          rw [e2, take_append_len _ _ _ hold, r2]
  · simp only [hp, if_false] at h
    cases h2 : mem_write sb f.sieve_size bytes with
    | none => simp [h2] at h
    | some sb1 =>
      simp only [h2, Option.some.injEq] at h
      subst h
      refine ⟨rfl, rfl, rfl, rfl, sb1, rfl, Or.inr ⟨hp, rfl, ?_⟩⟩
      obtain ⟨w1, w2⟩ := mem_write_some _ _ _ _ h2
      have hts : (sb.take f.sieve_size).length = f.sieve_size := by
        rw [List.length_take]; omega
      rw [w2, List.append_assoc]
      exact take_append_len _ _ _ hts

theorem flush_dirty_cases (f g : H5F_t) (sb : List Nat) (r : herr_t)
    (hbuf : f.sieve_buf = some sb) (hdirty : f.sieve_dirty = true)
    (h : sieve_flush f (stash f) = some (g, r)) :
    g.sieve_loc = f.sieve_loc ∧ g.sieve_size = f.sieve_size ∧
    (r = herr_t.SUCCEED →
      g.log = f.log ++ [Event.block_write f.sieve_loc f.sieve_size (sb.take f.sieve_size) true]) := by
  obtain ⟨_, s2, s3, _, _, s6⟩ := sieve_flush_spec f (stash f) g r h
  refine ⟨s2, s3, fun hr => ?_⟩
  rcases s6 with ⟨hd, _, _⟩ | ⟨_, sb2, hb2, _, hlog, _, _⟩
  · rw [hdirty] at hd; cases hd
  · rw [hbuf] at hb2
    cases hb2
    subst hr
    simpa [stash] using hlog

/-- C7, amended (`H5F_contig_readv` lines 576-647, `H5F_contig_writev` lines
1001-1114, the branch for a sequence that is not within the window): with the
local copies those of the window, whenever the branch changes `sieve_loc` or
`sieve_size` of a dirty window, the first block I/O it has issued is the
successful block write of the whole prior window (`sieve_loc`, `sieve_size`,
from the sieve buffer as it was); the one exception is the exact prepend or
append of `H5F_contig_writev`, which issues no block I/O, leaves the disk and
the dirty flag as they are and grows the window in place by the sequence,
`sieve_loc` moving to `addr` on a prepend, the bytes of the prior window
staying in the sieve buffer. -/

theorem C7_flush_before_window_change (f : H5F_t)
    (_max_data offset addr size contig_end : Nat) (bytes sb : List Nat)
    (hbuf : f.sieve_buf = some sb) (hdirty : f.sieve_dirty = true)
    (hbytes : bytes.length = size) :
    (∀ f1 l1 r, readv_miss f (stash f) _max_data offset addr size contig_end = some (f1, l1, r) →
      (f1.sieve_loc ≠ f.sieve_loc ∨ f1.sieve_size ≠ f.sieve_size) →
      ∃ rest, f1.log = f.log ++
        Event.block_write f.sieve_loc f.sieve_size (sb.take f.sieve_size) true :: rest) ∧
    (∀ f1 l1 r,
      writev_miss f (stash f) _max_data offset addr size contig_end bytes = some (f1, l1, r) →
      (f1.sieve_loc ≠ f.sieve_loc ∨ f1.sieve_size ≠ f.sieve_size) →
      (∃ rest, f1.log = f.log ++
        Event.block_write f.sieve_loc f.sieve_size (sb.take f.sieve_size) true :: rest) ∨
      (size ≤ f.sieve_buf_size ∧ can_extend f (stash f) addr size = true ∧
        f1.log = f.log ∧ f1.sieve_dirty = true ∧ f1.lf = f.lf ∧
        f1.sieve_size = add64 f.sieve_size size ∧
        ∃ sb1, f1.sieve_buf = some sb1 ∧
          ((add64 addr size = f.sieve_loc ∧ f1.sieve_loc = addr ∧
              (sb1.drop size).take f.sieve_size = sb.take f.sieve_size) ∨
           (add64 addr size ≠ f.sieve_loc ∧ f1.sieve_loc = f.sieve_loc ∧
              sb1.take f.sieve_size = sb.take f.sieve_size)))) := by
  constructor
  · intro f1 l1 r h hch
    unfold readv_miss at h
    by_cases hgt : size > f.sieve_buf_size
    · -- the direct read leaves the window alone
      exfalso
      simp only [hgt, if_true, readv_direct] at h
      by_cases hov : overlap_check (stash f) addr contig_end = true
      · simp only [hov, if_true] at h
        rcases hfl : sieve_flush f (stash f) with _ | ⟨g, rr⟩
        · simp [hfl] at h
        · obtain ⟨c1, c2, _⟩ := flush_dirty_cases f g sb rr hbuf hdirty hfl
          simp only [hfl] at h
          cases rr with
          | FAIL =>
            simp only [Option.some.injEq, Prod.mk.injEq] at h
            rw [← h.1] at hch
            rcases hch with hch | hch
            · exact hch c1
            · exact hch c2
          | SUCCEED =>
            obtain ⟨_, b2, b3, _⟩ := block_read_fields g addr size
            simp only [Option.some.injEq, Prod.mk.injEq] at h
            rw [← h.1] at hch
            rcases hch with hch | hch
            · exact hch (b2.trans c1)
            · exact hch (b3.trans c2)
      · simp only [hov, Bool.false_eq_true, if_false] at h
        obtain ⟨_, b2, b3, _⟩ := block_read_fields f addr size
        simp only [Option.some.injEq, Prod.mk.injEq] at h
        rw [← h.1] at hch
        rcases hch with hch | hch
        · exact hch b2
        · exact hch b3
    · simp only [hgt, if_false, readv_replace] at h
      rcases hfl : sieve_flush f (stash f) with _ | ⟨g, rr⟩
      · simp [hfl] at h
      · obtain ⟨c1, c2, c3⟩ := flush_dirty_cases f g sb rr hbuf hdirty hfl
        simp only [hfl] at h
        cases rr with
        | FAIL =>
          exfalso
          simp only [Option.some.injEq, Prod.mk.injEq] at h
          rw [← h.1] at hch
          rcases hch with hch | hch
          · exact hch c1
          · exact hch c2
        | SUCCEED =>
          simp only at h
          rcases hw : readv_window g _max_data offset addr size with _ | ⟨g2, r2⟩
          · simp [hw] at h
          · simp only [hw, Option.some.injEq, Prod.mk.injEq] at h
            obtain ⟨rest, hrest⟩ := readv_window_log g g2 _ _ _ _ r2 hw
            refine ⟨rest, ?_⟩
            rw [← h.1, hrest, c3 rfl]
            simp
  · intro f1 l1 r h hch
    unfold writev_miss at h
    by_cases hgt : size > f.sieve_buf_size
    · simp only [hgt, if_true, writev_direct] at h
      by_cases hov : overlap_check (stash f) addr contig_end = true
      · simp only [hov, if_true] at h
        rcases hfl : sieve_flush f (stash f) with _ | ⟨g, rr⟩
        · simp [hfl] at h
        · obtain ⟨c1, c2, c3⟩ := flush_dirty_cases f g sb rr hbuf hdirty hfl
          simp only [hfl] at h
          cases rr with
          | FAIL =>
            exfalso
            simp only [Option.some.injEq, Prod.mk.injEq] at h
            rw [← h.1] at hch
            rcases hch with hch | hch
            · exact hch c1
            · exact hch c2
          | SUCCEED =>
            left
            obtain ⟨_, _, _, _, _, _, b7⟩ := block_write_fields
              { g with sieve_loc := HADDR_UNDEF, sieve_size := 0 } addr size bytes
            simp only [Option.some.injEq, Prod.mk.injEq] at h
            refine ⟨[Event.block_write addr size (bytes.take size)
              (decide ((H5F_block_write { g with sieve_loc := HADDR_UNDEF, sieve_size := 0 }
                addr size bytes).2 = herr_t.SUCCEED))], ?_⟩
            rw [← h.1, b7]
            simp only
            rw [c3 rfl]
            simp
      · exfalso
        simp only [hov, Bool.false_eq_true, if_false] at h
        obtain ⟨_, b2, b3, _⟩ := block_write_fields f addr size bytes
        simp only [Option.some.injEq, Prod.mk.injEq] at h
        rw [← h.1] at hch
        rcases hch with hch | hch
        · exact hch b2
        · exact hch b3
    · simp only [hgt, if_false] at h
      by_cases hce : can_extend f (stash f) addr size = true
      · right
        simp only [hce, if_true] at h
        rcases he : writev_extend f (stash f) addr size bytes with _ | g
        · simp [he] at h
        · simp only [he, Option.some.injEq, Prod.mk.injEq] at h
          obtain ⟨e1, e2, e3, e4, e5⟩ := writev_extend_spec f g addr size bytes sb hbuf hbytes he
          rw [← h.1]
          exact ⟨by omega, hce, e1, by rw [e2, hdirty], e3, e4, e5⟩
      · left
        simp only [hce, Bool.false_eq_true, if_false, writev_replace] at h
        rcases hfl : sieve_flush f (stash f) with _ | ⟨g, rr⟩
        · simp [hfl] at h
        · obtain ⟨c1, c2, c3⟩ := flush_dirty_cases f g sb rr hbuf hdirty hfl
          simp only [hfl] at h
          cases rr with
          | FAIL =>
            exfalso
            simp only [Option.some.injEq, Prod.mk.injEq] at h
            rw [← h.1] at hch
            rcases hch with hch | hch
            · exact hch c1
            · exact hch c2
          | SUCCEED =>
            simp only at h
            rcases hw : writev_window g _max_data offset addr size bytes with _ | ⟨g2, r2⟩
            · simp [hw] at h
            · simp only [hw, Option.some.injEq, Prod.mk.injEq] at h
              obtain ⟨rest, hrest⟩ := writev_window_log g g2 _ _ _ _ _ r2 hw
              refine ⟨rest, ?_⟩
              rw [← h.1, hrest, c3 rfl]
              simp

/-- C1, the failing input (`H5F_contig_writev` lines 1003-1025): on a file of
20 bytes with a sieve buffer of 4 bytes, the write of `[1]` at 10 makes
`[10, 14)` the dirty window; the next call writes `[2, 3, 4, 5, 6]` at 6 and
`[7]` at 12.  Its first sequence is larger than the sieve buffer and overlaps
the window: the window is flushed and invalidated (`sieve_loc = HADDR_UNDEF`,
`sieve_size = 0`), but the local copies still say `[10, 14)`, so the second
sequence is copied into the sieve buffer of a window that is no more.  The
read of 5 bytes at 12 then succeeds and returns the initial byte 112 for
address 12, where `7` is the byte most recently written. -/

theorem C1_stale_window_loses_write :
    H5F_contig_writev (demo_sieve_file 20 4) 20 0 1 [1] [10] [1] =
      some (c1_file1, herr_t.SUCCEED) ∧
    c1_file1.sieve_loc = 10 ∧ c1_file1.sieve_size = 4 ∧ c1_file1.sieve_dirty = true ∧
    H5F_contig_writev c1_file1 20 0 2 [5, 1] [6, 12] [2, 3, 4, 5, 6, 7] =
      some (c1_file2, herr_t.SUCCEED) ∧
    c1_file2.sieve_loc = HADDR_UNDEF ∧ c1_file2.sieve_size = 0 ∧
    c1_file2.sieve_buf = some [1, 111, 7, 113] ∧
    c1_file2.lf.data =
      [100, 101, 102, 103, 104, 105, 2, 3, 4, 5, 6, 111, 112, 113, 114, 115, 116, 117, 118, 119] ∧
    (H5F_contig_readv c1_file2 20 0 1 [5] [12]).map (fun r => r.2) =
      some (herr_t.SUCCEED, [112, 113, 114, 115, 116]) ∧
    ((written (demo_sieve_file 20 4).lf.data
        [(10, [1]), (6, [2, 3, 4, 5, 6]), (12, [7])]).drop 12).take 5 =
      [7, 113, 114, 115, 116] := by
  refine ⟨by decide, by decide, by decide, by decide, by decide, by decide, by decide,
    by decide, by decide, by decide, by decide⟩

/-- C7, the counterexample: the window `[10, 12)` is dirty and `[3, 4]` is
written at address 8, right before it.  `H5F_contig_writev` succeeds, the
window is now at `sieve_loc = 8` with 4 bytes and still dirty, and no block
write has been issued: the trace of block I/O is empty and the disk is as it
was. -/

theorem C7_prepend_moves_dirty_window :
    H5F_contig_writev (demo_sieve_file 20 8) 12 0 1 [2] [10] [1, 2] =
      some (c7_file1, herr_t.SUCCEED) ∧
    c7_file1.sieve_loc = 10 ∧ c7_file1.sieve_size = 2 ∧ c7_file1.sieve_dirty = true ∧
    H5F_contig_writev c7_file1 12 0 1 [2] [8] [3, 4] = some (c7_file2, herr_t.SUCCEED) ∧
    c7_file2.sieve_loc = 8 ∧ c7_file2.sieve_size = 4 ∧ c7_file2.sieve_dirty = true ∧
    c7_file2.log = [] ∧ c7_file2.lf.data = (demo_sieve_file 20 8).lf.data := by
  refine ⟨by decide, by decide, by decide, by decide, by decide, by decide, by decide,
    by decide, by decide, by decide⟩

/-- C8, the counterexample: with the window `[0, 8)` and a sieve buffer of 8
bytes, `H5F_contig_writev` is called with the sequences (offset, size)
`(0, 1), (1, 9), (2, 1), (3, 1), (4, 1)`.  Sequence 0 is within the window;
the binary search probes the end addresses 2, 3 and 4 only and returns
`max_seq = 4`, so the copy loop takes sequence 1, whose 9 bytes exceed
`sieve_buf_size`, into the sieve buffer at offset 1 (past its end, which C
leaves undefined) and no direct block write is issued for it. -/

theorem C8_oversize_in_hit_run :
    H5F_contig_writev (demo_sieve_file 20 8) 20 0 1 [1] [0] [9] =
      some (c8_file1, herr_t.SUCCEED) ∧
    c8_file1.sieve_loc = 0 ∧ c8_file1.sieve_size = 8 ∧ c8_file1.sieve_buf_size = 8 ∧
    c8_file1.sieve_buf = some [9, 101, 102, 103, 104, 105, 106, 107] ∧
    within_sieve (stash c8_file1) 0 0 = true ∧
    hit_run 0 8 5 [1, 9, 1, 1, 1] [0, 1, 2, 3, 4] 0 = some 4 ∧
    writev_hit c8_file1 (stash c8_file1) 0 5 [1, 9, 1, 1, 1] [0, 1, 2, 3, 4] 0
      [20, 21, 22, 23, 24, 25, 26, 27, 28, 29, 30, 31, 32] = none ∧
    H5F_contig_writev c8_file1 20 0 5 [1, 9, 1, 1, 1] [0, 1, 2, 3, 4]
      [20, 21, 22, 23, 24, 25, 26, 27, 28, 29, 30, 31, 32] = none := by
  refine ⟨by decide, by decide, by decide, by decide, by decide, by decide, by decide,
    by decide, by decide⟩

/-- C9 at the dirty window `[10, 14)` of `c1_file1` and the request of 5 bytes
at address 6 (sieve buffer of 4 bytes): the window is written first. -/

theorem C9_flush_before_direct_witness :
    (c1_file1.sieve_buf = some [1, 111, 112, 113] ∧ c1_file1.sieve_dirty = true ∧
      c1_file1.sieve_buf_size < 5 ∧
      (∃ x, c1_file1.sieve_loc ≤ x ∧ x < c1_file1.sieve_loc + c1_file1.sieve_size ∧
        6 ≤ x ∧ x < 6 + 5)) ∧
    ((∃ f1 r, readv_miss c1_file1 (stash c1_file1) 20 6 6 5 (sub64 (add64 6 5) 1) =
        some (f1, stash c1_file1, r) ∧
      ((r = none ∧ f1.sieve_dirty = true ∧ f1.log = c1_file1.log ++
          [Event.block_write c1_file1.sieve_loc c1_file1.sieve_size
            (([1, 111, 112, 113] : List Nat).take c1_file1.sieve_size) false]) ∨
       (f1.sieve_dirty = false ∧ f1.log = c1_file1.log ++
          [Event.block_write c1_file1.sieve_loc c1_file1.sieve_size
            (([1, 111, 112, 113] : List Nat).take c1_file1.sieve_size) true,
           Event.block_read 6 5 r.isSome]))) ∧
    (∃ f1 r, writev_miss c1_file1 (stash c1_file1) 20 6 6 5 (sub64 (add64 6 5) 1)
        [2, 3, 4, 5, 6] = some (f1, stash c1_file1, r) ∧
      ((r = herr_t.FAIL ∧ f1.sieve_dirty = true ∧ f1.sieve_loc = c1_file1.sieve_loc ∧
          f1.sieve_size = c1_file1.sieve_size ∧ f1.log = c1_file1.log ++
          [Event.block_write c1_file1.sieve_loc c1_file1.sieve_size
            (([1, 111, 112, 113] : List Nat).take c1_file1.sieve_size) false]) ∨
       (f1.sieve_dirty = false ∧ f1.sieve_loc = HADDR_UNDEF ∧ f1.sieve_size = 0 ∧
          f1.log = c1_file1.log ++
          [Event.block_write c1_file1.sieve_loc c1_file1.sieve_size
            (([1, 111, 112, 113] : List Nat).take c1_file1.sieve_size) true,
           Event.block_write 6 5 (([2, 3, 4, 5, 6] : List Nat).take 5)
            (decide (r = herr_t.SUCCEED))])))) :=
  ⟨⟨by decide, by decide, by decide, ⟨10, by decide, by decide, by decide, by decide⟩⟩,
    C9_flush_before_direct c1_file1 (stash c1_file1) 20 6 6 5 [2, 3, 4, 5, 6] [1, 111, 112, 113]
      (Or.inl rfl) (by decide) (by decide) (by decide) (by decide) (by decide) (by decide)
      (by decide) ⟨10, by decide, by decide, by decide, by decide⟩⟩

/-- C8 at `c1_file1` (dirty window `[10, 14)`, sieve buffer of 4 bytes) and the
write of 5 bytes at address 0, which shares no byte with the window. -/

theorem C8_oversize_write_direct_witness :
    (c1_file1.sieve_buf_size < 5 ∧ c1_file1.sieve_buf = some [1, 111, 112, 113] ∧
      (c1_file1.sieve_loc + c1_file1.sieve_size ≤ 0 ∨ 0 + 5 ≤ c1_file1.sieve_loc)) ∧
    ((∃ f1 r, writev_nobuf c1_file1 20 0 0 5 [2, 3, 4, 5, 6] = some (f1, r) ∧
      f1.sieve_buf = c1_file1.sieve_buf ∧ f1.sieve_loc = c1_file1.sieve_loc ∧
      f1.sieve_size = c1_file1.sieve_size ∧ f1.sieve_dirty = c1_file1.sieve_dirty ∧
      f1.log = c1_file1.log ++
        [Event.block_write 0 5 [2, 3, 4, 5, 6] (decide (r = herr_t.SUCCEED))]) ∧
    (c1_file1.sieve_buf = some [1, 111, 112, 113] →
      (stash c1_file1).sieve_size ≤ ([1, 111, 112, 113] : List Nat).length →
      ∃ f1 r, writev_miss c1_file1 (stash c1_file1) 20 0 0 5 (sub64 (add64 0 5) 1)
          [2, 3, 4, 5, 6] = some (f1, stash c1_file1, r) ∧
        f1.sieve_buf = c1_file1.sieve_buf ∧
        ((r = herr_t.FAIL ∧ f1.log = c1_file1.log ++
            [Event.block_write (stash c1_file1).sieve_start (stash c1_file1).sieve_size
              (([1, 111, 112, 113] : List Nat).take (stash c1_file1).sieve_size) false]) ∨
         (f1.log = c1_file1.log ++
            [Event.block_write (stash c1_file1).sieve_start (stash c1_file1).sieve_size
              (([1, 111, 112, 113] : List Nat).take (stash c1_file1).sieve_size) true,
             Event.block_write 0 5 [2, 3, 4, 5, 6] (decide (r = herr_t.SUCCEED))]) ∨
         (f1.log = c1_file1.log ++
            [Event.block_write 0 5 [2, 3, 4, 5, 6] (decide (r = herr_t.SUCCEED))])) ∧
        (stash c1_file1 = stash c1_file1 →
          (0 < c1_file1.sieve_size ∨ c1_file1.sieve_loc = HADDR_UNDEF) →
          c1_file1.sieve_size ≤ c1_file1.sieve_buf_size →
          c1_file1.sieve_loc + c1_file1.sieve_size < HADDR_MOD → 0 + 5 < HADDR_UNDEF →
          (c1_file1.sieve_loc + c1_file1.sieve_size ≤ 0 ∨ 0 + 5 ≤ c1_file1.sieve_loc) →
          f1.sieve_loc = c1_file1.sieve_loc ∧ f1.sieve_size = c1_file1.sieve_size ∧
          f1.sieve_dirty = c1_file1.sieve_dirty ∧
          f1.log = c1_file1.log ++
            [Event.block_write 0 5 [2, 3, 4, 5, 6] (decide (r = herr_t.SUCCEED))]))) :=
  ⟨⟨by decide, by decide, by decide⟩,
    C8_oversize_write_direct c1_file1 (stash c1_file1) 20 0 0 5 [2, 3, 4, 5, 6] [1, 111, 112, 113]
      (by decide) (by decide)⟩

/-- C7 at the dirty window `[10, 14)` of `c1_file1` and a sequence of one byte
at address 0, which replaces the window. -/

theorem C7_flush_before_window_change_witness :
    (c1_file1.sieve_buf = some [1, 111, 112, 113] ∧ c1_file1.sieve_dirty = true ∧
      (writev_miss c1_file1 (stash c1_file1) 20 0 0 1 0 [9]).map (fun r => r.1.sieve_loc) =
        some 0) ∧
    ((∀ f1 l1 r, readv_miss c1_file1 (stash c1_file1) 20 0 0 1 0 = some (f1, l1, r) →
      (f1.sieve_loc ≠ c1_file1.sieve_loc ∨ f1.sieve_size ≠ c1_file1.sieve_size) →
      ∃ rest, f1.log = c1_file1.log ++
        Event.block_write c1_file1.sieve_loc c1_file1.sieve_size
          (([1, 111, 112, 113] : List Nat).take c1_file1.sieve_size) true :: rest) ∧
    (∀ f1 l1 r,
      writev_miss c1_file1 (stash c1_file1) 20 0 0 1 0 [9] = some (f1, l1, r) →
      (f1.sieve_loc ≠ c1_file1.sieve_loc ∨ f1.sieve_size ≠ c1_file1.sieve_size) →
      (∃ rest, f1.log = c1_file1.log ++
        Event.block_write c1_file1.sieve_loc c1_file1.sieve_size
          (([1, 111, 112, 113] : List Nat).take c1_file1.sieve_size) true :: rest) ∨
      (1 ≤ c1_file1.sieve_buf_size ∧ can_extend c1_file1 (stash c1_file1) 0 1 = true ∧
        f1.log = c1_file1.log ∧ f1.sieve_dirty = true ∧ f1.lf = c1_file1.lf ∧
        f1.sieve_size = add64 c1_file1.sieve_size 1 ∧
        ∃ sb1, f1.sieve_buf = some sb1 ∧
          ((add64 0 1 = c1_file1.sieve_loc ∧ f1.sieve_loc = 0 ∧
              (sb1.drop 1).take c1_file1.sieve_size =
                ([1, 111, 112, 113] : List Nat).take c1_file1.sieve_size) ∨
           (add64 0 1 ≠ c1_file1.sieve_loc ∧ f1.sieve_loc = c1_file1.sieve_loc ∧
              sb1.take c1_file1.sieve_size =
                ([1, 111, 112, 113] : List Nat).take c1_file1.sieve_size))))) :=
  ⟨⟨by decide, by decide, by decide⟩,
    C7_flush_before_window_change c1_file1 20 0 0 1 0 [9] [1, 111, 112, 113]
      (by decide) (by decide) (by decide)⟩

theorem stash_congr (f g : H5F_t) (h1 : g.sieve_loc = f.sieve_loc)
    (h2 : g.sieve_size = f.sieve_size) : stash g = stash f := by
  simp [stash, h1, h2]

/-- The local copies stay those of the window along the loop of
`H5F_contig_readv`: a branch for a sequence outside the window that succeeds
keeps them in step. -/
theorem sync_readv_miss (f f1 : H5F_t) (l l1 : Locals)
    (_max_data offset addr size contig_end : Nat) (r : Option (List Nat))
    (hsync : l = stash f)
    (h : readv_miss f l _max_data offset addr size contig_end = some (f1, l1, r)) :
    l1 = stash f1 := by
  unfold readv_miss at h
  split_ifs at h with hgt
  · rcases hd : readv_direct f l addr size contig_end with _ | ⟨g, rr⟩
    · simp [hd] at h
    · simp only [hd, Option.some.injEq, Prod.mk.injEq] at h
      obtain ⟨h1, h2, _⟩ := h
      subst h1; subst h2
      unfold readv_direct at hd
      rw [hsync]
      symm
      split_ifs at hd with hov
      · rcases hfl : sieve_flush f l with _ | ⟨g2, r2⟩
        · simp [hfl] at hd
        · obtain ⟨_, s2, s3, _⟩ := sieve_flush_spec f l g2 r2 hfl
          simp only [hfl] at hd
          cases r2 with
          | FAIL =>
            simp only [Option.some.injEq, Prod.mk.injEq] at hd
            rw [← hd.1]; exact stash_congr _ _ s2 s3
          | SUCCEED =>
            obtain ⟨_, b2, b3, _⟩ := block_read_fields g2 addr size
            simp only [Option.some.injEq] at hd
            have hg : g = (H5F_block_read g2 addr size).1 := by rw [hd]
            rw [hg]
            exact stash_congr _ _ (b2.trans s2) (b3.trans s3)
      · obtain ⟨_, b2, b3, _⟩ := block_read_fields f addr size
        simp only [Option.some.injEq] at hd
        have hg : g = (H5F_block_read f addr size).1 := by rw [hd]
        rw [hg]
        exact stash_congr _ _ b2 b3
  · rcases hd : readv_replace f l _max_data offset addr size with _ | ⟨g, rr⟩
    · simp [hd] at h
    · simp only [hd, Option.some.injEq, Prod.mk.injEq] at h
      obtain ⟨h1, h2, _⟩ := h
      subst h1; subst h2; rfl

/-- The local copies along the loop of `H5F_contig_writev`: after a branch for
a sequence outside the window they are those of the window, or the window has
been invalidated and is empty (the direct write over an overlapping window
leaves the local copies as they were). -/
theorem sync_writev_miss (f f1 : H5F_t) (l l1 : Locals)
    (_max_data offset addr size contig_end : Nat) (bytes : List Nat) (r : herr_t)
    (hsync : l = stash f ∨ f.sieve_size = 0)
    (h : writev_miss f l _max_data offset addr size contig_end bytes = some (f1, l1, r)) :
    l1 = stash f1 ∨ f1.sieve_size = 0 := by
  unfold writev_miss at h
  split_ifs at h with hgt hce
  · rcases hd : writev_direct f l addr size contig_end bytes with _ | ⟨g, rr⟩
    · simp [hd] at h
    · simp only [hd, Option.some.injEq, Prod.mk.injEq] at h
      obtain ⟨h1, h2, _⟩ := h
      subst h1; subst h2
      unfold writev_direct at hd
      split_ifs at hd with hov
      · rcases hfl : sieve_flush f l with _ | ⟨g2, r2⟩
        · simp [hfl] at hd
        · obtain ⟨_, s2, s3, _⟩ := sieve_flush_spec f l g2 r2 hfl
          simp only [hfl] at hd
          cases r2 with
          | FAIL =>
            simp only [Option.some.injEq, Prod.mk.injEq] at hd
            rw [← hd.1]
            rcases hsync with hs | hs
            · left; rw [hs]; exact (stash_congr _ _ s2 s3).symm
            · right; rw [s3]; exact hs
          | SUCCEED =>
            right
            obtain ⟨_, _, b3, _⟩ := block_write_fields
              { g2 with sieve_loc := HADDR_UNDEF, sieve_size := 0 } addr size bytes
            simp only [Option.some.injEq] at hd
            have hg : g = (H5F_block_write { g2 with sieve_loc := HADDR_UNDEF, sieve_size := 0 }
                addr size bytes).1 := by rw [hd]
            rw [hg, b3]
      · obtain ⟨_, b2, b3, _⟩ := block_write_fields f addr size bytes
        simp only [Option.some.injEq] at hd
        have hg : g = (H5F_block_write f addr size bytes).1 := by rw [hd]
        rw [hg]
        rcases hsync with hs | hs
        · left; rw [hs]; exact (stash_congr _ _ b2 b3).symm
        · right; rw [b3]; exact hs
  · rcases hd : writev_extend f l addr size bytes with _ | g
    · simp [hd] at h
    · simp only [hd, Option.some.injEq, Prod.mk.injEq] at h
      obtain ⟨h1, h2, _⟩ := h
      subst h1; subst h2; left; rfl
  · rcases hd : writev_replace f l _max_data offset addr size bytes with _ | ⟨g, rr⟩
    · simp [hd] at h
    · simp only [hd, Option.some.injEq, Prod.mk.injEq] at h
      obtain ⟨h1, h2, _⟩ := h
      subst h1; subst h2; left; rfl

/-- The hit path of `H5F_contig_writev` leaves location and size of the window
as they are. -/
theorem sync_writev_hit (f f1 : H5F_t) (l : Locals) (_addr nseq : Nat)
    (size_arr offset_arr : List Nat) (u u1 : Nat) (buf buf1 : List Nat)
    (h : writev_hit f l _addr nseq size_arr offset_arr u buf = some (f1, buf1, u1)) :
    f1.sieve_loc = f.sieve_loc ∧ f1.sieve_size = f.sieve_size ∧ f1.log = f.log ∧
    f1.lf = f.lf ∧ f1.sieve_dirty = true := by
  unfold writev_hit at h
  cases hb : f.sieve_buf with
  | none => simp [hb] at h
  | some sb =>
    simp only [hb] at h
    rcases hm : hit_run _addr l.sieve_end nseq size_arr offset_arr u with _ | m
    · simp [hm] at h
    · simp only [hm] at h
      rcases hc : writev_copy _addr l.sieve_start size_arr offset_arr
        (m - u + 1) u sb buf with _ | ⟨sb2, buf2⟩
      · simp [hc] at h
      · simp only [hc, Option.some.injEq, Prod.mk.injEq] at h
        rw [← h.1]
        exact ⟨rfl, rfl, rfl, rfl, rfl⟩

/-- A call of `H5F_contig_writev` with one sequence that is outside the window
of an existing sieve buffer is the branch `writev_miss` with the local copies
of the window. -/
theorem writev_single_miss (f : H5F_t) (_max_data _addr size offset : Nat) (buf bytes sb : List Nat)
    (hs : f.lf.data_sieve = true) (hbuf : f.sieve_buf = some sb)
    (hout : within_sieve (stash f) (add64 _addr offset)
      (sub64 (add64 (add64 _addr offset) size) 1) = false)
    (hbytes : mem_read buf 0 size = some bytes) :
    H5F_contig_writev f _max_data _addr 1 [size] [offset] buf =
      (writev_miss f (stash f) _max_data offset (add64 _addr offset) size
        (sub64 (add64 (add64 _addr offset) size) 1) bytes).map (fun r => (r.1, r.2.2)) := by
  simp only [H5F_contig_writev, List.length_singleton, le_refl, and_self, if_true, hs,
    writev_outer, Nat.lt_one_iff, hbuf, Nat.sub_zero, writev_inner, List.getD_cons_zero,
    hout, Bool.false_eq_true, if_false, hbytes]
  rcases hm : writev_miss f (stash f) _max_data offset (add64 _addr offset) size
    (sub64 (add64 (add64 _addr offset) size) 1) bytes with _ | ⟨g, l2, r⟩
  · simp
  · cases r <;> simp

/-- A call of `H5F_contig_readv` with one sequence that is outside the window
of an existing sieve buffer is the branch `readv_miss` with the local copies
of the window. -/
theorem readv_single_miss (f : H5F_t) (_max_data _addr size offset : Nat) (sb : List Nat)
    (hs : f.lf.data_sieve = true) (hbuf : f.sieve_buf = some sb)
    (hout : within_sieve (stash f) (add64 _addr offset)
      (sub64 (add64 (add64 _addr offset) size) 1) = false) :
    H5F_contig_readv f _max_data _addr 1 [size] [offset] =
      (readv_miss f (stash f) _max_data offset (add64 _addr offset) size
        (sub64 (add64 (add64 _addr offset) size) 1)).map
        (fun r => (r.1, (if r.2.2.isSome then herr_t.SUCCEED else herr_t.FAIL), r.2.2.getD [])) := by
  simp only [H5F_contig_readv, List.length_singleton, le_refl, and_self, if_true, hs,
    readv_outer, Nat.lt_one_iff, hbuf, Nat.sub_zero, readv_inner, List.getD_cons_zero,
    hout, Bool.false_eq_true, if_false]
  rcases hm : readv_miss f (stash f) _max_data offset (add64 _addr offset) size
    (sub64 (add64 (add64 _addr offset) size) 1) with _ | ⟨g, l2, r⟩
  · simp
  · cases r <;> simp

theorem temp_end_eq (_addr : Nat) (size_arr offset_arr : List Nat) (i : Nat) :
    temp_end _addr size_arr offset_arr i =
      sub64 (add64 (add64 _addr (offset_arr.getD i 0)) (size_arr.getD i 0)) 1 := by
  simp only [temp_end, add64, sub64, HADDR_MOD]
  omega

theorem linear_search_ge (_addr sieve_end nseq : Nat) (size_arr offset_arr : List Nat) :
    ∀ (fuel m : Nat), m ≤ linear_search _addr sieve_end nseq size_arr offset_arr fuel m ∧
      (0 < fuel → temp_end _addr size_arr offset_arr m < sieve_end →
        m + 1 ≤ linear_search _addr sieve_end nseq size_arr offset_arr fuel m) ∧
      (m < nseq → linear_search _addr sieve_end nseq size_arr offset_arr fuel m ≤ nseq) := by
  intro fuel
  induction fuel with
  | zero => intro m; simp [linear_search]; omega
  | succ k ih =>
    intro m
    simp only [linear_search]
    by_cases ht : temp_end _addr size_arr offset_arr m < sieve_end
    · simp only [ht, if_true]
      by_cases hn : m + 1 ≥ nseq
      · simp only [hn, if_true]
        exact ⟨by omega, fun _ _ => le_refl _, fun h => by omega⟩
      · simp only [hn, if_false]
        obtain ⟨h1, _, h3⟩ := ih (m + 1)
        exact ⟨by omega, fun _ _ => h1, fun _ => h3 (by omega)⟩
    · simp only [ht, if_false]
      exact ⟨le_refl _, fun _ h => h.elim, fun h => by omega⟩

theorem binary_search_inv (_addr sieve_end : Nat) (size_arr offset_arr : List Nat) :
    ∀ (fuel : Nat) (b : Bounds), b.lo ≤ b.max_seq → b.max_seq ≤ b.hi →
      b.lo ≤ (binary_search _addr sieve_end size_arr offset_arr fuel b).lo ∧
      (binary_search _addr sieve_end size_arr offset_arr fuel b).lo ≤
        (binary_search _addr sieve_end size_arr offset_arr fuel b).max_seq ∧
      (binary_search _addr sieve_end size_arr offset_arr fuel b).max_seq ≤
        (binary_search _addr sieve_end size_arr offset_arr fuel b).hi ∧
      (binary_search _addr sieve_end size_arr offset_arr fuel b).hi ≤ b.hi := by
  intro fuel
  induction fuel with
  | zero => intro b h1 h2; simp [binary_search, h1, h2]
  | succ k ih =>
    intro b h1 h2
    simp only [binary_search]
    by_cases ht : temp_end _addr size_arr offset_arr b.max_seq ≥ sieve_end
    · simp only [ht, if_true]
      by_cases hl : b.lo + 1 < b.hi
      · simp only [hl, if_true]
        obtain ⟨i1, i2, i3, i4⟩ := ih { lo := b.lo, hi := b.max_seq, max_seq := (b.lo + b.max_seq) / 2 }
          (by simp only; omega) (by simp only; omega)
        simp only at i1 i4
        exact ⟨i1, i2, i3, by omega⟩
      · simp only [hl, if_false]
        exact ⟨le_refl _, h1, h2, le_refl _⟩
    · simp only [ht, if_false]
      by_cases hl : b.lo + 1 < b.hi
      · simp only [hl, if_true]
        obtain ⟨i1, i2, i3, i4⟩ := ih { lo := b.max_seq, hi := b.hi, max_seq := (b.max_seq + b.hi + 1) / 2 }
          (by simp only; omega) (by simp only; omega)
        simp only at i1 i4
        exact ⟨by omega, i2, i3, i4⟩
      · simp only [hl, if_false]
        exact ⟨le_refl _, h1, h2, le_refl _⟩

/-- The run the search of the hit path selects starts at the current sequence
and stays inside the arrays: `u <= max_seq <= nseq - 1`, when sequence `u` ends
before the end of the window. -/
theorem hit_run_bounds (_addr sieve_end nseq : Nat) (size_arr offset_arr : List Nat) (u : Nat)
    (hu : u < nseq) (hend : temp_end _addr size_arr offset_arr u < sieve_end) (m : Nat)
    (hm : hit_run _addr sieve_end nseq size_arr offset_arr u = some m) :
    u ≤ m ∧ m ≤ nseq - 1 := by
  unfold hit_run at hm
  simp only at hm
  rcases hp : log2_probe_int (nseq - 1 - u + 1) with _ | log2
  · simp [hp] at hm
  simp only [hp, Option.some.injEq] at hm
  subst hm
  split_ifs with h1 h2 h3
  · obtain ⟨_, l2, l3⟩ := linear_search_ge _addr sieve_end nseq size_arr offset_arr nseq u
    have := l2 (by omega) hend
    have := l3 hu
    omega
  · obtain ⟨i1, i2, i3, i4⟩ := binary_search_inv _addr sieve_end size_arr offset_arr nseq
      { lo := u, hi := nseq - 1, max_seq := (u + (nseq - 1)) / 2 }
      (by simp only; omega) (by simp only; omega)
    simp only at i1 i4
    omega
  · obtain ⟨i1, i2, i3, i4⟩ := binary_search_inv _addr sieve_end size_arr offset_arr nseq
      { lo := u, hi := nseq - 1, max_seq := (u + (nseq - 1)) / 2 }
      (by simp only; omega) (by simp only; omega)
    simp only at i1 i4
    omega
  · obtain ⟨i1, i2, i3, i4⟩ := binary_search_inv _addr sieve_end size_arr offset_arr nseq
      { lo := u, hi := nseq - 1, max_seq := (u + (nseq - 1)) / 2 }
      (by simp only; omega) (by simp only; omega)
    simp only at i1 i4
    omega

/-- The search has a result when the shift of the log2 probe is defined. -/
theorem hit_run_defined (_addr sieve_end nseq : Nat) (size_arr offset_arr : List Nat) (u : Nat)
    (log2 : Nat) (hp : log2_probe_int (nseq - 1 - u + 1) = some log2) :
    ∃ m, hit_run _addr sieve_end nseq size_arr offset_arr u = some m := by
  unfold hit_run
  simp only [hp]
  exact ⟨_, rfl⟩

theorem and_shl_eq_zero (a b k : Nat) (h : a < 2 ^ k) : a &&& (b <<< k) = 0 := by
  apply Nat.eq_of_testBit_eq
  intro i
  rw [Nat.testBit_and, Nat.testBit_shiftLeft, Nat.zero_testBit]
  by_cases hi : k ≤ i
  · have : a.testBit i = false :=
      Nat.testBit_lt_two_pow (lt_of_lt_of_le h (Nat.pow_le_pow_right (by omega) hi))
    simp [this]
  · simp [hi]

theorem probe_byte_le (max_search : Nat) : ∀ (fuel mask bit_loc : Nat),
    (probe_byte max_search fuel mask bit_loc).2 ≤ bit_loc := by
  intro fuel
  induction fuel with
  | zero => intro mask bit_loc; simp [probe_byte]
  | succ k ih =>
    intro mask bit_loc
    simp only [probe_byte]
    split_ifs
    · exact le_trans (ih _ _) (Nat.sub_le _ _)
    · exact le_refl _

/-- When fewer than `2^24` sequences are left to search, the byte loop of the
log2 probe stops at a bit location below 31 and the `int` shift `1<<bit_loc`
is defined: the probe has a result. -/
theorem log2_probe_int_small (max_search : Nat) (h : max_search < 2 ^ 24) :
    ∃ log2, log2_probe_int max_search = some log2 := by
  have h56 : max_search &&& (255 <<< 56) = 0 :=
    and_shl_eq_zero _ _ _ (lt_of_lt_of_le h (by decide))
  have h48 : max_search &&& (255 <<< 48) = 0 :=
    and_shl_eq_zero _ _ _ (lt_of_lt_of_le h (by decide))
  have h40 : max_search &&& (255 <<< 40) = 0 :=
    and_shl_eq_zero _ _ _ (lt_of_lt_of_le h (by decide))
  have h32 : max_search &&& (255 <<< 32) = 0 :=
    and_shl_eq_zero _ _ _ (lt_of_lt_of_le h (by decide))
  have h24 : max_search &&& (255 <<< 24) = 0 :=
    and_shl_eq_zero _ _ _ (lt_of_lt_of_le h (by decide))
  have e1 : (255 <<< 56) >>> 8 = 255 <<< 48 := by decide
  have e2 : (255 <<< 48) >>> 8 = 255 <<< 40 := by decide
  have e3 : (255 <<< 40) >>> 8 = 255 <<< 32 := by decide
  have e4 : (255 <<< 32) >>> 8 = 255 <<< 24 := by decide
  have e5 : (255 <<< 24) >>> 8 = 255 <<< 16 := by decide
  have hb : probe_byte max_search 8 (255 <<< 56) 63 =
      probe_byte max_search 3 (255 <<< 16) 23 := by
    rw [probe_byte, if_pos h56, e1, probe_byte, if_pos h48, e2, probe_byte, if_pos h40, e3,
      probe_byte, if_pos h32, e4, probe_byte, if_pos h24, e5]
  have hle := probe_byte_le max_search 3 (255 <<< 16) 23
  rw [← hb] at hle
  have hlt : (probe_byte max_search 8 (255 <<< 56) 63).2 < 31 := by omega
  simp only [log2_probe_int, int_shl_one, hlt, if_true]
  exact ⟨_, rfl⟩

/-- With fewer than `2^24` sequences left from `u` on, the search of the hit
path has a result. -/
theorem hit_run_small (_addr sieve_end nseq : Nat) (size_arr offset_arr : List Nat) (u : Nat)
    (h : nseq - u < 2 ^ 24) :
    ∃ m, hit_run _addr sieve_end nseq size_arr offset_arr u = some m := by
  by_cases hu : u < nseq
  · obtain ⟨log2, hp⟩ := log2_probe_int_small (nseq - 1 - u + 1) (by omega)
    exact hit_run_defined _addr sieve_end nseq size_arr offset_arr u log2 hp
  · obtain ⟨log2, hp⟩ := log2_probe_int_small (nseq - 1 - u + 1) (by
      have : nseq - 1 - u + 1 = 1 := by omega
      rw [this]
      decide)
    exact hit_run_defined _addr sieve_end nseq size_arr offset_arr u log2 hp

/-- The search on the last sequence selects that sequence alone. -/
theorem hit_run_last (_addr sieve_end nseq : Nat) (size_arr offset_arr : List Nat) (u : Nat)
    (hu : u + 1 = nseq) (hend : temp_end _addr size_arr offset_arr u < sieve_end) :
    hit_run _addr sieve_end nseq size_arr offset_arr u = some u := by
  have hp : log2_probe_int (nseq - 1 - u + 1) = some 1 := by
    have : nseq - 1 - u + 1 = 1 := by omega
    rw [this]
    decide
  obtain ⟨m, hm⟩ := hit_run_defined _addr sieve_end nseq size_arr offset_arr u 1 hp
  have := hit_run_bounds _addr sieve_end nseq size_arr offset_arr u (by omega) hend m hm
  rw [hm]
  congr 1
  omega

/-- C13 (`H5F_contig_writev`, lines 792-999): for the current sequence `u` of
the loop, of size at least 1, whose range lies inside the window
(`sieve_loc <= addr` and `addr + size <= sieve_loc + sieve_size`), the loop
takes the hit path; the copy of the sequence replaces the `size` bytes of the
sieve buffer at offset `addr - sieve_loc` by the bytes of the user's buffer
and changes no other byte; the hit step issues no block I/O, leaves the disk,
`sieve_loc` and `sieve_size` as they are and sets `sieve_dirty`; the sieve
buffer it leaves is the one after that copy, followed by the copies of the
further sequences of the run, if the search selected any. -/

theorem C13_write_within_window (f : H5F_t) (l : Locals) (_addr nseq : Nat)
    (size_arr offset_arr : List Nat) (u : Nat) (buf sb : List Nat)
    (hsync : l = stash f ∨ f.sieve_size = 0)
    (hbuf : f.sieve_buf = some sb) (hlen : f.sieve_size ≤ sb.length)
    (hu : u < nseq) (hpos : 0 < size_arr.getD u 0)
    (hin1 : f.sieve_loc ≤ _addr + offset_arr.getD u 0)
    (hin2 : _addr + offset_arr.getD u 0 + size_arr.getD u 0 ≤ f.sieve_loc + f.sieve_size)
    (hw : f.sieve_loc + f.sieve_size < HADDR_MOD)
    (hbytes : size_arr.getD u 0 ≤ buf.length) :
    within_sieve l (add64 _addr (offset_arr.getD u 0))
      (sub64 (add64 (add64 _addr (offset_arr.getD u 0)) (size_arr.getD u 0)) 1) = true ∧
    writev_copy _addr l.sieve_start size_arr offset_arr 1 u sb buf =
      some (sb.take (_addr + offset_arr.getD u 0 - f.sieve_loc) ++ buf.take (size_arr.getD u 0) ++
              sb.drop (_addr + offset_arr.getD u 0 - f.sieve_loc + size_arr.getD u 0),
            buf.drop (size_arr.getD u 0)) ∧
    ∀ f1 buf1 u1, writev_hit f l _addr nseq size_arr offset_arr u buf = some (f1, buf1, u1) →
      f1.log = f.log ∧ f1.lf = f.lf ∧ f1.sieve_loc = f.sieve_loc ∧
      f1.sieve_size = f.sieve_size ∧ f1.sieve_dirty = true ∧ u < u1 ∧ u1 ≤ nseq ∧
      ∃ sbN, f1.sieve_buf = some sbN ∧
        writev_copy _addr l.sieve_start size_arr offset_arr (u1 - (u + 1)) (u + 1)
          (sb.take (_addr + offset_arr.getD u 0 - f.sieve_loc) ++ buf.take (size_arr.getD u 0) ++
            sb.drop (_addr + offset_arr.getD u 0 - f.sieve_loc + size_arr.getD u 0))
          (buf.drop (size_arr.getD u 0)) = some (sbN, buf1) := by
  have hl : l = stash f := by
    rcases hsync with h | h
    · exact h
    · omega
  subst hl
  have hwithin : within_sieve (stash f) (add64 _addr (offset_arr.getD u 0))
      (sub64 (add64 (add64 _addr (offset_arr.getD u 0)) (size_arr.getD u 0)) 1) = true := by
    simp only [within_sieve, stash, add64, sub64, HADDR_MOD, Bool.and_eq_true,
      decide_eq_true_eq] at *
    omega
  have hoff : add64 (sub64 _addr (stash f).sieve_start) (offset_arr.getD u 0) =
      _addr + offset_arr.getD u 0 - f.sieve_loc := by
    simp only [stash, add64, sub64, HADDR_MOD] at *
    omega
  have hrd : mem_read buf 0 (size_arr.getD u 0) = some (buf.take (size_arr.getD u 0)) := by
    simp only [mem_read, Nat.zero_add, hbytes, if_true, List.drop_zero]
  have htl : (buf.take (size_arr.getD u 0)).length = size_arr.getD u 0 := by
    rw [List.length_take]; omega
  have hwr : mem_write sb (_addr + offset_arr.getD u 0 - f.sieve_loc)
      (buf.take (size_arr.getD u 0)) =
      some (sb.take (_addr + offset_arr.getD u 0 - f.sieve_loc) ++ buf.take (size_arr.getD u 0) ++
        sb.drop (_addr + offset_arr.getD u 0 - f.sieve_loc + size_arr.getD u 0)) := by
    unfold mem_write
    rw [htl]
    have : _addr + offset_arr.getD u 0 - f.sieve_loc + size_arr.getD u 0 ≤ sb.length := by omega
    simp only [this, if_true]
  have hstep : ∀ (n : Nat), writev_copy _addr (stash f).sieve_start size_arr offset_arr (n + 1) u sb buf =
      writev_copy _addr (stash f).sieve_start size_arr offset_arr n (u + 1)
        (sb.take (_addr + offset_arr.getD u 0 - f.sieve_loc) ++ buf.take (size_arr.getD u 0) ++
          sb.drop (_addr + offset_arr.getD u 0 - f.sieve_loc + size_arr.getD u 0))
        (buf.drop (size_arr.getD u 0)) := by
    intro n
    rw [writev_copy, hrd]
    simp only
    rw [hoff, hwr]
  refine ⟨hwithin, ?_, ?_⟩
  · rw [hstep 0]; rfl
  · intro f1 buf1 u1 hit
    obtain ⟨s1, s2, s3, s4, s5⟩ := sync_writev_hit f f1 (stash f) _addr nseq size_arr offset_arr
      u u1 buf buf1 hit
    have hend : temp_end _addr size_arr offset_arr u < (stash f).sieve_end := by
      rw [temp_end_eq]
      simp only [within_sieve, Bool.and_eq_true, decide_eq_true_eq] at hwithin
      exact hwithin.2
    unfold writev_hit at hit
    simp only [hbuf] at hit
    rcases hm : hit_run _addr (stash f).sieve_end nseq size_arr offset_arr u with _ | m
    · rw [hm] at hit; simp at hit
    obtain ⟨hb1, hb2⟩ :=
      hit_run_bounds _addr (stash f).sieve_end nseq size_arr offset_arr u hu hend m hm
    rw [hm] at hit
    simp only at hit
    rw [hstep] at hit
    rcases hc : writev_copy _addr (stash f).sieve_start size_arr offset_arr
      (m - u) (u + 1)
      (sb.take (_addr + offset_arr.getD u 0 - f.sieve_loc) ++ buf.take (size_arr.getD u 0) ++
        sb.drop (_addr + offset_arr.getD u 0 - f.sieve_loc + size_arr.getD u 0))
      (buf.drop (size_arr.getD u 0)) with _ | ⟨sbN, bufN⟩
    · rw [hc] at hit; simp at hit
    · rw [hc] at hit
      simp only [Option.some.injEq, Prod.mk.injEq] at hit
      obtain ⟨h1, h2, h3⟩ := hit
      refine ⟨s3, s4, s1, s2, s5, by omega, by omega, sbN, by rw [← h1], ?_⟩
      have : u1 - (u + 1) = m - u := by
        omega
      rw [this, hc, h2]

/-- C13 at `c8_file1` (window `[0, 8)`) and the one sequence of 2 bytes at
address 3: the call changes the bytes 3 and 4 of the sieve buffer only. -/

theorem C13_write_within_window_witness :
    (c8_file1.sieve_buf = some [9, 101, 102, 103, 104, 105, 106, 107] ∧
      c8_file1.sieve_loc = 0 ∧ c8_file1.sieve_size = 8 ∧
      (H5F_contig_writev c8_file1 20 0 1 [2] [3] [50, 51]).map
          (fun r => (r.1.sieve_buf, r.1.log, r.1.lf, r.2)) =
        some (some [9, 101, 102, 50, 51, 105, 106, 107], c8_file1.log, c8_file1.lf,
          herr_t.SUCCEED)) ∧
    (within_sieve (stash c8_file1) (add64 0 (([3] : List Nat).getD 0 0))
      (sub64 (add64 (add64 0 (([3] : List Nat).getD 0 0)) (([2] : List Nat).getD 0 0)) 1) = true ∧
    writev_copy 0 (stash c8_file1).sieve_start [2] [3] 1 0
        [9, 101, 102, 103, 104, 105, 106, 107] [50, 51] =
      some (([9, 101, 102, 103, 104, 105, 106, 107] : List Nat).take
              (0 + ([3] : List Nat).getD 0 0 - c8_file1.sieve_loc) ++
              ([50, 51] : List Nat).take (([2] : List Nat).getD 0 0) ++
              ([9, 101, 102, 103, 104, 105, 106, 107] : List Nat).drop
                (0 + ([3] : List Nat).getD 0 0 - c8_file1.sieve_loc + ([2] : List Nat).getD 0 0),
            ([50, 51] : List Nat).drop (([2] : List Nat).getD 0 0)) ∧
    ∀ f1 buf1 u1, writev_hit c8_file1 (stash c8_file1) 0 1 [2] [3] 0 [50, 51] =
        some (f1, buf1, u1) →
      f1.log = c8_file1.log ∧ f1.lf = c8_file1.lf ∧ f1.sieve_loc = c8_file1.sieve_loc ∧
      f1.sieve_size = c8_file1.sieve_size ∧ f1.sieve_dirty = true ∧ 0 < u1 ∧ u1 ≤ 1 ∧
      ∃ sbN, f1.sieve_buf = some sbN ∧
        writev_copy 0 (stash c8_file1).sieve_start [2] [3] (u1 - (0 + 1)) (0 + 1)
          (([9, 101, 102, 103, 104, 105, 106, 107] : List Nat).take
              (0 + ([3] : List Nat).getD 0 0 - c8_file1.sieve_loc) ++
            ([50, 51] : List Nat).take (([2] : List Nat).getD 0 0) ++
            ([9, 101, 102, 103, 104, 105, 106, 107] : List Nat).drop
              (0 + ([3] : List Nat).getD 0 0 - c8_file1.sieve_loc + ([2] : List Nat).getD 0 0))
          (([50, 51] : List Nat).drop (([2] : List Nat).getD 0 0)) = some (sbN, buf1)) :=
  ⟨⟨by decide, by decide, by decide, by decide⟩,
    C13_write_within_window c8_file1 (stash c8_file1) 0 1 [2] [3] 0 [50, 51]
      [9, 101, 102, 103, 104, 105, 106, 107] (Or.inl rfl) (by decide) (by decide) (by decide)
      (by decide) (by decide) (by decide) (by decide) (by decide)⟩

theorem can_extend_iff (f : H5F_t) (addr size : Nat)
    (hw : f.sieve_loc + f.sieve_size < HADDR_MOD) (hr : addr + size < HADDR_MOD)
    (hcw : f.sieve_buf_size < HADDR_MOD) :
    can_extend f (stash f) addr size = true ↔
      ((addr + size = f.sieve_loc ∨ addr = f.sieve_loc + f.sieve_size) ∧
        size + f.sieve_size ≤ f.sieve_buf_size ∧ f.sieve_dirty = true) := by
  simp only [can_extend, stash, add64, HADDR_MOD, Bool.and_eq_true, Bool.or_eq_true,
    decide_eq_true_eq] at *
  constructor
  · rintro ⟨⟨h1, h2⟩, h3⟩
    refine ⟨by omega, by omega, h3⟩
  · rintro ⟨h1, h2, h3⟩
    refine ⟨⟨by omega, by omega⟩, h3⟩

theorem writev_extend_bytes (f : H5F_t) (addr size : Nat) (bytes sb : List Nat)
    (hbuf : f.sieve_buf = some sb) (hbytes : bytes.length = size)
    (hlen : f.sieve_size ≤ sb.length) (hfit : size + f.sieve_size ≤ sb.length) :
    ∃ f1 sb1, writev_extend f (stash f) addr size bytes = some f1 ∧
      f1.sieve_buf = some sb1 ∧ sb1.length = sb.length ∧
      f1.log = f.log ∧ f1.sieve_dirty = f.sieve_dirty ∧ f1.lf = f.lf ∧
      f1.sieve_buf_size = f.sieve_buf_size ∧
      f1.sieve_size = add64 f.sieve_size size ∧
      ((add64 addr size = f.sieve_loc ∧ f1.sieve_loc = addr ∧ sb1.take size = bytes ∧
          (sb1.drop size).take f.sieve_size = sb.take f.sieve_size) ∨
       (add64 addr size ≠ f.sieve_loc ∧ f1.sieve_loc = f.sieve_loc ∧
          (sb1.drop f.sieve_size).take size = bytes ∧
          sb1.take f.sieve_size = sb.take f.sieve_size)) := by
  have hold : (sb.take f.sieve_size).length = f.sieve_size := by
    rw [List.length_take]; omega
  unfold writev_extend
  simp only [hbuf, stash]
  by_cases hp : add64 addr size = f.sieve_loc
  · simp only [hp, if_true]
    have h1 : mem_read sb 0 f.sieve_size = some (sb.take f.sieve_size) := by
      simp only [mem_read, Nat.zero_add, hlen, if_true, List.drop_zero]
    have h2 : mem_write sb size (sb.take f.sieve_size) =
        some (sb.take size ++ sb.take f.sieve_size ++ sb.drop (size + f.sieve_size)) := by
      simp only [mem_write, hold, hfit, if_true]
    have hl1 : (sb.take size ++ sb.take f.sieve_size ++ sb.drop (size + f.sieve_size)).length =
        sb.length := by
      simp only [List.length_append, List.length_take, List.length_drop]; omega
    have h3 : mem_write (sb.take size ++ sb.take f.sieve_size ++ sb.drop (size + f.sieve_size))
        0 bytes = some (bytes ++ (sb.take size ++ sb.take f.sieve_size ++
          sb.drop (size + f.sieve_size)).drop size) := by
      simp only [mem_write, Nat.zero_add, hbytes, hl1, List.take_zero, List.nil_append]
      have : size ≤ sb.length := by omega
      simp only [this, if_true]
    rw [h1]; simp only
    rw [h2]; simp only
    rw [h3]; simp only
    have hts : (sb.take size).length = size := by
      rw [List.length_take]; omega
    have e1 : (sb.take size ++ sb.take f.sieve_size ++ sb.drop (size + f.sieve_size)).drop size =
        sb.take f.sieve_size ++ sb.drop (size + f.sieve_size) := by
      rw [List.append_assoc]
      exact drop_append_len _ _ _ hts
    refine ⟨_, _, rfl, rfl, ?_, rfl, rfl, rfl, rfl, rfl, Or.inl ⟨trivial, rfl, ?_, ?_⟩⟩
    · rw [e1]
      simp only [List.length_append, List.length_take, List.length_drop, hbytes]; omega
    · exact take_append_len _ _ _ hbytes
    · rw [drop_append_len _ _ _ hbytes, e1]
      exact take_append_len _ _ _ hold
  · simp only [hp, if_false]
    have h2 : mem_write sb f.sieve_size bytes =
        some (sb.take f.sieve_size ++ bytes ++ sb.drop (f.sieve_size + bytes.length)) := by
      simp only [mem_write, hbytes]
      have : f.sieve_size + size ≤ sb.length := by omega
      simp only [this, if_true]
    rw [h2]
    refine ⟨_, _, rfl, rfl, ?_, rfl, rfl, rfl, rfl, rfl, Or.inr ⟨hp, rfl, ?_, ?_⟩⟩
    · simp only [List.length_append, List.length_take, List.length_drop, hbytes]; omega
    · rw [List.append_assoc, drop_append_len _ _ _ hold]
      exact take_append_len _ _ _ hbytes
    · rw [List.append_assoc]
      exact take_append_len _ _ _ hold

/-- The prepend / append branch with the local copies in step with the window
(`H5F_contig_writev`, lines 1027-1058; what C14 says, which holds then): in the
branch for a sequence that is not within the window, with the local copies
those of the window: if
`size <= sieve_buf_size`, the window is dirty, `size + sieve_size <=
sieve_buf_size` and `addr + size = sieve_loc` (prepend) or
`addr = sieve_loc + sieve_size` (append), the branch succeeds without block
I/O and without touching the disk; the window then starts at
`min addr sieve_loc`, has `sieve_size + size` bytes and is still dirty, and the
sieve buffer holds the written bytes at offset `addr - sieve_loc'` and the
bytes of the prior window at offset `sieve_loc - sieve_loc'` of the new start
`sieve_loc'`.  If one of the conditions fails, the branch is the direct write
(`size > sieve_buf_size`) or the flush followed by a new window at `addr`. -/

theorem extend_in_step (f : H5F_t) (_max_data offset addr size contig_end : Nat)
    (bytes sb : List Nat)
    (hbuf : f.sieve_buf = some sb) (hcap : f.sieve_buf_size ≤ sb.length)
    (hlen : f.sieve_size ≤ sb.length) (hbytes : bytes.length = size)
    (hw : f.sieve_loc + f.sieve_size < HADDR_MOD) (hr : addr + size < HADDR_MOD)
    (hcw : f.sieve_buf_size < HADDR_MOD) :
    (size ≤ f.sieve_buf_size → f.sieve_dirty = true →
      size + f.sieve_size ≤ f.sieve_buf_size →
      (addr + size = f.sieve_loc ∨ addr = f.sieve_loc + f.sieve_size) →
      ∃ f1 sb1,
        writev_miss f (stash f) _max_data offset addr size contig_end bytes =
          some (f1, stash f1, herr_t.SUCCEED) ∧
        f1.log = f.log ∧ f1.lf = f.lf ∧ f1.sieve_dirty = true ∧
        f1.sieve_loc = min addr f.sieve_loc ∧ f1.sieve_size = f.sieve_size + size ∧
        f1.sieve_buf = some sb1 ∧ sb1.length = sb.length ∧
        (sb1.drop (addr - f1.sieve_loc)).take size = bytes ∧
        (sb1.drop (f.sieve_loc - f1.sieve_loc)).take f.sieve_size = sb.take f.sieve_size) ∧
    (¬(size ≤ f.sieve_buf_size ∧ f.sieve_dirty = true ∧
        size + f.sieve_size ≤ f.sieve_buf_size ∧
        (addr + size = f.sieve_loc ∨ addr = f.sieve_loc + f.sieve_size)) →
      writev_miss f (stash f) _max_data offset addr size contig_end bytes =
        if size > f.sieve_buf_size then
          (writev_direct f (stash f) addr size contig_end bytes).map
            (fun r => (r.1, stash f, r.2))
        else
          (writev_replace f (stash f) _max_data offset addr size bytes).map
            (fun r => (r.1, stash r.1, r.2))) := by
  have hiff := can_extend_iff f addr size hw hr hcw
  constructor
  · intro hsz hdirty hfit hadj
    have hce : can_extend f (stash f) addr size = true := hiff.2 ⟨hadj, hfit, hdirty⟩
    obtain ⟨f1, sb1, e1, e2, e3, e4, e5, e6, _, e8, e9⟩ :=
      writev_extend_bytes f addr size bytes sb hbuf hbytes hlen (by omega)
    have hngt : ¬ size > f.sieve_buf_size := by omega
    have hsz2 : f1.sieve_size = f.sieve_size + size := by
      rw [e8]; simp only [add64, HADDR_MOD] at *; omega
    refine ⟨f1, sb1, ?_, e4, e6, by rw [e5, hdirty], ?_, hsz2, e2, e3, ?_, ?_⟩
    · simp only [writev_miss, hngt, if_false, hce, if_true, e1]
    · rcases e9 with ⟨p1, p2, _, _⟩ | ⟨p1, p2, _, _⟩
      · rw [p2]
        simp only [add64, HADDR_MOD] at p1 hr
        omega
      · rw [p2]
        simp only [add64, HADDR_MOD] at p1 hr
        omega
    · rcases e9 with ⟨p1, p2, p3, _⟩ | ⟨p1, p2, p3, _⟩
      · rw [p2, Nat.sub_self, List.drop_zero]; exact p3
      · have hadd : addr = f.sieve_loc + f.sieve_size := by
          simp only [add64, HADDR_MOD] at p1 hr
          omega
        rw [p2, hadd, Nat.add_sub_cancel_left]; exact p3
    · rcases e9 with ⟨p1, p2, _, p4⟩ | ⟨p1, p2, _, p4⟩
      · have hadd : f.sieve_loc - addr = size := by
          simp only [add64, HADDR_MOD] at p1 hr
          omega
        rw [p2, hadd]; exact p4
      · rw [p2, Nat.sub_self, List.drop_zero]; exact p4
  · intro hnot
    unfold writev_miss
    by_cases hgt : size > f.sieve_buf_size
    · simp only [hgt, if_true]
      rcases writev_direct f (stash f) addr size contig_end bytes with _ | ⟨g, r⟩ <;> rfl
    · have hce : can_extend f (stash f) addr size = false := by
        rw [Bool.eq_false_iff]
        intro h
        obtain ⟨h1, h2, h3⟩ := hiff.1 h
        exact hnot ⟨by omega, h3, h2, h1⟩
      simp only [hgt, if_false, hce, Bool.false_eq_true]
      rcases writev_replace f (stash f) _max_data offset addr size bytes with _ | ⟨g, r⟩ <;> rfl

/-- The branch at `c7_file1` (dirty window `[10, 12)`, sieve buffer of 8 bytes,
local copies in step) and the 2 bytes `[3, 4]` written at address 8: a
prepend. -/

theorem extend_in_step_example :
    (c7_file1.sieve_buf = some [1, 2, 0, 0, 0, 0, 0, 0] ∧ c7_file1.sieve_dirty = true ∧
      c7_file1.sieve_loc = 10 ∧ c7_file1.sieve_size = 2 ∧ c7_file1.sieve_buf_size = 8) ∧
    ((2 ≤ c7_file1.sieve_buf_size → c7_file1.sieve_dirty = true →
      2 + c7_file1.sieve_size ≤ c7_file1.sieve_buf_size →
      (8 + 2 = c7_file1.sieve_loc ∨ 8 = c7_file1.sieve_loc + c7_file1.sieve_size) →
      ∃ f1 sb1,
        writev_miss c7_file1 (stash c7_file1) 12 8 8 2 9 [3, 4] =
          some (f1, stash f1, herr_t.SUCCEED) ∧
        f1.log = c7_file1.log ∧ f1.lf = c7_file1.lf ∧ f1.sieve_dirty = true ∧
        f1.sieve_loc = min 8 c7_file1.sieve_loc ∧ f1.sieve_size = c7_file1.sieve_size + 2 ∧
        f1.sieve_buf = some sb1 ∧ sb1.length = ([1, 2, 0, 0, 0, 0, 0, 0] : List Nat).length ∧
        (sb1.drop (8 - f1.sieve_loc)).take 2 = [3, 4] ∧
        (sb1.drop (c7_file1.sieve_loc - f1.sieve_loc)).take c7_file1.sieve_size =
          ([1, 2, 0, 0, 0, 0, 0, 0] : List Nat).take c7_file1.sieve_size) ∧
    (¬(2 ≤ c7_file1.sieve_buf_size ∧ c7_file1.sieve_dirty = true ∧
        2 + c7_file1.sieve_size ≤ c7_file1.sieve_buf_size ∧
        (8 + 2 = c7_file1.sieve_loc ∨ 8 = c7_file1.sieve_loc + c7_file1.sieve_size)) →
      writev_miss c7_file1 (stash c7_file1) 12 8 8 2 9 [3, 4] =
        if 2 > c7_file1.sieve_buf_size then
          (writev_direct c7_file1 (stash c7_file1) 8 2 9 [3, 4]).map
            (fun r => (r.1, stash c7_file1, r.2))
        else
          (writev_replace c7_file1 (stash c7_file1) 12 8 8 2 [3, 4]).map
            (fun r => (r.1, stash r.1, r.2)))) :=
  ⟨⟨by decide, by decide, by decide, by decide, by decide⟩,
    extend_in_step c7_file1 12 8 8 2 9 [3, 4] [1, 2, 0, 0, 0, 0, 0, 0]
      (by decide) (by decide) (by decide) (by decide) (by decide) (by decide) (by decide)⟩

theorem sieve_fill_spec (g : H5F_t) (sb : List Nat)
    (hbuf : g.sieve_buf = some sb) (hfit : g.sieve_size ≤ sb.length) :
    (g.sieve_loc + g.sieve_size ≤ g.lf.data.length →
      sieve_fill g = some ({ log_event g (Event.block_read g.sieve_loc g.sieve_size true) with
        sieve_buf := some ((g.lf.data.drop g.sieve_loc).take g.sieve_size ++
          sb.drop g.sieve_size) }, herr_t.SUCCEED)) ∧
    (¬ g.sieve_loc + g.sieve_size ≤ g.lf.data.length →
      sieve_fill g = some (log_event g (Event.block_read g.sieve_loc g.sieve_size false),
        herr_t.FAIL)) := by
  constructor
  · intro hok
    have hl : ((g.lf.data.drop g.sieve_loc).take g.sieve_size).length = g.sieve_size := by
      rw [List.length_take, List.length_drop]; omega
    simp only [sieve_fill, H5F_block_read, hok, if_true, log_event, hbuf, mem_write,
      Nat.zero_add, hl, hfit, List.take_zero, List.nil_append]
  · intro hbad
    simp only [sieve_fill, H5F_block_read, hbad, if_false]

theorem getElem?_overlay (bytes dat rest : List Nat) (size n i : Nat)
    (hb : bytes.length = size) (hd : dat.length = n) (h1 : size ≤ i) (h2 : i < n) :
    (bytes ++ (dat ++ rest).drop size)[i]? = dat[i]? := by
  rw [List.getElem?_append_right (by omega), hb, List.getElem?_drop]
  have : size + (i - size) = i := by omega
  rw [this, List.getElem?_append_left (by omega)]

/-- The block of `H5F_contig_writev` that sets up a window at `addr`, when
the end of allocation is defined and the sieve buffer has room for
`sieve_buf_size` bytes. -/
theorem writev_window_spec (g : H5F_t) (_max_data offset addr size : Nat) (bytes sb : List Nat)
    (hbuf : g.sieve_buf = some sb) (hcap : g.sieve_buf_size ≤ sb.length)
    (hsz : size ≤ g.sieve_buf_size) (hbytes : bytes.length = size)
    (heoa : H5FD_get_eoa g.lf ≠ HADDR_UNDEF) :
    ∃ f1 r, writev_window g _max_data offset addr size bytes = some (f1, r) ∧
      f1.sieve_loc = addr ∧
      f1.sieve_size = window_size { g with sieve_loc := addr } _max_data offset ∧
      f1.lf = g.lf ∧ f1.sieve_buf_size = g.sieve_buf_size ∧
      f1.log = g.log ++ (if f1.sieve_size > size then
        [Event.block_read addr f1.sieve_size (decide (r = herr_t.SUCCEED))] else []) ∧
      (f1.sieve_size ≤ size → r = herr_t.SUCCEED) ∧
      (r = herr_t.FAIL → f1.sieve_dirty = g.sieve_dirty ∧ f1.sieve_buf = g.sieve_buf) ∧
      (r = herr_t.SUCCEED → f1.sieve_dirty = true ∧
        ∃ sb1, f1.sieve_buf = some sb1 ∧ sb1.length = sb.length ∧ sb1.take size = bytes ∧
          ∀ i, size ≤ i → i < f1.sieve_size → sb1[i]? = f1.lf.data[addr + i]?) := by
  have hn : window_size { g with sieve_loc := addr } _max_data offset ≤ sb.length := by
    have : window_size { g with sieve_loc := addr } _max_data offset ≤ g.sieve_buf_size := by
      unfold window_size
      exact le_trans (min_le_right _ _) (min_le_right _ _)
    omega
  have heoa2 : ¬ H5FD_get_eoa ({ g with sieve_loc := addr } : H5F_t).lf = HADDR_UNDEF := heoa
  have hwsz : size ≤ sb.length := by omega
  unfold writev_window
  simp only [heoa2, if_false]
  generalize window_size { g with sieve_loc := addr } _max_data offset = W at hn ⊢
  by_cases hgt : W > size
  · simp only [hgt, if_true]
    obtain ⟨s1, s2⟩ := sieve_fill_spec
      { g with sieve_loc := addr, sieve_size := W } sb hbuf hn
    by_cases hok : addr + W ≤ g.lf.data.length
    · rw [s1 hok]
      simp only [log_event, mem_write, Nat.zero_add, hbytes, List.take_zero, List.nil_append]
      have hdl : ((g.lf.data.drop addr).take W).length = W := by
        rw [List.length_take, List.length_drop]; omega
      have hlen1 : ((g.lf.data.drop addr).take W ++ sb.drop W).length = sb.length := by
        rw [List.length_append, hdl, List.length_drop]; omega
      have hc : size ≤ ((g.lf.data.drop addr).take W ++ sb.drop W).length := by
        rw [hlen1]; exact hwsz
      simp only [hc, if_true]
      refine ⟨_, _, rfl, rfl, rfl, rfl, rfl, ?_, ?_, ?_, ?_⟩
      · simp [hgt]
      · intro h; simp only at h; omega
      · intro h; cases h
      · intro _
        refine ⟨rfl, _, rfl, ?_, take_append_len _ _ _ hbytes, ?_⟩
        · rw [List.length_append, List.length_drop, hlen1, hbytes]; omega
        · intro i h1 h2
          simp only at h2 ⊢
          rw [getElem?_overlay bytes _ _ size _ i hbytes hdl h1 h2]
          rw [List.getElem?_take_of_lt h2, List.getElem?_drop]
    · rw [s2 hok]
      simp only [log_event]
      refine ⟨_, _, rfl, rfl, rfl, rfl, rfl, ?_, ?_, ?_, ?_⟩
      · simp [hgt]
      · intro h; simp only at h; omega
      · intro _; exact ⟨rfl, rfl⟩
      · intro h; cases h
  · simp only [hgt, if_false]
    simp only [hbuf, mem_write, Nat.zero_add, hbytes, hwsz, if_true,
      List.take_zero, List.nil_append]
    refine ⟨_, _, rfl, rfl, rfl, rfl, rfl, ?_, ?_, ?_, ?_⟩
    · simp [hgt]
    · intro _; rfl
    · intro h; cases h
    · intro _
      refine ⟨rfl, _, rfl, ?_, take_append_len _ _ _ hbytes, ?_⟩
      · rw [List.length_append, List.length_drop, hbytes]; omega
      · intro i h1 h2
        simp only at h2
        omega

theorem block_write_disk (f : H5F_t) (addr size : Nat) (buf : List Nat) :
    (H5F_block_write f addr size buf).1.lf.eoa = f.lf.eoa ∧
    (H5F_block_write f addr size buf).1.lf.data_sieve = f.lf.data_sieve := by
  unfold H5F_block_write
  split_ifs <;> simp [put_data, log_event]

theorem sieve_flush_eoa (f : H5F_t) (l : Locals) (g : H5F_t) (r : herr_t)
    (h : sieve_flush f l = some (g, r)) :
    H5FD_get_eoa g.lf = H5FD_get_eoa f.lf := by
  unfold sieve_flush at h
  by_cases hd : f.sieve_dirty = true
  · simp only [hd, if_true] at h
    cases hb : f.sieve_buf with
    | none => simp [hb] at h
    | some sb =>
      simp only [hb] at h
      by_cases hlen : sb.length < l.sieve_size
      · simp [hlen] at h
      · simp only [hlen, if_false] at h
        have hw := (block_write_disk f l.sieve_start l.sieve_size sb).1
        rcases hbw : H5F_block_write f l.sieve_start l.sieve_size sb with ⟨g1, rr⟩
        rw [hbw] at h hw
        cases rr <;>
          · simp only [Option.some.injEq, Prod.mk.injEq] at h
            rw [← h.1]
            exact hw
  · have hd2 : f.sieve_dirty = false := by simpa using hd
    simp only [hd2, Bool.false_eq_true, if_false, Option.some.injEq, Prod.mk.injEq] at h
    rw [← h.1]

/-- The block of `H5F_contig_readv` that sets up a window at `addr`, when
the end of allocation is defined and the sieve buffer has room for
`sieve_buf_size` bytes. -/
theorem readv_window_spec (g : H5F_t) (_max_data offset addr size : Nat) (sb : List Nat)
    (hbuf : g.sieve_buf = some sb) (hcap : g.sieve_buf_size ≤ sb.length)
    (hsz : size ≤ g.sieve_buf_size)
    (heoa : H5FD_get_eoa g.lf ≠ HADDR_UNDEF) :
    ∃ f1 r, readv_window g _max_data offset addr size = some (f1, r) ∧
      f1.sieve_loc = addr ∧
      f1.sieve_size = window_size { g with sieve_loc := addr } _max_data offset ∧
      f1.lf = g.lf ∧ f1.sieve_buf_size = g.sieve_buf_size ∧
      f1.log = g.log ++ [Event.block_read addr f1.sieve_size r.isSome] ∧
      (r = none → f1.sieve_dirty = g.sieve_dirty ∧ f1.sieve_buf = g.sieve_buf) ∧
      (∀ out, r = some out → f1.sieve_dirty = false ∧
        addr + f1.sieve_size ≤ f1.lf.data.length ∧
        ∃ sb1, f1.sieve_buf = some sb1 ∧ sb1.length = sb.length ∧
          sb1.take f1.sieve_size = (f1.lf.data.drop addr).take f1.sieve_size ∧
          sb1.drop f1.sieve_size = sb.drop f1.sieve_size ∧
          out = sb1.take size) := by
  have hn : window_size { g with sieve_loc := addr } _max_data offset ≤ sb.length := by
    have : window_size { g with sieve_loc := addr } _max_data offset ≤ g.sieve_buf_size := by
      unfold window_size
      exact le_trans (min_le_right _ _) (min_le_right _ _)
    omega
  have heoa2 : ¬ H5FD_get_eoa ({ g with sieve_loc := addr } : H5F_t).lf = HADDR_UNDEF := heoa
  have hwsz : size ≤ sb.length := by omega
  unfold readv_window
  simp only [heoa2, if_false]
  generalize window_size { g with sieve_loc := addr } _max_data offset = W at hn ⊢
  obtain ⟨s1, s2⟩ := sieve_fill_spec
    { g with sieve_loc := addr, sieve_size := W } sb hbuf hn
  by_cases hok : addr + W ≤ g.lf.data.length
  · rw [s1 hok]
    have hdl : ((g.lf.data.drop addr).take W).length = W := by
      rw [List.length_take, List.length_drop]; omega
    have hlen1 : ((g.lf.data.drop addr).take W ++ sb.drop W).length = sb.length := by
      rw [List.length_append, hdl, List.length_drop]; omega
    have hc : size ≤ ((g.lf.data.drop addr).take W ++ sb.drop W).length := by
      rw [hlen1]; exact hwsz
    simp only [log_event, mem_read, Nat.zero_add, hc, if_true, List.drop_zero]
    refine ⟨_, _, rfl, rfl, rfl, rfl, rfl, ?_, ?_, ?_⟩
    · simp
    · intro h; cases h
    · intro out hout
      simp only [Option.some.injEq] at hout
      refine ⟨rfl, hok, _, rfl, hlen1, take_append_len _ _ _ hdl, drop_append_len _ _ _ hdl,
        hout.symm⟩
  · rw [s2 hok]
    simp only [log_event]
    refine ⟨_, _, rfl, rfl, rfl, rfl, rfl, ?_, ?_, ?_⟩
    · simp
    · intro _; exact ⟨rfl, rfl⟩
    · intro out h; cases h

/-- C15 (`H5F_contig_writev`, lines 1060-1106 and 1129-1159): a sequence of
`size <= sieve_buf_size` bytes with the end of allocation defined.  In the
branch that allocates the sieve buffer, and in the branch that replaces the
window of a sieve buffer with room for `sieve_buf_size` bytes once the flush
has succeeded (a failed flush ends the sequence with the failure), the step
returns; the window then has `sieve_loc = addr` and
`sieve_size = MIN(rel_eoa - addr, MIN(_max_data - offset, sieve_buf_size))`,
the disk is that left by the flush, and the block I/O issued after the flush
is the block read of `(addr, sieve_size)` when `sieve_size > size` and nothing
otherwise.  Unless that read fails, the step succeeds with the dirty flag set,
the first `size` bytes of the sieve buffer the written data and every further
byte of the window the byte of the disk at its address. -/

theorem C15_write_sets_window (f : H5F_t) (l : Locals)
    (_max_data offset addr size contig_end : Nat) (bytes : List Nat)
    (hsz : size ≤ f.sieve_buf_size) (hbytes : bytes.length = size)
    (heoa : H5FD_get_eoa f.lf ≠ HADDR_UNDEF) :
    (∃ f1 r, writev_nobuf f _max_data offset addr size bytes = some (f1, r) ∧
      f1.sieve_loc = addr ∧
      f1.sieve_size = min (sub64 (sub64 (H5FD_get_eoa f.lf) f.base_addr) addr)
        (min (sub64 _max_data offset) f.sieve_buf_size) ∧
      f1.lf = f.lf ∧
      f1.log = f.log ++ (if f1.sieve_size > size then
        [Event.block_read addr f1.sieve_size (decide (r = herr_t.SUCCEED))] else []) ∧
      (f1.sieve_size ≤ size → r = herr_t.SUCCEED) ∧
      (r = herr_t.SUCCEED → f1.sieve_dirty = true ∧
        ∃ sb1, f1.sieve_buf = some sb1 ∧ sb1.take size = bytes ∧
          ∀ i, size ≤ i → i < f1.sieve_size → sb1[i]? = f1.lf.data[addr + i]?)) ∧
    (∀ sb, f.sieve_buf = some sb → f.sieve_buf_size ≤ sb.length → l.sieve_size ≤ sb.length →
      can_extend f l addr size = false →
      ∃ g rf, sieve_flush f l = some (g, rf) ∧
        (rf = herr_t.FAIL →
          writev_miss f l _max_data offset addr size contig_end bytes =
            some (g, stash g, herr_t.FAIL)) ∧
        (rf = herr_t.SUCCEED →
          ∃ f1 r, writev_miss f l _max_data offset addr size contig_end bytes =
              some (f1, stash f1, r) ∧
            f1.sieve_loc = addr ∧
            f1.sieve_size = min (sub64 (sub64 (H5FD_get_eoa f.lf) f.base_addr) addr)
              (min (sub64 _max_data offset) f.sieve_buf_size) ∧
            f1.lf = g.lf ∧
            f1.log = g.log ++ (if f1.sieve_size > size then
              [Event.block_read addr f1.sieve_size (decide (r = herr_t.SUCCEED))] else []) ∧
            (f1.sieve_size ≤ size → r = herr_t.SUCCEED) ∧
            (r = herr_t.SUCCEED → f1.sieve_dirty = true ∧
              ∃ sb1, f1.sieve_buf = some sb1 ∧ sb1.take size = bytes ∧
                ∀ i, size ≤ i → i < f1.sieve_size → sb1[i]? = f1.lf.data[addr + i]?))) := by
  have hngt : ¬ size > f.sieve_buf_size := by omega
  constructor
  · obtain ⟨f1, r, e1, e2, e3, e4, _, e6, e7, _, e9⟩ := writev_window_spec
      { f with sieve_buf := some (H5FL_BLK_ALLOC f.sieve_buf_size) } _max_data offset addr size
      bytes (H5FL_BLK_ALLOC f.sieve_buf_size) rfl
      (by simp [H5FL_BLK_ALLOC]) hsz hbytes heoa
    refine ⟨f1, r, ?_, e2, ?_, e4, e6, e7, ?_⟩
    · simp only [writev_nobuf, hngt, if_false, e1]
    · rw [e3]; rfl
    · intro hr
      obtain ⟨d1, sb1, d2, _, d3, d4⟩ := e9 hr
      exact ⟨d1, sb1, d2, d3, d4⟩
  · intro sb hbuf hcap hlen hce
    obtain ⟨g, rf, hfl⟩ := sieve_flush_total f l sb hbuf hlen
    obtain ⟨s1, _, _, s4, s5, _⟩ := sieve_flush_spec f l g rf hfl
    have hge := sieve_flush_eoa f l g rf hfl
    refine ⟨g, rf, hfl, ?_, ?_⟩
    · intro hr
      subst hr
      simp only [writev_miss, hngt, if_false, hce, Bool.false_eq_true, writev_replace, hfl]
    · intro hr
      subst hr
      obtain ⟨f1, r, e1, e2, e3, e4, _, e6, e7, _, e9⟩ := writev_window_spec
        g _max_data offset addr size bytes sb (by rw [s1, hbuf]) (by rw [s4]; exact hcap)
        (by rw [s4]; exact hsz) hbytes (by rw [hge]; exact heoa)
      refine ⟨f1, r, ?_, e2, ?_, e4, e6, e7, ?_⟩
      · simp only [writev_miss, hngt, if_false, hce, Bool.false_eq_true, writev_replace, hfl, e1]
      · rw [e3]
        simp only [window_size, hge, s5, s4]
      · intro hr
        obtain ⟨d1, sb1, d2, _, d3, d4⟩ := e9 hr
        exact ⟨d1, sb1, d2, d3, d4⟩

/-- C15 at the first write of a file of 20 bytes with a sieve buffer size of 8
(`[7, 8]` at address 4 allocates the buffer and makes `[4, 12)` the window),
and at `c7_file1` (dirty window `[10, 12)`) with `[5, 6]` written at address 0,
which replaces the window. -/

theorem C15_write_sets_window_witness :
    (∃ f1 r, writev_nobuf (demo_sieve_file 20 8) 20 4 4 2 [7, 8] = some (f1, r) ∧
      f1.sieve_loc = 4 ∧
      f1.sieve_size = min (sub64 (sub64 (H5FD_get_eoa (demo_sieve_file 20 8).lf)
        (demo_sieve_file 20 8).base_addr) 4)
        (min (sub64 20 4) (demo_sieve_file 20 8).sieve_buf_size) ∧
      f1.lf = (demo_sieve_file 20 8).lf ∧
      f1.log = (demo_sieve_file 20 8).log ++ (if f1.sieve_size > 2 then
        [Event.block_read 4 f1.sieve_size (decide (r = herr_t.SUCCEED))] else []) ∧
      (f1.sieve_size ≤ 2 → r = herr_t.SUCCEED) ∧
      (r = herr_t.SUCCEED → f1.sieve_dirty = true ∧
        ∃ sb1, f1.sieve_buf = some sb1 ∧ sb1.take 2 = [7, 8] ∧
          ∀ i, 2 ≤ i → i < f1.sieve_size → sb1[i]? = f1.lf.data[4 + i]?)) ∧
    (∃ g rf, sieve_flush c7_file1 (stash c7_file1) = some (g, rf) ∧
      (rf = herr_t.FAIL →
        writev_miss c7_file1 (stash c7_file1) 12 0 0 2 1 [5, 6] =
          some (g, stash g, herr_t.FAIL)) ∧
      (rf = herr_t.SUCCEED →
        ∃ f1 r, writev_miss c7_file1 (stash c7_file1) 12 0 0 2 1 [5, 6] =
            some (f1, stash f1, r) ∧
          f1.sieve_loc = 0 ∧
          f1.sieve_size = min (sub64 (sub64 (H5FD_get_eoa c7_file1.lf) c7_file1.base_addr) 0)
            (min (sub64 12 0) c7_file1.sieve_buf_size) ∧
          f1.lf = g.lf ∧
          f1.log = g.log ++ (if f1.sieve_size > 2 then
            [Event.block_read 0 f1.sieve_size (decide (r = herr_t.SUCCEED))] else []) ∧
          (f1.sieve_size ≤ 2 → r = herr_t.SUCCEED) ∧
          (r = herr_t.SUCCEED → f1.sieve_dirty = true ∧
            ∃ sb1, f1.sieve_buf = some sb1 ∧ sb1.take 2 = [5, 6] ∧
              ∀ i, 2 ≤ i → i < f1.sieve_size → sb1[i]? = f1.lf.data[0 + i]?))) ∧
    ((writev_nobuf (demo_sieve_file 20 8) 20 4 4 2 [7, 8]).map
        (fun r => (r.1.sieve_loc, r.1.sieve_size, r.1.sieve_buf, r.1.sieve_dirty)) =
      some (4, 8, some [7, 8, 106, 107, 108, 109, 110, 111], true) ∧
    (writev_nobuf (demo_sieve_file 20 8) 20 4 4 2 [7, 8]).map (fun r => (r.1.log, r.2)) =
      some ([Event.block_read 4 8 true], herr_t.SUCCEED)) ∧
    ((writev_miss c7_file1 (stash c7_file1) 12 0 0 2 1 [5, 6]).map
        (fun r => (r.1.sieve_loc, r.1.sieve_size, r.1.sieve_buf, r.1.sieve_dirty)) =
      some (0, 8, some [5, 6, 102, 103, 104, 105, 106, 107], true) ∧
    (writev_miss c7_file1 (stash c7_file1) 12 0 0 2 1 [5, 6]).map (fun r => (r.1.log, r.2.2)) =
      some ([Event.block_write 10 2 [1, 2] true, Event.block_read 0 8 true],
        herr_t.SUCCEED)) :=
  ⟨(C15_write_sets_window (demo_sieve_file 20 8) (stash (demo_sieve_file 20 8)) 20 4 4 2 5
      [7, 8] (by decide) (by decide) (by decide)).1,
    (C15_write_sets_window c7_file1 (stash c7_file1) 12 0 0 2 1 [5, 6]
      (by decide) (by decide) (by decide)).2 [1, 2, 0, 0, 0, 0, 0, 0]
      (by decide) (by decide) (by decide) (by decide),
    ⟨by decide, by decide⟩, ⟨by decide, by decide⟩⟩

theorem readv_out_window (sb1 out dat : List Nat) (size W : Nat)
    (h1 : sb1.take W = dat.take W) (h2 : out = sb1.take size) (h3 : size ≤ W) :
    out = dat.take size := by
  have e : (sb1.take W).take size = (dat.take W).take size := by rw [h1]
  rw [List.take_take, List.take_take, min_eq_left h3] at e
  rw [h2, e]

/-- C16, amended (`H5F_contig_readv`, lines 598-640 and 651-696): a sequence of
`size <= sieve_buf_size` bytes with the end of allocation defined.  In the
branch that allocates the sieve buffer, and in the branch that replaces the
window (local copies those of the window, sieve buffer with room for
`sieve_buf_size` bytes), the step returns.  A dirty window is first written
back by one block write of `(sieve_loc, sieve_size)` from the sieve buffer, a
clean one is left alone, and a failed write back ends the sequence with the
failure.  Then `sieve_loc = addr`,
`sieve_size = MIN(rel_eoa - addr, MIN(_max_data - offset, sieve_buf_size))` and
the one block read of `(addr, sieve_size)` is issued; when it succeeds the
dirty flag is clear, the first `sieve_size` bytes of the sieve buffer are the
bytes of the disk at `[addr, addr + sieve_size)`, and the destination receives
the first `size` bytes of the sieve buffer, which are the bytes of the disk at
`[addr, addr + size)` provided `size <= sieve_size`. -/

theorem C16_read_sets_window (f : H5F_t) (_max_data offset addr size contig_end : Nat)
    (hsz : size ≤ f.sieve_buf_size) (heoa : H5FD_get_eoa f.lf ≠ HADDR_UNDEF) :
    (∃ f1 r, readv_nobuf f _max_data offset addr size = some (f1, r) ∧
      f1.sieve_loc = addr ∧
      f1.sieve_size = min (sub64 (sub64 (H5FD_get_eoa f.lf) f.base_addr) addr)
        (min (sub64 _max_data offset) f.sieve_buf_size) ∧
      f1.lf = f.lf ∧
      f1.log = f.log ++ [Event.block_read addr f1.sieve_size r.isSome] ∧
      ∀ out, r = some out → f1.sieve_dirty = false ∧
        addr + f1.sieve_size ≤ f1.lf.data.length ∧
        ∃ sb1, f1.sieve_buf = some sb1 ∧
          sb1.take f1.sieve_size = (f1.lf.data.drop addr).take f1.sieve_size ∧
          out = sb1.take size ∧
          (size ≤ f1.sieve_size → out = (f1.lf.data.drop addr).take size)) ∧
    (∀ sb, f.sieve_buf = some sb → f.sieve_buf_size ≤ sb.length → f.sieve_size ≤ sb.length →
      ∃ g rf, sieve_flush f (stash f) = some (g, rf) ∧
        (f.sieve_dirty = true → g.log = f.log ++
          [Event.block_write f.sieve_loc f.sieve_size (sb.take f.sieve_size)
            (decide (rf = herr_t.SUCCEED))]) ∧
        (f.sieve_dirty = false → g = f ∧ rf = herr_t.SUCCEED) ∧
        (rf = herr_t.FAIL →
          readv_miss f (stash f) _max_data offset addr size contig_end =
            some (g, stash g, none)) ∧
        (rf = herr_t.SUCCEED →
          ∃ f1 r, readv_miss f (stash f) _max_data offset addr size contig_end =
              some (f1, stash f1, r) ∧
            f1.sieve_loc = addr ∧
            f1.sieve_size = min (sub64 (sub64 (H5FD_get_eoa f.lf) f.base_addr) addr)
              (min (sub64 _max_data offset) f.sieve_buf_size) ∧
            f1.lf = g.lf ∧
            f1.log = g.log ++ [Event.block_read addr f1.sieve_size r.isSome] ∧
            ∀ out, r = some out → f1.sieve_dirty = false ∧
              addr + f1.sieve_size ≤ f1.lf.data.length ∧
              ∃ sb1, f1.sieve_buf = some sb1 ∧
                sb1.take f1.sieve_size = (f1.lf.data.drop addr).take f1.sieve_size ∧
                out = sb1.take size ∧
                (size ≤ f1.sieve_size → out = (f1.lf.data.drop addr).take size))) := by
  have hngt : ¬ size > f.sieve_buf_size := by omega
  constructor
  · obtain ⟨f1, r, e1, e2, e3, e4, _, e6, _, e8⟩ := readv_window_spec
      { f with sieve_buf := some (H5FL_BLK_ALLOC f.sieve_buf_size) } _max_data offset addr size
      (H5FL_BLK_ALLOC f.sieve_buf_size) rfl (by simp [H5FL_BLK_ALLOC]) hsz heoa
    refine ⟨f1, r, ?_, e2, ?_, e4, e6, ?_⟩
    · simp only [readv_nobuf, hngt, if_false, e1]
    · rw [e3]; rfl
    · intro out hr
      obtain ⟨d1, d2, sb1, d3, _, d4, _, d5⟩ := e8 out hr
      exact ⟨d1, d2, sb1, d3, d4, d5, readv_out_window _ _ _ _ _ d4 d5⟩
  · intro sb hbuf hcap hlen
    obtain ⟨g, rf, hfl⟩ := sieve_flush_total f (stash f) sb hbuf hlen
    obtain ⟨s1, _, _, s4, s5, s6⟩ := sieve_flush_spec f (stash f) g rf hfl
    have hge := sieve_flush_eoa f (stash f) g rf hfl
    refine ⟨g, rf, hfl, ?_, ?_, ?_, ?_⟩
    · intro hd
      rcases s6 with ⟨hd2, _, _⟩ | ⟨_, sb2, hb2, _, hlog, _, _⟩
      · rw [hd] at hd2; cases hd2
      · rw [hbuf] at hb2
        cases hb2
        simpa [stash] using hlog
    · intro hd
      rcases s6 with ⟨_, h2, h3⟩ | ⟨hd2, _⟩
      · exact ⟨h2, h3⟩
      · rw [hd] at hd2; cases hd2
    · intro hr
      subst hr
      simp only [readv_miss, hngt, if_false, readv_replace, hfl]
    · intro hr
      subst hr
      obtain ⟨f1, r, e1, e2, e3, e4, _, e6, _, e8⟩ := readv_window_spec
        g _max_data offset addr size sb (by rw [s1, hbuf]) (by rw [s4]; exact hcap)
        (by rw [s4]; exact hsz) (by rw [hge]; exact heoa)
      refine ⟨f1, r, ?_, e2, ?_, e4, e6, ?_⟩
      · simp only [readv_miss, hngt, if_false, readv_replace, hfl, e1]
      · rw [e3]
        simp only [window_size, hge, s5, s4]
      · intro out hr
        obtain ⟨d1, d2, sb1, d3, _, d4, _, d5⟩ := e8 out hr
        exact ⟨d1, d2, sb1, d3, d4, d5, readv_out_window _ _ _ _ _ d4 d5⟩

/-- C16, amended, at the first read of a file of 20 bytes with a sieve buffer
size of 8 (2 bytes at address 4), and at `c8_file1` (dirty window `[0, 8)`)
with 4 bytes read at address 12, which replaces the window. -/

theorem C16_read_sets_window_witness :
    (∃ f1 r, readv_nobuf (demo_sieve_file 20 8) 20 4 4 2 = some (f1, r) ∧
      f1.sieve_loc = 4 ∧
      f1.sieve_size = min (sub64 (sub64 (H5FD_get_eoa (demo_sieve_file 20 8).lf)
        (demo_sieve_file 20 8).base_addr) 4)
        (min (sub64 20 4) (demo_sieve_file 20 8).sieve_buf_size) ∧
      f1.lf = (demo_sieve_file 20 8).lf ∧
      f1.log = (demo_sieve_file 20 8).log ++ [Event.block_read 4 f1.sieve_size r.isSome] ∧
      ∀ out, r = some out → f1.sieve_dirty = false ∧
        4 + f1.sieve_size ≤ f1.lf.data.length ∧
        ∃ sb1, f1.sieve_buf = some sb1 ∧
          sb1.take f1.sieve_size = (f1.lf.data.drop 4).take f1.sieve_size ∧
          out = sb1.take 2 ∧
          (2 ≤ f1.sieve_size → out = (f1.lf.data.drop 4).take 2)) ∧
    (∃ g rf, sieve_flush c8_file1 (stash c8_file1) = some (g, rf) ∧
      (c8_file1.sieve_dirty = true → g.log = c8_file1.log ++
        [Event.block_write c8_file1.sieve_loc c8_file1.sieve_size
          (([9, 101, 102, 103, 104, 105, 106, 107] : List Nat).take c8_file1.sieve_size)
          (decide (rf = herr_t.SUCCEED))]) ∧
      (c8_file1.sieve_dirty = false → g = c8_file1 ∧ rf = herr_t.SUCCEED) ∧
      (rf = herr_t.FAIL →
        readv_miss c8_file1 (stash c8_file1) 20 12 12 4 15 = some (g, stash g, none)) ∧
      (rf = herr_t.SUCCEED →
        ∃ f1 r, readv_miss c8_file1 (stash c8_file1) 20 12 12 4 15 =
            some (f1, stash f1, r) ∧
          f1.sieve_loc = 12 ∧
          f1.sieve_size = min (sub64 (sub64 (H5FD_get_eoa c8_file1.lf) c8_file1.base_addr) 12)
            (min (sub64 20 12) c8_file1.sieve_buf_size) ∧
          f1.lf = g.lf ∧
          f1.log = g.log ++ [Event.block_read 12 f1.sieve_size r.isSome] ∧
          ∀ out, r = some out → f1.sieve_dirty = false ∧
            12 + f1.sieve_size ≤ f1.lf.data.length ∧
            ∃ sb1, f1.sieve_buf = some sb1 ∧
              sb1.take f1.sieve_size = (f1.lf.data.drop 12).take f1.sieve_size ∧
              out = sb1.take 4 ∧
              (4 ≤ f1.sieve_size → out = (f1.lf.data.drop 12).take 4))) ∧
    ((readv_nobuf (demo_sieve_file 20 8) 20 4 4 2).map
        (fun r => (r.1.sieve_loc, r.1.sieve_size, r.1.sieve_buf, r.1.sieve_dirty)) =
      some (4, 8, some [104, 105, 106, 107, 108, 109, 110, 111], false) ∧
    (readv_nobuf (demo_sieve_file 20 8) 20 4 4 2).map (fun r => (r.1.log, r.2)) =
      some ([Event.block_read 4 8 true], some [104, 105])) ∧
    ((readv_miss c8_file1 (stash c8_file1) 20 12 12 4 15).map
        (fun r => (r.1.sieve_loc, r.1.sieve_size, r.1.sieve_buf, r.1.sieve_dirty)) =
      some (12, 8, some [112, 113, 114, 115, 116, 117, 118, 119], false) ∧
    (readv_miss c8_file1 (stash c8_file1) 20 12 12 4 15).map (fun r => (r.1.log, r.2.2)) =
      some ([Event.block_read 0 8 true,
        Event.block_write 0 8 [9, 101, 102, 103, 104, 105, 106, 107] true,
        Event.block_read 12 8 true], some [112, 113, 114, 115])) :=
  ⟨(C16_read_sets_window (demo_sieve_file 20 8) 20 4 4 2 5 (by decide) (by decide)).1,
    (C16_read_sets_window c8_file1 20 12 12 4 15 (by decide) (by decide)).2
      [9, 101, 102, 103, 104, 105, 106, 107] (by decide) (by decide) (by decide),
    ⟨by decide, by decide⟩, ⟨by decide, by decide⟩⟩

/-- C16, counterexample: a sequence of 6 bytes at address 16 of a file with
the end of allocation at 20 and a sieve buffer size of 8.  The new window is
`[16, 20)`, 4 bytes, and the call succeeds; the destination receives the 4
bytes of the window followed by 2 bytes of the sieve buffer that are not in
the window: bytes of the fresh block on a file without sieve buffer, the
bytes the prior window held for the addresses 4 and 5 on `c8_file1`. -/

theorem C16_read_longer_than_window :
    (H5F_contig_readv (demo_sieve_file 20 8) 30 0 1 [6] [16]).map
        (fun r => (r.1.sieve_loc, r.1.sieve_size, r.2.1, r.2.2)) =
      some (16, 4, herr_t.SUCCEED, [116, 117, 118, 119, 0, 0]) ∧
    (H5F_contig_readv c8_file1 30 0 1 [6] [16]).map
        (fun r => (r.1.sieve_loc, r.1.sieve_size, r.2.1, r.2.2)) =
      some (16, 4, herr_t.SUCCEED, [116, 117, 118, 119, 104, 105]) ∧
    (H5F_contig_readv c8_file1 30 0 1 [6] [16]).map (fun r => r.1.lf.data) =
      some [9, 101, 102, 103, 104, 105, 106, 107, 108, 109, 110, 111, 112, 113, 114, 115,
        116, 117, 118, 119] := by
  decide

theorem trace_refl (f : H5F_t) : Trace f f true :=
  ⟨rfl, [], by simp, Or.inl ⟨rfl, by simp⟩⟩

theorem trace_congr (f g f1 g1 : H5F_t) (ok : Bool)
    (h1 : f1.log = f.log) (h2 : H5FD_get_eoa f1.lf = H5FD_get_eoa f.lf)
    (h3 : g1.log = g.log) (h4 : H5FD_get_eoa g1.lf = H5FD_get_eoa g.lf)
    (h : Trace f g ok) : Trace f1 g1 ok := by
  obtain ⟨e, pre, hp, c⟩ := h
  refine ⟨by rw [h4, h2, e], pre, hp, ?_⟩
  rw [h1, h2, h3]
  exact c

theorem trace_trans (f g h : H5F_t) (ok : Bool) (h1 : Trace f g true) (h2 : Trace g h ok) :
    Trace f h ok := by
  obtain ⟨e1, p1, hp1, c1⟩ := h1
  obtain ⟨e2, p2, hp2, c2⟩ := h2
  have hl : g.log = f.log ++ p1 := by
    rcases c1 with ⟨_, h⟩ | ⟨h, _⟩ | ⟨h, _⟩
    · exact h
    · cases h
    · cases h
  refine ⟨e2.trans e1, p1 ++ p2, ?_, ?_⟩
  · intro e he
    rcases List.mem_append.1 he with h | h
    · exact hp1 e h
    · exact hp2 e h
  · rcases c2 with ⟨a, b⟩ | ⟨a, e, b, c⟩ | ⟨a, b, c⟩
    · exact Or.inl ⟨a, by rw [b, hl, List.append_assoc]⟩
    · exact Or.inr (Or.inl ⟨a, e, b, by rw [c, hl]; simp⟩)
    · exact Or.inr (Or.inr ⟨a, by rw [← e1]; exact b, by rw [c, hl, List.append_assoc]⟩)

theorem trace_block_read (f : H5F_t) (addr size : Nat) :
    Trace f (H5F_block_read f addr size).1 (H5F_block_read f addr size).2.isSome := by
  unfold H5F_block_read
  split_ifs
  · exact ⟨rfl, [Event.block_read addr size true], by simp [event_ok], Or.inl ⟨rfl, rfl⟩⟩
  · exact ⟨rfl, [], by simp, Or.inr (Or.inl ⟨rfl, Event.block_read addr size false, rfl,
      by simp [log_event]⟩)⟩

theorem trace_block_write (f : H5F_t) (addr size : Nat) (buf : List Nat) :
    Trace f (H5F_block_write f addr size buf).1
      (decide ((H5F_block_write f addr size buf).2 = herr_t.SUCCEED)) := by
  unfold H5F_block_write
  split_ifs
  · exact ⟨rfl, [Event.block_write addr size (buf.take size) true], by simp [event_ok],
      Or.inl ⟨by simp, by simp [put_data, log_event]⟩⟩
  · exact ⟨rfl, [], by simp, Or.inr (Or.inl ⟨by simp,
      Event.block_write addr size (buf.take size) false, rfl, by simp [log_event]⟩)⟩

theorem trace_sieve_flush (f : H5F_t) (l : Locals) (g : H5F_t) (r : herr_t)
    (h : sieve_flush f l = some (g, r)) : Trace f g (decide (r = herr_t.SUCCEED)) := by
  unfold sieve_flush at h
  by_cases hd : f.sieve_dirty = true
  · simp only [hd, if_true] at h
    cases hb : f.sieve_buf with
    | none => simp [hb] at h
    | some sb =>
      simp only [hb] at h
      by_cases hlen : sb.length < l.sieve_size
      · simp [hlen] at h
      · simp only [hlen, if_false] at h
        have hw := trace_block_write f l.sieve_start l.sieve_size sb
        rcases hbw : H5F_block_write f l.sieve_start l.sieve_size sb with ⟨g1, rr⟩
        rw [hbw] at h hw
        cases rr with
        | FAIL =>
          simp only [Option.some.injEq, Prod.mk.injEq] at h
          rw [← h.1, ← h.2]
          exact hw
        | SUCCEED =>
          simp only [Option.some.injEq, Prod.mk.injEq] at h
          rw [← h.1, ← h.2]
          exact trace_congr f g1 f _ _ rfl rfl rfl rfl hw
  · have hd2 : f.sieve_dirty = false := by simpa using hd
    simp only [hd2, Bool.false_eq_true, if_false, Option.some.injEq, Prod.mk.injEq] at h
    rw [← h.1, ← h.2]
    exact trace_refl f

theorem trace_sieve_fill (f g : H5F_t) (r : herr_t) (h : sieve_fill f = some (g, r)) :
    Trace f g (decide (r = herr_t.SUCCEED)) := by
  unfold sieve_fill at h
  have hw := trace_block_read f f.sieve_loc f.sieve_size
  rcases hr : H5F_block_read f f.sieve_loc f.sieve_size with ⟨g1, d⟩
  rw [hr] at h hw
  cases d with
  | none =>
    simp only [Option.some.injEq, Prod.mk.injEq] at h
    rw [← h.1, ← h.2]
    exact hw
  | some data =>
    simp only at h
    cases hb : g1.sieve_buf with
    | none => simp [hb] at h
    | some sb =>
      simp only [hb] at h
      cases hm : mem_write sb 0 data with
      | none => simp [hm] at h
      | some sb1 =>
        simp only [hm, Option.some.injEq, Prod.mk.injEq] at h
        rw [← h.1, ← h.2]
        exact trace_congr f g1 f _ _ rfl rfl rfl rfl hw

theorem trace_eoa_undef (f g : H5F_t) (h1 : g.log = f.log) (h2 : g.lf = f.lf)
    (h3 : H5FD_get_eoa f.lf = HADDR_UNDEF) : Trace f g false :=
  ⟨by rw [h2], [], by simp, Or.inr (Or.inr ⟨rfl, h3, by simp [h1]⟩)⟩

theorem trace_readv_window (f g : H5F_t) (_max_data offset addr size : Nat)
    (r : Option (List Nat)) (h : readv_window f _max_data offset addr size = some (g, r)) :
    Trace f g r.isSome := by
  unfold readv_window at h
  simp only at h
  split_ifs at h with he
  · simp only [Option.some.injEq, Prod.mk.injEq] at h
    rw [← h.1, ← h.2]
    exact trace_eoa_undef f _ rfl rfl he
  · rcases hf : sieve_fill { f with sieve_loc := addr, sieve_size := window_size { f with sieve_loc := addr } _max_data offset } with _ | ⟨g1, rr⟩
    · simp [hf] at h
    · have h0 := trace_sieve_fill _ g1 rr hf
      have ht := trace_congr _ g1 f g1 _ rfl rfl rfl rfl h0
      simp only [hf] at h
      cases rr with
      | FAIL =>
        simp only [Option.some.injEq, Prod.mk.injEq] at h
        rw [← h.1, ← h.2]
        exact ht
      | SUCCEED =>
        simp only at h
        cases hb : g1.sieve_buf with
        | none => simp [hb] at h
        | some sb =>
          simp only [hb] at h
          cases hm : mem_read sb 0 size with
          | none => simp [hm] at h
          | some bytes =>
            simp only [hm, Option.some.injEq, Prod.mk.injEq] at h
            rw [← h.1, ← h.2]
            exact trace_congr f g1 f _ _ rfl rfl rfl rfl ht

theorem trace_writev_window (f g : H5F_t) (_max_data offset addr size : Nat) (bytes : List Nat)
    (r : herr_t) (h : writev_window f _max_data offset addr size bytes = some (g, r)) :
    Trace f g (decide (r = herr_t.SUCCEED)) := by
  unfold writev_window at h
  simp only at h
  split_ifs at h with he hs
  · simp only [Option.some.injEq, Prod.mk.injEq] at h
    rw [← h.1, ← h.2]
    exact trace_eoa_undef f _ rfl rfl he
  · rcases hf : sieve_fill { f with sieve_loc := addr, sieve_size := window_size { f with sieve_loc := addr } _max_data offset } with _ | ⟨g1, rr⟩
    · simp [hf] at h
    · have h0 := trace_sieve_fill _ g1 rr hf
      have ht := trace_congr _ g1 f g1 _ rfl rfl rfl rfl h0
      simp only [hf] at h
      cases rr with
      | FAIL =>
        simp only [Option.some.injEq, Prod.mk.injEq] at h
        rw [← h.1, ← h.2]
        exact ht
      | SUCCEED =>
        simp only at h
        cases hb : g1.sieve_buf with
        | none => simp [hb] at h
        | some sb =>
          simp only [hb] at h
          cases hm : mem_write sb 0 bytes with
          | none => simp [hm] at h
          | some sb1 =>
            simp only [hm, Option.some.injEq, Prod.mk.injEq] at h
            rw [← h.1, ← h.2]
            exact trace_congr f g1 f _ _ rfl rfl rfl rfl ht
  · simp only at h
    cases hb : f.sieve_buf with
    | none => simp [hb] at h
    | some sb =>
      simp only [hb] at h
      cases hm : mem_write sb 0 bytes with
      | none => simp [hm] at h
      | some sb1 =>
        simp only [hm, Option.some.injEq, Prod.mk.injEq] at h
        rw [← h.1, ← h.2]
        exact trace_congr f f f _ _ rfl rfl rfl rfl (trace_refl f)

theorem trace_readv_direct (f g : H5F_t) (l : Locals) (addr size contig_end : Nat)
    (r : Option (List Nat)) (h : readv_direct f l addr size contig_end = some (g, r)) :
    Trace f g r.isSome := by
  unfold readv_direct at h
  by_cases hov : overlap_check l addr contig_end = true
  · simp only [hov, if_true] at h
    rcases hfl : sieve_flush f l with _ | ⟨g1, rr⟩
    · simp [hfl] at h
    · have ht := trace_sieve_flush f l g1 rr hfl
      simp only [hfl] at h
      cases rr with
      | FAIL =>
        simp only [Option.some.injEq, Prod.mk.injEq] at h
        rw [← h.1, ← h.2]
        exact ht
      | SUCCEED =>
        simp only [Option.some.injEq] at h
        have hw := trace_block_read g1 addr size
        rw [h] at hw
        exact trace_trans f g1 _ _ ht hw
  · simp only [hov, Bool.false_eq_true, if_false, Option.some.injEq] at h
    have hw := trace_block_read f addr size
    rw [h] at hw
    exact hw

theorem trace_readv_replace (f g : H5F_t) (l : Locals) (_max_data offset addr size : Nat)
    (r : Option (List Nat)) (h : readv_replace f l _max_data offset addr size = some (g, r)) :
    Trace f g r.isSome := by
  unfold readv_replace at h
  rcases hfl : sieve_flush f l with _ | ⟨g1, rr⟩
  · simp [hfl] at h
  · have ht := trace_sieve_flush f l g1 rr hfl
    simp only [hfl] at h
    cases rr with
    | FAIL =>
      simp only [Option.some.injEq, Prod.mk.injEq] at h
      rw [← h.1, ← h.2]
      exact ht
    | SUCCEED =>
      exact trace_trans f g1 _ _ ht (trace_readv_window g1 g _ _ _ _ r h)

theorem trace_readv_miss (f g : H5F_t) (l l2 : Locals)
    (_max_data offset addr size contig_end : Nat) (r : Option (List Nat))
    (h : readv_miss f l _max_data offset addr size contig_end = some (g, l2, r)) :
    Trace f g r.isSome := by
  unfold readv_miss at h
  by_cases hgt : size > f.sieve_buf_size
  · simp only [hgt, if_true] at h
    rcases hd : readv_direct f l addr size contig_end with _ | ⟨g1, r1⟩
    · simp [hd] at h
    · simp only [hd, Option.some.injEq, Prod.mk.injEq] at h
      rw [← h.1, ← h.2.2]
      exact trace_readv_direct f g1 l addr size contig_end r1 hd
  · simp only [hgt, if_false] at h
    rcases hd : readv_replace f l _max_data offset addr size with _ | ⟨g1, r1⟩
    · simp [hd] at h
    · simp only [hd, Option.some.injEq, Prod.mk.injEq] at h
      rw [← h.1, ← h.2.2]
      exact trace_readv_replace f g1 l _max_data offset addr size r1 hd

theorem trace_readv_nobuf (f g : H5F_t) (_max_data offset addr size : Nat)
    (r : Option (List Nat)) (h : readv_nobuf f _max_data offset addr size = some (g, r)) :
    Trace f g r.isSome := by
  unfold readv_nobuf at h
  by_cases hgt : size > f.sieve_buf_size
  · simp only [hgt, if_true, Option.some.injEq] at h
    have hw := trace_block_read f addr size
    rw [h] at hw
    exact hw
  · simp only [hgt, if_false] at h
    have h0 := trace_readv_window _ g _ _ _ _ r h
    exact trace_congr _ g f g _ rfl rfl rfl rfl h0

theorem trace_writev_direct (f g : H5F_t) (l : Locals) (addr size contig_end : Nat)
    (bytes : List Nat) (r : herr_t)
    (h : writev_direct f l addr size contig_end bytes = some (g, r)) :
    Trace f g (decide (r = herr_t.SUCCEED)) := by
  unfold writev_direct at h
  by_cases hov : overlap_check l addr contig_end = true
  · simp only [hov, if_true] at h
    rcases hfl : sieve_flush f l with _ | ⟨g1, rr⟩
    · simp [hfl] at h
    · have ht := trace_sieve_flush f l g1 rr hfl
      simp only [hfl] at h
      cases rr with
      | FAIL =>
        simp only [Option.some.injEq, Prod.mk.injEq] at h
        rw [← h.1, ← h.2]
        exact ht
      | SUCCEED =>
        simp only [Option.some.injEq] at h
        have hw := trace_block_write { g1 with sieve_loc := HADDR_UNDEF, sieve_size := 0 }
          addr size bytes
        rw [h] at hw
        exact trace_trans f g1 _ _ ht (trace_congr _ g g1 g _ rfl rfl rfl rfl hw)
  · simp only [hov, Bool.false_eq_true, if_false, Option.some.injEq] at h
    have hw := trace_block_write f addr size bytes
    rw [h] at hw
    exact hw

theorem writev_extend_log (f g : H5F_t) (l : Locals) (addr size : Nat) (bytes : List Nat)
    (h : writev_extend f l addr size bytes = some g) : g.log = f.log ∧ g.lf = f.lf := by
  unfold writev_extend at h
  cases hb : f.sieve_buf with
  | none => simp [hb] at h
  | some sb =>
    simp only [hb] at h
    split_ifs at h
    · cases h1 : mem_read sb 0 l.sieve_size with
      | none => simp [h1] at h
      | some old =>
        simp only [h1] at h
        cases h2 : mem_write sb size old with
        | none => simp [h2] at h
        | some sb1 =>
          simp only [h2] at h
          cases h3 : mem_write sb1 0 bytes with
          | none => simp [h3] at h
          | some sb2 =>
            simp only [h3, Option.some.injEq] at h
            rw [← h]
            exact ⟨rfl, rfl⟩
    · cases h2 : mem_write sb l.sieve_size bytes with
      | none => simp [h2] at h
      | some sb1 =>
        simp only [h2, Option.some.injEq] at h
        rw [← h]
        exact ⟨rfl, rfl⟩

theorem trace_writev_replace (f g : H5F_t) (l : Locals) (_max_data offset addr size : Nat)
    (bytes : List Nat) (r : herr_t)
    (h : writev_replace f l _max_data offset addr size bytes = some (g, r)) :
    Trace f g (decide (r = herr_t.SUCCEED)) := by
  unfold writev_replace at h
  rcases hfl : sieve_flush f l with _ | ⟨g1, rr⟩
  · simp [hfl] at h
  · have ht := trace_sieve_flush f l g1 rr hfl
    simp only [hfl] at h
    cases rr with
    | FAIL =>
      simp only [Option.some.injEq, Prod.mk.injEq] at h
      rw [← h.1, ← h.2]
      exact ht
    | SUCCEED =>
      exact trace_trans f g1 _ _ ht (trace_writev_window g1 g _ _ _ _ bytes r h)

theorem trace_writev_miss (f g : H5F_t) (l l2 : Locals)
    (_max_data offset addr size contig_end : Nat) (bytes : List Nat) (r : herr_t)
    (h : writev_miss f l _max_data offset addr size contig_end bytes = some (g, l2, r)) :
    Trace f g (decide (r = herr_t.SUCCEED)) := by
  unfold writev_miss at h
  by_cases hgt : size > f.sieve_buf_size
  · simp only [hgt, if_true] at h
    rcases hd : writev_direct f l addr size contig_end bytes with _ | ⟨g1, r1⟩
    · simp [hd] at h
    · simp only [hd, Option.some.injEq, Prod.mk.injEq] at h
      rw [← h.1, ← h.2.2]
      exact trace_writev_direct f g1 l addr size contig_end bytes r1 hd
  · simp only [hgt, if_false] at h
    by_cases hce : can_extend f l addr size = true
    · simp only [hce, if_true] at h
      rcases he : writev_extend f l addr size bytes with _ | g1
      · simp [he] at h
      · simp only [he, Option.some.injEq, Prod.mk.injEq] at h
        obtain ⟨e1, e2⟩ := writev_extend_log f g1 l addr size bytes he
        rw [← h.1, ← h.2.2]
        exact trace_congr f f f g1 _ rfl rfl e1 (by rw [e2]) (trace_refl f)
    · simp only [hce, Bool.false_eq_true, if_false] at h
      rcases hd : writev_replace f l _max_data offset addr size bytes with _ | ⟨g1, r1⟩
      · simp [hd] at h
      · simp only [hd, Option.some.injEq, Prod.mk.injEq] at h
        rw [← h.1, ← h.2.2]
        exact trace_writev_replace f g1 l _max_data offset addr size bytes r1 hd

theorem trace_writev_nobuf (f g : H5F_t) (_max_data offset addr size : Nat) (bytes : List Nat)
    (r : herr_t) (h : writev_nobuf f _max_data offset addr size bytes = some (g, r)) :
    Trace f g (decide (r = herr_t.SUCCEED)) := by
  unfold writev_nobuf at h
  by_cases hgt : size > f.sieve_buf_size
  · simp only [hgt, if_true, Option.some.injEq] at h
    have hw := trace_block_write f addr size bytes
    rw [h] at hw
    exact hw
  · simp only [hgt, if_false] at h
    have h0 := trace_writev_window _ g _ _ _ _ bytes r h
    exact trace_congr _ g f g _ rfl rfl rfl rfl h0

theorem writev_hit_log (f g : H5F_t) (l : Locals) (_addr nseq : Nat)
    (size_arr offset_arr : List Nat) (u u2 : Nat) (buf buf2 : List Nat)
    (h : writev_hit f l _addr nseq size_arr offset_arr u buf = some (g, buf2, u2)) :
    g.log = f.log ∧ g.lf = f.lf := by
  unfold writev_hit at h
  cases hb : f.sieve_buf with
  | none => simp [hb] at h
  | some sb =>
    simp only [hb] at h
    rcases hm : hit_run _addr l.sieve_end nseq size_arr offset_arr u with _ | m
    · simp [hm] at h
    · simp only [hm] at h
      rcases hc : writev_copy _addr l.sieve_start size_arr offset_arr
        (m - u + 1) u sb buf with _ | ⟨sb2, b2⟩
      · simp [hc] at h
      · simp only [hc, Option.some.injEq, Prod.mk.injEq] at h
        rw [← h.1]
        exact ⟨rfl, rfl⟩

theorem readv_copy_extends (sb : List Nat) (_addr sieve_start : Nat)
    (size_arr offset_arr : List Nat) :
    ∀ (count u : Nat) (out out2 : List Nat),
      readv_copy sb _addr sieve_start size_arr offset_arr count u out = some out2 →
      ∃ more, out2 = out ++ more := by
  intro count
  induction count with
  | zero =>
    intro u out out2 h
    simp only [readv_copy, Option.some.injEq] at h
    exact ⟨[], by simp [h]⟩
  | succ n ih =>
    intro u out out2 h
    simp only [readv_copy] at h
    cases hm : mem_read sb (add64 (sub64 _addr sieve_start) (offset_arr.getD u 0))
        (size_arr.getD u 0) with
    | none => rw [hm] at h; simp at h
    | some bytes =>
      simp only [hm] at h
      obtain ⟨more, hmore⟩ := ih _ _ _ h
      exact ⟨bytes ++ more, by rw [hmore, List.append_assoc]⟩

theorem trace_readv_inner (_max_data _addr nseq : Nat) (size_arr offset_arr : List Nat) :
    ∀ (fuel : Nat) (f : H5F_t) (l : Locals) (u : Nat) (out : List Nat) (f2 : H5F_t) (r : herr_t)
      (out2 : List Nat),
      readv_inner _max_data _addr nseq size_arr offset_arr fuel f l u out = some (f2, r, out2) →
      Trace f f2 (decide (r = herr_t.SUCCEED)) ∧ ∃ more, out2 = out ++ more := by
  intro fuel
  induction fuel with
  | zero =>
    intro f l u out f2 r out2 h
    simp only [readv_inner] at h
    split_ifs at h
    simp only [Option.some.injEq, Prod.mk.injEq] at h
    rw [← h.1, ← h.2.1, ← h.2.2]
    exact ⟨trace_refl f, [], by simp⟩
  | succ n ih =>
    intro f l u out f2 r out2 h
    simp only [readv_inner] at h
    by_cases hu : u < nseq
    · simp only [hu, if_true] at h
      by_cases hin : within_sieve l (add64 _addr (offset_arr.getD u 0))
          (sub64 (add64 (add64 _addr (offset_arr.getD u 0)) (size_arr.getD u 0)) 1) = true
      · simp only [hin, if_true] at h
        rcases hh : readv_hit f l _addr nseq size_arr offset_arr u out with _ | ⟨o2, u2⟩
        · simp [hh] at h
        · simp only [hh] at h
          obtain ⟨t, more, hmore⟩ := ih _ _ _ _ _ _ _ h
          refine ⟨t, ?_⟩
          unfold readv_hit at hh
          cases hb : f.sieve_buf with
          | none => simp [hb] at hh
          | some sb =>
            simp only [hb] at hh
            rcases hrun : hit_run _addr l.sieve_end nseq size_arr offset_arr u with _ | m
            · simp [hrun] at hh
            simp only [hrun] at hh
            rcases hc : readv_copy sb _addr l.sieve_start size_arr offset_arr
              (m - u + 1) u out with _ | o3
            · simp [hc] at hh
            · simp only [hc, Option.some.injEq, Prod.mk.injEq] at hh
              obtain ⟨m1, hm1⟩ := readv_copy_extends _ _ _ _ _ _ _ _ _ hc
              exact ⟨m1 ++ more, by rw [hmore, ← hh.1, hm1, List.append_assoc]⟩
      · simp only [hin, Bool.false_eq_true, if_false] at h
        rcases hm : readv_miss f l _max_data (offset_arr.getD u 0)
          (add64 _addr (offset_arr.getD u 0)) (size_arr.getD u 0)
          (sub64 (add64 (add64 _addr (offset_arr.getD u 0)) (size_arr.getD u 0)) 1)
          with _ | ⟨g, l2, rb⟩
        · rw [hm] at h; simp at h
        · have ht := trace_readv_miss f g l l2 _ _ _ _ _ rb hm
          simp only [hm] at h
          cases rb with
          | none =>
            simp only [Option.some.injEq, Prod.mk.injEq] at h
            rw [← h.1, ← h.2.1, ← h.2.2]
            exact ⟨ht, [], by simp⟩
          | some bytes =>
            simp only at h
            obtain ⟨t, more, hmore⟩ := ih _ _ _ _ _ _ _ h
            exact ⟨trace_trans f g f2 _ ht t, bytes ++ more, by rw [hmore, List.append_assoc]⟩
    · simp only [hu, if_false, Option.some.injEq, Prod.mk.injEq] at h
      rw [← h.1, ← h.2.1, ← h.2.2]
      exact ⟨trace_refl f, [], by simp⟩

theorem trace_readv_outer (_max_data _addr nseq : Nat) (size_arr offset_arr : List Nat) :
    ∀ (fuel : Nat) (f : H5F_t) (u : Nat) (out : List Nat) (f2 : H5F_t) (r : herr_t)
      (out2 : List Nat),
      readv_outer _max_data _addr nseq size_arr offset_arr fuel f u out = some (f2, r, out2) →
      Trace f f2 (decide (r = herr_t.SUCCEED)) ∧ ∃ more, out2 = out ++ more := by
  intro fuel
  induction fuel with
  | zero =>
    intro f u out f2 r out2 h
    simp only [readv_outer] at h
    split_ifs at h
    simp only [Option.some.injEq, Prod.mk.injEq] at h
    rw [← h.1, ← h.2.1, ← h.2.2]
    exact ⟨trace_refl f, [], by simp⟩
  | succ n ih =>
    intro f u out f2 r out2 h
    simp only [readv_outer] at h
    by_cases hu : u < nseq
    · simp only [hu, if_true] at h
      cases hb : f.sieve_buf with
      | some sb =>
        simp only [hb] at h
        exact trace_readv_inner _ _ _ _ _ _ _ _ _ _ _ _ _ h
      | none =>
        simp only [hb] at h
        rcases hm : readv_nobuf f _max_data (offset_arr.getD u 0)
          (add64 _addr (offset_arr.getD u 0)) (size_arr.getD u 0) with _ | ⟨g, rb⟩
        · rw [hm] at h; simp at h
        · have ht := trace_readv_nobuf f g _ _ _ _ rb hm
          simp only [hm] at h
          cases rb with
          | none =>
            simp only [Option.some.injEq, Prod.mk.injEq] at h
            rw [← h.1, ← h.2.1, ← h.2.2]
            exact ⟨ht, [], by simp⟩
          | some bytes =>
            simp only at h
            obtain ⟨t, more, hmore⟩ := ih _ _ _ _ _ _ h
            exact ⟨trace_trans f g f2 _ ht t, bytes ++ more, by rw [hmore, List.append_assoc]⟩
    · simp only [hu, if_false, Option.some.injEq, Prod.mk.injEq] at h
      rw [← h.1, ← h.2.1, ← h.2.2]
      exact ⟨trace_refl f, [], by simp⟩

theorem trace_readv_nosieve (_addr : Nat) :
    ∀ (sizes offsets : List Nat) (f : H5F_t) (out : List Nat),
      Trace f (readv_nosieve _addr sizes offsets f out).1
        (decide ((readv_nosieve _addr sizes offsets f out).2.1 = herr_t.SUCCEED)) ∧
      ∃ more, (readv_nosieve _addr sizes offsets f out).2.2 = out ++ more := by
  intro sizes
  induction sizes with
  | nil =>
    intro offsets f out
    simp only [readv_nosieve]
    exact ⟨trace_refl f, [], by simp⟩
  | cons size sizes ih =>
    intro offsets f out
    cases offsets with
    | nil =>
      simp only [readv_nosieve]
      exact ⟨trace_refl f, [], by simp⟩
    | cons offset offsets =>
      have hw := trace_block_read f (add64 _addr offset) size
      by_cases hok : add64 _addr offset + size ≤ f.lf.data.length
      · simp only [H5F_block_read, hok, if_true] at hw
        simp only [readv_nosieve, H5F_block_read, hok, if_true]
        obtain ⟨t, more, hmore⟩ := ih offsets
          (log_event f (Event.block_read (add64 _addr offset) size true))
          (out ++ (f.lf.data.drop (add64 _addr offset)).take size)
        exact ⟨trace_trans f _ _ _ hw t, (f.lf.data.drop (add64 _addr offset)).take size ++ more,
          by rw [hmore, List.append_assoc]⟩
      · simp only [H5F_block_read, hok, if_false] at hw
        simp only [readv_nosieve, H5F_block_read, hok, if_false]
        exact ⟨hw, [], by simp⟩

theorem trace_writev_inner (_max_data _addr nseq : Nat) (size_arr offset_arr : List Nat) :
    ∀ (fuel : Nat) (f : H5F_t) (l : Locals) (u : Nat) (buf : List Nat) (f2 : H5F_t) (r : herr_t),
      writev_inner _max_data _addr nseq size_arr offset_arr fuel f l u buf = some (f2, r) →
      Trace f f2 (decide (r = herr_t.SUCCEED)) := by
  intro fuel
  induction fuel with
  | zero =>
    intro f l u buf f2 r h
    simp only [writev_inner] at h
    split_ifs at h
    simp only [Option.some.injEq, Prod.mk.injEq] at h
    rw [← h.1, ← h.2]
    exact trace_refl f
  | succ n ih =>
    intro f l u buf f2 r h
    simp only [writev_inner] at h
    by_cases hu : u < nseq
    · simp only [hu, if_true] at h
      by_cases hin : within_sieve l (add64 _addr (offset_arr.getD u 0))
          (sub64 (add64 (add64 _addr (offset_arr.getD u 0)) (size_arr.getD u 0)) 1) = true
      · simp only [hin, if_true] at h
        rcases hh : writev_hit f l _addr nseq size_arr offset_arr u buf with _ | ⟨g, b2, u2⟩
        · simp [hh] at h
        · simp only [hh] at h
          obtain ⟨e1, e2⟩ := writev_hit_log f g l _ _ _ _ _ _ _ _ hh
          have t := ih _ _ _ _ _ _ h
          exact trace_congr g f2 f f2 _ e1.symm (by rw [e2]) rfl rfl t
      · simp only [hin, Bool.false_eq_true, if_false] at h
        cases hmr : mem_read buf 0 (size_arr.getD u 0) with
        | none => rw [hmr] at h; simp at h
        | some bytes =>
          simp only [hmr] at h
          rcases hm : writev_miss f l _max_data (offset_arr.getD u 0)
            (add64 _addr (offset_arr.getD u 0)) (size_arr.getD u 0)
            (sub64 (add64 (add64 _addr (offset_arr.getD u 0)) (size_arr.getD u 0)) 1) bytes
            with _ | ⟨g, l2, rb⟩
          · rw [hm] at h; simp at h
          · have ht := trace_writev_miss f g l l2 _ _ _ _ _ bytes rb hm
            simp only [hm] at h
            cases rb with
            | FAIL =>
              simp only [Option.some.injEq, Prod.mk.injEq] at h
              rw [← h.1, ← h.2]
              exact ht
            | SUCCEED =>
              simp only at h
              exact trace_trans f g f2 _ ht (ih _ _ _ _ _ _ h)
    · simp only [hu, if_false, Option.some.injEq, Prod.mk.injEq] at h
      rw [← h.1, ← h.2]
      exact trace_refl f

theorem trace_writev_outer (_max_data _addr nseq : Nat) (size_arr offset_arr : List Nat) :
    ∀ (fuel : Nat) (f : H5F_t) (u : Nat) (buf : List Nat) (f2 : H5F_t) (r : herr_t),
      writev_outer _max_data _addr nseq size_arr offset_arr fuel f u buf = some (f2, r) →
      Trace f f2 (decide (r = herr_t.SUCCEED)) := by
  intro fuel
  induction fuel with
  | zero =>
    intro f u buf f2 r h
    simp only [writev_outer] at h
    split_ifs at h
    simp only [Option.some.injEq, Prod.mk.injEq] at h
    rw [← h.1, ← h.2]
    exact trace_refl f
  | succ n ih =>
    intro f u buf f2 r h
    simp only [writev_outer] at h
    by_cases hu : u < nseq
    · simp only [hu, if_true] at h
      cases hb : f.sieve_buf with
      | some sb =>
        simp only [hb] at h
        exact trace_writev_inner _ _ _ _ _ _ _ _ _ _ _ _ h
      | none =>
        simp only [hb] at h
        cases hmr : mem_read buf 0 (size_arr.getD u 0) with
        | none => rw [hmr] at h; simp at h
        | some bytes =>
          simp only [hmr] at h
          rcases hm : writev_nobuf f _max_data (offset_arr.getD u 0)
            (add64 _addr (offset_arr.getD u 0)) (size_arr.getD u 0) bytes with _ | ⟨g, rb⟩
          · rw [hm] at h; simp at h
          · have ht := trace_writev_nobuf f g _ _ _ _ bytes rb hm
            simp only [hm] at h
            cases rb with
            | FAIL =>
              simp only [Option.some.injEq, Prod.mk.injEq] at h
              rw [← h.1, ← h.2]
              exact ht
            | SUCCEED =>
              simp only at h
              exact trace_trans f g f2 _ ht (ih _ _ _ _ _ h)
    · simp only [hu, if_false, Option.some.injEq, Prod.mk.injEq] at h
      rw [← h.1, ← h.2]
      exact trace_refl f

theorem trace_writev_nosieve (_addr : Nat) :
    ∀ (sizes offsets : List Nat) (f : H5F_t) (buf : List Nat) (f2 : H5F_t) (r : herr_t),
      writev_nosieve _addr sizes offsets f buf = some (f2, r) →
      Trace f f2 (decide (r = herr_t.SUCCEED)) := by
  intro sizes
  induction sizes with
  | nil =>
    intro offsets f buf f2 r h
    simp only [writev_nosieve, Option.some.injEq, Prod.mk.injEq] at h
    rw [← h.1, ← h.2]
    exact trace_refl f
  | cons size sizes ih =>
    intro offsets f buf f2 r h
    cases offsets with
    | nil =>
      simp only [writev_nosieve, Option.some.injEq, Prod.mk.injEq] at h
      rw [← h.1, ← h.2]
      exact trace_refl f
    | cons offset offsets =>
      simp only [writev_nosieve] at h
      cases hmr : mem_read buf 0 size with
      | none => rw [hmr] at h; simp at h
      | some bytes =>
        simp only [hmr] at h
        have hw := trace_block_write f (add64 _addr offset) size bytes
        rcases hr : H5F_block_write f (add64 _addr offset) size bytes with ⟨g, rr⟩
        rw [hr] at hw h
        cases rr with
        | FAIL =>
          simp only [Option.some.injEq, Prod.mk.injEq] at h
          rw [← h.1, ← h.2]
          exact hw
        | SUCCEED =>
          simp only at h
          exact trace_trans f g f2 _ hw (ih _ _ _ _ _ h)

/-- C17 (`H5F_contig_readv`, `H5F_contig_writev`).  For a call that returns:
the block I/O it has issued is a run of successful calls, and the status is
failure exactly when that run is ended by the one failed block read or write,
or by the failed end-of-allocation query; so nothing is issued after a
failure.  And in each loop of the two routines, once the step for the current
sequence `u` has failed (a failed block read or write or end-of-allocation
query is what makes a step fail), the loop returns at once: the status is
failure, the file is the one the failed step has left, with all that the
earlier sequences and the step have done to the disk, the window and the
trace, the bytes read are those of the sequences before `u`, and the
sequences after `u` play no part. -/

theorem C17_failure_stops_call (f : H5F_t) (_max_data _addr nseq : Nat)
    (size_arr offset_arr : List Nat) :
    (∀ res, H5F_contig_readv f _max_data _addr nseq size_arr offset_arr = some res →
      Trace f res.1 (decide (res.2.1 = herr_t.SUCCEED))) ∧
    (∀ buf res, H5F_contig_writev f _max_data _addr nseq size_arr offset_arr buf = some res →
      Trace f res.1 (decide (res.2 = herr_t.SUCCEED))) ∧
    (∀ fuel g l u out g2 l2, u < nseq →
      within_sieve l (add64 _addr (offset_arr.getD u 0))
        (sub64 (add64 (add64 _addr (offset_arr.getD u 0)) (size_arr.getD u 0)) 1) = false →
      readv_miss g l _max_data (offset_arr.getD u 0) (add64 _addr (offset_arr.getD u 0))
        (size_arr.getD u 0)
        (sub64 (add64 (add64 _addr (offset_arr.getD u 0)) (size_arr.getD u 0)) 1) =
        some (g2, l2, none) →
      Trace g g2 false ∧
      readv_inner _max_data _addr nseq size_arr offset_arr (fuel + 1) g l u out =
        some (g2, herr_t.FAIL, out)) ∧
    (∀ fuel g u out g2, u < nseq → g.sieve_buf = none →
      readv_nobuf g _max_data (offset_arr.getD u 0) (add64 _addr (offset_arr.getD u 0))
        (size_arr.getD u 0) = some (g2, none) →
      Trace g g2 false ∧
      readv_outer _max_data _addr nseq size_arr offset_arr (fuel + 1) g u out =
        some (g2, herr_t.FAIL, out)) ∧
    (∀ g size sizes offset offsets out,
      (H5F_block_read g (add64 _addr offset) size).2 = none →
      Trace g (H5F_block_read g (add64 _addr offset) size).1 false ∧
      readv_nosieve _addr (size :: sizes) (offset :: offsets) g out =
        ((H5F_block_read g (add64 _addr offset) size).1, herr_t.FAIL, out)) ∧
    (∀ fuel g l u buf bytes g2 l2, u < nseq →
      within_sieve l (add64 _addr (offset_arr.getD u 0))
        (sub64 (add64 (add64 _addr (offset_arr.getD u 0)) (size_arr.getD u 0)) 1) = false →
      mem_read buf 0 (size_arr.getD u 0) = some bytes →
      writev_miss g l _max_data (offset_arr.getD u 0) (add64 _addr (offset_arr.getD u 0))
        (size_arr.getD u 0)
        (sub64 (add64 (add64 _addr (offset_arr.getD u 0)) (size_arr.getD u 0)) 1) bytes =
        some (g2, l2, herr_t.FAIL) →
      Trace g g2 false ∧
      writev_inner _max_data _addr nseq size_arr offset_arr (fuel + 1) g l u buf =
        some (g2, herr_t.FAIL)) ∧
    (∀ fuel g u buf bytes g2, u < nseq → g.sieve_buf = none →
      mem_read buf 0 (size_arr.getD u 0) = some bytes →
      writev_nobuf g _max_data (offset_arr.getD u 0) (add64 _addr (offset_arr.getD u 0))
        (size_arr.getD u 0) bytes = some (g2, herr_t.FAIL) →
      Trace g g2 false ∧
      writev_outer _max_data _addr nseq size_arr offset_arr (fuel + 1) g u buf =
        some (g2, herr_t.FAIL)) ∧
    (∀ g size sizes offset offsets buf bytes, mem_read buf 0 size = some bytes →
      (H5F_block_write g (add64 _addr offset) size bytes).2 = herr_t.FAIL →
      Trace g (H5F_block_write g (add64 _addr offset) size bytes).1 false ∧
      writev_nosieve _addr (size :: sizes) (offset :: offsets) g buf =
        some ((H5F_block_write g (add64 _addr offset) size bytes).1, herr_t.FAIL)) := by
  refine ⟨?_, ?_, ?_, ?_, ?_, ?_, ?_, ?_⟩
  · rintro ⟨f2, r, out⟩ h
    unfold H5F_contig_readv at h
    split_ifs at h with h1 h2
    · exact (trace_readv_outer _ _ _ _ _ _ _ _ _ _ _ _ h).1
    · simp only [Option.some.injEq] at h
      have t := (trace_readv_nosieve _addr (size_arr.take nseq) (offset_arr.take nseq) f []).1
      rw [h] at t
      exact t
  · rintro buf ⟨f2, r⟩ h
    unfold H5F_contig_writev at h
    split_ifs at h with h1 h2
    · exact trace_writev_outer _ _ _ _ _ _ _ _ _ _ _ h
    · exact trace_writev_nosieve _ _ _ _ _ _ _ h
  · intro fuel g l u out g2 l2 hu hin hm
    refine ⟨trace_readv_miss g g2 l l2 _ _ _ _ _ none hm, ?_⟩
    simp only [readv_inner, hu, if_true, hin, Bool.false_eq_true, if_false]
    rw [hm]
  · intro fuel g u out g2 hu hb hm
    refine ⟨trace_readv_nobuf g g2 _ _ _ _ none hm, ?_⟩
    simp only [readv_outer, hu, if_true, hb]
    rw [hm]
  · intro g size sizes offset offsets out hr
    have t := trace_block_read g (add64 _addr offset) size
    rw [hr] at t
    refine ⟨t, ?_⟩
    simp only [readv_nosieve]
    rcases hbr : H5F_block_read g (add64 _addr offset) size with ⟨g1, d⟩
    rw [hbr] at hr
    simp only at hr
    subst hr
    rfl
  · intro fuel g l u buf bytes g2 l2 hu hin hmr hm
    refine ⟨trace_writev_miss g g2 l l2 _ _ _ _ _ bytes herr_t.FAIL hm, ?_⟩
    simp only [writev_inner, hu, if_true, hin, Bool.false_eq_true, if_false]
    rw [hmr]
    simp only
    rw [hm]
  · intro fuel g u buf bytes g2 hu hb hmr hm
    refine ⟨trace_writev_nobuf g g2 _ _ _ _ bytes herr_t.FAIL hm, ?_⟩
    simp only [writev_outer, hu, if_true, hb]
    rw [hmr]
    simp only
    rw [hm]
  · intro g size sizes offset offsets buf bytes hmr hr
    have t := trace_block_write g (add64 _addr offset) size bytes
    rw [hr] at t
    refine ⟨t, ?_⟩
    simp only [writev_nosieve]
    rw [hmr]
    simp only
    rcases hbw : H5F_block_write g (add64 _addr offset) size bytes with ⟨g1, d⟩
    rw [hbw] at hr
    simp only at hr
    subst hr
    rfl

/-- C17 at the calls `c17_read` and `c17_write` (the direct read or write of
the second sequence fails, the third sequence is never reached, the window
`[0, 4)` the first sequence has set up stays), at `c8_file1` and at a fresh
file with a failing first sequence, and at a file whose end-of-allocation
query fails. -/

theorem C17_failure_stops_call_witness :
    Trace (demo_sieve_file 20 4) c17_read.1 (decide (c17_read.2.1 = herr_t.SUCCEED)) ∧
    Trace (demo_sieve_file 20 4) c17_write.1 (decide (c17_write.2 = herr_t.SUCCEED)) ∧
    (Trace c8_file1 (log_event c8_file1 (Event.block_read 16 10 false)) false ∧
      readv_inner 30 0 2 [10, 2] [16, 0] (1 + 1) c8_file1 (stash c8_file1) 0 [] =
        some (log_event c8_file1 (Event.block_read 16 10 false), herr_t.FAIL, [])) ∧
    (Trace (demo_sieve_file 20 4)
        (log_event (demo_sieve_file 20 4) (Event.block_write 16 6 [3, 4, 5, 6, 7, 8] false))
        false ∧
      writev_outer 20 0 2 [6, 2] [16, 0] (1 + 1) (demo_sieve_file 20 4) 0
          [3, 4, 5, 6, 7, 8, 1, 2] =
        some (log_event (demo_sieve_file 20 4)
          (Event.block_write 16 6 [3, 4, 5, 6, 7, 8] false), herr_t.FAIL)) ∧
    (c17_read.2.1 = herr_t.FAIL ∧ c17_read.2.2 = [100, 101] ∧
      c17_read.1.log = [Event.block_read 0 4 true, Event.block_read 16 6 false] ∧
      c17_read.1.sieve_loc = 0 ∧ c17_read.1.sieve_size = 4 ∧
      c17_read.1.sieve_buf = some [100, 101, 102, 103]) ∧
    (c17_write.2 = herr_t.FAIL ∧
      c17_write.1.log = [Event.block_read 0 4 true,
        Event.block_write 16 6 [3, 4, 5, 6, 7, 8] false] ∧
      c17_write.1.sieve_loc = 0 ∧ c17_write.1.sieve_size = 4 ∧
      c17_write.1.sieve_buf = some [1, 2, 102, 103] ∧ c17_write.1.sieve_dirty = true) ∧
    (H5F_contig_readv c17_no_eoa 20 0 2 [2, 2] [0, 4]).map (fun r => (r.1.log, r.2.1, r.2.2)) =
      some ([], herr_t.FAIL, []) ∧
    (H5F_contig_writev c17_no_eoa 20 0 2 [2, 2] [0, 4] [1, 2, 3, 4]).map
        (fun r => (r.1.log, r.2)) = some ([], herr_t.FAIL) :=
  ⟨(C17_failure_stops_call (demo_sieve_file 20 4) 20 0 3 [2, 6, 2] [0, 16, 4]).1 c17_read
      (by decide),
    (C17_failure_stops_call (demo_sieve_file 20 4) 20 0 3 [2, 6, 2] [0, 16, 4]).2.1
      [1, 2, 3, 4, 5, 6, 7, 8, 9, 10] c17_write (by decide),
    (C17_failure_stops_call c8_file1 30 0 2 [10, 2] [16, 0]).2.2.1 1 c8_file1 (stash c8_file1)
      0 [] (log_event c8_file1 (Event.block_read 16 10 false)) (stash c8_file1)
      (by decide) (by decide) (by decide),
    (C17_failure_stops_call (demo_sieve_file 20 4) 20 0 2 [6, 2] [16, 0]).2.2.2.2.2.2.1 1
      (demo_sieve_file 20 4) 0 [3, 4, 5, 6, 7, 8, 1, 2] [3, 4, 5, 6, 7, 8]
      (log_event (demo_sieve_file 20 4) (Event.block_write 16 6 [3, 4, 5, 6, 7, 8] false))
      (by decide) (by decide) (by decide) (by decide),
    ⟨by decide, by decide, by decide, by decide, by decide, by decide⟩,
    ⟨by decide, by decide, by decide, by decide, by decide, by decide⟩,
    by decide, by decide⟩

theorem range_map_succ {α : Type} (g : Nat → α) (n : Nat) :
    (List.range (n + 1)).map g = g 0 :: (List.range n).map (fun u => g (u + 1)) := by
  rw [List.range_succ_eq_map, List.map_cons, List.map_map]
  rfl

theorem range_map_congr {α : Type} (g h : Nat → α) (n : Nat) (e : ∀ u, u < n → g u = h u) :
    (List.range n).map g = (List.range n).map h := by
  apply List.map_congr_left
  intro u hu
  exact e u (List.mem_range.1 hu)

/-- The loop of `H5F_contig_readv` without data sieving, on `n` sequences: one
block read per sequence, in order. -/
theorem readv_nosieve_spec (_addr : Nat) :
    ∀ (sizes offsets : List Nat) (f : H5F_t) (out : List Nat), sizes.length = offsets.length →
      (readv_nosieve _addr sizes offsets f out).1.lf = f.lf ∧
      (readv_nosieve _addr sizes offsets f out).1.sieve_buf = f.sieve_buf ∧
      (readv_nosieve _addr sizes offsets f out).1.sieve_loc = f.sieve_loc ∧
      (readv_nosieve _addr sizes offsets f out).1.sieve_size = f.sieve_size ∧
      (readv_nosieve _addr sizes offsets f out).1.sieve_dirty = f.sieve_dirty ∧
      (((readv_nosieve _addr sizes offsets f out).2.1 = herr_t.SUCCEED ∧
        (readv_nosieve _addr sizes offsets f out).1.log = f.log ++
          (List.range sizes.length).map (fun u =>
            Event.block_read (add64 _addr (offsets.getD u 0)) (sizes.getD u 0) true) ∧
        (readv_nosieve _addr sizes offsets f out).2.2 = out ++
          ((List.range sizes.length).map (fun u =>
            (f.lf.data.drop (add64 _addr (offsets.getD u 0))).take (sizes.getD u 0))).flatten ∧
        ∀ u, u < sizes.length →
          add64 _addr (offsets.getD u 0) + sizes.getD u 0 ≤ f.lf.data.length) ∨
       ((readv_nosieve _addr sizes offsets f out).2.1 = herr_t.FAIL ∧
        ∃ k, k < sizes.length ∧
          (readv_nosieve _addr sizes offsets f out).1.log = f.log ++
            (List.range k).map (fun u =>
              Event.block_read (add64 _addr (offsets.getD u 0)) (sizes.getD u 0) true) ++
            [Event.block_read (add64 _addr (offsets.getD k 0)) (sizes.getD k 0) false] ∧
          (readv_nosieve _addr sizes offsets f out).2.2 = out ++
            ((List.range k).map (fun u =>
              (f.lf.data.drop (add64 _addr (offsets.getD u 0))).take
                (sizes.getD u 0))).flatten)) := by
  intro sizes
  induction sizes with
  | nil =>
    intro offsets f out hlen
    cases offsets with
    | nil => simp [readv_nosieve]
    | cons o os => simp at hlen
  | cons size sizes ih =>
    intro offsets f out hlen
    cases offsets with
    | nil => simp at hlen
    | cons offset offsets =>
      have hlen2 : sizes.length = offsets.length := by simpa using hlen
      by_cases hok : add64 _addr offset + size ≤ f.lf.data.length
      · simp only [readv_nosieve, H5F_block_read, hok, if_true]
        obtain ⟨i1, i2, i3, i4, i5, i6⟩ := ih offsets
          (log_event f (Event.block_read (add64 _addr offset) size true))
          (out ++ (f.lf.data.drop (add64 _addr offset)).take size) hlen2
        refine ⟨i1, i2, i3, i4, i5, ?_⟩
        rcases i6 with ⟨a, b, c, d⟩ | ⟨a, k, hk, b, c⟩
        · refine Or.inl ⟨a, ?_, ?_, ?_⟩
          · rw [b, List.length_cons, range_map_succ]
            simp [log_event]
          · rw [c, List.length_cons, range_map_succ]
            simp [log_event]
          · intro u hu
            cases u with
            | zero => simpa using hok
            | succ v =>
              have := d v (by simpa using hu)
              simpa [log_event] using this
        · refine Or.inr ⟨a, k + 1, by simpa using hk, ?_, ?_⟩
          · rw [b, range_map_succ]
            simp [log_event]
          · rw [c, range_map_succ]
            simp [log_event]
      · simp only [readv_nosieve, H5F_block_read, hok, if_false]
        refine ⟨rfl, rfl, rfl, rfl, rfl, Or.inr ⟨trivial, 0, by simp, ?_, ?_⟩⟩
        · simp [log_event]
        · simp

/-- The loop of `H5F_contig_writev` without data sieving, on `n` sequences
that the user's buffer covers: one block write per sequence, in order, from
the user's buffer at the running offset. -/
theorem writev_nosieve_spec (_addr : Nat) :
    ∀ (sizes offsets : List Nat) (f : H5F_t) (buf : List Nat),
      sizes.length = offsets.length → sizes.sum ≤ buf.length →
      ∃ f2 r, writev_nosieve _addr sizes offsets f buf = some (f2, r) ∧
        f2.sieve_buf = f.sieve_buf ∧ f2.sieve_loc = f.sieve_loc ∧
        f2.sieve_size = f.sieve_size ∧ f2.sieve_dirty = f.sieve_dirty ∧
        ((r = herr_t.SUCCEED ∧
          f2.log = f.log ++ (List.range sizes.length).map (fun u =>
            Event.block_write (add64 _addr (offsets.getD u 0)) (sizes.getD u 0)
              ((buf.drop (sizes.take u).sum).take (sizes.getD u 0)) true)) ∨
         (r = herr_t.FAIL ∧ ∃ k, k < sizes.length ∧
          f2.log = f.log ++ (List.range k).map (fun u =>
            Event.block_write (add64 _addr (offsets.getD u 0)) (sizes.getD u 0)
              ((buf.drop (sizes.take u).sum).take (sizes.getD u 0)) true) ++
            [Event.block_write (add64 _addr (offsets.getD k 0)) (sizes.getD k 0)
              ((buf.drop (sizes.take k).sum).take (sizes.getD k 0)) false])) := by
  intro sizes
  induction sizes with
  | nil =>
    intro offsets f buf hlen _
    cases offsets with
    | nil => exact ⟨f, herr_t.SUCCEED, by simp [writev_nosieve]⟩
    | cons o os => simp at hlen
  | cons size sizes ih =>
    intro offsets f buf hlen hsum
    cases offsets with
    | nil => simp at hlen
    | cons offset offsets =>
      have hlen2 : sizes.length = offsets.length := by simpa using hlen
      have hsum1 : size + sizes.sum ≤ buf.length := by simpa using hsum
      have hs : size ≤ buf.length := by omega
      have hsum2 : sizes.sum ≤ (buf.drop size).length := by
        rw [List.length_drop]; omega
      have htt : (buf.take size).take size = buf.take size := by
        rw [List.take_take, min_self]
      by_cases hok : add64 _addr offset + size ≤ f.lf.data.length
      · obtain ⟨f2, r, i0, i1, i2, i3, i4, i5⟩ := ih offsets
          (put_data (log_event f (Event.block_write (add64 _addr offset) size
            (buf.take size) true)) (add64 _addr offset) (buf.take size)) (buf.drop size)
          hlen2 hsum2
        refine ⟨f2, r, ?_, i1, i2, i3, i4, ?_⟩
        · simp only [writev_nosieve, mem_read, Nat.zero_add, hs, if_true, List.drop_zero,
            H5F_block_write, hok, htt]
          exact i0
        · rcases i5 with ⟨a, b⟩ | ⟨a, k, hk, b⟩
          · refine Or.inl ⟨a, ?_⟩
            rw [b, List.length_cons, range_map_succ]
            simp [log_event, put_data, Nat.add_comm]
          · refine Or.inr ⟨a, k + 1, by simpa using hk, ?_⟩
            rw [b, range_map_succ]
            simp [log_event, put_data, Nat.add_comm]
      · refine ⟨log_event f (Event.block_write (add64 _addr offset) size (buf.take size) false),
          herr_t.FAIL, ?_, rfl, rfl, rfl, rfl, Or.inr ⟨rfl, 0, by simp, ?_⟩⟩
        · simp only [writev_nosieve, mem_read, Nat.zero_add, hs, if_true, List.drop_zero,
            H5F_block_write, hok, if_false, htt]
        · simp [log_event]

theorem getD_take (xs : List Nat) (n u : Nat) (h : u < n) :
    (xs.take n).getD u 0 = xs.getD u 0 := by
  rw [List.getD_eq_getElem?_getD, List.getD_eq_getElem?_getD, List.getElem?_take_of_lt h]

theorem take_take_le (xs : List Nat) (n u : Nat) (h : u ≤ n) :
    (xs.take n).take u = xs.take u := by
  rw [List.take_take, min_eq_left h]

/-- The loop of `H5F_contig_readv` without data sieving looks at the low-level
file and the trace only. -/
theorem readv_nosieve_indep (_addr : Nat) :
    ∀ (sizes offsets : List Nat) (f g : H5F_t) (out : List Nat),
      f.lf = g.lf → f.log = g.log →
      (readv_nosieve _addr sizes offsets f out).2 = (readv_nosieve _addr sizes offsets g out).2 ∧
      (readv_nosieve _addr sizes offsets f out).1.log =
        (readv_nosieve _addr sizes offsets g out).1.log ∧
      (readv_nosieve _addr sizes offsets f out).1.lf =
        (readv_nosieve _addr sizes offsets g out).1.lf := by
  intro sizes
  induction sizes with
  | nil =>
    intro offsets f g out h1 h2
    cases offsets <;> exact ⟨rfl, h2, h1⟩
  | cons size sizes ih =>
    intro offsets f g out h1 h2
    cases offsets with
    | nil => exact ⟨rfl, h2, h1⟩
    | cons offset offsets =>
      by_cases hok : add64 _addr offset + size ≤ f.lf.data.length
      · have hok2 : add64 _addr offset + size ≤ g.lf.data.length := by rw [← h1]; exact hok
        simp only [readv_nosieve, H5F_block_read, hok, hok2, if_true]
        rw [h1]
        exact ih offsets _ _ _ h1 (by simp [log_event, h2])
      · have hok2 : ¬ add64 _addr offset + size ≤ g.lf.data.length := by rw [← h1]; exact hok
        simp only [readv_nosieve, H5F_block_read, hok, hok2, if_false]
        exact ⟨trivial, by simp [log_event, h2], h1⟩

/-- The loop of `H5F_contig_writev` without data sieving looks at the
low-level file and the trace only. -/
theorem writev_nosieve_indep (_addr : Nat) :
    ∀ (sizes offsets : List Nat) (f g : H5F_t) (buf : List Nat),
      f.lf = g.lf → f.log = g.log →
      (writev_nosieve _addr sizes offsets f buf).map (fun r => (r.1.lf, r.1.log, r.2)) =
        (writev_nosieve _addr sizes offsets g buf).map (fun r => (r.1.lf, r.1.log, r.2)) := by
  intro sizes
  induction sizes with
  | nil =>
    intro offsets f g buf h1 h2
    cases offsets <;> simp [writev_nosieve, h1, h2]
  | cons size sizes ih =>
    intro offsets f g buf h1 h2
    cases offsets with
    | nil => simp [writev_nosieve, h1, h2]
    | cons offset offsets =>
      simp only [writev_nosieve]
      cases hmr : mem_read buf 0 size with
      | none => rfl
      | some bytes =>
        simp only
        by_cases hok : add64 _addr offset + size ≤ f.lf.data.length
        · have hok2 : add64 _addr offset + size ≤ g.lf.data.length := by rw [← h1]; exact hok
          simp only [H5F_block_write, hok, hok2, if_true]
          exact ih offsets _ _ _ (by simp [put_data, log_event, h1])
            (by simp [put_data, log_event, h2])
        · have hok2 : ¬ add64 _addr offset + size ≤ g.lf.data.length := by
            rw [← h1]; exact hok
          simp only [H5F_block_write, hok, hok2, if_false, Option.map_some', Option.some.injEq,
            Prod.mk.injEq]
          exact ⟨by simp [log_event, h1], by simp [log_event, h2], trivial⟩

/-- C20 (`H5F_contig_readv` lines 699-711, `H5F_contig_writev` lines
1169-1181): when the driver does not set `H5FD_FEAT_DATA_SIEVE`, a call on
`nseq` sequences returns with `sieve_buf`, `sieve_loc`, `sieve_size` and
`sieve_dirty` as they were.  If it succeeds, the block I/O it has issued is,
for `u = 0 .. nseq-1` in order, the one successful block read (write) of
`size_arr[u]` bytes at `_addr + offset_arr[u]`; the bytes read are put one
after the other into the user's buffer, and the bytes written are those of the
user's buffer at the offset that is the sum of the earlier sizes.  If it
fails, it has issued these calls for the sequences before some `k` and then
the failed call for sequence `k`.  The disk, the trace, the status and the
bytes read are the same on any file that differs in `sieve_buf`, `sieve_loc`,
`sieve_size`, `sieve_dirty` (or `base_addr`, `sieve_buf_size`) only. -/

theorem C20_no_sieve_direct (f : H5F_t) (_max_data _addr nseq : Nat)
    (size_arr offset_arr : List Nat)
    (hs : f.lf.data_sieve = false) (hn1 : nseq ≤ size_arr.length)
    (hn2 : nseq ≤ offset_arr.length) :
    (∃ f2 r out, H5F_contig_readv f _max_data _addr nseq size_arr offset_arr =
        some (f2, r, out) ∧
      f2.lf = f.lf ∧ f2.sieve_buf = f.sieve_buf ∧ f2.sieve_loc = f.sieve_loc ∧
      f2.sieve_size = f.sieve_size ∧ f2.sieve_dirty = f.sieve_dirty ∧
      ((r = herr_t.SUCCEED ∧
        f2.log = f.log ++ (List.range nseq).map (fun u =>
          Event.block_read (add64 _addr (offset_arr.getD u 0)) (size_arr.getD u 0) true) ∧
        out = ((List.range nseq).map (fun u =>
          (f.lf.data.drop (add64 _addr (offset_arr.getD u 0))).take
            (size_arr.getD u 0))).flatten ∧
        ∀ u, u < nseq →
          add64 _addr (offset_arr.getD u 0) + size_arr.getD u 0 ≤ f.lf.data.length) ∨
       (r = herr_t.FAIL ∧ ∃ k, k < nseq ∧
        f2.log = f.log ++ (List.range k).map (fun u =>
            Event.block_read (add64 _addr (offset_arr.getD u 0)) (size_arr.getD u 0) true) ++
          [Event.block_read (add64 _addr (offset_arr.getD k 0)) (size_arr.getD k 0) false] ∧
        out = ((List.range k).map (fun u =>
          (f.lf.data.drop (add64 _addr (offset_arr.getD u 0))).take
            (size_arr.getD u 0))).flatten))) ∧
    (∀ buf : List Nat, (size_arr.take nseq).sum ≤ buf.length →
      ∃ f2 r, H5F_contig_writev f _max_data _addr nseq size_arr offset_arr buf =
          some (f2, r) ∧
        f2.sieve_buf = f.sieve_buf ∧ f2.sieve_loc = f.sieve_loc ∧
        f2.sieve_size = f.sieve_size ∧ f2.sieve_dirty = f.sieve_dirty ∧
        ((r = herr_t.SUCCEED ∧
          f2.log = f.log ++ (List.range nseq).map (fun u =>
            Event.block_write (add64 _addr (offset_arr.getD u 0)) (size_arr.getD u 0)
              ((buf.drop (size_arr.take u).sum).take (size_arr.getD u 0)) true)) ∨
         (r = herr_t.FAIL ∧ ∃ k, k < nseq ∧
          f2.log = f.log ++ (List.range k).map (fun u =>
              Event.block_write (add64 _addr (offset_arr.getD u 0)) (size_arr.getD u 0)
                ((buf.drop (size_arr.take u).sum).take (size_arr.getD u 0)) true) ++
            [Event.block_write (add64 _addr (offset_arr.getD k 0)) (size_arr.getD k 0)
              ((buf.drop (size_arr.take k).sum).take (size_arr.getD k 0)) false]))) ∧
    (∀ g : H5F_t, g.lf = f.lf → g.log = f.log →
      (H5F_contig_readv g _max_data _addr nseq size_arr offset_arr).map
          (fun r => (r.1.lf, r.1.log, r.2)) =
        (H5F_contig_readv f _max_data _addr nseq size_arr offset_arr).map
          (fun r => (r.1.lf, r.1.log, r.2)) ∧
      ∀ buf : List Nat,
        (H5F_contig_writev g _max_data _addr nseq size_arr offset_arr buf).map
            (fun r => (r.1.lf, r.1.log, r.2)) =
          (H5F_contig_writev f _max_data _addr nseq size_arr offset_arr buf).map
            (fun r => (r.1.lf, r.1.log, r.2))) := by
  have hl1 : (size_arr.take nseq).length = nseq := by
    rw [List.length_take]; omega
  have hl2 : (offset_arr.take nseq).length = nseq := by
    rw [List.length_take]; omega
  have hlen : (size_arr.take nseq).length = (offset_arr.take nseq).length := by rw [hl1, hl2]
  refine ⟨?_, ?_, ?_⟩
  · obtain ⟨i1, i2, i3, i4, i5, i6⟩ := readv_nosieve_spec _addr (size_arr.take nseq)
      (offset_arr.take nseq) f [] hlen
    refine ⟨(readv_nosieve _addr (size_arr.take nseq) (offset_arr.take nseq) f []).1,
      (readv_nosieve _addr (size_arr.take nseq) (offset_arr.take nseq) f []).2.1,
      (readv_nosieve _addr (size_arr.take nseq) (offset_arr.take nseq) f []).2.2,
      ?_, i1, i2, i3, i4, i5, ?_⟩
    · simp only [H5F_contig_readv, hn1, hn2, and_self, if_true, hs, Bool.false_eq_true,
        if_false]
    · rcases i6 with ⟨a, b, c, d⟩ | ⟨a, k, hk, b, c⟩
      · refine Or.inl ⟨a, ?_, ?_, ?_⟩
        · rw [b, hl1]
          congr 1
          apply range_map_congr
          intro u hu
          rw [getD_take _ _ _ hu, getD_take _ _ _ hu]
        · rw [c, hl1, List.nil_append]
          congr 1
          apply range_map_congr
          intro u hu
          rw [getD_take _ _ _ hu, getD_take _ _ _ hu]
        · intro u hu
          have := d u (by rw [hl1]; exact hu)
          rw [getD_take _ _ _ hu, getD_take _ _ _ hu] at this
          exact this
      · rw [hl1] at hk
        refine Or.inr ⟨a, k, hk, ?_, ?_⟩
        · rw [b, getD_take _ _ _ hk, getD_take _ _ _ hk]
          congr 2
          apply range_map_congr
          intro u hu
          rw [getD_take _ _ _ (by omega), getD_take _ _ _ (by omega)]
        · rw [c, List.nil_append]
          congr 1
          apply range_map_congr
          intro u hu
          rw [getD_take _ _ _ (by omega), getD_take _ _ _ (by omega)]
  · intro buf hbuf
    obtain ⟨f2, r, i0, i1, i2, i3, i4, i5⟩ := writev_nosieve_spec _addr (size_arr.take nseq)
      (offset_arr.take nseq) f buf hlen hbuf
    refine ⟨f2, r, ?_, i1, i2, i3, i4, ?_⟩
    · simp only [H5F_contig_writev, hn1, hn2, and_self, if_true, hs, Bool.false_eq_true,
        if_false]
      exact i0
    · rcases i5 with ⟨a, b⟩ | ⟨a, k, hk, b⟩
      · refine Or.inl ⟨a, ?_⟩
        rw [b, hl1]
        congr 1
        apply range_map_congr
        intro u hu
        rw [getD_take _ _ _ hu, getD_take _ _ _ hu, take_take_le _ _ _ (by omega)]
      · rw [hl1] at hk
        refine Or.inr ⟨a, k, hk, ?_⟩
        rw [b, getD_take _ _ _ hk, getD_take _ _ _ hk, take_take_le _ _ _ (by omega)]
        congr 2
        apply range_map_congr
        intro u hu
        rw [getD_take _ _ _ (by omega), getD_take _ _ _ (by omega),
          take_take_le _ _ _ (by omega)]
  · intro g h1 h2
    have hsg : g.lf.data_sieve = false := by rw [h1]; exact hs
    constructor
    · obtain ⟨e1, e2, e3⟩ := readv_nosieve_indep _addr (size_arr.take nseq)
        (offset_arr.take nseq) g f [] h1 h2
      simp only [H5F_contig_readv, hn1, hn2, and_self, if_true, hs, hsg, Bool.false_eq_true,
        if_false, Option.map_some', Option.some.injEq, Prod.mk.injEq]
      exact ⟨e3, e2, e1⟩
    · intro buf
      simp only [H5F_contig_writev, hn1, hn2, and_self, if_true, hs, hsg, Bool.false_eq_true,
        if_false]
      exact writev_nosieve_indep _addr _ _ g f buf h1 h2

/-- C20 at `c20_file` and the sequences `(10, 2)`, `(0, 3)`, `(5, 1)`. -/

theorem C20_no_sieve_direct_witness :
    ((H5F_contig_readv c20_file 20 0 3 [2, 3, 1] [10, 0, 5]).map
        (fun r => (r.1.log, r.2.1, r.2.2)) =
      some ([Event.block_read 10 2 true, Event.block_read 0 3 true, Event.block_read 5 1 true],
        herr_t.SUCCEED, [110, 111, 100, 101, 102, 105]) ∧
    (H5F_contig_writev c20_file 20 0 3 [2, 3, 1] [10, 0, 5] [1, 2, 3, 4, 5, 6]).map
        (fun r => (r.1.log, r.1.sieve_buf, r.2)) =
      some ([Event.block_write 10 2 [1, 2] true, Event.block_write 0 3 [3, 4, 5] true,
        Event.block_write 5 1 [6] true], none, herr_t.SUCCEED)) ∧
    (∃ f2 r out, H5F_contig_readv c20_file 20 0 3 [2, 3, 1] [10, 0, 5] = some (f2, r, out) ∧
      f2.lf = c20_file.lf ∧ f2.sieve_buf = c20_file.sieve_buf ∧
      f2.sieve_loc = c20_file.sieve_loc ∧
      f2.sieve_size = c20_file.sieve_size ∧ f2.sieve_dirty = c20_file.sieve_dirty ∧
      ((r = herr_t.SUCCEED ∧
        f2.log = c20_file.log ++ (List.range 3).map (fun u =>
          Event.block_read (add64 0 (([10, 0, 5] : List Nat).getD u 0))
            (([2, 3, 1] : List Nat).getD u 0) true) ∧
        out = ((List.range 3).map (fun u =>
          (c20_file.lf.data.drop (add64 0 (([10, 0, 5] : List Nat).getD u 0))).take
            (([2, 3, 1] : List Nat).getD u 0))).flatten ∧
        ∀ u, u < 3 →
          add64 0 (([10, 0, 5] : List Nat).getD u 0) + ([2, 3, 1] : List Nat).getD u 0 ≤
            c20_file.lf.data.length) ∨
       (r = herr_t.FAIL ∧ ∃ k, k < 3 ∧
        f2.log = c20_file.log ++ (List.range k).map (fun u =>
            Event.block_read (add64 0 (([10, 0, 5] : List Nat).getD u 0))
              (([2, 3, 1] : List Nat).getD u 0) true) ++
          [Event.block_read (add64 0 (([10, 0, 5] : List Nat).getD k 0))
            (([2, 3, 1] : List Nat).getD k 0) false] ∧
        out = ((List.range k).map (fun u =>
          (c20_file.lf.data.drop (add64 0 (([10, 0, 5] : List Nat).getD u 0))).take
            (([2, 3, 1] : List Nat).getD u 0))).flatten))) ∧
    (∃ f2 r, H5F_contig_writev c20_file 20 0 3 [2, 3, 1] [10, 0, 5] [1, 2, 3, 4, 5, 6] =
        some (f2, r) ∧
      f2.sieve_buf = c20_file.sieve_buf ∧ f2.sieve_loc = c20_file.sieve_loc ∧
      f2.sieve_size = c20_file.sieve_size ∧ f2.sieve_dirty = c20_file.sieve_dirty ∧
      ((r = herr_t.SUCCEED ∧
        f2.log = c20_file.log ++ (List.range 3).map (fun u =>
          Event.block_write (add64 0 (([10, 0, 5] : List Nat).getD u 0))
            (([2, 3, 1] : List Nat).getD u 0)
            ((([1, 2, 3, 4, 5, 6] : List Nat).drop (([2, 3, 1] : List Nat).take u).sum).take
              (([2, 3, 1] : List Nat).getD u 0)) true)) ∨
       (r = herr_t.FAIL ∧ ∃ k, k < 3 ∧
        f2.log = c20_file.log ++ (List.range k).map (fun u =>
            Event.block_write (add64 0 (([10, 0, 5] : List Nat).getD u 0))
              (([2, 3, 1] : List Nat).getD u 0)
              ((([1, 2, 3, 4, 5, 6] : List Nat).drop (([2, 3, 1] : List Nat).take u).sum).take
                (([2, 3, 1] : List Nat).getD u 0)) true) ++
          [Event.block_write (add64 0 (([10, 0, 5] : List Nat).getD k 0))
            (([2, 3, 1] : List Nat).getD k 0)
            ((([1, 2, 3, 4, 5, 6] : List Nat).drop (([2, 3, 1] : List Nat).take k).sum).take
              (([2, 3, 1] : List Nat).getD k 0)) false]))) :=
  ⟨⟨by decide, by decide⟩,
    (C20_no_sieve_direct c20_file 20 0 3 [2, 3, 1] [10, 0, 5] (by decide) (by decide)
      (by decide)).1,
    (C20_no_sieve_direct c20_file 20 0 3 [2, 3, 1] [10, 0, 5] (by decide) (by decide)
      (by decide)).2.1 [1, 2, 3, 4, 5, 6] (by decide)⟩

theorem hit_run_strategy (_addr sieve_end nseq : Nat) (size_arr offset_arr : List Nat) (u : Nat) :
    hit_run _addr sieve_end nseq size_arr offset_arr u =
      (log2_probe_int (((nseq - 1) - u) + 1)).map (fun log2 =>
        if temp_end _addr size_arr offset_arr (probe_seq nseq u log2) ≥ sieve_end then
          linear_run _addr sieve_end nseq size_arr offset_arr u
        else binary_run _addr sieve_end nseq size_arr offset_arr u) := by
  unfold hit_run
  simp only
  cases log2_probe_int (nseq - 1 - u + 1) <;> rfl

/-- The linear search from `m` stops at the first sequence from `m` on that
does not end before the end of the window, or at `nseq`. -/

theorem linear_search_spec (_addr sieve_end nseq : Nat) (size_arr offset_arr : List Nat) :
    ∀ (fuel m : Nat), m < nseq → nseq - m ≤ fuel →
      m ≤ linear_search _addr sieve_end nseq size_arr offset_arr fuel m ∧
      linear_search _addr sieve_end nseq size_arr offset_arr fuel m ≤ nseq ∧
      (∀ i, m ≤ i → i < linear_search _addr sieve_end nseq size_arr offset_arr fuel m →
        temp_end _addr size_arr offset_arr i < sieve_end) ∧
      (linear_search _addr sieve_end nseq size_arr offset_arr fuel m < nseq →
        ¬ temp_end _addr size_arr offset_arr
          (linear_search _addr sieve_end nseq size_arr offset_arr fuel m) < sieve_end) := by
  intro fuel
  induction fuel with
  | zero => intro m h1 h2; omega
  | succ k ih =>
    intro m h1 h2
    simp only [linear_search]
    by_cases ht : temp_end _addr size_arr offset_arr m < sieve_end
    · simp only [ht, if_true]
      by_cases hn : m + 1 ≥ nseq
      · simp only [hn, if_true]
        refine ⟨by omega, by omega, ?_, fun h => by omega⟩
        intro i hi1 hi2
        have : i = m := by omega
        rw [this]; exact ht
      · simp only [hn, if_false]
        obtain ⟨i1, i2, i3, i4⟩ := ih (m + 1) (by omega) (by omega)
        refine ⟨by omega, i2, ?_, i4⟩
        intro i hi1 hi2
        by_cases him : i = m
        · rw [him]; exact ht
        · exact i3 i (by omega) hi2
    · simp only [ht, if_false]
      exact ⟨le_refl _, by omega, fun i hi1 hi2 => by omega, fun _ => id⟩

/-- The run of the linear strategy: every sequence from `u` to the result ends
before the end of the window, and the next one, if any, does not. -/

theorem linear_run_spec (_addr sieve_end nseq : Nat) (size_arr offset_arr : List Nat) (u : Nat)
    (hu : u < nseq) (hend : temp_end _addr size_arr offset_arr u < sieve_end) :
    u ≤ linear_run _addr sieve_end nseq size_arr offset_arr u ∧
    linear_run _addr sieve_end nseq size_arr offset_arr u < nseq ∧
    (∀ i, u ≤ i → i ≤ linear_run _addr sieve_end nseq size_arr offset_arr u →
      temp_end _addr size_arr offset_arr i < sieve_end) ∧
    (linear_run _addr sieve_end nseq size_arr offset_arr u + 1 < nseq →
      ¬ temp_end _addr size_arr offset_arr
        (linear_run _addr sieve_end nseq size_arr offset_arr u + 1) < sieve_end) := by
  obtain ⟨i1, i2, i3, i4⟩ := linear_search_spec _addr sieve_end nseq size_arr offset_arr nseq u
    hu (by omega)
  have hne : linear_search _addr sieve_end nseq size_arr offset_arr nseq u ≠ u := by
    intro h
    rw [h] at i4
    exact i4 hu hend
  unfold linear_run
  refine ⟨by omega, by omega, fun i h1 h2 => i3 i h1 (by omega), ?_⟩
  intro h
  have e : linear_search _addr sieve_end nseq size_arr offset_arr nseq u - 1 + 1 =
      linear_search _addr sieve_end nseq size_arr offset_arr nseq u := by omega
  rw [e]
  exact i4 (by omega)

/-- The binary search keeps a low bound that ends before the end of the window
and a high bound that is the last sequence or does not, and ends with the two
bounds equal or adjacent. -/

theorem binary_search_spec (_addr sieve_end : Nat) (size_arr offset_arr : List Nat) (top : Nat) :
    ∀ (fuel : Nat) (b : Bounds), b.hi - b.lo < fuel →
      b.lo ≤ b.max_seq → b.max_seq ≤ b.hi →
      (b.lo + 1 < b.hi → b.lo < b.max_seq ∧ b.max_seq < b.hi) →
      temp_end _addr size_arr offset_arr b.lo < sieve_end →
      (b.hi = top ∨ ¬ temp_end _addr size_arr offset_arr b.hi < sieve_end) →
      b.lo ≤ (binary_search _addr sieve_end size_arr offset_arr fuel b).lo ∧
      (binary_search _addr sieve_end size_arr offset_arr fuel b).lo ≤
        (binary_search _addr sieve_end size_arr offset_arr fuel b).max_seq ∧
      (binary_search _addr sieve_end size_arr offset_arr fuel b).max_seq ≤
        (binary_search _addr sieve_end size_arr offset_arr fuel b).hi ∧
      (binary_search _addr sieve_end size_arr offset_arr fuel b).hi ≤
        (binary_search _addr sieve_end size_arr offset_arr fuel b).lo + 1 ∧
      temp_end _addr size_arr offset_arr
        (binary_search _addr sieve_end size_arr offset_arr fuel b).lo < sieve_end ∧
      ((binary_search _addr sieve_end size_arr offset_arr fuel b).hi = top ∨
        ¬ temp_end _addr size_arr offset_arr
          (binary_search _addr sieve_end size_arr offset_arr fuel b).hi < sieve_end) := by
  intro fuel
  induction fuel with
  | zero => intro b h; omega
  | succ k ih =>
    intro b hf h1 h2 h3 hlo hhi
    simp only [binary_search]
    by_cases ht : temp_end _addr size_arr offset_arr b.max_seq ≥ sieve_end
    · simp only [ht, if_true]
      by_cases hl : b.lo + 1 < b.hi
      · simp only [hl, if_true]
        obtain ⟨g1, g2⟩ := h3 hl
        have := ih { lo := b.lo, hi := b.max_seq, max_seq := (b.lo + b.max_seq) / 2 }
          (by simp only; omega) (by simp only; omega) (by simp only; omega)
          (by simp only; intro h; constructor <;> omega) hlo (Or.inr (by simp only; omega))
        exact this
      · simp only [hl, if_false]
        exact ⟨le_refl _, h1, h2, by omega, hlo, hhi⟩
    · simp only [ht, if_false]
      by_cases hl : b.lo + 1 < b.hi
      · simp only [hl, if_true]
        obtain ⟨g1, g2⟩ := h3 hl
        obtain ⟨i1, i2, i3, i4, i5, i6⟩ :=
          ih { lo := b.max_seq, hi := b.hi, max_seq := (b.max_seq + b.hi + 1) / 2 }
          (by simp only; omega) (by simp only; omega) (by simp only; omega)
          (by simp only; intro h; constructor <;> omega) (by simp only; omega) hhi
        simp only at i1
        exact ⟨by omega, i2, i3, i4, i5, i6⟩
      · simp only [hl, if_false]
        exact ⟨le_refl _, h1, h2, by omega, hlo, hhi⟩

/-- The run of the binary strategy: the result ends before the end of the
window, and the next sequence, if any, does not. -/

theorem binary_run_spec (_addr sieve_end nseq : Nat) (size_arr offset_arr : List Nat) (u : Nat)
    (hu : u < nseq) (hend : temp_end _addr size_arr offset_arr u < sieve_end) :
    u ≤ binary_run _addr sieve_end nseq size_arr offset_arr u ∧
    binary_run _addr sieve_end nseq size_arr offset_arr u < nseq ∧
    temp_end _addr size_arr offset_arr (binary_run _addr sieve_end nseq size_arr offset_arr u) <
      sieve_end ∧
    (binary_run _addr sieve_end nseq size_arr offset_arr u + 1 < nseq →
      ¬ temp_end _addr size_arr offset_arr
        (binary_run _addr sieve_end nseq size_arr offset_arr u + 1) < sieve_end) := by
  obtain ⟨i1, i2, i3, i4, i5, i6⟩ := binary_search_spec _addr sieve_end size_arr offset_arr
    (nseq - 1) nseq { lo := u, hi := nseq - 1, max_seq := (u + (nseq - 1)) / 2 }
    (by simp only; omega) (by simp only; omega) (by simp only; omega)
    (by simp only; intro h; constructor <;> omega) hend (Or.inl rfl)
  obtain ⟨j1, j2, j3, j4⟩ := binary_search_inv _addr sieve_end size_arr offset_arr nseq
    { lo := u, hi := nseq - 1, max_seq := (u + (nseq - 1)) / 2 }
    (by simp only; omega) (by simp only; omega)
  simp only at i1 j4
  unfold binary_run
  simp only
  generalize binary_search _addr sieve_end size_arr offset_arr nseq
    { lo := u, hi := nseq - 1, max_seq := (u + (nseq - 1)) / 2 } = r at *
  by_cases hne : r.lo ≠ r.hi
  · rw [if_pos hne]
    have hadj : r.hi = r.lo + 1 := by omega
    by_cases hg : temp_end _addr size_arr offset_arr r.hi < sieve_end
    · rw [if_pos hg]
      have htop : r.hi = nseq - 1 := by
        rcases i6 with h | h
        · exact h
        · exact absurd hg h
      exact ⟨by omega, by omega, hg, fun h => by omega⟩
    · rw [if_neg hg]
      refine ⟨i1, by omega, i5, fun _ => ?_⟩
      rw [← hadj]; exact hg
  · have heq : r.lo = r.hi := by
      by_contra h; exact hne h
    rw [if_neg hne]
    have hm : r.max_seq = r.lo := by omega
    rw [hm]
    have htop : r.hi = nseq - 1 := by
      rcases i6 with h | h
      · exact h
      · rw [← heq] at h; exact absurd i5 h
    exact ⟨i1, by omega, i5, fun h => by omega⟩

/-- C21, amended (`H5F_contig_readv` lines 396-487, `H5F_contig_writev` lines
818-909): when the end addresses `_addr + offset + size - 1` (64-bit) of the
sequences from `u` on are non-decreasing and sequence `u` ends before the end
of the window, the linear strategy and the binary strategy of the hit path
compute the same `max_seq`, which is therefore the one of the hybrid whatever
the log2 probe picks, the hybrid having a result when the shift of the probe
is defined: the last index whose end address is below the end of the window,
all sequences from `u` to it ending below it as well. -/

theorem C21_strategies_agree (_addr sieve_end nseq : Nat) (size_arr offset_arr : List Nat)
    (u : Nat) (hu : u < nseq) (hend : temp_end _addr size_arr offset_arr u < sieve_end)
    (hmono : ∀ j, j < nseq → ∀ i, i ≤ j → u ≤ i →
      temp_end _addr size_arr offset_arr i ≤ temp_end _addr size_arr offset_arr j) :
    linear_run _addr sieve_end nseq size_arr offset_arr u =
      binary_run _addr sieve_end nseq size_arr offset_arr u ∧
    hit_run _addr sieve_end nseq size_arr offset_arr u =
      (log2_probe_int (((nseq - 1) - u) + 1)).map
        (fun _ => linear_run _addr sieve_end nseq size_arr offset_arr u) ∧
    u ≤ linear_run _addr sieve_end nseq size_arr offset_arr u ∧
    linear_run _addr sieve_end nseq size_arr offset_arr u < nseq ∧
    (∀ i, u ≤ i → i < nseq →
      (temp_end _addr size_arr offset_arr i < sieve_end ↔
        i ≤ linear_run _addr sieve_end nseq size_arr offset_arr u)) := by
  obtain ⟨l1, l2, l3, l4⟩ := linear_run_spec _addr sieve_end nseq size_arr offset_arr u hu hend
  obtain ⟨b1, b2, b3, b4⟩ := binary_run_spec _addr sieve_end nseq size_arr offset_arr u hu hend
  have heq : linear_run _addr sieve_end nseq size_arr offset_arr u =
      binary_run _addr sieve_end nseq size_arr offset_arr u := by
    rcases Nat.lt_trichotomy (linear_run _addr sieve_end nseq size_arr offset_arr u)
      (binary_run _addr sieve_end nseq size_arr offset_arr u) with h | h | h
    · exfalso
      have hb := l4 (by omega)
      have := hmono _ b2 (linear_run _addr sieve_end nseq size_arr offset_arr u + 1)
        (by omega) (by omega)
      omega
    · exact h
    · exfalso
      have hb := b4 (by omega)
      exact hb (l3 _ (by omega) (by omega))
  refine ⟨heq, ?_, l1, l2, ?_⟩
  · rw [hit_run_strategy]
    cases log2_probe_int (nseq - 1 - u + 1) with
    | none => rfl
    | some log2 =>
      simp only [Option.map_some']
      split_ifs
      · rfl
      · rw [heq]
  · intro i h1 h2
    constructor
    · intro hg
      by_contra hc
      have hb := l4 (by omega)
      have := hmono i h2 (linear_run _addr sieve_end nseq size_arr offset_arr u + 1)
        (by omega) (by omega)
      omega
    · intro hle
      exact l3 i h1 hle

/-- C21, amended, at five sequences of 2 bytes at the offsets 0, 2, 4, 6, 8 and
a window that ends at 7: both strategies select the sequences 0 to 2. -/

theorem C21_strategies_agree_witness :
    (linear_run 0 7 5 [2, 2, 2, 2, 2] [0, 2, 4, 6, 8] 0 = 2 ∧
      binary_run 0 7 5 [2, 2, 2, 2, 2] [0, 2, 4, 6, 8] 0 = 2 ∧
      hit_run 0 7 5 [2, 2, 2, 2, 2] [0, 2, 4, 6, 8] 0 = some 2) ∧
    (linear_run 0 7 5 [2, 2, 2, 2, 2] [0, 2, 4, 6, 8] 0 =
      binary_run 0 7 5 [2, 2, 2, 2, 2] [0, 2, 4, 6, 8] 0 ∧
    hit_run 0 7 5 [2, 2, 2, 2, 2] [0, 2, 4, 6, 8] 0 =
      (log2_probe_int (((5 - 1) - 0) + 1)).map
        (fun _ => linear_run 0 7 5 [2, 2, 2, 2, 2] [0, 2, 4, 6, 8] 0) ∧
    0 ≤ linear_run 0 7 5 [2, 2, 2, 2, 2] [0, 2, 4, 6, 8] 0 ∧
    linear_run 0 7 5 [2, 2, 2, 2, 2] [0, 2, 4, 6, 8] 0 < 5 ∧
    (∀ i, 0 ≤ i → i < 5 →
      (temp_end 0 [2, 2, 2, 2, 2] [0, 2, 4, 6, 8] i < 7 ↔
        i ≤ linear_run 0 7 5 [2, 2, 2, 2, 2] [0, 2, 4, 6, 8] 0))) :=
  ⟨⟨by decide, by decide, by decide⟩,
    C21_strategies_agree 0 7 5 [2, 2, 2, 2, 2] [0, 2, 4, 6, 8] 0 (by decide) (by decide)
      (by decide)⟩

/-- C21, counterexample: five sequences at the non-decreasing offsets 0, 1, 2,
3, 4 with the sizes 1, 100, 1, 1, 1 and a window `[0, 8)`.  Sequence 0 lies
inside the window and sequence 1 does not; the linear strategy selects the
run that ends at sequence 0, the binary strategy the one that ends at
sequence 4, and the log2 probe picks the binary strategy. -/

theorem C21_strategies_differ :
    linear_run 0 8 5 [1, 100, 1, 1, 1] [0, 1, 2, 3, 4] 0 = 0 ∧
    binary_run 0 8 5 [1, 100, 1, 1, 1] [0, 1, 2, 3, 4] 0 = 4 ∧
    hit_run 0 8 5 [1, 100, 1, 1, 1] [0, 1, 2, 3, 4] 0 = some 4 ∧
    temp_end 0 [1, 100, 1, 1, 1] [0, 1, 2, 3, 4] 0 < 8 ∧
    ¬ temp_end 0 [1, 100, 1, 1, 1] [0, 1, 2, 3, 4] 1 < 8 := by
  decide

/-- Whatever strategy the log2 probe picks, when the end addresses of the
sequences from `u` on are non-decreasing the run the hit path selects is the
run of all the sequences from `u` on that end before the end of the window. -/

theorem hit_run_spec (_addr sieve_end nseq : Nat) (size_arr offset_arr : List Nat)
    (u : Nat) (hu : u < nseq) (hend : temp_end _addr size_arr offset_arr u < sieve_end)
    (hmono : ∀ j, j < nseq → ∀ i, i ≤ j → u ≤ i →
      temp_end _addr size_arr offset_arr i ≤ temp_end _addr size_arr offset_arr j)
    (m : Nat) (hm : hit_run _addr sieve_end nseq size_arr offset_arr u = some m) :
    u ≤ m ∧ m < nseq ∧
    (∀ i, u ≤ i → i ≤ m → temp_end _addr size_arr offset_arr i < sieve_end) ∧
    (m + 1 < nseq → ¬ temp_end _addr size_arr offset_arr (m + 1) < sieve_end) := by
  rw [hit_run_strategy] at hm
  rcases hp : log2_probe_int (nseq - 1 - u + 1) with _ | log2
  · simp [hp] at hm
  simp only [hp, Option.map_some', Option.some.injEq] at hm
  subst hm
  split_ifs with h
  · exact linear_run_spec _addr sieve_end nseq size_arr offset_arr u hu hend
  · obtain ⟨b1, b2, b3, b4⟩ := binary_run_spec _addr sieve_end nseq size_arr offset_arr u hu hend
    refine ⟨b1, b2, ?_, b4⟩
    intro i h1 h2
    have := hmono _ b2 i h2 h1
    omega

/-- Sorted sequences: the ends `offset+size` do not decrease. -/

theorem sorted_ends (nseq : Nat) (size_arr offset_arr : List Nat)
    (hsorted : ∀ i, i < nseq - 1 →
      offset_arr.getD i 0 + size_arr.getD i 0 ≤ offset_arr.getD (i + 1) 0) :
    ∀ d i, i + d < nseq →
      offset_arr.getD i 0 ≤ offset_arr.getD (i + d) 0 ∧
      offset_arr.getD i 0 + size_arr.getD i 0 ≤
        offset_arr.getD (i + d) 0 + size_arr.getD (i + d) 0 := by
  intro d
  induction d with
  | zero => intro i _; exact ⟨le_refl _, le_refl _⟩
  | succ n ih =>
    intro i h
    obtain ⟨a1, a2⟩ := ih i (by omega)
    have := hsorted (i + n) (by omega)
    rw [← Nat.add_assoc]
    omega

/-- The copy loop of the hit path on sequences that lie inside the window. -/

theorem readv_copy_spec (sb : List Nat) (l : Locals) (_addr : Nat)
    (size_arr offset_arr : List Nat) (hlen : l.sieve_size ≤ sb.length)
    (hw : l.sieve_start + l.sieve_size < HADDR_MOD) (ha : _addr < HADDR_MOD) :
    ∀ (count u : Nat) (out : List Nat),
      (∀ i, u ≤ i → i < u + count → seq_inside l _addr size_arr offset_arr i) →
      readv_copy sb _addr l.sieve_start size_arr offset_arr count u out =
        some (out ++ ((List.range count).map (fun k =>
          (sb.drop (_addr + offset_arr.getD (u + k) 0 - l.sieve_start)).take
            (size_arr.getD (u + k) 0))).flatten) := by
  intro count
  induction count with
  | zero => intro u out _; simp [readv_copy]
  | succ n ih =>
    intro u out hin
    obtain ⟨i1, i2⟩ := hin u (le_refl _) (by omega)
    have hoff : add64 (sub64 _addr l.sieve_start) (offset_arr.getD u 0) =
        _addr + offset_arr.getD u 0 - l.sieve_start := by
      simp only [add64, sub64, HADDR_MOD] at *
      omega
    have hm : mem_read sb (add64 (sub64 _addr l.sieve_start) (offset_arr.getD u 0))
        (size_arr.getD u 0) =
        some ((sb.drop (_addr + offset_arr.getD u 0 - l.sieve_start)).take
          (size_arr.getD u 0)) := by
      rw [hoff]
      simp only [mem_read]
      rw [if_pos (by omega)]
    simp only [readv_copy, hm]
    rw [ih (u + 1) _ (fun i h1 h2 => hin i (by omega) (by omega))]
    rw [range_map_succ]
    simp only [List.flatten_cons, Nat.add_zero, List.append_assoc]
    congr 4
    apply range_map_congr
    intro k _
    rw [show u + 1 + k = u + (k + 1) by omega]

/-- The run of sorted sequences when fewer than `2^24` sequences are left
(`H5F_contig_readv`, lines 370-574; what C22 says, which holds then): for
sequences of at least one byte each that are sorted and do not overlap
(`offset[i] + size[i] <= offset[i+1]`), whose addresses do not wrap around 64
bits, and a current sequence `u` that lies inside the window
`[sieve_start, sieve_start + sieve_size)` of a sieve buffer of at least
`sieve_size` bytes, the loop takes the hit path and the search has a result
`max_seq` with `u <= max_seq < nseq`, every sequence from `u` to `max_seq`
inside the window and sequence `max_seq + 1`, if there is one, not inside it;
the copy loop succeeds and appends, for each sequence `i` from `u` to
`max_seq` in order, the `size[i]` bytes of the sieve buffer at offset
`_addr + offset[i] - sieve_start`, each of these ranges lying in the first
`sieve_size` bytes of the buffer; the hit step leaves the next sequence
`max_seq + 1`. -/

theorem sorted_run_bounded (sb : List Nat) (l : Locals) (_addr nseq : Nat)
    (size_arr offset_arr : List Nat) (u : Nat) (out : List Nat)
    (hend : l.sieve_end = l.sieve_start + l.sieve_size)
    (hw : l.sieve_start + l.sieve_size < HADDR_MOD)
    (hlen : l.sieve_size ≤ sb.length)
    (hu : u < nseq)
    (hsmall : nseq - u < 2 ^ 24)
    (hpos : ∀ i, i < nseq → 1 ≤ size_arr.getD i 0)
    (hsorted : ∀ i, i < nseq - 1 →
      offset_arr.getD i 0 + size_arr.getD i 0 ≤ offset_arr.getD (i + 1) 0)
    (hnw : ∀ i, i < nseq → _addr + offset_arr.getD i 0 + size_arr.getD i 0 < HADDR_MOD)
    (hin : seq_inside l _addr size_arr offset_arr u) :
    within_sieve l (add64 _addr (offset_arr.getD u 0))
      (sub64 (add64 (add64 _addr (offset_arr.getD u 0)) (size_arr.getD u 0)) 1) = true ∧
    ∃ max_seq, hit_run _addr l.sieve_end nseq size_arr offset_arr u = some max_seq ∧
    u ≤ max_seq ∧ max_seq < nseq ∧
    (∀ i, u ≤ i → i ≤ max_seq → seq_inside l _addr size_arr offset_arr i) ∧
    (max_seq + 1 < nseq → ¬ seq_inside l _addr size_arr offset_arr (max_seq + 1)) ∧
    readv_copy sb _addr l.sieve_start size_arr offset_arr (max_seq - u + 1) u out =
      some (out ++ ((List.range (max_seq - u + 1)).map (fun k =>
        (sb.drop (_addr + offset_arr.getD (u + k) 0 - l.sieve_start)).take
          (size_arr.getD (u + k) 0))).flatten) ∧
    (∀ i, u ≤ i → i ≤ max_seq →
      _addr + offset_arr.getD i 0 - l.sieve_start + size_arr.getD i 0 ≤ l.sieve_size) ∧
    (∀ f : H5F_t, f.sieve_buf = some sb →
      readv_hit f l _addr nseq size_arr offset_arr u out =
        some (out ++ ((List.range (max_seq - u + 1)).map (fun k =>
          (sb.drop (_addr + offset_arr.getD (u + k) 0 - l.sieve_start)).take
            (size_arr.getD (u + k) 0))).flatten,
          max_seq + 1)) := by
  have ha : _addr < HADDR_MOD := by
    have := hnw u hu
    omega
  -- the end address of a sequence, without wrap
  have hte : ∀ i, i < nseq → temp_end _addr size_arr offset_arr i =
      _addr + offset_arr.getD i 0 + size_arr.getD i 0 - 1 := by
    intro i hi
    have h1 := hpos i hi
    have h2 := hnw i hi
    simp only [temp_end, add64, sub64, HADDR_MOD] at *
    omega
  have hse := sorted_ends nseq size_arr offset_arr hsorted
  have hmono : ∀ j, j < nseq → ∀ i, i ≤ j → u ≤ i →
      temp_end _addr size_arr offset_arr i ≤ temp_end _addr size_arr offset_arr j := by
    intro j hj i hij _
    rw [hte i (by omega), hte j hj]
    have := (hse (j - i) i (by omega)).2
    rw [show i + (j - i) = j by omega] at this
    omega
  have hgood : temp_end _addr size_arr offset_arr u < l.sieve_end := by
    rw [hte u hu, hend]
    have := hpos u hu
    have := hin.2
    omega
  obtain ⟨m, hm⟩ := hit_run_small _addr l.sieve_end nseq size_arr offset_arr u hsmall
  obtain ⟨r1, r2, r3, r4⟩ :=
    hit_run_spec _addr l.sieve_end nseq size_arr offset_arr u hu hgood hmono m hm
  have hall : ∀ i, u ≤ i → i ≤ m → seq_inside l _addr size_arr offset_arr i := by
    intro i h1 h2
    have hg := r3 i h1 h2
    rw [hte i (by omega), hend] at hg
    have := hpos i (by omega)
    have hle := (hse (i - u) u (by omega)).1
    rw [show u + (i - u) = i by omega] at hle
    have := hin.1
    exact ⟨by omega, by omega⟩
  have hcopy := readv_copy_spec sb l _addr size_arr offset_arr hlen hw ha
    (m - u + 1) u out
    (fun i h1 h2 => hall i h1 (by omega))
  refine ⟨?_, m, hm, r1, r2, hall, ?_, hcopy, ?_, ?_⟩
  · have h1 := hpos u hu
    have h2 := hnw u hu
    have h3 := hin.1
    have h4 := hin.2
    simp only [within_sieve, hend, add64, sub64, HADDR_MOD, Bool.and_eq_true,
      decide_eq_true_eq] at *
    omega
  · intro hlt hins
    apply r4 hlt
    rw [hte _ hlt]
    have := hpos _ hlt
    have := hins.2
    omega
  · intro i h1 h2
    have hi := hall i h1 h2
    have := hi.1
    have := hi.2
    omega
  · intro f hf
    simp only [readv_hit, hf, hm, hcopy]

/-- The run at four sequences of 2 bytes at the addresses 4, 7, 10, 13 and the
window `[4, 12)`: the search selects the sequences 0 to 2 and the copy loop
returns their six bytes. -/

theorem sorted_run_bounded_example :
    hit_run 4 c22_window.sieve_end 4 [2, 2, 2, 2] [0, 3, 6, 9] 0 = some 2 ∧
    readv_copy c22_buf 4 c22_window.sieve_start [2, 2, 2, 2] [0, 3, 6, 9] 3 0 [] =
      some [10, 11, 13, 14, 16, 17] ∧
    (∀ f : H5F_t, f.sieve_buf = some c22_buf →
      readv_hit f c22_window 4 4 [2, 2, 2, 2] [0, 3, 6, 9] 0 [] =
        some ([10, 11, 13, 14, 16, 17], 3)) := by
  refine ⟨by decide, by decide, ?_⟩
  intro f hf
  obtain ⟨_, m, hm, _, _, _, _, _, _, hhit⟩ :=
    sorted_run_bounded c22_buf c22_window 4 4 [2, 2, 2, 2] [0, 3, 6, 9] 0 [] (by decide)
      (by decide) (by decide) (by decide) (by decide) (by decide) (by decide) (by decide)
      (by decide)
  have h2 : hit_run 4 c22_window.sieve_end 4 [2, 2, 2, 2] [0, 3, 6, 9] 0 = some 2 := by decide
  rw [h2] at hm
  cases hm
  rw [hhit f hf]
  decide

theorem window_size_le (f : H5F_t) (_max_data offset : Nat) :
    window_size f _max_data offset ≤ f.sieve_buf_size := by
  unfold window_size
  exact le_trans (Nat.min_le_right _ _) (Nat.min_le_right _ _)

theorem size_stash (f : H5F_t) (h : f.sieve_size ≤ f.sieve_buf_size) : SizeInv f (stash f) :=
  ⟨h, Or.inl rfl⟩

theorem size_sieve_fill (f g : H5F_t) (r : herr_t) (h : sieve_fill f = some (g, r)) :
    g.sieve_size = f.sieve_size ∧ g.sieve_buf_size = f.sieve_buf_size := by
  unfold sieve_fill at h
  obtain ⟨_, _, w3, _, w5, _, _, _⟩ := block_read_fields f f.sieve_loc f.sieve_size
  rcases hr : H5F_block_read f f.sieve_loc f.sieve_size with ⟨g1, d⟩
  rw [hr] at h w3 w5
  simp only at w3 w5
  cases d with
  | none =>
    simp only [Option.some.injEq, Prod.mk.injEq] at h
    rw [← h.1]
    exact ⟨w3, w5⟩
  | some data =>
    simp only at h
    cases hb : g1.sieve_buf with
    | none => simp [hb] at h
    | some sb =>
      simp only [hb] at h
      cases hm : mem_write sb 0 data with
      | none => simp [hm] at h
      | some sb1 =>
        simp only [hm, Option.some.injEq, Prod.mk.injEq] at h
        rw [← h.1]
        exact ⟨w3, w5⟩

theorem size_readv_window (f g : H5F_t) (_max_data offset addr size : Nat)
    (r : Option (List Nat)) (hpre : f.sieve_size ≤ f.sieve_buf_size)
    (h : readv_window f _max_data offset addr size = some (g, r)) :
    g.sieve_buf_size = f.sieve_buf_size ∧ g.sieve_size ≤ g.sieve_buf_size := by
  unfold readv_window at h
  simp only at h
  split_ifs at h with he
  · simp only [Option.some.injEq, Prod.mk.injEq] at h
    rw [← h.1]
    exact ⟨rfl, hpre⟩
  · rcases hf : sieve_fill { f with sieve_loc := addr, sieve_size := window_size { f with sieve_loc := addr } _max_data offset } with _ | ⟨g1, rr⟩
    · simp [hf] at h
    · obtain ⟨s1, s2⟩ := size_sieve_fill _ g1 rr hf
      simp only at s1 s2
      have hw := window_size_le { f with sieve_loc := addr } _max_data offset
      simp only at hw
      simp only [hf] at h
      cases rr with
      | FAIL =>
        simp only [Option.some.injEq, Prod.mk.injEq] at h
        rw [← h.1]
        exact ⟨s2, by rw [s1, s2]; exact hw⟩
      | SUCCEED =>
        simp only at h
        cases hb : g1.sieve_buf with
        | none => simp [hb] at h
        | some sb =>
          simp only [hb] at h
          cases hm : mem_read sb 0 size with
          | none => simp [hm] at h
          | some bytes =>
            simp only [hm, Option.some.injEq, Prod.mk.injEq] at h
            rw [← h.1]
            exact ⟨s2, by simp only; rw [s1, s2]; exact hw⟩

theorem size_writev_window (f g : H5F_t) (_max_data offset addr size : Nat) (bytes : List Nat)
    (r : herr_t) (hpre : f.sieve_size ≤ f.sieve_buf_size)
    (h : writev_window f _max_data offset addr size bytes = some (g, r)) :
    g.sieve_buf_size = f.sieve_buf_size ∧ g.sieve_size ≤ g.sieve_buf_size := by
  unfold writev_window at h
  simp only at h
  have hw := window_size_le { f with sieve_loc := addr } _max_data offset
  simp only at hw
  split_ifs at h with he hs
  · simp only [Option.some.injEq, Prod.mk.injEq] at h
    rw [← h.1]
    exact ⟨rfl, hpre⟩
  · rcases hf : sieve_fill { f with sieve_loc := addr, sieve_size := window_size { f with sieve_loc := addr } _max_data offset } with _ | ⟨g1, rr⟩
    · simp [hf] at h
    · obtain ⟨s1, s2⟩ := size_sieve_fill _ g1 rr hf
      simp only at s1 s2
      simp only [hf] at h
      cases rr with
      | FAIL =>
        simp only [Option.some.injEq, Prod.mk.injEq] at h
        rw [← h.1]
        exact ⟨s2, by rw [s1, s2]; exact hw⟩
      | SUCCEED =>
        simp only at h
        cases hb : g1.sieve_buf with
        | none => simp [hb] at h
        | some sb =>
          simp only [hb] at h
          cases hm : mem_write sb 0 bytes with
          | none => simp [hm] at h
          | some sb1 =>
            simp only [hm, Option.some.injEq, Prod.mk.injEq] at h
            rw [← h.1]
            exact ⟨s2, by simp only; rw [s1, s2]; exact hw⟩
  · simp only at h
    cases hb : f.sieve_buf with
    | none => simp [hb] at h
    | some sb =>
      simp only [hb] at h
      cases hm : mem_write sb 0 bytes with
      | none => simp [hm] at h
      | some sb1 =>
        simp only [hm, Option.some.injEq, Prod.mk.injEq] at h
        rw [← h.1]
        exact ⟨rfl, hw⟩

theorem size_readv_miss (f g : H5F_t) (l l2 : Locals)
    (_max_data offset addr size contig_end : Nat) (r : Option (List Nat))
    (hpre : SizeInv f l)
    (h : readv_miss f l _max_data offset addr size contig_end = some (g, l2, r)) :
    SizeInv g l2 ∧ g.sieve_buf_size = f.sieve_buf_size := by
  unfold readv_miss at h
  by_cases hgt : size > f.sieve_buf_size
  · simp only [hgt, if_true] at h
    rcases hd : readv_direct f l addr size contig_end with _ | ⟨g1, r1⟩
    · simp [hd] at h
    · simp only [hd, Option.some.injEq, Prod.mk.injEq] at h
      obtain ⟨h1, h2, _⟩ := h
      subst h1; subst h2
      have key : g1.sieve_size = f.sieve_size ∧ g1.sieve_buf_size = f.sieve_buf_size := by
        unfold readv_direct at hd
        by_cases hov : overlap_check l addr contig_end = true
        · simp only [hov, if_true] at hd
          rcases hfl : sieve_flush f l with _ | ⟨g2, rr⟩
          · simp [hfl] at hd
          · obtain ⟨_, _, a3, a4, _⟩ := sieve_flush_spec f l g2 rr hfl
            simp only [hfl] at hd
            cases rr with
            | FAIL =>
              simp only [Option.some.injEq, Prod.mk.injEq] at hd
              rw [← hd.1]
              exact ⟨a3, a4⟩
            | SUCCEED =>
              simp only [Option.some.injEq] at hd
              obtain ⟨_, _, w3, _, w5, _⟩ := block_read_fields g2 addr size
              rw [hd] at w3 w5
              exact ⟨by rw [w3, a3], by rw [w5, a4]⟩
        · simp only [hov, Bool.false_eq_true, if_false, Option.some.injEq] at hd
          obtain ⟨_, _, w3, _, w5, _⟩ := block_read_fields f addr size
          rw [hd] at w3 w5
          exact ⟨w3, w5⟩
      obtain ⟨p1, p2⟩ := hpre
      refine ⟨⟨by rw [key.1, key.2]; exact p1, ?_⟩, key.2⟩
      rw [key.1]
      exact p2
  · simp only [hgt, if_false] at h
    rcases hd : readv_replace f l _max_data offset addr size with _ | ⟨g1, r1⟩
    · simp [hd] at h
    · simp only [hd, Option.some.injEq, Prod.mk.injEq] at h
      obtain ⟨h1, h2, _⟩ := h
      subst h1; subst h2
      have key : g1.sieve_buf_size = f.sieve_buf_size ∧ g1.sieve_size ≤ g1.sieve_buf_size := by
        unfold readv_replace at hd
        rcases hfl : sieve_flush f l with _ | ⟨g2, rr⟩
        · simp [hfl] at hd
        · obtain ⟨_, _, a3, a4, _⟩ := sieve_flush_spec f l g2 rr hfl
          simp only [hfl] at hd
          cases rr with
          | FAIL =>
            simp only [Option.some.injEq, Prod.mk.injEq] at hd
            rw [← hd.1]
            exact ⟨a4, by rw [a3, a4]; exact hpre.1⟩
          | SUCCEED =>
            simp only at hd
            obtain ⟨b1, b2⟩ := size_readv_window g2 g1 _ _ _ _ r1
              (by rw [a3, a4]; exact hpre.1) hd
            exact ⟨by rw [b1, a4], b2⟩
      exact ⟨size_stash g1 key.2, key.1⟩

theorem size_writev_extend (f g : H5F_t) (l : Locals) (addr size : Nat) (bytes : List Nat)
    (h : writev_extend f l addr size bytes = some g) :
    g.sieve_size = add64 f.sieve_size size ∧ g.sieve_buf_size = f.sieve_buf_size := by
  unfold writev_extend at h
  cases hb : f.sieve_buf with
  | none => simp [hb] at h
  | some sb =>
    simp only [hb] at h
    split_ifs at h
    · cases h1 : mem_read sb 0 l.sieve_size with
      | none => simp [h1] at h
      | some old =>
        simp only [h1] at h
        cases h2 : mem_write sb size old with
        | none => simp [h2] at h
        | some sb1 =>
          simp only [h2] at h
          cases h3 : mem_write sb1 0 bytes with
          | none => simp [h3] at h
          | some sb2 =>
            simp only [h3, Option.some.injEq] at h
            rw [← h]
            exact ⟨rfl, rfl⟩
    · cases h2 : mem_write sb l.sieve_size bytes with
      | none => simp [h2] at h
      | some sb1 =>
        simp only [h2, Option.some.injEq] at h
        rw [← h]
        exact ⟨rfl, rfl⟩

theorem size_writev_miss (f g : H5F_t) (l l2 : Locals)
    (_max_data offset addr size contig_end : Nat) (bytes : List Nat) (r : herr_t)
    (hpre : SizeInv f l)
    (h : writev_miss f l _max_data offset addr size contig_end bytes = some (g, l2, r)) :
    SizeInv g l2 ∧ g.sieve_buf_size = f.sieve_buf_size := by
  unfold writev_miss at h
  obtain ⟨p1, p2⟩ := hpre
  by_cases hgt : size > f.sieve_buf_size
  · simp only [hgt, if_true] at h
    rcases hd : writev_direct f l addr size contig_end bytes with _ | ⟨g1, r1⟩
    · simp [hd] at h
    · simp only [hd, Option.some.injEq, Prod.mk.injEq] at h
      obtain ⟨h1, h2, _⟩ := h
      subst h1; subst h2
      have key : (g1.sieve_size = f.sieve_size ∨ g1.sieve_size = 0) ∧
          g1.sieve_buf_size = f.sieve_buf_size := by
        unfold writev_direct at hd
        by_cases hov : overlap_check l addr contig_end = true
        · simp only [hov, if_true] at hd
          rcases hfl : sieve_flush f l with _ | ⟨g2, rr⟩
          · simp [hfl] at hd
          · obtain ⟨_, _, a3, a4, _⟩ := sieve_flush_spec f l g2 rr hfl
            simp only [hfl] at hd
            cases rr with
            | FAIL =>
              simp only [Option.some.injEq, Prod.mk.injEq] at hd
              rw [← hd.1]
              exact ⟨Or.inl a3, a4⟩
            | SUCCEED =>
              simp only [Option.some.injEq] at hd
              obtain ⟨_, _, w3, _, w5, _⟩ := block_write_fields
                { g2 with sieve_loc := HADDR_UNDEF, sieve_size := 0 } addr size bytes
              rw [hd] at w3 w5
              simp only at w3 w5
              exact ⟨Or.inr w3, by rw [w5, a4]⟩
        · simp only [hov, Bool.false_eq_true, if_false, Option.some.injEq] at hd
          obtain ⟨_, _, w3, _, w5, _⟩ := block_write_fields f addr size bytes
          rw [hd] at w3 w5
          exact ⟨Or.inl w3, w5⟩
      obtain ⟨k1, k2⟩ := key
      refine ⟨⟨?_, ?_⟩, k2⟩
      · rcases k1 with k1 | k1
        · rw [k1, k2]; exact p1
        · rw [k1]; exact Nat.zero_le _
      · rcases k1 with k1 | k1
        · rw [k1]; exact p2
        · exact Or.inr k1
  · simp only [hgt, if_false] at h
    by_cases hce : can_extend f l addr size = true
    · simp only [hce, if_true] at h
      rcases he : writev_extend f l addr size bytes with _ | g1
      · simp [he] at h
      · simp only [he, Option.some.injEq, Prod.mk.injEq] at h
        obtain ⟨h1, h2, _⟩ := h
        subst h1; subst h2
        obtain ⟨e1, e2⟩ := size_writev_extend f g1 l addr size bytes he
        refine ⟨size_stash g1 ?_, e2⟩
        rw [e1, e2]
        simp only [can_extend, Bool.and_eq_true, decide_eq_true_eq] at hce
        have hfit := hce.1.2
        rcases p2 with p2 | p2
        · rw [← p2]
          unfold add64 at hfit ⊢
          rw [Nat.add_comm]
          exact hfit
        · rw [p2]
          unfold add64
          rw [Nat.zero_add]
          exact le_trans (Nat.mod_le _ _) (by omega)
    · simp only [hce, Bool.false_eq_true, if_false] at h
      rcases hd : writev_replace f l _max_data offset addr size bytes with _ | ⟨g1, r1⟩
      · simp [hd] at h
      · simp only [hd, Option.some.injEq, Prod.mk.injEq] at h
        obtain ⟨h1, h2, _⟩ := h
        subst h1; subst h2
        have key : g1.sieve_buf_size = f.sieve_buf_size ∧
            g1.sieve_size ≤ g1.sieve_buf_size := by
          unfold writev_replace at hd
          rcases hfl : sieve_flush f l with _ | ⟨g2, rr⟩
          · simp [hfl] at hd
          · obtain ⟨_, _, a3, a4, _⟩ := sieve_flush_spec f l g2 rr hfl
            simp only [hfl] at hd
            cases rr with
            | FAIL =>
              simp only [Option.some.injEq, Prod.mk.injEq] at hd
              rw [← hd.1]
              exact ⟨a4, by rw [a3, a4]; exact p1⟩
            | SUCCEED =>
              simp only at hd
              obtain ⟨b1, b2⟩ := size_writev_window g2 g1 _ _ _ _ bytes r1
                (by rw [a3, a4]; exact p1) hd
              exact ⟨by rw [b1, a4], b2⟩
        exact ⟨size_stash g1 key.2, key.1⟩

theorem size_writev_hit (f g : H5F_t) (l : Locals) (_addr nseq : Nat)
    (size_arr offset_arr : List Nat) (u u2 : Nat) (buf buf2 : List Nat)
    (h : writev_hit f l _addr nseq size_arr offset_arr u buf = some (g, buf2, u2)) :
    g.sieve_size = f.sieve_size ∧ g.sieve_buf_size = f.sieve_buf_size := by
  unfold writev_hit at h
  cases hb : f.sieve_buf with
  | none => simp [hb] at h
  | some sb =>
    simp only [hb] at h
    rcases hm : hit_run _addr l.sieve_end nseq size_arr offset_arr u with _ | m
    · simp [hm] at h
    · simp only [hm] at h
      rcases hc : writev_copy _addr l.sieve_start size_arr offset_arr
        (m - u + 1) u sb buf with _ | ⟨sb2, b2⟩
      · simp [hc] at h
      · simp only [hc, Option.some.injEq, Prod.mk.injEq] at h
        rw [← h.1]
        exact ⟨rfl, rfl⟩

theorem size_readv_inner (_max_data _addr nseq : Nat) (size_arr offset_arr : List Nat) :
    ∀ (fuel : Nat) (f : H5F_t) (l : Locals) (u : Nat) (out : List Nat) (f2 : H5F_t) (r : herr_t)
      (out2 : List Nat), SizeInv f l →
      readv_inner _max_data _addr nseq size_arr offset_arr fuel f l u out = some (f2, r, out2) →
      f2.sieve_size ≤ f2.sieve_buf_size ∧ f2.sieve_buf_size = f.sieve_buf_size := by
  intro fuel
  induction fuel with
  | zero =>
    intro f l u out f2 r out2 hp h
    simp only [readv_inner] at h
    split_ifs at h
    simp only [Option.some.injEq, Prod.mk.injEq] at h
    rw [← h.1]
    exact ⟨hp.1, rfl⟩
  | succ n ih =>
    intro f l u out f2 r out2 hp h
    simp only [readv_inner] at h
    by_cases hu : u < nseq
    · simp only [hu, if_true] at h
      by_cases hin : within_sieve l (add64 _addr (offset_arr.getD u 0))
          (sub64 (add64 (add64 _addr (offset_arr.getD u 0)) (size_arr.getD u 0)) 1) = true
      · simp only [hin, if_true] at h
        rcases hh : readv_hit f l _addr nseq size_arr offset_arr u out with _ | ⟨o2, u2⟩
        · simp [hh] at h
        · simp only [hh] at h
          exact ih _ _ _ _ _ _ _ hp h
      · simp only [hin, Bool.false_eq_true, if_false] at h
        rcases hm : readv_miss f l _max_data (offset_arr.getD u 0)
          (add64 _addr (offset_arr.getD u 0)) (size_arr.getD u 0)
          (sub64 (add64 (add64 _addr (offset_arr.getD u 0)) (size_arr.getD u 0)) 1)
          with _ | ⟨g, l2, rb⟩
        · rw [hm] at h; simp at h
        · obtain ⟨m1, m2⟩ := size_readv_miss f g l l2 _ _ _ _ _ rb hp hm
          simp only [hm] at h
          cases rb with
          | none =>
            simp only [Option.some.injEq, Prod.mk.injEq] at h
            rw [← h.1]
            exact ⟨m1.1, m2⟩
          | some bytes =>
            simp only at h
            obtain ⟨i1, i2⟩ := ih _ _ _ _ _ _ _ m1 h
            exact ⟨i1, by rw [i2, m2]⟩
    · simp only [hu, if_false, Option.some.injEq, Prod.mk.injEq] at h
      rw [← h.1]
      exact ⟨hp.1, rfl⟩

theorem size_readv_outer (_max_data _addr nseq : Nat) (size_arr offset_arr : List Nat) :
    ∀ (fuel : Nat) (f : H5F_t) (u : Nat) (out : List Nat) (f2 : H5F_t) (r : herr_t)
      (out2 : List Nat), f.sieve_size ≤ f.sieve_buf_size →
      readv_outer _max_data _addr nseq size_arr offset_arr fuel f u out = some (f2, r, out2) →
      f2.sieve_size ≤ f2.sieve_buf_size ∧ f2.sieve_buf_size = f.sieve_buf_size := by
  intro fuel
  induction fuel with
  | zero =>
    intro f u out f2 r out2 hp h
    simp only [readv_outer] at h
    split_ifs at h
    simp only [Option.some.injEq, Prod.mk.injEq] at h
    rw [← h.1]
    exact ⟨hp, rfl⟩
  | succ n ih =>
    intro f u out f2 r out2 hp h
    simp only [readv_outer] at h
    by_cases hu : u < nseq
    · simp only [hu, if_true] at h
      cases hb : f.sieve_buf with
      | some sb =>
        simp only [hb] at h
        exact size_readv_inner _ _ _ _ _ _ _ _ _ _ _ _ _ (size_stash f hp) h
      | none =>
        simp only [hb] at h
        rcases hm : readv_nobuf f _max_data (offset_arr.getD u 0)
          (add64 _addr (offset_arr.getD u 0)) (size_arr.getD u 0) with _ | ⟨g, rb⟩
        · rw [hm] at h; simp at h
        · have key : g.sieve_buf_size = f.sieve_buf_size ∧ g.sieve_size ≤ g.sieve_buf_size := by
            unfold readv_nobuf at hm
            by_cases hgt : size_arr.getD u 0 > f.sieve_buf_size
            · simp only [hgt, if_true, Option.some.injEq] at hm
              obtain ⟨_, _, w3, _, w5, _⟩ := block_read_fields f
                (add64 _addr (offset_arr.getD u 0)) (size_arr.getD u 0)
              rw [hm] at w3 w5
              exact ⟨w5, by rw [w3, w5]; exact hp⟩
            · simp only [hgt, if_false] at hm
              have hw := fun hq => size_readv_window _ g _ _ _ _ rb hq hm
              exact hw hp
          simp only [hm] at h
          cases rb with
          | none =>
            simp only [Option.some.injEq, Prod.mk.injEq] at h
            rw [← h.1]
            exact ⟨key.2, key.1⟩
          | some bytes =>
            simp only at h
            obtain ⟨i1, i2⟩ := ih _ _ _ _ _ _ key.2 h
            exact ⟨i1, by rw [i2, key.1]⟩
    · simp only [hu, if_false, Option.some.injEq, Prod.mk.injEq] at h
      rw [← h.1]
      exact ⟨hp, rfl⟩

theorem size_readv_nosieve (_addr : Nat) :
    ∀ (sizes offsets : List Nat) (f : H5F_t) (out : List Nat),
      (readv_nosieve _addr sizes offsets f out).1.sieve_size = f.sieve_size ∧
      (readv_nosieve _addr sizes offsets f out).1.sieve_buf_size = f.sieve_buf_size := by
  intro sizes
  induction sizes with
  | nil => intro offsets f out; simp only [readv_nosieve, and_self]
  | cons size sizes ih =>
    intro offsets f out
    cases offsets with
    | nil => simp only [readv_nosieve, and_self]
    | cons offset offsets =>
      obtain ⟨_, _, w3, _, w5, _⟩ := block_read_fields f (add64 _addr offset) size
      simp only [readv_nosieve]
      rcases hr : H5F_block_read f (add64 _addr offset) size with ⟨g, d⟩
      rw [hr] at w3 w5
      simp only at w3 w5
      cases d with
      | none => exact ⟨w3, w5⟩
      | some bytes =>
        simp only
        obtain ⟨i1, i2⟩ := ih offsets g (out ++ bytes)
        exact ⟨by rw [i1, w3], by rw [i2, w5]⟩

theorem size_writev_inner (_max_data _addr nseq : Nat) (size_arr offset_arr : List Nat) :
    ∀ (fuel : Nat) (f : H5F_t) (l : Locals) (u : Nat) (buf : List Nat) (f2 : H5F_t) (r : herr_t),
      SizeInv f l →
      writev_inner _max_data _addr nseq size_arr offset_arr fuel f l u buf = some (f2, r) →
      f2.sieve_size ≤ f2.sieve_buf_size ∧ f2.sieve_buf_size = f.sieve_buf_size := by
  intro fuel
  induction fuel with
  | zero =>
    intro f l u buf f2 r hp h
    simp only [writev_inner] at h
    split_ifs at h
    simp only [Option.some.injEq, Prod.mk.injEq] at h
    rw [← h.1]
    exact ⟨hp.1, rfl⟩
  | succ n ih =>
    intro f l u buf f2 r hp h
    simp only [writev_inner] at h
    by_cases hu : u < nseq
    · simp only [hu, if_true] at h
      by_cases hin : within_sieve l (add64 _addr (offset_arr.getD u 0))
          (sub64 (add64 (add64 _addr (offset_arr.getD u 0)) (size_arr.getD u 0)) 1) = true
      · simp only [hin, if_true] at h
        rcases hh : writev_hit f l _addr nseq size_arr offset_arr u buf with _ | ⟨g, b2, u2⟩
        · simp [hh] at h
        · simp only [hh] at h
          obtain ⟨e1, e2⟩ := size_writev_hit f g l _ _ _ _ _ _ _ _ hh
          have hg : SizeInv g l := ⟨by rw [e1, e2]; exact hp.1, by rw [e1]; exact hp.2⟩
          obtain ⟨i1, i2⟩ := ih _ _ _ _ _ _ hg h
          exact ⟨i1, by rw [i2, e2]⟩
      · simp only [hin, Bool.false_eq_true, if_false] at h
        cases hmr : mem_read buf 0 (size_arr.getD u 0) with
        | none => rw [hmr] at h; simp at h
        | some bytes =>
          simp only [hmr] at h
          rcases hm : writev_miss f l _max_data (offset_arr.getD u 0)
            (add64 _addr (offset_arr.getD u 0)) (size_arr.getD u 0)
            (sub64 (add64 (add64 _addr (offset_arr.getD u 0)) (size_arr.getD u 0)) 1) bytes
            with _ | ⟨g, l2, rb⟩
          · rw [hm] at h; simp at h
          · obtain ⟨m1, m2⟩ := size_writev_miss f g l l2 _ _ _ _ _ bytes rb hp hm
            simp only [hm] at h
            cases rb with
            | FAIL =>
              simp only [Option.some.injEq, Prod.mk.injEq] at h
              rw [← h.1]
              exact ⟨m1.1, m2⟩
            | SUCCEED =>
              simp only at h
              obtain ⟨i1, i2⟩ := ih _ _ _ _ _ _ m1 h
              exact ⟨i1, by rw [i2, m2]⟩
    · simp only [hu, if_false, Option.some.injEq, Prod.mk.injEq] at h
      rw [← h.1]
      exact ⟨hp.1, rfl⟩

theorem size_writev_outer (_max_data _addr nseq : Nat) (size_arr offset_arr : List Nat) :
    ∀ (fuel : Nat) (f : H5F_t) (u : Nat) (buf : List Nat) (f2 : H5F_t) (r : herr_t),
      f.sieve_size ≤ f.sieve_buf_size →
      writev_outer _max_data _addr nseq size_arr offset_arr fuel f u buf = some (f2, r) →
      f2.sieve_size ≤ f2.sieve_buf_size ∧ f2.sieve_buf_size = f.sieve_buf_size := by
  intro fuel
  induction fuel with
  | zero =>
    intro f u buf f2 r hp h
    simp only [writev_outer] at h
    split_ifs at h
    simp only [Option.some.injEq, Prod.mk.injEq] at h
    rw [← h.1]
    exact ⟨hp, rfl⟩
  | succ n ih =>
    intro f u buf f2 r hp h
    simp only [writev_outer] at h
    by_cases hu : u < nseq
    · simp only [hu, if_true] at h
      cases hb : f.sieve_buf with
      | some sb =>
        simp only [hb] at h
        exact size_writev_inner _ _ _ _ _ _ _ _ _ _ _ _ (size_stash f hp) h
      | none =>
        simp only [hb] at h
        cases hmr : mem_read buf 0 (size_arr.getD u 0) with
        | none => rw [hmr] at h; simp at h
        | some bytes =>
          simp only [hmr] at h
          rcases hm : writev_nobuf f _max_data (offset_arr.getD u 0)
            (add64 _addr (offset_arr.getD u 0)) (size_arr.getD u 0) bytes with _ | ⟨g, rb⟩
          · rw [hm] at h; simp at h
          · have key : g.sieve_buf_size = f.sieve_buf_size ∧
                g.sieve_size ≤ g.sieve_buf_size := by
              unfold writev_nobuf at hm
              by_cases hgt : size_arr.getD u 0 > f.sieve_buf_size
              · simp only [hgt, if_true, Option.some.injEq] at hm
                obtain ⟨_, _, w3, _, w5, _⟩ := block_write_fields f
                  (add64 _addr (offset_arr.getD u 0)) (size_arr.getD u 0) bytes
                rw [hm] at w3 w5
                exact ⟨w5, by rw [w3, w5]; exact hp⟩
              · simp only [hgt, if_false] at hm
                have hw := fun hq => size_writev_window _ g _ _ _ _ bytes rb hq hm
                exact hw hp
            simp only [hm] at h
            cases rb with
            | FAIL =>
              simp only [Option.some.injEq, Prod.mk.injEq] at h
              rw [← h.1]
              exact ⟨key.2, key.1⟩
            | SUCCEED =>
              simp only at h
              obtain ⟨i1, i2⟩ := ih _ _ _ _ _ key.2 h
              exact ⟨i1, by rw [i2, key.1]⟩
    · simp only [hu, if_false, Option.some.injEq, Prod.mk.injEq] at h
      rw [← h.1]
      exact ⟨hp, rfl⟩

theorem size_writev_nosieve (_addr : Nat) :
    ∀ (sizes offsets : List Nat) (f : H5F_t) (buf : List Nat) (f2 : H5F_t) (r : herr_t),
      writev_nosieve _addr sizes offsets f buf = some (f2, r) →
      f2.sieve_size = f.sieve_size ∧ f2.sieve_buf_size = f.sieve_buf_size := by
  intro sizes
  induction sizes with
  | nil =>
    intro offsets f buf f2 r h
    simp only [writev_nosieve, Option.some.injEq, Prod.mk.injEq] at h
    rw [← h.1]
    exact ⟨rfl, rfl⟩
  | cons size sizes ih =>
    intro offsets f buf f2 r h
    cases offsets with
    | nil =>
      simp only [writev_nosieve, Option.some.injEq, Prod.mk.injEq] at h
      rw [← h.1]
      exact ⟨rfl, rfl⟩
    | cons offset offsets =>
      simp only [writev_nosieve] at h
      cases hmr : mem_read buf 0 size with
      | none => rw [hmr] at h; simp at h
      | some bytes =>
        simp only [hmr] at h
        obtain ⟨_, _, w3, _, w5, _⟩ := block_write_fields f (add64 _addr offset) size bytes
        rcases hr : H5F_block_write f (add64 _addr offset) size bytes with ⟨g, rr⟩
        rw [hr] at w3 w5 h
        simp only at w3 w5
        cases rr with
        | FAIL =>
          simp only [Option.some.injEq, Prod.mk.injEq] at h
          rw [← h.1]
          exact ⟨w3, w5⟩
        | SUCCEED =>
          simp only at h
          obtain ⟨i1, i2⟩ := ih _ _ _ _ _ h
          exact ⟨by rw [i1, w3], by rw [i2, w5]⟩

/-- C33 (`H5F_contig_readv`, lines 622-624; `H5F_contig_writev`, lines
1028-1056 and 1084-1086): on a file with `sieve_size ≤ sieve_buf_size`, every
`H5F_contig_readv` and every `H5F_contig_writev` call that returns, with
success or with failure, leaves a file with `sieve_size ≤ sieve_buf_size` and
the same `sieve_buf_size`: the size of a new or refilled window is a minimum
with `sieve_buf_size`, and the window is extended by a sequence only when the
sum of the sizes is within `sieve_buf_size`. -/

theorem C33_sieve_size_within_capacity (f : H5F_t) (_max_data _addr nseq : Nat)
    (size_arr offset_arr : List Nat) (hpre : f.sieve_size ≤ f.sieve_buf_size) :
    (∀ f2 r out, H5F_contig_readv f _max_data _addr nseq size_arr offset_arr = some (f2, r, out) →
      f2.sieve_size ≤ f2.sieve_buf_size ∧ f2.sieve_buf_size = f.sieve_buf_size) ∧
    (∀ buf f2 r, H5F_contig_writev f _max_data _addr nseq size_arr offset_arr buf = some (f2, r) →
      f2.sieve_size ≤ f2.sieve_buf_size ∧ f2.sieve_buf_size = f.sieve_buf_size) := by
  constructor
  · intro f2 r out h
    unfold H5F_contig_readv at h
    split_ifs at h with hn hs
    · exact size_readv_outer _ _ _ _ _ _ _ _ _ _ _ _ hpre h
    · simp only [Option.some.injEq] at h
      obtain ⟨i1, i2⟩ := size_readv_nosieve _addr (size_arr.take nseq) (offset_arr.take nseq) f []
      rw [h] at i1 i2
      exact ⟨by rw [i1, i2]; exact hpre, i2⟩
  · intro buf f2 r h
    unfold H5F_contig_writev at h
    split_ifs at h with hn hs
    · exact size_writev_outer _ _ _ _ _ _ _ _ _ _ _ hpre h
    · obtain ⟨i1, i2⟩ := size_writev_nosieve _ _ _ _ _ _ _ h
      exact ⟨by rw [i1, i2]; exact hpre, i2⟩

/-- C33 at the file with the dirty window `[10, 14)` of a sieve buffer of 4
bytes: the write of five bytes at 6 and one byte at 12 returns success and
leaves `sieve_size = 0`, the read of two bytes at 0 leaves `sieve_size = 4`. -/

theorem C33_sieve_size_within_capacity_witness :
    (H5F_contig_writev c1_file1 20 0 2 [5, 1] [6, 12] [2, 3, 4, 5, 6, 7]).map
        (fun r => (r.1.sieve_size, r.2)) = some (0, herr_t.SUCCEED) ∧
    (H5F_contig_readv c1_file1 20 0 1 [2] [0]).map
        (fun r => (r.1.sieve_size, r.2.1)) = some (4, herr_t.SUCCEED) ∧
    (∀ f2 r out, H5F_contig_readv c1_file1 20 0 1 [2] [0] = some (f2, r, out) →
      f2.sieve_size ≤ f2.sieve_buf_size ∧ f2.sieve_buf_size = c1_file1.sieve_buf_size) ∧
    (∀ buf f2 r, H5F_contig_writev c1_file1 20 0 1 [2] [0] buf = some (f2, r) →
      f2.sieve_size ≤ f2.sieve_buf_size ∧ f2.sieve_buf_size = c1_file1.sieve_buf_size) :=
  ⟨by decide, by decide,
    C33_sieve_size_within_capacity c1_file1 20 0 1 [2] [0] (by decide)⟩

/-! ## Writing fill values -/

theorem fill_loop_mpi (env : FillEnv) (F P : Nat) (buf : List Nat) (r n : Nat) (hn : 0 < n)
    (hP : 0 < P) (hok : ∀ a, env.seq_write_ok a = true) :
    ∀ (fuel npoints addr i : Nat) (bw : Bool) (log : List FillEvent), npoints ≤ fuel →
      fill_loop env F P buf true (r : Int) (n : Int) fuel npoints addr ((i % n : Nat) : Int) bw log =
        some (herr_t.SUCCEED, bw || decide (0 < npoints),
          log ++ (((fill_chunks F P fuel npoints addr).enumFrom i).filter
            (fun p => decide (p.1 % n = r))).map (fun p => chunk_write F buf p.2)) := by
  intro fuel
  induction fuel with
  | zero =>
    intro npoints addr i bw log hle
    have h0 : npoints = 0 := by omega
    subst h0
    simp [fill_loop, fill_chunks]
  | succ k ih =>
    intro npoints addr i bw log hle
    by_cases hpos : 0 < npoints
    · have hnz : ¬ ((n : Int) = 0) := by omega
      have hstep : Int.tmod (((i % n : Nat) : Int) + 1) (n : Int) = (((i + 1) % n : Nat) : Int) := by
        have : (((i % n : Nat) : Int) + 1) = ((i % n + 1 : Nat) : Int) := by push_cast; rfl
        rw [this]
        show ((((i % n + 1) % n : Nat)) : Int) = _
        rw [Nat.add_mod (i % n) 1 n, Nat.mod_mod, ← Nat.add_mod]
      have hcmp : (((i % n : Nat) : Int) = (r : Int)) ↔ i % n = r := by
        constructor
        · intro h; exact_mod_cast h
        · intro h; rw [h]
      have hm : 1 ≤ min P npoints := by
        rw [Nat.le_min]; exact ⟨hP, hpos⟩
      simp only [fill_loop, gt_iff_lt, hpos, if_true, hok, Bool.true_eq_false, and_false,
        if_false, hnz, hstep, fill_chunks, List.enumFrom_cons, List.filter_cons]
      rw [ih _ _ (i + 1) true _ (by omega)]
      by_cases hr : i % n = r
      · rw [if_pos (hcmp.2 hr)]
        simp [hr, chunk_write, hpos]
      · rw [if_neg (fun h => hr (hcmp.1 h))]
        simp [hr, hpos]
    · have h0 : npoints = 0 := by omega
      subst h0
      simp [fill_loop, fill_chunks]

theorem fill_loop_serial (env : FillEnv) (F P : Nat) (buf : List Nat) (rk sz : Int)
    (hP : 0 < P) (hok : ∀ a, env.seq_write_ok a = true) :
    ∀ (fuel npoints addr : Nat) (round : Int) (bw : Bool) (log : List FillEvent), npoints ≤ fuel →
      fill_loop env F P buf false rk sz fuel npoints addr round bw log =
        some (herr_t.SUCCEED, bw,
          log ++ (fill_chunks F P fuel npoints addr).map (chunk_write F buf)) := by
  intro fuel
  induction fuel with
  | zero =>
    intro npoints addr round bw log hle
    have h0 : npoints = 0 := by omega
    subst h0
    simp [fill_loop, fill_chunks]
  | succ k ih =>
    intro npoints addr round bw log hle
    by_cases hpos : 0 < npoints
    · have hm : 1 ≤ min P npoints := by
        rw [Nat.le_min]; exact ⟨hP, hpos⟩
      simp only [fill_loop, gt_iff_lt, hpos, if_true, hok, Bool.false_eq_true, if_false,
        fill_chunks, List.map_cons]
      rw [ih _ _ round bw _ (by omega)]
      simp [chunk_write]
    · have h0 : npoints = 0 := by omega
      subst h0
      simp [fill_loop, fill_chunks]

theorem layout_length (F P npoints : Nat) :
    (fill_layout F P npoints).length = (npoints + P - 1) / P := by
  simp [fill_layout]

theorem layout_count_step (P npoints : Nat) (hP : 0 < P) (hpos : 0 < npoints) :
    (npoints + P - 1) / P = ((npoints - min P npoints) + P - 1) / P + 1 := by
  by_cases hle : P ≤ npoints
  · rw [Nat.min_eq_left hle]
    have : npoints + P - 1 = (npoints - P + P - 1) + P := by omega
    rw [this, Nat.add_div_right _ hP]
  · have hlt : npoints < P := by omega
    rw [Nat.min_eq_right (le_of_lt hlt)]
    have h1 : (npoints + P - 1) / P = 1 := by
      apply Nat.div_eq_of_lt_le
      · omega
      · omega
    have h2 : (npoints - npoints + P - 1) / P = 0 := by
      apply Nat.div_eq_of_lt
      omega
    rw [h1, h2]

/-- The chunks of the loop from the offset `addr` on are those of the layout,
moved by `addr`. -/

theorem fill_chunks_layout (F P : Nat) (hP : 0 < P) (hPF : P * F < HADDR_MOD) :
    ∀ (fuel npoints addr : Nat), npoints ≤ fuel →
      fill_chunks F P fuel npoints addr =
        (List.range ((npoints + P - 1) / P)).map
          (fun j => (if j = 0 then addr else (addr + j * P * F) % HADDR_MOD,
            min P (npoints - j * P) * F)) := by
  intro fuel
  induction fuel with
  | zero =>
    intro npoints addr hle
    have h0 : npoints = 0 := by omega
    subst h0
    have : (P - 1) / P = 0 := Nat.div_eq_of_lt (by omega)
    simp [fill_chunks, this]
  | succ k ih =>
    intro npoints addr hle
    by_cases hpos : 0 < npoints
    · have hm : 1 ≤ min P npoints := by
        rw [Nat.le_min]; exact ⟨hP, hpos⟩
      have hsz : (min P npoints * F) % HADDR_MOD = min P npoints * F := by
        apply Nat.mod_eq_of_lt
        exact lt_of_le_of_lt (Nat.mul_le_mul_right F (Nat.min_le_left P npoints)) hPF
      simp only [fill_chunks, gt_iff_lt, hpos, if_true, hsz]
      rw [ih _ _ (by omega), layout_count_step P npoints hP hpos, List.range_succ_eq_map,
        List.map_cons, List.map_map]
      congr 1
      · simp
      · apply List.map_congr_left
        intro j hj
        have hjlt : j < ((npoints - min P npoints) + P - 1) / P := List.mem_range.1 hj
        simp only [Function.comp, Nat.succ_ne_zero, if_false]
        by_cases hle2 : P ≤ npoints
        · rw [Nat.min_eq_left hle2]
          have e1 : npoints - P - j * P = npoints - (j + 1) * P := by
            rw [Nat.succ_mul]; omega
          have e2 : (add64 addr (P * F) + j * P * F) % HADDR_MOD =
              (addr + (j + 1) * P * F) % HADDR_MOD := by
            unfold add64
            rw [Nat.add_mod, Nat.mod_mod, ← Nat.add_mod]
            congr 1
            ring
          rw [e1]
          by_cases hj0 : j = 0
          · subst hj0
            simp only [if_true, Nat.zero_add, Nat.one_mul]
            unfold add64
            rfl
          · simp only [hj0, if_false, e2]
        · exfalso
          have hlt : npoints < P := by omega
          rw [Nat.min_eq_right (le_of_lt hlt)] at hjlt
          have h2 : (npoints - npoints + P - 1) / P = 0 := by
            apply Nat.div_eq_of_lt
            omega
          omega
    · have h0 : npoints = 0 := by omega
      subst h0
      have : (P - 1) / P = 0 := Nat.div_eq_of_lt (by omega)
      simp [fill_chunks, this]

/-- With fuel for `npoints` iterations the chunks of the loop are the layout
of the spec. -/

theorem fill_chunks_eq (F P : Nat) (hP : 0 < P) (hPF : P * F < HADDR_MOD)
    (fuel npoints : Nat) (hle : npoints ≤ fuel) :
    fill_chunks F P fuel npoints 0 = fill_layout F P npoints := by
  rw [fill_chunks_layout F P hP hPF fuel npoints 0 hle]
  unfold fill_layout
  apply List.map_congr_left
  intro j _
  by_cases hj : j = 0
  · subst hj
    simp
  · simp [hj]

theorem ptsperbuf_bound (F : Nat) (h2 : F < HADDR_MOD) :
    0 < max 1 (65536 / F) ∧ max 1 (65536 / F) * F < HADDR_MOD := by
  refine ⟨Nat.lt_of_lt_of_le Nat.one_pos (Nat.le_max_left _ _), ?_⟩
  by_cases h : 1 ≤ 65536 / F
  · rw [Nat.max_eq_right h]
    have := Nat.div_mul_le_self 65536 F
    unfold HADDR_MOD
    omega
  · have h0 : 65536 / F = 0 := Nat.lt_one_iff.1 (not_le.1 h)
    rw [h0]
    simpa using h2

theorem mpi_params_other (env : FillEnv) (h : env.driver = Driver.other) :
    mpi_params env = some (false, -1, -1) := by
  unfold mpi_params
  rw [h]

theorem mpi_params_mpi (env : FillEnv) (r n : Nat) (h : env.driver ≠ Driver.other)
    (hc : env.comm_null = false) (hr : env.mpi_rank = (r : Int)) (hn : env.mpi_size = (n : Int)) :
    mpi_params env = some (true, (r : Int), (n : Int)) := by
  unfold mpi_params
  have h1 : ¬ ((r : Int) < 0) := by omega
  have h2 : ¬ ((n : Int) < 0) := by omega
  cases hd : env.driver with
  | other => exact absurd hd h
  | mpio => simp only [hc, hr, hn, h1, h2, Bool.false_eq_true, if_false]
  | mpiposix => simp only [hc, hr, hn, h1, h2, Bool.false_eq_true, if_false]

/-- What `H5F_contig_fill` comes to once the properties are there, the
external file list does not keep it from writing and the buffer is
allocated: the loop, then the barrier. -/

theorem contig_fill_unfold (env : FillEnv) (elmt_size F nused : Nat) (fill : H5O_fill_t)
    ( using_mpi : Bool) (rk sz : Int)
    (helmt : 0 < elmt_size) (hfill : env.fill = some fill) (hefl : env.efl_nused = some nused)
    (hmp : mpi_params env = some (using_mpi, rk, sz))
    (hskip : ¬ (0 < nused ∧ fill.buf = none))
    (hF : F = if fill.buf = none then elmt_size else fill.size) (hF1 : 0 < F)
    (halloc : env.alloc_ok = true) :
    H5F_contig_fill env elmt_size =
      match fill_loop env F (max 1 (65536 / F)) (fill_buffer fill F) using_mpi rk sz
          env.npoints env.npoints 0 0 false [] with
      | none => none
      | some (herr_t.FAIL, _, log) => some (herr_t.FAIL, log)
      | some (herr_t.SUCCEED, blocks_written, log) =>
        if using_mpi && blocks_written then
          if env.barrier_ok then some (herr_t.SUCCEED, log ++ [FillEvent.barrier true])
          else some (herr_t.FAIL, log ++ [FillEvent.barrier false])
        else some (herr_t.SUCCEED, log) := by
  have he : ¬ elmt_size = 0 := by omega
  have hF0 : ¬ F = 0 := by omega
  unfold H5F_contig_fill
  simp only [he, if_false, hfill, hefl, hmp, gt_iff_lt, hskip, ← hF, hF0, halloc,
    Bool.true_eq_false]
  rfl

/-- C31 (`H5F_contig_fill`, lines 168-210), for a call whose writes and
barrier succeed.  With an MPI-capable driver (`mpio` or `mpiposix`) of
`mpi_size = n > 0` processes, the process of rank `r` issues the
`H5F_seq_write` of exactly the chunks whose index `i` in the layout has
`i mod n = r`, in order, and then, exactly when `npoints > 0` (at least one
chunk was iterated), one `MPI_Barrier` as its last call; every chunk index
has exactly one rank `q < n` with `i mod n = q`, so over the ranks `0..n-1`
every chunk is written by exactly one process.  With another driver the
caller writes every chunk and there is no barrier. -/

theorem C31_round_robin_chunks (env : FillEnv) (elmt_size F nused r n : Nat) (fill : H5O_fill_t)
    (helmt : 0 < elmt_size) (hfill : env.fill = some fill) (hefl : env.efl_nused = some nused)
    (hskip : ¬ (0 < nused ∧ fill.buf = none))
    (hF : F = if fill.buf = none then elmt_size else fill.size) (hF1 : 0 < F)
    (hF2 : F < HADDR_MOD) (halloc : env.alloc_ok = true)
    (hok : ∀ a, env.seq_write_ok a = true) (hbar : env.barrier_ok = true) :
    (env.driver ≠ Driver.other → env.comm_null = false → env.mpi_rank = (r : Int) →
      env.mpi_size = (n : Int) → 0 < n →
      H5F_contig_fill env elmt_size = some (herr_t.SUCCEED,
        (((fill_layout F (max 1 (65536 / F)) env.npoints).enum.filter
            (fun p => decide (p.1 % n = r))).map
          (fun p => chunk_write F (fill_buffer fill F) p.2)) ++
        (if env.npoints = 0 then [] else [FillEvent.barrier true]))) ∧
    (0 < n → ∀ i : Nat, ∃! q, q < n ∧ i % n = q) ∧
    (env.driver = Driver.other →
      H5F_contig_fill env elmt_size = some (herr_t.SUCCEED,
        (fill_layout F (max 1 (65536 / F)) env.npoints).map
          (chunk_write F (fill_buffer fill F)))) := by
  obtain ⟨hP, hPF⟩ := ptsperbuf_bound F hF2
  refine ⟨?_, ?_, ?_⟩
  · intro hd hc hr hn hn0
    rw [contig_fill_unfold env elmt_size F nused fill true r n helmt hfill hefl
      (mpi_params_mpi env r n hd hc hr hn) hskip hF hF1 halloc]
    have hl := fill_loop_mpi env F (max 1 (65536 / F)) (fill_buffer fill F) r n hn0 hP hok
      env.npoints env.npoints 0 0 false [] (le_refl _)
    simp only [Nat.zero_mod, Nat.cast_zero, List.nil_append, Bool.false_or] at hl
    rw [hl, fill_chunks_eq F _ hP hPF _ _ (le_refl _)]
    by_cases h0 : env.npoints = 0
    · simp [h0, List.enum]
    · have hpos : 0 < env.npoints := by omega
      simp [h0, hpos, hbar, List.enum]
  · intro hn0 i
    exact ⟨i % n, ⟨Nat.mod_lt _ hn0, rfl⟩, fun q hq => hq.2.symm⟩
  · intro hd
    rw [contig_fill_unfold env elmt_size F nused fill false (-1) (-1) helmt hfill hefl
      (mpi_params_other env hd) hskip hF hF1 halloc]
    have hl := fill_loop_serial env F (max 1 (65536 / F)) (fill_buffer fill F) (-1) (-1) hP hok
      env.npoints env.npoints 0 0 false [] (le_refl _)
    rw [hl, fill_chunks_eq F _ hP hPF _ _ (le_refl _)]
    simp

/-- C31 at five elements of 30000 bytes (two per chunk: three chunks) and
three processes, seen from rank 1, which writes chunk 1 at offset 60000 and
then waits at the barrier; on a driver that is not MPI-capable the caller
writes the three chunks. -/

theorem C31_round_robin_chunks_witness :
    fill_calls ((H5F_contig_fill (c31_env 1) 30000).getD (herr_t.FAIL, [])).2 =
      [some (60000, 60000), none] ∧
    fill_calls ((H5F_contig_fill c31_serial 30000).getD (herr_t.FAIL, [])).2 =
      [some (0, 60000), some (60000, 60000), some (120000, 30000)] ∧
    ((c31_env 1).driver ≠ Driver.other → (c31_env 1).comm_null = false →
      (c31_env 1).mpi_rank = ((1 : Nat) : Int) → (c31_env 1).mpi_size = ((3 : Nat) : Int) → 0 < 3 →
      H5F_contig_fill (c31_env 1) 30000 = some (herr_t.SUCCEED,
        (((fill_layout 30000 (max 1 (65536 / 30000)) (c31_env 1).npoints).enum.filter
            (fun p => decide (p.1 % 3 = 1))).map
          (fun p => chunk_write 30000 (fill_buffer { size := 0, buf := none } 30000) p.2)) ++
        (if (c31_env 1).npoints = 0 then [] else [FillEvent.barrier true]))) ∧
    (0 < 3 → ∀ i : Nat, ∃! q, q < 3 ∧ i % 3 = q) ∧
    ((c31_env 1).driver = Driver.other →
      H5F_contig_fill (c31_env 1) 30000 = some (herr_t.SUCCEED,
        (fill_layout 30000 (max 1 (65536 / 30000)) (c31_env 1).npoints).map
          (chunk_write 30000 (fill_buffer { size := 0, buf := none } 30000)))) :=
  ⟨by decide, by decide,
    C31_round_robin_chunks (c31_env 1) 30000 30000 0 1 3 { size := 0, buf := none }
      (by decide) rfl rfl (by decide) rfl (by decide) (by decide) rfl (fun _ => rfl) rfl⟩

/-- C35, the failing input (`H5F_contig_writev`, lines 1003-1025): the file
of 20 bytes with a sieve buffer of 4 bytes and the dirty window `[10, 14)`.
The sequences `(6, 5)` and `(12, 1)` are sorted, do not overlap and lie inside
the dataset of 20 bytes; the first is larger than the sieve buffer and
overlaps the window, the second falls inside the range the window covered.
The one `H5F_contig_writev` call on both succeeds and so do the two
`H5F_contig_write` calls in order, but the logical contents differ at
address 12: `112` after the vector call, `7` after the single-range calls. -/

theorem C35_vector_write_loses_sequence :
    c1_file1.sieve_loc = 10 ∧ c1_file1.sieve_size = 4 ∧ c1_file1.sieve_dirty = true ∧
    c1_file1.sieve_buf_size = 4 ∧
    H5F_contig_writev c1_file1 20 0 2 [5, 1] [6, 12] [2, 3, 4, 5, 6, 7] =
      some (c1_file2, herr_t.SUCCEED) ∧
    H5F_contig_write c1_file1 14 6 5 [2, 3, 4, 5, 6] = some (c35_file1, herr_t.SUCCEED) ∧
    H5F_contig_write c35_file1 8 12 1 [7] = some (c35_file2, herr_t.SUCCEED) ∧
    logical c1_file2 =
      [100, 101, 102, 103, 104, 105, 2, 3, 4, 5, 6, 111, 112, 113, 114, 115, 116, 117, 118, 119] ∧
    logical c35_file2 =
      [100, 101, 102, 103, 104, 105, 2, 3, 4, 5, 6, 111, 7, 113, 114, 115, 116, 117, 118, 119] ∧
    logical c1_file2 ≠ logical c35_file2 := by
  refine ⟨by decide, by decide, by decide, by decide, by decide, by decide, by decide,
    by decide, by decide, by decide⟩

/-- C36, the failing input (`H5F_contig_readv` and `H5F_contig_writev`, the
log2 probe of the hit path): with `nseq = 2^32` sequences and `u = 0` the
probe is given `max_search = 2^32`; the byte loop stops at `bit_loc = 39`, and
`mask=1<<bit_loc` then shifts the `int` constant `1` by 39 bits, which C leaves
undefined: the probe has no defined result, so nothing bounds the bit loop
that follows. -/

theorem C36_probe_shift_undefined :
    ((4294967296 - 1) - 0) + 1 = 4294967296 ∧
    probe_byte 4294967296 8 (255 <<< 56) 63 = (255 <<< 32, 39) ∧
    int_shl_one 39 = none ∧
    log2_probe_int 4294967296 = none := by
  refine ⟨by decide, by decide, by decide, by decide⟩

/-- C37, the failing inputs (`H5F_contig_readv`, lines 598-640, and
`H5F_contig_writev`, lines 1060-1106).  On the file of 20 bytes with end of
allocation 30 the read of 2 bytes at 0 succeeds and loads the clean window
`[0, 4)`.  The read of 2 bytes at 18 then fails in the block read of the new
window, and the write of 2 bytes at 17 fails the same way; when the
end-of-allocation query fails, the read of 2 bytes at 10 fails at the query.
Each failed call leaves a sieve buffer that is not dirty and still holds the
bytes `100..103` of `[0, 4)`, while `sieve_loc` is already the new address:
the clean window does not hold what the disk holds there.  A read of the same
two bytes afterwards takes the hit path and succeeds with `[100, 101]`, where
the disk holds `[118, 119]` and `[110, 111]`. -/

theorem C37_failed_refill_moves_window :
    H5F_contig_readv c37_file 30 0 1 [2] [0] = some (c37_loaded, herr_t.SUCCEED, [100, 101]) ∧
    window_loaded c37_loaded = true ∧
    H5F_contig_readv c37_loaded 30 0 1 [2] [18] = some (c37_failed, herr_t.FAIL, []) ∧
    (c37_failed.sieve_buf, c37_failed.sieve_loc, c37_failed.sieve_size, c37_failed.sieve_dirty) =
      (some [100, 101, 102, 103], 18, 4, false) ∧
    window_loaded c37_failed = false ∧
    (H5F_contig_readv c37_failed 30 0 1 [2] [18]).map (fun r => r.2) =
      some (herr_t.SUCCEED, [100, 101]) ∧
    (c37_failed.lf.data.drop 18).take 2 = [118, 119] ∧
    (H5F_contig_writev c37_loaded 30 0 1 [2] [17] [1, 2]).map
        (fun r => (r.2, r.1.sieve_buf, r.1.sieve_loc, r.1.sieve_dirty, window_loaded r.1)) =
      some (herr_t.FAIL, some [100, 101, 102, 103], 17, false, false) ∧
    window_loaded c37_lost_eoa = true ∧
    H5F_contig_readv c37_lost_eoa 30 0 1 [2] [10] = some (c37_eoa_failed, herr_t.FAIL, []) ∧
    (c37_eoa_failed.sieve_buf, c37_eoa_failed.sieve_loc, c37_eoa_failed.sieve_size,
        c37_eoa_failed.sieve_dirty) = (some [100, 101, 102, 103], 10, 4, false) ∧
    window_loaded c37_eoa_failed = false ∧
    (H5F_contig_readv c37_eoa_failed 30 0 1 [2] [10]).map (fun r => r.2) =
      some (herr_t.SUCCEED, [100, 101]) ∧
    (c37_eoa_failed.lf.data.drop 10).take 2 = [110, 111] := by
  refine ⟨by decide, by decide, by decide, by decide, by decide, by decide, by decide,
    by decide, by decide, by decide, by decide, by decide, by decide, by decide⟩

/-- The loop of the binary search ends within `hi - lo + 1` iterations (more
fuel does not change its result, and at the result `lo + 1 < hi` is false,
which is where the source sets `found`), and its variables stay ordered:
`lo ≤ max_seq ≤ hi`, with `lo` never below and `hi` never above where they
started. -/
theorem binary_search_exits (_addr sieve_end : Nat) (size_arr offset_arr : List Nat) :
    ∀ (fuel : Nat) (b : Bounds), b.hi - b.lo < fuel →
      b.lo ≤ b.max_seq → b.max_seq ≤ b.hi →
      (b.lo + 1 < b.hi → b.lo < b.max_seq ∧ b.max_seq < b.hi) →
      ¬ ((binary_search _addr sieve_end size_arr offset_arr fuel b).lo + 1 <
          (binary_search _addr sieve_end size_arr offset_arr fuel b).hi) ∧
      binary_search _addr sieve_end size_arr offset_arr (fuel + 1) b =
        binary_search _addr sieve_end size_arr offset_arr fuel b ∧
      b.lo ≤ (binary_search _addr sieve_end size_arr offset_arr fuel b).lo ∧
      (binary_search _addr sieve_end size_arr offset_arr fuel b).lo ≤
        (binary_search _addr sieve_end size_arr offset_arr fuel b).max_seq ∧
      (binary_search _addr sieve_end size_arr offset_arr fuel b).max_seq ≤
        (binary_search _addr sieve_end size_arr offset_arr fuel b).hi ∧
      (binary_search _addr sieve_end size_arr offset_arr fuel b).hi ≤ b.hi := by
  intro fuel
  induction fuel with
  | zero => intro b h; omega
  | succ k ih =>
    intro b hf h1 h2 h3
    by_cases hl : b.lo + 1 < b.hi
    · obtain ⟨m1, m2⟩ := h3 hl
      by_cases ht : temp_end _addr size_arr offset_arr b.max_seq ≥ sieve_end
      · obtain ⟨i1, i2, i3, i4, i5, i6⟩ :=
          ih { lo := b.lo, hi := b.max_seq, max_seq := (b.lo + b.max_seq) / 2 }
            (by simp only; omega) (by simp only; omega) (by simp only; omega)
            (by simp only; omega)
        have e : ∀ n, binary_search _addr sieve_end size_arr offset_arr (n + 1) b =
            binary_search _addr sieve_end size_arr offset_arr n
              { lo := b.lo, hi := b.max_seq, max_seq := (b.lo + b.max_seq) / 2 } := by
          intro n
          simp only [binary_search, ht, if_true, hl]
        rw [e (k + 1), e k]
        simp only at i3 i6
        exact ⟨i1, i2, i3, i4, i5, by omega⟩
      · obtain ⟨i1, i2, i3, i4, i5, i6⟩ :=
          ih { lo := b.max_seq, hi := b.hi, max_seq := (b.max_seq + b.hi + 1) / 2 }
            (by simp only; omega) (by simp only; omega) (by simp only; omega)
            (by simp only; omega)
        have e : ∀ n, binary_search _addr sieve_end size_arr offset_arr (n + 1) b =
            binary_search _addr sieve_end size_arr offset_arr n
              { lo := b.max_seq, hi := b.hi, max_seq := (b.max_seq + b.hi + 1) / 2 } := by
          intro n
          simp only [binary_search, ht, if_false, hl, if_true]
        rw [e (k + 1), e k]
        simp only at i3 i6
        exact ⟨i1, i2, by omega, i4, i5, i6⟩
    · have e : ∀ n, binary_search _addr sieve_end size_arr offset_arr (n + 1) b = b := by
        intro n
        simp only [binary_search, hl, if_false, ite_self]
      rw [e (k + 1), e k]
      exact ⟨hl, rfl, le_refl _, h1, h2, le_refl _⟩

/-- The binary search of the hit path, started as the source starts it for a
current sequence `u < nseq`, ends within the `nseq` iterations the model gives
it, and `u ≤ lo ≤ max_seq ≤ hi ≤ nseq - 1` holds at its result. -/
theorem binary_search_in_bounds (_addr sieve_end nseq : Nat) (size_arr offset_arr : List Nat)
    (u : Nat) (hu : u < nseq) :
    ¬ ((binary_search _addr sieve_end size_arr offset_arr nseq
          { lo := u, hi := nseq - 1, max_seq := (u + (nseq - 1)) / 2 }).lo + 1 <
        (binary_search _addr sieve_end size_arr offset_arr nseq
          { lo := u, hi := nseq - 1, max_seq := (u + (nseq - 1)) / 2 }).hi) ∧
    u ≤ (binary_search _addr sieve_end size_arr offset_arr nseq
          { lo := u, hi := nseq - 1, max_seq := (u + (nseq - 1)) / 2 }).lo ∧
    (binary_search _addr sieve_end size_arr offset_arr nseq
          { lo := u, hi := nseq - 1, max_seq := (u + (nseq - 1)) / 2 }).lo ≤
      (binary_search _addr sieve_end size_arr offset_arr nseq
          { lo := u, hi := nseq - 1, max_seq := (u + (nseq - 1)) / 2 }).max_seq ∧
    (binary_search _addr sieve_end size_arr offset_arr nseq
          { lo := u, hi := nseq - 1, max_seq := (u + (nseq - 1)) / 2 }).max_seq ≤
      (binary_search _addr sieve_end size_arr offset_arr nseq
          { lo := u, hi := nseq - 1, max_seq := (u + (nseq - 1)) / 2 }).hi ∧
    (binary_search _addr sieve_end size_arr offset_arr nseq
          { lo := u, hi := nseq - 1, max_seq := (u + (nseq - 1)) / 2 }).hi ≤ nseq - 1 := by
  obtain ⟨i1, _, i3, i4, i5, i6⟩ := binary_search_exits _addr sieve_end size_arr offset_arr nseq
    { lo := u, hi := nseq - 1, max_seq := (u + (nseq - 1)) / 2 }
    (by simp only; omega) (by simp only; omega) (by simp only; omega) (by simp only; omega)
  exact ⟨i1, i3, i4, i5, i6⟩

/-- What the bit loop does on the usual targets for `max_search = 2^32`, where
a 32-bit shift takes its count modulo 32 and `1<<39` gives `128`: no mask the
loop goes through meets a set bit of `max_search`, so its condition
`(max_search & mask)==0` stays true however long it runs. -/
theorem probe_bit_runs_on : ∀ (fuel mask bit_loc : Nat), mask < 2 ^ 32 →
    4294967296 &&& (probe_bit 4294967296 fuel mask bit_loc).1 = 0 := by
  have key : ∀ m : Nat, m < 2 ^ 32 → 4294967296 &&& m = 0 := by
    intro m hm
    have := and_shl_eq_zero m 1 32 hm
    rw [Nat.and_comm]
    exact this
  intro fuel
  induction fuel with
  | zero => intro mask bit_loc hm; exact key mask hm
  | succ k ih =>
    intro mask bit_loc hm
    simp only [probe_bit, key mask hm, if_true]
    apply ih
    rw [Nat.shiftRight_eq_div_pow]
    exact lt_of_le_of_lt (Nat.div_le_self _ _) hm

theorem overlay_nil (data : List Nat) (a : Nat) : overlay data a [] = data := by
  simp [overlay]

theorem overlay_length (data bytes : List Nat) (a : Nat) (h : a + bytes.length ≤ data.length) :
    (overlay data a bytes).length = data.length := by
  simp only [overlay, List.length_append, List.length_take, List.length_drop]
  omega

theorem overlay_get (data bytes : List Nat) (a i : Nat) (h : a + bytes.length ≤ data.length) :
    (overlay data a bytes)[i]? =
      if a ≤ i ∧ i < a + bytes.length then bytes[i - a]? else data[i]? := by
  have hl : (data.take a).length = a := by rw [List.length_take]; omega
  unfold overlay
  by_cases h1 : i < a
  · rw [List.append_assoc, List.getElem?_append_left (by omega), List.getElem?_take_of_lt h1,
      if_neg (by omega)]
  · by_cases h2 : i < a + bytes.length
    · rw [List.getElem?_append_left (by rw [List.length_append]; omega),
        List.getElem?_append_right (by omega), hl, if_pos (by omega)]
    · rw [List.getElem?_append_right (by rw [List.length_append]; omega), List.length_append, hl,
        List.getElem?_drop, if_neg (by omega)]
      congr 1
      omega

theorem frame_refl (f : H5F_t) : Frame f f := ⟨rfl, rfl, rfl, rfl, rfl⟩

theorem frame_trans (f g h : H5F_t) (h1 : Frame f g) (h2 : Frame g h) : Frame f h := by
  obtain ⟨a1, a2, a3, a4, a5⟩ := h1
  obtain ⟨b1, b2, b3, b4, b5⟩ := h2
  exact ⟨by rw [b1, a1], by rw [b2, a2], by rw [b3, a3], by rw [b4, a4], by rw [b5, a5]⟩

theorem frame_rel_eoa (f g : H5F_t) (h : Frame f g) : rel_eoa g = rel_eoa f := by
  obtain ⟨a1, _, a3, _, _⟩ := h
  simp only [rel_eoa, H5FD_get_eoa, a1, a3]

theorem rel_eoa_lt (f : H5F_t) : rel_eoa f < HADDR_MOD := by
  unfold rel_eoa sub64
  exact Nat.mod_lt _ (by decide)

/-- The logical contents, byte by byte, of a coherent file with a sieve
buffer: the sieve buffer inside the window, the disk elsewhere. -/

theorem logical_get (f : H5F_t) (sb : List Nat) (hc : Coherent f) (hb : f.sieve_buf = some sb)
    (i : Nat) :
    (logical f)[i]? =
      if f.sieve_loc ≤ i ∧ i < f.sieve_loc + f.sieve_size then sb[i - f.sieve_loc]?
      else f.lf.data[i]? := by
  have hcap := hc.cap sb hb
  have hsz := hc.size_le
  have htl : (sb.take f.sieve_size).length = f.sieve_size := by
    rw [List.length_take]; omega
  unfold logical
  simp only [hb]
  by_cases hd : f.sieve_dirty = true
  · have hpos := hc.dirty_pos hd
    have hin := hc.inside hpos
    have hdisk := hc.eoa_disk
    simp only [hd, if_true]
    rw [overlay_get _ _ _ _ (by rw [htl]; omega), htl]
    by_cases hw : f.sieve_loc ≤ i ∧ i < f.sieve_loc + f.sieve_size
    · rw [if_pos hw, if_pos hw, List.getElem?_take_of_lt (by omega)]
    · rw [if_neg hw, if_neg hw]
  · have hd2 : f.sieve_dirty = false := by simpa using hd
    simp only [hd2, Bool.false_eq_true, if_false]
    by_cases hw : f.sieve_loc ≤ i ∧ i < f.sieve_loc + f.sieve_size
    · rw [if_pos hw, hc.clean sb hb hd2 (i - f.sieve_loc) (by omega)]
      congr 1
      omega
    · rw [if_neg hw]

theorem logical_length (f : H5F_t) (hc : Coherent f) :
    (logical f).length = f.lf.data.length := by
  unfold logical
  cases hb : f.sieve_buf with
  | none => rfl
  | some sb =>
    simp only
    by_cases hd : f.sieve_dirty = true
    · have hcap := hc.cap sb hb
      have hsz := hc.size_le
      have hin := hc.inside (hc.dirty_pos hd)
      have hdisk := hc.eoa_disk
      simp only [hd, if_true]
      apply overlay_length
      rw [List.length_take]
      omega
    · have hd2 : f.sieve_dirty = false := by simpa using hd
      simp only [hd2, Bool.false_eq_true, if_false]

/-- Two lists of the same length with the same bytes are the same, stated for
an overlay: the list `l` is `data` with `bytes` laid over at `a` when it reads
so byte by byte. -/

theorem eq_overlay (l data bytes : List Nat) (a : Nat) (h : a + bytes.length ≤ data.length)
    (hg : ∀ i, l[i]? = if a ≤ i ∧ i < a + bytes.length then bytes[i - a]? else data[i]?) :
    l = overlay data a bytes := by
  apply List.ext_getElem?
  intro i
  rw [hg i, overlay_get _ _ _ _ h]

theorem mem_write_overlay (blk src : List Nat) (off : Nat) (h : off + src.length ≤ blk.length) :
    mem_write blk off src = some (overlay blk off src) := by
  simp only [mem_write, h, if_true, overlay]

theorem mem_read_ok (blk : List Nat) (off n : Nat) (h : off + n ≤ blk.length) :
    mem_read blk off n = some ((blk.drop off).take n) := by
  simp only [mem_read, h, if_true]

theorem drop_take_get (l : List Nat) (off n j : Nat) (hj : j < n) :
    ((l.drop off).take n)[j]? = l[off + j]? := by
  rw [List.getElem?_take_of_lt hj, List.getElem?_drop]

theorem drop_take_length (l : List Nat) (off n : Nat) (h : off + n ≤ l.length) :
    ((l.drop off).take n).length = n := by
  rw [List.length_take, List.length_drop]; omega

theorem sub64_of_le (a b : Nat) (h1 : b ≤ a) (h2 : a < HADDR_MOD) : sub64 a b = a - b := by
  unfold sub64
  unfold HADDR_MOD at *
  omega

theorem add64_of_lt (a b : Nat) (h : a + b < HADDR_MOD) : add64 a b = a + b := by
  unfold add64
  exact Nat.mod_eq_of_lt h

/-- The size of a new window at `addr` for a request in range: it holds the
request, ends below the end of allocation and fits the sieve buffer. -/

theorem window_size_range (g : H5F_t) (md addr size : Nat)
    (h1 : size ≤ md) (h2 : md < HADDR_MOD) (h3 : addr + size ≤ rel_eoa g)
    (h4 : size ≤ g.sieve_buf_size) :
    size ≤ window_size { g with sieve_loc := addr } md 0 ∧
    addr + window_size { g with sieve_loc := addr } md 0 ≤ rel_eoa g ∧
    window_size { g with sieve_loc := addr } md 0 ≤ g.sieve_buf_size := by
  have hR := rel_eoa_lt g
  have e1 : sub64 (sub64 (H5FD_get_eoa g.lf) g.base_addr) addr = rel_eoa g - addr :=
    sub64_of_le _ _ (by unfold rel_eoa at h3; omega) hR
  have e2 : sub64 md 0 = md := by rw [sub64_of_le _ _ (Nat.zero_le _) h2]; rfl
  simp only [window_size, e1, e2]
  refine ⟨?_, ?_, ?_⟩
  · rw [Nat.le_min, Nat.le_min]; omega
  · have := Nat.min_le_left (rel_eoa g - addr) (min md g.sieve_buf_size)
    omega
  · exact le_trans (Nat.min_le_right _ _) (Nat.min_le_right _ _)

/-- The flush of the window of a coherent file succeeds; afterwards the window
is clean and the disk holds the logical contents. -/

theorem flush_ok (f : H5F_t) (sb : List Nat) (hc : Coherent f) (hb : f.sieve_buf = some sb) :
    ∃ g, sieve_flush f (stash f) = some (g, herr_t.SUCCEED) ∧ Frame f g ∧
      g.sieve_buf = some sb ∧ g.sieve_loc = f.sieve_loc ∧ g.sieve_size = f.sieve_size ∧
      g.sieve_dirty = false ∧ g.lf.data = logical f := by
  have hcap := hc.cap sb hb
  have hsz := hc.size_le
  have hdisk := hc.eoa_disk
  unfold sieve_flush
  by_cases hd : f.sieve_dirty = true
  · have hin := hc.inside (hc.dirty_pos hd)
    have hlen : ¬ sb.length < (stash f).sieve_size := by simp only [stash]; omega
    have hok : (stash f).sieve_start + (stash f).sieve_size ≤ f.lf.data.length := by
      simp only [stash]; omega
    have htl : (sb.take f.sieve_size).length = f.sieve_size := by
      rw [List.length_take]; omega
    simp only [hd, if_true, hb, hlen, if_false, H5F_block_write, hok]
    refine ⟨_, rfl, ⟨rfl, rfl, rfl, rfl, ?_⟩, hb, rfl, rfl, rfl, ?_⟩
    · simp only [put_data, log_event, stash]
      exact overlay_length _ _ _ (by rw [htl]; omega)
    · simp only [put_data, log_event, stash, logical, hb, hd, if_true, overlay]
  · have hd2 : f.sieve_dirty = false := by simpa using hd
    simp only [hd2, Bool.false_eq_true, if_false]
    refine ⟨f, rfl, frame_refl f, hb, rfl, rfl, hd2, ?_⟩
    simp only [logical, hb, hd2, Bool.false_eq_true, if_false]

/-- A file in the frame of a coherent one whose window is clean and holds what
its disk holds is coherent. -/

theorem coherent_clean (f g : H5F_t) (sb : List Nat) (hc : Coherent f) (hfr : Frame f g)
    (hb : g.sieve_buf = some sb) (hcap : g.sieve_buf_size ≤ sb.length)
    (hloc : g.sieve_loc < HADDR_MOD) (hsz : g.sieve_size ≤ g.sieve_buf_size)
    (hin : 0 < g.sieve_size → g.sieve_loc + g.sieve_size ≤ rel_eoa g)
    (hd : g.sieve_dirty = false)
    (hcl : ∀ i, i < g.sieve_size → sb[i]? = g.lf.data[g.sieve_loc + i]?) : Coherent g := by
  have hr := frame_rel_eoa f g hfr
  obtain ⟨a1, a2, a3, a4, a5⟩ := hfr
  refine ⟨by rw [a2]; exact hc.sieve, ?_, ?_, hloc, ?_, hsz, hin, ?_, ?_⟩
  · simp only [H5FD_get_eoa, a1]; exact hc.eoa_def
  · rw [hr, a5]; exact hc.eoa_disk
  · intro sb2 h2
    rw [hb] at h2
    simp only [Option.some.injEq] at h2
    rw [← h2]; exact hcap
  · intro h; rw [hd] at h; cases h
  · intro sb2 h2 _ i hi
    rw [hb] at h2
    simp only [Option.some.injEq] at h2
    rw [← h2]; exact hcl i hi

/-- A file in the frame of a coherent one whose window is dirty, not empty and
below the end of allocation is coherent. -/

theorem coherent_dirty (f g : H5F_t) (sb : List Nat) (hc : Coherent f) (hfr : Frame f g)
    (hb : g.sieve_buf = some sb) (hcap : g.sieve_buf_size ≤ sb.length)
    (hloc : g.sieve_loc < HADDR_MOD) (hsz : g.sieve_size ≤ g.sieve_buf_size)
    (hpos : 0 < g.sieve_size) (hin : g.sieve_loc + g.sieve_size ≤ rel_eoa g)
    (hd : g.sieve_dirty = true) : Coherent g := by
  have hr := frame_rel_eoa f g hfr
  obtain ⟨a1, a2, a3, a4, a5⟩ := hfr
  refine ⟨by rw [a2]; exact hc.sieve, ?_, ?_, hloc, ?_, hsz, fun _ => hin, fun _ => hpos, ?_⟩
  · simp only [H5FD_get_eoa, a1]; exact hc.eoa_def
  · rw [hr, a5]; exact hc.eoa_disk
  · intro sb2 h2
    rw [hb] at h2
    simp only [Option.some.injEq] at h2
    rw [← h2]; exact hcap
  · intro sb2 _ h3
    rw [hd] at h3; cases h3

/-- The flushed file is coherent and has the logical contents of the file. -/

theorem flush_coherent (f g : H5F_t) (sb : List Nat) (hc : Coherent f)
    (hb : f.sieve_buf = some sb) (hfr : Frame f g) (h1 : g.sieve_buf = some sb)
    (h2 : g.sieve_loc = f.sieve_loc) (h3 : g.sieve_size = f.sieve_size)
    (h4 : g.sieve_dirty = false) (h5 : g.lf.data = logical f) :
    Coherent g ∧ logical g = logical f := by
  have hr := frame_rel_eoa f g hfr
  constructor
  · refine coherent_clean f g sb hc hfr h1 ?_ ?_ ?_ ?_ h4 ?_
    · rw [hfr.2.2.2.1]; exact hc.cap sb hb
    · rw [h2]; exact hc.loc_lt
    · rw [h3, hfr.2.2.2.1]; exact hc.size_le
    · rw [h2, h3, hr]; exact hc.inside
    · intro i hi
      rw [h3] at hi
      rw [h5, h2, logical_get f sb hc hb, if_pos (by omega)]
      congr 1
      omega
  · simp only [logical, h1, h4, Bool.false_eq_true, if_false, h5, hb]

/-- The block of `H5F_contig_writev` that sets the window up succeeds when the
new window lies on the disk: the window is at `addr`, dirty, starts with the
bytes written and goes on with the bytes of the disk. -/

theorem writev_window_ok (g : H5F_t) (md addr size : Nat) (bytes sb : List Nat)
    (hb : g.sieve_buf = some sb) (hcap : g.sieve_buf_size ≤ sb.length)
    (hbytes : bytes.length = size) (heoa : H5FD_get_eoa g.lf ≠ HADDR_UNDEF)
    (hW : size ≤ window_size { g with sieve_loc := addr } md 0)
    (hWc : window_size { g with sieve_loc := addr } md 0 ≤ g.sieve_buf_size)
    (hdisk : addr + window_size { g with sieve_loc := addr } md 0 ≤ g.lf.data.length) :
    ∃ g1 sb1, writev_window g md 0 addr size bytes = some (g1, herr_t.SUCCEED) ∧
      Frame g g1 ∧ g1.lf.data = g.lf.data ∧ g1.sieve_buf = some sb1 ∧
      sb1.length = sb.length ∧ g1.sieve_loc = addr ∧
      g1.sieve_size = window_size { g with sieve_loc := addr } md 0 ∧
      g1.sieve_dirty = true ∧
      (∀ i, i < size → sb1[i]? = bytes[i]?) ∧
      (∀ i, size ≤ i → i < window_size { g with sieve_loc := addr } md 0 →
        sb1[i]? = g.lf.data[addr + i]?) := by
  have heoa2 : ¬ H5FD_get_eoa ({ g with sieve_loc := addr } : H5F_t).lf = HADDR_UNDEF := heoa
  unfold writev_window
  simp only [heoa2, if_false]
  generalize window_size { g with sieve_loc := addr } md 0 = W at hW hWc hdisk ⊢
  have hn : W ≤ sb.length := by omega
  by_cases hgt : W > size
  · simp only [hgt, if_true]
    obtain ⟨s1, _⟩ := sieve_fill_spec { g with sieve_loc := addr, sieve_size := W } sb hb hn
    rw [s1 hdisk]
    have hdl : ((g.lf.data.drop addr).take W).length = W := drop_take_length _ _ _ hdisk
    have hlen1 : ((g.lf.data.drop addr).take W ++ sb.drop W).length = sb.length := by
      rw [List.length_append, hdl, List.length_drop]; omega
    simp only [log_event]
    rw [mem_write_overlay _ _ _ (by rw [hlen1, hbytes]; omega)]
    refine ⟨_, _, rfl, ⟨rfl, rfl, rfl, rfl, rfl⟩, rfl, rfl, ?_, rfl, rfl, rfl, ?_, ?_⟩
    · rw [overlay_length _ _ _ (by rw [hlen1, hbytes]; omega), hlen1]
    · intro i hi
      rw [overlay_get _ _ _ _ (by rw [hlen1, hbytes]; omega), if_pos (by omega)]
      rfl
    · intro i h1 h2
      rw [overlay_get _ _ _ _ (by rw [hlen1, hbytes]; omega), if_neg (by omega),
        List.getElem?_append_left (by omega), drop_take_get _ _ _ _ h2]
  · simp only [hgt, if_false, hb]
    rw [mem_write_overlay _ _ _ (by rw [hbytes]; omega)]
    refine ⟨_, _, rfl, ⟨rfl, rfl, rfl, rfl, rfl⟩, rfl, rfl, ?_, rfl, rfl, rfl, ?_, ?_⟩
    · rw [overlay_length _ _ _ (by rw [hbytes]; omega)]
    · intro i hi
      rw [overlay_get _ _ _ _ (by rw [hbytes]; omega), if_pos (by omega)]
      rfl
    · intro i h1 h2
      omega

/-- The block of `H5F_contig_readv` that sets the window up succeeds when the
new window lies on the disk: the window is at `addr`, clean and loaded, and
the bytes read are those of the disk. -/

theorem readv_window_ok (g : H5F_t) (md addr size : Nat) (sb : List Nat)
    (hb : g.sieve_buf = some sb) (hcap : g.sieve_buf_size ≤ sb.length)
    (heoa : H5FD_get_eoa g.lf ≠ HADDR_UNDEF)
    (hW : size ≤ window_size { g with sieve_loc := addr } md 0)
    (hWc : window_size { g with sieve_loc := addr } md 0 ≤ g.sieve_buf_size)
    (hdisk : addr + window_size { g with sieve_loc := addr } md 0 ≤ g.lf.data.length) :
    ∃ g1 sb1, readv_window g md 0 addr size =
        some (g1, some ((g.lf.data.drop addr).take size)) ∧
      Frame g g1 ∧ g1.lf.data = g.lf.data ∧ g1.sieve_buf = some sb1 ∧
      sb1.length = sb.length ∧ g1.sieve_loc = addr ∧
      g1.sieve_size = window_size { g with sieve_loc := addr } md 0 ∧
      g1.sieve_dirty = false ∧
      (∀ i, i < window_size { g with sieve_loc := addr } md 0 →
        sb1[i]? = g.lf.data[addr + i]?) := by
  have heoa2 : ¬ H5FD_get_eoa ({ g with sieve_loc := addr } : H5F_t).lf = HADDR_UNDEF := heoa
  unfold readv_window
  simp only [heoa2, if_false]
  generalize window_size { g with sieve_loc := addr } md 0 = W at hW hWc hdisk ⊢
  have hn : W ≤ sb.length := by omega
  obtain ⟨s1, _⟩ := sieve_fill_spec { g with sieve_loc := addr, sieve_size := W } sb hb hn
  rw [s1 hdisk]
  have hdl : ((g.lf.data.drop addr).take W).length = W := drop_take_length _ _ _ hdisk
  have hlen1 : ((g.lf.data.drop addr).take W ++ sb.drop W).length = sb.length := by
    rw [List.length_append, hdl, List.length_drop]; omega
  simp only [log_event]
  rw [mem_read_ok _ _ _ (by rw [hlen1]; omega)]
  have hout : (((g.lf.data.drop addr).take W ++ sb.drop W).drop 0).take size =
      (g.lf.data.drop addr).take size := by
    rw [List.drop_zero, List.take_append_of_le_length (by omega), List.take_take,
      Nat.min_eq_left hW]
  rw [hout]
  refine ⟨_, _, rfl, ⟨rfl, rfl, rfl, rfl, rfl⟩, rfl, rfl, hlen1, rfl, rfl, rfl, ?_⟩
  intro i hi
  rw [List.getElem?_append_left (by omega), drop_take_get _ _ _ _ hi]

theorem writev_extend_base (f g : H5F_t) (l : Locals) (addr size : Nat) (bytes : List Nat)
    (h : writev_extend f l addr size bytes = some g) :
    g.base_addr = f.base_addr ∧ g.sieve_buf_size = f.sieve_buf_size ∧ g.lf = f.lf ∧
    g.sieve_dirty = f.sieve_dirty := by
  unfold writev_extend at h
  cases hb : f.sieve_buf with
  | none => simp [hb] at h
  | some sb =>
    simp only [hb] at h
    split_ifs at h
    · cases h1 : mem_read sb 0 l.sieve_size with
      | none => simp [h1] at h
      | some old =>
        simp only [h1] at h
        cases h2 : mem_write sb size old with
        | none => simp [h2] at h
        | some sb1 =>
          simp only [h2] at h
          cases h3 : mem_write sb1 0 bytes with
          | none => simp [h3] at h
          | some sb2 =>
            simp only [h3, Option.some.injEq] at h
            rw [← h]
            exact ⟨rfl, rfl, rfl, rfl⟩
    · cases h2 : mem_write sb l.sieve_size bytes with
      | none => simp [h2] at h
      | some sb1 =>
        simp only [h2, Option.some.injEq] at h
        rw [← h]
        exact ⟨rfl, rfl, rfl, rfl⟩

/-- The window of a coherent file does not wrap around. -/

theorem window_no_wrap (f : H5F_t) (hc : Coherent f) :
    f.sieve_loc + f.sieve_size < HADDR_MOD := by
  have hR := rel_eoa_lt f
  have hl := hc.loc_lt
  by_cases h : 0 < f.sieve_size
  · have := hc.inside h
    omega
  · omega

/-- For a request in range the test "entire write is within the sieve buffer"
says what it is meant to say. -/

theorem within_iff (f : H5F_t) (addr size : Nat) (hw : f.sieve_loc + f.sieve_size < HADDR_MOD)
    (hpos : 0 < size) (hr : addr + size < HADDR_MOD) :
    within_sieve (stash f) (add64 addr 0) (sub64 (add64 (add64 addr 0) size) 1) = true ↔
      (f.sieve_loc ≤ addr ∧ addr + size ≤ f.sieve_loc + f.sieve_size) := by
  simp only [within_sieve, stash, add64, sub64, HADDR_MOD, Bool.and_eq_true,
    decide_eq_true_eq] at *
  omega

theorem contig_end_eq (addr size : Nat) (hpos : 0 < size) (hr : addr + size < HADDR_MOD) :
    add64 addr 0 = addr ∧ sub64 (add64 (add64 addr 0) size) 1 = addr + size - 1 ∧
    add64 (sub64 (add64 (add64 addr 0) size) 1) 1 = addr + size ∧
    add64 addr size = addr + size := by
  simp only [add64, sub64, HADDR_MOD] at *
  omega

/-- A single-range write on a file without a sieve buffer is the branch "no
data sieve buffer yet". -/

theorem contig_write_nobuf (f : H5F_t) (md addr size : Nat) (buf : List Nat)
    (hs : f.lf.data_sieve = true) (hb : f.sieve_buf = none) (hbuf : size ≤ buf.length) :
    H5F_contig_write f md addr size buf =
      writev_nobuf f md 0 (add64 addr 0) size (buf.take size) := by
  have hmr : mem_read buf 0 size = some (buf.take size) := by
    rw [mem_read_ok _ _ _ (by omega), List.drop_zero]
  simp only [H5F_contig_write, H5F_contig_writev, List.length_singleton, le_refl, and_self,
    if_true, hs, writev_outer, Nat.lt_one_iff, hb, List.getD_cons_zero, hmr]
  rcases writev_nobuf f md 0 (add64 addr 0) size (buf.take size) with _ | ⟨g, r⟩
  · rfl
  · cases r <;> simp

/-- A single-range write outside the window of an existing sieve buffer is the
branch "entire request is not within this data sieve buffer". -/

theorem contig_write_miss (f : H5F_t) (md addr size : Nat) (buf sb : List Nat)
    (hs : f.lf.data_sieve = true) (hb : f.sieve_buf = some sb) (hbuf : size ≤ buf.length)
    (hout : within_sieve (stash f) (add64 addr 0) (sub64 (add64 (add64 addr 0) size) 1) = false) :
    H5F_contig_write f md addr size buf =
      (writev_miss f (stash f) md 0 (add64 addr 0) size
        (sub64 (add64 (add64 addr 0) size) 1) (buf.take size)).map (fun r => (r.1, r.2.2)) := by
  have hmr : mem_read buf 0 size = some (buf.take size) := by
    rw [mem_read_ok _ _ _ (by omega), List.drop_zero]
  exact writev_single_miss f md addr size 0 buf (buf.take size) sb hs hb hout hmr

/-- A single-range write inside the window copies its bytes into the sieve
buffer and sets the dirty flag. -/

theorem contig_write_hit (f : H5F_t) (md addr size : Nat) (buf sb : List Nat)
    (hs : f.lf.data_sieve = true) (hb : f.sieve_buf = some sb) (hbuf : size ≤ buf.length)
    (hw : f.sieve_loc + f.sieve_size < HADDR_MOD) (hpos : 0 < size)
    (hr : addr + size < HADDR_MOD)
    (h1 : f.sieve_loc ≤ addr) (h2 : addr + size ≤ f.sieve_loc + f.sieve_size)
    (hfit : f.sieve_size ≤ sb.length) :
    H5F_contig_write f md addr size buf =
      some ({ f with sieve_buf := some (overlay sb (addr - f.sieve_loc) (buf.take size)),
                     sieve_dirty := true }, herr_t.SUCCEED) := by
  have hin := (within_iff f addr size hw hpos hr).2 ⟨h1, h2⟩
  have hmr : mem_read buf 0 size = some (buf.take size) := by
    rw [mem_read_ok _ _ _ (by omega), List.drop_zero]
  have hte : temp_end addr [size] [0] 0 < (stash f).sieve_end := by
    rw [temp_end_eq]
    simp only [List.getD_cons_zero]
    simp only [within_sieve, Bool.and_eq_true, decide_eq_true_eq] at hin
    exact hin.2
  have hrun := hit_run_last addr (stash f).sieve_end 1 [size] [0] 0 rfl hte
  have hoff : add64 (sub64 addr (stash f).sieve_start) 0 = addr - f.sieve_loc := by
    simp only [stash, add64, sub64, HADDR_MOD] at *
    omega
  have htl : (buf.take size).length = size := by rw [List.length_take]; omega
  have hmw : mem_write sb (addr - f.sieve_loc) (buf.take size) =
      some (overlay sb (addr - f.sieve_loc) (buf.take size)) :=
    mem_write_overlay _ _ _ (by rw [htl]; omega)
  simp only [H5F_contig_write, H5F_contig_writev, List.length_singleton, le_refl, and_self,
    if_true, hs, writev_outer, Nat.lt_one_iff, hb, Nat.sub_zero, writev_inner,
    List.getD_cons_zero, hin, writev_hit, hrun, Nat.zero_add, writev_copy, hmr, hoff, hmw]
  simp

/-- A file without a sieve buffer in the frame of a coherent one, with the
window fields of that one, is coherent. -/

theorem coherent_nobuf (f g : H5F_t) (hc : Coherent f) (hfr : Frame f g)
    (hb : g.sieve_buf = none) (h1 : g.sieve_loc = f.sieve_loc)
    (h2 : g.sieve_size = f.sieve_size) (h3 : g.sieve_dirty = f.sieve_dirty) : Coherent g := by
  have hr := frame_rel_eoa f g hfr
  obtain ⟨a1, a2, a3, a4, a5⟩ := hfr
  refine ⟨by rw [a2]; exact hc.sieve, ?_, ?_, by rw [h1]; exact hc.loc_lt, ?_,
    by rw [h2, a4]; exact hc.size_le, by rw [h1, h2, hr]; exact hc.inside,
    by rw [h2, h3]; exact hc.dirty_pos, ?_⟩
  · simp only [H5FD_get_eoa, a1]; exact hc.eoa_def
  · rw [hr, a5]; exact hc.eoa_disk
  · intro sb h; rw [hb] at h; cases h
  · intro sb h; rw [hb] at h; cases h

theorem get_of_drop_take_eq (a b : List Nat) (off n j : Nat)
    (h : (a.drop off).take n = b.take n) (hj : j < n) : a[off + j]? = b[j]? := by
  have := congrArg (fun l => l[j]?) h
  simp only [List.getElem?_take_of_lt hj, List.getElem?_drop] at this
  exact this

theorem get_of_take_eq (a b : List Nat) (n j : Nat) (h : a.take n = b) (hj : j < n) :
    a[j]? = b[j]? := by
  rw [← h, List.getElem?_take_of_lt hj]

/-- A successful block write, in full. -/

theorem block_write_ok (f : H5F_t) (addr size : Nat) (bytes : List Nat)
    (hbytes : bytes.length = size) (hok : addr + size ≤ f.lf.data.length) :
    ∃ g, H5F_block_write f addr size bytes = (g, herr_t.SUCCEED) ∧ Frame f g ∧
      g.lf.data = overlay f.lf.data addr bytes ∧ g.sieve_buf = f.sieve_buf ∧
      g.sieve_loc = f.sieve_loc ∧ g.sieve_size = f.sieve_size ∧
      g.sieve_dirty = f.sieve_dirty := by
  have ht : bytes.take size = bytes := by rw [← hbytes]; simp
  simp only [H5F_block_write, hok, if_true, ht]
  refine ⟨_, rfl, ⟨rfl, rfl, rfl, rfl, ?_⟩, rfl, rfl, rfl, rfl, rfl⟩
  simp only [put_data, log_event]
  exact overlay_length _ _ _ (by rw [hbytes]; exact hok)

/-- A successful block read, in full. -/

theorem block_read_ok (f : H5F_t) (addr size : Nat) (hok : addr + size ≤ f.lf.data.length) :
    ∃ g, H5F_block_read f addr size = (g, some ((f.lf.data.drop addr).take size)) ∧
      Frame f g ∧ g.lf.data = f.lf.data ∧ g.sieve_buf = f.sieve_buf ∧
      g.sieve_loc = f.sieve_loc ∧ g.sieve_size = f.sieve_size ∧
      g.sieve_dirty = f.sieve_dirty := by
  simp only [H5F_block_read, hok, if_true]
  exact ⟨_, rfl, ⟨rfl, rfl, rfl, rfl, rfl⟩, rfl, rfl, rfl, rfl, rfl⟩

/-- The file with a new dirty window at `addr` that starts with the bytes
written and goes on with the bytes of the disk, over a disk that holds the
logical contents of `f`: it is coherent and its logical contents are those of
`f` with the bytes laid over. -/

theorem window_write_result (f g1 : H5F_t) (sb1 bytes : List Nat) (addr size W : Nat)
    (hc : Coherent f) (hfr : Frame f g1) (hdata : g1.lf.data = logical f)
    (hb : g1.sieve_buf = some sb1) (hcap : g1.sieve_buf_size ≤ sb1.length)
    (hloc : g1.sieve_loc = addr) (hss : g1.sieve_size = W) (hd : g1.sieve_dirty = true)
    (hbytes : bytes.length = size) (hpos : 0 < size) (hW : size ≤ W)
    (hWc : W ≤ g1.sieve_buf_size) (hin : addr + W ≤ rel_eoa f)
    (h1 : ∀ i, i < size → sb1[i]? = bytes[i]?)
    (h2 : ∀ i, size ≤ i → i < W → sb1[i]? = (logical f)[addr + i]?) :
    Coherent g1 ∧ logical g1 = overlay (logical f) addr bytes := by
  have hr := frame_rel_eoa f g1 hfr
  have hR := rel_eoa_lt f
  have hdisk := hc.eoa_disk
  have hc1 : Coherent g1 := coherent_dirty f g1 sb1 hc hfr hb hcap (by rw [hloc]; omega)
    (by rw [hss]; exact hWc) (by rw [hss]; omega) (by rw [hloc, hss, hr]; exact hin) hd
  refine ⟨hc1, ?_⟩
  apply eq_overlay
  · rw [logical_length f hc, hbytes]; omega
  · intro i
    rw [logical_get g1 sb1 hc1 hb, hloc, hss, hbytes]
    by_cases hw : addr ≤ i ∧ i < addr + W
    · rw [if_pos hw]
      by_cases hq : addr ≤ i ∧ i < addr + size
      · rw [if_pos hq, h1 _ (by omega)]
      · rw [if_neg hq, h2 _ (by omega) (by omega)]
        congr 1
        omega
    · rw [if_neg hw, if_neg (by omega), hdata]

/-- The block that sets up a new window for a write in range, on a file `g`
in the frame of the coherent `f` whose disk holds the logical contents of
`f`: it succeeds, and leaves a coherent file whose logical contents are those
of `f` with the bytes laid over. -/

theorem new_window_write (f g : H5F_t) (md addr size : Nat) (bytes sb : List Nat)
    (hc : Coherent f) (hfr : Frame f g) (hdata : g.lf.data = logical f)
    (hb : g.sieve_buf = some sb) (hcap : g.sieve_buf_size ≤ sb.length)
    (hbytes : bytes.length = size) (hpos : 0 < size) (hmd : size ≤ md)
    (hmdlt : md < HADDR_MOD) (hin : addr + size ≤ rel_eoa f)
    (hsz : size ≤ g.sieve_buf_size) :
    ∃ g1, writev_window g md 0 addr size bytes = some (g1, herr_t.SUCCEED) ∧ Coherent g1 ∧
      Frame f g1 ∧ logical g1 = overlay (logical f) addr bytes := by
  have hr := frame_rel_eoa f g hfr
  have hdisk := hc.eoa_disk
  have hlen : g.lf.data.length = f.lf.data.length := hfr.2.2.2.2
  have heoa : H5FD_get_eoa g.lf ≠ HADDR_UNDEF := by
    simp only [H5FD_get_eoa, hfr.1]; exact hc.eoa_def
  obtain ⟨w1, w2, w3⟩ := window_size_range g md addr size hmd hmdlt (by rw [hr]; exact hin) hsz
  rw [hr] at w2
  obtain ⟨g1, sb1, e, hfr1, d1, d2, d3, d4, d5, d6, d7, d8⟩ :=
    writev_window_ok g md addr size bytes sb hb hcap hbytes heoa w1 w3 (by omega)
  generalize window_size { g with sieve_loc := addr } md 0 = W at w1 w2 w3 d5 d8
  have hfr2 : Frame f g1 := frame_trans f g g1 hfr hfr1
  have hcap1 : g1.sieve_buf_size ≤ sb1.length := by rw [hfr1.2.2.2.1, d3]; exact hcap
  obtain ⟨c1, c2⟩ := window_write_result f g1 sb1 bytes addr size W hc hfr2
    (by rw [d1, hdata]) d2 hcap1 d4 d5 d6 hbytes hpos w1
    (by rw [hfr1.2.2.2.1]; exact w3) w2 d7
    (by intro i i1 i2; rw [d8 i i1 i2, hdata])
  exact ⟨g1, e, c1, hfr2, c2⟩

/-- C34, a write on a file without a sieve buffer. -/

theorem write_nobuf_case (f : H5F_t) (md addr size : Nat) (buf : List Nat) (hc : Coherent f)
    (hb : f.sieve_buf = none) (hpos : 0 < size) (hmd : size ≤ md) (hmdlt : md < HADDR_MOD)
    (hin : addr + size ≤ rel_eoa f) (hbuf : size ≤ buf.length) :
    ∃ f2, H5F_contig_write f md addr size buf = some (f2, herr_t.SUCCEED) ∧ Coherent f2 ∧
      Frame f f2 ∧ logical f2 = overlay (logical f) addr (buf.take size) := by
  have hR := rel_eoa_lt f
  have hdisk := hc.eoa_disk
  have htl : (buf.take size).length = size := by rw [List.length_take]; omega
  obtain ⟨ea, _, _, _⟩ := contig_end_eq addr size hpos (by omega)
  have hlog : logical f = f.lf.data := by simp only [logical, hb]
  rw [contig_write_nobuf f md addr size buf hc.sieve hb hbuf, ea]
  unfold writev_nobuf
  by_cases hgt : size > f.sieve_buf_size
  · simp only [hgt, if_true]
    obtain ⟨g, e, hfr, d1, d2, d3, d4, d5⟩ :=
      block_write_ok f addr size (buf.take size) htl (by omega)
    rw [e]
    refine ⟨g, rfl, coherent_nobuf f g hc hfr (by rw [d2, hb]) d3 d4 d5, hfr, ?_⟩
    simp only [logical, d2, hb, d1]
  · simp only [hgt, if_false]
    exact new_window_write f _ md addr size (buf.take size) (H5FL_BLK_ALLOC f.sieve_buf_size)
      hc ⟨rfl, rfl, rfl, rfl, rfl⟩ hlog.symm rfl (by simp [H5FL_BLK_ALLOC]) htl hpos hmd hmdlt
      hin (by simp only; omega)

/-- C34, a write inside the window. -/

theorem write_hit_case (f : H5F_t) (md addr size : Nat) (buf sb : List Nat) (hc : Coherent f)
    (hb : f.sieve_buf = some sb) (hpos : 0 < size)
    (hin : addr + size ≤ rel_eoa f) (hbuf : size ≤ buf.length)
    (h1 : f.sieve_loc ≤ addr) (h2 : addr + size ≤ f.sieve_loc + f.sieve_size) :
    ∃ f2, H5F_contig_write f md addr size buf = some (f2, herr_t.SUCCEED) ∧ Coherent f2 ∧
      Frame f f2 ∧ logical f2 = overlay (logical f) addr (buf.take size) := by
  have hR := rel_eoa_lt f
  have hdisk := hc.eoa_disk
  have hcap := hc.cap sb hb
  have hsz := hc.size_le
  have hw := window_no_wrap f hc
  have hss : 0 < f.sieve_size := by omega
  have hins := hc.inside hss
  have htl : (buf.take size).length = size := by rw [List.length_take]; omega
  have hol : (overlay sb (addr - f.sieve_loc) (buf.take size)).length = sb.length :=
    overlay_length _ _ _ (by rw [htl]; omega)
  rw [contig_write_hit f md addr size buf sb hc.sieve hb hbuf hw hpos (by omega) h1 h2
    (by omega)]
  obtain ⟨sb2, hsb2⟩ : ∃ sb2, sb2 = overlay sb (addr - f.sieve_loc) (buf.take size) := ⟨_, rfl⟩
  rw [← hsb2]
  rw [← hsb2] at hol
  have hfr : Frame f { f with sieve_buf := some sb2, sieve_dirty := true } :=
    ⟨rfl, rfl, rfl, rfl, rfl⟩
  have hc2 := coherent_dirty f _ sb2 hc hfr rfl (by rw [hol]; exact hcap) hc.loc_lt hsz hss
    hins rfl
  refine ⟨_, rfl, hc2, hfr, ?_⟩
  apply eq_overlay
  · rw [logical_length f hc, htl]; omega
  · intro i
    rw [logical_get _ _ hc2 rfl, logical_get f sb hc hb, htl]
    simp only
    by_cases hwin : f.sieve_loc ≤ i ∧ i < f.sieve_loc + f.sieve_size
    · rw [if_pos hwin, if_pos hwin, hsb2, overlay_get _ _ _ _ (by rw [htl]; omega), htl]
      by_cases hq : addr ≤ i ∧ i < addr + size
      · rw [if_pos hq, if_pos (by omega)]
        congr 1
        omega
      · rw [if_neg hq, if_neg (by omega)]
    · rw [if_neg hwin, if_neg hwin, if_neg (by omega)]

theorem get_of_drop_take (a b : List Nat) (off n j : Nat)
    (h : (a.drop off).take n = b) (hj : j < n) : a[off + j]? = b[j]? := by
  rw [← h, List.getElem?_take_of_lt hj, List.getElem?_drop]

theorem get_of_take_take (a b : List Nat) (n j : Nat) (h : a.take n = b.take n) (hj : j < n) :
    a[j]? = b[j]? := by
  have := congrArg (fun l => l[j]?) h
  simp only [List.getElem?_take_of_lt hj] at this
  exact this

/-- When the overlap test of the oversized branch fails, the window and the
longer request share no byte. -/

theorem no_overlap_disjoint (f : H5F_t) (addr size : Nat)
    (hw : f.sieve_loc + f.sieve_size < HADDR_MOD) (hr : addr + size < HADDR_MOD)
    (hss : 0 < f.sieve_size) (hlt : f.sieve_size < size)
    (h : overlap_check (stash f) addr (sub64 (add64 addr size) 1) = false) :
    f.sieve_loc + f.sieve_size ≤ addr ∨ addr + size ≤ f.sieve_loc := by
  simp only [overlap_check, stash, add64, sub64, HADDR_MOD, Bool.or_eq_false_iff,
    Bool.and_eq_false_iff, decide_eq_false_iff_not] at *
  omega

/-- C34, a write larger than the sieve buffer when a buffer exists. -/

theorem write_direct_case (f : H5F_t) (md addr size : Nat) (buf sb : List Nat) (hc : Coherent f)
    (hb : f.sieve_buf = some sb) (hpos : 0 < size)
    (hin : addr + size ≤ rel_eoa f) (hbuf : size ≤ buf.length)
    (hgt : size > f.sieve_buf_size) :
    ∃ f2, H5F_contig_write f md addr size buf = some (f2, herr_t.SUCCEED) ∧ Coherent f2 ∧
      Frame f f2 ∧ logical f2 = overlay (logical f) addr (buf.take size) := by
  have hR := rel_eoa_lt f
  have hdisk := hc.eoa_disk
  have hcap := hc.cap sb hb
  have hsz := hc.size_le
  have hw := window_no_wrap f hc
  have htl : (buf.take size).length = size := by rw [List.length_take]; omega
  obtain ⟨ea, eb, _, _⟩ := contig_end_eq addr size hpos (by omega)
  have hout : within_sieve (stash f) (add64 addr 0) (sub64 (add64 (add64 addr 0) size) 1) =
      false := by
    cases hwi : within_sieve (stash f) (add64 addr 0) (sub64 (add64 (add64 addr 0) size) 1) with
    | false => rfl
    | true =>
      have := (within_iff f addr size hw hpos (by omega)).1 hwi
      omega
  rw [contig_write_miss f md addr size buf sb hc.sieve hb hbuf hout, ea]
  simp only [writev_miss, hgt, if_true]
  unfold writev_direct
  by_cases hov : overlap_check (stash f) addr (sub64 (add64 addr size) 1) = true
  · simp only [hov, if_true]
    obtain ⟨g, e, hfr, g1, g2, g3, g4, g5⟩ := flush_ok f sb hc hb
    rw [e]
    simp only
    have hglen : g.lf.data.length = f.lf.data.length := hfr.2.2.2.2
    obtain ⟨g2', e2, hfr2, d1, d2, d3, d4, d5⟩ := block_write_ok
      { g with sieve_loc := HADDR_UNDEF, sieve_size := 0 } addr size (buf.take size) htl
      (by simp only; omega)
    rw [e2]
    simp only [Option.map_some']
    have hfr3 : Frame f g2' := frame_trans f g g2' hfr hfr2
    have hc2 : Coherent g2' := coherent_clean f g2' sb hc hfr3 (by rw [d2]; exact g1)
      (by rw [hfr3.2.2.2.1]; exact hcap) (by rw [d3]; show HADDR_UNDEF < HADDR_MOD; decide) (by rw [d4]; exact Nat.zero_le _)
      (by rw [d4]; intro h; exact absurd h (Nat.lt_irrefl 0)) (by rw [d5]; exact g4)
      (by rw [d4]; intro i hi; exact absurd hi (Nat.not_lt_zero i))
    refine ⟨g2', rfl, hc2, hfr3, ?_⟩
    have hd5 : g2'.sieve_dirty = false := by rw [d5]; exact g4
    have hb2 : g2'.sieve_buf = some sb := by rw [d2]; exact g1
    simp only [logical, hb2, hd5, Bool.false_eq_true, if_false, d1, g5, hb]
  · have hov2 : overlap_check (stash f) addr (sub64 (add64 addr size) 1) = false := by
      simpa using hov
    simp only [hov2, Bool.false_eq_true, if_false]
    obtain ⟨g, e, hfr, d1, d2, d3, d4, d5⟩ :=
      block_write_ok f addr size (buf.take size) htl (by omega)
    rw [e]
    simp only [Option.map_some']
    have hb2 : g.sieve_buf = some sb := by rw [d2]; exact hb
    have hdis : 0 < f.sieve_size → f.sieve_loc + f.sieve_size ≤ addr ∨ addr + size ≤ f.sieve_loc :=
      fun hss => no_overlap_disjoint f addr size hw (by omega) hss (by omega) hov2
    by_cases hd : f.sieve_dirty = true
    · have hss := hc.dirty_pos hd
      have hins := hc.inside hss
      have hc2 : Coherent g := coherent_dirty f g sb hc hfr hb2
        (by rw [hfr.2.2.2.1]; exact hcap) (by rw [d3]; exact hc.loc_lt)
        (by rw [d4, hfr.2.2.2.1]; exact hsz) (by rw [d4]; exact hss)
        (by rw [d3, d4, frame_rel_eoa f g hfr]; exact hins) (by rw [d5]; exact hd)
      refine ⟨g, rfl, hc2, hfr, ?_⟩
      apply eq_overlay
      · rw [logical_length f hc, htl]; omega
      · intro i
        rw [logical_get g sb hc2 hb2, logical_get f sb hc hb, d3, d4, d1,
          overlay_get _ _ _ _ (by rw [htl]; omega), htl]
        have := hdis hss
        by_cases hwin : f.sieve_loc ≤ i ∧ i < f.sieve_loc + f.sieve_size
        · rw [if_pos hwin, if_pos hwin, if_neg (by omega)]
        · rw [if_neg hwin, if_neg hwin]
    · have hd2 : f.sieve_dirty = false := by simpa using hd
      have hd3 : g.sieve_dirty = false := by rw [d5]; exact hd2
      have hc2 : Coherent g := coherent_clean f g sb hc hfr hb2
        (by rw [hfr.2.2.2.1]; exact hcap) (by rw [d3]; exact hc.loc_lt)
        (by rw [d4, hfr.2.2.2.1]; exact hsz)
        (by rw [d3, d4, frame_rel_eoa f g hfr]; exact hc.inside) hd3
        (by
          intro i hi
          rw [d4] at hi
          have := hdis (by omega)
          rw [d1, d3, overlay_get _ _ _ _ (by rw [htl]; omega), htl, if_neg (by omega)]
          exact hc.clean sb hb hd2 i hi)
      refine ⟨g, rfl, hc2, hfr, ?_⟩
      simp only [logical, hb2, hd3, Bool.false_eq_true, if_false, d1, hb, hd2]

/-- C34, a write that fits the sieve buffer and is not inside the window. -/

theorem write_fit_case (f : H5F_t) (md addr size : Nat) (buf sb : List Nat) (hc : Coherent f)
    (hb : f.sieve_buf = some sb) (hpos : 0 < size) (hmd : size ≤ md) (hmdlt : md < HADDR_MOD)
    (hin : addr + size ≤ rel_eoa f) (hbuf : size ≤ buf.length)
    (hfit : ¬ size > f.sieve_buf_size)
    (hout : within_sieve (stash f) (add64 addr 0) (sub64 (add64 (add64 addr 0) size) 1) =
      false) :
    ∃ f2, H5F_contig_write f md addr size buf = some (f2, herr_t.SUCCEED) ∧ Coherent f2 ∧
      Frame f f2 ∧ logical f2 = overlay (logical f) addr (buf.take size) := by
  have hR := rel_eoa_lt f
  have hdisk := hc.eoa_disk
  have hcap := hc.cap sb hb
  have hsz := hc.size_le
  have hw := window_no_wrap f hc
  have htl : (buf.take size).length = size := by rw [List.length_take]; omega
  obtain ⟨ea, eb, _, ed⟩ := contig_end_eq addr size hpos (by omega)
  rw [contig_write_miss f md addr size buf sb hc.sieve hb hbuf hout, ea]
  simp only [writev_miss, hfit, if_false]
  by_cases hce : can_extend f (stash f) addr size = true
  · simp only [hce, if_true]
    simp only [can_extend, Bool.and_eq_true, Bool.or_eq_true, decide_eq_true_eq, stash] at hce
    obtain ⟨⟨hadj, hsum⟩, hd⟩ := hce
    have hss := hc.dirty_pos hd
    have hins := hc.inside hss
    rw [ed, add64_of_lt _ _ hw] at hadj
    have hsum2 : size + f.sieve_size ≤ f.sieve_buf_size := by
      rw [add64_of_lt _ _ (by omega)] at hsum
      exact hsum
    obtain ⟨f1, sb1, e, x1, x2, _, _, x5, _, x7, x8⟩ :=
      writev_extend_bytes f addr size (buf.take size) sb hb htl (by omega) (by omega)
    obtain ⟨y1, y2, _, y4⟩ := writev_extend_base f f1 (stash f) addr size (buf.take size) e
    rw [e]
    simp only [Option.map_some']
    rw [add64_of_lt _ _ (by omega)] at x7
    have hfr : Frame f f1 := ⟨by rw [x5], by rw [x5], y1, y2, by rw [x5]⟩
    have hloc : f1.sieve_loc = addr ∨ f1.sieve_loc = f.sieve_loc := by
      rcases x8 with ⟨_, p, _⟩ | ⟨_, p, _⟩
      · exact Or.inl p
      · exact Or.inr p
    have hc2 : Coherent f1 := coherent_dirty f f1 sb1 hc hfr x1
      (by rw [y2, x2]; exact hcap)
      (by rcases hloc with p | p
          · rw [p]; omega
          · rw [p]; exact hc.loc_lt)
      (by rw [x7, y2]; omega) (by rw [x7]; omega)
      (by
        rw [x7, frame_rel_eoa f f1 hfr]
        rcases x8 with ⟨q, p, _⟩ | ⟨q, p, _⟩
        · rw [ed] at q
          rw [p]; omega
        · rw [ed] at q
          rw [p]
          have : addr = f.sieve_loc + f.sieve_size := by
            rcases hadj with h | h
            · exact absurd h q
            · exact h
          omega)
      (by rw [y4]; exact hd)
    refine ⟨f1, rfl, hc2, hfr, ?_⟩
    apply eq_overlay
    · rw [logical_length f hc, htl]; omega
    · intro i
      rw [logical_get f1 sb1 hc2 x1, logical_get f sb hc hb, x7, x5, htl]
      rcases x8 with ⟨q, p, t1, t2⟩ | ⟨q, p, t1, t2⟩
      · rw [ed] at q
        rw [p]
        by_cases hq : addr ≤ i ∧ i < addr + size
        · rw [if_pos (by omega), if_pos hq]
          exact get_of_take_eq sb1 _ size (i - addr) t1 (by omega)
        · rw [if_neg hq]
          by_cases hwin : f.sieve_loc ≤ i ∧ i < f.sieve_loc + f.sieve_size
          · rw [if_pos (by omega), if_pos hwin]
            have := get_of_drop_take_eq sb1 sb size f.sieve_size (i - f.sieve_loc) t2 (by omega)
            have hidx : i - addr = size + (i - f.sieve_loc) := by omega
            rw [hidx]
            exact this
          · rw [if_neg (by omega), if_neg hwin]
      · rw [ed] at q
        have hap : addr = f.sieve_loc + f.sieve_size := by
          rcases hadj with h | h
          · exact absurd h q
          · exact h
        rw [p]
        by_cases hq : addr ≤ i ∧ i < addr + size
        · rw [if_pos (by omega), if_pos hq]
          have := get_of_drop_take sb1 _ f.sieve_size size (i - addr) t1 (by omega)
          have hidx : i - f.sieve_loc = f.sieve_size + (i - addr) := by omega
          rw [hidx]
          exact this
        · rw [if_neg hq]
          by_cases hwin : f.sieve_loc ≤ i ∧ i < f.sieve_loc + f.sieve_size
          · rw [if_pos (by omega), if_pos hwin]
            exact get_of_take_take sb1 sb f.sieve_size (i - f.sieve_loc) t2 (by omega)
          · rw [if_neg (by omega), if_neg hwin]
  · have hce2 : can_extend f (stash f) addr size = false := by simpa using hce
    simp only [hce2, Bool.false_eq_true, if_false]
    unfold writev_replace
    obtain ⟨g, e, hfr, g1, g2, g3, g4, g5⟩ := flush_ok f sb hc hb
    rw [e]
    simp only
    obtain ⟨g1', e1, c1, c2, c3⟩ := new_window_write f g md addr size (buf.take size) sb hc hfr
      g5 g1 (by rw [hfr.2.2.2.1]; exact hcap) htl hpos hmd hmdlt hin
      (by rw [hfr.2.2.2.1]; omega)
    rw [e1]
    exact ⟨g1', rfl, c1, c2, c3⟩

theorem take_ext (a b : List Nat) (n : Nat) (h : ∀ j, j < n → a[j]? = b[j]?) :
    a.take n = b.take n := by
  apply List.ext_getElem?
  intro j
  by_cases hj : j < n
  · rw [List.getElem?_take_of_lt hj, List.getElem?_take_of_lt hj, h j hj]
  · rw [List.getElem?_take_eq_none (by omega), List.getElem?_take_eq_none (by omega)]

theorem drop_take_ext (a b : List Nat) (p q n : Nat) (h : ∀ j, j < n → a[p + j]? = b[q + j]?) :
    (a.drop p).take n = (b.drop q).take n := by
  apply take_ext
  intro j hj
  rw [List.getElem?_drop, List.getElem?_drop, h j hj]

/-- A file that differs from a coherent one in the trace only is coherent and
has the same logical contents. -/

theorem coherent_of_fields (f g : H5F_t) (hc : Coherent f) (h1 : g.lf = f.lf)
    (h2 : g.base_addr = f.base_addr) (h3 : g.sieve_buf = f.sieve_buf)
    (h4 : g.sieve_loc = f.sieve_loc) (h5 : g.sieve_size = f.sieve_size)
    (h6 : g.sieve_dirty = f.sieve_dirty) (h7 : g.sieve_buf_size = f.sieve_buf_size) :
    Coherent g ∧ Frame f g ∧ logical g = logical f := by
  have hr : rel_eoa g = rel_eoa f := by simp only [rel_eoa, h1, h2]
  refine ⟨⟨by rw [h1]; exact hc.sieve, by rw [h1]; exact hc.eoa_def,
    by rw [hr, h1]; exact hc.eoa_disk, by rw [h4]; exact hc.loc_lt,
    by rw [h3, h7]; exact hc.cap, by rw [h5, h7]; exact hc.size_le,
    by rw [h4, h5, hr]; exact hc.inside, by rw [h5, h6]; exact hc.dirty_pos,
    by rw [h3, h4, h5, h6, h1]; exact hc.clean⟩, ⟨by rw [h1], by rw [h1], h2, h7, by rw [h1]⟩, ?_⟩
  simp only [logical, h1, h3, h4, h5, h6]

/-- A single-range read on a file without a sieve buffer is the branch "no
data sieve buffer yet". -/

theorem contig_read_nobuf (f : H5F_t) (md addr size : Nat)
    (hs : f.lf.data_sieve = true) (hb : f.sieve_buf = none) :
    H5F_contig_read f md addr size =
      (readv_nobuf f md 0 (add64 addr 0) size).map
        (fun r => (r.1, (if r.2.isSome then herr_t.SUCCEED else herr_t.FAIL), r.2.getD [])) := by
  simp only [H5F_contig_read, H5F_contig_readv, List.length_singleton, le_refl, and_self,
    if_true, hs, readv_outer, Nat.lt_one_iff, hb, List.getD_cons_zero]
  rcases readv_nobuf f md 0 (add64 addr 0) size with _ | ⟨g, r⟩
  · rfl
  · cases r <;> simp

/-- A single-range read outside the window of an existing sieve buffer is the
branch "entire request is not within this data sieve buffer". -/

theorem contig_read_miss (f : H5F_t) (md addr size : Nat) (sb : List Nat)
    (hs : f.lf.data_sieve = true) (hb : f.sieve_buf = some sb)
    (hout : within_sieve (stash f) (add64 addr 0) (sub64 (add64 (add64 addr 0) size) 1) = false) :
    H5F_contig_read f md addr size =
      (readv_miss f (stash f) md 0 (add64 addr 0) size
        (sub64 (add64 (add64 addr 0) size) 1)).map
        (fun r => (r.1, (if r.2.2.isSome then herr_t.SUCCEED else herr_t.FAIL), r.2.2.getD [])) :=
  readv_single_miss f md addr size 0 sb hs hb hout

/-- A single-range read inside the window copies its bytes out of the sieve
buffer and changes nothing. -/

theorem contig_read_hit (f : H5F_t) (md addr size : Nat) (sb : List Nat)
    (hs : f.lf.data_sieve = true) (hb : f.sieve_buf = some sb)
    (hw : f.sieve_loc + f.sieve_size < HADDR_MOD) (hpos : 0 < size)
    (hr : addr + size < HADDR_MOD)
    (h1 : f.sieve_loc ≤ addr) (h2 : addr + size ≤ f.sieve_loc + f.sieve_size)
    (hfit : f.sieve_size ≤ sb.length) :
    H5F_contig_read f md addr size =
      some (f, herr_t.SUCCEED, (sb.drop (addr - f.sieve_loc)).take size) := by
  have hin := (within_iff f addr size hw hpos hr).2 ⟨h1, h2⟩
  have hte : temp_end addr [size] [0] 0 < (stash f).sieve_end := by
    rw [temp_end_eq]
    simp only [List.getD_cons_zero]
    simp only [within_sieve, Bool.and_eq_true, decide_eq_true_eq] at hin
    exact hin.2
  have hrun := hit_run_last addr (stash f).sieve_end 1 [size] [0] 0 rfl hte
  have hoff : add64 (sub64 addr (stash f).sieve_start) 0 = addr - f.sieve_loc := by
    simp only [stash, add64, sub64, HADDR_MOD] at *
    omega
  have hmr : mem_read sb (addr - f.sieve_loc) size =
      some ((sb.drop (addr - f.sieve_loc)).take size) := mem_read_ok _ _ _ (by omega)
  simp only [H5F_contig_read, H5F_contig_readv, List.length_singleton, le_refl, and_self,
    if_true, hs, readv_outer, Nat.lt_one_iff, hb, Nat.sub_zero, readv_inner,
    List.getD_cons_zero, hin, readv_hit, hrun, Nat.zero_add, readv_copy, hoff, hmr]
  simp

/-- The block that sets up a new window for a read in range, on a file `g` in
the frame of the coherent `f` whose disk holds the logical contents of `f`:
it succeeds with the logical bytes and leaves a coherent file with the same
logical contents. -/

theorem new_window_read (f g : H5F_t) (md addr size : Nat) (sb : List Nat)
    (hc : Coherent f) (hfr : Frame f g) (hdata : g.lf.data = logical f)
    (hb : g.sieve_buf = some sb) (hcap : g.sieve_buf_size ≤ sb.length)
    (hmd : size ≤ md) (hmdlt : md < HADDR_MOD)
    (hin : addr + size ≤ rel_eoa f) (hsz : size ≤ g.sieve_buf_size) :
    ∃ g1, readv_window g md 0 addr size =
        some (g1, some (((logical f).drop addr).take size)) ∧ Coherent g1 ∧
      Frame f g1 ∧ logical g1 = logical f := by
  have hr := frame_rel_eoa f g hfr
  have hR := rel_eoa_lt f
  have hdisk := hc.eoa_disk
  have hlen : g.lf.data.length = f.lf.data.length := hfr.2.2.2.2
  have heoa : H5FD_get_eoa g.lf ≠ HADDR_UNDEF := by
    simp only [H5FD_get_eoa, hfr.1]; exact hc.eoa_def
  obtain ⟨w1, w2, w3⟩ := window_size_range g md addr size hmd hmdlt (by rw [hr]; exact hin) hsz
  rw [hr] at w2
  obtain ⟨g1, sb1, e, hfr1, d1, d2, d3, d4, d5, d6, d7⟩ :=
    readv_window_ok g md addr size sb hb hcap heoa w1 w3 (by omega)
  generalize window_size { g with sieve_loc := addr } md 0 = W at w1 w2 w3 d5 d7
  have hfr2 : Frame f g1 := frame_trans f g g1 hfr hfr1
  have hc1 : Coherent g1 := coherent_clean f g1 sb1 hc hfr2 d2
    (by rw [hfr1.2.2.2.1, d3]; exact hcap) (by rw [d4]; omega)
    (by rw [d5, hfr1.2.2.2.1]; exact w3)
    (by rw [d4, d5, frame_rel_eoa f g1 hfr2]; intro _; exact w2) d6
    (by intro i hi; rw [d5] at hi; rw [d7 i hi, d1, d4])
  rw [hdata] at e
  refine ⟨g1, e, hc1, hfr2, ?_⟩
  simp only [logical, d2, d6, Bool.false_eq_true, if_false, d1, hdata]

/-- C34, a read on a file without a sieve buffer. -/

theorem read_nobuf_case (f : H5F_t) (md addr size : Nat) (hc : Coherent f)
    (hb : f.sieve_buf = none) (hpos : 0 < size) (hmd : size ≤ md) (hmdlt : md < HADDR_MOD)
    (hin : addr + size ≤ rel_eoa f) :
    ∃ f2, H5F_contig_read f md addr size =
        some (f2, herr_t.SUCCEED, ((logical f).drop addr).take size) ∧ Coherent f2 ∧
      Frame f f2 ∧ logical f2 = logical f := by
  have hR := rel_eoa_lt f
  have hdisk := hc.eoa_disk
  obtain ⟨ea, _, _, _⟩ := contig_end_eq addr size hpos (by omega)
  have hlog : logical f = f.lf.data := by simp only [logical, hb]
  rw [contig_read_nobuf f md addr size hc.sieve hb, ea]
  unfold readv_nobuf
  by_cases hgt : size > f.sieve_buf_size
  · simp only [hgt, if_true]
    obtain ⟨g, e, hfr, d1, d2, d3, d4, d5⟩ := block_read_ok f addr size (by omega)
    rw [e]
    simp only [Option.map_some', Option.isSome_some, if_true, Option.getD_some]
    refine ⟨g, by rw [hlog], coherent_nobuf f g hc hfr (by rw [d2, hb]) d3 d4 d5, hfr, ?_⟩
    simp only [logical, d2, hb, d1]
  · simp only [hgt, if_false]
    obtain ⟨g1, e, c1, c2, c3⟩ :=
      new_window_read f { f with sieve_buf := some (H5FL_BLK_ALLOC f.sieve_buf_size) }
        md addr size (H5FL_BLK_ALLOC f.sieve_buf_size) hc ⟨rfl, rfl, rfl, rfl, rfl⟩ hlog.symm rfl (by simp [H5FL_BLK_ALLOC]) hmd hmdlt
        hin (by simp only; omega)
    rw [e]
    simp only [Option.map_some', Option.isSome_some, if_true, Option.getD_some]
    exact ⟨g1, rfl, c1, c2, c3⟩

/-- C34, a read inside the window. -/

theorem read_hit_case (f : H5F_t) (md addr size : Nat) (sb : List Nat) (hc : Coherent f)
    (hb : f.sieve_buf = some sb) (hpos : 0 < size)
    (hin : addr + size ≤ rel_eoa f)
    (h1 : f.sieve_loc ≤ addr) (h2 : addr + size ≤ f.sieve_loc + f.sieve_size) :
    ∃ f2, H5F_contig_read f md addr size =
        some (f2, herr_t.SUCCEED, ((logical f).drop addr).take size) ∧ Coherent f2 ∧
      Frame f f2 ∧ logical f2 = logical f := by
  have hR := rel_eoa_lt f
  have hcap := hc.cap sb hb
  have hsz := hc.size_le
  have hw := window_no_wrap f hc
  rw [contig_read_hit f md addr size sb hc.sieve hb hw hpos (by omega) h1 h2 (by omega)]
  refine ⟨f, ?_, hc, frame_refl f, rfl⟩
  have : (sb.drop (addr - f.sieve_loc)).take size = ((logical f).drop addr).take size := by
    apply drop_take_ext
    intro j hj
    rw [logical_get f sb hc hb, if_pos (by omega)]
    have hidx : addr + j - f.sieve_loc = addr - f.sieve_loc + j := by omega
    rw [hidx]
  rw [this]

/-- C34, a read larger than the sieve buffer when a buffer exists. -/

theorem read_direct_case (f : H5F_t) (md addr size : Nat) (sb : List Nat) (hc : Coherent f)
    (hb : f.sieve_buf = some sb) (hpos : 0 < size)
    (hin : addr + size ≤ rel_eoa f) (hgt : size > f.sieve_buf_size) :
    ∃ f2, H5F_contig_read f md addr size =
        some (f2, herr_t.SUCCEED, ((logical f).drop addr).take size) ∧ Coherent f2 ∧
      Frame f f2 ∧ logical f2 = logical f := by
  have hR := rel_eoa_lt f
  have hdisk := hc.eoa_disk
  have hcap := hc.cap sb hb
  have hsz := hc.size_le
  have hw := window_no_wrap f hc
  obtain ⟨ea, eb, _, _⟩ := contig_end_eq addr size hpos (by omega)
  have hout : within_sieve (stash f) (add64 addr 0) (sub64 (add64 (add64 addr 0) size) 1) =
      false := by
    cases hwi : within_sieve (stash f) (add64 addr 0) (sub64 (add64 (add64 addr 0) size) 1) with
    | false => rfl
    | true =>
      have := (within_iff f addr size hw hpos (by omega)).1 hwi
      omega
  rw [contig_read_miss f md addr size sb hc.sieve hb hout, ea]
  simp only [readv_miss, hgt, if_true]
  unfold readv_direct
  by_cases hov : overlap_check (stash f) addr (sub64 (add64 addr size) 1) = true
  · simp only [hov, if_true]
    obtain ⟨g, e, hfr, g1, g2, g3, g4, g5⟩ := flush_ok f sb hc hb
    obtain ⟨cg, lg⟩ := flush_coherent f g sb hc hb hfr g1 g2 g3 g4 g5
    rw [e]
    simp only
    have hglen : g.lf.data.length = f.lf.data.length := hfr.2.2.2.2
    obtain ⟨g', e2, _, d1, d2, d3, d4, d5⟩ := block_read_ok g addr size (by omega)
    have hlf : g'.lf = g.lf := (block_read_fields g addr size).2.2.2.2.2.2.1 ▸ by rw [e2]
    have hba : g'.base_addr = g.base_addr := by
      have := (block_read_fields g addr size).2.2.2.2.2.1
      rw [e2] at this; exact this
    have hbs : g'.sieve_buf_size = g.sieve_buf_size := by
      have := (block_read_fields g addr size).2.2.2.2.1
      rw [e2] at this; exact this
    obtain ⟨c1, c2, c3⟩ := coherent_of_fields g g' cg hlf hba d2 d3 d4 d5 hbs
    rw [e2]
    simp only [Option.map_some', Option.isSome_some, if_true, Option.getD_some]
    exact ⟨g', by rw [g5], c1, frame_trans f g g' hfr c2, by rw [c3, lg]⟩
  · have hov2 : overlap_check (stash f) addr (sub64 (add64 addr size) 1) = false := by
      simpa using hov
    simp only [hov2, Bool.false_eq_true, if_false]
    obtain ⟨g', e2, _, d1, d2, d3, d4, d5⟩ := block_read_ok f addr size (by omega)
    have hlf : g'.lf = f.lf := by
      have := (block_read_fields f addr size).2.2.2.2.2.2.1
      rw [e2] at this; exact this
    have hba : g'.base_addr = f.base_addr := by
      have := (block_read_fields f addr size).2.2.2.2.2.1
      rw [e2] at this; exact this
    have hbs : g'.sieve_buf_size = f.sieve_buf_size := by
      have := (block_read_fields f addr size).2.2.2.2.1
      rw [e2] at this; exact this
    obtain ⟨c1, c2, c3⟩ := coherent_of_fields f g' hc hlf hba d2 d3 d4 d5 hbs
    rw [e2]
    simp only [Option.map_some', Option.isSome_some, if_true, Option.getD_some]
    refine ⟨g', ?_, c1, c2, c3⟩
    have hdis : 0 < f.sieve_size → f.sieve_loc + f.sieve_size ≤ addr ∨ addr + size ≤ f.sieve_loc :=
      fun hss => no_overlap_disjoint f addr size hw (by omega) hss (by omega) hov2
    have : (f.lf.data.drop addr).take size = ((logical f).drop addr).take size := by
      apply drop_take_ext
      intro j hj
      rw [logical_get f sb hc hb]
      by_cases hss : 0 < f.sieve_size
      · have := hdis hss
        rw [if_neg (by omega)]
      · rw [if_neg (by omega)]
    rw [this]

/-- C34, a read that fits the sieve buffer and is not inside the window. -/

theorem read_fit_case (f : H5F_t) (md addr size : Nat) (sb : List Nat) (hc : Coherent f)
    (hb : f.sieve_buf = some sb) (hpos : 0 < size) (hmd : size ≤ md) (hmdlt : md < HADDR_MOD)
    (hin : addr + size ≤ rel_eoa f) (hfit : ¬ size > f.sieve_buf_size)
    (hout : within_sieve (stash f) (add64 addr 0) (sub64 (add64 (add64 addr 0) size) 1) =
      false) :
    ∃ f2, H5F_contig_read f md addr size =
        some (f2, herr_t.SUCCEED, ((logical f).drop addr).take size) ∧ Coherent f2 ∧
      Frame f f2 ∧ logical f2 = logical f := by
  have hR := rel_eoa_lt f
  have hcap := hc.cap sb hb
  obtain ⟨ea, eb, _, ed⟩ := contig_end_eq addr size hpos (by omega)
  rw [contig_read_miss f md addr size sb hc.sieve hb hout, ea]
  simp only [readv_miss, hfit, if_false]
  unfold readv_replace
  obtain ⟨g, e, hfr, g1, g2, g3, g4, g5⟩ := flush_ok f sb hc hb
  rw [e]
  simp only
  obtain ⟨g1', e1, c1, c2, c3⟩ := new_window_read f g md addr size sb hc hfr
    g5 g1 (by rw [hfr.2.2.2.1]; exact hcap) hmd hmdlt hin (by rw [hfr.2.2.2.1]; omega)
  rw [e1]
  simp only [Option.map_some', Option.isSome_some, if_true, Option.getD_some]
  exact ⟨g1', rfl, c1, c2, c3⟩

/-- A freshly opened file is coherent: no sieve buffer, an empty clean
window, a driver that does data sieving and reports an end of allocation the
disk reaches. -/

theorem coherent_fresh (f : H5F_t) (h1 : f.lf.data_sieve = true)
    (h2 : H5FD_get_eoa f.lf ≠ HADDR_UNDEF) (h3 : rel_eoa f ≤ f.lf.data.length)
    (h4 : f.sieve_buf = none) (h5 : f.sieve_loc < HADDR_MOD) (h6 : f.sieve_size = 0)
    (h7 : f.sieve_dirty = false) : Coherent f := by
  refine ⟨h1, h2, h3, h5, ?_, by rw [h6]; exact Nat.zero_le _, ?_, ?_, ?_⟩
  · intro sb h; rw [h4] at h; cases h
  · intro h; rw [h6] at h; exact absurd h (Nat.lt_irrefl 0)
  · intro h; rw [h7] at h; cases h
  · intro sb h; rw [h4] at h; cases h

/-- A single-range write in range on a coherent file succeeds, leaves a
coherent file and changes the logical contents exactly on the written
range. -/

theorem write_call (f : H5F_t) (md addr size : Nat) (buf : List Nat) (hc : Coherent f)
    (hpos : 0 < size) (hmd : size ≤ md) (hmdlt : md < HADDR_MOD)
    (hin : addr + size ≤ rel_eoa f) (hbuf : size ≤ buf.length) :
    ∃ f2, H5F_contig_write f md addr size buf = some (f2, herr_t.SUCCEED) ∧ Coherent f2 ∧
      Frame f f2 ∧ logical f2 = overlay (logical f) addr (buf.take size) := by
  have hR := rel_eoa_lt f
  have hw := window_no_wrap f hc
  cases hb : f.sieve_buf with
  | none => exact write_nobuf_case f md addr size buf hc hb hpos hmd hmdlt hin hbuf
  | some sb =>
    cases hwi : within_sieve (stash f) (add64 addr 0) (sub64 (add64 (add64 addr 0) size) 1) with
    | true =>
      obtain ⟨h1, h2⟩ := (within_iff f addr size hw hpos (by omega)).1 hwi
      exact write_hit_case f md addr size buf sb hc hb hpos hin hbuf h1 h2
    | false =>
      by_cases hgt : size > f.sieve_buf_size
      · exact write_direct_case f md addr size buf sb hc hb hpos hin hbuf hgt
      · exact write_fit_case f md addr size buf sb hc hb hpos hmd hmdlt hin hbuf hgt hwi

/-- A single-range read in range on a coherent file succeeds with the logical
bytes of its range, leaves a coherent file and does not change the logical
contents. -/

theorem read_call (f : H5F_t) (md addr size : Nat) (hc : Coherent f)
    (hpos : 0 < size) (hmd : size ≤ md) (hmdlt : md < HADDR_MOD)
    (hin : addr + size ≤ rel_eoa f) :
    ∃ f2, H5F_contig_read f md addr size =
        some (f2, herr_t.SUCCEED, ((logical f).drop addr).take size) ∧ Coherent f2 ∧
      Frame f f2 ∧ logical f2 = logical f := by
  have hR := rel_eoa_lt f
  have hw := window_no_wrap f hc
  cases hb : f.sieve_buf with
  | none => exact read_nobuf_case f md addr size hc hb hpos hmd hmdlt hin
  | some sb =>
    cases hwi : within_sieve (stash f) (add64 addr 0) (sub64 (add64 (add64 addr 0) size) 1) with
    | true =>
      obtain ⟨h1, h2⟩ := (within_iff f addr size hw hpos (by omega)).1 hwi
      exact read_hit_case f md addr size sb hc hb hpos hin h1 h2
    | false =>
      by_cases hgt : size > f.sieve_buf_size
      · exact read_direct_case f md addr size sb hc hb hpos hin hgt
      · exact read_fit_case f md addr size sb hc hb hpos hmd hmdlt hin hgt hwi

/-- Single-range calls in range on a coherent file all succeed and do what
they do to a file without a cache. -/

theorem sieve_calls_plain : ∀ (calls : List SieveCall) (f : H5F_t), Coherent f →
    (∀ c ∈ calls, call_in_range (rel_eoa f) c) →
    ∃ f2, sieve_calls f calls = some (f2, (plain_calls (logical f) calls).2) ∧ Coherent f2 ∧
      logical f2 = (plain_calls (logical f) calls).1 := by
  intro calls
  induction calls with
  | nil =>
    intro f hc _
    exact ⟨f, rfl, hc, rfl⟩
  | cons c rest ih =>
    intro f hc hr
    have hc0 := hr c (List.mem_cons_self _ _)
    have hrest : ∀ f2, Frame f f2 → ∀ c ∈ rest, call_in_range (rel_eoa f2) c := by
      intro f2 hfr c2 hc2
      rw [frame_rel_eoa f f2 hfr]
      exact hr c2 (List.mem_cons_of_mem _ hc2)
    cases c with
    | write md addr buf =>
      obtain ⟨p1, p2, p3, p4⟩ := hc0
      obtain ⟨f2, e, c2, hfr, l2⟩ := write_call f md addr buf.length buf hc p1 p2 p3 p4 (le_refl _)
      rw [List.take_length] at l2
      obtain ⟨f3, e3, c3, l3⟩ := ih f2 c2 (hrest f2 hfr)
      refine ⟨f3, ?_, c3, ?_⟩
      · simp only [sieve_calls, e, plain_calls]
        rw [e3, l2]
      · simp only [plain_calls]
        rw [l3, l2]
    | read md addr size =>
      obtain ⟨p1, p2, p3, p4⟩ := hc0
      obtain ⟨f2, e, c2, hfr, l2⟩ := read_call f md addr size hc p1 p2 p3 p4
      obtain ⟨f3, e3, c3, l3⟩ := ih f2 c2 (hrest f2 hfr)
      refine ⟨f3, ?_, c3, ?_⟩
      · simp only [sieve_calls, e, plain_calls]
        rw [e3, l2]
        rfl
      · simp only [plain_calls]
        rw [l3, l2]

/-- C34 (`H5F_contig_read`, lines 238-256; `H5F_contig_write`, lines 276-293;
`H5F_contig_writev`, lines 1000-1166).  On a coherent sieve state (any state
the calls reach from a freshly opened file of a driver that does data sieving
and reports an end of allocation the disk reaches), for ranges that are not
empty, lie inside the dataset extent and below the end of allocation: every
single-range write succeeds and changes the logical file (the disk overlaid
with the cached window when it is dirty) exactly on the written range; every
single-range read succeeds, returns the logical bytes of its range and does
not change the logical file; and so every sequence of such calls succeeds,
each read returning for every byte the value most recently written to that
address, or the initial byte if none. -/

theorem C34_single_range_round_trip (f : H5F_t) (hc : Coherent f) :
    (∀ md addr buf, call_in_range (rel_eoa f) (SieveCall.write md addr buf) →
      ∃ f2, H5F_contig_write f md addr buf.length buf = some (f2, herr_t.SUCCEED) ∧
        Coherent f2 ∧ rel_eoa f2 = rel_eoa f ∧ logical f2 = overlay (logical f) addr buf) ∧
    (∀ md addr size, call_in_range (rel_eoa f) (SieveCall.read md addr size) →
      ∃ f2, H5F_contig_read f md addr size =
          some (f2, herr_t.SUCCEED, ((logical f).drop addr).take size) ∧
        Coherent f2 ∧ rel_eoa f2 = rel_eoa f ∧ logical f2 = logical f) ∧
    (∀ calls : List SieveCall, (∀ c ∈ calls, call_in_range (rel_eoa f) c) →
      ∃ f2, sieve_calls f calls = some (f2, (plain_calls (logical f) calls).2) ∧ Coherent f2 ∧
        logical f2 = (plain_calls (logical f) calls).1) := by
  refine ⟨?_, ?_, fun calls hr => sieve_calls_plain calls f hc hr⟩
  · intro md addr buf ⟨p1, p2, p3, p4⟩
    obtain ⟨f2, e, c2, hfr, l2⟩ := write_call f md addr buf.length buf hc p1 p2 p3 p4 (le_refl _)
    rw [List.take_length] at l2
    exact ⟨f2, e, c2, frame_rel_eoa f f2 hfr, l2⟩
  · intro md addr size ⟨p1, p2, p3, p4⟩
    obtain ⟨f2, e, c2, hfr, l2⟩ := read_call f md addr size hc p1 p2 p3 p4
    exact ⟨f2, e, c2, frame_rel_eoa f f2 hfr, l2⟩

/-- C34 at the freshly opened file of 20 bytes with a sieve buffer of 4
bytes and the calls of `c34_calls`: the reads return `[6, 111, 7, 113, 114,
115]`, `[113, 114]` and `[100, 101, 102]`. -/

theorem C34_single_range_round_trip_witness :
    (sieve_calls (demo_sieve_file 20 4) c34_calls).map (fun r => r.2) =
      some [[6, 111, 7, 113, 114, 115], [113, 114], [100, 101, 102]] ∧
    (plain_calls (logical (demo_sieve_file 20 4)) c34_calls).2 =
      [[6, 111, 7, 113, 114, 115], [113, 114], [100, 101, 102]] ∧
    ∃ f2, sieve_calls (demo_sieve_file 20 4) c34_calls =
        some (f2, (plain_calls (logical (demo_sieve_file 20 4)) c34_calls).2) ∧ Coherent f2 ∧
      logical f2 = (plain_calls (logical (demo_sieve_file 20 4)) c34_calls).1 :=
  ⟨by decide, by decide,
    (C34_single_range_round_trip (demo_sieve_file 20 4)
      (coherent_fresh _ (by decide) (by decide) (by decide) (by decide) (by decide) (by decide)
        (by decide))).2.2 c34_calls (by decide)⟩

end H5F
